import Mathlib

/-!
# The SCSS document parser (`src/document_parser.cpp`)

A shallow embedding of `Sass::Document`'s recursive-descent parser and theorems
about it.

* The source buffer is a `List Char`; the terminating NUL of the C string is the
  end of the list, so "the byte at `p` is NUL" reads "`src.drop p = []`".
* Pointers into the buffer are offsets (`Nat`); a pointer that may be null is an
  `Option Nat`.
* `Node` is a tree value.  The C++ `Node` is a handle to a shared, mutable
  implementation object; every in-place update of the source
  (`n.should_eval() = true`, `n << child`, `rule[0] = ...`) is an update of the
  value that is then passed on.
* Every production is one case of the function `parse`, which recurses on a fuel
  argument: a call of another production, and one turn of a loop, each take one
  unit of fuel.
-/

namespace Sass

/-! ## The lexical layer -/

namespace Prelexer

/-- Modelled from the spec: the type of a lexical combinator (§4.1, "a pure function
from byte position → byte position or miss").  The position is the suffix of the
buffer that starts there; a match returns the suffix that starts at its end. -/
abbrev prelexer := List Char → Option (List Char)

/-- Modelled from the spec: `std::isspace` in the C locale. -/
def isspace (c : Char) : Bool := c = ' ' || (9 ≤ c.toNat && c.toNat ≤ 13)

/-- Modelled from the spec: `std::isdigit`. -/
def isdigit (c : Char) : Bool := 48 ≤ c.toNat && c.toNat ≤ 57

/-- Modelled from the spec: `std::isalpha` in the C locale. -/
def isalpha (c : Char) : Bool :=
  (65 ≤ c.toNat && c.toNat ≤ 90) || (97 ≤ c.toNat && c.toNat ≤ 122)

/-- Modelled from the spec: `std::isalnum`. -/
def isalnum (c : Char) : Bool := isalpha c || isdigit c

/-- Modelled from the spec: `std::isxdigit`. -/
def isxdigit (c : Char) : Bool :=
  isdigit c || (65 ≤ c.toNat && c.toNat ≤ 70) || (97 ≤ c.toNat && c.toNat ≤ 102)

/-- Modelled from the spec: a single byte satisfying a character-class predicate
(§4.1 "character-class matches"). -/
def satisfy (pred : Char → Bool) : prelexer
  | c :: rest => if pred c then some rest else none
  | [] => none

/-- Modelled from the spec: `exactly<c>` "matches a single byte" (§4.1). -/
def exactly (pre : Char) : prelexer
  | c :: rest => if c = pre then some rest else none
  | [] => none

/-- Modelled from the spec: `exactly<str>`, the literal match of a string constant
(§4.1 "literal matches"). -/
def exactly_s : List Char → prelexer
  | [], src => some src
  | p :: pre, c :: rest => if c = p then exactly_s pre rest else none
  | _ :: _, [] => none

/-- Modelled from the spec: `class_char<chars>`, one byte out of a set. -/
def class_char (char_class : List Char) : prelexer
  | c :: rest => if char_class.contains c then some rest else none
  | [] => none

/-- Modelled from the spec: `sequence<A,B,…>` "succeeds iff each succeeds
contiguously" (§4.1). -/
def sequence : List prelexer → prelexer
  | [], src => some src
  | mx :: mxs, src =>
    match mx src with
    | some rest => sequence mxs rest
    | none => none

/-- Modelled from the spec: `alternatives<A,B,…>` "tries in order" (§4.1). -/
def alternatives : List prelexer → prelexer
  | [], _ => none
  | mx :: mxs, src =>
    match mx src with
    | some rest => some rest
    | none => alternatives mxs src

/-- Modelled from the spec: `negate<A>` "succeeds iff `A` fails at the current byte
(it does not consume)" (§4.1). -/
def negate (mx : prelexer) : prelexer := fun src =>
  match mx src with
  | some _ => none
  | none => some src

/-- Modelled from the spec: `optional<A>` "always succeeds, consuming `A` if
present" (§4.1). -/
def optional (mx : prelexer) : prelexer := fun src =>
  match mx src with
  | some rest => some rest
  | none => some src

/-- The loop of `zero_plus` and `one_plus`: apply `mx` until it misses.  The fuel
bounds the number of turns; every instance in this program is given a matcher that
consumes at least one byte and fuel for more turns than there are bytes. -/
def star (mx : prelexer) : Nat → List Char → List Char
  | 0, src => src
  | fuel + 1, src =>
    match mx src with
    | some rest => star mx fuel rest
    | none => src

/-- Modelled from the spec: `zero_plus<A>`, the Kleene star (§4.1). -/
def zero_plus (mx : prelexer) : prelexer := fun src =>
  some (star mx (src.length + 1) src)

/-- Modelled from the spec: `one_plus<A>`, one or more matches of `A`. -/
def one_plus (mx : prelexer) : prelexer := fun src =>
  match mx src with
  | some rest => some (star mx (rest.length + 1) rest)
  | none => none

/-- The scan of `delimited_by` after the opening delimiter: the first occurrence
of `stop` ends the match, unless `esc` is set and the byte before it is a
backslash.  `prev` is the byte before the cursor. -/
def delimited_scan (stop : List Char) (esc : Bool) : Nat → Char → List Char → Option (List Char)
  | 0, _, _ => none
  | _ + 1, _, [] => none
  | fuel + 1, prev, c :: rest =>
    match exactly_s stop (c :: rest) with
    | some after =>
      if !esc || prev != '\\' then some after
      else delimited_scan stop esc fuel (stop.getLastD prev) after
    | none => delimited_scan stop esc fuel c rest

/-- Modelled from the spec: `delimited_by<beg, end, esc>`, a span from `beg` to the
first `end` after it (the first unescaped one when `esc` is set): string constants
"(escapes preserved literally)" and interpolants, "`#{` … matching `}` with
balanced braces irrelevant (inner `}` closes the first one)" (§4.1). -/
def delimited_by (beg stop : List Char) (esc : Bool) : prelexer := fun src =>
  match exactly_s beg src with
  | some rest => delimited_scan stop esc (rest.length + 1) (beg.getLastD ' ') rest
  | none => none

/-- Modelled from the spec: the rest of a line, up to and without the newline. -/
def to_endl (pre : List Char) : prelexer := fun src =>
  match exactly_s pre src with
  | some rest => some (rest.dropWhile (fun c => c != '\n'))
  | none => none

def space : prelexer := satisfy isspace
def alpha : prelexer := satisfy isalpha
def digit : prelexer := satisfy isdigit
def xdigit : prelexer := satisfy isxdigit
def alnum : prelexer := satisfy isalnum
def spaces : prelexer := one_plus space
def digits : prelexer := one_plus digit

/-- Modelled from the spec: any one byte but NUL. -/
def any_char : prelexer
  | _ :: rest => some rest
  | [] => none

/-- Modelled from the spec: any one byte but `c` and NUL. -/
def any_char_except (c : Char) : prelexer
  | x :: rest => if x = c then none else some rest
  | [] => none

def slash_slash : List Char := ['/', '/']
def slash_star : List Char := ['/', '*']
def star_slash : List Char := ['*', '/']
def hash_lbrace : List Char := ['#', '{']
def rbrace : List Char := ['}']

def optional_spaces : prelexer := optional spaces
def line_comment : prelexer := to_endl slash_slash

/-- Modelled from the spec: a block comment `/* … */`, with the spaces before it. -/
def block_comment : prelexer :=
  sequence [optional_spaces, delimited_by slash_star star_slash false]

def comment : prelexer := alternatives [block_comment, line_comment]

def spaces_and_comments : prelexer := zero_plus (alternatives [spaces, comment])

def no_spaces : prelexer := negate spaces

def double_quoted_string : prelexer := delimited_by ['"'] ['"'] true
def single_quoted_string : prelexer := delimited_by ['\''] ['\''] true

/-- Modelled from the spec: "string constants are either `"…"` or `'…'`" (§4.1). -/
def string_constant : prelexer := alternatives [double_quoted_string, single_quoted_string]

/-- Modelled from the spec: "interpolants are `#{` … matching `}`" (§4.1). -/
def interpolant : prelexer := delimited_by hash_lbrace rbrace false

def backslash_something : prelexer := sequence [exactly '\\', any_char]

/-- Modelled from the spec: "identifiers permit `-` internally" (§4.1): an optional
leading `-` (the vendor prefix of CSS), a letter or `_`, then letters, digits, `-`
and `_`; a backslash escapes one byte. -/
def identifier : prelexer :=
  sequence [optional (exactly '-'),
            alternatives [alpha, exactly '_', backslash_something],
            zero_plus (alternatives [alnum, exactly '-', exactly '_', backslash_something])]

/-- Modelled from the spec: a name (after `#`): letters, digits, `-`, `_`, `\`. -/
def name : prelexer :=
  one_plus (alternatives [alnum, exactly '-', exactly '_', exactly '\\'])

def sign : prelexer := class_char ['-', '+']

def unsigned_number : prelexer :=
  alternatives [sequence [zero_plus digits, exactly '.', one_plus digits], digits]

/-- Modelled from the spec: "numbers accept an optional sign and a fractional part"
(§4.1). -/
def number : prelexer := sequence [optional sign, unsigned_number]

def coefficient : prelexer := alternatives [sequence [optional sign, digits], sign]

/-- Modelled from the spec: the binomial `an+b` of a functional pseudo-class. -/
def binomial : prelexer :=
  sequence [optional sign, optional digits, exactly 'n', optional_spaces,
            sign, optional_spaces, digits]

/-- Modelled from the spec: "percentages are `number`+`%`" (§4.1). -/
def percentage : prelexer := sequence [number, exactly '%']

/-- Modelled from the spec: "dimensions are `number`+`identifier`-unit with no
whitespace" (§4.1). -/
def dimension : prelexer := sequence [number, identifier]

/-- Modelled from the spec: "hex colors are `#` followed by 3 or 6 hex digits"
(§4.1). -/
def hex : prelexer := fun src =>
  match sequence [exactly '#', one_plus xdigit] src with
  | some rest =>
    if src.length - rest.length = 4 || src.length - rest.length = 7 then some rest else none
  | none => none

/-- Modelled from the spec: "variables are `$` + identifier" (§4.1). -/
def variable_ : prelexer := sequence [exactly '$', identifier]

def identifier_schema : prelexer :=
  one_plus (sequence [zero_plus identifier, interpolant, zero_plus identifier])

/-- Modelled from the spec: "a mixed textual/interpolant form" (§4.5): runs of
literal tokens around at least one interpolant, without whitespace. -/
def value_schema : prelexer :=
  one_plus (sequence
    [zero_plus (alternatives [identifier, percentage, dimension, hex, number, string_constant]),
     interpolant,
     zero_plus (alternatives [identifier, percentage, dimension, hex, number, string_constant])])

def directive : prelexer := sequence [exactly '@', identifier]
def import_ : prelexer := exactly_s "@import".toList
def media : prelexer := exactly_s "@media".toList
def mixin : prelexer := exactly_s "@mixin".toList
def function : prelexer := exactly_s "@function".toList
def return_directive : prelexer := exactly_s "@return".toList
def include_ : prelexer := exactly_s "@include".toList
def extend : prelexer := exactly_s "@extend".toList
def if_directive : prelexer := exactly_s "@if".toList
def else_directive : prelexer := exactly_s "@else".toList
def elseif_directive : prelexer :=
  sequence [else_directive, spaces_and_comments, exactly_s "if".toList]
def for_directive : prelexer := exactly_s "@for".toList
def from_ : prelexer := exactly_s "from".toList
def to_ : prelexer := exactly_s "to".toList
def through : prelexer := exactly_s "through".toList
def each_directive : prelexer := exactly_s "@each".toList
def in_ : prelexer := exactly_s "in".toList
def while_directive : prelexer := exactly_s "@while".toList
def warn : prelexer := exactly_s "@warn".toList

def namespace_prefix : prelexer :=
  sequence [optional (alternatives [identifier, exactly '*']), exactly '|']
def type_selector : prelexer := sequence [optional namespace_prefix, identifier]
def universal : prelexer := sequence [optional namespace_prefix, exactly '*']
def id_name : prelexer := sequence [exactly '#', name]
def class_name : prelexer := sequence [exactly '.', identifier]

def uri_prefix : prelexer := exactly_s "url(".toList
def important : prelexer :=
  sequence [exactly '!', spaces_and_comments, exactly_s "important".toList]
def default_flag : prelexer :=
  sequence [exactly '!', spaces_and_comments, exactly_s "default".toList]
def pseudo_prefix : prelexer := sequence [exactly ':', optional (exactly ':')]
def functional : prelexer := sequence [identifier, exactly '(']
def pseudo_not : prelexer := exactly_s ":not(".toList
def even : prelexer := exactly_s "even".toList
def odd : prelexer := exactly_s "odd".toList

def exact_match : prelexer := exactly '='
def class_match : prelexer := exactly_s "~=".toList
def dash_match : prelexer := exactly_s "|=".toList
def prefix_match : prelexer := exactly_s "^=".toList
def suffix_match : prelexer := exactly_s "$=".toList
def substring_match : prelexer := exactly_s "*=".toList

def and_kwd : prelexer := exactly_s "and".toList
def or_kwd : prelexer := exactly_s "or".toList
def not_kwd : prelexer := exactly_s "not".toList
def only_kwd : prelexer := exactly_s "only".toList
def true_kwd : prelexer := exactly_s "true".toList
def false_kwd : prelexer := exactly_s "false".toList

def eq_op : prelexer := exactly_s "==".toList
def neq_op : prelexer := exactly_s "!=".toList
def gt_op : prelexer := exactly '>'
def gte_op : prelexer := exactly_s ">=".toList
def lt_op : prelexer := exactly '<'
def lte_op : prelexer := exactly_s "<=".toList

def folder : prelexer := sequence [zero_plus (any_char_except '/'), exactly '/']
def folders : prelexer := zero_plus folder

end Prelexer


/-! ## Nodes, tokens and the document -/

/-- The kind tag of a node (`Node::Type`), as listed in the spec, §3. -/
inductive NodeType where
  | root | block | ruleset | rule | propset | selector_group | selector
  | simple_selector_sequence | simple_selector | selector_combinator | selector_schema
  | backref | attribute_selector | pseudo | pseudo_negation | functional_pseudo
  | assignment | mixin | function | parameters | expansion | arguments
  | return_directive | if_directive | for_to_directive | for_through_directive
  | each_directive | while_directive | warning | blockless_directive | block_directive
  | media_query | media_expression | media_expression_group | css_import | comment
  | comma_list | space_list | disjunction | conjunction | relation | expression | term
  | unary_plus | unary_minus | add | sub | mul | div | eq | neq | gt | gte | lt | lte
  | identifier | variable_ | value | property | string_constant | string_schema
  | identifier_schema | value_schema | textual_number | textual_percentage
  | textual_dimension | textual_hex | uri | boolean | important | nil | function_call
  | none
  deriving DecidableEq, Repr

/-- Modelled from the spec: a token, "a half-open byte range `[begin, end)` referencing
the source buffer" (§3); `Token::make()` is the null token. -/
structure Token where
  begin : Nat
  end_ : Nat
  deriving DecidableEq, Repr

def Token.make : Token := ⟨0, 0⟩

/-- Modelled from the spec: a node (§3): kind tag, source path, line number, token (for
leaves; for a `boolean` leaf the truth value), child nodes and the `should_eval`
flag. -/
structure Node where
  type : NodeType
  path : List Char
  line : Nat
  token : Token
  boolean_value : Bool
  should_eval : Bool
  children : List Node
  deriving Repr

namespace Node

mutual

/-- Equality of nodes is decidable. -/
def decEq : (a b : Node) → Decidable (a = b)
  | ⟨t1, p1, l1, k1, b1, s1, c1⟩, ⟨t2, p2, l2, k2, b2, s2, c2⟩ =>
    if h1 : t1 = t2 then
      if h2 : p1 = p2 then
        if h3 : l1 = l2 then
          if h4 : k1 = k2 then
            if h5 : b1 = b2 then
              if h6 : s1 = s2 then
                match decEqList c1 c2 with
                | isTrue h7 => isTrue (by rw [h1, h2, h3, h4, h5, h6, h7])
                | isFalse h7 => isFalse (by intro h; injection h with _ _ _ _ _ _ h; exact h7 h)
              else isFalse (by intro h; injection h with _ _ _ _ _ h _; exact h6 h)
            else isFalse (by intro h; injection h with _ _ _ _ h _ _; exact h5 h)
          else isFalse (by intro h; injection h with _ _ _ h _ _ _; exact h4 h)
        else isFalse (by intro h; injection h with _ _ h _ _ _ _; exact h3 h)
      else isFalse (by intro h; injection h with _ h _ _ _ _ _; exact h2 h)
    else isFalse (by intro h; injection h with h _ _ _ _ _ _; exact h1 h)
termination_by structural a => a

/-- Equality of lists of nodes is decidable. -/
def decEqList : (as bs : List Node) → Decidable (as = bs)
  | [], [] => isTrue rfl
  | [], _ :: _ => isFalse (by intro h; cases h)
  | _ :: _, [] => isFalse (by intro h; cases h)
  | a :: as, b :: bs =>
    match decEq a b with
    | isTrue h1 =>
      match decEqList as bs with
      | isTrue h2 => isTrue (by rw [h1, h2])
      | isFalse h2 => isFalse (by intro h; injection h with _ h; exact h2 h)
    | isFalse h1 => isFalse (by intro h; injection h with h _; exact h1 h)
termination_by structural as => as
end

instance : DecidableEq Node := decEq

/-- Modelled from the spec: `n << child` appends a child. -/
def push_back (n child : Node) : Node := { n with children := n.children ++ [child] }

/-- Modelled from the spec: `n.push_front(child)` prepends a child. -/
def push_front (n child : Node) : Node := { n with children := child :: n.children }

/-- Modelled from the spec: `n += m` appends the children of `m` ("splice its root's
children into the current block", §4.3). -/
def append (n m : Node) : Node := { n with children := n.children ++ m.children }

def empty (n : Node) : Bool := n.children.isEmpty

def size (n : Node) : Nat := n.children.length

/-- The update `n.should_eval() = b`. -/
def set_should_eval (n : Node) (b : Bool) : Node := { n with should_eval := b }

/-- The update `n[0].should_eval() = true`. -/
def set_first_should_eval (n : Node) : Node :=
  match n.children with
  | c :: cs => { n with children := c.set_should_eval true :: cs }
  | [] => n

end Node

/-- Modelled from the spec: the two failure kinds of §7, syntax error (message and
line) and read error; `out_of_fuel` is the embedding's own, for a recursion cut off by
the fuel; `undefined` stands for a run that dereferences a null pointer. -/
inductive Error where
  | syntax_error (message : String) (line : Nat)
  | read_error (path : List Char)
  | out_of_fuel
  | undefined
  deriving DecidableEq, Repr

/-- Equality of results is decidable. -/
instance {ε α : Type} [DecidableEq ε] [DecidableEq α] : DecidableEq (Except ε α)
  | .ok a, .ok b =>
    if h : a = b then isTrue (by rw [h]) else isFalse (by intro h1; injection h1 with h1; exact h h1)
  | .error a, .error b =>
    if h : a = b then isTrue (by rw [h]) else isFalse (by intro h1; injection h1 with h1; exact h h1)
  | .ok _, .error _ => isFalse (by intro h; cases h)
  | .error _, .ok _ => isFalse (by intro h; cases h)

/-- Modelled from the spec: the parse context (§6): the files that the loader can read
(path and content), and the extension registry, "a multimap from an extendee
selector-sequence node to the surrounding_ruleset in which the `@extend` was found" (§3),
in insertion order. -/
structure Context where
  files : List (List Char × List Char)
  extensions : List (Node × Node)
  has_extensions : Bool
  deriving DecidableEq

/-- Modelled from the spec: the loader, "`load(logical_path) → (buffer, canonical_path)`"
(§6); a path that is not among the files fails to load. -/
def Context.load (c : Context) (path : List Char) : Option (List Char) :=
  c.files.lookup path

/-- The parser's state, `Sass::Document`: path, buffer, the cursor `position`, the
`end` of the buffer, the current `line`, the last matched span `lexed`, and the shared
context.  The root node is the result of `parse_scss`. -/
structure Document where
  path : List Char
  source : List Char
  position : Nat
  end_ : Nat
  line : Nat
  lexed : Token
  context : Context
  deriving DecidableEq

/-- The result of the look-ahead arbiter. -/
structure Selector_Lookahead where
  found : Option Nat
  has_interpolants : Bool
  deriving DecidableEq, Repr

/-- A parse routine: from a document state, an error or a result and the new state. -/
def Parser (α : Type) : Type := Document → Except Error (α × Document)

namespace Parser

def pure {α : Type} (a : α) : Parser α := fun d => .ok (a, d)

def bind {α β : Type} (x : Parser α) (f : α → Parser β) : Parser β := fun d =>
  match x d with
  | .ok (a, d1) => f a d1
  | .error e => .error e

instance : Monad Parser where
  pure := Parser.pure
  bind := Parser.bind

end Parser

/-- Modelled from the spec: `throw_syntax_error`, "a message string, source path, and
line number" (§7). -/
def throw_syntax_error {α : Type} (message : String) : Parser α := fun d =>
  .error (.syntax_error message d.line)

/-- The text of a token in a buffer. -/
def Token.text (src : List Char) (t : Token) : List Char :=
  (src.drop t.begin).take (t.end_ - t.begin)

/-- Modelled from the spec: `new_Node(kind, path, line, capacity)`, an internal node
without children (§6). -/
def new_Node (type : NodeType) : Parser Node := fun d =>
  .ok (⟨type, d.path, d.line, Token.make, false, false, []⟩, d)

/-- The same, at a line recorded earlier. -/
def new_Node_at (type : NodeType) (line : Nat) : Parser Node := fun d =>
  .ok (⟨type, d.path, line, Token.make, false, false, []⟩, d)

/-- Modelled from the spec: `new_Node(kind, path, line, token)`, a leaf (§6). -/
def new_Node_token (type : NodeType) (t : Token) : Parser Node := fun d =>
  .ok (⟨type, d.path, d.line, t, false, false, []⟩, d)

/-- The leaf for the span matched last: `new_Node(kind, path, line, lexed)`. -/
def new_Node_lexed (type : NodeType) : Parser Node := fun d =>
  .ok (⟨type, d.path, d.line, d.lexed, false, false, []⟩, d)

/-- Modelled from the spec: `new_Node(Node::boolean, path, line, b)`. -/
def new_Node_boolean (b : Bool) : Parser Node := fun d =>
  .ok (⟨.boolean, d.path, d.line, Token.make, b, false, []⟩, d)

/-! ## `peek` and `lex` -/

open Prelexer

/-- The offset at which a suffix of the buffer starts. -/
def Document.offset (d : Document) (rest : List Char) : Nat := d.source.length - rest.length

/-- Modelled from the spec: `count_interval<c>(beg, end)`. -/
def count_interval (c : Char) (src : List Char) (beg end_ : Nat) : Nat :=
  ((src.drop beg).take (end_ - beg)).count c

/-- What `peek` and `lex` skip before they apply the matcher; it depends on the
matcher they are instantiated with. -/
inductive Skip where
  /-- The general case: spaces and comments. -/
  | spaces_and_comments
  /-- For `block_comment`: spaces and line comments. -/
  | before_block_comment
  /-- For `optional_spaces`: spaces. -/
  | optional_spaces
  /-- For `spaces`: nothing. -/
  | nothing
  deriving DecidableEq, Repr

/-- The suffix after the skipped part. -/
def after_whitespace (k : Skip) (src : List Char) : List Char :=
  match k with
  | .spaces_and_comments => (spaces_and_comments src).getD src
  | .before_block_comment => (zero_plus (alternatives [spaces, line_comment]) src).getD src
  | .optional_spaces => (optional_spaces src).getD src
  | .nothing => src

/-- Modelled from the spec: `peek` (§4.1): "tries a combinator at `p`, returning the
match end on success, `0` on miss. Never mutates cursor or line."  The parser calls it
on tokens that follow whitespace (`a { color: red; }`, scenario 1 of §8), so the
whitespace and the comments before the token are skipped first. -/
def peek_at (k : Skip) (mx : prelexer) (d : Document) (start : Nat) : Option Nat :=
  match mx (after_whitespace k (d.source.drop start)) with
  | some after_token => some (d.offset after_token)
  | none => none

/-- The general `peek<mx>()` at the cursor, as a truth value. -/
def peek (mx : prelexer) : Parser Bool := fun d =>
  .ok ((peek_at .spaces_and_comments mx d d.position).isSome, d)

/-- The instance `peek<spaces>()`. -/
def peek_spaces : Parser Bool := fun d =>
  .ok ((peek_at .nothing spaces d d.position).isSome, d)

/-- Modelled from the spec: `lex` (§4.1): "peeks at the current `position`; on success,
moves `position` to the match end, sets `lexed` to the matched span, and advances
`line` by the count of `\n` bytes within the match".  The span `lexed` starts after
the skipped whitespace; the newlines are counted from the old cursor. -/
def lex_with (k : Skip) (mx : prelexer) : Parser Bool := fun d =>
  let aw := after_whitespace k (d.source.drop d.position)
  match mx aw with
  | some after_token =>
    .ok (true, { d with
      line := d.line + count_interval '\n' d.source d.position (d.offset after_token)
      lexed := ⟨d.offset aw, d.offset after_token⟩
      position := d.offset after_token })
  | none => .ok (false, d)

/-- The general `lex<mx>()`. -/
def lex (mx : prelexer) : Parser Bool := lex_with .spaces_and_comments mx

/-- The instance `lex<block_comment>()`. -/
def lex_block_comment : Parser Bool := lex_with .before_block_comment block_comment

/-- The instance `lex<optional_spaces>()`. -/
def lex_optional_spaces : Parser Bool := lex_with .optional_spaces optional_spaces

/-- Modelled from the spec: `find_first<exactly<c>>(p)`, the position of the first `c`
at or after `p`, null when there is none before the NUL. -/
def find_first (c : Char) (src : List Char) (p : Nat) : Option Nat :=
  match (src.drop p).indexOf? c with
  | some i => some (p + i)
  | none => none

/-- The search loop of `find_first_in_interval`. -/
def find_first_from (mx : prelexer) : List Char → Nat → Nat → Option Nat
  | [], _, _ => none
  | c :: rest, beg, end_ =>
    if beg < end_ then
      if (mx (c :: rest)).isSome then some beg else find_first_from mx rest (beg + 1) end_
    else none

/-- Modelled from the spec: `find_first_in_interval<mx>(beg, end)`, the first position
in `[beg, end)` at which `mx` matches, null when there is none (§4.6: "scan
`[str.begin, str.end)` for unescaped `#{`"; the caller takes `p + 2` for the start of
the bracketed contents and `j + 1` for the position after the `}`). -/
def find_first_in_interval (mx : prelexer) (src : List Char) (beg end_ : Nat) : Option Nat :=
  find_first_from mx (src.drop beg) beg end_

/-! ## The productions

`Call` names a production together with its arguments, or the loop of one together
with the variables the loop carries.  Every production below takes the parser `rec`
for the calls it makes. -/

/-- A production of the grammar (a member function of `Document` and its arguments), or
one of its loops (with the local variables that the loop updates). -/
inductive Call where
  | parse_scss
  | parse_scss_loop (root : Node)
  | parse_import
  | parse_mixin_definition
  | parse_function_definition
  | parse_parameters
  | parse_parameters_loop (params : Node)
  | parse_parameter
  | parse_mixin_call
  | parse_arguments
  | parse_arguments_loop (args : Node)
  | parse_argument
  | parse_assignment
  | parse_propset
  | parse_propset_loop (block : Node)
  | parse_ruleset (lookahead : Selector_Lookahead) (inside_of : NodeType)
  | parse_selector_schema (end_of_selector : Nat)
  | parse_selector_schema_loop (end_of_selector : Nat) (i : Nat) (schema : Node)
  | parse_selector_group
  | parse_selector_group_loop (group : Node)
  | parse_selector
  | parse_selector_loop (selector : Node)
  | parse_simple_selector_sequence
  | parse_simple_selector_sequence_loop (seq : Node)
  | parse_simple_selector
  | parse_pseudo
  | parse_attribute_selector
  | parse_block (surrounding_ruleset : Option Node) (inside_of : NodeType)
  | parse_block_loop (surrounding_ruleset : Option Node) (inside_of : NodeType)
      (semicolon : Bool) (block : Node)
  | parse_block_comments (block : Node)
  | parse_rule
  | parse_list
  | parse_comma_list
  | parse_comma_list_loop (comma_list : Node)
  | parse_space_list
  | parse_space_list_loop (space_list : Node)
  | parse_disjunction
  | parse_disjunction_loop (disjunction : Node)
  | parse_conjunction
  | parse_conjunction_loop (conjunction : Node)
  | parse_relation
  | parse_expression
  | parse_expression_loop (expression : Node)
  | parse_term
  | parse_term_loop (term : Node)
  | parse_factor
  | parse_value
  | parse_string
  | parse_string_loop (str : Token) (i : Nat) (schema : Node)
  | parse_value_schema
  | parse_value_schema_loop (schema : Node)
  | parse_identifier_schema
  | parse_identifier_schema_loop (id : Token) (i : Nat) (schema : Node)
  | parse_function_call
  | parse_if_directive (surrounding_ruleset : Option Node) (inside_of : NodeType)
  | parse_if_directive_loop (surrounding_ruleset : Option Node) (inside_of : NodeType)
      (conditional : Node)
  | parse_for_directive (surrounding_ruleset : Option Node) (inside_of : NodeType)
  | parse_each_directive (surrounding_ruleset : Option Node) (inside_of : NodeType)
  | parse_while_directive (surrounding_ruleset : Option Node) (inside_of : NodeType)
  | parse_directive (surrounding_ruleset : Option Node) (inside_of : NodeType)
  | parse_media_query (inside_of : NodeType)
  | parse_media_query_loop (media_expr_group : Node)
  | parse_media_expression
  | parse_media_expression_loop (media_expr : Node)
  | parse_warning

/-- The short-circuit `a() || b()` of two consuming matches. -/
def or_else (a b : Parser Bool) : Parser Bool := do
  if (← a) then pure true else b

/-- Modelled from the spec: `Document::make_from_token(context, t, path, line)` followed
by a parse routine: a document over the same buffer with the cursor at `t.begin`, the
end at `t.end` and the line of the outer document; the outer document keeps its cursor
and shares the context (§5). -/
def in_token (t : Token) (p : Parser Node) : Parser Node := fun d =>
  match p { d with position := t.begin, end_ := t.end_, lexed := Token.make } with
  | .ok (n, d1) => .ok (n, { d with context := d1.context })
  | .error e => .error e

/-- Modelled from the spec: `Document::make_from_file(context, path)` followed by a
parse routine: a document over the buffer the loader returns for `path`, at line 1
(§4.3, §6); a loader failure is the read error of §7. -/
def in_file (path : List Char) (p : Parser Node) : Parser Node := fun d =>
  match d.context.load path with
  | some source =>
    match p { path := path, source := source, position := 0, end_ := source.length,
              line := 1, lexed := Token.make, context := d.context } with
    | .ok (n, d1) => .ok (n, { d with context := d1.context })
    | .error e => .error e
  | none => .error (.read_error path)

/-- Modelled from the spec: `Token::unquote`, the text of a string token without its
quotes. -/
def Token.unquote (src : List Char) (t : Token) : List Char :=
  ((t.text src).drop 1).dropLast

/-- The folders of a path: the text up to and with its last `/`. -/
def current_path (path : List Char) : List Char :=
  path.take (path.length - ((folders path).getD path).length)

/-- The cursor. -/
def get_position : Parser Nat := fun d => .ok (d.position, d)

/-- The assignment `position = p`. -/
def set_position (p : Nat) : Parser Unit := fun d => .ok ((), { d with position := p })

/-- The current line. -/
def get_line : Parser Nat := fun d => .ok (d.line, d)

/-- The span matched last. -/
def get_lexed : Parser Token := fun d => .ok (d.lexed, d)

/-- The byte `lexed.begin[0]`. -/
def lexed_first : Parser (Option Char) := fun d => .ok ((d.source.drop d.lexed.begin).head?, d)

/-- The loop test `position < end`. -/
def before_end : Parser Bool := fun d => .ok (decide (d.position < d.end_), d)

/-- The search `find_first< exactly<c> >(position)`. -/
def find_first_here (c : Char) : Parser (Option Nat) := fun d =>
  .ok (find_first c d.source d.position, d)

/-- The search `find_first_in_interval< mx >(beg, end)` in the buffer of the document. -/
def find_in_interval (mx : prelexer) (beg end_ : Nat) : Parser (Option Nat) := fun d =>
  .ok (find_first_in_interval mx d.source beg end_, d)

/-- The path of an import: the folders of the path of the document, then the unquoted
text of the token matched last. -/
def import_path : Parser (List Char) := fun d =>
  .ok (current_path d.path ++ d.lexed.unquote d.source, d)

/-- The insertion `context.extensions.insert(pair(extendee, ruleset))`, with
`context.has_extensions = true`.  The source inserts the handle of the ruleset node, to
which `parse_ruleset` appends the block after `parse_block` has returned; a node of this
development is a value, so the entry holds the ruleset as it is when the statement is
parsed, with its selector and without its block.  The entries differ from those of the
source in that child only; their number, their order and their extendees are the same. -/
def register_extension (extendee ruleset : Node) : Parser Unit := fun d =>
  .ok ((), { d with context :=
    { d.context with extensions := d.context.extensions ++ [(extendee, ruleset)]
                     has_extensions := true } })

/-- A run that leaves the defined behaviour of the source (a read through a null
pointer). -/
def undefined_behaviour {α : Type} : Parser α := fun _ => .error .undefined

/-- The arbiter's loop (`lookahead_for_selector`): one turn tries the alternatives in
order at `p`; a match moves `p` to its end and records whether the byte before the new
`p` is `}`. -/
def lookahead_loop (d : Document) : Nat → Nat → Bool → Nat × Bool
  | 0, p, saw_interpolant => (p, saw_interpolant)
  | fuel + 1, p, saw_interpolant =>
    match peek_at .spaces_and_comments (alternatives
      [identifier, id_name, class_name, sequence [ pseudo_prefix, identifier],
       string_constant, exactly '*', exactly '(', exactly ')', exactly '[', exactly ']',
       exactly '+', exactly '~', exactly '>', exactly ',', binomial,
       sequence [optional sign, optional digits, exactly 'n'],
       sequence [optional sign, digits], number, exactly '&',
       alternatives [exact_match, class_match, dash_match,
                     prefix_match, suffix_match, substring_match],
       sequence [exactly '.', interpolant], sequence [exactly '#', interpolant],
       sequence [exactly '-', interpolant], sequence [ pseudo_prefix, interpolant],
       interpolant]) d p with
    | some q =>
      lookahead_loop d fuel q
        (if (d.source.drop (q - 1)).head? = some '}' then true else saw_interpolant)
    | none => (p, saw_interpolant)

/-- The function `Document::lookahead_for_selector(start)`. -/
def lookahead_for_selector (d : Document) (start : Nat) : Selector_Lookahead :=
  let r := lookahead_loop d (d.source.length + 1) start false
  { found := if (peek_at .spaces_and_comments (exactly '{') d r.1).isSome then some r.1 else none
    has_interpolants := r.2 }

/-- The call `lookahead_for_selector(position)`. -/
def lookahead : Parser Selector_Lookahead := fun d =>
  .ok (lookahead_for_selector d d.position, d)

/-- The test `peek< sequence< identifier, optional_spaces, exactly<':'>, optional_spaces,
exactly<'{'> > >(position)` for a namespaced property. -/
def propset_head : prelexer :=
  sequence [identifier, optional_spaces, exactly ':', optional_spaces, exactly '{']

section Productions

variable (rec : Call → Parser Node)

/-- The function `Document::parse_import`. -/
def parse_import : Parser Node := do
  let _ ← lex import_
  if (← lex uri_prefix) then
    if (← peek string_constant) then
      let schema ← rec .parse_string
      let importee ← new_Node .css_import
      let importee := importee.push_back schema
      if !(← lex (exactly ')')) then throw_syntax_error "unterminated url in @import directive"
      else pure importee
    else
      let beg ← get_position
      match (← find_first_here ')') with
      | none => throw_syntax_error "unterminated url in @import directive"
      | some end_ =>
        let path_node ← new_Node_token .identifier ⟨beg, end_⟩
        let importee ← new_Node .css_import
        let importee := importee.push_back path_node
        set_position end_
        let _ ← lex (exactly ')')
        pure importee
  else if !(← lex string_constant) then
    throw_syntax_error "@import directive requires a url or quoted path"
  else
    let path ← import_path
    in_file path (rec .parse_scss)

/-- The function `Document::parse_mixin_definition`. -/
def parse_mixin_definition : Parser Node := do
  let _ ← or_else (lex mixin) (lex (exactly '='))
  if !(← lex identifier) then throw_syntax_error "invalid name in @mixin directive"
  else
    let name ← new_Node_lexed .identifier
    let params ← rec .parse_parameters
    if !(← peek (exactly '{')) then throw_syntax_error "body for mixin must begin with a '\x7b'"
    else
      let body ← rec (.parse_block none .mixin)
      let the_mixin ← new_Node .mixin
      pure (((the_mixin.push_back name).push_back params).push_back body)

/-- The function `Document::parse_function_definition`. -/
def parse_function_definition : Parser Node := do
  let _ ← lex function
  let func_line ← get_line
  if !(← lex identifier) then throw_syntax_error "name required for function definition"
  else
    let name ← new_Node_lexed .identifier
    let params ← rec .parse_parameters
    if !(← peek (exactly '{')) then
      throw_syntax_error "body for function must begin with a '\x7b'"
    else
      let body ← rec (.parse_block none .function)
      let func ← new_Node_at .function func_line
      pure (((func.push_back name).push_back params).push_back body)

/-- The loop `while (lex< exactly<','> >())` of `parse_parameters`, and what follows
it. -/
def parse_parameters_loop (params : Node) : Parser Node := do
  if (← lex (exactly ',')) then
    if !(← peek variable_) then
      throw_syntax_error "expected a variable name (e.g. $x) for the parameter list"
    else
      let param ← rec .parse_parameter
      rec (.parse_parameters_loop (params.push_back param))
  else if !(← lex (exactly ')')) then throw_syntax_error "parameter list requires a ')'"
  else pure params

/-- The function `Document::parse_parameters`. -/
def parse_parameters : Parser Node := do
  let params ← new_Node .parameters
  if (← lex (exactly '(')) then
    if (← peek variable_) then
      let param ← rec .parse_parameter
      rec (.parse_parameters_loop (params.push_back param))
    else if !(← lex (exactly ')')) then
      throw_syntax_error "expected a variable name (e.g. $x) or ')' for the parameter list"
    else pure params
  else pure params

/-- The function `Document::parse_parameter`. -/
def parse_parameter : Parser Node := do
  let _ ← lex variable_
  let var ← new_Node_lexed .variable_
  if (← lex (exactly ':')) then
    let val ← rec .parse_space_list
    let par_and_val ← new_Node .assignment
    pure ((par_and_val.push_back var).push_back val)
  else pure var

/-- The function `Document::parse_mixin_call`. -/
def parse_mixin_call : Parser Node := do
  let _ ← or_else (lex include_) (lex (exactly '+'))
  if !(← lex identifier) then throw_syntax_error "invalid name in @include directive"
  else
    let name ← new_Node_lexed .identifier
    let args ← rec .parse_arguments
    let the_call ← new_Node .expansion
    pure ((the_call.push_back name).push_back args)

/-- The loop `while (lex< exactly<','> >())` of `parse_arguments`, and what follows
it. -/
def parse_arguments_loop (args : Node) : Parser Node := do
  if (← lex (exactly ',')) then
    let arg ← rec .parse_argument
    rec (.parse_arguments_loop (args.push_back (arg.set_should_eval true)))
  else if !(← lex (exactly ')')) then throw_syntax_error "improperly terminated argument list"
  else pure args

/-- The function `Document::parse_arguments`. -/
def parse_arguments : Parser Node := do
  let args ← new_Node .arguments
  if (← lex (exactly '(')) then
    if !(← peek (exactly ')')) then
      let arg ← rec .parse_argument
      rec (.parse_arguments_loop (args.push_back (arg.set_should_eval true)))
    else if !(← lex (exactly ')')) then throw_syntax_error "improperly terminated argument list"
    else pure args
  else pure args

/-- The function `Document::parse_argument`. -/
def parse_argument : Parser Node := do
  if (← peek (sequence [variable_, spaces_and_comments, exactly ':'])) then
    let _ ← lex variable_
    let var ← new_Node_lexed .variable_
    let _ ← lex (exactly ':')
    let val ← rec .parse_space_list
    let assn ← new_Node .assignment
    pure ((assn.push_back var).push_back val)
  else rec .parse_space_list

/-- The function `Document::parse_assignment`. -/
def parse_assignment : Parser Node := do
  let _ ← lex variable_
  let var ← new_Node_lexed .variable_
  if !(← lex (exactly ':')) then throw_syntax_error "expected ':' in assignment statement"
  else
    let val ← rec .parse_list
    let assn ← new_Node .assignment
    let assn := (assn.push_back var).push_back val
    if (← lex default_flag) then
      let flag ← new_Node .none
      pure (assn.push_back flag)
    else pure assn

/-- The loop `while (!lex< exactly<'}'> >())` of `parse_propset`. -/
def parse_propset_loop (block : Node) : Parser Node := do
  if (← lex (exactly '}')) then pure block
  else if (← peek propset_head) then
    let inner ← rec .parse_propset
    rec (.parse_propset_loop (block.push_back inner))
  else
    let rule ← rec .parse_rule
    let _ ← lex (exactly ';')
    rec (.parse_propset_loop (block.push_back rule))

/-- The function `Document::parse_propset`. -/
def parse_propset : Parser Node := do
  let _ ← lex identifier
  let property_segment ← new_Node_lexed .identifier
  let _ ← lex (exactly ':')
  let _ ← lex (exactly '{')
  let block ← new_Node .block
  let block ← rec (.parse_propset_loop block)
  if block.empty then throw_syntax_error "namespaced property cannot be empty"
  else
    let propset ← new_Node .propset
    pure ((propset.push_back property_segment).push_back block)

/-- The function `Document::parse_ruleset`.  The handle `ruleset` that the source passes
to `parse_block` is the node as built so far. -/
def parse_ruleset (lookahead : Selector_Lookahead) (inside_of : NodeType) : Parser Node := do
  let ruleset ← new_Node .ruleset
  let sel ← (if lookahead.has_interpolants then
      match lookahead.found with
      | some found => rec (.parse_selector_schema found)
      | none => undefined_behaviour
    else rec .parse_selector_group)
  let ruleset := ruleset.push_back sel
  if !(← peek (exactly '{')) then throw_syntax_error "expected a '\x7b' after the selector"
  else
    let block ← rec (.parse_block (some ruleset) inside_of)
    pure (ruleset.push_back block)

/-- The loop `while (i < end_of_selector)` of `parse_selector_schema`, and what
follows it.  When no `}` is found (`j` is null) the source still parses the interpolant
from `p+2` and then reads through the pointer `j + 1`. -/
def parse_selector_schema_loop (end_of_selector i : Nat) (schema : Node) : Parser Node := do
  if i < end_of_selector then
    match (← find_in_interval (exactly_s hash_lbrace) i end_of_selector) with
    | some p =>
      let schema ← (if i < p then do
          let seg ← new_Node_token .identifier ⟨i, p⟩
          pure (schema.push_back seg)
        else pure schema)
      match (← find_in_interval (exactly_s rbrace) p end_of_selector) with
      | some j =>
        let interp_node ← in_token ⟨p + 2, j⟩ (rec .parse_list)
        rec (.parse_selector_schema_loop end_of_selector (j + 1)
              (schema.push_back (interp_node.set_should_eval true)))
      | none =>
        let _ ← in_token ⟨p + 2, 0⟩ (rec .parse_list)
        undefined_behaviour
    | none =>
      let schema ← (if i < end_of_selector then do
          let seg ← new_Node_token .identifier ⟨i, end_of_selector⟩
          pure (schema.push_back seg)
        else pure schema)
      set_position end_of_selector
      pure schema
  else
    set_position end_of_selector
    pure schema

/-- The function `Document::parse_selector_schema`. -/
def parse_selector_schema (end_of_selector : Nat) : Parser Node := do
  let i ← get_position
  let schema ← new_Node .selector_schema
  rec (.parse_selector_schema_loop end_of_selector i schema)

/-- The loop `while (lex< exactly<','> >())` of `parse_selector_group`. -/
def parse_selector_group_loop (group : Node) : Parser Node := do
  if (← lex (exactly ',')) then
    let sel ← rec .parse_selector
    rec (.parse_selector_group_loop (group.push_back sel))
  else pure group

/-- The function `Document::parse_selector_group`. -/
def parse_selector_group : Parser Node := do
  let sel1 ← rec .parse_selector
  if !(← peek (exactly ',')) then pure sel1
  else
    let group ← new_Node .selector_group
    rec (.parse_selector_group_loop (group.push_back sel1))

/-- The loop of `parse_selector`. -/
def parse_selector_loop (selector : Node) : Parser Node := do
  if !(← peek (exactly '{')) && !(← peek (exactly ',')) then
    let seq ← rec .parse_simple_selector_sequence
    rec (.parse_selector_loop (selector.push_back seq))
  else pure selector

/-- The function `Document::parse_selector`. -/
def parse_selector : Parser Node := do
  let seq1 ← rec .parse_simple_selector_sequence
  if (← peek (exactly ',')) || (← peek (exactly ')')) || (← peek (exactly '{')) then pure seq1
  else
    let selector ← new_Node .selector
    rec (.parse_selector_loop (selector.push_back seq1))

/-- The test that ends a simple selector sequence. -/
def sequence_end : Parser Bool := do
  pure ((← peek_spaces) || (← peek (exactly '>')) || (← peek (exactly '+')) ||
    (← peek (exactly '~')) || (← peek (exactly ',')) || (← peek (exactly ')')) ||
    (← peek (exactly '{')) || (← peek (exactly ';')))

/-- The loop of `parse_simple_selector_sequence`. -/
def parse_simple_selector_sequence_loop (seq : Node) : Parser Node := do
  if !(← sequence_end) then
    let simp ← rec .parse_simple_selector
    rec (.parse_simple_selector_sequence_loop (seq.push_back simp))
  else pure seq

/-- The function `Document::parse_simple_selector_sequence`. -/
def parse_simple_selector_sequence : Parser Node := do
  if (← or_else (lex (exactly '+')) (or_else (lex (exactly '~')) (lex (exactly '>')))) then
    new_Node_lexed .selector_combinator
  else
    let simp1 ← (do
      if (← lex (exactly '&')) then new_Node_lexed .backref
      else if (← lex (alternatives [type_selector, universal])) then
        new_Node_lexed .simple_selector
      else rec .parse_simple_selector)
    if (← sequence_end) then pure simp1
    else
      let seq ← new_Node .simple_selector_sequence
      rec (.parse_simple_selector_sequence_loop (seq.push_back simp1))

/-- The function `Document::parse_simple_selector`. -/
def parse_simple_selector : Parser Node := do
  if (← or_else (lex id_name) (lex class_name)) then new_Node_lexed .simple_selector
  else if (← peek (exactly ':')) then rec .parse_pseudo
  else if (← peek (exactly '[')) then rec .parse_attribute_selector
  else throw_syntax_error "invalid selector"

/-- The function `Document::parse_pseudo`. -/
def parse_pseudo : Parser Node := do
  if (← lex pseudo_not) then
    let ps_not ← new_Node .pseudo_negation
    let v ← new_Node_lexed .value
    let group ← rec .parse_selector_group
    let _ ← lex (exactly ')')
    pure ((ps_not.push_back v).push_back group)
  else if (← lex (sequence [ pseudo_prefix, functional])) then
    let pseudo ← new_Node .functional_pseudo
    let name ← get_lexed
    let pseudo := pseudo.push_back (← new_Node_token .value name)
    let pseudo ← (do
      if (← lex (alternatives [even, odd])) then
        pure (some (pseudo.push_back (← new_Node_lexed .value)))
      else if (← peek binomial) then
        let _ ← lex coefficient
        let pseudo := pseudo.push_back (← new_Node_lexed .value)
        let _ ← lex (exactly 'n')
        let pseudo := pseudo.push_back (← new_Node_lexed .value)
        let _ ← lex sign
        let pseudo := pseudo.push_back (← new_Node_lexed .value)
        let _ ← lex digits
        pure (some (pseudo.push_back (← new_Node_lexed .value)))
      else if (← lex (sequence [optional sign, optional digits, exactly 'n'])) then
        pure (some (pseudo.push_back (← new_Node_lexed .value)))
      else if (← lex (sequence [optional sign, digits])) then
        pure (some (pseudo.push_back (← new_Node_lexed .value)))
      else if (← lex identifier) then
        pure (some (pseudo.push_back (← new_Node_lexed .identifier)))
      else pure none)
    match pseudo with
    | none => throw_syntax_error "invalid argument to functional pseudo-class"
    | some pseudo =>
      if !(← lex (exactly ')')) then
        throw_syntax_error "unterminated argument to functional pseudo-class"
      else pure pseudo
  else if (← lex (sequence [ pseudo_prefix, identifier])) then new_Node_lexed .pseudo
  else throw_syntax_error "unrecognized pseudo-class or pseudo-element"

/-- The function `Document::parse_attribute_selector`. -/
def parse_attribute_selector : Parser Node := do
  let attr_sel ← new_Node .attribute_selector
  let _ ← lex (exactly '[')
  if !(← lex type_selector) then
    throw_syntax_error "invalid attribute name in attribute selector"
  else
    let attr_sel := attr_sel.push_back (← new_Node_lexed .value)
    if (← lex (exactly ']')) then pure attr_sel
    else if !(← lex (alternatives [exact_match, class_match, dash_match,
                                   prefix_match, suffix_match, substring_match])) then
      throw_syntax_error "invalid operator in attribute selector"
    else
      let attr_sel := attr_sel.push_back (← new_Node_lexed .value)
      if !(← or_else (lex string_constant) (lex identifier)) then
        throw_syntax_error "expected a string constant or identifier in attribute selector"
      else
        let attr_sel := attr_sel.push_back (← new_Node_lexed .value)
        if !(← lex (exactly ']')) then throw_syntax_error "unterminated attribute selector"
        else pure attr_sel

/-- The loop `while (lex< block_comment >())` of `parse_block`. -/
def parse_block_comments (block : Node) : Parser Node := do
  if (← lex_block_comment) then
    let c ← new_Node_lexed .comment
    rec (.parse_block_comments (block.push_back c))
  else pure block

/-- One statement of a block: the chain of alternatives in the loop of `parse_block`.
The result is the block and the value of `semicolon` after the statement. -/
def parse_block_statement (surrounding_ruleset : Option Node) (inside_of : NodeType)
    (block : Node) : Parser (Node × Bool) := do
  if (← lex_block_comment) then
    let c ← new_Node_lexed .comment
    pure (block.push_back c, false)
  else if (← peek import_) then
    if inside_of = .mixin || inside_of = .function then
      let _ ← lex import_
      throw_syntax_error "@import directive not allowed inside definition of mixin or function"
    else
      let imported_tree ← rec .parse_import
      if imported_tree.type = .css_import then pure (block.push_back imported_tree, false)
      else pure (block.append imported_tree, true)
  else if (← lex variable_) then
    let assn ← rec .parse_assignment
    pure (block.push_back assn, true)
  else if (← peek if_directive) then
    let n ← rec (.parse_if_directive surrounding_ruleset inside_of)
    pure (block.push_back n, false)
  else if (← peek for_directive) then
    let n ← rec (.parse_for_directive surrounding_ruleset inside_of)
    pure (block.push_back n, false)
  else if (← peek each_directive) then
    let n ← rec (.parse_each_directive surrounding_ruleset inside_of)
    pure (block.push_back n, false)
  else if (← peek while_directive) then
    let n ← rec (.parse_while_directive surrounding_ruleset inside_of)
    pure (block.push_back n, false)
  else if (← lex return_directive) then
    let ret_expr ← new_Node .return_directive
    let l ← rec .parse_list
    pure (block.push_back (ret_expr.push_back l), true)
  else if (← peek warn) then
    let n ← rec .parse_warning
    pure (block.push_back n, true)
  else if inside_of = .function then
    throw_syntax_error
      "only variable declarations and control directives are allowed inside functions"
  else if (← peek include_) then
    let n ← rec .parse_mixin_call
    pure (block.push_back n, true)
  else if (← peek propset_head) then
    let n ← rec .parse_propset
    pure (block.push_back n, false)
  else
    let lookahead_result ← lookahead
    if lookahead_result.found.isSome then
      let n ← rec (.parse_ruleset lookahead_result inside_of)
      pure (block.push_back n, false)
    else if (← peek (exactly '+')) then
      let n ← rec .parse_mixin_call
      pure (block.push_back n, true)
    else if (← lex extend) then
      match surrounding_ruleset with
      | none => throw_syntax_error "@extend directive may only be used within rules"
      | some ruleset =>
        let extendee ← rec .parse_simple_selector_sequence
        register_extension extendee ruleset
        pure (block, true)
    else if (← peek media) then
      let n ← rec (.parse_media_query inside_of)
      pure (block.push_back n, false)
    else if (← peek directive) then
      let dir ← rec (.parse_directive surrounding_ruleset inside_of)
      pure (block.push_back dir, dir.type = .blockless_directive)
    else if !(← peek (exactly ';')) then
      let rule ← rec .parse_rule
      if (← peek (exactly '{')) then
        let inner ← rec (.parse_block none .none)
        let propset ← new_Node .propset
        let propset := propset.push_back (rule.children.headD ⟨.none, [], 0, Token.make, false, false, []⟩)
        let property ← new_Node_token .property Token.make
        let rule := { rule with children := property :: rule.children.tail }
        let inner := inner.push_front rule
        pure (block.push_back (propset.push_back inner), false)
      else pure (block.push_back rule, true)
    else
      let _ ← lex (exactly ';')
      pure (block, false)

/-- The loop `while (!lex< exactly<'}'> >())` of `parse_block`. -/
def parse_block_loop (surrounding_ruleset : Option Node) (inside_of : NodeType)
    (semicolon : Bool) (block : Node) : Parser Node := do
  if (← lex (exactly '}')) then pure block
  else
    let go : Node → Parser Node := fun block => do
      let r ← parse_block_statement rec surrounding_ruleset inside_of block
      let block ← rec (.parse_block_comments r.1)
      rec (.parse_block_loop surrounding_ruleset inside_of r.2 block)
    if semicolon then
      if !(← lex (exactly ';')) then
        throw_syntax_error "non-terminal statement or declaration must end with ';'"
      else
        let block ← rec (.parse_block_comments block)
        if (← lex (exactly '}')) then pure block
        else go block
    else go block

/-- The function `Document::parse_block`. -/
def parse_block (surrounding_ruleset : Option Node) (inside_of : NodeType) : Parser Node := do
  let _ ← lex (exactly '{')
  let block ← new_Node .block
  rec (.parse_block_loop surrounding_ruleset inside_of false block)

/-- The function `Document::parse_rule`. -/
def parse_rule : Parser Node := do
  let rule ← new_Node .rule
  let rule ← (do
    if (← peek (sequence [optional (exactly '*'), identifier_schema])) then
      let p ← rec .parse_identifier_schema
      pure (some (rule.push_back p))
    else if (← lex (sequence [optional (exactly '*'), identifier])) then
      pure (some (rule.push_back (← new_Node_lexed .property)))
    else pure none)
  match rule with
  | none => throw_syntax_error "invalid property name"
  | some rule =>
    if !(← lex (exactly ':')) then throw_syntax_error "property must be followed by a ':'"
    else
      let l ← rec .parse_list
      pure (rule.push_back l)

/-- The function `Document::parse_list`. -/
def parse_list : Parser Node := rec .parse_comma_list

/-- The loop `while (lex< exactly<','> >())` of `parse_comma_list`. -/
def parse_comma_list_loop (comma_list : Node) : Parser Node := do
  if (← lex (exactly ',')) then
    let list ← rec .parse_space_list
    let comma_list := comma_list.push_back list
    rec (.parse_comma_list_loop
      (comma_list.set_should_eval (comma_list.should_eval || list.should_eval)))
  else pure comma_list

/-- The function `Document::parse_comma_list`. -/
def parse_comma_list : Parser Node := do
  if (← peek (exactly ';')) || (← peek (exactly '}')) ||
     (← peek (exactly '{')) || (← peek (exactly ')')) then
    new_Node .nil
  else
    let list1 ← rec .parse_space_list
    if !(← peek (exactly ',')) then pure list1
    else
      let comma_list ← new_Node .comma_list
      let comma_list := comma_list.push_back list1
      rec (.parse_comma_list_loop
        (comma_list.set_should_eval (comma_list.should_eval || list1.should_eval)))

/-- The test that ends a space-separated list. -/
def space_list_end : Parser Bool := do
  pure ((← peek (exactly ';')) || (← peek (exactly '}')) || (← peek (exactly '{')) ||
    (← peek (exactly ')')) || (← peek (exactly ',')) || (← peek default_flag))

/-- The loop of `parse_space_list`. -/
def parse_space_list_loop (space_list : Node) : Parser Node := do
  if !(← space_list_end) then
    let disj ← rec .parse_disjunction
    let space_list := space_list.push_back disj
    rec (.parse_space_list_loop
      (space_list.set_should_eval (space_list.should_eval || disj.should_eval)))
  else pure space_list

/-- The function `Document::parse_space_list`. -/
def parse_space_list : Parser Node := do
  let disj1 ← rec .parse_disjunction
  if (← space_list_end) then pure disj1
  else
    let space_list ← new_Node .space_list
    let space_list := space_list.push_back disj1
    rec (.parse_space_list_loop
      (space_list.set_should_eval (space_list.should_eval || disj1.should_eval)))

/-- The loop of `parse_disjunction`, and the statement after it. -/
def parse_disjunction_loop (disjunction : Node) : Parser Node := do
  if (← lex (sequence [or_kwd, negate identifier])) then
    let conj ← rec .parse_conjunction
    rec (.parse_disjunction_loop (disjunction.push_back conj))
  else pure (disjunction.set_should_eval true)

/-- The function `Document::parse_disjunction`. -/
def parse_disjunction : Parser Node := do
  let conj1 ← rec .parse_conjunction
  if !(← peek (sequence [or_kwd, negate identifier])) then pure conj1
  else
    let disjunction ← new_Node .disjunction
    rec (.parse_disjunction_loop (disjunction.push_back conj1))

/-- The loop of `parse_conjunction`, and the statement after it. -/
def parse_conjunction_loop (conjunction : Node) : Parser Node := do
  if (← lex (sequence [and_kwd, negate identifier])) then
    let rel ← rec .parse_relation
    rec (.parse_conjunction_loop (conjunction.push_back rel))
  else pure (conjunction.set_should_eval true)

/-- The function `Document::parse_conjunction`. -/
def parse_conjunction : Parser Node := do
  let rel1 ← rec .parse_relation
  if !(← peek (sequence [and_kwd, negate identifier])) then pure rel1
  else
    let conjunction ← new_Node .conjunction
    rec (.parse_conjunction_loop (conjunction.push_back rel1))

/-- The operator of a relation: the chain of `lex` calls of `parse_relation`. -/
def parse_relation_operator (relation : Node) : Parser Node := do
  if (← lex eq_op) then pure (relation.push_back (← new_Node_lexed .eq))
  else if (← lex neq_op) then pure (relation.push_back (← new_Node_lexed .neq))
  else if (← lex gte_op) then pure (relation.push_back (← new_Node_lexed .gte))
  else if (← lex lte_op) then pure (relation.push_back (← new_Node_lexed .lte))
  else if (← lex gt_op) then pure (relation.push_back (← new_Node_lexed .gt))
  else if (← lex lt_op) then pure (relation.push_back (← new_Node_lexed .lt))
  else pure relation

/-- The function `Document::parse_relation`. -/
def parse_relation : Parser Node := do
  let expr1 ← rec .parse_expression
  if !((← peek eq_op) || (← peek neq_op) || (← peek gt_op) ||
       (← peek gte_op) || (← peek lt_op) || (← peek lte_op)) then pure expr1
  else
    let relation ← new_Node .relation
    let relation := relation.push_back (expr1.set_should_eval true)
    let relation ← parse_relation_operator relation
    let expr2 ← rec .parse_expression
    let relation := relation.push_back (expr2.set_should_eval true)
    pure (relation.set_should_eval true)

/-- The loop of `parse_expression`, and the statement after it. -/
def parse_expression_loop (expression : Node) : Parser Node := do
  if (← or_else (lex (exactly '+')) (lex (sequence [negate number, exactly '-']))) then
    let op ← (do
      if (← lexed_first) = some '+' then new_Node_lexed .add
      else new_Node_lexed .sub)
    let term ← rec .parse_term
    rec (.parse_expression_loop
      ((expression.push_back op).push_back (term.set_should_eval true)))
  else pure (expression.set_should_eval true)

/-- The function `Document::parse_expression`. -/
def parse_expression : Parser Node := do
  let term1 ← rec .parse_term
  if !((← peek (exactly '+')) || (← peek (sequence [negate number, exactly '-']))) then
    pure term1
  else
    let expression ← new_Node .expression
    rec (.parse_expression_loop (expression.push_back (term1.set_should_eval true)))

/-- The loop of `parse_term`. -/
def parse_term_loop (term : Node) : Parser Node := do
  if (← or_else (lex (exactly '*')) (lex (exactly '/'))) then
    let term ← (do
      if (← lexed_first) = some '*' then
        pure ((term.push_back (← new_Node_lexed .mul)).set_should_eval true)
      else pure (term.push_back (← new_Node_lexed .div)))
    let fact ← rec .parse_factor
    let term := term.set_should_eval (term.should_eval || fact.should_eval)
    rec (.parse_term_loop (term.push_back fact))
  else pure term

/-- The function `Document::parse_term`. -/
def parse_term : Parser Node := do
  let fact1 ← rec .parse_factor
  if !((← peek (exactly '*')) || (← peek (exactly '/'))) then pure fact1
  else
    let term ← new_Node .term
    let term := term.push_back fact1
    let term := if fact1.should_eval then term.set_should_eval true else term
    rec (.parse_term_loop term)

/-- The function `Document::parse_factor`. -/
def parse_factor : Parser Node := do
  if (← lex (exactly '(')) then
    let value ← rec .parse_comma_list
    let value := value.set_should_eval true
    let value := if value.type = .comma_list || value.type = .space_list
      then value.set_first_should_eval else value
    if !(← lex (exactly ')')) then throw_syntax_error "unclosed parenthesis"
    else pure value
  else if (← lex (sequence [exactly '+', negate number])) then
    let plus ← new_Node .unary_plus
    let f ← rec .parse_factor
    pure ((plus.push_back f).set_should_eval true)
  else if (← lex (sequence [exactly '-', negate number])) then
    let minus ← new_Node .unary_minus
    let f ← rec .parse_factor
    pure ((minus.push_back f).set_should_eval true)
  else rec .parse_value

/-- The function `Document::parse_value`. -/
def parse_value : Parser Node := do
  if (← peek uri_prefix) && !(← peek (sequence [ uri_prefix, variable_])) then
    let _ ← lex uri_prefix
    let value ← get_position
    match (← find_first_here ')') with
    | none => throw_syntax_error "URI is missing ')'"
    | some rparen =>
      let result ← new_Node_token .uri ⟨value, rparen⟩
      set_position rparen
      let _ ← lex (exactly ')')
      pure result
  else if (← peek functional) then rec .parse_function_call
  else if (← lex value_schema) then
    let t ← get_lexed
    in_token t (rec .parse_value_schema)
  else if (← lex (sequence [true_kwd, negate identifier])) then new_Node_boolean true
  else if (← lex (sequence [false_kwd, negate identifier])) then new_Node_boolean false
  else if (← lex important) then new_Node_lexed .important
  else if (← lex identifier) then new_Node_lexed .identifier
  else if (← lex percentage) then new_Node_lexed .textual_percentage
  else if (← lex dimension) then new_Node_lexed .textual_dimension
  else if (← lex number) then new_Node_lexed .textual_number
  else if (← lex hex) then new_Node_lexed .textual_hex
  else if (← peek string_constant) then rec .parse_string
  else if (← lex variable_) then
    let var ← new_Node_lexed .variable_
    pure (var.set_should_eval true)
  else throw_syntax_error "error reading values"

/-- The pattern `sequence< negate< exactly<'\\'> >, exactly<hash_lbrace> >` that the
schema scanners search for. -/
def interpolant_start : prelexer := sequence [negate (exactly '\\'), exactly_s hash_lbrace]

/-- The loop `while (i < str.end)` of `parse_string`, and the statements after it. -/
def parse_string_loop (str : Token) (i : Nat) (schema : Node) : Parser Node := do
  if i < str.end_ then
    match (← find_in_interval interpolant_start i str.end_) with
    | some p =>
      let schema ← (if i < p then do
          let seg ← new_Node_token .identifier ⟨i, p⟩
          pure (schema.push_back seg)
        else pure schema)
      match (← find_in_interval (exactly_s rbrace) p str.end_) with
      | some j =>
        let interp_node ← in_token ⟨p + 2, j⟩ (rec .parse_list)
        rec (.parse_string_loop str (j + 1)
              (schema.push_back (interp_node.set_should_eval true)))
      | none => throw_syntax_error "unterminated interpolant inside string constant"
    | none =>
      let schema ← (if i < str.end_ then do
          let seg ← new_Node_token .identifier ⟨i, str.end_⟩
          pure (schema.push_back seg)
        else pure schema)
      pure (schema.set_should_eval true)
  else pure (schema.set_should_eval true)

/-- The function `Document::parse_string`. -/
def parse_string : Parser Node := do
  let _ ← lex string_constant
  let str ← get_lexed
  match (← find_in_interval interpolant_start str.begin str.end_) with
  | none => new_Node_token .string_constant str
  | some _ =>
    let schema ← new_Node .string_schema
    rec (.parse_string_loop str str.begin schema)

/-- The loop `while (position < end)` of `parse_value_schema`, and the statements
after it. -/
def parse_value_schema_loop (schema : Node) : Parser Node := do
  if (← before_end) then
    if (← lex interpolant) then
      let t ← get_lexed
      let interp_node ← in_token ⟨t.begin + 2, t.end_ - 1⟩ (rec .parse_list)
      rec (.parse_value_schema_loop (schema.push_back interp_node))
    else if (← lex identifier) then
      rec (.parse_value_schema_loop (schema.push_back (← new_Node_lexed .identifier)))
    else if (← lex percentage) then
      rec (.parse_value_schema_loop (schema.push_back (← new_Node_lexed .textual_percentage)))
    else if (← lex dimension) then
      rec (.parse_value_schema_loop (schema.push_back (← new_Node_lexed .textual_dimension)))
    else if (← lex number) then
      rec (.parse_value_schema_loop (schema.push_back (← new_Node_lexed .textual_number)))
    else if (← lex hex) then
      rec (.parse_value_schema_loop (schema.push_back (← new_Node_lexed .textual_hex)))
    else if (← lex string_constant) then
      rec (.parse_value_schema_loop (schema.push_back (← new_Node_lexed .string_constant)))
    else if (← lex variable_) then
      rec (.parse_value_schema_loop (schema.push_back (← new_Node_lexed .variable_)))
    else throw_syntax_error "error parsing interpolated value"
  else pure (schema.set_should_eval true)

/-- The function `Document::parse_value_schema`. -/
def parse_value_schema : Parser Node := do
  let schema ← new_Node .value_schema
  rec (.parse_value_schema_loop schema)

/-- The loop `while (i < id.end)` of `parse_identifier_schema`, and the statements
after it. -/
def parse_identifier_schema_loop (id : Token) (i : Nat) (schema : Node) : Parser Node := do
  if i < id.end_ then
    match (← find_in_interval interpolant_start i id.end_) with
    | some p =>
      let schema ← (if i < p then do
          let seg ← new_Node_token .identifier ⟨i, p⟩
          pure (schema.push_back seg)
        else pure schema)
      match (← find_in_interval (exactly_s rbrace) p id.end_) with
      | some j =>
        let interp_node ← in_token ⟨p + 2, j⟩ (rec .parse_list)
        rec (.parse_identifier_schema_loop id (j + 1)
              (schema.push_back (interp_node.set_should_eval true)))
      | none => throw_syntax_error "unterminated interpolant inside interpolated identifier"
    | none =>
      let schema ← (if i < id.end_ then do
          let seg ← new_Node_token .identifier ⟨i, id.end_⟩
          pure (schema.push_back seg)
        else pure schema)
      pure (schema.set_should_eval true)
  else pure (schema.set_should_eval true)

/-- The function `Document::parse_identifier_schema`. -/
def parse_identifier_schema : Parser Node := do
  let _ ← lex (sequence [optional (exactly '*'), identifier_schema])
  let id ← get_lexed
  match (← find_in_interval interpolant_start id.begin id.end_) with
  | none => new_Node_token .string_constant id
  | some _ =>
    let schema ← new_Node .identifier_schema
    rec (.parse_identifier_schema_loop id id.begin schema)

/-- The function `Document::parse_function_call`. -/
def parse_function_call : Parser Node := do
  let name ← (do
    if (← lex identifier_schema) then rec .parse_identifier_schema
    else
      let _ ← lex identifier
      new_Node_lexed .identifier)
  let args ← rec .parse_arguments
  let call ← new_Node .function_call
  pure (((call.push_back name).push_back args).set_should_eval true)

/-- The loop `while (lex< elseif_directive >())` of `parse_if_directive`, and the
statements after it. -/
def parse_if_directive_loop (surrounding_ruleset : Option Node) (inside_of : NodeType)
    (conditional : Node) : Parser Node := do
  if (← lex elseif_directive) then
    let predicate ← rec .parse_list
    let conditional := conditional.push_back predicate
    if !(← lex (exactly '{')) then
      throw_syntax_error "expected '\x7b' after the predicate for @else if"
    else
      let consequent ← rec (.parse_block surrounding_ruleset inside_of)
      rec (.parse_if_directive_loop surrounding_ruleset inside_of
            (conditional.push_back consequent))
  else if (← lex else_directive) then
    if !(← lex (exactly '{')) then throw_syntax_error "expected '\x7b' after @else"
    else
      let alternative ← rec (.parse_block surrounding_ruleset inside_of)
      pure (conditional.push_back alternative)
  else pure conditional

/-- The function `Document::parse_if_directive`. -/
def parse_if_directive (surrounding_ruleset : Option Node) (inside_of : NodeType) :
    Parser Node := do
  let _ ← lex if_directive
  let conditional ← new_Node .if_directive
  let predicate ← rec .parse_list
  let conditional := conditional.push_back predicate
  if !(← lex (exactly '{')) then
    throw_syntax_error "expected '\x7b' after the predicate for @if"
  else
    let consequent ← rec (.parse_block surrounding_ruleset inside_of)
    rec (.parse_if_directive_loop surrounding_ruleset inside_of
          (conditional.push_back consequent))

/-- The function `Document::parse_for_directive`. -/
def parse_for_directive (surrounding_ruleset : Option Node) (inside_of : NodeType) :
    Parser Node := do
  let _ ← lex for_directive
  let for_line ← get_line
  if !(← lex variable_) then throw_syntax_error "@for directive requires an iteration variable"
  else
    let var ← new_Node_lexed .variable_
    if !(← lex from_) then throw_syntax_error "expected 'from' keyword in @for directive"
    else
      let lower_bound ← rec .parse_expression
      let for_type ← (do
        if (← lex through) then pure (some NodeType.for_through_directive)
        else if (← lex to_) then pure (some NodeType.for_to_directive)
        else pure none)
      match for_type with
      | none => throw_syntax_error "expected 'through' or 'to' keywod in @for directive"
      | some for_type =>
        let upper_bound ← rec .parse_expression
        if !(← peek (exactly '{')) then
          throw_syntax_error "expected '\x7b' after the upper bound in @for directive"
        else
          let body ← rec (.parse_block surrounding_ruleset inside_of)
          let loop ← new_Node_at for_type for_line
          pure ((((loop.push_back var).push_back lower_bound).push_back upper_bound).push_back
            body)

/-- The function `Document::parse_each_directive`. -/
def parse_each_directive (surrounding_ruleset : Option Node) (inside_of : NodeType) :
    Parser Node := do
  let _ ← lex each_directive
  let each_line ← get_line
  if !(← lex variable_) then
    throw_syntax_error "@each directive requires an iteration variable"
  else
    let var ← new_Node_lexed .variable_
    if !(← lex in_) then throw_syntax_error "expected 'in' keyword in @each directive"
    else
      let list ← rec .parse_list
      if !(← peek (exactly '{')) then
        throw_syntax_error "expected '\x7b' after the upper bound in @each directive"
      else
        let body ← rec (.parse_block surrounding_ruleset inside_of)
        let each ← new_Node_at .each_directive each_line
        pure (((each.push_back var).push_back list).push_back body)

/-- The function `Document::parse_while_directive`. -/
def parse_while_directive (surrounding_ruleset : Option Node) (inside_of : NodeType) :
    Parser Node := do
  let _ ← lex while_directive
  let while_line ← get_line
  let predicate ← rec .parse_list
  let body ← rec (.parse_block surrounding_ruleset inside_of)
  let loop ← new_Node_at .while_directive while_line
  pure ((loop.push_back predicate).push_back body)

/-- The function `Document::parse_directive`. -/
def parse_directive (surrounding_ruleset : Option Node) (inside_of : NodeType) :
    Parser Node := do
  let _ ← lex directive
  let dir_name ← new_Node_lexed .blockless_directive
  if !(← peek (exactly '{')) then pure dir_name
  else
    let block ← rec (.parse_block surrounding_ruleset inside_of)
    let dir ← new_Node .block_directive
    pure ((dir.push_back dir_name).push_back block)

/-- The loop `while (lex< exactly<','> >())` of `parse_media_query`. -/
def parse_media_query_loop (media_expr_group : Node) : Parser Node := do
  if (← lex (exactly ',')) then
    let e ← rec .parse_media_expression
    rec (.parse_media_query_loop (media_expr_group.push_back e))
  else pure media_expr_group

/-- The function `Document::parse_media_query`. -/
def parse_media_query (inside_of : NodeType) : Parser Node := do
  let _ ← lex media
  let media_query ← new_Node .media_query
  let media_expr ← rec .parse_media_expression
  let media_query ← (do
    if (← peek (exactly '{')) then pure (some (media_query.push_back media_expr))
    else if (← peek (exactly ',')) then
      let media_expr_group ← new_Node .media_expression_group
      let media_expr_group ← rec (.parse_media_query_loop (media_expr_group.push_back media_expr))
      pure (some (media_query.push_back media_expr_group))
    else pure none)
  match media_query with
  | none => throw_syntax_error "expected '\x7b' in media query"
  | some media_query =>
    let block ← rec (.parse_block none inside_of)
    pure (media_query.push_back block)

/-- A parenthesised property of a media expression: `(`, `parse_rule`, `)`. -/
def parse_media_property (media_expr : Node) : Parser Node := do
  if !(← lex (exactly '(')) then throw_syntax_error "invalid media query"
  else
    let rule ← rec .parse_rule
    if !(← lex (exactly ')')) then throw_syntax_error "unclosed parenthesis"
    else pure (media_expr.push_back rule)

/-- The loop of `parse_media_expression`. -/
def parse_media_expression_loop (media_expr : Node) : Parser Node := do
  if !(← peek (exactly ',')) && !(← peek (exactly '{')) then
    if !(← lex and_kwd) then throw_syntax_error "invalid media query"
    else
      let media_expr := media_expr.push_back (← new_Node_lexed .identifier)
      let media_expr ← parse_media_property rec media_expr
      rec (.parse_media_expression_loop media_expr)
  else pure media_expr

/-- The function `Document::parse_media_expression`. -/
def parse_media_expression : Parser Node := do
  let media_expr ← new_Node .media_expression
  let media_expr ← (do
    if (← or_else (lex not_kwd) (lex only_kwd)) then
      let media_expr := media_expr.push_back (← new_Node_lexed .identifier)
      if !(← lex identifier) then pure none
      else pure (some (media_expr.push_back (← new_Node_lexed .identifier)))
    else if (← lex identifier) then
      pure (some (media_expr.push_back (← new_Node_lexed .identifier)))
    else pure (some media_expr))
  match media_expr with
  | none => throw_syntax_error "media type expected in media query"
  | some media_expr =>
    let media_expr ← (if media_expr.empty then parse_media_property rec media_expr
      else pure media_expr)
    rec (.parse_media_expression_loop media_expr)

/-- The function `Document::parse_warning`. -/
def parse_warning : Parser Node := do
  let _ ← lex warn
  let warning ← new_Node .warning
  let l ← rec .parse_list
  pure (warning.push_back l).set_first_should_eval

/-- The loop `while (position < end)` of `parse_scss`. -/
def parse_scss_loop (root : Node) : Parser Node := do
  if (← before_end) then
    let next : Node → Parser Node := fun root => do
      let _ ← lex_optional_spaces
      rec (.parse_scss_loop root)
    if (← lex_block_comment) then
      next (root.push_back (← new_Node_lexed .comment))
    else if (← peek import_) then
      let importee ← rec .parse_import
      let root := if importee.type = .css_import then root.push_back importee
        else root.append importee
      if !(← lex (exactly ';')) then
        throw_syntax_error "top-level @import directive must be terminated by ';'"
      else next root
    else if (← peek mixin) || (← peek (exactly '=')) then
      next (root.push_back (← rec .parse_mixin_definition))
    else if (← peek function) then
      next (root.push_back (← rec .parse_function_definition))
    else if (← peek variable_) then
      let root := root.push_back (← rec .parse_assignment)
      if !(← lex (exactly ';')) then
        throw_syntax_error "top-level variable binding must be terminated by ';'"
      else next root
    else if (← peek propset_head) then
      next (root.push_back (← rec .parse_propset))
    else
      let lookahead_result ← lookahead
      if lookahead_result.found.isSome then
        next (root.push_back (← rec (.parse_ruleset lookahead_result .none)))
      else if (← peek include_) || (← peek (exactly '+')) then
        let root := root.push_back (← rec .parse_mixin_call)
        if !(← lex (exactly ';')) then
          throw_syntax_error "top-level @include directive must be terminated by ';'"
        else next root
      else if (← peek if_directive) then
        next (root.push_back (← rec (.parse_if_directive none .none)))
      else if (← peek for_directive) then
        next (root.push_back (← rec (.parse_for_directive none .none)))
      else if (← peek each_directive) then
        next (root.push_back (← rec (.parse_each_directive none .none)))
      else if (← peek while_directive) then
        next (root.push_back (← rec (.parse_while_directive none .none)))
      else if (← peek media) then
        next (root.push_back (← rec (.parse_media_query .none)))
      else if (← peek warn) then
        let root := root.push_back (← rec .parse_warning)
        if !(← lex (exactly ';')) then
          throw_syntax_error "top-level @warn directive must be terminated by ';'"
        else next root
      else if (← peek directive) then
        let dir ← rec (.parse_directive none .none)
        if dir.type = .blockless_directive then
          if !(← lex (exactly ';')) then
            throw_syntax_error "top-level blockless directive must be terminated by ';'"
          else next (root.push_back dir)
        else next (root.push_back dir)
      else
        let _ ← lex spaces_and_comments
        if !(← before_end) then pure root
        else throw_syntax_error "invalid top-level expression"
  else pure root

/-- The function `Document::parse_scss`; the root node of the document (kind `root`,
line 1) is the result. -/
def parse_scss : Parser Node := do
  let _ ← lex_optional_spaces
  let root ← new_Node_at .root 1
  rec (.parse_scss_loop root)

/-- One production, with `rec` for the calls it makes. -/
def step : Call → Parser Node
  | .parse_scss => parse_scss rec
  | .parse_scss_loop root => parse_scss_loop rec root
  | .parse_import => parse_import rec
  | .parse_mixin_definition => parse_mixin_definition rec
  | .parse_function_definition => parse_function_definition rec
  | .parse_parameters => parse_parameters rec
  | .parse_parameters_loop params => parse_parameters_loop rec params
  | .parse_parameter => parse_parameter rec
  | .parse_mixin_call => parse_mixin_call rec
  | .parse_arguments => parse_arguments rec
  | .parse_arguments_loop args => parse_arguments_loop rec args
  | .parse_argument => parse_argument rec
  | .parse_assignment => parse_assignment rec
  | .parse_propset => parse_propset rec
  | .parse_propset_loop block => parse_propset_loop rec block
  | .parse_ruleset lookahead inside_of => parse_ruleset rec lookahead inside_of
  | .parse_selector_schema e => parse_selector_schema rec e
  | .parse_selector_schema_loop e i schema => parse_selector_schema_loop rec e i schema
  | .parse_selector_group => parse_selector_group rec
  | .parse_selector_group_loop group => parse_selector_group_loop rec group
  | .parse_selector => parse_selector rec
  | .parse_selector_loop selector => parse_selector_loop rec selector
  | .parse_simple_selector_sequence => parse_simple_selector_sequence rec
  | .parse_simple_selector_sequence_loop seq => parse_simple_selector_sequence_loop rec seq
  | .parse_simple_selector => parse_simple_selector rec
  | .parse_pseudo => parse_pseudo rec
  | .parse_attribute_selector => parse_attribute_selector
  | .parse_block sr io => parse_block rec sr io
  | .parse_block_loop sr io semicolon block => parse_block_loop rec sr io semicolon block
  | .parse_block_comments block => parse_block_comments rec block
  | .parse_rule => parse_rule rec
  | .parse_list => parse_list rec
  | .parse_comma_list => parse_comma_list rec
  | .parse_comma_list_loop l => parse_comma_list_loop rec l
  | .parse_space_list => parse_space_list rec
  | .parse_space_list_loop l => parse_space_list_loop rec l
  | .parse_disjunction => parse_disjunction rec
  | .parse_disjunction_loop l => parse_disjunction_loop rec l
  | .parse_conjunction => parse_conjunction rec
  | .parse_conjunction_loop l => parse_conjunction_loop rec l
  | .parse_relation => parse_relation rec
  | .parse_expression => parse_expression rec
  | .parse_expression_loop e => parse_expression_loop rec e
  | .parse_term => parse_term rec
  | .parse_term_loop t => parse_term_loop rec t
  | .parse_factor => parse_factor rec
  | .parse_value => parse_value rec
  | .parse_string => parse_string rec
  | .parse_string_loop str i schema => parse_string_loop rec str i schema
  | .parse_value_schema => parse_value_schema rec
  | .parse_value_schema_loop schema => parse_value_schema_loop rec schema
  | .parse_identifier_schema => parse_identifier_schema rec
  | .parse_identifier_schema_loop id i schema => parse_identifier_schema_loop rec id i schema
  | .parse_function_call => parse_function_call rec
  | .parse_if_directive sr io => parse_if_directive rec sr io
  | .parse_if_directive_loop sr io c => parse_if_directive_loop rec sr io c
  | .parse_for_directive sr io => parse_for_directive rec sr io
  | .parse_each_directive sr io => parse_each_directive rec sr io
  | .parse_while_directive sr io => parse_while_directive rec sr io
  | .parse_directive sr io => parse_directive rec sr io
  | .parse_media_query io => parse_media_query rec io
  | .parse_media_query_loop g => parse_media_query_loop rec g
  | .parse_media_expression => parse_media_expression rec
  | .parse_media_expression_loop e => parse_media_expression_loop rec e
  | .parse_warning => parse_warning rec

end Productions

/-- The parser: the production `c` run with `fuel` units of fuel.  A call of a
production and a turn of a loop take one unit each; without fuel the result is
`out_of_fuel`. -/
def parse : Nat → Call → Parser Node
  | 0, _ => fun _ => .error .out_of_fuel
  | fuel + 1, c => step (parse fuel) c

/-- Modelled from the spec: a document over a whole buffer, at line 1 (§6). -/
def Document.make (files : List (List Char × List Char)) (path source : List Char) :
    Document :=
  { path := path, source := source, position := 0, end_ := source.length, line := 1,
    lexed := Token.make, context := ⟨files, [], false⟩ }

/-- A document over the text `s`, without a path and without files to import. -/
def Document.of_string (s : String) : Document :=
  Document.make [] [] s.toList

/-- The node that the production `c` returns on the text `s`, if it returns one. -/
def run (fuel : Nat) (c : Call) (s : String) : Except Error Node :=
  match parse fuel c (Document.of_string s) with
  | .ok (n, _) => .ok n
  | .error e => .error e

/-- The node that the production `c` returns on the text `s`, and the cursor after it. -/
def run_cursor (fuel : Nat) (c : Call) (s : String) : Except Error (Node × Nat) :=
  match parse fuel c (Document.of_string s) with
  | .ok (n, d) => .ok (n, d.position)
  | .error e => .error e

/-- The node reached from `n` by a path of child indices. -/
def Node.descend : Node → List Nat → Option Node
  | n, [] => some n
  | n, i :: path =>
    match n.children.get? i with
    | some c => c.descend path
    | none => none

/-- A leaf on line 1 of the unnamed document, with the token `[b, e)`. -/
def leaf (type : NodeType) (b e : Nat) : Node := ⟨type, [], 1, ⟨b, e⟩, false, false, []⟩

/-- An internal node on line 1 of the unnamed document, `should_eval` unset. -/
def inner (type : NodeType) (children : List Node) : Node :=
  ⟨type, [], 1, Token.make, false, false, children⟩

/-- The shape that scenario 1 of the spec (§8) gives for `a { color: red; }`:
root[ruleset[selector[simple_selector("a")], block[rule[property("color"),
string_constant("red")]]]], whatever the lines, paths and flags. -/
def scenario1_shape (src : List Char) (root : Node) : Bool :=
  root.type = .root &&
  match root.children with
  | [ruleset] =>
    ruleset.type = .ruleset &&
    match ruleset.children with
    | [sel, block] =>
      sel.type = .selector && block.type = .block &&
      (match sel.children with
       | [simple] => simple.type = .simple_selector && simple.token.text src = ['a']
       | _ => false) &&
      (match block.children with
       | [rule] =>
         rule.type = .rule &&
         (match rule.children with
          | [property, value] =>
            property.type = .property && property.token.text src = "color".toList &&
            value.type = .string_constant && value.token.text src = "red".toList
          | _ => false)
       | _ => false)
    | _ => false
  | _ => false

/-! ## Predicates used in the theorems -/

/-- Partial correctness: every result that `x` returns from the state `d` satisfies `Q`. -/
def Parser.post {α : Type} (x : Parser α) (d : Document) (Q : α → Document → Prop) : Prop :=
  ∀ a d1, x d = .ok (a, d1) → Q a d1

/-- Whether the matcher `mx` matches at the cursor, after the skipped part. -/
def Document.sees (d : Document) (k : Skip) (mx : Prelexer.prelexer) : Bool :=
  (mx (after_whitespace k (d.source.drop d.position))).isSome

/-- The state after `lex`: advanced over the match when there is one. -/
def Document.lexed_with (d : Document) (k : Skip) (mx : Prelexer.prelexer) : Document :=
  match mx (after_whitespace k (d.source.drop d.position)) with
  | some after_token =>
    { d with
      line := d.line + count_interval '\n' d.source d.position (d.offset after_token)
      lexed := ⟨d.offset (after_whitespace k (d.source.drop d.position)), d.offset after_token⟩
      position := d.offset after_token }
  | none => d

/-- The kind of the node that a production returns, where it is fixed: a block parser
returns a block, the schema parser a schema; a loop returns the node it carries. -/
def type_post : Call → Node → Prop
  | .parse_block _ _, n => n.type = .block
  | .parse_block_loop _ _ _ block, n => n.type = block.type
  | .parse_block_comments block, n => n.type = block.type
  | .parse_selector_schema _, n => n.type = .selector_schema
  | .parse_selector_schema_loop _ _ schema, n => n.type = schema.type
  | _, _ => True

/-- Whether a space-separated list ends at the cursor: the test of `parse_space_list`, one
of `;`, `}`, `{`, `)`, `,` or `!default` comes next. -/
def Document.at_space_list_end (d : Document) : Bool :=
  d.sees .spaces_and_comments (Prelexer.exactly ';') ||
  d.sees .spaces_and_comments (Prelexer.exactly '}') ||
  d.sees .spaces_and_comments (Prelexer.exactly '{') ||
  d.sees .spaces_and_comments (Prelexer.exactly ')') ||
  d.sees .spaces_and_comments (Prelexer.exactly ',') ||
  d.sees .spaces_and_comments Prelexer.default_flag

/-- Whether a comma-separated list is empty at the cursor: the first test of
`parse_comma_list`, one of `;`, `}`, `{`, `)` comes next. -/
def Document.at_comma_list_end (d : Document) : Bool :=
  d.sees .spaces_and_comments (Prelexer.exactly ';') ||
  d.sees .spaces_and_comments (Prelexer.exactly '}') ||
  d.sees .spaces_and_comments (Prelexer.exactly '{') ||
  d.sees .spaces_and_comments (Prelexer.exactly ')')

/-- The connective `or`, not continued by an identifier. -/
def or_connective : Prelexer.prelexer :=
  Prelexer.sequence [Prelexer.or_kwd, Prelexer.negate Prelexer.identifier]

/-- The connective `and`, not continued by an identifier. -/
def and_connective : Prelexer.prelexer :=
  Prelexer.sequence [Prelexer.and_kwd, Prelexer.negate Prelexer.identifier]

/-- What the loop of a list or of a boolean connective returns, started at the state `d`
with the node `acc`: a node of the same kind that keeps the children of `acc` in front,
and has at least one more child when a separator of its level is seen at `d`. -/
def list_post : Call → Document → Node → Prop
  | .parse_comma_list_loop acc, d, n =>
    n.type = acc.type ∧ acc.children <+: n.children ∧
      (d.sees .spaces_and_comments (Prelexer.exactly ',') = true →
        acc.children.length < n.children.length)
  | .parse_space_list_loop acc, d, n =>
    n.type = acc.type ∧ acc.children <+: n.children ∧
      (d.at_space_list_end = false → acc.children.length < n.children.length)
  | .parse_disjunction_loop acc, d, n =>
    n.type = acc.type ∧ acc.children <+: n.children ∧
      (d.sees .spaces_and_comments or_connective = true →
        acc.children.length < n.children.length)
  | .parse_conjunction_loop acc, d, n =>
    n.type = acc.type ∧ acc.children <+: n.children ∧
      (d.sees .spaces_and_comments and_connective = true →
        acc.children.length < n.children.length)
  | _, _, _ => True

/-- A matcher that returns a suffix of its input: it only moves forward. -/
def Prelexer.Suffixing (mx : Prelexer.prelexer) : Prop :=
  ∀ s r, mx s = some r → r <:+ s

/-- Whether a comparison operator is seen at the cursor: the first test of
`parse_relation`. -/
def Document.sees_comparison (d : Document) : Bool :=
  d.sees .spaces_and_comments Prelexer.eq_op || d.sees .spaces_and_comments Prelexer.neq_op ||
  d.sees .spaces_and_comments Prelexer.gt_op || d.sees .spaces_and_comments Prelexer.gte_op ||
  d.sees .spaces_and_comments Prelexer.lt_op || d.sees .spaces_and_comments Prelexer.lte_op

/-- The comparison operator at the head of a text, with the kind of its node: `==` eq,
`!=` neq, `>=` gte, `<=` lte, `>` gt, `<` lt. -/
def comparison_operator : List Char → Option (NodeType × List Char)
  | '=' :: '=' :: _ => some (.eq, ['=', '='])
  | '!' :: '=' :: _ => some (.neq, ['!', '='])
  | '>' :: '=' :: _ => some (.gte, ['>', '='])
  | '<' :: '=' :: _ => some (.lte, ['<', '='])
  | '>' :: _ => some (.gt, ['>'])
  | '<' :: _ => some (.lt, ['<'])
  | _ => none

/-- The text at the cursor, after the spaces and comments that `peek` and `lex` skip. -/
def Document.ahead (d : Document) : List Char :=
  after_whitespace .spaces_and_comments (d.source.drop d.position)

/-- The kinds that stand for computation: a variable, an interpolation schema, the
operators `+`, `-`, `*` (with the unary signs), a comparison or its operator, a boolean
connective, a function call.  The operator `/` is not among them. -/
def NodeType.computes : NodeType → Bool
  | .variable_ | .function_call | .string_schema | .value_schema | .identifier_schema
  | .relation | .expression | .disjunction | .conjunction | .unary_plus | .unary_minus
  | .add | .sub | .mul | .eq | .neq | .gt | .gte | .lt | .lte => true
  | _ => false

/-- The kinds of the inner nodes that the value productions mark `should_eval` when they
make them: a function call, an interpolation schema, a comparison, an expression, a
boolean connective, a unary sign. -/
def NodeType.evaluated : NodeType → Bool
  | .function_call | .string_schema | .value_schema | .identifier_schema
  | .relation | .expression | .disjunction | .conjunction | .unary_plus | .unary_minus => true
  | _ => false

mutual

/-- Whether a node calls for evaluation: it is of a kind that stands for computation, it
is marked `should_eval`, or it contains such a node. -/
def Node.asks : Node → Bool
  | ⟨t, _, _, _, _, s, cs⟩ => t.computes || s || Node.asks_any cs
termination_by structural n => n

/-- Whether one of the nodes calls for evaluation. -/
def Node.asks_any : List Node → Bool
  | [] => false
  | c :: cs => c.asks || Node.asks_any cs
termination_by structural cs => cs
end

/-- The property of the root of a value: it is marked `should_eval` when it is of a kind
that stands for computation or contains a node that calls for evaluation. -/
def Node.top (n : Node) : Prop :=
  (n.type.computes = true ∨ Node.asks_any n.children = true) → n.should_eval = true

/-- The property of a node inside a value: it is marked `should_eval` when it is of a
kind that is marked when made, when it is a variable, and when it contains a node that
calls for evaluation. -/
def Node.settled (n : Node) : Bool :=
  !(n.type.evaluated || decide (n.type = .variable_) || Node.asks_any n.children) ||
    n.should_eval

/-- The children that need not be `settled`: the `arguments` node of a call, and the
variable that names a keyword argument (`name` says that the child is the first one of an
`assignment`). -/
def Node.exempt (name : Bool) (c : Node) : Bool :=
  decide (c.type = .arguments) || (name && decide (c.type = .variable_) && c.children.isEmpty)

mutual

/-- Whether every node below the root is `settled`, the exempt ones apart. -/
def Node.marked : Node → Bool
  | ⟨t, _, _, _, _, _, cs⟩ => Node.marked_all (decide (t = .assignment)) cs
termination_by structural n => n

/-- Whether all the trees are `marked` and their roots `settled`, the exempt ones apart;
`name` says that the first tree is the first child of an `assignment`. -/
def Node.marked_all : Bool → List Node → Bool
  | _, [] => true
  | name, c :: cs => (Node.exempt name c || c.settled) && c.marked && Node.marked_all false cs
termination_by structural _ cs => cs
end

/-- The invariant of a list or term under construction: the children are `marked` and
`settled`, and the node is marked `should_eval` when a child calls for evaluation. -/
def Node.partly_marked (n : Node) : Prop :=
  Node.marked_all false n.children = true ∧
    (Node.asks_any n.children = true → n.should_eval = true)

/-- One token of a value schema: the matchers that the loop of `parse_value_schema` tries
before it looks for a variable, in the order of the loop. -/
def schema_token : Prelexer.prelexer :=
  Prelexer.alternatives [Prelexer.interpolant, Prelexer.identifier, Prelexer.percentage,
    Prelexer.dimension, Prelexer.number, Prelexer.hex, Prelexer.string_constant]

/-- The text `s` is taken down to its suffix `r` by tokens of a value schema, each matched
as `lex` does, after the spaces and comments before it. -/
inductive schema_tokens : List Char → List Char → Prop
  | done (s : List Char) : schema_tokens s s
  | token (s r t : List Char) :
      schema_token (after_whitespace .spaces_and_comments s) = some r →
      schema_tokens r t → schema_tokens s t

/-- The state of a document made from the token of a value schema: from the cursor to the
end the text is made of tokens of a value schema. -/
def Document.in_schema (d : Document) : Prop :=
  d.position ≤ d.source.length ∧
  ∃ r, r <:+ d.source ∧ d.end_ = d.offset r ∧ schema_tokens (d.source.drop d.position) r

/-- What the value productions need when they are called: of the node a loop carries, and
of the state in which the parser of a value schema starts. -/
def eval_pre : Call → Document → Prop
  | .parse_comma_list_loop acc, _ => acc.partly_marked
  | .parse_space_list_loop acc, _ => acc.partly_marked
  | .parse_term_loop acc, _ => acc.partly_marked
  | .parse_disjunction_loop acc, _ => Node.marked_all false acc.children = true
  | .parse_conjunction_loop acc, _ => Node.marked_all false acc.children = true
  | .parse_expression_loop acc, _ => Node.marked_all false acc.children = true
  | .parse_arguments_loop acc, _ =>
    Node.marked_all false acc.children = true ∧ acc.type = .arguments
  | .parse_string_loop _ _ acc, _ => Node.marked_all false acc.children = true
  | .parse_identifier_schema_loop _ _ acc, _ => Node.marked_all false acc.children = true
  | .parse_value_schema_loop acc, d => Node.marked_all false acc.children = true ∧ d.in_schema
  | .parse_value_schema, d => d.in_schema
  | _, _ => True

/-- What the value productions return: a `marked` tree whose root has the property `top`.
The loops return the node they carry, grown; `parse_arguments` returns the `arguments`
node, which it leaves unmarked, with every argument marked; `parse_argument` returns a
`marked` tree. -/
def eval_post : Call → Node → Prop
  | .parse_list, n | .parse_comma_list, n | .parse_space_list, n | .parse_disjunction, n
  | .parse_conjunction, n | .parse_relation, n | .parse_expression, n | .parse_term, n
  | .parse_factor, n | .parse_value, n | .parse_function_call, n | .parse_string, n
  | .parse_value_schema, n | .parse_identifier_schema, n =>
    n.marked = true ∧ n.top
  | .parse_comma_list_loop acc, n | .parse_space_list_loop acc, n | .parse_term_loop acc, n =>
    n.type = acc.type ∧ n.partly_marked
  | .parse_disjunction_loop acc, n | .parse_conjunction_loop acc, n
  | .parse_expression_loop acc, n | .parse_string_loop _ _ acc, n
  | .parse_identifier_schema_loop _ _ acc, n | .parse_value_schema_loop acc, n =>
    n.type = acc.type ∧ Node.marked_all false n.children = true ∧ n.should_eval = true
  | .parse_arguments_loop _, n | .parse_arguments, n =>
    n.type = .arguments ∧ Node.marked_all false n.children = true
  | .parse_argument, n => n.marked = true
  | _, _ => True

/-- What `marked` says of one node below the root. -/
def Node.flagged (m : Node) : Prop :=
  (m.type ≠ .arguments → Node.asks_any m.children = true → m.should_eval = true) ∧
  (m.type.evaluated = true → m.should_eval = true)

/-- What `marked` says of the children of one node: the variables among them are marked,
the first child of an `assignment` apart. -/
def Node.names (m : Node) : Prop :=
  ∀ c ∈ (if m.type = .assignment then m.children.tail else m.children),
    c.type = .variable_ → c.should_eval = true

mutual

/-- All the nodes of a tree, the root first. -/
def Node.nodes : Node → List Node
  | ⟨t, p, l, k, b, s, cs⟩ => ⟨t, p, l, k, b, s, cs⟩ :: Node.nodes_all cs
termination_by structural n => n

/-- All the nodes of the trees of a list. -/
def Node.nodes_all : List Node → List Node
  | [] => []
  | c :: cs => c.nodes ++ Node.nodes_all cs
termination_by structural cs => cs
end

/-- A nonempty run of digits. -/
def is_digits (ds : List Char) : Prop := ds ≠ [] ∧ ∀ c ∈ ds, Prelexer.isdigit c = true

/-- An unsigned number literal: digits, or digits (possibly none), a point and digits. -/
def is_unsigned_number (u : List Char) : Prop :=
  is_digits u ∨
  ∃ a b, u = a ++ '.' :: b ∧ (∀ c ∈ a, Prelexer.isdigit c = true) ∧ is_digits b

/-- A number literal: an unsigned number literal, with an optional sign before it. -/
def is_number (m : List Char) : Prop :=
  is_unsigned_number m ∨ ∃ s u, m = s :: u ∧ (s = '-' ∨ s = '+') ∧ is_unsigned_number u

/-- A byte that ends a value: a space or one of `;` `}` `{` `)` `,`. -/
def is_value_end (c : Char) : Prop :=
  c = ' ' ∨ c = ';' ∨ c = '}' ∨ c = '{' ∨ c = ')' ∨ c = ','

/-- Whether a text starts like a number literal: a digit or a point, or a sign with a
digit or a point after it. -/
def number_start : List Char → Bool
  | c :: rest =>
    Prelexer.isdigit c || c == '.' ||
      ((c == '+' || c == '-') &&
        match rest with
        | c2 :: _ => Prelexer.isdigit c2 || c2 == '.'
        | [] => false)
  | [] => false

/-- A byte that ends a space-separated list: one of `;` `}` `{` `)` `,`. -/
def is_list_end (c : Char) : Prop :=
  c = ';' ∨ c = '}' ∨ c = '{' ∨ c = ')' ∨ c = ','

/-- The state after a `lex` that matched the span `[b, e)` without crossing a newline. -/
def Document.moved (d : Document) (b e : Nat) : Document :=
  { d with lexed := ⟨b, e⟩, position := e }

/-- Whether a binary operator, a comparison or a connective is seen at the cursor: the
tests of `parse_term`, `parse_expression`, `parse_relation`, `parse_conjunction` and
`parse_disjunction` after their first operand. -/
def Document.sees_operator (d : Document) : Bool :=
  d.sees .spaces_and_comments (Prelexer.exactly '*') ||
  d.sees .spaces_and_comments (Prelexer.exactly '/') ||
  d.sees .spaces_and_comments (Prelexer.exactly '+') ||
  d.sees .spaces_and_comments
    (Prelexer.sequence [Prelexer.negate Prelexer.number, Prelexer.exactly '-']) ||
  d.sees_comparison ||
  d.sees .spaces_and_comments and_connective ||
  d.sees .spaces_and_comments or_connective

/-- The kinds of a pure literal tree: the literal leaves (identifier, number, percentage,
dimension, hex colour, string constant, boolean) and the two lists that wrap them. -/
def NodeType.literal : NodeType → Bool
  | .identifier | .textual_number | .textual_percentage | .textual_dimension | .textual_hex
  | .string_constant | .boolean | .space_list | .comma_list => true
  | _ => false

mutual

/-- Whether every node of the tree is of a literal kind. -/
def Node.plain : Node → Bool
  | ⟨t, _, _, _, _, _, cs⟩ => t.literal && Node.plain_all cs
termination_by structural n => n

/-- Whether all the trees are `plain`. -/
def Node.plain_all : List Node → Bool
  | [] => true
  | c :: cs => c.plain && Node.plain_all cs
termination_by structural cs => cs
end

mutual

/-- Whether no node of the tree has `should_eval` set. -/
def Node.unmarked : Node → Bool
  | ⟨_, _, _, _, _, s, cs⟩ => !s && Node.unmarked_all cs
termination_by structural n => n

/-- Whether all the trees are `unmarked`. -/
def Node.unmarked_all : List Node → Bool
  | [] => true
  | c :: cs => c.unmarked && Node.unmarked_all cs
termination_by structural cs => cs
end

/-- A pure literal tree has no flag set. -/
def Node.literal_unmarked (n : Node) : Prop := n.plain = true → n.unmarked = true

/-- What the value productions return, from the state `d` to the state `d1`: the buffer
is the same, and when it has no `(` a pure literal tree has no flag set.  A list loop
keeps that property of the node it carries; the other loops and the schema and call
parsers return a node of a fixed kind. -/
def literal_post : Call → Document → Node → Document → Prop
  | .parse_list, d, n, d1 | .parse_comma_list, d, n, d1 | .parse_space_list, d, n, d1
  | .parse_disjunction, d, n, d1 | .parse_conjunction, d, n, d1 | .parse_relation, d, n, d1
  | .parse_expression, d, n, d1 | .parse_term, d, n, d1 | .parse_factor, d, n, d1
  | .parse_value, d, n, d1 | .parse_string, d, n, d1 =>
    d1.source = d.source ∧ ('(' ∉ d.source → n.literal_unmarked)
  | .parse_comma_list_loop acc, d, n, d1 | .parse_space_list_loop acc, d, n, d1 =>
    d1.source = d.source ∧ ('(' ∉ d.source → acc.literal_unmarked → n.literal_unmarked)
  | .parse_term_loop acc, d, n, d1 | .parse_expression_loop acc, d, n, d1
  | .parse_disjunction_loop acc, d, n, d1 | .parse_conjunction_loop acc, d, n, d1
  | .parse_string_loop _ _ acc, d, n, d1 | .parse_value_schema_loop acc, d, n, d1
  | .parse_identifier_schema_loop _ _ acc, d, n, d1 | .parse_arguments_loop acc, d, n, d1 =>
    d1.source = d.source ∧ n.type = acc.type
  | .parse_function_call, d, n, d1 => d1.source = d.source ∧ n.type = .function_call
  | .parse_value_schema, d, n, d1 => d1.source = d.source ∧ n.type = .value_schema
  | .parse_identifier_schema, d, _, d1 | .parse_arguments, d, _, d1
  | .parse_argument, d, _, d1 => d1.source = d.source
  | _, _, _, _ => True

/-- The `@else if` clauses that the loop of `parse_if_directive` reads from the state `d`
on: for each clause the predicate that `parse_list` returns after `@else if` and the
block that `parse_block` returns after the `{`, in the order of the text, and the state
after the last clause, where no `@else if` comes next. -/
inductive else_if_clauses (sr : Option Node) (io : NodeType) :
    Document → List Node → Document → Prop
  | done (d : Document) :
      d.sees .spaces_and_comments Prelexer.elseif_directive = false →
      else_if_clauses sr io d [] d
  | clause (d d1 d2 d3 : Document) (f1 f2 : Nat) (p b : Node) (cs : List Node) :
      d.sees .spaces_and_comments Prelexer.elseif_directive = true →
      parse f1 .parse_list (d.lexed_with .spaces_and_comments Prelexer.elseif_directive) =
        .ok (p, d1) →
      d1.sees .spaces_and_comments (Prelexer.exactly '{') = true →
      parse f2 (.parse_block sr io)
        (d1.lexed_with .spaces_and_comments (Prelexer.exactly '{')) = .ok (b, d2) →
      else_if_clauses sr io d2 cs d3 →
      else_if_clauses sr io d (p :: b :: cs) d3

/-- The bare `@else` at the state `d`: the block that `parse_block` returns after
`@else {` when `@else` comes next, nothing otherwise; and the state after it. -/
def else_clause (sr : Option Node) (io : NodeType) (d : Document) (alt : List Node)
    (d1 : Document) : Prop :=
  (d.sees .spaces_and_comments Prelexer.else_directive = true ∧
    (d.lexed_with .spaces_and_comments Prelexer.else_directive).sees
      .spaces_and_comments (Prelexer.exactly '{') = true ∧
    ∃ f b, parse f (.parse_block sr io)
      ((d.lexed_with .spaces_and_comments Prelexer.else_directive).lexed_with
        .spaces_and_comments (Prelexer.exactly '{')) = .ok (b, d1) ∧ alt = [b]) ∨
  (d.sees .spaces_and_comments Prelexer.else_directive = false ∧ alt = [] ∧ d1 = d)

/-- Whether `#{` stands at the position `q` of the buffer. -/
def opens_interpolant (src : List Char) (q : Nat) : Bool :=
  match src.drop q with
  | '#' :: '{' :: _ => true
  | _ => false

/-- Whether `}` stands at the position `q` of the buffer. -/
def closes_interpolant (src : List Char) (q : Nat) : Bool :=
  match src.drop q with
  | '}' :: _ => true
  | _ => false

/-- A piece of a string with interpolants, in the words of the contract of
`parse_string`: a literal run `[begin, end)`, or an interpolant whose `#{` stands at
`begin` and whose `}` stands at `end`, with the subtree parsed from the interior
`[begin + 2, end)`. -/
inductive Schema_Piece where
  | literal (begin end_ : Nat)
  | interpolant (begin end_ : Nat) (subtree : Node)

/-- The text of a piece: the literal run, or `#{` + interior + `}`. -/
def Schema_Piece.text (src : List Char) : Schema_Piece → List Char
  | .literal b e => Token.text src ⟨b, e⟩
  | .interpolant p j _ => '#' :: '{' :: (Token.text src ⟨p + 2, j⟩ ++ ['}'])

/-- The child that stands for a piece in the schema: an `identifier` leaf over a literal
run, the parsed subtree of an interior, marked for evaluation. -/
def Schema_Piece.child (path : List Char) (line : Nat) : Schema_Piece → Node
  | .literal b e => ⟨.identifier, path, line, ⟨b, e⟩, false, false, []⟩
  | .interpolant _ _ a => a.set_should_eval true

/-- The pieces of the text `[i, str_end)` of a string, in the words of the contract of
`parse_string`, in the order of the text: the non-empty maximal literal runs (no `#{`
starts inside one) and the interpolants, each from its `#{` to the first `}` at or after
it, with the subtree that `parse_list` returns on the interior.  The number is the fuel
of the loop that reads the pieces, the documents are the states before and after (the
interiors are parsed in the context of the document, one after the other). -/
inductive spec_string_pieces (str_end : Nat) :
    Nat → Document → Nat → List Schema_Piece → Document → Prop
  | done (fuel : Nat) (d : Document) (i : Nat) :
      str_end ≤ i → spec_string_pieces str_end (fuel + 1) d i [] d
  | last (fuel : Nat) (d : Document) (i : Nat) :
      i < str_end →
      (∀ q, i ≤ q → q < str_end → opens_interpolant d.source q = false) →
      spec_string_pieces str_end (fuel + 1) d i [.literal i str_end] d
  | interpolant (fuel : Nat) (d : Document) (i p j : Nat) (a : Node) (d0 : Document)
      (ps : List Schema_Piece) (d1 : Document) :
      i ≤ p → p < str_end → opens_interpolant d.source p = true →
      (∀ q, i ≤ q → q < p → opens_interpolant d.source q = false) →
      p ≤ j → j < str_end → closes_interpolant d.source j = true →
      (∀ q, p ≤ q → q < j → closes_interpolant d.source q = false) →
      parse fuel .parse_list { d with position := p + 2, end_ := j, lexed := Token.make } =
        .ok (a, d0) →
      spec_string_pieces str_end fuel { d with context := d0.context } (j + 1) ps d1 →
      spec_string_pieces str_end (fuel + 1) d i
        ((if i < p then [.literal i p] else []) ++ .interpolant p j a :: ps) d1

/-- The surrounding ruleset that a production is called with, for the productions that
take one. -/
def Call.surrounding_ruleset : Call → Option Node
  | .parse_block sr _ | .parse_block_loop sr _ _ _ | .parse_if_directive sr _
  | .parse_if_directive_loop sr _ _ | .parse_for_directive sr _
  | .parse_each_directive sr _ | .parse_while_directive sr _ | .parse_directive sr _ => sr
  | _ => none

/-- What a parse routine called with the surrounding ruleset `sr` leaves of the state `d`
in the state `d1`: the buffer, its end and the path are the same, and the registry of
extensions has grown at its end by pairs whose second component is `sr` or a node of
kind `ruleset`. -/
def Document.frame (sr : Option Node) (d d1 : Document) : Prop :=
  d1.source = d.source ∧ d1.end_ = d.end_ ∧ d1.path = d.path ∧
  ∃ new, d1.context.extensions = d.context.extensions ++ new ∧
    ∀ pr ∈ new, pr.2.type = .ruleset ∨ some pr.2 = sr

/-- A parse routine that keeps the frame, from every state. -/
def Parser.keeps {α : Type} (sr : Option Node) (x : Parser α) : Prop :=
  ∀ d, x.post d (fun _ d1 => d.frame sr d1)

/-- The registry of extensions after the production `c` has run on the text `s`. -/
def run_registry (fuel : Nat) (c : Call) (s : String) : Except Error (List (Node × Node)) :=
  match parse fuel c (Document.of_string s) with
  | .ok (_, d) => .ok d.context.extensions
  | .error e => .error e

/-- A parse routine that, started in a document over a whole buffer (the end of the
document is the end of the buffer), returns only with the cursor at the end. -/
def Parser.reaches_end {α : Type} (x : Parser α) : Prop :=
  ∀ d, d.end_ = d.source.length → x.post d (fun _ d1 => d1.position = d1.end_)

/-- Whether the statement at the cursor of a block reaches the last alternative of
`parse_block`, the declaration: no block comment is taken, none of `@import`, a variable,
`@if`, `@for`, `@each`, `@while`, `@return`, `@warn`, `@include`, a namespaced property
`p: {`, a selector, `+`, `@extend`, `@media`, another directive or `;` comes next, and
the block is not that of a function. -/
def Document.at_declaration (d : Document) (inside_of : NodeType) : Bool :=
  !d.sees .before_block_comment Prelexer.block_comment &&
  !d.sees .spaces_and_comments Prelexer.import_ &&
  !d.sees .spaces_and_comments Prelexer.variable_ &&
  !d.sees .spaces_and_comments Prelexer.if_directive &&
  !d.sees .spaces_and_comments Prelexer.for_directive &&
  !d.sees .spaces_and_comments Prelexer.each_directive &&
  !d.sees .spaces_and_comments Prelexer.while_directive &&
  !d.sees .spaces_and_comments Prelexer.return_directive &&
  !d.sees .spaces_and_comments Prelexer.warn &&
  !decide (inside_of = .function) &&
  !d.sees .spaces_and_comments Prelexer.include_ &&
  !d.sees .spaces_and_comments propset_head &&
  !(lookahead_for_selector d d.position).found.isSome &&
  !d.sees .spaces_and_comments (Prelexer.exactly '+') &&
  !d.sees .spaces_and_comments Prelexer.extend &&
  !d.sees .spaces_and_comments Prelexer.media &&
  !d.sees .spaces_and_comments Prelexer.directive &&
  !d.sees .spaces_and_comments (Prelexer.exactly ';')

/-- A parse routine that returns only nodes of the kind `t`. -/
def Parser.returns_kind (t : NodeType) (x : Parser Node) : Prop :=
  ∀ d, x.post d (fun n _ => n.type = t)

/-- A byte that starts a name: a letter or `_`. -/
def is_name_start (c : Char) : Bool := Prelexer.isalpha c || c == '_'

/-- A byte of a name: a letter, a digit, `-` or `_`. -/
def is_name_char (c : Char) : Bool := Prelexer.isalnum c || c == '-' || c == '_'

/-- A name that starts with a letter or `_` and goes on with letters, digits, `-` and
`_`. -/
def is_plain_identifier : List Char → Bool
  | c :: cs => is_name_start c && cs.all is_name_char
  | [] => false

/-- An identifier without escapes: a name, or `-` and a name. -/
def is_identifier : List Char → Bool
  | c :: cs => is_plain_identifier (c :: cs) || (c == '-' && is_plain_identifier cs)
  | [] => false

/-- Whether `true` or `false` at the start of a name is the whole name or is continued by
an identifier: the guard `negate< identifier >` of `parse_value` then takes the keyword
only when it is the whole name. -/
def is_plain_value (w : List Char) : Bool :=
  ["true".toList, "false".toList].all fun k =>
    !k.isPrefixOf w || (w.drop k.length).isEmpty || is_identifier (w.drop k.length)

/-- Whether `parse_factor` takes an identifier as one value, with its sign when it has
one. -/
def is_single_value : List Char → Bool
  | c :: cs => if c = '-' then is_plain_value cs else is_plain_value (c :: cs)
  | [] => false

/-- Whether the text `s` stands at the cursor, after spaces on the same line: it is what
`peek` and `lex` see, no newline is skipped before it, and no block comment comes
first. -/
def Document.at_text (d : Document) (s : List Char) : Bool :=
  d.ahead == s && count_interval '\n' d.source d.position (d.offset s) == 0 &&
  !d.sees .before_block_comment Prelexer.block_comment

/-- Whether a statement of a block is taken as a nested ruleset: the alternatives of
`parse_block` before the look-ahead miss, the block is not that of a function, and the
look-ahead finds a selector. -/
def Document.at_ruleset (d : Document) (inside_of : NodeType) : Bool :=
  !d.sees .before_block_comment Prelexer.block_comment &&
  !d.sees .spaces_and_comments Prelexer.import_ &&
  !d.sees .spaces_and_comments Prelexer.variable_ &&
  !d.sees .spaces_and_comments Prelexer.if_directive &&
  !d.sees .spaces_and_comments Prelexer.for_directive &&
  !d.sees .spaces_and_comments Prelexer.each_directive &&
  !d.sees .spaces_and_comments Prelexer.while_directive &&
  !d.sees .spaces_and_comments Prelexer.return_directive &&
  !d.sees .spaces_and_comments Prelexer.warn &&
  !decide (inside_of = .function) &&
  !d.sees .spaces_and_comments Prelexer.include_ &&
  !d.sees .spaces_and_comments propset_head &&
  (lookahead_for_selector d d.position).found.isSome

/-- The matcher of one turn of `lookahead_for_selector`: the tokens that may stand in a
selector. -/
def selector_token : Prelexer.prelexer :=
  alternatives
    [identifier, id_name, class_name, sequence [ pseudo_prefix, identifier],
     string_constant, exactly '*', exactly '(', exactly ')', exactly '[', exactly ']',
     exactly '+', exactly '~', exactly '>', exactly ',', binomial,
     sequence [optional sign, optional digits, exactly 'n'],
     sequence [optional sign, digits], number, exactly '&',
     alternatives [exact_match, class_match, dash_match,
                   prefix_match, suffix_match, substring_match],
     sequence [exactly '.', interpolant], sequence [exactly '#', interpolant],
     sequence [exactly '-', interpolant], sequence [ pseudo_prefix, interpolant],
     interpolant]

/-- One turn of the loop of `lookahead_for_selector` at `p`: the end of the selector
token that `peek` matches there, the spaces and comments before it skipped, or nothing
when no selector token stands there. -/
def selector_step (d : Document) (p : Nat) : Option Nat :=
  peek_at .spaces_and_comments selector_token d p

/-- The leaf that `new_Node(kind, path, line, token)` makes in the state `d` for the
span `[b, e)`. -/
def Document.leaf (d : Document) (type : NodeType) (b e : Nat) : Node :=
  ⟨type, d.path, d.line, ⟨b, e⟩, false, false, []⟩

/-- The internal node that `new_Node(kind, path, line)` makes in the state `d`, with the
children pushed to it. -/
def Document.inner (d : Document) (type : NodeType) (children : List Node) : Node :=
  ⟨type, d.path, d.line, Token.make, false, false, children⟩

/-! ### Termination -/

/-- A matcher that returns a suffix of its input: it only moves forward. -/
class Prelexer.Forward (mx : Prelexer.prelexer) : Prop where
  suffix : ∀ s r, mx s = some r → r <:+ s

/-- A matcher that takes at least one byte whenever it matches. -/
class Prelexer.Consuming (mx : Prelexer.prelexer) : Prop where
  shorter : ∀ s r, mx s = some r → r.length < s.length

/-- A matcher that takes at least two bytes whenever it matches. -/
def Prelexer.Consuming_two (mx : Prelexer.prelexer) : Prop :=
  ∀ s r, mx s = some r → r.length + 2 ≤ s.length

/-- The rank of a production.  A production calls another one either after it has
moved the cursor or where the other one has a lower rank.  A turn of the loop of
`parse_block` that still has to read the `;` of the statement before it ranks below a
turn that starts a statement. -/
def Call.rank : Call → Nat
  | .parse_attribute_selector => 0
  | .parse_string_loop _ _ _ => 1
  | .parse_string => 2
  | .parse_identifier_schema_loop _ _ _ => 3
  | .parse_identifier_schema => 4
  | .parse_value_schema_loop _ => 5
  | .parse_value_schema => 6
  | .parse_arguments_loop _ => 7
  | .parse_arguments => 8
  | .parse_function_call => 9
  | .parse_value => 10
  | .parse_factor => 11
  | .parse_term_loop _ => 12
  | .parse_term => 13
  | .parse_expression_loop _ => 14
  | .parse_expression => 15
  | .parse_relation => 16
  | .parse_conjunction_loop _ => 17
  | .parse_conjunction => 18
  | .parse_disjunction_loop _ => 19
  | .parse_disjunction => 20
  | .parse_space_list_loop _ => 21
  | .parse_space_list => 22
  | .parse_comma_list_loop _ => 23
  | .parse_comma_list => 24
  | .parse_list => 25
  | .parse_argument => 26
  | .parse_parameter => 27
  | .parse_parameters_loop _ => 28
  | .parse_parameters => 29
  | .parse_assignment => 30
  | .parse_warning => 31
  | .parse_pseudo => 32
  | .parse_simple_selector => 33
  | .parse_simple_selector_sequence_loop _ => 34
  | .parse_simple_selector_sequence => 35
  | .parse_selector_loop _ => 36
  | .parse_selector => 37
  | .parse_selector_group_loop _ => 38
  | .parse_selector_group => 39
  | .parse_selector_schema_loop _ _ _ => 40
  | .parse_selector_schema _ => 41
  | .parse_rule => 42
  | .parse_import => 43
  | .parse_mixin_call => 44
  | .parse_block_comments _ => 45
  | .parse_media_expression_loop _ => 46
  | .parse_media_expression => 47
  | .parse_media_query_loop _ => 48
  | .parse_media_query _ => 49
  | .parse_if_directive_loop _ _ _ => 50
  | .parse_if_directive _ _ => 51
  | .parse_for_directive _ _ => 52
  | .parse_each_directive _ _ => 53
  | .parse_while_directive _ _ => 54
  | .parse_directive _ _ => 55
  | .parse_ruleset _ _ => 56
  | .parse_propset => 57
  | .parse_propset_loop _ => 58
  | .parse_mixin_definition => 59
  | .parse_function_definition => 60
  | .parse_block_loop _ _ true _ => 61
  | .parse_block_loop _ _ false _ => 62
  | .parse_block _ _ => 63
  | .parse_scss_loop _ => 64
  | .parse_scss => 65

/-- The position from which a production works: the cursor, or the index `i` that a
scanner of interpolants carries.  `parse_identifier_schema` works from the start of the
span matched last when its own match misses (`parse_function_call` has matched the
identifier before it calls). -/
def Call.base : Call → Document → Nat
  | .parse_string_loop _ i _, _ => i
  | .parse_identifier_schema_loop _ i _, _ => i
  | .parse_selector_schema_loop _ i _, _ => i
  | .parse_identifier_schema, d =>
    if d.sees .spaces_and_comments
        (Prelexer.sequence [Prelexer.optional (Prelexer.exactly '*'), Prelexer.identifier_schema])
    then d.position else min d.position d.lexed.begin
  | _, d => d.position

/-- The measure that goes down from a production to the productions it calls: the
bytes after the base, then the rank. -/
def Call.measure (c : Call) (d : Document) : Nat :=
  (d.source.length - c.base d) * 100 + c.rank

/-- What the callers of a production have checked before they call it: the token that
the production takes without a check of its own, the result of the arbiter that
`parse_ruleset` is given, the end of the selector within the buffer. -/
def Call.admits : Call → Document → Prop
  | .parse_while_directive _ _, d =>
    d.sees .spaces_and_comments Prelexer.while_directive = true
  | .parse_directive _ _, d => d.sees .spaces_and_comments Prelexer.directive = true
  | .parse_media_query _, d => d.sees .spaces_and_comments Prelexer.media = true
  | .parse_propset, d => d.sees .spaces_and_comments propset_head = true
  | .parse_string, d => d.sees .spaces_and_comments Prelexer.string_constant = true
  | .parse_function_call, d => d.sees .spaces_and_comments Prelexer.functional = true
  | .parse_ruleset lookahead _, d => lookahead = lookahead_for_selector d d.position
  | .parse_selector_schema e, d => d.position < e ∧ e ≤ d.source.length
  | .parse_selector_schema_loop e _ _, d => d.position < e ∧ e ≤ d.source.length
  | _, _ => True

/-- The productions that return only after they have moved the cursor (in a state
that `Call.admits`). -/
def Call.strict : Call → Bool
  | .parse_import => true
  | .parse_mixin_definition => true
  | .parse_function_definition => true
  | .parse_propset => true
  | .parse_propset_loop _ => true
  | .parse_ruleset _ _ => true
  | .parse_selector_schema _ => true
  | .parse_selector_schema_loop _ _ _ => true
  | .parse_selector_group => true
  | .parse_selector => true
  | .parse_simple_selector_sequence => true
  | .parse_simple_selector => true
  | .parse_pseudo => true
  | .parse_attribute_selector => true
  | .parse_block _ _ => true
  | .parse_block_loop _ _ _ _ => true
  | .parse_rule => true
  | .parse_disjunction => true
  | .parse_conjunction => true
  | .parse_relation => true
  | .parse_expression => true
  | .parse_term => true
  | .parse_factor => true
  | .parse_value => true
  | .parse_string => true
  | .parse_function_call => true
  | .parse_if_directive _ _ => true
  | .parse_for_directive _ _ => true
  | .parse_each_directive _ _ => true
  | .parse_while_directive _ _ => true
  | .parse_directive _ _ => true
  | .parse_media_query _ => true
  | _ => false

/-- The routine `x` returns or raises from the state `d` (it does not run out of
fuel), and what it returns satisfies `Q`. -/
def Parser.total {α : Type} (x : Parser α) (d : Document) (Q : α → Document → Prop) :
    Prop :=
  match x d with
  | .ok (a, d1) => Q a d1
  | .error e => e ≠ .out_of_fuel

/-- The state `d1` in which the production `c` returns, set against the state `d` in
which it was called: the buffer has its length, no file can be loaded, the cursor is
within the buffer and not before the cursor of `d`, and after it when `c` is strict. -/
def Call.advances (c : Call) (d d1 : Document) : Prop :=
  d1.source.length = d.source.length ∧ d1.context.files = [] ∧
  d1.position ≤ d1.source.length ∧ d.position ≤ d1.position ∧
  (c.strict = true → d.position < d1.position)

/-- The parser `rec` returns or raises, and advances, at every call that is admitted
and has a measure below `m`, in a state without files to load and with the cursor
within the buffer. -/
def Terminates (rec : Call → Parser Node) (m : Nat) : Prop :=
  ∀ c d, d.context.files = [] → d.position ≤ d.source.length → c.admits d →
    c.measure d < m → (rec c).total d (fun _ d1 => c.advances d d1)

/-- The state `d` set against an earlier state `d0` of the same run: the buffer has its
length, no file can be loaded, the cursor is within the buffer and not before the cursor
of `d0`, and after it when `s` is set. -/
def Document.past (d d0 : Document) (s : Bool) : Prop :=
  d.source.length = d0.source.length ∧ d.context.files = [] ∧
  d.position ≤ d.source.length ∧ d0.position ≤ d.position ∧
  (s = true → d0.position < d.position)

/-- A byte that may follow a literal token of a value: a whitespace byte, or one of `;`
`}` `{` `)` `,`. -/
def is_token_end (c : Char) : Prop := Prelexer.isspace c = true ∨ is_list_end c

/-- The matchers that `parse_value` applies with `lex` one after the other, before it
looks for a string constant: the first of them that matches takes the token. -/
def value_token : Prelexer.prelexer :=
  Prelexer.alternatives
    [Prelexer.sequence [Prelexer.true_kwd, Prelexer.negate Prelexer.identifier],
     Prelexer.sequence [Prelexer.false_kwd, Prelexer.negate Prelexer.identifier],
     Prelexer.important, Prelexer.identifier, Prelexer.percentage, Prelexer.dimension,
     Prelexer.number, Prelexer.hex]

/-- The alternatives of the loops of `value_schema`. -/
def schema_literal : Prelexer.prelexer :=
  Prelexer.alternatives [Prelexer.identifier, Prelexer.percentage, Prelexer.dimension,
    Prelexer.hex, Prelexer.number, Prelexer.string_constant]

/-- A literal token at the head of the text `a`, with the text `t` after it.  The lexical
classes are those of the matchers of the program: the word `true` or `false`; an
identifier that does not start with `-` and is not `true` or `false` continued by
something other than an identifier; a number; a percentage; a dimension; a hex colour; a
string constant in which no `#{` stands. -/
inductive literal_token (a t : List Char) : Prop
  | true_word : Prelexer.true_kwd a = some t → literal_token a t
  | false_word : Prelexer.false_kwd a = some t → literal_token a t
  | identifier : Prelexer.identifier a = some t → a.head? ≠ some '-' →
      Prelexer.sequence [Prelexer.true_kwd, Prelexer.negate Prelexer.identifier] a = none →
      Prelexer.sequence [Prelexer.false_kwd, Prelexer.negate Prelexer.identifier] a = none →
      literal_token a t
  | number : Prelexer.number a = some t → literal_token a t
  | percentage : Prelexer.percentage a = some t → literal_token a t
  | dimension : Prelexer.dimension a = some t → literal_token a t
  | hex : Prelexer.hex a = some t → literal_token a t
  | string : Prelexer.string_constant a = some t →
      (∀ i, i < a.length - t.length → opens_interpolant a i = false) → literal_token a t

/-- A text at which a further item of a space-separated list may start: it does not start
with `+`, and it does not start with the connective `and` or `or`. -/
def is_list_item (s : List Char) : Prop :=
  s.head? ≠ some '+' ∧ and_connective s = none ∧ or_connective s = none

/-- Literal tokens with whitespace between them, from the head of the text up to the text
that ends the list: optional whitespace and one of `;` `}` `{` `)` `,`. -/
inductive space_literals : List Char → List Char → Prop
  | last (a ws : List Char) (c : Char) (rest : List Char) :
      literal_token a (ws ++ c :: rest) → (∀ x ∈ ws, Prelexer.isspace x = true) →
      is_list_end c → space_literals a (ws ++ c :: rest)
  | next (a ws s t : List Char) :
      literal_token a (ws ++ s) → ws ≠ [] → (∀ x ∈ ws, Prelexer.isspace x = true) →
      is_list_item s → space_literals s t → space_literals a t

/-- Runs of literal tokens with commas between them (and optional whitespace around a
comma), from the head of the text up to the text that ends the value: optional whitespace
and one of `;` `}` `{` `)`. -/
inductive comma_literals : List Char → List Char → Prop
  | last (s ws : List Char) (c : Char) (rest : List Char) :
      space_literals s (ws ++ c :: rest) → (∀ x ∈ ws, Prelexer.isspace x = true) →
      (c = ';' ∨ c = '}' ∨ c = '{' ∨ c = ')') → comma_literals s (ws ++ c :: rest)
  | next (s ws ws2 s2 t : List Char) :
      space_literals s (ws ++ ',' :: (ws2 ++ s2)) → (∀ x ∈ ws, Prelexer.isspace x = true) →
      (∀ x ∈ ws2, Prelexer.isspace x = true) → comma_literals s2 t → comma_literals s t

/-- The bytes with which a literal token starts. -/
def is_literal_head (c : Char) : Bool :=
  is_name_start c || Prelexer.isdigit c || c == '\\' || c == '.' || c == '+' || c == '-' ||
    c == '#' || c == '"' || c == '\''

/-- The state after a `lex` that has matched up to the text `r`. -/
def Document.lexed_to (d : Document) (r : List Char) : Document :=
  { d with
    line := d.line + count_interval '\n' d.source d.position (d.offset r)
    lexed := ⟨d.offset d.ahead, d.offset r⟩
    position := d.offset r }

/-! ## Theorems -/

/-! ### Partial correctness of parse routines -/

theorem post_mono {α : Type} {x : Parser α} {d : Document} {P Q : α → Document → Prop}
    (h : x.post d P) (hPQ : ∀ a d1, P a d1 → Q a d1) : x.post d Q :=
  fun a d1 e => hPQ a d1 (h a d1 e)

theorem post_true {α : Type} (x : Parser α) (d : Document) :
    x.post d (fun _ _ => True) := fun _ _ _ => trivial

theorem bind_apply {α β : Type} (x : Parser α) (f : α → Parser β) (d : Document) :
    (x >>= f) d = match x d with
      | .ok (a, d1) => f a d1
      | .error e => .error e := rfl

theorem pure_apply {α : Type} (a : α) (d : Document) :
    (pure a : Parser α) d = .ok (a, d) := rfl

@[simp] theorem post_bind {α β : Type} (x : Parser α) (f : α → Parser β) (d : Document)
    (Q : β → Document → Prop) :
    (x >>= f).post d Q ↔ x.post d (fun a d1 => (f a).post d1 Q) := by
  simp only [Parser.post, bind_apply]
  constructor
  · intro h a d1 e b d2 e2
    apply h
    rw [e]
    exact e2
  · intro h b d2 e
    split at e
    · rename_i a d1 e1
      exact h a d1 e1 b d2 e
    · cases e

@[simp] theorem post_pure {α : Type} (a : α) (d : Document) (Q : α → Document → Prop) :
    (pure a : Parser α).post d Q ↔ Q a d := by
  simp only [Parser.post, pure_apply]
  constructor
  · intro h
    exact h a d rfl
  · intro h a1 d1 e
    cases e
    exact h

@[simp] theorem post_throw {α : Type} (m : String) (d : Document)
    (Q : α → Document → Prop) : (throw_syntax_error m : Parser α).post d Q ↔ True := by
  simp [Parser.post, throw_syntax_error]

theorem post_ite {α : Type} (c : Prop) [Decidable c] (x y : Parser α) (d : Document)
    (Q : α → Document → Prop) :
    (if c then x else y).post d Q ↔ (c → x.post d Q) ∧ (¬c → y.post d Q) := by
  by_cases h : c <;> simp [h]

/-- A routine that always returns: its result and state as functions of the state. -/
theorem post_total {α : Type} {x : Parser α} {d : Document} {a : α} {d1 : Document}
    (h : x d = .ok (a, d1)) (Q : α → Document → Prop) : x.post d Q ↔ Q a d1 := by
  simp only [Parser.post, h]
  constructor
  · intro h1
    exact h1 a d1 rfl
  · intro h1 a2 d2 e
    cases e
    exact h1

theorem post_of_forall {α : Type} {x : Parser α} {d : Document}
    {Q : α → Document → Prop} (h : ∀ a d1, Q a d1) : x.post d Q := fun a d1 _ => h a d1

theorem lex_with_apply (k : Skip) (mx : Prelexer.prelexer) (d : Document) :
    lex_with k mx d = .ok (d.sees k mx, d.lexed_with k mx) := by
  unfold lex_with Document.sees Document.lexed_with
  dsimp only
  cases mx (after_whitespace k (d.source.drop d.position)) <;> rfl

theorem peek_apply (mx : Prelexer.prelexer) (d : Document) :
    peek mx d = .ok (d.sees .spaces_and_comments mx, d) := by
  unfold peek peek_at Document.sees
  cases mx (after_whitespace .spaces_and_comments (d.source.drop d.position)) <;> rfl

theorem peek_spaces_apply (d : Document) :
    peek_spaces d = .ok (d.sees .nothing Prelexer.spaces, d) := by
  unfold peek_spaces peek_at Document.sees
  cases Prelexer.spaces (after_whitespace .nothing (d.source.drop d.position)) <;> rfl

theorem Document.lexed_with_of_not_sees {d : Document} {k : Skip} {mx : Prelexer.prelexer}
    (h : d.sees k mx = false) : d.lexed_with k mx = d := by
  unfold Document.sees at h
  unfold Document.lexed_with
  cases hm : mx (after_whitespace k (d.source.drop d.position)) with
  | none => rfl
  | some t => rw [hm] at h; cases h

@[simp] theorem post_lex_with (k : Skip) (mx : Prelexer.prelexer) (d : Document)
    (Q : Bool → Document → Prop) :
    (lex_with k mx).post d Q ↔ Q (d.sees k mx) (d.lexed_with k mx) :=
  post_total (lex_with_apply k mx d) Q

@[simp] theorem post_lex (mx : Prelexer.prelexer) (d : Document) (Q : Bool → Document → Prop) :
    (lex mx).post d Q ↔
      Q (d.sees .spaces_and_comments mx) (d.lexed_with .spaces_and_comments mx) :=
  post_total (lex_with_apply _ mx d) Q

@[simp] theorem post_lex_block_comment (d : Document) (Q : Bool → Document → Prop) :
    lex_block_comment.post d Q ↔
      Q (d.sees .before_block_comment Prelexer.block_comment)
        (d.lexed_with .before_block_comment Prelexer.block_comment) :=
  post_total (lex_with_apply _ _ d) Q

@[simp] theorem post_lex_optional_spaces (d : Document) (Q : Bool → Document → Prop) :
    lex_optional_spaces.post d Q ↔
      Q (d.sees .optional_spaces Prelexer.optional_spaces)
        (d.lexed_with .optional_spaces Prelexer.optional_spaces) :=
  post_total (lex_with_apply _ _ d) Q

@[simp] theorem post_peek (mx : Prelexer.prelexer) (d : Document) (Q : Bool → Document → Prop) :
    (peek mx).post d Q ↔ Q (d.sees .spaces_and_comments mx) d :=
  post_total (peek_apply mx d) Q

@[simp] theorem post_peek_spaces (d : Document) (Q : Bool → Document → Prop) :
    peek_spaces.post d Q ↔ Q (d.sees .nothing Prelexer.spaces) d :=
  post_total (peek_spaces_apply d) Q

@[simp] theorem post_new_Node (t : NodeType) (d : Document) (Q : Node → Document → Prop) :
    (new_Node t).post d Q ↔ Q ⟨t, d.path, d.line, Token.make, false, false, []⟩ d :=
  post_total rfl Q

@[simp] theorem post_new_Node_at (t : NodeType) (l : Nat) (d : Document)
    (Q : Node → Document → Prop) :
    (new_Node_at t l).post d Q ↔ Q ⟨t, d.path, l, Token.make, false, false, []⟩ d :=
  post_total rfl Q

@[simp] theorem post_new_Node_token (t : NodeType) (k : Token) (d : Document)
    (Q : Node → Document → Prop) :
    (new_Node_token t k).post d Q ↔ Q ⟨t, d.path, d.line, k, false, false, []⟩ d :=
  post_total rfl Q

@[simp] theorem post_new_Node_lexed (t : NodeType) (d : Document) (Q : Node → Document → Prop) :
    (new_Node_lexed t).post d Q ↔ Q ⟨t, d.path, d.line, d.lexed, false, false, []⟩ d :=
  post_total rfl Q

@[simp] theorem post_new_Node_boolean (b : Bool) (d : Document) (Q : Node → Document → Prop) :
    (new_Node_boolean b).post d Q ↔ Q ⟨.boolean, d.path, d.line, Token.make, b, false, []⟩ d :=
  post_total rfl Q

@[simp] theorem post_get_position (d : Document) (Q : Nat → Document → Prop) :
    get_position.post d Q ↔ Q d.position d := post_total rfl Q

@[simp] theorem post_set_position (p : Nat) (d : Document) (Q : Unit → Document → Prop) :
    (set_position p).post d Q ↔ Q () { d with position := p } := post_total rfl Q

@[simp] theorem post_get_line (d : Document) (Q : Nat → Document → Prop) :
    get_line.post d Q ↔ Q d.line d := post_total rfl Q

@[simp] theorem post_get_lexed (d : Document) (Q : Token → Document → Prop) :
    get_lexed.post d Q ↔ Q d.lexed d := post_total rfl Q

@[simp] theorem post_lexed_first (d : Document) (Q : Option Char → Document → Prop) :
    lexed_first.post d Q ↔ Q (d.source.drop d.lexed.begin).head? d := post_total rfl Q

@[simp] theorem post_before_end (d : Document) (Q : Bool → Document → Prop) :
    before_end.post d Q ↔ Q (decide (d.position < d.end_)) d := post_total rfl Q

@[simp] theorem post_or_else (a b : Parser Bool) (d : Document) (Q : Bool → Document → Prop) :
    (or_else a b).post d Q ↔
      a.post d (fun r d1 => if r = true then Q true d1 else b.post d1 Q) := by
  unfold or_else
  simp only [post_bind]
  apply Iff.intro <;> intro h a1 d1 e <;> have h1 := h a1 d1 e <;>
    cases a1 <;> simpa using h1

@[simp] theorem post_in_token (t : Token) (p : Parser Node) (d : Document)
    (Q : Node → Document → Prop) :
    (in_token t p).post d Q ↔
      p.post { d with position := t.begin, end_ := t.end_, lexed := Token.make }
        (fun n d1 => Q n { d with context := d1.context }) := by
  simp only [Parser.post, in_token]
  constructor
  · intro h n d1 e
    apply h
    rw [e]
  · intro h n d1 e
    split at e
    · rename_i n1 d2 e1
      cases e
      exact h _ d2 e1
    · cases e

@[simp] theorem post_const_true {α : Type} (x : Parser α) (d : Document) :
    x.post d (fun _ _ => True) ↔ True := by
  simp [Parser.post]

@[simp] theorem Node.push_back_type (n c : Node) : (n.push_back c).type = n.type := rfl
@[simp] theorem Node.push_front_type (n c : Node) : (n.push_front c).type = n.type := rfl
@[simp] theorem Node.append_type (n c : Node) : (n.append c).type = n.type := rfl
@[simp] theorem Node.set_should_eval_type (n : Node) (b : Bool) :
    (n.set_should_eval b).type = n.type := rfl
@[simp] theorem Node.set_first_should_eval_type (n : Node) :
    n.set_first_should_eval.type = n.type := by
  unfold Node.set_first_should_eval
  split <;> rfl

@[simp] theorem post_find_first_here (c : Char) (d : Document)
    (Q : Option Nat → Document → Prop) :
    (find_first_here c).post d Q ↔ Q (find_first c d.source d.position) d :=
  post_total rfl Q

@[simp] theorem post_find_in_interval (mx : Prelexer.prelexer) (b e : Nat) (d : Document)
    (Q : Option Nat → Document → Prop) :
    (find_in_interval mx b e).post d Q ↔ Q (find_first_in_interval mx d.source b e) d :=
  post_total rfl Q

@[simp] theorem post_import_path (d : Document) (Q : List Char → Document → Prop) :
    import_path.post d Q ↔ Q (current_path d.path ++ d.lexed.unquote d.source) d :=
  post_total rfl Q

@[simp] theorem post_register_extension (e r : Node) (d : Document)
    (Q : Unit → Document → Prop) :
    (register_extension e r).post d Q ↔
      Q () { d with context :=
        { d.context with extensions := d.context.extensions ++ [(e, r)]
                         has_extensions := true } } :=
  post_total rfl Q

@[simp] theorem post_lookahead (d : Document) (Q : Selector_Lookahead → Document → Prop) :
    lookahead.post d Q ↔ Q (lookahead_for_selector d d.position) d :=
  post_total rfl Q

@[simp] theorem post_undefined_behaviour {α : Type} (d : Document) (Q : α → Document → Prop) :
    (undefined_behaviour : Parser α).post d Q ↔ True := by
  simp [Parser.post, undefined_behaviour]

theorem parse_block_statement_type (rec : Call → Parser Node) (sr : Option Node) (io : NodeType)
    (block : Node) (d : Document) :
    (parse_block_statement rec sr io block).post d (fun r _ => r.1.type = block.type) := by
  unfold parse_block_statement
  simp [post_ite]
  intros
  cases sr <;> simp

theorem step_type (rec : Call → Parser Node)
    (ih : ∀ c d, (rec c).post d (fun n _ => type_post c n)) (c : Call) (d : Document) :
    (step rec c).post d (fun n _ => type_post c n) := by
  cases c <;> simp only [step, type_post, post_const_true]
  case parse_block sr io =>
    unfold parse_block
    simp
    exact post_mono (ih _ _) (fun a _ h => h)
  case parse_block_comments block =>
    unfold parse_block_comments
    simp [post_ite]
    intro _
    exact post_mono (ih _ _) (fun a _ h => h)
  case parse_block_loop sr io semicolon block =>
    unfold parse_block_loop
    simp [post_ite]
    intro _
    have go : ∀ (b : Node) (d : Document), b.type = block.type →
        (parse_block_statement rec sr io b).post d (fun a d1 =>
          (rec (.parse_block_comments a.1)).post d1 (fun a_1 d1 =>
            (rec (.parse_block_loop sr io a.2 a_1)).post d1 (fun n _ => n.type = block.type))) := by
      intro b d hb
      refine post_mono (parse_block_statement_type rec sr io b d) ?_
      intro a d1 h1
      refine post_mono (ih _ _) ?_
      intro a2 d2 h2
      refine post_mono (ih _ _) ?_
      intro a3 d3 h3
      simp only [type_post] at h2 h3
      rw [h3, h2, h1, hb]
    constructor
    · intro _ _
      refine post_mono (ih _ _) ?_
      intro a d1 h
      simp only [type_post] at h
      constructor
      · intro _
        exact h
      · intro _
        exact go a _ h
    · intro _
      exact go block _ rfl
  case parse_selector_schema e =>
    unfold parse_selector_schema
    simp
    exact post_mono (ih _ _) (fun a _ h => h)
  case parse_selector_schema_loop e i schema =>
    unfold parse_selector_schema_loop
    simp [post_ite]
    intro _
    split
    · simp [post_ite]
      constructor <;> intro _ <;> split <;> simp <;>
        refine post_mono (ih _ _) ?_ <;> intro a d1 _ <;>
        refine post_mono (ih _ _) ?_ <;> intro a2 d2 h2 <;> simpa [type_post] using h2
    · simp [post_ite]

/-! ### Concrete scenarios -/

/-- C2, as stated, fails: on `a { color: red; }` `parse_scss` returns a root, and the root
does not have the shape root[ruleset[selector[simple_selector("a")],
block[rule[property("color"), string_constant("red")]]]]: the first child of the ruleset
is the simple_selector itself (kind `simple_selector`, not `selector`), and the value of
the rule is a leaf of kind `identifier` (not `string_constant`). -/
theorem parse_scss_scenario1_counterexample :
    (run 100 .parse_scss "a { color: red; }").map (scenario1_shape "a { color: red; }".toList)
      = .ok false ∧
    (run 100 .parse_scss "a { color: red; }").map (fun r => (r.descend [0, 0]).map Node.type)
      = .ok (some .simple_selector) ∧
    (run 100 .parse_scss "a { color: red; }").map
        (fun r => (r.descend [0, 1, 0, 1]).map Node.type)
      = .ok (some .identifier) := by
  decide!

/-- C2, amended: on `a { color: red; }` `parse_scss` returns
root[ruleset[simple_selector("a"), block[rule[property("color"), identifier("red")]]]]:
the single simple selector is not wrapped in a `selector` node, and the value `red` is an
`identifier` leaf.  The tokens `[0,1)`, `[4,9)`, `[11,14)` are the texts `a`, `color`,
`red`. -/
theorem parse_scss_scenario1 :
    run 100 .parse_scss "a { color: red; }" =
      .ok (inner .root [inner .ruleset
        [leaf .simple_selector 0 1,
         inner .block [inner .rule [leaf .property 4 9, leaf .identifier 11 14]]]]) ∧
    Token.text "a { color: red; }".toList ⟨0, 1⟩ = "a".toList ∧
    Token.text "a { color: red; }".toList ⟨4, 9⟩ = "color".toList ∧
    Token.text "a { color: red; }".toList ⟨11, 14⟩ = "red".toList := by
  decide!

/-- C4, as stated, fails: the header `[a="#{b}"]` is accepted by `lookahead_for_selector`
(`found` is position 10) and its text contains the interpolant `#{b}` (at offset 4), but
the look-ahead reports no interpolants and the first child of the ruleset is the
`attribute_selector` that `parse_selector_group` returns, not a `selector_schema`.  The
same holds of an interpolant inside a comment: in `a /* #{b} */ { x: 1 }` the look-ahead
skips the comment with the spaces, and the first child of the ruleset is the
`simple_selector` `a`. -/
theorem selector_schema_quoted_counterexample :
    lookahead_for_selector (Document.of_string "[a=\"#{b}\"] { x: 1 }") 0 = ⟨some 10, false⟩ ∧
    Token.text "[a=\"#{b}\"] { x: 1 }".toList ⟨0, 10⟩ = "[a=\"#{b}\"]".toList ∧
    Prelexer.interpolant ("[a=\"#{b}\"] { x: 1 }".toList.drop 4) = some "\"] { x: 1 }".toList ∧
    (run 100 .parse_scss "[a=\"#{b}\"] { x: 1 }").map
        (fun r => (r.descend [0]).map Node.type) = .ok (some .ruleset) ∧
    (run 100 .parse_scss "[a=\"#{b}\"] { x: 1 }").map
        (fun r => (r.descend [0, 0]).map Node.type) = .ok (some .attribute_selector) ∧
    lookahead_for_selector (Document.of_string "a /* #{b} */ { x: 1 }") 0 = ⟨some 1, false⟩ ∧
    Prelexer.interpolant ("a /* #{b} */ { x: 1 }".toList.drop 5) = some " */ { x: 1 }".toList ∧
    run 100 .parse_scss "a /* #{b} */ { x: 1 }" =
      .ok (inner .root [inner .ruleset [leaf .simple_selector 0 1,
        inner .block [inner .rule [leaf .property 15 16, leaf .textual_number 18 19]]]]) := by
  decide!

/-- C5: on `.a #{ $b } c { x: 1 }` the look-ahead finds the header (up to position 12) and
reports `has_interpolants = true`; the root has one child, a ruleset, whose first child is
a `selector_schema` with exactly three children: the identifier with token `.a ` (trailing
space), the interpolant subtree for `$b`, a variable node with `should_eval = true`, and
the identifier with token ` c` (leading space, no trailing space). -/
theorem selector_schema_scenario3 :
    lookahead_for_selector (Document.of_string ".a #{ $b } c { x: 1 }") 0 = ⟨some 12, true⟩ ∧
    (run 100 .parse_scss ".a #{ $b } c { x: 1 }").map
        (fun r => (r.children.length, (r.descend [0]).map Node.type)) = .ok (1, some .ruleset) ∧
    (run 100 .parse_scss ".a #{ $b } c { x: 1 }").map (fun r => r.descend [0, 0]) =
      .ok (some ⟨.selector_schema, [], 1, Token.make, false, false,
        [leaf .identifier 0 3, (leaf .variable_ 6 8).set_should_eval true,
         leaf .identifier 10 12]⟩) ∧
    Token.text ".a #{ $b } c { x: 1 }".toList ⟨0, 3⟩ = ".a ".toList ∧
    Token.text ".a #{ $b } c { x: 1 }".toList ⟨6, 8⟩ = "$b".toList ∧
    Token.text ".a #{ $b } c { x: 1 }".toList ⟨10, 12⟩ = " c".toList := by
  decide!

/-- C6, as stated, fails.  For `1/2` both `parse_list` and `parse_term` return the node
term[textual_number("1"), div, textual_number("2")], which contains the arithmetic
operator `div`, with `should_eval = false`.  For `f($a)` the `arguments` node of the call
contains the variable `$a` and has `should_eval = false`.  For `f($x: 1)` the variable
`$x` that names the keyword argument has `should_eval = false`.  For `1 + 2` the leaf
`add` that stands for the operator has `should_eval = false`. -/
theorem should_eval_division_counterexample :
    run 100 .parse_list "1/2;" =
      .ok ⟨.term, [], 1, Token.make, false, false,
        [leaf .textual_number 0 1, leaf .div 1 2, leaf .textual_number 2 3]⟩ ∧
    run 100 .parse_term "1/2;" =
      .ok ⟨.term, [], 1, Token.make, false, false,
        [leaf .textual_number 0 1, leaf .div 1 2, leaf .textual_number 2 3]⟩ ∧
    (run 100 .parse_list "1/2;").map Node.should_eval = .ok false ∧
    run 100 .parse_list "f($a);" =
      .ok ⟨.function_call, [], 1, Token.make, false, true,
        [leaf .identifier 0 1,
         ⟨.arguments, [], 1, Token.make, false, false,
          [⟨.variable_, [], 1, ⟨2, 4⟩, false, true, []⟩]⟩]⟩ ∧
    run 100 .parse_list "f($x: 1);" =
      .ok ⟨.function_call, [], 1, Token.make, false, true,
        [leaf .identifier 0 1,
         inner .arguments [⟨.assignment, [], 1, Token.make, false, true,
          [⟨.variable_, [], 1, ⟨2, 4⟩, false, false, []⟩, leaf .textual_number 6 7]⟩]]⟩ ∧
    run 100 .parse_list "1 + 2;" =
      .ok ⟨.expression, [], 1, Token.make, false, true,
        [⟨.textual_number, [], 1, ⟨0, 1⟩, false, true, []⟩,
         ⟨.add, [], 1, ⟨2, 3⟩, false, false, []⟩,
         ⟨.textual_number, [], 1, ⟨4, 5⟩, false, true, []⟩]⟩ := by
  decide!

/-- C10 fails on the code: for the word `true1` (the keyword `true` continued by the
identifier character `1`) `parse_value` returns a `boolean` node for `true` and leaves
the cursor at position 4, before the `1`, so that a space list reads `true1` as the two
values `true` and `1`; for `false1` and `true-1` likewise.  For `truest` and `false-x` it
returns the identifier with the whole word. -/
theorem parse_value_true1 :
    run_cursor 100 .parse_value "true1;" =
      .ok (⟨.boolean, [], 1, Token.make, true, false, []⟩, 4) ∧
    run_cursor 100 .parse_value "false1;" =
      .ok (⟨.boolean, [], 1, Token.make, false, false, []⟩, 5) ∧
    run_cursor 100 .parse_value "true-1;" =
      .ok (⟨.boolean, [], 1, Token.make, true, false, []⟩, 4) ∧
    run_cursor 100 .parse_value "truest;" = .ok (leaf .identifier 0 6, 6) ∧
    run_cursor 100 .parse_value "false-x;" = .ok (leaf .identifier 0 7, 7) ∧
    run 100 .parse_space_list "true1;" =
      .ok ⟨.space_list, [], 1, Token.make, false, false,
        [⟨.boolean, [], 1, Token.make, true, false, []⟩, leaf .textual_number 4 5]⟩ := by
  decide!

/-! ### The shape of a ruleset -/

theorem post_self {α : Type} (x : Parser α) (d : Document) :
    x.post d (fun a d1 => x d = .ok (a, d1)) := fun _ _ e => e

theorem post_and {α : Type} {x : Parser α} {d : Document} {P Q : α → Document → Prop}
    (hP : x.post d P) (hQ : x.post d Q) : x.post d (fun a d1 => P a d1 ∧ Q a d1) :=
  fun a d1 e => ⟨hP a d1 e, hQ a d1 e⟩

theorem parse_zero (c : Call) (d : Document) : parse 0 c d = .error .out_of_fuel := rfl

theorem parse_succ (fuel : Nat) (c : Call) : parse (fuel + 1) c = step (parse fuel) c := rfl

/-- The kind of the node that a production returns is as `type_post` says. -/
theorem parse_type (fuel : Nat) (c : Call) (d : Document) :
    (parse fuel c).post d (fun n _ => type_post c n) := by
  induction fuel generalizing c d with
  | zero =>
    intro a d1 e
    cases e
  | succ n ih => exact step_type (parse n) ih c d

theorem parse_ruleset_shape (fuel : Nat) (lookahead : Selector_Lookahead)
    (inside_of : NodeType) (d : Document) :
    (parse_ruleset (parse fuel) lookahead inside_of).post d (fun n _ =>
      n.type = .ruleset ∧
      ∃ sel block, n.children = [sel, block] ∧ block.type = .block ∧
        (lookahead.has_interpolants = true → sel.type = .selector_schema) ∧
        (lookahead.has_interpolants = false →
          ∃ d2, parse fuel .parse_selector_group d = .ok (sel, d2))) := by
  unfold parse_ruleset
  simp [post_ite]
  constructor
  · intro hi
    cases hf : lookahead.found with
    | none => simp
    | some found =>
      simp
      refine post_mono (parse_type fuel _ d) ?_
      intro sel d2 hs _
      refine post_mono (parse_type fuel _ d2) ?_
      intro block d3 hb
      simp only [type_post] at hs hb
      simp [Node.push_back, hi]
      exact ⟨sel, block, ⟨rfl, rfl⟩, hb, hs⟩
  · intro hi
    refine post_mono (post_self _ d) ?_
    intro sel d2 hs _
    refine post_mono (parse_type fuel _ d2) ?_
    intro block d3 hb
    simp only [type_post] at hb
    simp [Node.push_back, hi]
    exact ⟨sel, block, ⟨rfl, rfl⟩, hb, d2, hs⟩

/-- C3: every ruleset node that `parse_ruleset` returns has exactly two children: first
the selector, which is a `selector_schema` when the look-ahead reported interpolants and
otherwise the node that `parse_selector_group` returns at the same state, then a node of
kind `block`. -/
theorem parse_ruleset_children (fuel : Nat) (lookahead : Selector_Lookahead)
    (inside_of : NodeType) (d d1 : Document) (n : Node)
    (h : parse (fuel + 1) (.parse_ruleset lookahead inside_of) d = .ok (n, d1)) :
    n.type = .ruleset ∧
    ∃ sel block, n.children = [sel, block] ∧ block.type = .block ∧
      (lookahead.has_interpolants = true → sel.type = .selector_schema) ∧
      (lookahead.has_interpolants = false →
        ∃ d2, parse fuel .parse_selector_group d = .ok (sel, d2)) :=
  parse_ruleset_shape fuel lookahead inside_of d n d1 h

/-- C3 at `a { color: red; }`: the ruleset has the two children `simple_selector` and
`block`. -/
theorem parse_ruleset_children_witness :
    (inner .ruleset [leaf .simple_selector 0 1,
        inner .block [inner .rule [leaf .property 4 9, leaf .identifier 11 14]]]).type
      = .ruleset ∧
    ∃ sel block,
      (inner .ruleset [leaf .simple_selector 0 1,
        inner .block [inner .rule [leaf .property 4 9, leaf .identifier 11 14]]]).children
        = [sel, block] ∧ block.type = .block ∧
      ((⟨some 1, false⟩ : Selector_Lookahead).has_interpolants = true →
        sel.type = .selector_schema) ∧
      ((⟨some 1, false⟩ : Selector_Lookahead).has_interpolants = false →
        ∃ d2, parse 99 .parse_selector_group (Document.of_string "a { color: red; }")
          = .ok (sel, d2)) :=
  parse_ruleset_children 99 ⟨some 1, false⟩ .none (Document.of_string "a { color: red; }")
    { Document.of_string "a { color: red; }" with position := 17, lexed := ⟨16, 17⟩ }
    _ (by decide!)

/-! ### Singleton collapse -/

@[simp] theorem post_space_list_end (d : Document) (Q : Bool → Document → Prop) :
    space_list_end.post d Q ↔ Q d.at_space_list_end d := by
  unfold space_list_end Document.at_space_list_end
  simp

@[simp] theorem Node.push_back_children (n c : Node) :
    (n.push_back c).children = n.children ++ [c] := rfl

@[simp] theorem Node.set_should_eval_children (n : Node) (b : Bool) :
    (n.set_should_eval b).children = n.children := rfl

theorem prefix_of_snoc_prefix {α : Type} {xs ys : List α} {x : α} (h : xs ++ [x] <+: ys) :
    xs <+: ys ∧ xs.length < ys.length := by
  constructor
  · exact (List.prefix_append xs [x]).trans h
  · have := h.length_le
    simp at this
    omega

theorem step_list (rec : Call → Parser Node)
    (ih : ∀ c d, (rec c).post d (fun n _ => list_post c d n)) (c : Call) (d : Document) :
    (step rec c).post d (fun n _ => list_post c d n) := by
  cases c <;> simp only [step, list_post, post_const_true]
  case parse_comma_list_loop acc =>
    unfold parse_comma_list_loop
    simp [post_ite]
    intro hs
    refine post_of_forall ?_
    intro a d1
    refine post_mono (ih _ _) ?_
    intro n d2 h
    simp only [list_post, Node.set_should_eval_type, Node.push_back_type,
      Node.set_should_eval_children, Node.push_back_children] at h
    have hp := prefix_of_snoc_prefix h.2.1
    exact ⟨h.1, hp.1, fun _ => hp.2⟩
  case parse_space_list_loop acc =>
    unfold parse_space_list_loop
    simp [post_ite]
    intro hs
    refine post_of_forall ?_
    intro a d1
    refine post_mono (ih _ _) ?_
    intro n d2 h
    simp only [list_post, Node.set_should_eval_type, Node.push_back_type,
      Node.set_should_eval_children, Node.push_back_children] at h
    have hp := prefix_of_snoc_prefix h.2.1
    exact ⟨h.1, hp.1, fun _ => hp.2⟩
  case parse_disjunction_loop acc =>
    unfold parse_disjunction_loop
    simp [post_ite]
    constructor
    · intro hs
      refine post_of_forall ?_
      intro a d1
      refine post_mono (ih _ _) ?_
      intro n d2 h
      simp only [list_post, Node.set_should_eval_type, Node.push_back_type,
        Node.set_should_eval_children, Node.push_back_children] at h
      have hp := prefix_of_snoc_prefix h.2.1
      exact ⟨h.1, hp.1, fun _ => hp.2⟩
    · intro hs
      simp [or_connective, hs]
  case parse_conjunction_loop acc =>
    unfold parse_conjunction_loop
    simp [post_ite]
    constructor
    · intro hs
      refine post_of_forall ?_
      intro a d1
      refine post_mono (ih _ _) ?_
      intro n d2 h
      simp only [list_post, Node.set_should_eval_type, Node.push_back_type,
        Node.set_should_eval_children, Node.push_back_children] at h
      have hp := prefix_of_snoc_prefix h.2.1
      exact ⟨h.1, hp.1, fun _ => hp.2⟩
    · intro hs
      simp [and_connective, hs]

/-- The loops of the lists and of the boolean connectives return what `list_post` says. -/
theorem parse_list_loops (fuel : Nat) (c : Call) (d : Document) :
    (parse fuel c).post d (fun n _ => list_post c d n) := by
  induction fuel generalizing c d with
  | zero =>
    intro a d1 e
    cases e
  | succ n ih => exact step_list (parse n) ih c d

theorem parse_disjunction_collapse (rec : Call → Parser Node) (d d1 : Document) (op : Node)
    (h : rec .parse_conjunction d = .ok (op, d1))
    (hs : d1.sees .spaces_and_comments or_connective = false) :
    parse_disjunction rec d = .ok (op, d1) := by
  unfold parse_disjunction
  simp only [bind_apply, h, peek_apply]
  unfold or_connective at hs
  simp [hs, pure_apply]

theorem parse_disjunction_shape (rec : Call → Parser Node)
    (ih : ∀ c d, (rec c).post d (fun n _ => list_post c d n)) (d : Document) :
    (parse_disjunction rec).post d (fun n d2 =>
      (rec .parse_conjunction d = .ok (n, d2) ∧
        d2.sees .spaces_and_comments or_connective = false) ∨
      (n.type = .disjunction ∧ 2 ≤ n.children.length ∧
        ∃ op d1, rec .parse_conjunction d = .ok (op, d1) ∧
          d1.sees .spaces_and_comments or_connective = true ∧ n.children.head? = some op)) := by
  unfold parse_disjunction
  simp [post_ite]
  refine post_mono (post_self _ d) ?_
  intro op d1 hop
  constructor
  · intro hs
    left
    exact ⟨hop, hs⟩
  · intro hs
    refine post_mono (ih _ _) ?_
    intro n d2 h
    right
    simp only [list_post, Node.push_back_type, Node.push_back_children] at h
    obtain ⟨ht, hp, hl⟩ := h
    have hl := hl hs
    simp at hl
    refine ⟨ht, by omega, op, d1, hop, hs, ?_⟩
    obtain ⟨t, ht⟩ := hp
    rw [← ht]
    rfl

theorem parse_conjunction_collapse (rec : Call → Parser Node) (d d1 : Document) (op : Node)
    (h : rec .parse_relation d = .ok (op, d1))
    (hs : d1.sees .spaces_and_comments and_connective = false) :
    parse_conjunction rec d = .ok (op, d1) := by
  unfold parse_conjunction
  simp only [bind_apply, h, peek_apply]
  unfold and_connective at hs
  simp [hs, pure_apply]

theorem parse_conjunction_shape (rec : Call → Parser Node)
    (ih : ∀ c d, (rec c).post d (fun n _ => list_post c d n)) (d : Document) :
    (parse_conjunction rec).post d (fun n d2 =>
      (rec .parse_relation d = .ok (n, d2) ∧
        d2.sees .spaces_and_comments and_connective = false) ∨
      (n.type = .conjunction ∧ 2 ≤ n.children.length ∧
        ∃ op d1, rec .parse_relation d = .ok (op, d1) ∧
          d1.sees .spaces_and_comments and_connective = true ∧ n.children.head? = some op)) := by
  unfold parse_conjunction
  simp [post_ite]
  refine post_mono (post_self _ d) ?_
  intro op d1 hop
  constructor
  · intro hs
    left
    exact ⟨hop, hs⟩
  · intro hs
    refine post_mono (ih _ _) ?_
    intro n d2 h
    right
    simp only [list_post, Node.push_back_type, Node.push_back_children] at h
    obtain ⟨ht, hp, hl⟩ := h
    have hl := hl hs
    simp at hl
    refine ⟨ht, by omega, op, d1, hop, hs, ?_⟩
    obtain ⟨t, ht⟩ := hp
    rw [← ht]
    rfl

theorem parse_space_list_collapse (rec : Call → Parser Node) (d d1 : Document) (op : Node)
    (h : rec .parse_disjunction d = .ok (op, d1)) (hs : d1.at_space_list_end = true) :
    parse_space_list rec d = .ok (op, d1) := by
  have he : space_list_end d1 = .ok (true, d1) := by
    rw [← hs]
    unfold space_list_end Document.at_space_list_end
    simp [bind_apply, peek_apply, pure_apply]
  unfold parse_space_list
  simp [bind_apply, h, he, pure_apply]

theorem parse_space_list_shape (rec : Call → Parser Node)
    (ih : ∀ c d, (rec c).post d (fun n _ => list_post c d n)) (d : Document) :
    (parse_space_list rec).post d (fun n d2 =>
      (rec .parse_disjunction d = .ok (n, d2) ∧ d2.at_space_list_end = true) ∨
      (n.type = .space_list ∧ 2 ≤ n.children.length ∧
        ∃ op d1, rec .parse_disjunction d = .ok (op, d1) ∧
          d1.at_space_list_end = false ∧ n.children.head? = some op)) := by
  unfold parse_space_list
  simp [post_ite]
  refine post_mono (post_self _ d) ?_
  intro op d1 hop
  constructor
  · intro hs
    left
    exact ⟨hop, hs⟩
  · intro hs
    refine post_mono (ih _ _) ?_
    intro n d2 h
    right
    simp only [list_post, Node.push_back_type, Node.push_back_children,
      Node.set_should_eval_type, Node.set_should_eval_children] at h
    obtain ⟨ht, hp, hl⟩ := h
    have hl := hl hs
    simp at hl
    refine ⟨ht, by omega, op, d1, hop, hs, ?_⟩
    obtain ⟨t, ht⟩ := hp
    rw [← ht]
    rfl

theorem parse_comma_list_collapse (rec : Call → Parser Node) (d d1 : Document) (op : Node)
    (h0 : d.at_comma_list_end = false)
    (h : rec .parse_space_list d = .ok (op, d1))
    (hs : d1.sees .spaces_and_comments (Prelexer.exactly ',') = false) :
    parse_comma_list rec d = .ok (op, d1) := by
  unfold Document.at_comma_list_end at h0
  simp only [Bool.or_eq_false_iff] at h0
  unfold parse_comma_list
  simp [bind_apply, h, peek_apply, pure_apply, h0, hs]

theorem parse_comma_list_shape (rec : Call → Parser Node)
    (ih : ∀ c d, (rec c).post d (fun n _ => list_post c d n)) (d : Document) :
    (parse_comma_list rec).post d (fun n d2 =>
      (d.at_comma_list_end = true ∧ n.type = .nil ∧ n.children = [] ∧ d2 = d) ∨
      (rec .parse_space_list d = .ok (n, d2) ∧
        d2.sees .spaces_and_comments (Prelexer.exactly ',') = false) ∨
      (n.type = .comma_list ∧ 2 ≤ n.children.length ∧
        ∃ op d1, rec .parse_space_list d = .ok (op, d1) ∧
          d1.sees .spaces_and_comments (Prelexer.exactly ',') = true ∧
          n.children.head? = some op)) := by
  unfold parse_comma_list
  simp [post_ite]
  constructor
  · intro hs
    left
    unfold Document.at_comma_list_end
    simp only [Bool.or_eq_true]
    tauto
  · intro h1 h2 h3 h4
    refine post_mono (post_self _ d) ?_
    intro op d1 hop
    constructor
    · intro hs
      right
      left
      exact ⟨hop, hs⟩
    · intro hs
      refine post_mono (ih _ _) ?_
      intro n d2 h
      right
      right
      simp only [list_post, Node.push_back_type, Node.push_back_children,
        Node.set_should_eval_type, Node.set_should_eval_children] at h
      obtain ⟨ht, hp, hl⟩ := h
      have hl := hl hs
      simp at hl
      refine ⟨ht, by omega, op, d1, hop, hs, ?_⟩
      obtain ⟨t, ht⟩ := hp
      rw [← ht]
      rfl

/-- C1 (singleton collapse), for `parse_comma_list`, `parse_space_list`,
`parse_disjunction` and `parse_conjunction` in this order.  For each routine: when its
first operand is returned at the state `d1` and no separator or connective of its level
follows there (no `,`; one of `;` `}` `{` `)` `,` `!default`; no `or`; no `and`), the
routine returns that operand node itself, at the same state; and every node that the
routine returns is either that case (for the comma list also the empty list `nil`), or a
node of the routine's kind with at least two children, the first of which is the first
operand. -/
theorem singleton_collapse (fuel : Nat) (d : Document) :
    ((∀ op d1, d.at_comma_list_end = false →
        parse fuel .parse_space_list d = .ok (op, d1) →
        d1.sees .spaces_and_comments (Prelexer.exactly ',') = false →
        parse (fuel + 1) .parse_comma_list d = .ok (op, d1)) ∧
     (∀ n d2, parse (fuel + 1) .parse_comma_list d = .ok (n, d2) →
        (d.at_comma_list_end = true ∧ n.type = .nil ∧ n.children = [] ∧ d2 = d) ∨
        (parse fuel .parse_space_list d = .ok (n, d2) ∧
          d2.sees .spaces_and_comments (Prelexer.exactly ',') = false) ∨
        (n.type = .comma_list ∧ 2 ≤ n.children.length ∧
          ∃ op d1, parse fuel .parse_space_list d = .ok (op, d1) ∧
            d1.sees .spaces_and_comments (Prelexer.exactly ',') = true ∧
            n.children.head? = some op))) ∧
    ((∀ op d1, parse fuel .parse_disjunction d = .ok (op, d1) →
        d1.at_space_list_end = true →
        parse (fuel + 1) .parse_space_list d = .ok (op, d1)) ∧
     (∀ n d2, parse (fuel + 1) .parse_space_list d = .ok (n, d2) →
        (parse fuel .parse_disjunction d = .ok (n, d2) ∧ d2.at_space_list_end = true) ∨
        (n.type = .space_list ∧ 2 ≤ n.children.length ∧
          ∃ op d1, parse fuel .parse_disjunction d = .ok (op, d1) ∧
            d1.at_space_list_end = false ∧ n.children.head? = some op))) ∧
    ((∀ op d1, parse fuel .parse_conjunction d = .ok (op, d1) →
        d1.sees .spaces_and_comments or_connective = false →
        parse (fuel + 1) .parse_disjunction d = .ok (op, d1)) ∧
     (∀ n d2, parse (fuel + 1) .parse_disjunction d = .ok (n, d2) →
        (parse fuel .parse_conjunction d = .ok (n, d2) ∧
          d2.sees .spaces_and_comments or_connective = false) ∨
        (n.type = .disjunction ∧ 2 ≤ n.children.length ∧
          ∃ op d1, parse fuel .parse_conjunction d = .ok (op, d1) ∧
            d1.sees .spaces_and_comments or_connective = true ∧
            n.children.head? = some op))) ∧
    ((∀ op d1, parse fuel .parse_relation d = .ok (op, d1) →
        d1.sees .spaces_and_comments and_connective = false →
        parse (fuel + 1) .parse_conjunction d = .ok (op, d1)) ∧
     (∀ n d2, parse (fuel + 1) .parse_conjunction d = .ok (n, d2) →
        (parse fuel .parse_relation d = .ok (n, d2) ∧
          d2.sees .spaces_and_comments and_connective = false) ∨
        (n.type = .conjunction ∧ 2 ≤ n.children.length ∧
          ∃ op d1, parse fuel .parse_relation d = .ok (op, d1) ∧
            d1.sees .spaces_and_comments and_connective = true ∧
            n.children.head? = some op))) :=
  ⟨⟨fun op d1 h0 h hs => parse_comma_list_collapse (parse fuel) d d1 op h0 h hs,
    parse_comma_list_shape (parse fuel) (parse_list_loops fuel) d⟩,
   ⟨fun op d1 h hs => parse_space_list_collapse (parse fuel) d d1 op h hs,
    parse_space_list_shape (parse fuel) (parse_list_loops fuel) d⟩,
   ⟨fun op d1 h hs => parse_disjunction_collapse (parse fuel) d d1 op h hs,
    parse_disjunction_shape (parse fuel) (parse_list_loops fuel) d⟩,
   ⟨fun op d1 h hs => parse_conjunction_collapse (parse fuel) d d1 op h hs,
    parse_conjunction_shape (parse fuel) (parse_list_loops fuel) d⟩⟩

/-- C1 at `a;` and at `a b;`: for `a;` the space list is the identifier `a` itself; for
`a b;` the node that `parse_space_list` returns is not the first operand, so it is a
`space_list` with at least two children. -/
theorem singleton_collapse_witness :
    parse 20 .parse_space_list (Document.of_string "a;") =
      .ok (leaf .identifier 0 1,
        { Document.of_string "a;" with position := 1, lexed := ⟨0, 1⟩ }) ∧
    ((parse 19 .parse_disjunction (Document.of_string "a b;") =
        .ok (inner .space_list [leaf .identifier 0 1, leaf .identifier 2 3],
          { Document.of_string "a b;" with position := 3, lexed := ⟨2, 3⟩ }) ∧
      Document.at_space_list_end
        { Document.of_string "a b;" with position := 3, lexed := ⟨2, 3⟩ } = true) ∨
     ((inner .space_list [leaf .identifier 0 1, leaf .identifier 2 3]).type = .space_list ∧
      2 ≤ (inner .space_list [leaf .identifier 0 1, leaf .identifier 2 3]).children.length ∧
      ∃ op d1, parse 19 .parse_disjunction (Document.of_string "a b;") = .ok (op, d1) ∧
        d1.at_space_list_end = false ∧
        (inner .space_list [leaf .identifier 0 1, leaf .identifier 2 3]).children.head?
          = some op)) :=
  ⟨(singleton_collapse 19 (Document.of_string "a;")).2.1.1 _ _ (by decide!) (by decide!),
   (singleton_collapse 19 (Document.of_string "a b;")).2.1.2 _ _ (by decide!)⟩

/-! ### Matchers move forward -/

namespace Prelexer

theorem suffixing_exactly (c : Char) : Suffixing (exactly c) := by
  intro s r h
  cases s with
  | nil => simp [exactly] at h
  | cons x xs =>
    simp only [exactly] at h
    split at h
    · cases h
      exact List.suffix_cons x _
    · cases h

theorem suffixing_satisfy (p : Char → Bool) : Suffixing (satisfy p) := by
  intro s r h
  cases s with
  | nil => simp [satisfy] at h
  | cons x xs =>
    simp only [satisfy] at h
    split at h
    · cases h
      exact List.suffix_cons x _
    · cases h

theorem suffixing_class_char (cs : List Char) : Suffixing (class_char cs) := by
  intro s r h
  cases s with
  | nil => simp [class_char] at h
  | cons x xs =>
    simp only [class_char] at h
    split at h
    · cases h
      exact List.suffix_cons x _
    · cases h

theorem suffixing_any_char : Suffixing any_char := by
  intro s r h
  cases s with
  | nil => simp [any_char] at h
  | cons x xs =>
    simp only [any_char] at h
    cases h
    exact List.suffix_cons x _

theorem suffixing_any_char_except (c : Char) : Suffixing (any_char_except c) := by
  intro s r h
  cases s with
  | nil => simp [any_char_except] at h
  | cons x xs =>
    simp only [any_char_except] at h
    split at h
    · cases h
    · cases h
      exact List.suffix_cons x _

/-- A literal match returns the text after the literal. -/
theorem exactly_s_eq_some (pre s r : List Char) : exactly_s pre s = some r ↔ s = pre ++ r := by
  induction pre generalizing s with
  | nil => simp [exactly_s, eq_comm]
  | cons p pre ih =>
    cases s with
    | nil => simp [exactly_s]
    | cons x xs =>
      simp only [exactly_s]
      split
      · rename_i hx
        rw [ih]
        simp [hx]
      · rename_i hx
        simp [hx]

theorem suffixing_exactly_s (pre : List Char) : Suffixing (exactly_s pre) := by
  intro s r h
  rw [exactly_s_eq_some] at h
  rw [h]
  exact List.suffix_append pre r

theorem suffixing_sequence (mxs : List prelexer) (h : ∀ mx ∈ mxs, Suffixing mx) :
    Suffixing (sequence mxs) := by
  induction mxs with
  | nil =>
    intro s r e
    simp only [sequence] at e
    cases e
    exact List.suffix_refl _
  | cons mx mxs ih =>
    intro s r e
    simp only [sequence] at e
    split at e
    · rename_i rest hm
      exact (ih (fun m hm1 => h m (List.mem_cons_of_mem _ hm1)) rest r e).trans
        (h mx (List.mem_cons_self _ _) s rest hm)
    · cases e

theorem suffixing_alternatives (mxs : List prelexer) (h : ∀ mx ∈ mxs, Suffixing mx) :
    Suffixing (alternatives mxs) := by
  induction mxs with
  | nil =>
    intro s r e
    simp [alternatives] at e
  | cons mx mxs ih =>
    intro s r e
    simp only [alternatives] at e
    split at e
    · rename_i rest hm
      cases e
      exact h mx (List.mem_cons_self _ _) s _ hm
    · exact ih (fun m hm1 => h m (List.mem_cons_of_mem _ hm1)) s r e

theorem suffixing_negate (mx : prelexer) : Suffixing (negate mx) := by
  intro s r e
  simp only [negate] at e
  split at e
  · cases e
  · cases e
    exact List.suffix_refl _

theorem suffixing_optional (mx : prelexer) (h : Suffixing mx) : Suffixing (optional mx) := by
  intro s r e
  simp only [optional] at e
  split at e
  · rename_i rest hm
    cases e
    exact h s _ hm
  · cases e
    exact List.suffix_refl _

theorem star_suffix (mx : prelexer) (h : Suffixing mx) (fuel : Nat) (s : List Char) :
    star mx fuel s <:+ s := by
  induction fuel generalizing s with
  | zero => exact List.suffix_refl _
  | succ n ih =>
    simp only [star]
    split
    · rename_i rest hm
      exact (ih rest).trans (h s rest hm)
    · exact List.suffix_refl _

theorem suffixing_zero_plus (mx : prelexer) (h : Suffixing mx) : Suffixing (zero_plus mx) := by
  intro s r e
  simp only [zero_plus] at e
  cases e
  exact star_suffix mx h _ s

theorem suffixing_one_plus (mx : prelexer) (h : Suffixing mx) : Suffixing (one_plus mx) := by
  intro s r e
  simp only [one_plus] at e
  split at e
  · rename_i rest hm
    cases e
    exact (star_suffix mx h _ rest).trans (h s rest hm)
  · cases e

theorem delimited_scan_suffix (stop : List Char) (esc : Bool) (fuel : Nat) (prev : Char)
    (s r : List Char) (e : delimited_scan stop esc fuel prev s = some r) : r <:+ s := by
  induction fuel generalizing prev s with
  | zero => simp [delimited_scan] at e
  | succ n ih =>
    cases s with
    | nil => simp [delimited_scan] at e
    | cons c rest =>
      simp only [delimited_scan] at e
      split at e
      · rename_i after hm
        have ha := suffixing_exactly_s stop _ _ hm
        split at e
        · cases e
          exact ha
        · exact (ih _ _ e).trans ha
      · exact (ih _ _ e).trans (List.suffix_cons c rest)

theorem suffixing_delimited_by (beg stop : List Char) (esc : Bool) :
    Suffixing (delimited_by beg stop esc) := by
  intro s r e
  simp only [delimited_by] at e
  split at e
  · rename_i rest hm
    exact (delimited_scan_suffix _ _ _ _ _ _ e).trans (suffixing_exactly_s beg _ _ hm)
  · cases e

theorem suffixing_to_endl (pre : List Char) : Suffixing (to_endl pre) := by
  intro s r e
  simp only [to_endl] at e
  split at e
  · rename_i rest hm
    cases e
    exact (List.dropWhile_suffix _).trans (suffixing_exactly_s pre _ _ hm)
  · cases e

theorem suffixing_spaces : Suffixing spaces := suffixing_one_plus _ (suffixing_satisfy _)

theorem suffixing_optional_spaces : Suffixing optional_spaces :=
  suffixing_optional _ suffixing_spaces

theorem suffixing_line_comment : Suffixing line_comment := suffixing_to_endl _

theorem suffixing_block_comment : Suffixing block_comment := by
  apply suffixing_sequence
  intro mx hm
  simp only [List.mem_cons, List.mem_singleton, List.not_mem_nil, or_false] at hm
  rcases hm with rfl | rfl
  · exact suffixing_optional_spaces
  · exact suffixing_delimited_by _ _ _

theorem suffixing_comment : Suffixing comment := by
  apply suffixing_alternatives
  intro mx hm
  simp only [List.mem_cons, List.mem_singleton, List.not_mem_nil, or_false] at hm
  rcases hm with rfl | rfl
  · exact suffixing_block_comment
  · exact suffixing_line_comment

theorem suffixing_spaces_and_comments : Suffixing spaces_and_comments := by
  apply suffixing_zero_plus
  apply suffixing_alternatives
  intro mx hm
  simp only [List.mem_cons, List.mem_singleton, List.not_mem_nil, or_false] at hm
  rcases hm with rfl | rfl
  · exact suffixing_spaces
  · exact suffixing_comment

end Prelexer

/-- The part skipped by `peek` and `lex` is a prefix: what follows is a suffix. -/
theorem after_whitespace_suffix (k : Skip) (s : List Char) : after_whitespace k s <:+ s := by
  cases k <;> simp only [after_whitespace]
  · cases h : Prelexer.spaces_and_comments s with
    | none => exact List.suffix_refl _
    | some r => exact Prelexer.suffixing_spaces_and_comments s r h
  · cases h : Prelexer.zero_plus (Prelexer.alternatives [Prelexer.spaces, Prelexer.line_comment]) s with
    | none => exact List.suffix_refl _
    | some r =>
      refine Prelexer.suffixing_zero_plus _ (Prelexer.suffixing_alternatives _ ?_) s r h
      intro mx hm
      simp only [List.mem_cons, List.mem_singleton, List.not_mem_nil, or_false] at hm
      rcases hm with rfl | rfl
      · exact Prelexer.suffixing_spaces
      · exact Prelexer.suffixing_line_comment
  · cases h : Prelexer.optional_spaces s with
    | none => exact List.suffix_refl _
    | some r => exact Prelexer.suffixing_optional_spaces s r h
  · exact List.suffix_refl _

/-- The text at the offset of a suffix of the buffer is that suffix. -/
theorem Document.drop_offset (d : Document) (r : List Char) (h : r <:+ d.source) :
    d.source.drop (d.offset r) = r := by
  obtain ⟨t, ht⟩ := h
  unfold Document.offset
  rw [← ht]
  simp

theorem Document.offset_append (d : Document) (pre r : List Char) (h : pre ++ r <:+ d.source) :
    d.offset r = d.offset (pre ++ r) + pre.length := by
  have hl := h.length_le
  unfold Document.offset
  simp at hl ⊢
  omega

/-- The text that `peek` and `lex` look at is a suffix of the buffer. -/
theorem Document.skipped_suffix (d : Document) (k : Skip) :
    after_whitespace k (d.source.drop d.position) <:+ d.source :=
  (Sass.after_whitespace_suffix k _).trans (List.drop_suffix _ _)

/-! ### Relations -/

/-- The state after a match of the literal `pre`. -/
theorem Document.lexed_with_literal (d : Document) (pre rest : List Char)
    (h : d.ahead = pre ++ rest) (mx : Prelexer.prelexer) (hm : mx d.ahead = some rest) :
    (d.lexed_with .spaces_and_comments mx).position = d.offset d.ahead + pre.length ∧
    (d.lexed_with .spaces_and_comments mx).lexed =
      ⟨d.offset d.ahead, d.offset d.ahead + pre.length⟩ ∧
    (d.lexed_with .spaces_and_comments mx).source = d.source ∧
    (d.lexed_with .spaces_and_comments mx).path = d.path ∧
    Token.text d.source ⟨d.offset d.ahead, d.offset d.ahead + pre.length⟩ = pre := by
  have hsuf : pre ++ rest <:+ d.source := by
    rw [← h]
    exact d.skipped_suffix .spaces_and_comments
  have hoff := d.offset_append pre rest hsuf
  have h1 : after_whitespace .spaces_and_comments (d.source.drop d.position) = pre ++ rest := h
  have hm1 : mx (after_whitespace .spaces_and_comments (d.source.drop d.position)) = some rest :=
    hm
  unfold Document.lexed_with
  rw [hm1]
  simp only [h, h1, hoff, true_and]
  unfold Token.text
  simp only [d.drop_offset _ hsuf]
  simp

theorem Prelexer.exactly_eq_exactly_s (c : Char) (s : List Char) :
    Prelexer.exactly c s = Prelexer.exactly_s [c] s := by
  cases s with
  | nil => rfl
  | cons x xs =>
    simp only [Prelexer.exactly, Prelexer.exactly_s]

theorem Document.sees_literal (d : Document) (pre : List Char) :
    d.sees .spaces_and_comments (Prelexer.exactly_s pre) = true ↔
      ∃ rest, d.ahead = pre ++ rest ∧ Prelexer.exactly_s pre d.ahead = some rest := by
  unfold Document.sees Document.ahead
  cases h : Prelexer.exactly_s pre
      (after_whitespace .spaces_and_comments (d.source.drop d.position)) with
  | none => simp
  | some r =>
    simp
    try exact (Prelexer.exactly_s_eq_some _ _ _).1 h

theorem Document.not_sees_literal (d : Document) (pre : List Char) :
    d.sees .spaces_and_comments (Prelexer.exactly_s pre) = false ↔
      ∀ rest, d.ahead ≠ pre ++ rest := by
  unfold Document.sees Document.ahead
  cases h : Prelexer.exactly_s pre
      (after_whitespace .spaces_and_comments (d.source.drop d.position)) with
  | none =>
    simp
    intro rest hr
    rw [← Prelexer.exactly_s_eq_some] at hr
    rw [hr] at h
    cases h
  | some r =>
    simp
    exact ⟨r, (Prelexer.exactly_s_eq_some _ _ _).1 h⟩

theorem Document.sees_exactly (d : Document) (c : Char) :
    d.sees .spaces_and_comments (Prelexer.exactly c) =
      d.sees .spaces_and_comments (Prelexer.exactly_s [c]) := by
  unfold Document.sees
  rw [Prelexer.exactly_eq_exactly_s]

theorem parse_relation_operator_spec (relation : Node) (d : Document)
    (hs : d.sees_comparison = true) :
    ∃ op d1, parse_relation_operator relation d = .ok (relation.push_back op, d1) ∧
      op.children = [] ∧
      d1.source = d.source ∧
      ∃ lexeme, comparison_operator d.ahead = some (op.type, lexeme) ∧
        op.token.text d.source = lexeme ∧
        op.token = ⟨d.offset d.ahead, d.offset d.ahead + lexeme.length⟩ ∧
        d1.position = d.offset d.ahead + lexeme.length := by
  have heq : Prelexer.eq_op = Prelexer.exactly_s ['=', '='] := rfl
  have hneq : Prelexer.neq_op = Prelexer.exactly_s ['!', '='] := rfl
  have hgte : Prelexer.gte_op = Prelexer.exactly_s ['>', '='] := rfl
  have hlte : Prelexer.lte_op = Prelexer.exactly_s ['<', '='] := rfl
  unfold parse_relation_operator
  simp only [bind_apply, lex, lex_with_apply, new_Node_lexed, pure_apply]
  by_cases h1 : d.sees .spaces_and_comments Prelexer.eq_op = true
  · simp only [h1, if_true, bind_apply, lex, lex_with_apply, new_Node_lexed, pure_apply]
    rw [heq] at h1 ⊢
    obtain ⟨rest, hr, hm⟩ := (d.sees_literal _).1 h1
    obtain ⟨hp, hl, hsrc, hpath, htext⟩ := d.lexed_with_literal _ rest hr _ hm
    refine ⟨_, _, rfl, rfl, hsrc, ['=', '='], ?_, ?_, ?_, ?_⟩
    · rw [hr]
      rfl
    · simp only [hl]
      exact htext
    · simp only [hl]
    · exact hp
  simp only [Bool.not_eq_true] at h1
  simp only [h1, Document.lexed_with_of_not_sees h1, Bool.false_eq_true, if_false, bind_apply, lex, lex_with_apply, new_Node_lexed, pure_apply]
  by_cases h2 : d.sees .spaces_and_comments Prelexer.neq_op = true
  · simp only [h2, if_true, bind_apply, lex, lex_with_apply, new_Node_lexed, pure_apply]
    rw [hneq] at h2 ⊢
    obtain ⟨rest, hr, hm⟩ := (d.sees_literal _).1 h2
    obtain ⟨hp, hl, hsrc, hpath, htext⟩ := d.lexed_with_literal _ rest hr _ hm
    refine ⟨_, _, rfl, rfl, hsrc, ['!', '='], ?_, ?_, ?_, ?_⟩
    · rw [hr]
      rfl
    · simp only [hl]
      exact htext
    · simp only [hl]
    · exact hp
  simp only [Bool.not_eq_true] at h2
  simp only [h2, Document.lexed_with_of_not_sees h2, Bool.false_eq_true, if_false, bind_apply, lex, lex_with_apply, new_Node_lexed, pure_apply]
  by_cases h3 : d.sees .spaces_and_comments Prelexer.gte_op = true
  · simp only [h3, if_true, bind_apply, lex, lex_with_apply, new_Node_lexed, pure_apply]
    rw [hgte] at h3 ⊢
    obtain ⟨rest, hr, hm⟩ := (d.sees_literal _).1 h3
    obtain ⟨hp, hl, hsrc, hpath, htext⟩ := d.lexed_with_literal _ rest hr _ hm
    refine ⟨_, _, rfl, rfl, hsrc, ['>', '='], ?_, ?_, ?_, ?_⟩
    · rw [hr]
      rfl
    · simp only [hl]
      exact htext
    · simp only [hl]
    · exact hp
  simp only [Bool.not_eq_true] at h3
  simp only [h3, Document.lexed_with_of_not_sees h3, Bool.false_eq_true, if_false, bind_apply, lex, lex_with_apply, new_Node_lexed, pure_apply]
  by_cases h4 : d.sees .spaces_and_comments Prelexer.lte_op = true
  · simp only [h4, if_true, bind_apply, lex, lex_with_apply, new_Node_lexed, pure_apply]
    rw [hlte] at h4 ⊢
    obtain ⟨rest, hr, hm⟩ := (d.sees_literal _).1 h4
    obtain ⟨hp, hl, hsrc, hpath, htext⟩ := d.lexed_with_literal _ rest hr _ hm
    refine ⟨_, _, rfl, rfl, hsrc, ['<', '='], ?_, ?_, ?_, ?_⟩
    · rw [hr]
      rfl
    · simp only [hl]
      exact htext
    · simp only [hl]
    · exact hp
  simp only [Bool.not_eq_true] at h4
  simp only [h4, Document.lexed_with_of_not_sees h4, Bool.false_eq_true, if_false, bind_apply, lex, lex_with_apply, new_Node_lexed, pure_apply]
  rw [hgte, Document.not_sees_literal] at h3
  rw [hlte, Document.not_sees_literal] at h4
  by_cases h5 : d.sees .spaces_and_comments Prelexer.gt_op = true
  · simp only [h5, if_true, bind_apply, lex, lex_with_apply, new_Node_lexed, pure_apply]
    have h5a := h5
    unfold Prelexer.gt_op at h5a
    rw [Document.sees_exactly] at h5a
    obtain ⟨rest, hr, hm⟩ := (d.sees_literal _).1 h5a
    rw [← Prelexer.exactly_eq_exactly_s] at hm
    obtain ⟨hp, hl, hsrc, hpath, htext⟩ := d.lexed_with_literal _ rest hr Prelexer.gt_op hm
    refine ⟨_, _, rfl, rfl, hsrc, ['>'], ?_, ?_, ?_, ?_⟩
    · rw [hr]
      cases rest with
      | nil => rfl
      | cons c t =>
        have hc : c ≠ '=' := by
          intro hc
          apply h3 t
          rw [hr, hc]
          rfl
        simp [comparison_operator, hc]
    · simp only [hl]
      exact htext
    · simp only [hl]
    · exact hp
  simp only [Bool.not_eq_true] at h5
  simp only [h5, Document.lexed_with_of_not_sees h5, Bool.false_eq_true, if_false, bind_apply, lex, lex_with_apply, new_Node_lexed, pure_apply]
  by_cases h6 : d.sees .spaces_and_comments Prelexer.lt_op = true
  · simp only [h6, if_true, bind_apply, lex, lex_with_apply, new_Node_lexed, pure_apply]
    have h6a := h6
    unfold Prelexer.lt_op at h6a
    rw [Document.sees_exactly] at h6a
    obtain ⟨rest, hr, hm⟩ := (d.sees_literal _).1 h6a
    rw [← Prelexer.exactly_eq_exactly_s] at hm
    obtain ⟨hp, hl, hsrc, hpath, htext⟩ := d.lexed_with_literal _ rest hr Prelexer.lt_op hm
    refine ⟨_, _, rfl, rfl, hsrc, ['<'], ?_, ?_, ?_, ?_⟩
    · rw [hr]
      cases rest with
      | nil => rfl
      | cons c t =>
        have hc : c ≠ '=' := by
          intro hc
          apply h4 t
          rw [hr, hc]
          rfl
        simp [comparison_operator, hc]
    · simp only [hl]
      exact htext
    · simp only [hl]
    · exact hp
  simp only [Bool.not_eq_true] at h6
  rw [heq] at h1
  rw [hneq] at h2
  unfold Document.sees_comparison at hs
  rw [hgte, hlte, heq, hneq] at hs
  simp [h1, h2, h5, h6, (d.not_sees_literal _).2 h3, (d.not_sees_literal _).2 h4] at hs

theorem parse_relation_collapse (rec : Call → Parser Node) (d d1 : Document) (e1 : Node)
    (h : rec .parse_expression d = .ok (e1, d1)) (hs : d1.sees_comparison = false) :
    parse_relation rec d = .ok (e1, d1) := by
  unfold Document.sees_comparison at hs
  simp only [Bool.or_eq_false_iff] at hs
  unfold parse_relation
  simp [bind_apply, h, peek_apply, pure_apply, hs]

theorem parse_relation_shape (rec : Call → Parser Node) (d : Document) :
    (parse_relation rec).post d (fun n d2 =>
      (rec .parse_expression d = .ok (n, d2) ∧ d2.sees_comparison = false) ∨
      ∃ e1 d1 op dop e2 lexeme,
        rec .parse_expression d = .ok (e1, d1) ∧ d1.sees_comparison = true ∧
        comparison_operator d1.ahead = some (op.type, lexeme) ∧
        op.token.text d1.source = lexeme ∧ op.children = [] ∧
        dop.source = d1.source ∧ dop.position = op.token.end_ ∧
        rec .parse_expression dop = .ok (e2, d2) ∧
        n.type = .relation ∧
        n.children = [e1.set_should_eval true, op, e2.set_should_eval true]) := by
  unfold parse_relation
  simp only [post_bind]
  refine post_mono (post_self _ d) ?_
  intro e1 d1 he1
  simp only [post_peek, post_ite, post_pure, post_new_Node]
  by_cases hc : d1.sees_comparison = true
  · have hc1 := hc
    unfold Document.sees_comparison at hc1
    simp only [hc1, Bool.not_true, Bool.false_eq_true, false_implies, true_and, not_false_eq_true,
      true_implies]
    obtain ⟨op, dop, hop, hch, hsrc, lexeme, hcmp, htext, htok, hpos⟩ :=
      parse_relation_operator_spec
        (Node.push_back ⟨.relation, d1.path, d1.line, Token.make, false, false, []⟩
          (e1.set_should_eval true)) d1 hc
    simp only [post_bind, post_new_Node, post_total hop, post_pure]
    refine post_mono (post_self _ dop) ?_
    intro e2 d2 he2
    right
    refine ⟨e1, d1, op, dop, e2, lexeme, he1, hc, hcmp, htext, hch, hsrc, ?_, he2, rfl, rfl⟩
    rw [hpos, htok]
  · simp only [Bool.not_eq_true] at hc
    have hc1 := hc
    unfold Document.sees_comparison at hc1
    simp only [hc1, Bool.not_false, true_implies, Bool.true_eq_false, not_false_eq_true,
      false_implies, and_true, post_pure]
    refine ⟨Or.inl ⟨he1, hc⟩, ?_⟩
    intro hf
    exact absurd trivial hf

/-- C8: `parse_relation` returns the result of `parse_expression` unchanged, at the same
state, when no comparison operator follows it.  Every node that it returns is either
that, or a `relation` node with exactly three children: the left operand (the result of
`parse_expression`, marked `should_eval`), one operator leaf whose kind is the kind of
the operator lexeme at the cursor (`==` eq, `!=` neq, `>=` gte, `<=` lte, `>` gt, `<` lt;
two bytes are taken where there are two, so `>=` is gte) and whose token is that lexeme,
and the right operand, the result of `parse_expression` right after the operator; the
state that `parse_relation` returns is the state after that right operand, so no second
comparison operator is consumed. -/
theorem parse_relation_binary (fuel : Nat) (d : Document) :
    (∀ e1 d1, parse fuel .parse_expression d = .ok (e1, d1) → d1.sees_comparison = false →
        parse (fuel + 1) .parse_relation d = .ok (e1, d1)) ∧
    (∀ n d2, parse (fuel + 1) .parse_relation d = .ok (n, d2) →
        (parse fuel .parse_expression d = .ok (n, d2) ∧ d2.sees_comparison = false) ∨
        ∃ e1 d1 op dop e2 lexeme,
          parse fuel .parse_expression d = .ok (e1, d1) ∧ d1.sees_comparison = true ∧
          comparison_operator d1.ahead = some (op.type, lexeme) ∧
          op.token.text d1.source = lexeme ∧ op.children = [] ∧
          dop.source = d1.source ∧ dop.position = op.token.end_ ∧
          parse fuel .parse_expression dop = .ok (e2, d2) ∧
          n.type = .relation ∧
          n.children = [e1.set_should_eval true, op, e2.set_should_eval true]) :=
  ⟨fun e1 d1 h hs => parse_relation_collapse (parse fuel) d d1 e1 h hs,
   parse_relation_shape (parse fuel) d⟩

/-- C8 at `1;` and at `1>=2;`: for `1;` the relation is the number itself; for `1>=2;` the
node that `parse_relation` returns is relation[1, gte, 2]. -/
theorem parse_relation_binary_witness :
    parse 20 .parse_relation (Document.of_string "1;") =
      .ok (leaf .textual_number 0 1,
        { Document.of_string "1;" with position := 1, lexed := ⟨0, 1⟩ }) ∧
    ((parse 19 .parse_expression (Document.of_string "1>=2;") =
        .ok (⟨.relation, [], 1, Token.make, false, true,
            [(leaf .textual_number 0 1).set_should_eval true, leaf .gte 1 3,
             (leaf .textual_number 3 4).set_should_eval true]⟩,
          { Document.of_string "1>=2;" with position := 4, lexed := ⟨3, 4⟩ }) ∧
      Document.sees_comparison
        { Document.of_string "1>=2;" with position := 4, lexed := ⟨3, 4⟩ } = false) ∨
     ∃ e1 d1 op dop e2 lexeme,
        parse 19 .parse_expression (Document.of_string "1>=2;") = .ok (e1, d1) ∧
        d1.sees_comparison = true ∧
        comparison_operator d1.ahead = some (op.type, lexeme) ∧
        op.token.text d1.source = lexeme ∧ op.children = [] ∧
        dop.source = d1.source ∧ dop.position = op.token.end_ ∧
        parse 19 .parse_expression dop =
          .ok (e2, { Document.of_string "1>=2;" with position := 4, lexed := ⟨3, 4⟩ }) ∧
        (⟨.relation, [], 1, Token.make, false, true,
            [(leaf .textual_number 0 1).set_should_eval true, leaf .gte 1 3,
             (leaf .textual_number 3 4).set_should_eval true]⟩ : Node).type = .relation ∧
        (⟨.relation, [], 1, Token.make, false, true,
            [(leaf .textual_number 0 1).set_should_eval true, leaf .gte 1 3,
             (leaf .textual_number 3 4).set_should_eval true]⟩ : Node).children
          = [e1.set_should_eval true, op, e2.set_should_eval true]) :=
  ⟨(parse_relation_binary 19 (Document.of_string "1;")).1 _ _ (by decide!) (by decide!),
   (parse_relation_binary 19 (Document.of_string "1>=2;")).2 _ _ (by decide!)⟩

/-! ### Lexing of number literals -/

namespace Prelexer

theorem star_none (mx : prelexer) (fuel : Nat) (s : List Char) (h : mx s = none) :
    star mx fuel s = s := by
  cases fuel with
  | zero => rfl
  | succ k => simp [star, h]

theorem star_once (mx : prelexer) (k : Nat) (s r : List Char) (h : mx s = some r)
    (hr : mx r = none) : star mx (k + 1) s = r := by
  simp only [star, h]
  exact star_none mx k r hr

theorem star_run (p : Char → Bool) (ds t : List Char) (fuel : Nat)
    (hds : ∀ c ∈ ds, p c = true) (ht : satisfy p t = none) (hf : ds.length < fuel) :
    star (satisfy p) fuel (ds ++ t) = t := by
  induction ds generalizing fuel with
  | nil => exact star_none _ _ _ ht
  | cons c ds ih =>
    cases fuel with
    | zero => simp at hf
    | succ k =>
      have hc : p c = true := hds c (List.mem_cons_self _ _)
      simp only [List.cons_append, star, satisfy, hc, if_true]
      exact ih k (fun x hx => hds x (List.mem_cons_of_mem _ hx)) (by simpa using hf)

theorem digits_run (ds t : List Char) (h : is_digits ds) (ht : digit t = none) :
    digits (ds ++ t) = some t := by
  obtain ⟨hne, hd⟩ := h
  cases ds with
  | nil => exact absurd rfl hne
  | cons c ds =>
    have hc : isdigit c = true := hd c (List.mem_cons_self _ _)
    simp only [digits, one_plus, digit, List.cons_append, satisfy, hc, if_true]
    rw [star_run isdigit ds t _ (fun x hx => hd x (List.mem_cons_of_mem _ hx)) ht
      (by simp; omega)]

theorem digits_none (t : List Char) (ht : digit t = none) : digits t = none := by
  simp [digits, one_plus, ht]

theorem zero_plus_digits_run (a t : List Char) (ha : ∀ c ∈ a, isdigit c = true)
    (ht : digit t = none) : zero_plus digits (a ++ t) = some t := by
  simp only [zero_plus]
  cases a with
  | nil =>
    simp only [List.nil_append]
    rw [star_none _ _ _ (digits_none t ht)]
  | cons c a =>
    rw [star_once digits _ _ t (digits_run (c :: a) t ⟨by simp, ha⟩ ht) (digits_none t ht)]

theorem one_plus_digits_run (b t : List Char) (hb : is_digits b) (ht : digit t = none) :
    one_plus digits (b ++ t) = some t := by
  simp only [one_plus, digits_run b t hb ht]
  rw [star_none _ _ _ (digits_none t ht)]

theorem digit_none_of_not (c : Char) (t : List Char) (h : isdigit c = false) :
    digit (c :: t) = none := by
  simp [digit, satisfy, h]

/-- The matcher `unsigned_number` takes an unsigned number literal whole, when the byte
after it is neither a digit nor a point. -/
theorem unsigned_number_run (u t : List Char) (h : is_unsigned_number u)
    (ht : digit t = none) (hp : exactly '.' t = none) :
    unsigned_number (u ++ t) = some t := by
  rcases h with h | ⟨a, b, rfl, ha, hb⟩
  · have h1 : zero_plus digits (u ++ t) = some t :=
      zero_plus_digits_run u t h.2 ht
    simp [unsigned_number, alternatives, sequence, h1, hp, digits_run u t h ht]
  · have hdot : digit ('.' :: (b ++ t)) = none := digit_none_of_not _ _ (by decide)
    have h1 : zero_plus digits (a ++ '.' :: (b ++ t)) = some ('.' :: (b ++ t)) :=
      zero_plus_digits_run a _ ha hdot
    have h2 : one_plus digits (b ++ t) = some t := one_plus_digits_run b t hb ht
    simp [unsigned_number, alternatives, sequence, h1, exactly, h2]

theorem sign_none_of_unsigned (u t : List Char) (h : is_unsigned_number u) :
    sign (u ++ t) = none := by
  rcases h with h | ⟨a, b, rfl, ha, hb⟩
  · obtain ⟨hne, hd⟩ := h
    cases u with
    | nil => exact absurd rfl hne
    | cons c u =>
      have hc : isdigit c = true := hd c (List.mem_cons_self _ _)
      have h1 : c ≠ '-' := by
        intro e
        rw [e] at hc
        exact absurd hc (by decide)
      have h2 : c ≠ '+' := by
        intro e
        rw [e] at hc
        exact absurd hc (by decide)
      simp [sign, class_char, h1, h2]
  · cases a with
    | nil => simp [sign, class_char]
    | cons c a =>
      have hc : isdigit c = true := ha c (List.mem_cons_self _ _)
      have h1 : c ≠ '-' := by
        intro e
        rw [e] at hc
        exact absurd hc (by decide)
      have h2 : c ≠ '+' := by
        intro e
        rw [e] at hc
        exact absurd hc (by decide)
      simp [sign, class_char, h1, h2]

/-- The matcher `number` takes a number literal whole, when the byte after it is neither a
digit nor a point. -/
theorem number_run (m t : List Char) (h : is_number m)
    (ht : digit t = none) (hp : exactly '.' t = none) : number (m ++ t) = some t := by
  rcases h with h | ⟨s, u, rfl, hs, hu⟩
  · simp [number, sequence, optional, sign_none_of_unsigned m t h, unsigned_number_run m t h ht hp]
  · have h1 : sign (s :: (u ++ t)) = some (u ++ t) := by
      rcases hs with rfl | rfl <;> simp [sign, class_char]
    simp [number, sequence, optional, h1, unsigned_number_run u t hu ht hp]

end Prelexer

namespace Prelexer

theorem isdigit_cases (c : Char) (h : isdigit c = true) :
    c = '0' ∨ c = '1' ∨ c = '2' ∨ c = '3' ∨ c = '4' ∨ c = '5' ∨ c = '6' ∨ c = '7' ∨
      c = '8' ∨ c = '9' := by
  have h1 : 48 ≤ c.toNat ∧ c.toNat ≤ 57 := by simpa [isdigit] using h
  obtain ⟨h48, h57⟩ := h1
  have hc : Char.ofNat c.toNat = c := Char.ofNat_toNat c
  rw [← hc]
  generalize c.toNat = n at h48 h57
  interval_cases n <;> decide

end Prelexer

theorem is_unsigned_number_start (u t : List Char) (h : is_unsigned_number u) :
    ∃ c rest, u ++ t = c :: rest ∧ (Prelexer.isdigit c = true ∨ c = '.') := by
  rcases h with h | ⟨a, b, rfl, ha, hb⟩
  · obtain ⟨hne, hd⟩ := h
    cases u with
    | nil => exact absurd rfl hne
    | cons c u => exact ⟨c, u ++ t, rfl, Or.inl (hd c (List.mem_cons_self _ _))⟩
  · cases a with
    | nil => exact ⟨'.', b ++ t, rfl, Or.inr rfl⟩
    | cons c a => exact ⟨c, a ++ '.' :: b ++ t, by simp, Or.inl (ha c (List.mem_cons_self _ _))⟩

theorem is_number_start (m t : List Char) (h : is_number m) : number_start (m ++ t) = true := by
  rcases h with h | ⟨s, u, rfl, hs, hu⟩
  · obtain ⟨c, rest, e, hc⟩ := is_unsigned_number_start m t h
    rw [e]
    rcases hc with hc | rfl
    · simp [number_start, hc]
    · simp [number_start]
  · obtain ⟨c, rest, e, hc⟩ := is_unsigned_number_start u t hu
    simp only [List.cons_append, e]
    rcases hs with rfl | rfl <;> rcases hc with hc | rfl <;>
      first | simp [number_start, hc] | simp [number_start]

theorem number_start_cases (s : List Char) (h : number_start s = true) :
    ∃ c rest, s = c :: rest ∧
      ((Prelexer.isdigit c = true ∨ c = '.') ∨
       ((c = '+' ∨ c = '-') ∧ ∃ c2 rest2, rest = c2 :: rest2 ∧
          (Prelexer.isdigit c2 = true ∨ c2 = '.'))) := by
  cases s with
  | nil => simp [number_start] at h
  | cons c rest =>
    refine ⟨c, rest, rfl, ?_⟩
    simp only [number_start, Bool.or_eq_true, Bool.and_eq_true, beq_iff_eq] at h
    rcases h with h | ⟨hs, h2⟩
    · exact Or.inl h
    · cases rest with
      | nil => simp at h2
      | cons c2 rest2 =>
        simp only [Bool.or_eq_true, beq_iff_eq] at h2
        exact Or.inr ⟨hs, c2, rest2, rfl, h2⟩

/-- What does not match at the start of a number literal. -/
theorem number_start_misses (s : List Char) (h : number_start s = true) :
    Prelexer.exactly '(' s = none ∧ Prelexer.uri_prefix s = none ∧
    Prelexer.identifier s = none ∧ Prelexer.functional s = none ∧
    Prelexer.sequence [Prelexer.true_kwd, Prelexer.negate Prelexer.identifier] s = none ∧
    Prelexer.sequence [Prelexer.false_kwd, Prelexer.negate Prelexer.identifier] s = none ∧
    Prelexer.important s = none ∧ Prelexer.hex s = none ∧
    Prelexer.string_constant s = none ∧ Prelexer.interpolant s = none := by
  obtain ⟨c, rest, rfl, hc | ⟨hs, c2, rest2, rfl, hc2⟩⟩ := number_start_cases s h
  · rcases hc with hc | rfl
    · rcases Prelexer.isdigit_cases c hc with
        rfl | rfl | rfl | rfl | rfl | rfl | rfl | rfl | rfl | rfl <;>
      exact ⟨rfl, rfl, rfl, rfl, rfl, rfl, rfl, rfl, rfl, rfl⟩
    · exact ⟨rfl, rfl, rfl, rfl, rfl, rfl, rfl, rfl, rfl, rfl⟩
  · rcases hs with rfl | rfl <;> rcases hc2 with hc2 | rfl
    · rcases Prelexer.isdigit_cases c2 hc2 with
        rfl | rfl | rfl | rfl | rfl | rfl | rfl | rfl | rfl | rfl <;>
      exact ⟨rfl, rfl, rfl, rfl, rfl, rfl, rfl, rfl, rfl, rfl⟩
    · exact ⟨rfl, rfl, rfl, rfl, rfl, rfl, rfl, rfl, rfl, rfl⟩
    · rcases Prelexer.isdigit_cases c2 hc2 with
        rfl | rfl | rfl | rfl | rfl | rfl | rfl | rfl | rfl | rfl <;>
      exact ⟨rfl, rfl, rfl, rfl, rfl, rfl, rfl, rfl, rfl, rfl⟩
    · exact ⟨rfl, rfl, rfl, rfl, rfl, rfl, rfl, rfl, rfl, rfl⟩

/-- What does not match at a byte that ends a value. -/
theorem value_end_misses (c : Char) (rest : List Char) (hc : is_value_end c) :
    Prelexer.digit (c :: rest) = none ∧ Prelexer.exactly '.' (c :: rest) = none ∧
    Prelexer.exactly '%' (c :: rest) = none ∧ Prelexer.identifier (c :: rest) = none ∧
    Prelexer.percentage (c :: rest) = none ∧ Prelexer.dimension (c :: rest) = none ∧
    Prelexer.hex (c :: rest) = none ∧ Prelexer.number (c :: rest) = none ∧
    Prelexer.string_constant (c :: rest) = none ∧ Prelexer.interpolant (c :: rest) = none := by
  rcases hc with rfl | rfl | rfl | rfl | rfl | rfl <;>
    exact ⟨rfl, rfl, rfl, rfl, rfl, rfl, rfl, rfl, rfl, rfl⟩

namespace Prelexer

/-- A number literal before a byte that ends a value: what matches it, and what does not. -/
theorem number_text (m : List Char) (c : Char) (rest : List Char) (hm : is_number m)
    (hc : is_value_end c) :
    number (m ++ c :: rest) = some (c :: rest) ∧
    percentage (m ++ c :: rest) = none ∧ dimension (m ++ c :: rest) = none ∧
    value_schema (m ++ c :: rest) = none := by
  obtain ⟨h1, h2, h3, h4, h5, h6, h7, h8, h9, h10⟩ := value_end_misses c rest hc
  obtain ⟨k1, k2, k3, k4, k5, k6, k7, k8, k9, k10⟩ :=
    number_start_misses (m ++ c :: rest) (is_number_start m _ hm)
  have hn : number (m ++ c :: rest) = some (c :: rest) := number_run m _ hm h1 h2
  have hp : percentage (m ++ c :: rest) = none := by
    simp [percentage, sequence, hn, h3]
  have hd : dimension (m ++ c :: rest) = none := by
    simp [dimension, sequence, hn, h4]
  refine ⟨hn, hp, hd, ?_⟩
  have ha : alternatives [identifier, percentage, dimension, hex, number, string_constant]
      (m ++ c :: rest) = some (c :: rest) := by
    simp [alternatives, k3, hp, hd, k8, hn]
  have hb : alternatives [identifier, percentage, dimension, hex, number, string_constant]
      (c :: rest) = none := by
    simp [alternatives, h4, h5, h6, h7, h8, h9]
  simp only [value_schema, one_plus, sequence, zero_plus]
  rw [star_once _ _ _ _ ha hb]
  simp [h10]

/-- A sign before a number literal is not a unary operator. -/
theorem number_text_unary (m : List Char) (c : Char) (rest : List Char) (hm : is_number m)
    (hc : is_value_end c) :
    sequence [exactly '+', negate number] (m ++ c :: rest) = none ∧
    sequence [exactly '-', negate number] (m ++ c :: rest) = none := by
  obtain ⟨h1, h2, -⟩ := value_end_misses c rest hc
  rcases hm with h | ⟨s, u, rfl, hs, hu⟩
  · obtain ⟨x, xs, e, hx⟩ := is_unsigned_number_start m (c :: rest) h
    rw [e]
    rcases hx with hx | rfl
    · rcases isdigit_cases x hx with
        rfl | rfl | rfl | rfl | rfl | rfl | rfl | rfl | rfl | rfl <;> exact ⟨rfl, rfl⟩
    · exact ⟨rfl, rfl⟩
  · have hn : number (u ++ c :: rest) = some (c :: rest) :=
      number_run u _ (Or.inl hu) h1 h2
    rcases hs with rfl | rfl <;> simp [sequence, exactly, negate, hn]

end Prelexer

/-! ### The skipped part -/

theorem after_whitespace_self (c : Char) (rest : List Char) (h1 : Prelexer.isspace c = false)
    (h2 : c ≠ '/') : after_whitespace .spaces_and_comments (c :: rest) = c :: rest := by
  have hm : Prelexer.alternatives [Prelexer.spaces, Prelexer.comment] (c :: rest) = none := by
    simp [Prelexer.alternatives, Prelexer.spaces, Prelexer.one_plus, Prelexer.space,
      Prelexer.satisfy, h1, Prelexer.comment, Prelexer.block_comment, Prelexer.sequence,
      Prelexer.optional_spaces, Prelexer.optional, Prelexer.delimited_by, Prelexer.slash_star,
      Prelexer.exactly_s, h2, Prelexer.line_comment, Prelexer.to_endl, Prelexer.slash_slash]
  simp only [after_whitespace, Prelexer.spaces_and_comments, Prelexer.zero_plus]
  rw [Prelexer.star_none _ _ _ hm]
  rfl

theorem after_whitespace_space (c : Char) (rest : List Char)
    (h1 : Prelexer.isspace c = false) (h2 : c ≠ '/') :
    after_whitespace .spaces_and_comments (' ' :: c :: rest) = c :: rest := by
  have hm : Prelexer.alternatives [Prelexer.spaces, Prelexer.comment] (c :: rest) = none := by
    simp [Prelexer.alternatives, Prelexer.spaces, Prelexer.one_plus, Prelexer.space,
      Prelexer.satisfy, h1, Prelexer.comment, Prelexer.block_comment, Prelexer.sequence,
      Prelexer.optional_spaces, Prelexer.optional, Prelexer.delimited_by, Prelexer.slash_star,
      Prelexer.exactly_s, h2, Prelexer.line_comment, Prelexer.to_endl, Prelexer.slash_slash]
  have hs : Prelexer.alternatives [Prelexer.spaces, Prelexer.comment] (' ' :: c :: rest) =
      some (c :: rest) := by
    have h3 : Prelexer.space (c :: rest) = none := by
      simp [Prelexer.space, Prelexer.satisfy, h1]
    have h4 : Prelexer.space (' ' :: c :: rest) = some (c :: rest) := rfl
    simp only [Prelexer.alternatives, Prelexer.spaces, Prelexer.one_plus, h4]
    rw [Prelexer.star_none _ _ _ h3]
  simp only [after_whitespace, Prelexer.spaces_and_comments, Prelexer.zero_plus]
  rw [Prelexer.star_once _ _ _ _ hs hm]
  rfl

theorem number_start_not_space (s : List Char) (h : number_start s = true) :
    ∃ c rest, s = c :: rest ∧ Prelexer.isspace c = false ∧ c ≠ '/' := by
  obtain ⟨c, rest, rfl, hc | ⟨hs, -⟩⟩ := number_start_cases s h
  · refine ⟨c, rest, rfl, ?_⟩
    rcases hc with hc | rfl
    · rcases Prelexer.isdigit_cases c hc with
        rfl | rfl | rfl | rfl | rfl | rfl | rfl | rfl | rfl | rfl <;> decide
    · decide
  · refine ⟨c, rest, rfl, ?_⟩
    rcases hs with rfl | rfl <;> decide

/-- Nothing is skipped before a number literal. -/
theorem after_whitespace_number (s : List Char) (h : number_start s = true) :
    after_whitespace .spaces_and_comments s = s := by
  obtain ⟨c, rest, rfl, h1, h2⟩ := number_start_not_space s h
  exact after_whitespace_self c rest h1 h2

/-- One space before a number literal is skipped. -/
theorem after_whitespace_space_number (s : List Char) (h : number_start s = true) :
    after_whitespace .spaces_and_comments (' ' :: s) = s := by
  obtain ⟨c, rest, rfl, h1, h2⟩ := number_start_not_space s h
  exact after_whitespace_space c rest h1 h2

/-! ### Tokens at the cursor -/

theorem Document.sees_ahead (d : Document) (mx : Prelexer.prelexer) :
    d.sees .spaces_and_comments mx = (mx d.ahead).isSome := rfl

theorem Document.ahead_of_text (d : Document) (ws s : List Char)
    (hrest : d.source.drop d.position = ws ++ s)
    (hws : after_whitespace .spaces_and_comments (ws ++ s) = s) : d.ahead = s := by
  unfold Document.ahead
  rw [hrest, hws]

theorem lex_miss (d : Document) (mx : Prelexer.prelexer) (h : mx d.ahead = none) :
    lex mx d = .ok (false, d) := by
  have hs : d.sees .spaces_and_comments mx = false := by
    rw [d.sees_ahead, h]
    rfl
  unfold lex
  rw [lex_with_apply, hs, Document.lexed_with_of_not_sees hs]

theorem peek_miss (d : Document) (mx : Prelexer.prelexer) (h : mx d.ahead = none) :
    peek mx d = .ok (false, d) := by
  rw [peek_apply, d.sees_ahead, h]
  rfl

theorem peek_hit (d : Document) (mx : Prelexer.prelexer) (r : List Char)
    (h : mx d.ahead = some r) : peek mx d = .ok (true, d) := by
  rw [peek_apply, d.sees_ahead, h]
  rfl

/-- A `lex` that matches the token `pre` after the skipped part `ws`, when neither holds a
newline: the span and the cursor after it. -/
theorem lex_token (d : Document) (mx : Prelexer.prelexer) (ws pre r : List Char)
    (hrest : d.source.drop d.position = ws ++ (pre ++ r))
    (hws : after_whitespace .spaces_and_comments (ws ++ (pre ++ r)) = pre ++ r)
    (hm : mx (pre ++ r) = some r) (hnl : (ws ++ pre).count '\n' = 0) (hne : pre ≠ []) :
    lex mx d = .ok (true, d.moved (d.position + ws.length)
      (d.position + ws.length + pre.length)) := by
  have hlen : d.source.length - d.position = ws.length + (pre.length + r.length) := by
    have := congrArg List.length hrest
    simpa using this
  have hpre : 0 < pre.length := List.length_pos.2 hne
  have ho1 : d.offset (pre ++ r) = d.position + ws.length := by
    unfold Document.offset
    simp only [List.length_append]
    omega
  have ho2 : d.offset r = d.position + ws.length + pre.length := by
    unfold Document.offset
    omega
  have hc : count_interval '\n' d.source d.position (d.offset r) = 0 := by
    unfold count_interval
    rw [hrest, ho2]
    have e : d.position + ws.length + pre.length - d.position = (ws ++ pre).length := by
      simp only [List.length_append]
      omega
    rw [e, ← List.append_assoc, List.take_left]
    exact hnl
  unfold lex
  rw [lex_with_apply]
  have hs : d.sees .spaces_and_comments mx = true := by
    unfold Document.sees
    rw [hrest, hws, hm]
    rfl
  rw [hs]
  unfold Document.lexed_with
  rw [hrest, hws, hm]
  rw [ho2] at hc
  simp only [hc, ho1, ho2, Nat.add_zero]
  rfl

/-- The text after the token that `lex_token` matched. -/
theorem Document.moved_text (d : Document) (b : Nat) (ws pre r : List Char)
    (hrest : d.source.drop d.position = ws ++ (pre ++ r)) :
    (d.moved b (d.position + ws.length + pre.length)).source.drop
      (d.moved b (d.position + ws.length + pre.length)).position = r := by
  show d.source.drop (d.position + ws.length + pre.length) = r
  have e : d.position + ws.length + pre.length = d.position + (ws ++ pre).length := by
    simp only [List.length_append]
    omega
  rw [e, ← List.drop_drop, hrest, ← List.append_assoc, List.drop_left]

theorem is_unsigned_number_newline (u : List Char) (h : is_unsigned_number u) :
    u.count '\n' = 0 := by
  rw [List.count_eq_zero]
  intro hmem
  rcases h with h | ⟨a, b, rfl, ha, hb⟩
  · exact absurd (h.2 _ hmem) (by decide)
  · simp only [List.mem_append, List.mem_cons] at hmem
    rcases hmem with hmem | hmem | hmem
    · exact absurd (ha _ hmem) (by decide)
    · exact absurd hmem (by decide)
    · exact absurd (hb.2 _ hmem) (by decide)

theorem is_number_newline (m : List Char) (h : is_number m) : m.count '\n' = 0 := by
  rcases h with h | ⟨s, u, rfl, hs, hu⟩
  · exact is_unsigned_number_newline m h
  · have := is_unsigned_number_newline u hu
    rcases hs with rfl | rfl <;> simpa using this

theorem is_number_ne_nil (m : List Char) (h : is_number m) : m ≠ [] := by
  intro e
  have := is_number_start m [] h
  rw [e] at this
  simp [number_start] at this

/-! ### Number literals in the value productions -/

/-- The production `parse_value` at a number literal: a `textual_number` leaf over the
literal. -/
theorem parse_value_number (rec : Call → Parser Node) (d : Document) (ws m : List Char)
    (c : Char) (rest : List Char)
    (hrest : d.source.drop d.position = ws ++ (m ++ c :: rest))
    (hws : after_whitespace .spaces_and_comments (ws ++ (m ++ c :: rest)) = m ++ c :: rest)
    (hnl : ws.count '\n' = 0) (hm : is_number m) (hc : is_value_end c) :
    parse_value rec d =
      .ok (⟨.textual_number, d.path, d.line,
            ⟨d.position + ws.length, d.position + ws.length + m.length⟩, false, false, []⟩,
           d.moved (d.position + ws.length) (d.position + ws.length + m.length)) := by
  have ha : d.ahead = m ++ c :: rest := d.ahead_of_text ws _ hrest hws
  obtain ⟨k1, k2, k3, k4, k5, k6, k7, k8, k9, k10⟩ :=
    number_start_misses (m ++ c :: rest) (is_number_start m _ hm)
  obtain ⟨hn, hp, hd, hv⟩ := Prelexer.number_text m c rest hm hc
  have hcount : (ws ++ m).count '\n' = 0 := by
    rw [List.count_append, hnl, is_number_newline m hm]
  have hlex := lex_token d Prelexer.number ws m (c :: rest) hrest hws hn hcount
    (is_number_ne_nil m hm)
  rw [← ha] at k1 k2 k3 k4 k5 k6 k7 k8 k9 k10 hp hd hv
  unfold parse_value
  simp only [bind_apply, peek_apply, Document.sees_ahead, k2, k4, Option.isSome_none,
    lex_miss d _ hv,
    lex_miss d _ k5, lex_miss d _ k6, lex_miss d _ k7, lex_miss d _ k3, lex_miss d _ hp,
    lex_miss d _ hd, hlex, Bool.false_and, Bool.false_eq_true, if_false, if_true]
  rfl

/-- The production `parse_factor` at a number literal goes on to `parse_value`: the
literal is not in parentheses, and its sign is not a unary operator. -/
theorem parse_factor_number (rec : Call → Parser Node) (d : Document) (ws m : List Char)
    (c : Char) (rest : List Char)
    (hrest : d.source.drop d.position = ws ++ (m ++ c :: rest))
    (hws : after_whitespace .spaces_and_comments (ws ++ (m ++ c :: rest)) = m ++ c :: rest)
    (hm : is_number m) (hc : is_value_end c) :
    parse_factor rec d = rec .parse_value d := by
  have ha : d.ahead = m ++ c :: rest := d.ahead_of_text ws _ hrest hws
  obtain ⟨k1, -⟩ := number_start_misses (m ++ c :: rest) (is_number_start m _ hm)
  obtain ⟨hu1, hu2⟩ := Prelexer.number_text_unary m c rest hm hc
  rw [← ha] at k1 hu1 hu2
  unfold parse_factor
  simp only [bind_apply, lex_miss d _ k1, lex_miss d _ hu1, lex_miss d _ hu2,
    Bool.false_eq_true, if_false]

theorem parse_term_collapse (rec : Call → Parser Node) (d d1 : Document) (n : Node)
    (h : rec .parse_factor d = .ok (n, d1))
    (h1 : d1.sees .spaces_and_comments (Prelexer.exactly '*') = false)
    (h2 : d1.sees .spaces_and_comments (Prelexer.exactly '/') = false) :
    parse_term rec d = .ok (n, d1) := by
  unfold parse_term
  simp [bind_apply, h, peek_apply, pure_apply, h1, h2]

theorem parse_expression_collapse (rec : Call → Parser Node) (d d1 : Document) (n : Node)
    (h : rec .parse_term d = .ok (n, d1))
    (h1 : d1.sees .spaces_and_comments (Prelexer.exactly '+') = false)
    (h2 : d1.sees .spaces_and_comments
      (Prelexer.sequence [Prelexer.negate Prelexer.number, Prelexer.exactly '-']) = false) :
    parse_expression rec d = .ok (n, d1) := by
  unfold parse_expression
  simp [bind_apply, h, peek_apply, pure_apply, h1, h2]

/-- An operand that no operator follows is returned as it is by every level from
`parse_term` up to `parse_disjunction`. -/
theorem parse_disjunction_of_factor (f : Nat) (d d1 : Document) (n : Node)
    (h : parse (f + 1) .parse_factor d = .ok (n, d1)) (hq : d1.sees_operator = false) :
    parse (f + 2) .parse_term d = .ok (n, d1) ∧
    parse (f + 3) .parse_expression d = .ok (n, d1) ∧
    parse (f + 4) .parse_relation d = .ok (n, d1) ∧
    parse (f + 5) .parse_conjunction d = .ok (n, d1) ∧
    parse (f + 6) .parse_disjunction d = .ok (n, d1) := by
  unfold Document.sees_operator at hq
  simp only [Bool.or_eq_false_iff] at hq
  obtain ⟨⟨⟨⟨⟨⟨h1, h2⟩, h3⟩, h4⟩, h5⟩, h6⟩, h7⟩ := hq
  have t1 : parse (f + 2) .parse_term d = .ok (n, d1) :=
    parse_term_collapse (parse (f + 1)) d d1 n h h1 h2
  have t2 : parse (f + 3) .parse_expression d = .ok (n, d1) :=
    parse_expression_collapse (parse (f + 2)) d d1 n t1 h3 h4
  have t3 : parse (f + 4) .parse_relation d = .ok (n, d1) :=
    parse_relation_collapse (parse (f + 3)) d d1 n t2 h5
  have t4 : parse (f + 5) .parse_conjunction d = .ok (n, d1) :=
    parse_conjunction_collapse (parse (f + 4)) d d1 n t3 h6
  exact ⟨t1, t2, t3, t4, parse_disjunction_collapse (parse (f + 5)) d d1 n t4 h7⟩

/-- The production `parse_factor`, with fuel for `parse_value`, at a number literal. -/
theorem parse_number (f : Nat) (d : Document) (ws m : List Char)
    (c : Char) (rest : List Char)
    (hrest : d.source.drop d.position = ws ++ (m ++ c :: rest))
    (hws : after_whitespace .spaces_and_comments (ws ++ (m ++ c :: rest)) = m ++ c :: rest)
    (hnl : ws.count '\n' = 0) (hm : is_number m) (hc : is_value_end c) :
    parse (f + 2) .parse_factor d =
      .ok (⟨.textual_number, d.path, d.line,
            ⟨d.position + ws.length, d.position + ws.length + m.length⟩, false, false, []⟩,
           d.moved (d.position + ws.length) (d.position + ws.length + m.length)) := by
  have h1 : parse (f + 2) .parse_factor d = parse (f + 1) .parse_value d :=
    parse_factor_number (parse (f + 1)) d ws m c rest hrest hws hm hc
  rw [h1]
  exact parse_value_number (parse f) d ws m c rest hrest hws hnl hm hc

/-- At a byte that ends a list no operator is seen, and the list ends. -/
theorem Document.list_end_ahead (d : Document) (c : Char) (rest : List Char)
    (ha : d.ahead = c :: rest) (hc : is_list_end c) :
    d.sees_operator = false ∧ d.at_space_list_end = true := by
  unfold Document.sees_operator Document.at_space_list_end Document.sees_comparison
    and_connective or_connective
  simp only [Document.sees_ahead, ha]
  rcases hc with rfl | rfl | rfl | rfl | rfl <;> exact ⟨rfl, rfl⟩

theorem is_list_end.value_end {c : Char} (hc : is_list_end c) : is_value_end c :=
  Or.inr hc

theorem is_list_end.not_space {c : Char} (hc : is_list_end c) :
    Prelexer.isspace c = false ∧ c ≠ '/' := by
  rcases hc with rfl | rfl | rfl | rfl | rfl <;> decide

/-- At a `-` that starts a number literal no operator is seen, and the list goes on: the
guard `negate<number>` keeps the `-` from being taken as a subtraction. -/
theorem Document.minus_number_ahead (d : Document) (n : List Char) (c : Char)
    (rest : List Char) (ha : d.ahead = '-' :: (n ++ c :: rest))
    (hn : is_unsigned_number n) (hc : is_value_end c) :
    d.sees_operator = false ∧ d.at_space_list_end = false := by
  obtain ⟨h1, h2, -⟩ := value_end_misses c rest hc
  have hnum : Prelexer.number ('-' :: (n ++ c :: rest)) = some (c :: rest) :=
    Prelexer.number_run ('-' :: n) (c :: rest) (Or.inr ⟨'-', n, rfl, Or.inl rfl, hn⟩) h1 h2
  have hg : Prelexer.sequence [Prelexer.negate Prelexer.number, Prelexer.exactly '-']
      ('-' :: (n ++ c :: rest)) = none := by
    simp [Prelexer.sequence, Prelexer.negate, hnum]
  unfold Document.sees_operator Document.at_space_list_end Document.sees_comparison
    and_connective or_connective
  simp only [Document.sees_ahead, ha, hg]
  exact ⟨rfl, rfl⟩

theorem space_list_end_apply (d : Document) :
    space_list_end d = .ok (d.at_space_list_end, d) := by
  unfold space_list_end Document.at_space_list_end
  simp [bind_apply, peek_apply, pure_apply]

/-- Two number literals, the second one with a `-` directly before it and a space before
that: `parse_space_list` returns the space-separated list of two numbers. -/
theorem parse_space_list_numbers (g : Nat) (d : Document) (m n : List Char) (c : Char)
    (rest : List Char)
    (hrest : d.source.drop d.position = m ++ ' ' :: '-' :: (n ++ c :: rest))
    (hm : is_number m) (hn : is_unsigned_number n) (hc : is_list_end c) :
    parse (g + 9) .parse_space_list d =
      .ok (⟨.space_list, d.path, d.line, Token.make, false, false,
            [⟨.textual_number, d.path, d.line, ⟨d.position, d.position + m.length⟩,
               false, false, []⟩,
             ⟨.textual_number, d.path, d.line,
               ⟨d.position + m.length + 1, d.position + m.length + 2 + n.length⟩,
               false, false, []⟩]⟩,
           d.moved (d.position + m.length + 1) (d.position + m.length + 2 + n.length)) := by
  -- the first number
  have hrest0 : d.source.drop d.position = [] ++ (m ++ ' ' :: '-' :: (n ++ c :: rest)) := hrest
  have hws0 : after_whitespace .spaces_and_comments ([] ++ (m ++ ' ' :: '-' :: (n ++ c :: rest)))
      = m ++ ' ' :: '-' :: (n ++ c :: rest) :=
    after_whitespace_number _ (is_number_start m _ hm)
  have hf1 := parse_number (g + 1) d [] m ' ' _ hrest0 hws0 rfl hm (Or.inl rfl)
  simp only [List.length_nil, Nat.add_zero] at hf1
  have ht1 := d.moved_text d.position [] m _ hrest0
  simp only [List.length_nil, Nat.add_zero] at ht1
  generalize hd1 : d.moved d.position (d.position + m.length) = d1 at hf1 ht1
  have hp1 : d1.position = d.position + m.length := by rw [← hd1]; rfl
  have hq1 : d1.path = d.path ∧ d1.line = d.line := by rw [← hd1]; exact ⟨rfl, rfl⟩
  have hmn : is_number ('-' :: n) := Or.inr ⟨'-', n, rfl, Or.inl rfl, hn⟩
  have hrest1 : d1.source.drop d1.position = [' '] ++ (('-' :: n) ++ c :: rest) := ht1
  have hws1 : after_whitespace .spaces_and_comments ([' '] ++ (('-' :: n) ++ c :: rest))
      = ('-' :: n) ++ c :: rest :=
    after_whitespace_space_number _ (is_number_start ('-' :: n) (c :: rest) hmn)
  have ha1 : d1.ahead = '-' :: (n ++ c :: rest) := d1.ahead_of_text _ _ hrest1 hws1
  obtain ⟨hop1, hend1⟩ := d1.minus_number_ahead n c rest ha1 hn hc.value_end
  have hdj1 := (parse_disjunction_of_factor (g + 2) d d1 _ hf1 hop1).2.2.2.2
  -- the second number
  have hf2 := parse_number g d1 [' '] ('-' :: n) c rest hrest1 hws1 rfl hmn hc.value_end
  have ht2 := d1.moved_text (d1.position + [' '].length) [' '] ('-' :: n) _ hrest1
  generalize hd2 : d1.moved (d1.position + [' '].length)
    (d1.position + [' '].length + ('-' :: n).length) = d2 at hf2 ht2
  have hws2 : after_whitespace .spaces_and_comments (c :: rest) = c :: rest :=
    after_whitespace_self c rest hc.not_space.1 hc.not_space.2
  have ha2 : d2.ahead = c :: rest := by
    unfold Document.ahead
    rw [ht2, hws2]
  obtain ⟨hop2, hend2⟩ := d2.list_end_ahead c rest ha2 hc
  have hdj2 := (parse_disjunction_of_factor (g + 1) d1 d2 _ hf2 hop2).2.2.2.2
  -- the list
  have e : parse (g + 9) .parse_space_list d = parse_space_list (parse (g + 8)) d := rfl
  rw [e]
  unfold parse_space_list
  simp only [bind_apply, hdj1, space_list_end_apply, hend1, Bool.false_eq_true, if_false]
  have e1 : ∀ acc, parse (g + 8) (.parse_space_list_loop acc) d1 =
      parse_space_list_loop (parse (g + 7)) acc d1 := fun _ => rfl
  have e2 : ∀ acc, parse (g + 7) (.parse_space_list_loop acc) d2 =
      parse_space_list_loop (parse (g + 6)) acc d2 := fun _ => rfl
  simp only [new_Node, e1]
  unfold parse_space_list_loop
  simp only [bind_apply, hdj2, space_list_end_apply, hend1, Bool.false_eq_true, if_false,
    Bool.not_false, if_true, e2]
  unfold parse_space_list_loop
  simp only [bind_apply, space_list_end_apply, hend2, Bool.not_true, Bool.false_eq_true,
    if_false, pure_apply]
  rw [← hd2, ← hd1]
  have a1 : d.position + m.length + (0 + 1) + (n.length + 1) =
      d.position + m.length + 2 + n.length := by omega
  simp only [Document.moved, Node.push_back, Node.set_should_eval, List.length_cons,
    List.length_nil, a1, Bool.or_false, List.nil_append, List.cons_append, Nat.zero_add]

/-- Two number literals with a `-` between them that has a space on either side:
`parse_space_list` returns the subtraction. -/
theorem parse_space_list_subtraction (g : Nat) (d : Document) (m n : List Char) (c : Char)
    (rest : List Char)
    (hrest : d.source.drop d.position = m ++ ' ' :: '-' :: ' ' :: (n ++ c :: rest))
    (hm : is_number m) (hn : is_unsigned_number n) (hc : is_list_end c) :
    parse (g + 9) .parse_space_list d =
      .ok (⟨.expression, d.path, d.line, Token.make, false, true,
            [⟨.textual_number, d.path, d.line, ⟨d.position, d.position + m.length⟩,
               false, true, []⟩,
             ⟨.sub, d.path, d.line, ⟨d.position + m.length + 1, d.position + m.length + 2⟩,
               false, false, []⟩,
             ⟨.textual_number, d.path, d.line,
               ⟨d.position + m.length + 3, d.position + m.length + 3 + n.length⟩,
               false, true, []⟩]⟩,
           d.moved (d.position + m.length + 3) (d.position + m.length + 3 + n.length)) := by
  -- the first number
  have hrest0 : d.source.drop d.position =
      [] ++ (m ++ ' ' :: '-' :: ' ' :: (n ++ c :: rest)) := hrest
  have hws0 : after_whitespace .spaces_and_comments
      ([] ++ (m ++ ' ' :: '-' :: ' ' :: (n ++ c :: rest)))
      = m ++ ' ' :: '-' :: ' ' :: (n ++ c :: rest) :=
    after_whitespace_number _ (is_number_start m _ hm)
  have hf1 := parse_number (g + 1) d [] m ' ' _ hrest0 hws0 rfl hm (Or.inl rfl)
  simp only [List.length_nil, Nat.add_zero] at hf1
  have ht1 := d.moved_text d.position [] m _ hrest0
  simp only [List.length_nil, Nat.add_zero] at ht1
  generalize hd1 : d.moved d.position (d.position + m.length) = d1 at hf1 ht1
  have hp1 : d1.position = d.position + m.length := by rw [← hd1]; rfl
  have hq1 : d1.path = d.path ∧ d1.line = d.line := by rw [← hd1]; exact ⟨rfl, rfl⟩
  have hrest1 : d1.source.drop d1.position = [' '] ++ (['-'] ++ ' ' :: (n ++ c :: rest)) := ht1
  have hws1 : after_whitespace .spaces_and_comments
      ([' '] ++ (['-'] ++ ' ' :: (n ++ c :: rest))) = ['-'] ++ ' ' :: (n ++ c :: rest) :=
    after_whitespace_space '-' _ (by decide) (by decide)
  have ha1 : d1.ahead = '-' :: ' ' :: (n ++ c :: rest) := d1.ahead_of_text _ _ hrest1 hws1
  have hterm1 : parse (g + 4) .parse_term d = .ok (_, d1) :=
    parse_term_collapse (parse (g + 3)) d d1 _ hf1
      (by rw [d1.sees_ahead, ha1]; rfl) (by rw [d1.sees_ahead, ha1]; rfl)
  have hplus1 : Prelexer.exactly '+' d1.ahead = none := by rw [ha1]; rfl
  have hguard1 : d1.sees .spaces_and_comments
      (Prelexer.sequence [Prelexer.negate Prelexer.number, Prelexer.exactly '-']) = true := by
    rw [d1.sees_ahead, ha1]
    rfl
  -- the operator
  have hop := lex_token d1
    (Prelexer.sequence [Prelexer.negate Prelexer.number, Prelexer.exactly '-'])
    [' '] ['-'] (' ' :: (n ++ c :: rest)) hrest1 hws1 rfl rfl (by simp)
  have htop := d1.moved_text (d1.position + [' '].length) [' '] ['-'] _ hrest1
  generalize hdo : d1.moved (d1.position + [' '].length)
    (d1.position + [' '].length + ['-'].length) = dop at hop htop
  have hfirst : lexed_first dop = .ok (some '-', dop) := by
    rw [← hdo]
    show Except.ok ((d1.source.drop (d1.position + 1)).head?, _) = _
    rw [← List.drop_drop, ht1]
    rfl
  have hqo : dop.path = d.path ∧ dop.line = d.line ∧ dop.lexed =
      ⟨d.position + m.length + 1, d.position + m.length + 2⟩ ∧
      dop.position = d.position + m.length + 2 := by
    rw [← hdo, ← hd1]
    exact ⟨rfl, rfl, rfl, rfl⟩
  -- the second number
  have hresto : dop.source.drop dop.position = [' '] ++ (n ++ c :: rest) := htop
  have hwso : after_whitespace .spaces_and_comments ([' '] ++ (n ++ c :: rest))
      = n ++ c :: rest :=
    after_whitespace_space_number _ (is_number_start n (c :: rest) (Or.inl hn))
  have hf2 := parse_number g dop [' '] n c rest hresto hwso rfl (Or.inl hn) hc.value_end
  have ht2 := dop.moved_text (dop.position + [' '].length) [' '] n _ hresto
  generalize hd2 : dop.moved (dop.position + [' '].length)
    (dop.position + [' '].length + n.length) = d2 at hf2 ht2
  have hws2 : after_whitespace .spaces_and_comments (c :: rest) = c :: rest :=
    after_whitespace_self c rest hc.not_space.1 hc.not_space.2
  have ha2 : d2.ahead = c :: rest := by
    unfold Document.ahead
    rw [ht2, hws2]
  obtain ⟨hop2, hend2⟩ := d2.list_end_ahead c rest ha2 hc
  have hterm2 : parse (g + 3) .parse_term dop = .ok (_, d2) :=
    (parse_disjunction_of_factor (g + 1) dop d2 _ hf2 hop2).1
  unfold Document.sees_operator at hop2
  simp only [Bool.or_eq_false_iff] at hop2
  obtain ⟨⟨⟨⟨⟨⟨h1, h2⟩, h3⟩, h4⟩, h5⟩, h6⟩, h7⟩ := hop2
  have hplus2 : d2.lexed_with .spaces_and_comments (Prelexer.exactly '+') = d2 :=
    Document.lexed_with_of_not_sees h3
  -- the expression
  have hd2eq : d2 = d.moved (d.position + m.length + 3) (d.position + m.length + 3 + n.length) := by
    rw [← hd2, ← hdo, ← hd1]
    have a1 : d.position + m.length + 1 + 1 + 1 = d.position + m.length + 3 := by omega
    simp only [Document.moved, List.length_cons, List.length_nil, Nat.zero_add, a1]
  have hexpr : parse (g + 5) .parse_expression d =
      .ok (⟨.expression, d.path, d.line, Token.make, false, true,
            [⟨.textual_number, d.path, d.line, ⟨d.position, d.position + m.length⟩,
               false, true, []⟩,
             ⟨.sub, d.path, d.line, ⟨d.position + m.length + 1, d.position + m.length + 2⟩,
               false, false, []⟩,
             ⟨.textual_number, d.path, d.line,
               ⟨d.position + m.length + 3, d.position + m.length + 3 + n.length⟩,
               false, true, []⟩]⟩, d2) := by
    have e : parse (g + 5) .parse_expression d = parse_expression (parse (g + 4)) d := rfl
    rw [e]
    unfold parse_expression
    simp only [bind_apply, hterm1, peek_apply, d1.sees_ahead (Prelexer.exactly '+'), hplus1,
      hguard1, Option.isSome_none, Bool.false_or, Bool.not_true, Bool.false_eq_true, if_false,
      new_Node]
    have e1 : ∀ acc, parse (g + 4) (.parse_expression_loop acc) d1 =
        parse_expression_loop (parse (g + 3)) acc d1 := fun _ => rfl
    have e2 : ∀ acc, parse (g + 3) (.parse_expression_loop acc) d2 =
        parse_expression_loop (parse (g + 2)) acc d2 := fun _ => rfl
    rw [e1]
    unfold parse_expression_loop or_else
    simp only [bind_apply, lex_miss d1 _ hplus1, hop, Bool.false_eq_true, if_false, if_true,
      hfirst, new_Node_lexed, hterm2, e2, pure_apply]
    simp only [(by decide : ¬ (some '-' = some '+')), if_false, new_Node_lexed, hterm2, e2]
    unfold parse_expression_loop or_else
    simp only [bind_apply, lex_with_apply, lex, h3, h4, hplus2, Bool.false_eq_true, if_false,
      Document.lexed_with_of_not_sees h4, pure_apply]
    have a1 : d.position + m.length + 2 + 1 = d.position + m.length + 3 := by omega
    simp only [hq1.1, hq1.2, hqo.1, hqo.2.1, hqo.2.2.1, hqo.2.2.2, Node.push_back,
      Node.set_should_eval, List.length_cons, List.length_nil, Nat.zero_add, a1,
      List.nil_append, List.cons_append]
  have hrel := parse_relation_collapse (parse (g + 5)) d d2 _ hexpr h5
  have hcj := parse_conjunction_collapse (parse (g + 6)) d d2 _ hrel h6
  have hdj := parse_disjunction_collapse (parse (g + 7)) d d2 _ hcj h7
  have hsl := parse_space_list_collapse (parse (g + 8)) d d2 _ hdj hend2
  rw [← hd2eq]
  exact hsl

theorem Token.text_of_drop (src : List Char) (p : Nat) (a pre r : List Char)
    (h : src.drop p = a ++ (pre ++ r)) :
    Token.text src ⟨p + a.length, p + a.length + pre.length⟩ = pre := by
  unfold Token.text
  have e : p + a.length + pre.length - (p + a.length) = pre.length := by omega
  simp only [e]
  rw [← List.drop_drop, h, List.drop_left, List.take_left]

/-- Before a `-` at which a number starts, `parse_expression` returns its first term
alone, and its loop stops. -/
theorem parse_expression_sign (rec : Call → Parser Node) (d0 d1 : Document) (t : Node)
    (x : List Char) (h : rec .parse_term d0 = .ok (t, d1)) (ha : d1.ahead = '-' :: x)
    (hn : (Prelexer.number d1.ahead).isSome = true) :
    parse_expression rec d0 = .ok (t, d1) ∧
    ∀ acc, parse_expression_loop rec acc d1 = .ok (acc.set_should_eval true, d1) := by
  have h1 : Prelexer.exactly '+' d1.ahead = none := by rw [ha]; rfl
  have h2 : Prelexer.sequence [Prelexer.negate Prelexer.number, Prelexer.exactly '-']
      d1.ahead = none := by
    cases hx : Prelexer.number d1.ahead with
    | none => rw [hx] at hn; cases hn
    | some r => simp [Prelexer.sequence, Prelexer.negate, hx]
  refine ⟨parse_expression_collapse rec d0 d1 t h ?_ ?_, ?_⟩
  · rw [d1.sees_ahead, h1]; rfl
  · rw [d1.sees_ahead, h2]; rfl
  · intro acc
    unfold parse_expression_loop or_else
    simp only [bind_apply, lex_miss d1 _ h1, lex_miss d1 _ h2, Bool.false_eq_true, if_false,
      pure_apply]

/-- C9: in `parse_expression` a `-` at which a number starts is not taken as subtraction:
after any first term the routine returns that term alone and its loop stops.  For number
literals `m` and `n` (`n` unsigned) before a byte `;` `}` `{` `)` `,`, the text `m -n`
gives through `parse_space_list` the `space_list` of the two `textual_number` leaves `m`
and `-n`, without a `sub` node, and the text `m - n` gives the `expression` of `m`, the
`sub` leaf `-` and `n`. -/
theorem minus_sign_not_subtraction (g : Nat) (d e : Document) (m n : List Char) (c : Char)
    (rest : List Char) (hm : is_number m) (hn : is_unsigned_number n) (hc : is_list_end c)
    (hd : d.source.drop d.position = m ++ ' ' :: '-' :: (n ++ c :: rest))
    (he : e.source.drop e.position = m ++ ' ' :: '-' :: ' ' :: (n ++ c :: rest)) :
    (∀ (rec : Call → Parser Node) (d0 d1 : Document) (t : Node) (x : List Char),
      rec .parse_term d0 = .ok (t, d1) → d1.ahead = '-' :: x →
      (Prelexer.number d1.ahead).isSome = true →
        parse_expression rec d0 = .ok (t, d1) ∧
        ∀ acc, parse_expression_loop rec acc d1 = .ok (acc.set_should_eval true, d1)) ∧
    (parse (g + 9) .parse_space_list d =
      .ok (⟨.space_list, d.path, d.line, Token.make, false, false,
            [⟨.textual_number, d.path, d.line, ⟨d.position, d.position + m.length⟩,
               false, false, []⟩,
             ⟨.textual_number, d.path, d.line,
               ⟨d.position + m.length + 1, d.position + m.length + 2 + n.length⟩,
               false, false, []⟩]⟩,
           d.moved (d.position + m.length + 1) (d.position + m.length + 2 + n.length)) ∧
     Token.text d.source ⟨d.position, d.position + m.length⟩ = m ∧
     Token.text d.source ⟨d.position + m.length + 1, d.position + m.length + 2 + n.length⟩ =
       '-' :: n) ∧
    (parse (g + 9) .parse_space_list e =
      .ok (⟨.expression, e.path, e.line, Token.make, false, true,
            [⟨.textual_number, e.path, e.line, ⟨e.position, e.position + m.length⟩,
               false, true, []⟩,
             ⟨.sub, e.path, e.line, ⟨e.position + m.length + 1, e.position + m.length + 2⟩,
               false, false, []⟩,
             ⟨.textual_number, e.path, e.line,
               ⟨e.position + m.length + 3, e.position + m.length + 3 + n.length⟩,
               false, true, []⟩]⟩,
           e.moved (e.position + m.length + 3) (e.position + m.length + 3 + n.length)) ∧
     Token.text e.source ⟨e.position, e.position + m.length⟩ = m ∧
     Token.text e.source ⟨e.position + m.length + 1, e.position + m.length + 2⟩ = ['-'] ∧
     Token.text e.source ⟨e.position + m.length + 3, e.position + m.length + 3 + n.length⟩ =
       n) := by
  refine ⟨fun rec d0 d1 t x h ha hx => parse_expression_sign rec d0 d1 t x h ha hx,
    ⟨parse_space_list_numbers g d m n c rest hd hm hn hc, ?_, ?_⟩,
    ⟨parse_space_list_subtraction g e m n c rest he hm hn hc, ?_, ?_, ?_⟩⟩
  · have h := Token.text_of_drop d.source d.position [] m _ hd
    simpa using h
  · have h1 : d.source.drop d.position = (m ++ [' ']) ++ (('-' :: n) ++ c :: rest) := by
      rw [hd]
      simp
    have h := Token.text_of_drop d.source d.position _ _ _ h1
    have a1 : d.position + (m ++ [' ']).length + ('-' :: n).length =
        d.position + m.length + 2 + n.length := by
      simp only [List.length_append, List.length_cons, List.length_nil]
      omega
    have a2 : d.position + (m ++ [' ']).length = d.position + m.length + 1 := by
      simp only [List.length_append, List.length_cons, List.length_nil]
      omega
    rw [a1, a2] at h
    exact h
  · have h := Token.text_of_drop e.source e.position [] m _ he
    simpa using h
  · have h1 : e.source.drop e.position = (m ++ [' ']) ++ (['-'] ++ ' ' :: (n ++ c :: rest)) := by
      rw [he]
      simp
    have h := Token.text_of_drop e.source e.position _ _ _ h1
    have a1 : e.position + (m ++ [' ']).length + ['-'].length = e.position + m.length + 2 := by
      simp only [List.length_append, List.length_cons, List.length_nil]
      omega
    have a2 : e.position + (m ++ [' ']).length = e.position + m.length + 1 := by
      simp only [List.length_append, List.length_cons, List.length_nil]
      omega
    rw [a1, a2] at h
    exact h
  · have h1 : e.source.drop e.position = (m ++ [' ', '-', ' ']) ++ (n ++ c :: rest) := by
      rw [he]
      simp
    have h := Token.text_of_drop e.source e.position _ _ _ h1
    have a2 : e.position + (m ++ [' ', '-', ' ']).length = e.position + m.length + 3 := by
      simp only [List.length_append, List.length_cons, List.length_nil]
      omega
    rw [a2] at h
    exact h

/-- C9, at `1 -2;` and `1 - 2;`. -/
theorem minus_sign_not_subtraction_witness :
    (is_number ['1'] ∧ is_unsigned_number ['2'] ∧ is_list_end ';') ∧
    (parse 9 .parse_space_list (Document.of_string "1 -2;") =
      .ok (⟨.space_list, [], 1, Token.make, false, false,
            [leaf .textual_number 0 1, leaf .textual_number 2 4]⟩,
           (Document.of_string "1 -2;").moved 2 4) ∧
     Token.text "1 -2;".toList ⟨0, 1⟩ = ['1'] ∧
     Token.text "1 -2;".toList ⟨2, 4⟩ = ['-', '2']) ∧
    (parse 9 .parse_space_list (Document.of_string "1 - 2;") =
      .ok (⟨.expression, [], 1, Token.make, false, true,
            [(leaf .textual_number 0 1).set_should_eval true, leaf .sub 2 3,
             (leaf .textual_number 4 5).set_should_eval true]⟩,
           (Document.of_string "1 - 2;").moved 4 5) ∧
     Token.text "1 - 2;".toList ⟨0, 1⟩ = ['1'] ∧
     Token.text "1 - 2;".toList ⟨2, 3⟩ = ['-'] ∧
     Token.text "1 - 2;".toList ⟨4, 5⟩ = ['2']) :=
  have hm : is_number ['1'] := Or.inl (Or.inl ⟨by simp, by decide⟩)
  have hn : is_unsigned_number ['2'] := Or.inl ⟨by simp, by decide⟩
  have hc : is_list_end ';' := Or.inl rfl
  ⟨⟨hm, hn, hc⟩,
   (minus_sign_not_subtraction 0 (Document.of_string "1 -2;") (Document.of_string "1 - 2;")
     ['1'] ['2'] ';' [] hm hn hc rfl rfl).2⟩

/-! ### Pure literal trees -/

theorem Node.plain_eq (n : Node) :
    n.plain = (n.type.literal && Node.plain_all n.children) := by
  cases n
  simp [Node.plain]

theorem Node.unmarked_eq (n : Node) :
    n.unmarked = (!n.should_eval && Node.unmarked_all n.children) := by
  cases n
  simp [Node.unmarked]

@[simp] theorem Node.plain_all_nil : Node.plain_all [] = true := by
  simp [Node.plain_all]

@[simp] theorem Node.unmarked_all_nil : Node.unmarked_all [] = true := by
  simp [Node.unmarked_all]

@[simp] theorem Node.plain_all_cons (c : Node) (cs : List Node) :
    Node.plain_all (c :: cs) = (c.plain && Node.plain_all cs) := by
  simp [Node.plain_all]

@[simp] theorem Node.unmarked_all_cons (c : Node) (cs : List Node) :
    Node.unmarked_all (c :: cs) = (c.unmarked && Node.unmarked_all cs) := by
  simp [Node.unmarked_all]

@[simp] theorem Node.plain_all_append (cs ds : List Node) :
    Node.plain_all (cs ++ ds) = (Node.plain_all cs && Node.plain_all ds) := by
  induction cs with
  | nil => simp
  | cons c cs ih => simp [ih, Bool.and_assoc]

@[simp] theorem Node.unmarked_all_append (cs ds : List Node) :
    Node.unmarked_all (cs ++ ds) = (Node.unmarked_all cs && Node.unmarked_all ds) := by
  induction cs with
  | nil => simp
  | cons c cs ih => simp [ih, Bool.and_assoc]

/-- A node of a kind that is not literal is not a pure literal tree. -/
theorem Node.literal_unmarked_of_type {n : Node} (h : n.type.literal = false) :
    n.literal_unmarked := by
  intro hp
  rw [Node.plain_eq, h] at hp
  cases hp

/-- A node without children and without the flag. -/
theorem Node.literal_unmarked_leaf (t : NodeType) (p : List Char) (l : Nat) (k : Token)
    (b : Bool) : (⟨t, p, l, k, b, false, []⟩ : Node).literal_unmarked := by
  intro _
  simp [Node.unmarked]

/-- The step of a list: a child is pushed and its flag is taken over. -/
theorem Node.literal_unmarked_push {acc c : Node} (h : acc.literal_unmarked)
    (hc : c.literal_unmarked) :
    ((acc.push_back c).set_should_eval
      ((acc.push_back c).should_eval || c.should_eval)).literal_unmarked := by
  intro hp
  rw [Node.plain_eq] at hp
  simp only [Node.set_should_eval_type, Node.push_back_type, Node.set_should_eval_children,
    Node.push_back_children, Node.plain_all_append, Node.plain_all_cons, Node.plain_all_nil,
    Bool.and_true, Bool.and_eq_true] at hp
  obtain ⟨ht, hcs, hcp⟩ := hp
  have ha : acc.unmarked = true := h (by rw [Node.plain_eq, ht, hcs]; rfl)
  have hcu : c.unmarked = true := hc hcp
  rw [Node.unmarked_eq] at ha
  simp only [Bool.and_eq_true, Bool.not_eq_true'] at ha
  have hcu2 := hcu
  rw [Node.unmarked_eq] at hcu2
  simp only [Bool.and_eq_true, Bool.not_eq_true'] at hcu2
  rw [Node.unmarked_eq]
  simp [Node.set_should_eval, Node.push_back, ha.1, ha.2, hcu, hcu2.1]

@[simp] theorem Document.lexed_with_source (d : Document) (k : Skip) (mx : Prelexer.prelexer) :
    (d.lexed_with k mx).source = d.source := by
  unfold Document.lexed_with
  split <;> rfl

theorem step_literal_lists (rec : Call → Parser Node)
    (ih : ∀ c d, (rec c).post d (fun n d1 => literal_post c d n d1)) (d : Document) :
    (parse_list rec).post d (fun n d1 => literal_post .parse_list d n d1) ∧
    (parse_comma_list rec).post d (fun n d1 => literal_post .parse_comma_list d n d1) ∧
    (parse_space_list rec).post d (fun n d1 => literal_post .parse_space_list d n d1) ∧
    (∀ acc, (parse_comma_list_loop rec acc).post d
      (fun n d1 => literal_post (.parse_comma_list_loop acc) d n d1)) ∧
    (∀ acc, (parse_space_list_loop rec acc).post d
      (fun n d1 => literal_post (.parse_space_list_loop acc) d n d1)) := by
  refine ⟨?_, ?_, ?_, ?_, ?_⟩
  · unfold parse_list
    exact ih .parse_comma_list d
  · unfold parse_comma_list
    simp only [literal_post]
    simp [post_ite]
    constructor
    · intro _ _
      exact Node.literal_unmarked_of_type rfl
    · intro _ _ _ _
      refine post_mono (ih _ _) ?_
      intro l1 d1 h1
      simp only [literal_post] at h1
      constructor
      · intro _
        exact h1
      · intro _
        refine post_mono (ih _ _) ?_
        intro n d2 h2
        simp only [literal_post] at h2
        refine ⟨h2.1.trans h1.1, fun hp => h2.2 (by rw [h1.1]; exact hp) ?_⟩
        exact Node.literal_unmarked_push (Node.literal_unmarked_leaf _ _ _ _ _) (h1.2 hp)
  · unfold parse_space_list
    simp only [literal_post]
    simp [post_ite]
    refine post_mono (ih _ _) ?_
    intro l1 d1 h1
    simp only [literal_post] at h1
    constructor
    · intro _
      exact h1
    · intro _
      refine post_mono (ih _ _) ?_
      intro n d2 h2
      simp only [literal_post] at h2
      refine ⟨h2.1.trans h1.1, fun hp => h2.2 (by rw [h1.1]; exact hp) ?_⟩
      exact Node.literal_unmarked_push (Node.literal_unmarked_leaf _ _ _ _ _) (h1.2 hp)
  · intro acc
    unfold parse_comma_list_loop
    simp only [literal_post]
    simp [post_ite]
    intro _
    refine post_mono (ih _ _) ?_
    intro l1 d1 h1
    simp only [literal_post, Document.lexed_with_source] at h1
    refine post_mono (ih _ _) ?_
    intro n d2 h2
    simp only [literal_post] at h2
    refine ⟨h2.1.trans h1.1, fun hp hacc => h2.2 (by rw [h1.1]; exact hp) ?_⟩
    exact Node.literal_unmarked_push hacc (h1.2 hp)
  · intro acc
    unfold parse_space_list_loop
    simp only [literal_post]
    simp [post_ite]
    intro _
    refine post_mono (ih _ _) ?_
    intro l1 d1 h1
    simp only [literal_post] at h1
    refine post_mono (ih _ _) ?_
    intro n d2 h2
    simp only [literal_post] at h2
    refine ⟨h2.1.trans h1.1, fun hp hacc => h2.2 (by rw [h1.1]; exact hp) ?_⟩
    exact Node.literal_unmarked_push hacc (h1.2 hp)

theorem step_literal_connectives (rec : Call → Parser Node)
    (ih : ∀ c d, (rec c).post d (fun n d1 => literal_post c d n d1)) (d : Document) :
    (parse_disjunction rec).post d (fun n d1 => literal_post .parse_disjunction d n d1) ∧
    (parse_conjunction rec).post d (fun n d1 => literal_post .parse_conjunction d n d1) ∧
    (∀ acc, (parse_disjunction_loop rec acc).post d
      (fun n d1 => literal_post (.parse_disjunction_loop acc) d n d1)) ∧
    (∀ acc, (parse_conjunction_loop rec acc).post d
      (fun n d1 => literal_post (.parse_conjunction_loop acc) d n d1)) := by
  refine ⟨?_, ?_, ?_, ?_⟩
  · unfold parse_disjunction
    simp only [literal_post]
    simp [post_ite]
    refine post_mono (ih _ _) ?_
    intro l1 d1 h1
    simp only [literal_post] at h1
    constructor
    · intro _
      exact h1
    · intro _
      refine post_mono (ih _ _) ?_
      intro n d2 h2
      simp only [literal_post, Node.push_back_type] at h2
      exact ⟨h2.1.trans h1.1, fun _ => Node.literal_unmarked_of_type (by rw [h2.2]; rfl)⟩
  · unfold parse_conjunction
    simp only [literal_post]
    simp [post_ite]
    refine post_mono (ih _ _) ?_
    intro l1 d1 h1
    simp only [literal_post] at h1
    constructor
    · intro _
      exact h1
    · intro _
      refine post_mono (ih _ _) ?_
      intro n d2 h2
      simp only [literal_post, Node.push_back_type] at h2
      exact ⟨h2.1.trans h1.1, fun _ => Node.literal_unmarked_of_type (by rw [h2.2]; rfl)⟩
  · intro acc
    unfold parse_disjunction_loop
    simp only [literal_post]
    simp [post_ite]
    intro _
    refine post_mono (ih _ _) ?_
    intro l1 d1 h1
    simp only [literal_post, Document.lexed_with_source] at h1
    refine post_mono (ih _ _) ?_
    intro n d2 h2
    simp only [literal_post, Node.push_back_type] at h2
    exact ⟨h2.1.trans h1.1, h2.2⟩
  · intro acc
    unfold parse_conjunction_loop
    simp only [literal_post]
    simp [post_ite]
    intro _
    refine post_mono (ih _ _) ?_
    intro l1 d1 h1
    simp only [literal_post, Document.lexed_with_source] at h1
    refine post_mono (ih _ _) ?_
    intro n d2 h2
    simp only [literal_post, Node.push_back_type] at h2
    exact ⟨h2.1.trans h1.1, h2.2⟩

theorem parse_relation_operator_source (relation : Node) (d : Document) :
    (parse_relation_operator relation).post d
      (fun n d1 => d1.source = d.source ∧ n.type = relation.type) := by
  unfold parse_relation_operator
  simp [post_ite]

/-- A byte that `lex` or `peek` sees is in the buffer. -/
theorem Document.mem_of_sees (d : Document) (c : Char)
    (h : d.sees .spaces_and_comments (Prelexer.exactly c) = true) : c ∈ d.source := by
  rw [d.sees_exactly, d.sees_literal] at h
  obtain ⟨rest, h1, -⟩ := h
  have hs : d.ahead <:+ d.source := d.skipped_suffix .spaces_and_comments
  rw [h1] at hs
  exact hs.subset (by simp)

theorem step_literal_algebra (rec : Call → Parser Node)
    (ih : ∀ c d, (rec c).post d (fun n d1 => literal_post c d n d1)) (d : Document) :
    (parse_relation rec).post d (fun n d1 => literal_post .parse_relation d n d1) ∧
    (parse_expression rec).post d (fun n d1 => literal_post .parse_expression d n d1) ∧
    (parse_term rec).post d (fun n d1 => literal_post .parse_term d n d1) ∧
    (parse_factor rec).post d (fun n d1 => literal_post .parse_factor d n d1) ∧
    (∀ acc, (parse_expression_loop rec acc).post d
      (fun n d1 => literal_post (.parse_expression_loop acc) d n d1)) ∧
    (∀ acc, (parse_term_loop rec acc).post d
      (fun n d1 => literal_post (.parse_term_loop acc) d n d1)) := by
  refine ⟨?_, ?_, ?_, ?_, ?_, ?_⟩
  · unfold parse_relation
    simp only [literal_post]
    simp [post_ite]
    refine post_mono (ih _ _) ?_
    intro e1 d1 h1
    simp only [literal_post] at h1
    constructor
    · intro _ _ _ _ _ _
      exact h1
    · intro _
      refine post_mono (parse_relation_operator_source _ d1) ?_
      intro r d2 h2
      refine post_mono (ih _ _) ?_
      intro e2 d3 h3
      simp only [literal_post] at h3
      refine ⟨h3.1.trans (h2.1.trans h1.1), fun _ => Node.literal_unmarked_of_type ?_⟩
      simp only [Node.set_should_eval_type, Node.push_back_type, h2.2]
      rfl
  · unfold parse_expression
    simp only [literal_post]
    simp [post_ite]
    refine post_mono (ih _ _) ?_
    intro t1 d1 h1
    simp only [literal_post] at h1
    constructor
    · intro _ _
      exact h1
    · intro _
      refine post_mono (ih _ _) ?_
      intro n d2 h2
      simp only [literal_post, Node.push_back_type] at h2
      exact ⟨h2.1.trans h1.1, fun _ => Node.literal_unmarked_of_type (by rw [h2.2]; rfl)⟩
  · unfold parse_term
    simp only [literal_post]
    simp [post_ite]
    refine post_mono (ih _ _) ?_
    intro f1 d1 h1
    simp only [literal_post] at h1
    constructor
    · intro _ _
      exact h1
    · intro _
      refine post_mono (ih _ _) ?_
      intro n d2 h2
      simp only [literal_post] at h2
      refine ⟨h2.1.trans h1.1, fun _ => Node.literal_unmarked_of_type ?_⟩
      rw [h2.2]
      split <;> rfl
  · unfold parse_factor
    simp only [literal_post]
    simp [post_ite]
    refine ⟨?_, ?_⟩
    · intro hs
      refine post_mono (ih _ _) ?_
      intro v d1 h1
      simp only [literal_post, Document.lexed_with_source] at h1
      intro _
      exact ⟨h1.1, fun hp => absurd (d.mem_of_sees '(' hs) hp⟩
    · intro _
      refine ⟨?_, ?_⟩
      · intro _
        refine post_mono (ih _ _) ?_
        intro f d1 h1
        simp only [literal_post, Document.lexed_with_source] at h1
        exact ⟨h1.1, fun _ => Node.literal_unmarked_of_type rfl⟩
      · intro _
        refine ⟨?_, ?_⟩
        · intro _
          refine post_mono (ih _ _) ?_
          intro f d1 h1
          simp only [literal_post, Document.lexed_with_source] at h1
          exact ⟨h1.1, fun _ => Node.literal_unmarked_of_type rfl⟩
        · intro _
          refine post_mono (ih _ _) ?_
          intro v d1 h1
          simp only [literal_post, Document.lexed_with_source] at h1
          exact h1
  · intro acc
    unfold parse_expression_loop
    simp only [literal_post]
    have key : ∀ (op : Node) (d1 : Document), d1.source = d.source →
        (rec .parse_term).post d1 (fun a d2 =>
          (rec (.parse_expression_loop
            ((acc.push_back op).push_back (a.set_should_eval true)))).post d2
            (fun n d3 => d3.source = d.source ∧ n.type = acc.type)) := by
      intro op d1 hd1
      refine post_mono (ih _ _) ?_
      intro a d2 h1
      simp only [literal_post] at h1
      refine post_mono (ih _ _) ?_
      intro n d3 h2
      simp only [literal_post, Node.push_back_type] at h2
      exact ⟨h2.1.trans (h1.1.trans hd1), h2.2⟩
    simp [post_ite]
    split
    · exact ⟨fun _ => key _ _ (by simp), fun _ => key _ _ (by simp)⟩
    · exact fun _ => ⟨fun _ => key _ _ (by simp), fun _ => key _ _ (by simp)⟩
  · intro acc
    unfold parse_term_loop
    simp only [literal_post]
    have key : ∀ (t : Node) (d1 : Document), d1.source = d.source → t.type = acc.type →
        (rec .parse_factor).post d1 (fun a d2 =>
          (rec (.parse_term_loop
            ((t.set_should_eval (t.should_eval || a.should_eval)).push_back a))).post d2
            (fun n d3 => d3.source = d.source ∧ n.type = acc.type)) := by
      intro t d1 hd1 ht
      refine post_mono (ih _ _) ?_
      intro a d2 h1
      simp only [literal_post] at h1
      refine post_mono (ih _ _) ?_
      intro n d3 h2
      simp only [literal_post, Node.push_back_type, Node.set_should_eval_type] at h2
      exact ⟨h2.1.trans (h1.1.trans hd1), h2.2.trans ht⟩
    simp [post_ite]
    split
    · exact ⟨fun _ => key _ _ (by simp) rfl, fun _ => key _ _ (by simp) rfl⟩
    · exact fun _ => ⟨fun _ => key _ _ (by simp) rfl, fun _ => key _ _ (by simp) rfl⟩

theorem step_literal_values (rec : Call → Parser Node)
    (ih : ∀ c d, (rec c).post d (fun n d1 => literal_post c d n d1)) (d : Document) :
    (parse_value rec).post d (fun n d1 => literal_post .parse_value d n d1) ∧
    (parse_function_call rec).post d
      (fun n d1 => literal_post .parse_function_call d n d1) ∧
    (parse_arguments rec).post d (fun n d1 => literal_post .parse_arguments d n d1) ∧
    (parse_argument rec).post d (fun n d1 => literal_post .parse_argument d n d1) ∧
    (∀ acc, (parse_arguments_loop rec acc).post d
      (fun n d1 => literal_post (.parse_arguments_loop acc) d n d1)) := by
  refine ⟨?_, ?_, ?_, ?_, ?_⟩
  · unfold parse_value
    simp only [literal_post]
    simp [post_ite, Node.literal_unmarked_leaf]
    refine ⟨?_, ?_⟩
    · intro _ _
      split
      · simp
      · simp
        intro _
        exact Node.literal_unmarked_of_type rfl
    · intro _
      refine ⟨?_, ?_⟩
      · intro _
        refine post_mono (ih _ _) ?_
        intro n d1 h
        simp only [literal_post] at h
        exact ⟨h.1, fun _ => Node.literal_unmarked_of_type (by rw [h.2]; rfl)⟩
      · intro _
        refine ⟨?_, ?_⟩
        · intro _
          refine post_mono (ih _ _) ?_
          intro n d1 h
          simp only [literal_post] at h
          exact fun _ => Node.literal_unmarked_of_type (by rw [h.2]; rfl)
        · intro _ _ _ _ _ _ _ _ _
          refine ⟨?_, ?_⟩
          · intro _
            refine post_mono (ih _ _) ?_
            intro n d1 h
            simp only [literal_post, Document.lexed_with_source] at h
            exact h
          · intro _ _ _
            exact Node.literal_unmarked_of_type rfl
  · unfold parse_function_call
    simp only [literal_post]
    have key : ∀ (name : Node) (d1 : Document), d1.source = d.source →
        (rec .parse_arguments).post d1 (fun a d2 =>
          (new_Node .function_call).post d2 (fun call d3 =>
            d3.source = d.source ∧
            (((call.push_back name).push_back a).set_should_eval true).type = .function_call))
        := by
      intro name d1 hd1
      refine post_mono (ih _ _) ?_
      intro a d2 ha
      simp only [literal_post] at ha
      simp only [post_new_Node]
      exact ⟨ha.trans hd1, rfl⟩
    simp only [post_bind, post_lex, post_ite, post_pure]
    constructor
    · intro _
      refine post_mono (ih _ _) ?_
      intro name d1 hn
      simp only [literal_post, Document.lexed_with_source] at hn
      exact key name d1 hn
    · intro _
      simp only [post_new_Node_lexed]
      exact key _ _ (by simp)
  · unfold parse_arguments
    simp only [literal_post]
    simp [post_ite]
    intro _ _
    refine post_mono (ih _ _) ?_
    intro a d1 ha
    simp only [literal_post, Document.lexed_with_source] at ha
    refine post_mono (ih _ _) ?_
    intro n d2 hn
    simp only [literal_post] at hn
    exact hn.1.trans ha
  · unfold parse_argument
    simp only [literal_post]
    simp [post_ite]
    refine ⟨?_, ?_⟩
    · intro _
      refine post_mono (ih _ _) ?_
      intro v d1 hv
      simp only [literal_post, Document.lexed_with_source] at hv
      exact hv.1
    · intro _
      refine post_mono (ih _ _) ?_
      intro v d1 hv
      simp only [literal_post] at hv
      exact hv.1
  · intro acc
    unfold parse_arguments_loop
    simp only [literal_post]
    simp [post_ite]
    intro _
    refine post_mono (ih _ _) ?_
    intro a d1 ha
    simp only [literal_post, Document.lexed_with_source] at ha
    refine post_mono (ih _ _) ?_
    intro n d2 hn
    simp only [literal_post, Node.push_back_type] at hn
    exact ⟨hn.1.trans ha, hn.2⟩

theorem step_literal_schemas (rec : Call → Parser Node)
    (ih : ∀ c d, (rec c).post d (fun n d1 => literal_post c d n d1)) (d : Document) :
    (parse_string rec).post d (fun n d1 => literal_post .parse_string d n d1) ∧
    (parse_value_schema rec).post d (fun n d1 => literal_post .parse_value_schema d n d1) ∧
    (parse_identifier_schema rec).post d
      (fun n d1 => literal_post .parse_identifier_schema d n d1) ∧
    (∀ str i acc, (parse_string_loop rec str i acc).post d
      (fun n d1 => literal_post (.parse_string_loop str i acc) d n d1)) ∧
    (∀ acc, (parse_value_schema_loop rec acc).post d
      (fun n d1 => literal_post (.parse_value_schema_loop acc) d n d1)) ∧
    (∀ id i acc, (parse_identifier_schema_loop rec id i acc).post d
      (fun n d1 => literal_post (.parse_identifier_schema_loop id i acc) d n d1)) := by
  refine ⟨?_, ?_, ?_, ?_, ?_, ?_⟩
  · unfold parse_string
    simp only [literal_post]
    simp [post_ite]
    split
    · simp [Node.literal_unmarked_leaf]
    · simp
      refine post_mono (ih _ _) ?_
      intro n d2 hn
      simp only [literal_post, Document.lexed_with_source] at hn
      exact ⟨hn.1, fun _ => Node.literal_unmarked_of_type (by rw [hn.2]; rfl)⟩
  · unfold parse_value_schema
    simp only [literal_post]
    simp [post_ite]
    refine post_mono (ih _ _) ?_
    intro n d2 hn
    simp only [literal_post] at hn
    exact ⟨hn.1, hn.2⟩
  · unfold parse_identifier_schema
    simp only [literal_post]
    simp [post_ite]
    split
    · simp
    · simp
      refine post_mono (ih _ _) ?_
      intro n d2 hn
      simp only [literal_post, Document.lexed_with_source] at hn
      exact hn.1
  · intro str i acc
    unfold parse_string_loop
    simp only [literal_post]
    have key : ∀ (schema : Node) (t : Token) (j : Nat) (d1 : Document),
        d1.source = d.source → schema.type = acc.type →
        (in_token t (rec .parse_list)).post d1 (fun a d2 =>
          (rec (.parse_string_loop str j (schema.push_back (a.set_should_eval true)))).post d2
            (fun n d3 => d3.source = d.source ∧ n.type = acc.type)) := by
      intro schema t j d1 hd1 ht
      rw [post_in_token]
      refine post_of_forall ?_
      intro a d2
      refine post_mono (ih _ _) ?_
      intro n d3 hn
      simp only [literal_post, Node.push_back_type] at hn
      exact ⟨hn.1.trans hd1, hn.2.trans ht⟩
    simp only [post_bind, post_ite, post_find_in_interval, post_pure]
    refine ⟨?_, ?_⟩
    · intro _
      split
      · simp only [post_bind, post_ite, post_pure, post_new_Node_token, post_find_in_interval]
        refine ⟨?_, ?_⟩
        · intro _
          split
          · rw [post_bind]
            exact key _ _ _ _ rfl rfl
          · simp
        · intro _
          split
          · rw [post_bind]
            exact key _ _ _ _ rfl rfl
          · simp
      · simp [post_ite]
    · intro _
      exact ⟨trivial, rfl⟩
  · intro acc
    unfold parse_value_schema_loop
    simp only [literal_post]
    have key : ∀ (c : Node) (d1 : Document), d1.source = d.source →
        (rec (.parse_value_schema_loop (acc.push_back c))).post d1
          (fun n d3 => d3.source = d.source ∧ n.type = acc.type) := by
      intro c d1 hd1
      refine post_mono (ih _ _) ?_
      intro n d3 hn
      simp only [literal_post, Node.push_back_type] at hn
      exact ⟨hn.1.trans hd1, hn.2⟩
    simp [post_ite]
    intro _
    refine ⟨?_, ?_⟩
    · intro _
      refine post_of_forall ?_
      intro a d2
      exact key a _ (by simp)
    · intro _
      repeat (first | exact key _ _ (by simp) | intro _ | constructor)
  · intro id i acc
    unfold parse_identifier_schema_loop
    simp only [literal_post]
    have key : ∀ (schema : Node) (t : Token) (j : Nat) (d1 : Document),
        d1.source = d.source → schema.type = acc.type →
        (in_token t (rec .parse_list)).post d1 (fun a d2 =>
          (rec (.parse_identifier_schema_loop id j
            (schema.push_back (a.set_should_eval true)))).post d2
            (fun n d3 => d3.source = d.source ∧ n.type = acc.type)) := by
      intro schema t j d1 hd1 ht
      rw [post_in_token]
      refine post_of_forall ?_
      intro a d2
      refine post_mono (ih _ _) ?_
      intro n d3 hn
      simp only [literal_post, Node.push_back_type] at hn
      exact ⟨hn.1.trans hd1, hn.2.trans ht⟩
    simp only [post_bind, post_ite, post_find_in_interval, post_pure]
    refine ⟨?_, ?_⟩
    · intro _
      split
      · simp only [post_bind, post_ite, post_pure, post_new_Node_token, post_find_in_interval]
        refine ⟨?_, ?_⟩
        · intro _
          split
          · rw [post_bind]
            exact key _ _ _ _ rfl rfl
          · simp
        · intro _
          split
          · rw [post_bind]
            exact key _ _ _ _ rfl rfl
          · simp
      · simp [post_ite]
    · intro _
      exact ⟨trivial, rfl⟩

theorem step_literal (rec : Call → Parser Node)
    (ih : ∀ c d, (rec c).post d (fun n d1 => literal_post c d n d1))
    (c : Call) (d : Document) :
    (step rec c).post d (fun n d1 => literal_post c d n d1) := by
  cases c
  case parse_list => exact (step_literal_lists rec ih d).1
  case parse_comma_list => exact (step_literal_lists rec ih d).2.1
  case parse_space_list => exact (step_literal_lists rec ih d).2.2.1
  case parse_comma_list_loop acc => exact (step_literal_lists rec ih d).2.2.2.1 acc
  case parse_space_list_loop acc => exact (step_literal_lists rec ih d).2.2.2.2 acc
  case parse_disjunction => exact (step_literal_connectives rec ih d).1
  case parse_conjunction => exact (step_literal_connectives rec ih d).2.1
  case parse_disjunction_loop acc => exact (step_literal_connectives rec ih d).2.2.1 acc
  case parse_conjunction_loop acc => exact (step_literal_connectives rec ih d).2.2.2 acc
  case parse_relation => exact (step_literal_algebra rec ih d).1
  case parse_expression => exact (step_literal_algebra rec ih d).2.1
  case parse_term => exact (step_literal_algebra rec ih d).2.2.1
  case parse_factor => exact (step_literal_algebra rec ih d).2.2.2.1
  case parse_expression_loop acc => exact (step_literal_algebra rec ih d).2.2.2.2.1 acc
  case parse_term_loop acc => exact (step_literal_algebra rec ih d).2.2.2.2.2 acc
  case parse_value => exact (step_literal_values rec ih d).1
  case parse_function_call => exact (step_literal_values rec ih d).2.1
  case parse_arguments => exact (step_literal_values rec ih d).2.2.1
  case parse_argument => exact (step_literal_values rec ih d).2.2.2.1
  case parse_arguments_loop acc => exact (step_literal_values rec ih d).2.2.2.2 acc
  case parse_string => exact (step_literal_schemas rec ih d).1
  case parse_value_schema => exact (step_literal_schemas rec ih d).2.1
  case parse_identifier_schema => exact (step_literal_schemas rec ih d).2.2.1
  case parse_string_loop str i acc => exact (step_literal_schemas rec ih d).2.2.2.1 str i acc
  case parse_value_schema_loop acc => exact (step_literal_schemas rec ih d).2.2.2.2.1 acc
  case parse_identifier_schema_loop id i acc =>
    exact (step_literal_schemas rec ih d).2.2.2.2.2 id i acc
  all_goals exact post_of_forall (fun _ _ => trivial)

/-- The value productions keep the buffer, and in a buffer without `(` the pure literal
trees they return have no flag set: `literal_post`, for every production. -/
theorem parse_literal (fuel : Nat) (c : Call) (d : Document) :
    (parse fuel c).post d (fun n d1 => literal_post c d n d1) := by
  induction fuel generalizing c d with
  | zero =>
    intro a d1 e
    cases e
  | succ n ih => exact step_literal (parse n) (fun c d => ih c d) c d

mutual

theorem Node.plain_of_nodes : (n : Node) → (∀ m ∈ n.nodes, m.type.literal = true) →
    n.plain = true
  | ⟨t, p, l, k, b, s, cs⟩, h => by
    simp only [Node.nodes, List.mem_cons, forall_eq_or_imp] at h
    simp only [Node.plain, Bool.and_eq_true]
    exact ⟨h.1, Node.plain_all_of_nodes cs h.2⟩

theorem Node.plain_all_of_nodes : (cs : List Node) →
    (∀ m ∈ Node.nodes_all cs, m.type.literal = true) → Node.plain_all cs = true
  | [], _ => by simp [Node.plain_all]
  | c :: cs, h => by
    simp only [Node.nodes_all, List.mem_append] at h
    simp only [Node.plain_all, Bool.and_eq_true]
    exact ⟨Node.plain_of_nodes c (fun m hm => h m (Or.inl hm)),
      Node.plain_all_of_nodes cs (fun m hm => h m (Or.inr hm))⟩
end

mutual

theorem Node.unmarked_nodes : (n : Node) → n.unmarked = true →
    ∀ m ∈ n.nodes, m.should_eval = false
  | ⟨t, p, l, k, b, s, cs⟩, h, m, hm => by
    simp only [Node.nodes, List.mem_cons] at hm
    simp only [Node.unmarked, Bool.and_eq_true, Bool.not_eq_true'] at h
    rcases hm with rfl | hm
    · exact h.1
    · exact Node.unmarked_all_nodes cs h.2 m hm

theorem Node.unmarked_all_nodes : (cs : List Node) → Node.unmarked_all cs = true →
    ∀ m ∈ Node.nodes_all cs, m.should_eval = false
  | [], _, m, hm => by
    simp [Node.nodes_all] at hm
  | c :: cs, h, m, hm => by
    simp only [Node.nodes_all, List.mem_append] at hm
    simp only [Node.unmarked_all, Bool.and_eq_true] at h
    rcases hm with hm | hm
    · exact Node.unmarked_nodes c h.1 m hm
    · exact Node.unmarked_all_nodes cs h.2 m hm
end

/-- C7, as written, fails at literal tokens that the productions read as operators or
operands.  At `1 +2;`, the number literals `1` and `+2` (the matcher `number` takes `+2`
whole), `parse_list` returns an `expression` with `should_eval = true` on the expression
and on both operands: a `+` before a number is lexed as the addition operator.  At `-b;`
the identifier `-b` gives a `unary_minus` node with the flag.  At `true- b;` the
identifier `true-` is read as the word `true` and a subtraction.  At `a and b;` the
identifier `and` is read as the connective, and the `conjunction` node has the flag.
Without one of `;` `}` `{` `)` after the last token there is no result: `a b` is a syntax
error. -/
theorem literal_tokens_counterexample :
    Prelexer.number "1 +2;".toList = some " +2;".toList ∧
    Prelexer.number "+2;".toList = some ";".toList ∧
    run 100 .parse_list "1 +2;" =
      .ok ⟨.expression, [], 1, Token.make, false, true,
        [(leaf .textual_number 0 1).set_should_eval true, leaf .add 2 3,
         (leaf .textual_number 3 4).set_should_eval true]⟩ ∧
    Prelexer.identifier "-b;".toList = some ";".toList ∧
    run 100 .parse_list "-b;" =
      .ok ⟨.unary_minus, [], 1, Token.make, false, true, [leaf .identifier 1 2]⟩ ∧
    Prelexer.identifier "true- b;".toList = some " b;".toList ∧
    run 100 .parse_list "true- b;" =
      .ok ⟨.expression, [], 1, Token.make, false, true,
        [⟨.boolean, [], 1, Token.make, true, true, []⟩, leaf .sub 4 5,
         (leaf .identifier 6 7).set_should_eval true]⟩ ∧
    Prelexer.identifier "and b;".toList = some " b;".toList ∧
    run 100 .parse_list "a and b;" =
      .ok ⟨.conjunction, [], 1, Token.make, false, true,
        [leaf .identifier 0 1, leaf .identifier 6 7]⟩ ∧
    run 100 .parse_list "a b" = .error (.syntax_error "error reading values" 1) := by
  decide!

/-! ### The `url(…)` form -/

theorem indexOf?_first (c : Char) (pre rest : List Char) (h : c ∉ pre) :
    (pre ++ c :: rest).indexOf? c = some pre.length := by
  induction pre with
  | nil => simp [List.indexOf?_cons]
  | cons x pre ih =>
    have hx : x ≠ c := fun e => h (by simp [e])
    have hp : c ∉ pre := fun e => h (by simp [e])
    simp [List.indexOf?_cons, hx, ih hp]

/-- The search `find_first< exactly<c> >`: the first `c` at or after the start. -/
theorem find_first_eq (c : Char) (src : List Char) (p : Nat) (pre rest : List Char)
    (hs : src.drop p = pre ++ c :: rest) (h : c ∉ pre) :
    find_first c src p = some (p + pre.length) := by
  unfold find_first
  rw [hs, indexOf?_first c pre rest h]

/-- C11, as written, fails at `url(a/$b)` and at `url( $a)`: the contents hold a variable
(after other text, after a space), and `parse_value` returns a `uri` leaf over them. -/
theorem parse_value_uri_counterexample :
    Prelexer.variable_ "$b);".toList = some ");".toList ∧
    run_cursor 100 .parse_value "url(a/$b);" = .ok (leaf .uri 4 8, 9) ∧
    Token.text "url(a/$b);".toList ⟨4, 8⟩ = "a/$b".toList ∧
    run_cursor 100 .parse_value "url( $a);" = .ok (leaf .uri 4 7, 8) ∧
    Token.text "url( $a);".toList ⟨4, 7⟩ = " $a".toList := by
  decide!

/-- A `lex` of one byte at the cursor moves the cursor by one. -/
theorem Document.position_after_byte (X : Document) (c : Char) (rest : List Char)
    (h : X.source.drop X.position = c :: rest) (hs : Prelexer.isspace c = false)
    (hc : c ≠ '/') :
    (X.lexed_with .spaces_and_comments (Prelexer.exactly c)).position = X.position + 1 := by
  have hXa : X.ahead = [c] ++ rest := by
    unfold Document.ahead
    rw [h]
    exact after_whitespace_self c rest hs hc
  have hXm : Prelexer.exactly c X.ahead = some rest := by
    rw [hXa]
    simp [Prelexer.exactly]
  obtain ⟨hp, -⟩ := X.lexed_with_literal [c] rest hXa (Prelexer.exactly c) hXm
  rw [hp, hXa]
  have hlen := congrArg List.length h
  simp only [List.length_drop, List.length_cons] at hlen
  unfold Document.offset
  simp only [List.singleton_append, List.length_cons, List.length_nil]
  omega

/-- C11, amended: at `url(` contents `)`, where the contents hold no `)`.  When a variable
starts the contents, directly after `url(`, `parse_value` goes on to
`parse_function_call`, and the node that it returns is a `function_call`, not a `uri`
leaf.  Otherwise, whatever the contents hold, it returns a `uri` leaf whose token is the
text between `url(` and the first `)`, and the cursor is after that `)`. -/
theorem parse_value_uri (d : Document) (contents rest : List Char)
    (ha : d.ahead = "url(".toList ++ (contents ++ ')' :: rest)) (hc : ')' ∉ contents) :
    ((Prelexer.variable_ (contents ++ ')' :: rest)).isSome = true →
      (∀ rec, parse_value rec d = rec .parse_function_call d) ∧
      ∀ fuel n d1, parse fuel .parse_value d = .ok (n, d1) → n.type = .function_call) ∧
    ((Prelexer.variable_ (contents ++ ')' :: rest)).isSome = false →
      ∀ rec, ∃ d1, parse_value rec d =
        .ok (⟨.uri, d.path, (d.lexed_with .spaces_and_comments Prelexer.uri_prefix).line,
              ⟨d.offset d.ahead + 4, d.offset d.ahead + 4 + contents.length⟩,
              false, false, []⟩, d1) ∧
        d1.position = d.offset d.ahead + 4 + contents.length + 1 ∧
        Token.text d.source
          ⟨d.offset d.ahead + 4, d.offset d.ahead + 4 + contents.length⟩ = contents) := by
  have hu : Prelexer.uri_prefix d.ahead = some (contents ++ ')' :: rest) := by
    rw [ha]
    exact (Prelexer.exactly_s_eq_some _ _ _).2 rfl
  have hsu : d.sees .spaces_and_comments Prelexer.uri_prefix = true := by
    rw [d.sees_ahead, hu]
    rfl
  constructor
  · intro hv
    have hseq : d.sees .spaces_and_comments
        (Prelexer.sequence [Prelexer.uri_prefix, Prelexer.variable_]) = true := by
      rw [d.sees_ahead]
      simp only [Prelexer.sequence, hu]
      cases hx : Prelexer.variable_ (contents ++ ')' :: rest) with
      | none => rw [hx] at hv; cases hv
      | some r => rfl
    have hf : d.sees .spaces_and_comments Prelexer.functional = true := by
      rw [d.sees_ahead, ha]
      rfl
    have heq : ∀ rec, parse_value rec d = rec .parse_function_call d := by
      intro rec
      unfold parse_value
      simp [bind_apply, peek_apply, hsu, hseq, hf]
    refine ⟨heq, ?_⟩
    intro fuel n d1 h
    cases fuel with
    | zero => cases h
    | succ fuel =>
      have h1 : parse fuel .parse_function_call d = .ok (n, d1) := by
        rw [← heq (parse fuel)]
        exact h
      have hp := parse_literal fuel .parse_function_call d n d1 h1
      simp only [literal_post] at hp
      exact hp.2
  · intro hv
    intro rec
    have hseq : d.sees .spaces_and_comments
        (Prelexer.sequence [Prelexer.uri_prefix, Prelexer.variable_]) = false := by
      rw [d.sees_ahead]
      simp only [Prelexer.sequence, hu]
      cases hx : Prelexer.variable_ (contents ++ ')' :: rest) with
      | none => rfl
      | some r => rw [hx] at hv; cases hv
    obtain ⟨hpos, hlexed, hsrc, hpath, htext⟩ :=
      d.lexed_with_literal "url(".toList (contents ++ ')' :: rest) ha Prelexer.uri_prefix hu
    have hsuf : "url(".toList ++ (contents ++ ')' :: rest) <:+ d.source := by
      rw [← ha]
      exact d.skipped_suffix .spaces_and_comments
    have hdrop : d.source.drop (d.offset d.ahead + 4) = contents ++ ')' :: rest := by
      have h1 := d.offset_append "url(".toList (contents ++ ')' :: rest) hsuf
      rw [← ha] at h1
      have h2 := d.drop_offset (contents ++ ')' :: rest)
        ((List.suffix_append _ _).trans hsuf)
      rw [h1] at h2
      exact h2
    have hfind : find_first ')' d.source (d.offset d.ahead + 4) =
        some (d.offset d.ahead + 4 + contents.length) :=
      find_first_eq ')' d.source _ contents rest hdrop hc
    have hdrop2 : d.source.drop (d.offset d.ahead + 4 + contents.length) = ')' :: rest := by
      rw [← List.drop_drop, hdrop, List.drop_left]
    have hpos' : (d.lexed_with .spaces_and_comments Prelexer.uri_prefix).position =
        d.offset d.ahead + 4 := hpos
    unfold parse_value
    simp only [bind_apply, peek_apply, hsu, hseq, Bool.not_false, Bool.and_true, if_true, lex,
      lex_with_apply, get_position, find_first_here, hsrc, hpos', hfind, new_Node_token,
      set_position, pure_apply, hpath]
    refine ⟨_, rfl, ?_, ?_⟩
    · exact Document.position_after_byte _ ')' rest hdrop2 (by decide) (by decide)
    · have h := Token.text_of_drop d.source (d.offset d.ahead + 4) [] contents _ hdrop
      simpa using h

/-- C11, amended, at `url(a.png) b;`, and at `url($a);` where the variable comes first. -/
theorem parse_value_uri_witness :
    (∃ d1, parse_value (parse 10) (Document.of_string "url(a.png) b;") =
        .ok (leaf .uri 4 9, d1) ∧ d1.position = 10 ∧
      Token.text "url(a.png) b;".toList ⟨4, 9⟩ = "a.png".toList) ∧
    (∀ fuel n d1, parse fuel .parse_value (Document.of_string "url($a);") = .ok (n, d1) →
      n.type = .function_call) :=
  ⟨(parse_value_uri (Document.of_string "url(a.png) b;") "a.png".toList " b;".toList
      (by decide!) (by decide)).2 (by decide!) (parse 10),
   ((parse_value_uri (Document.of_string "url($a);") "$a".toList ";".toList
      (by decide!) (by decide)).1 (by decide!)).2⟩

/-! ### Strings -/

/-- The test for a backslash in `interpolant_start` is made at the byte where `#{` is then
matched, not at the byte before it: it never fails where `#{` matches. -/
theorem interpolant_start_eq (s : List Char) :
    interpolant_start s = Prelexer.exactly_s Prelexer.hash_lbrace s := by
  cases s with
  | nil => rfl
  | cons c rest =>
    by_cases hc : c = '\\'
    · subst hc
      rfl
    · simp only [interpolant_start, Prelexer.sequence, Prelexer.negate, Prelexer.exactly, hc,
        if_false]
      cases Prelexer.exactly_s Prelexer.hash_lbrace (c :: rest) <;> rfl

/-- C13 at the string `"a\#{b}c"`, whose only `#{` has a backslash before it: the scan
finds that `#{` (its test for the backslash looks at the `#`), and `parse_string` returns
a `string_schema` of the literal `"a\`, the interpolated `b` and the literal `c"`.  A
string without `#{`, such as `"abc"`, gives a `string_constant` leaf over the token. -/
theorem parse_string_escaped :
    (∀ s, interpolant_start s = Prelexer.exactly_s Prelexer.hash_lbrace s) ∧
    find_first_in_interval interpolant_start "\"a\\#{b}c\";".toList 0 9 = some 3 ∧
    run 100 .parse_string "\"a\\#{b}c\";" =
      .ok ⟨.string_schema, [], 1, Token.make, false, true,
        [leaf .identifier 0 3, (leaf .identifier 5 6).set_should_eval true,
         leaf .identifier 7 9]⟩ ∧
    run 100 .parse_string "\"abc\";" = .ok (leaf .string_constant 0 5) :=
  ⟨interpolant_start_eq, by decide!, by decide!, by decide!⟩

/-! ### Assignments -/

/-- C14: `parse_assignment`, when a `:` follows the variable and `parse_list` returns the
value `val`, returns an `assignment` node whose children are the variable leaf, `val`
and, exactly when `!default` comes next, a third child of kind `none`; and every node
that `parse_assignment` returns is of that form, so it has two or three children. -/
theorem parse_assignment_children (rec : Call → Parser Node) (d d3 : Document) (val : Node)
    (hcolon : (d.lexed_with .spaces_and_comments Prelexer.variable_).sees
      .spaces_and_comments (Prelexer.exactly ':') = true)
    (hval : rec .parse_list
      ((d.lexed_with .spaces_and_comments Prelexer.variable_).lexed_with
        .spaces_and_comments (Prelexer.exactly ':')) = .ok (val, d3)) :
    parse_assignment rec d =
      .ok (⟨.assignment, d3.path, d3.line, Token.make, false, false,
            [⟨.variable_, (d.lexed_with .spaces_and_comments Prelexer.variable_).path,
               (d.lexed_with .spaces_and_comments Prelexer.variable_).line,
               (d.lexed_with .spaces_and_comments Prelexer.variable_).lexed, false, false, []⟩,
             val] ++
            (if d3.sees .spaces_and_comments Prelexer.default_flag = true then
              [⟨.none, (d3.lexed_with .spaces_and_comments Prelexer.default_flag).path,
                (d3.lexed_with .spaces_and_comments Prelexer.default_flag).line,
                Token.make, false, false, []⟩]
            else [])⟩,
           d3.lexed_with .spaces_and_comments Prelexer.default_flag) ∧
    (∀ pre rest, d.ahead = pre ++ rest → Prelexer.variable_ d.ahead = some rest →
      Token.text d.source (d.lexed_with .spaces_and_comments Prelexer.variable_).lexed = pre) ∧
    (∀ n d1, parse_assignment rec d = .ok (n, d1) →
      n.type = .assignment ∧ 2 ≤ n.children.length ∧ n.children.length ≤ 3 ∧
      (n.children.length = 3 ↔
        d3.sees .spaces_and_comments Prelexer.default_flag = true) ∧
      ∀ c, n.children.get? 2 = some c → c.type = .none) := by
  have heq : parse_assignment rec d =
      .ok (⟨.assignment, d3.path, d3.line, Token.make, false, false,
            [⟨.variable_, (d.lexed_with .spaces_and_comments Prelexer.variable_).path,
               (d.lexed_with .spaces_and_comments Prelexer.variable_).line,
               (d.lexed_with .spaces_and_comments Prelexer.variable_).lexed, false, false, []⟩,
             val] ++
            (if d3.sees .spaces_and_comments Prelexer.default_flag = true then
              [⟨.none, (d3.lexed_with .spaces_and_comments Prelexer.default_flag).path,
                (d3.lexed_with .spaces_and_comments Prelexer.default_flag).line,
                Token.make, false, false, []⟩]
            else [])⟩,
           d3.lexed_with .spaces_and_comments Prelexer.default_flag) := by
    unfold parse_assignment
    simp only [bind_apply, lex, lex_with_apply, new_Node_lexed, hcolon, Bool.not_true,
      Bool.false_eq_true, if_false, hval, new_Node]
    by_cases hdf : d3.sees .spaces_and_comments Prelexer.default_flag = true
    · simp only [hdf, if_true, bind_apply, new_Node, pure_apply]
      rfl
    · simp only [hdf, if_false, Bool.false_eq_true, pure_apply]
      rfl
  refine ⟨heq, ?_, ?_⟩
  · intro pre rest ha hm
    have h := d.lexed_with_literal pre rest ha Prelexer.variable_ hm
    rw [h.2.1]
    exact h.2.2.2.2
  · intro n d1 h
    rw [heq] at h
    cases h
    by_cases hdf : d3.sees .spaces_and_comments Prelexer.default_flag = true
    · simp [hdf]
    · simp [hdf]

/-- C14, at `$a: 1 !default;`. -/
theorem parse_assignment_children_witness :
    parse_assignment (parse 20) (Document.of_string "$a: 1 !default;") =
      .ok (⟨.assignment, [], 1, Token.make, false, false,
            [leaf .variable_ 0 2, leaf .textual_number 4 5,
             ⟨.none, [], 1, Token.make, false, false, []⟩]⟩,
           { Document.of_string "$a: 1 !default;" with position := 14, lexed := ⟨6, 14⟩ }) :=
  (parse_assignment_children (parse 20) (Document.of_string "$a: 1 !default;")
    { Document.of_string "$a: 1 !default;" with position := 5, lexed := ⟨4, 5⟩ }
    (leaf .textual_number 4 5) (by decide!) (by decide!)).1

/-! ### Control directives -/

/-- C15: `parse_for_directive` at `@for $v from`, after the lower bound `lo` that
`parse_expression` returns.  When `through` follows, and then the upper bound `up`, a
`{` and the block `body`, the result is a `for_through_directive` with the four children
variable, `lo`, `up`, `body`; when `to` follows it is a `for_to_directive` with the same
four children; when neither follows it is a syntax error. -/
theorem parse_for_directive_children (rec : Call → Parser Node) (sr : Option Node)
    (io : NodeType) (d d4 : Document) (lo : Node)
    (hv : (d.lexed_with .spaces_and_comments Prelexer.for_directive).sees
      .spaces_and_comments Prelexer.variable_ = true)
    (hf : ((d.lexed_with .spaces_and_comments Prelexer.for_directive).lexed_with
      .spaces_and_comments Prelexer.variable_).sees .spaces_and_comments Prelexer.from_ = true)
    (hlo : rec .parse_expression
      (((d.lexed_with .spaces_and_comments Prelexer.for_directive).lexed_with
        .spaces_and_comments Prelexer.variable_).lexed_with
        .spaces_and_comments Prelexer.from_) = .ok (lo, d4)) :
    (d4.sees .spaces_and_comments Prelexer.through = true →
      ∀ up d6 body d7,
        rec .parse_expression (d4.lexed_with .spaces_and_comments Prelexer.through) =
          .ok (up, d6) →
        d6.sees .spaces_and_comments (Prelexer.exactly '{') = true →
        rec (.parse_block sr io) d6 = .ok (body, d7) →
        parse_for_directive rec sr io d =
          .ok (⟨.for_through_directive, d7.path,
                (d.lexed_with .spaces_and_comments Prelexer.for_directive).line,
                Token.make, false, false,
                [⟨.variable_, d.path,
                   ((d.lexed_with .spaces_and_comments Prelexer.for_directive).lexed_with
                     .spaces_and_comments Prelexer.variable_).line,
                   ((d.lexed_with .spaces_and_comments Prelexer.for_directive).lexed_with
                     .spaces_and_comments Prelexer.variable_).lexed, false, false, []⟩,
                 lo, up, body]⟩, d7)) ∧
    (d4.sees .spaces_and_comments Prelexer.through = false →
      d4.sees .spaces_and_comments Prelexer.to_ = true →
      ∀ up d6 body d7,
        rec .parse_expression (d4.lexed_with .spaces_and_comments Prelexer.to_) =
          .ok (up, d6) →
        d6.sees .spaces_and_comments (Prelexer.exactly '{') = true →
        rec (.parse_block sr io) d6 = .ok (body, d7) →
        parse_for_directive rec sr io d =
          .ok (⟨.for_to_directive, d7.path,
                (d.lexed_with .spaces_and_comments Prelexer.for_directive).line,
                Token.make, false, false,
                [⟨.variable_, d.path,
                   ((d.lexed_with .spaces_and_comments Prelexer.for_directive).lexed_with
                     .spaces_and_comments Prelexer.variable_).line,
                   ((d.lexed_with .spaces_and_comments Prelexer.for_directive).lexed_with
                     .spaces_and_comments Prelexer.variable_).lexed, false, false, []⟩,
                 lo, up, body]⟩, d7)) ∧
    (d4.sees .spaces_and_comments Prelexer.through = false →
      d4.sees .spaces_and_comments Prelexer.to_ = false →
      parse_for_directive rec sr io d =
        .error (.syntax_error "expected 'through' or 'to' keywod in @for directive"
          d4.line)) := by
  have hpath : ((d.lexed_with .spaces_and_comments Prelexer.for_directive).lexed_with
      .spaces_and_comments Prelexer.variable_).path = d.path := by
    simp only [Document.lexed_with]
    split <;> split <;> rfl
  refine ⟨?_, ?_, ?_⟩
  · intro ht up d6 body d7 hup hb hbody
    unfold parse_for_directive
    simp only [bind_apply, lex, lex_with_apply, get_line, hv, hf, Bool.not_true,
      Bool.false_eq_true, if_false, if_true, new_Node_lexed, hlo, ht, pure_apply, hup,
      peek_apply, hb, hbody, new_Node_at, hpath]
    rfl
  · intro ht hto up d6 body d7 hup hb hbody
    unfold parse_for_directive
    simp only [bind_apply, lex, lex_with_apply, get_line, hv, hf, Bool.not_true,
      Bool.false_eq_true, if_false, if_true, new_Node_lexed, hlo, ht, pure_apply,
      Document.lexed_with_of_not_sees ht, hto, hup, peek_apply, hb, hbody, new_Node_at, hpath]
    rfl
  · intro ht hto
    unfold parse_for_directive
    simp only [bind_apply, lex, lex_with_apply, get_line, hv, hf, Bool.not_true,
      Bool.false_eq_true, if_false, if_true, new_Node_lexed, hlo, ht, pure_apply,
      Document.lexed_with_of_not_sees ht, hto, Document.lexed_with_of_not_sees hto]
    rfl

/-- C15, at the scenario `@for $i from 1 through 3 { a { width: $i; } }`: the result is
for_through_directive[variable `$i`, number `1`, number `3`, block[ruleset]]. -/
theorem parse_for_directive_children_witness :
    parse_for_directive (parse 50) none .none
        (Document.of_string "@for $i from 1 through 3 { a { width: $i; } }") =
      .ok (inner .for_through_directive
            [leaf .variable_ 5 7, leaf .textual_number 13 14, leaf .textual_number 23 24,
             inner .block [inner .ruleset [leaf .simple_selector 27 28,
               inner .block [inner .rule [leaf .property 31 36,
                 (leaf .variable_ 38 40).set_should_eval true]]]]],
           { Document.of_string "@for $i from 1 through 3 { a { width: $i; } }" with
               position := 45, lexed := ⟨44, 45⟩ }) ∧
    Token.text "@for $i from 1 through 3 { a { width: $i; } }".toList ⟨5, 7⟩ = "$i".toList ∧
    Token.text "@for $i from 1 through 3 { a { width: $i; } }".toList ⟨13, 14⟩ = "1".toList ∧
    Token.text "@for $i from 1 through 3 { a { width: $i; } }".toList ⟨23, 24⟩ = "3".toList :=
  ⟨(parse_for_directive_children (parse 50) none .none
      (Document.of_string "@for $i from 1 through 3 { a { width: $i; } }")
      { Document.of_string "@for $i from 1 through 3 { a { width: $i; } }" with
          position := 14, lexed := ⟨13, 14⟩ }
      (leaf .textual_number 13 14) (by decide!) (by decide!) (by decide!)).1 (by decide!)
      (leaf .textual_number 23 24)
      { Document.of_string "@for $i from 1 through 3 { a { width: $i; } }" with
          position := 24, lexed := ⟨23, 24⟩ }
      (inner .block [inner .ruleset [leaf .simple_selector 27 28,
        inner .block [inner .rule [leaf .property 31 36,
          (leaf .variable_ 38 40).set_should_eval true]]]])
      { Document.of_string "@for $i from 1 through 3 { a { width: $i; } }" with
          position := 45, lexed := ⟨44, 45⟩ }
      (by decide!) (by decide!) (by decide!),
   by decide!, by decide!, by decide!⟩

theorem else_if_clauses_even (sr : Option Node) (io : NodeType) (d d3 : Document)
    (cs : List Node) (h : else_if_clauses sr io d cs d3) : ∃ k, cs.length = 2 * k := by
  induction h with
  | done d _ => exact ⟨0, rfl⟩
  | clause d d1 d2 d3 f1 f2 p b cs _ _ _ _ _ ih =>
    obtain ⟨k, hk⟩ := ih
    exact ⟨k + 1, by simp [hk]; omega⟩

/-- The loop of `parse_if_directive`: the node it returns is the node it carries with the
`@else if` clauses and the bare `@else` block, if there is one, added. -/
theorem parse_if_directive_loop_children (sr : Option Node) (io : NodeType) (fuel : Nat) :
    ∀ (acc : Node) (d : Document) (n : Node) (d1 : Document),
      parse fuel (.parse_if_directive_loop sr io acc) d = .ok (n, d1) →
      ∃ cs d3 alt, else_if_clauses sr io d cs d3 ∧ else_clause sr io d3 alt d1 ∧
        n = { acc with children := acc.children ++ (cs ++ alt) } := by
  induction fuel with
  | zero =>
    intro acc d n d1 h
    cases h
  | succ f ih =>
    intro acc d n d1 h
    have e : parse (f + 1) (.parse_if_directive_loop sr io acc) d =
        parse_if_directive_loop (parse f) sr io acc d := rfl
    rw [e] at h
    revert h
    suffices hp : (parse_if_directive_loop (parse f) sr io acc).post d (fun n d1 =>
        ∃ cs d3 alt, else_if_clauses sr io d cs d3 ∧ else_clause sr io d3 alt d1 ∧
          n = { acc with children := acc.children ++ (cs ++ alt) }) from hp n d1
    unfold parse_if_directive_loop
    simp only [post_bind, post_lex, post_ite, post_pure, post_throw]
    refine ⟨?_, ?_⟩
    · intro hs
      refine post_mono (post_self _ _) ?_
      intro p d2 hp
      simp only [Bool.not_eq_true', post_ite, post_throw, post_bind, post_lex]
      refine ⟨fun _ => trivial, ?_⟩
      intro hb
      simp only [Bool.not_eq_false] at hb
      refine post_mono (post_self _ _) ?_
      intro b d4 hb4
      intro n d5 h5
      obtain ⟨cs, d3, alt, hcs, halt, hn⟩ := ih _ _ _ _ h5
      refine ⟨p :: b :: cs, d3, alt, ?_, halt, ?_⟩
      · exact else_if_clauses.clause d d2 d4 d3 f f p b cs hs hp hb hb4 hcs
      · rw [hn]
        simp [Node.push_back]
    · intro hs
      simp only [Bool.not_eq_true] at hs
      rw [Document.lexed_with_of_not_sees hs]
      refine ⟨?_, ?_⟩
      · intro he
        simp only [Bool.not_eq_true', post_ite, post_throw, post_bind, post_lex, post_pure]
        refine ⟨fun _ => trivial, ?_⟩
        intro hb
        simp only [Bool.not_eq_false] at hb
        refine post_mono (post_self _ _) ?_
        intro b d4 hb4
        refine ⟨[], d, [b], else_if_clauses.done d hs, Or.inl ⟨he, hb, f, b, hb4, rfl⟩, ?_⟩
        simp [Node.push_back]
      · intro he
        simp only [Bool.not_eq_true] at he
        rw [Document.lexed_with_of_not_sees he]
        refine ⟨[], d, [], else_if_clauses.done d hs, Or.inr ⟨he, rfl, rfl⟩, ?_⟩
        cases acc
        simp

/-- C16: the node that `parse_if_directive` returns is an `if_directive` whose children
are the predicate and the block of the `@if`, then the predicate and the block of each
`@else if` clause in the order of the text, then the block of the bare `@else` when there
is one: with `k` clauses `2 (k + 1)` children, and one more exactly when `@else` comes
after the last clause. -/
theorem parse_if_directive_children (fuel : Nat) (sr : Option Node) (io : NodeType)
    (d d1 : Document) (n : Node)
    (h : parse fuel (.parse_if_directive sr io) d = .ok (n, d1)) :
    ∃ f p0 dp b0 db cs d3 alt k,
      parse f .parse_list (d.lexed_with .spaces_and_comments Prelexer.if_directive) =
        .ok (p0, dp) ∧
      dp.sees .spaces_and_comments (Prelexer.exactly '{') = true ∧
      parse f (.parse_block sr io)
        (dp.lexed_with .spaces_and_comments (Prelexer.exactly '{')) = .ok (b0, db) ∧
      else_if_clauses sr io db cs d3 ∧ cs.length = 2 * k ∧
      else_clause sr io d3 alt d1 ∧
      n.type = .if_directive ∧ n.children = p0 :: b0 :: (cs ++ alt) ∧
      n.children.length = 2 * (k + 1) + alt.length ∧
      (alt.length = 1 ↔ d3.sees .spaces_and_comments Prelexer.else_directive = true) ∧
      alt.length ≤ 1 := by
  cases fuel with
  | zero => cases h
  | succ f =>
    have e : parse (f + 1) (.parse_if_directive sr io) d =
        parse_if_directive (parse f) sr io d := rfl
    rw [e] at h
    revert h
    suffices hp : (parse_if_directive (parse f) sr io).post d (fun n d1 =>
        ∃ f p0 dp b0 db cs d3 alt k,
          parse f .parse_list (d.lexed_with .spaces_and_comments Prelexer.if_directive) =
            .ok (p0, dp) ∧
          dp.sees .spaces_and_comments (Prelexer.exactly '{') = true ∧
          parse f (.parse_block sr io)
            (dp.lexed_with .spaces_and_comments (Prelexer.exactly '{')) = .ok (b0, db) ∧
          else_if_clauses sr io db cs d3 ∧ cs.length = 2 * k ∧
          else_clause sr io d3 alt d1 ∧
          n.type = .if_directive ∧ n.children = p0 :: b0 :: (cs ++ alt) ∧
          n.children.length = 2 * (k + 1) + alt.length ∧
          (alt.length = 1 ↔ d3.sees .spaces_and_comments Prelexer.else_directive = true) ∧
          alt.length ≤ 1) from hp n d1
    unfold parse_if_directive
    simp only [post_bind, post_lex, post_new_Node]
    refine post_mono (post_self _ _) ?_
    intro p0 dp hp0
    simp only [Bool.not_eq_true', post_ite, post_throw, post_bind, post_lex]
    refine ⟨fun _ => trivial, ?_⟩
    intro hb
    simp only [Bool.not_eq_false] at hb
    refine post_mono (post_self _ _) ?_
    intro b0 db hb0
    intro n d5 h5
    obtain ⟨cs, d3, alt, hcs, halt, hn⟩ := parse_if_directive_loop_children sr io f _ _ _ _ h5
    obtain ⟨k, hk⟩ := else_if_clauses_even sr io db d3 cs hcs
    have halt2 : (alt.length = 1 ↔
        d3.sees .spaces_and_comments Prelexer.else_directive = true) ∧ alt.length ≤ 1 := by
      rcases halt with ⟨he, -, f2, b, -, rfl⟩ | ⟨he, rfl, -⟩
      · simp [he]
      · simp [he]
    refine ⟨f, p0, dp, b0, db, cs, d3, alt, k, hp0, hb, hb0, hcs, hk, halt, ?_, ?_, ?_,
      halt2.1, halt2.2⟩
    · rw [hn]
      rfl
    · rw [hn]
      simp [Node.push_back]
    · rw [hn]
      simp [Node.push_back, hk]
      omega

/-- C16, at `@if $a { } @else if $b { } @else { }`. -/
theorem parse_if_directive_children_witness :
    ∃ f p0 dp b0 db cs d3 alt k,
      parse f .parse_list ((Document.of_string "@if $a { } @else if $b { } @else { }").lexed_with
        .spaces_and_comments Prelexer.if_directive) = .ok (p0, dp) ∧
      dp.sees .spaces_and_comments (Prelexer.exactly '{') = true ∧
      parse f (.parse_block none .none)
        (dp.lexed_with .spaces_and_comments (Prelexer.exactly '{')) = .ok (b0, db) ∧
      else_if_clauses none .none db cs d3 ∧ cs.length = 2 * k ∧
      else_clause none .none d3 alt
        { Document.of_string "@if $a { } @else if $b { } @else { }" with
            position := 36, lexed := ⟨35, 36⟩ } ∧
      (inner .if_directive
        [(leaf .variable_ 4 6).set_should_eval true, inner .block [],
         (leaf .variable_ 20 22).set_should_eval true, inner .block [],
         inner .block []]).type = .if_directive ∧
      (inner .if_directive
        [(leaf .variable_ 4 6).set_should_eval true, inner .block [],
         (leaf .variable_ 20 22).set_should_eval true, inner .block [],
         inner .block []]).children = p0 :: b0 :: (cs ++ alt) ∧
      (inner .if_directive
        [(leaf .variable_ 4 6).set_should_eval true, inner .block [],
         (leaf .variable_ 20 22).set_should_eval true, inner .block [],
         inner .block []]).children.length = 2 * (k + 1) + alt.length ∧
      (alt.length = 1 ↔ d3.sees .spaces_and_comments Prelexer.else_directive = true) ∧
      alt.length ≤ 1 :=
  parse_if_directive_children 50 none .none
    (Document.of_string "@if $a { } @else if $b { } @else { }") _ _ (by decide!)

/-! ### Selectors -/

/-- At a `)` the loop of `parse_selector` does not stop: it asks for one more simple
selector sequence, and none starts with `)`. -/
theorem parse_selector_loop_rparen (f : Nat) (acc : Node) (d : Document) (rest : List Char)
    (ha : d.ahead = ')' :: rest) :
    parse (f + 3) (.parse_selector_loop acc) d =
      .error (.syntax_error "invalid selector" d.line) := by
  have m : ∀ mx : Prelexer.prelexer, mx (')' :: rest) = none → mx d.ahead = none := by
    intro mx h
    rw [ha]
    exact h
  have s : ∀ mx : Prelexer.prelexer, mx (')' :: rest) = none →
      d.sees .spaces_and_comments mx = false := by
    intro mx h
    rw [d.sees_ahead, m mx h]
    rfl
  have h1 : parse (f + 1) .parse_simple_selector d =
      .error (.syntax_error "invalid selector" d.line) := by
    have e : parse (f + 1) .parse_simple_selector d = parse_simple_selector (parse f) d := rfl
    rw [e]
    unfold parse_simple_selector or_else
    simp only [bind_apply, lex_miss d _ (m Prelexer.id_name rfl),
      lex_miss d _ (m Prelexer.class_name rfl), peek_miss d _ (m (Prelexer.exactly ':') rfl),
      peek_miss d _ (m (Prelexer.exactly '[') rfl), Bool.false_eq_true, if_false]
    rfl
  have h2 : parse (f + 2) .parse_simple_selector_sequence d =
      .error (.syntax_error "invalid selector" d.line) := by
    have e : parse (f + 2) .parse_simple_selector_sequence d =
        parse_simple_selector_sequence (parse (f + 1)) d := rfl
    rw [e]
    unfold parse_simple_selector_sequence or_else
    simp only [bind_apply, lex_miss d _ (m (Prelexer.exactly '+') rfl),
      lex_miss d _ (m (Prelexer.exactly '~') rfl), lex_miss d _ (m (Prelexer.exactly '>') rfl),
      lex_miss d _ (m (Prelexer.exactly '&') rfl),
      lex_miss d _ (m (Prelexer.alternatives [Prelexer.type_selector, Prelexer.universal]) rfl),
      Bool.false_eq_true, if_false, h1]
  have e : parse (f + 3) (.parse_selector_loop acc) d =
      parse_selector_loop (parse (f + 2)) acc d := rfl
  rw [e]
  unfold parse_selector_loop
  simp only [bind_apply, peek_miss d _ (m (Prelexer.exactly '{') rfl),
    peek_miss d _ (m (Prelexer.exactly ',') rfl), Bool.not_false, Bool.and_self, if_true, h2]

/-- C17 at `:not(a b)`: the selector `a b` is made of two sequences, and `parse_pseudo`
raises a syntax error, because the loop of `parse_selector` stops at `{` and at `,` only
(at a `)` it always ends in that error); `:not(a)` and `:not(a, b)`, whose selectors are
single sequences, are accepted. -/
theorem parse_pseudo_not_sequences :
    (∀ (f : Nat) (acc : Node) (d : Document) (rest : List Char), d.ahead = ')' :: rest →
      parse (f + 3) (.parse_selector_loop acc) d =
        .error (.syntax_error "invalid selector" d.line)) ∧
    run 100 .parse_pseudo ":not(a b)" = .error (.syntax_error "invalid selector" 1) ∧
    run 100 .parse_pseudo ":not(a b) \x7b" = .error (.syntax_error "invalid selector" 1) ∧
    run 100 .parse_selector_group "a b \x7b" =
      .ok (inner .selector [leaf .simple_selector 0 1, leaf .simple_selector 2 3]) ∧
    run 100 .parse_pseudo ":not(a)" =
      .ok (inner .pseudo_negation [leaf .value 0 5, leaf .simple_selector 5 6]) ∧
    run 100 .parse_pseudo ":not(a, b)" =
      .ok (inner .pseudo_negation [leaf .value 0 5,
        inner .selector_group [leaf .simple_selector 5 6, leaf .simple_selector 8 9]]) :=
  ⟨parse_selector_loop_rparen, by decide!, by decide!, by decide!, by decide!, by decide!⟩

/-! ### Blocks -/

theorem lex_block_comment_apply (d : Document) :
    lex_block_comment d = .ok (d.sees .before_block_comment Prelexer.block_comment,
      d.lexed_with .before_block_comment Prelexer.block_comment) := by
  unfold lex_block_comment
  exact lex_with_apply _ _ d

/-- C18, as written, fails at a comment: in the body `{ /* c */ @return 1; }`, parsed with
`inside_of = function`, the block comment is accepted and becomes the first child of the
block. -/
theorem function_body_comment_counterexample :
    run 100 (.parse_block none .function) "{ /* c */ @return 1; }" =
      .ok (inner .block [leaf .comment 2 9,
        inner .return_directive [leaf .textual_number 18 19]]) ∧
    Token.text "{ /* c */ @return 1; }".toList ⟨2, 9⟩ = "/* c */".toList ∧
    run 100 .parse_scss "@function f() { /* c */ @return 1; }" =
      .ok (inner .root [inner .function [leaf .identifier 10 11, inner .parameters [],
        inner .block [leaf .comment 16 23,
          inner .return_directive [leaf .textual_number 32 33]]]]) := by
  decide!

/-- C18, amended: a statement of a block parsed with `inside_of = function`, at a cursor
where no block comment is taken and none of a variable, `@if`, `@for`, `@each`, `@while`,
`@return`, `@warn` comes next, is a syntax error: the error of an `@import` in a
definition when `@import` comes next, the error that only variable declarations and
control directives are allowed inside functions in every other case (a declaration, a
ruleset, a namespaced property, `@include`, `@extend`, `@media`, another directive, a
stray `;`). -/
theorem function_body_statement (rec : Call → Parser Node) (sr : Option Node) (block : Node)
    (d : Document)
    (hc : d.sees .before_block_comment Prelexer.block_comment = false)
    (hvar : d.sees .spaces_and_comments Prelexer.variable_ = false)
    (hif : d.sees .spaces_and_comments Prelexer.if_directive = false)
    (hfor : d.sees .spaces_and_comments Prelexer.for_directive = false)
    (heach : d.sees .spaces_and_comments Prelexer.each_directive = false)
    (hwhile : d.sees .spaces_and_comments Prelexer.while_directive = false)
    (hret : d.sees .spaces_and_comments Prelexer.return_directive = false)
    (hwarn : d.sees .spaces_and_comments Prelexer.warn = false) :
    (d.sees .spaces_and_comments Prelexer.import_ = true →
      parse_block_statement rec sr .function block d = .error (.syntax_error
        "@import directive not allowed inside definition of mixin or function"
        (d.lexed_with .spaces_and_comments Prelexer.import_).line)) ∧
    (d.sees .spaces_and_comments Prelexer.import_ = false →
      parse_block_statement rec sr .function block d = .error (.syntax_error
        "only variable declarations and control directives are allowed inside functions"
        d.line)) := by
  have hcl : d.lexed_with .before_block_comment Prelexer.block_comment = d :=
    Document.lexed_with_of_not_sees hc
  constructor
  · intro hi
    unfold parse_block_statement
    simp only [bind_apply, lex_block_comment_apply, hc, hcl, Bool.false_eq_true, if_false,
      peek_apply, hi, if_true, lex, lex_with_apply, decide_True, Bool.or_true]
    rfl
  · intro hi
    unfold parse_block_statement
    simp only [bind_apply, lex_block_comment_apply, hc, hcl, Bool.false_eq_true, if_false,
      peek_apply, hi, lex, lex_with_apply, hvar, Document.lexed_with_of_not_sees hvar, hif,
      hfor, heach, hwhile, hret, Document.lexed_with_of_not_sees hret, hwarn, if_true]
    rfl

/-- C18, amended, at the declaration `a: b;`, and the same declaration in the block of an
`@if` and of a `@while` inside a function body. -/
theorem function_body_statement_witness :
    parse_block_statement (parse 10) none .function (inner .block [])
        (Document.of_string "a: b; \x7d") = .error (.syntax_error
      "only variable declarations and control directives are allowed inside functions" 1) ∧
    run 100 .parse_scss "@function f() { @if true { a: b; } }" = .error (.syntax_error
      "only variable declarations and control directives are allowed inside functions" 1) ∧
    run 100 .parse_scss "@function f() { @while true { @each $i in a { b { c: d; } } } }" =
      .error (.syntax_error
      "only variable declarations and control directives are allowed inside functions" 1) :=
  ⟨(function_body_statement (parse 10) none (inner .block []) (Document.of_string "a: b; \x7d")
      (by decide!) (by decide!) (by decide!) (by decide!) (by decide!) (by decide!)
      (by decide!) (by decide!)).2 (by decide!),
   by decide!, by decide!⟩

/-- A statement of a block parsed inside a mixin or function definition, at `@import`: the
syntax error of an `@import` in a definition. -/
theorem parse_block_statement_import (rec : Call → Parser Node) (sr : Option Node)
    (io : NodeType) (block : Node) (d : Document) (hio : io = .mixin ∨ io = .function)
    (hc : d.sees .before_block_comment Prelexer.block_comment = false)
    (hi : d.sees .spaces_and_comments Prelexer.import_ = true) :
    parse_block_statement rec sr io block d = .error (.syntax_error
      "@import directive not allowed inside definition of mixin or function"
      (d.lexed_with .spaces_and_comments Prelexer.import_).line) := by
  have hcl : d.lexed_with .before_block_comment Prelexer.block_comment = d :=
    Document.lexed_with_of_not_sees hc
  have hb : (decide (io = .mixin) || decide (io = .function)) = true := by
    rcases hio with h | h <;> simp [h]
  unfold parse_block_statement
  simp only [bind_apply, lex_block_comment_apply, hc, hcl, Bool.false_eq_true, if_false,
    peek_apply, hi, if_true, lex, lex_with_apply, hb]
  rfl

/-- C19 at `@mixin m { a: b { @import "x"; } }`: the block after the declaration `a: b` is
parsed with `inside_of = none`, so the `@import` in it is carried out: the file `x` is
loaded and its ruleset becomes a child of that block (without the file the result is a
read error).  An `@import` directly in the body of the mixin, or in a ruleset, a control
directive or an `@media` block of the body, is the syntax error of an `@import` in a
definition. -/
theorem import_in_promoted_block :
    (∀ (rec : Call → Parser Node) (sr : Option Node) (io : NodeType) (block : Node)
      (d : Document), io = .mixin ∨ io = .function →
      d.sees .before_block_comment Prelexer.block_comment = false →
      d.sees .spaces_and_comments Prelexer.import_ = true →
      parse_block_statement rec sr io block d = .error (.syntax_error
        "@import directive not allowed inside definition of mixin or function"
        (d.lexed_with .spaces_and_comments Prelexer.import_).line)) ∧
    parse 100 .parse_scss (Document.make [("x".toList, "b { c: d; }".toList)] []
        "@mixin m \x7b a: b \x7b @import \"x\"; \x7d \x7d".toList) =
      .ok (inner .root [inner .mixin [leaf .identifier 7 8, inner .parameters [],
        inner .block [inner .propset [leaf .property 11 12,
          inner .block [inner .rule [leaf .property 0 0, leaf .identifier 14 15],
            ⟨.ruleset, "x".toList, 1, Token.make, false, false,
              [⟨.simple_selector, "x".toList, 1, ⟨0, 1⟩, false, false, []⟩,
               ⟨.block, "x".toList, 1, Token.make, false, false,
                 [⟨.rule, "x".toList, 1, Token.make, false, false,
                   [⟨.property, "x".toList, 1, ⟨4, 5⟩, false, false, []⟩,
                    ⟨.identifier, "x".toList, 1, ⟨7, 8⟩, false, false, []⟩]⟩]⟩]⟩]]]]],
        { Document.make [("x".toList, "b { c: d; }".toList)] []
            "@mixin m \x7b a: b \x7b @import \"x\"; \x7d \x7d".toList with
            position := 34, lexed := ⟨34, 34⟩ }) ∧
    run 100 .parse_scss "@mixin m \x7b a: b \x7b @import \"x\"; \x7d \x7d" = .error (.read_error "x".toList) ∧
    run 100 .parse_scss "@mixin m \x7b @import \"x\"; \x7d" = .error (.syntax_error
      "@import directive not allowed inside definition of mixin or function" 1) ∧
    run 100 .parse_scss "@mixin m \x7b a \x7b @import \"x\"; \x7d \x7d" = .error (.syntax_error
      "@import directive not allowed inside definition of mixin or function" 1) ∧
    run 100 .parse_scss "@mixin m \x7b @if true \x7b @import \"x\"; \x7d \x7d" = .error (.syntax_error
      "@import directive not allowed inside definition of mixin or function" 1) ∧
    run 100 .parse_scss "@mixin m \x7b @media screen \x7b @import \"x\"; \x7d \x7d" =
      .error (.syntax_error
      "@import directive not allowed inside definition of mixin or function" 1) :=
  ⟨parse_block_statement_import, by decide!, by decide!, by decide!, by decide!, by decide!,
    by decide!⟩

/-! ### `@extend` outside a ruleset -/

/-- The arbiter finds no selector at an `@`. -/
theorem lookahead_at_directive (d : Document) (rest : List Char)
    (h : d.ahead = '@' :: rest) : lookahead d = .ok (⟨none, false⟩, d) := by
  unfold Document.ahead at h
  have hl : lookahead_loop d (d.source.length + 1) d.position false = (d.position, false) := by
    unfold lookahead_loop peek_at
    rw [h]
    rfl
  unfold lookahead lookahead_for_selector
  simp only [hl]
  unfold peek_at
  rw [h]
  rfl

theorem find_first_from_some (mx : Prelexer.prelexer) :
    ∀ (l : List Char) (b e p : Nat), find_first_from mx l b e = some p →
      b ≤ p ∧ p < e ∧ p < b + l.length ∧ (mx (l.drop (p - b))).isSome = true ∧
      ∀ q, b ≤ q → q < p → mx (l.drop (q - b)) = none := by
  intro l
  induction l with
  | nil => intro b e p h; cases h
  | cons c rest ih =>
    intro b e p h
    unfold find_first_from at h
    by_cases hbe : b < e
    · rw [if_pos hbe] at h
      by_cases hm : (mx (c :: rest)).isSome = true
      · rw [if_pos hm] at h
        cases h
        refine ⟨le_refl _, hbe, by simp, by simpa using hm, ?_⟩
        intro q h1 h2
        omega
      · rw [if_neg hm] at h
        obtain ⟨h1, h2, h3, h4, h5⟩ := ih (b + 1) e p h
        have e1 : p - b = (p - (b + 1)) + 1 := by omega
        refine ⟨by omega, h2, by simp only [List.length_cons]; omega, ?_, ?_⟩
        · rw [e1, List.drop_succ_cons]
          exact h4
        · intro q hq1 hq2
          by_cases hqb : q = b
          · subst hqb
            simp only [Nat.sub_self, List.drop_zero]
            cases hx : mx (c :: rest) with
            | none => rfl
            | some r => rw [hx] at hm; exact absurd rfl hm
          · have e2 : q - b = (q - (b + 1)) + 1 := by omega
            rw [e2, List.drop_succ_cons]
            exact h5 q (by omega) hq2
    · rw [if_neg hbe] at h
      cases h

theorem find_first_from_none (mx : Prelexer.prelexer) :
    ∀ (l : List Char) (b e : Nat), find_first_from mx l b e = none →
      ∀ q, b ≤ q → q < e → q < b + l.length → mx (l.drop (q - b)) = none := by
  intro l
  induction l with
  | nil =>
    intro b e _ q h1 _ h3
    simp only [List.length_nil] at h3
    omega
  | cons c rest ih =>
    intro b e h q hq1 hq2 hq3
    unfold find_first_from at h
    by_cases hbe : b < e
    · rw [if_pos hbe] at h
      by_cases hm : (mx (c :: rest)).isSome = true
      · rw [if_pos hm] at h
        cases h
      · rw [if_neg hm] at h
        by_cases hqb : q = b
        · subst hqb
          simp only [Nat.sub_self, List.drop_zero]
          cases hx : mx (c :: rest) with
          | none => rfl
          | some r => rw [hx] at hm; exact absurd rfl hm
        · have e2 : q - b = (q - (b + 1)) + 1 := by omega
          rw [e2, List.drop_succ_cons]
          refine ih (b + 1) e h q (by omega) hq2 ?_
          simp only [List.length_cons] at hq3
          omega
    · omega

/-- A result of `find_first_in_interval` is the first position of the interval at which
the matcher matches. -/
theorem find_first_in_interval_some (mx : Prelexer.prelexer) (src : List Char)
    (b e p : Nat) (h : find_first_in_interval mx src b e = some p) :
    b ≤ p ∧ p < e ∧ p < src.length ∧ (mx (src.drop p)).isSome = true ∧
      ∀ q, b ≤ q → q < p → mx (src.drop q) = none := by
  obtain ⟨h1, h2, h3, h4, h5⟩ := find_first_from_some mx (src.drop b) b e p h
  simp only [List.length_drop] at h3
  refine ⟨h1, h2, by omega, ?_, ?_⟩
  · rw [List.drop_drop] at h4
    have e1 : b + (p - b) = p := by omega
    rw [e1] at h4
    exact h4
  · intro q hq1 hq2
    have := h5 q hq1 hq2
    rw [List.drop_drop] at this
    have e1 : b + (q - b) = q := by omega
    rw [e1] at this
    exact this

/-- When `find_first_in_interval` finds nothing, the matcher matches nowhere in the
interval. -/
theorem find_first_in_interval_none (mx : Prelexer.prelexer) (src : List Char)
    (b e : Nat) (h : find_first_in_interval mx src b e = none) :
    ∀ q, b ≤ q → q < e → q < src.length → mx (src.drop q) = none := by
  intro q hq1 hq2 hq3
  have := find_first_from_none mx (src.drop b) b e h q hq1 hq2
    (by simp only [List.length_drop]; omega)
  rw [List.drop_drop] at this
  have e1 : b + (q - b) = q := by omega
  rw [e1] at this
  exact this

/-- The first position of the interval at which the matcher matches is the result of
`find_first_in_interval`. -/
theorem find_first_in_interval_first (mx : Prelexer.prelexer) (src : List Char)
    (b e p : Nat) (h1 : b ≤ p) (h2 : p < e) (h3 : p < src.length)
    (h4 : (mx (src.drop p)).isSome = true)
    (h5 : ∀ q, b ≤ q → q < p → mx (src.drop q) = none) :
    find_first_in_interval mx src b e = some p := by
  cases hf : find_first_in_interval mx src b e with
  | none =>
    have := find_first_in_interval_none mx src b e hf p h1 h2 h3
    rw [this] at h4
    cases h4
  | some r =>
    obtain ⟨k1, k2, k3, k4, k5⟩ := find_first_in_interval_some mx src b e r hf
    rcases Nat.lt_trichotomy r p with hlt | heq | hgt
    · rw [h5 r k1 hlt] at k4
      cases k4
    · rw [heq]
    · rw [k5 p h1 hgt] at h4
      cases h4

/-- When the matcher matches nowhere in the interval, `find_first_in_interval` finds
nothing. -/
theorem find_first_in_interval_missing (mx : Prelexer.prelexer) (src : List Char)
    (b e : Nat) (h : ∀ q, b ≤ q → q < e → q < src.length → mx (src.drop q) = none) :
    find_first_in_interval mx src b e = none := by
  cases hf : find_first_in_interval mx src b e with
  | none => rfl
  | some r =>
    obtain ⟨k1, k2, k3, k4, _⟩ := find_first_in_interval_some mx src b e r hf
    rw [h r k1 k2 k3] at k4
    cases k4

theorem exactly_s_hash_lbrace (s : List Char) :
    (Prelexer.exactly_s Prelexer.hash_lbrace s).isSome = true ↔
      ∃ rest, s = '#' :: '{' :: rest := by
  constructor
  · intro h
    cases s with
    | nil => cases h
    | cons c r =>
      by_cases hc : c = '#'
      · subst hc
        cases r with
        | nil => cases h
        | cons c2 r2 =>
          by_cases hc2 : c2 = '{'
          · subst hc2
            exact ⟨r2, rfl⟩
          · simp [Prelexer.hash_lbrace, Prelexer.exactly_s, hc2] at h
      · simp [Prelexer.hash_lbrace, Prelexer.exactly_s, hc] at h
  · rintro ⟨rest, rfl⟩
    rfl

theorem interpolant_start_opens (src : List Char) (q : Nat) :
    (interpolant_start (src.drop q)).isSome = opens_interpolant src q := by
  rw [interpolant_start_eq]
  unfold opens_interpolant
  split
  · next rest h => rw [h]; rfl
  · next h =>
    cases hx : (Prelexer.exactly_s Prelexer.hash_lbrace (src.drop q)).isSome with
    | false => rfl
    | true =>
      obtain ⟨rest, hr⟩ := (exactly_s_hash_lbrace _).1 hx
      exact absurd hr (h rest)

theorem rbrace_closes (src : List Char) (q : Nat) :
    (Prelexer.exactly_s Prelexer.rbrace (src.drop q)).isSome = closes_interpolant src q := by
  unfold closes_interpolant
  split
  · next rest h => rw [h]; rfl
  · next h =>
    cases hs : src.drop q with
    | nil => rfl
    | cons c r =>
      by_cases hc : c = '}'
      · subst hc
        exact absurd hs (h r)
      · simp [Prelexer.rbrace, Prelexer.exactly_s, hc]

theorem opens_interpolant_text (src : List Char) (q : Nat)
    (h : opens_interpolant src q = true) : ∃ rest, src.drop q = '#' :: '{' :: rest := by
  unfold opens_interpolant at h
  split at h
  · next rest hr => exact ⟨rest, hr⟩
  · cases h

theorem closes_interpolant_text (src : List Char) (q : Nat)
    (h : closes_interpolant src q = true) : ∃ rest, src.drop q = '}' :: rest := by
  unfold closes_interpolant at h
  split at h
  · next rest hr => exact ⟨rest, hr⟩
  · cases h

theorem lt_length_of_drop {src : List Char} {q : Nat} {c : Char} {rest : List Char}
    (h : src.drop q = c :: rest) : q < src.length := by
  by_contra hn
  rw [List.drop_eq_nil_of_le (by omega)] at h
  cases h

/-- The first `#{` of an interval, as the scan of `parse_string` finds it. -/
theorem find_interpolant_some (src : List Char) (b e p : Nat) :
    find_first_in_interval interpolant_start src b e = some p ↔
      b ≤ p ∧ p < e ∧ opens_interpolant src p = true ∧
      ∀ q, b ≤ q → q < p → opens_interpolant src q = false := by
  constructor
  · intro h
    obtain ⟨h1, h2, _, h4, h5⟩ := find_first_in_interval_some _ _ _ _ _ h
    refine ⟨h1, h2, by rw [← interpolant_start_opens]; exact h4, ?_⟩
    intro q hq1 hq2
    rw [← interpolant_start_opens, h5 q hq1 hq2]
    rfl
  · rintro ⟨h1, h2, h3, h4⟩
    obtain ⟨rest, hr⟩ := opens_interpolant_text src p h3
    refine find_first_in_interval_first _ _ _ _ _ h1 h2 (lt_length_of_drop hr)
      (by rw [interpolant_start_opens]; exact h3) ?_
    intro q hq1 hq2
    have := h4 q hq1 hq2
    rw [← interpolant_start_opens] at this
    cases hx : interpolant_start (src.drop q) with
    | none => rfl
    | some r => rw [hx] at this; cases this

/-- An interval without `#{`, as the scan of `parse_string` finds it. -/
theorem find_interpolant_none (src : List Char) (b e : Nat) :
    find_first_in_interval interpolant_start src b e = none ↔
      ∀ q, b ≤ q → q < e → opens_interpolant src q = false := by
  constructor
  · intro h q hq1 hq2
    by_cases hl : q < src.length
    · rw [← interpolant_start_opens, find_first_in_interval_none _ _ _ _ h q hq1 hq2 hl]
      rfl
    · unfold opens_interpolant
      rw [List.drop_eq_nil_of_le (by omega)]
  · intro h
    refine find_first_in_interval_missing _ _ _ _ ?_
    intro q hq1 hq2 _
    have := h q hq1 hq2
    rw [← interpolant_start_opens] at this
    cases hx : interpolant_start (src.drop q) with
    | none => rfl
    | some r => rw [hx] at this; cases this

/-- The first `}` of an interval, as the scan of `parse_string` finds it. -/
theorem find_rbrace_some (src : List Char) (b e j : Nat) :
    find_first_in_interval (Prelexer.exactly_s Prelexer.rbrace) src b e = some j ↔
      b ≤ j ∧ j < e ∧ closes_interpolant src j = true ∧
      ∀ q, b ≤ q → q < j → closes_interpolant src q = false := by
  constructor
  · intro h
    obtain ⟨h1, h2, _, h4, h5⟩ := find_first_in_interval_some _ _ _ _ _ h
    refine ⟨h1, h2, by rw [← rbrace_closes]; exact h4, ?_⟩
    intro q hq1 hq2
    rw [← rbrace_closes, h5 q hq1 hq2]
    rfl
  · rintro ⟨h1, h2, h3, h4⟩
    obtain ⟨rest, hr⟩ := closes_interpolant_text src j h3
    refine find_first_in_interval_first _ _ _ _ _ h1 h2 (lt_length_of_drop hr)
      (by rw [rbrace_closes]; exact h3) ?_
    intro q hq1 hq2
    have := h4 q hq1 hq2
    rw [← rbrace_closes] at this
    cases hx : Prelexer.exactly_s Prelexer.rbrace (src.drop q) with
    | none => rfl
    | some r => rw [hx] at this; cases this

/-- One turn of the loop of `parse_string`. -/
theorem parse_string_loop_turn (n : Nat) (str : Token) (i : Nat) (acc : Node)
    (d : Document) :
    parse (n + 1) (.parse_string_loop str i acc) d =
      if i < str.end_ then
        match find_first_in_interval interpolant_start d.source i str.end_ with
        | some p =>
          match find_first_in_interval (Prelexer.exactly_s Prelexer.rbrace) d.source p
              str.end_ with
          | some j =>
            match parse n .parse_list
                { d with position := p + 2, end_ := j, lexed := Token.make } with
            | .ok (a, d0) =>
              parse n (.parse_string_loop str (j + 1)
                ((if i < p then
                    acc.push_back ⟨.identifier, d.path, d.line, ⟨i, p⟩, false, false, []⟩
                  else acc).push_back (a.set_should_eval true)))
                { d with context := d0.context }
            | .error e => .error e
          | none =>
            .error (.syntax_error "unterminated interpolant inside string constant" d.line)
        | none =>
          .ok ((acc.push_back
            ⟨.identifier, d.path, d.line, ⟨i, str.end_⟩, false, false, []⟩).set_should_eval
              true, d)
      else .ok (acc.set_should_eval true, d) := by
  rw [parse_succ]
  show parse_string_loop (parse n) str i acc d = _
  unfold parse_string_loop
  by_cases hi : i < str.end_
  · simp only [hi, if_true, bind_apply, find_in_interval]
    cases find_first_in_interval interpolant_start d.source i str.end_ with
    | none => rfl
    | some p =>
      by_cases hp : i < p
      · simp only [hp, if_true, bind_apply, new_Node_token, pure_apply, find_in_interval]
        cases find_first_in_interval (Prelexer.exactly_s Prelexer.rbrace) d.source p
            str.end_ with
        | none => rfl
        | some j =>
          simp only [bind_apply, in_token]
          cases parse n .parse_list
              { d with position := p + 2, end_ := j, lexed := Token.make } with
          | error e => rfl
          | ok r => rfl
      · simp only [hp, if_false, bind_apply, pure_apply, find_in_interval]
        cases find_first_in_interval (Prelexer.exactly_s Prelexer.rbrace) d.source p
            str.end_ with
        | none => rfl
        | some j =>
          simp only [bind_apply, in_token]
          cases parse n .parse_list
              { d with position := p + 2, end_ := j, lexed := Token.make } with
          | error e => rfl
          | ok r => rfl
  · simp only [hi, if_false, pure_apply]

/-- The loop of `parse_string` returns the schema whose children are the children it
was given and then the children for the pieces of the rest of the string, when these
pieces are there (every `#{` is closed and `parse_list` returns on every interior). -/
theorem parse_string_loop_returns {e n : Nat} {d : Document} {i : Nat}
    {ps : List Schema_Piece} {d1 : Document} (h : spec_string_pieces e n d i ps d1) :
    ∀ (str : Token) (acc : Node), str.end_ = e →
      parse n (.parse_string_loop str i acc) d =
        .ok ({ acc with
                children := acc.children ++ ps.map (Schema_Piece.child d.path d.line)
                should_eval := true }, d1) := by
  induction h with
  | done fuel d i hi =>
    intro str acc he
    subst he
    rw [parse_string_loop_turn, if_neg (by omega)]
    simp [Node.set_should_eval]
  | last fuel d i hi hno =>
    intro str acc he
    subst he
    rw [parse_string_loop_turn, if_pos hi, (find_interpolant_none d.source i str.end_).2 hno]
    simp [Node.set_should_eval, Node.push_back, Schema_Piece.child]
  | interpolant fuel d i p j a d0 ps d1 h1 h2 h3 h4 h5 h6 h7 h8 hparse _ ih =>
    intro str acc he
    subst he
    rw [parse_string_loop_turn, if_pos (by omega),
      (find_interpolant_some d.source i str.end_ p).2 ⟨h1, h2, h3, h4⟩]
    simp only []
    rw [(find_rbrace_some d.source p str.end_ j).2 ⟨h5, h6, h7, h8⟩]
    simp only []
    rw [hparse]
    simp only []
    rw [ih str _ rfl]
    by_cases hp : i < p
    · simp [hp, Node.set_should_eval, Node.push_back, Schema_Piece.child]
    · simp [hp, Node.set_should_eval, Node.push_back, Schema_Piece.child]

/-- Every schema that the loop of `parse_string` returns consists of the children it was
given and then the children for the pieces of the rest of the string. -/
theorem parse_string_loop_pieces : ∀ (n : Nat) (str : Token) (i : Nat) (acc : Node)
    (d : Document) (node : Node) (d1 : Document),
    parse n (.parse_string_loop str i acc) d = .ok (node, d1) →
      ∃ ps, spec_string_pieces str.end_ n d i ps d1 ∧
        node = { acc with
                  children := acc.children ++ ps.map (Schema_Piece.child d.path d.line)
                  should_eval := true } := by
  intro n
  induction n with
  | zero =>
    intro str i acc d node d1 h
    rw [parse_zero] at h
    cases h
  | succ n ih =>
    intro str i acc d node d1 h
    rw [parse_string_loop_turn] at h
    by_cases hi : i < str.end_
    · rw [if_pos hi] at h
      cases hf : find_first_in_interval interpolant_start d.source i str.end_ with
      | none =>
        rw [hf] at h
        simp only [Except.ok.injEq, Prod.mk.injEq] at h
        obtain ⟨hn, hd⟩ := h
        subst hd
        refine ⟨[.literal i str.end_],
          .last n d i hi ((find_interpolant_none _ _ _).1 hf), ?_⟩
        rw [← hn]
        simp [Node.set_should_eval, Node.push_back, Schema_Piece.child]
      | some p =>
        rw [hf] at h
        simp only [] at h
        obtain ⟨h1, h2, h3, h4⟩ := (find_interpolant_some _ _ _ _).1 hf
        cases hj : find_first_in_interval (Prelexer.exactly_s Prelexer.rbrace) d.source p
            str.end_ with
        | none =>
          rw [hj] at h
          cases h
        | some j =>
          rw [hj] at h
          simp only [] at h
          obtain ⟨h5, h6, h7, h8⟩ := (find_rbrace_some _ _ _ _).1 hj
          cases hl : parse n .parse_list
              { d with position := p + 2, end_ := j, lexed := Token.make } with
          | error e =>
            rw [hl] at h
            cases h
          | ok r =>
            obtain ⟨a, d0⟩ := r
            rw [hl] at h
            simp only [] at h
            obtain ⟨ps, hr, hn⟩ := ih _ _ _ _ _ _ h
            refine ⟨(if i < p then [.literal i p] else []) ++ .interpolant p j a :: ps,
              .interpolant n d i p j a d0 ps d1 h1 h2 h3 h4 h5 h6 h7 h8 hl hr, ?_⟩
            rw [hn]
            by_cases hp : i < p
            · simp [hp, Node.set_should_eval, Node.push_back, Schema_Piece.child]
            · simp [hp, Node.set_should_eval, Node.push_back, Schema_Piece.child]
    · rw [if_neg hi] at h
      simp only [Except.ok.injEq, Prod.mk.injEq] at h
      obtain ⟨hn, hd⟩ := h
      subst hd
      refine ⟨[], .done n d i (by omega), ?_⟩
      rw [← hn]
      simp [Node.set_should_eval]

theorem Token.text_split (src : List Char) (a b c : Nat) (h1 : a ≤ b) (h2 : b ≤ c) :
    Token.text src ⟨a, c⟩ = Token.text src ⟨a, b⟩ ++ Token.text src ⟨b, c⟩ := by
  unfold Token.text
  simp only []
  have e1 : c - a = (b - a) + (c - b) := by omega
  rw [e1, List.take_add, List.drop_drop]
  have e2 : a + (b - a) = b := by omega
  rw [e2]

/-- The text from a `#{` to a `}` after it is `#{`, the interior, `}`. -/
theorem Token.text_interpolant (src : List Char) (p j : Nat) (h : p ≤ j)
    (ho : opens_interpolant src p = true) (hc : closes_interpolant src j = true) :
    Token.text src ⟨p, j + 1⟩ = '#' :: '{' :: (Token.text src ⟨p + 2, j⟩ ++ ['}']) := by
  obtain ⟨r1, hr1⟩ := opens_interpolant_text src p ho
  obtain ⟨r2, hr2⟩ := closes_interpolant_text src j hc
  have hp1 : src.drop (p + 1) = '{' :: r1 := by
    have := congrArg (List.drop 1) hr1
    rw [List.drop_drop] at this
    exact this
  have hj : p + 2 ≤ j := by
    rcases Nat.lt_or_ge j (p + 2) with hlt | hge
    · have : j = p ∨ j = p + 1 := by omega
      rcases this with e | e
      · rw [e, hr1] at hr2
        cases hr2
      · rw [e, hp1] at hr2
        cases hr2
    · exact hge
  rw [Token.text_split src p (p + 2) (j + 1) (by omega) (by omega),
    Token.text_split src (p + 2) j (j + 1) hj (by omega)]
  have t1 : Token.text src ⟨p, p + 2⟩ = ['#', '{'] := by
    unfold Token.text
    simp only []
    rw [hr1]
    have : p + 2 - p = 2 := by omega
    rw [this]
    rfl
  have t2 : Token.text src ⟨j, j + 1⟩ = ['}'] := by
    unfold Token.text
    simp only []
    rw [hr2]
    have : j + 1 - j = 1 := by omega
    rw [this]
    rfl
  rw [t1, t2]
  rfl

/-- The pieces of a string tile its text: the texts of the pieces, a literal run as it
stands and an interpolant as `#{` + interior + `}`, concatenated in order, are the text
of the string. -/
theorem spec_string_pieces_text {e n : Nat} {d : Document} {i : Nat}
    {ps : List Schema_Piece} {d1 : Document} (h : spec_string_pieces e n d i ps d1) :
    i ≤ e → (ps.map (Schema_Piece.text d.source)).flatten = Token.text d.source ⟨i, e⟩ := by
  induction h with
  | done fuel d i hi =>
    intro hle
    have : i = e := by omega
    subst this
    simp [Token.text]
  | last fuel d i hi hno =>
    intro _
    simp [Schema_Piece.text]
  | interpolant fuel d i p j a d0 ps d1 h1 h2 h3 h4 h5 h6 h7 h8 hparse _ ih =>
    intro _
    have ih1 := ih (by omega)
    simp only [] at ih1
    rw [Token.text_split d.source i p e h1 (by omega),
      Token.text_split d.source p (j + 1) e (by omega) (by omega),
      Token.text_interpolant d.source p j h5 h3 h7, ← ih1]
    by_cases hp : i < p
    · simp [hp, Schema_Piece.text]
    · have : i = p := by omega
      subst this
      simp [Schema_Piece.text, Token.text]

/-- C12, as written, fails at a string without `#{`, where every `#{` of the token is
closed since there is none: for `"abc"`, `parse_string` returns a `string_constant` leaf
over the token, not a `string_schema` with an `identifier` child.  And in `"#{@}"` the
only `#{` is closed, but `parse_list` raises a syntax error on the interior `@`, and so
does `parse_string`. -/
theorem parse_string_constant_counterexample :
    Prelexer.string_constant "\"abc\";".toList = some ";".toList ∧
    find_first_in_interval interpolant_start "\"abc\";".toList 0 5 = none ∧
    run 100 .parse_string "\"abc\";" = .ok (leaf .string_constant 0 5) ∧
    Token.text "\"abc\";".toList ⟨0, 5⟩ = "\"abc\"".toList ∧
    Prelexer.string_constant "\"#\x7b@\x7d\";".toList = some ";".toList ∧
    run 100 .parse_string "\"#\x7b@\x7d\";" = .error (.syntax_error "error reading values" 1) := by
  decide!

/-- C12, amended: for a string token that contains `#{`, `parse_string` returns exactly
when the text of the token has the pieces of the contract (maximal non-empty literal
runs without `#{`, and interpolants, each from its `#{` to the first `}` after it inside
the token, on whose interior `parse_list` returns), and the node it returns is the
`string_schema`, marked for evaluation, whose children are, in the order of the text,
an `identifier` leaf over each literal run and the subtree of each interior, marked for
evaluation; the texts of the pieces, `#{` + interior + `}` for an interpolant,
concatenated in the order of the children, are the text of the token. -/
theorem parse_string_schema (fuel : Nat) (d : Document)
    (hi : ∃ q, (d.lexed_with .spaces_and_comments Prelexer.string_constant).lexed.begin ≤ q ∧
      q < (d.lexed_with .spaces_and_comments Prelexer.string_constant).lexed.end_ ∧
      opens_interpolant d.source q = true) :
    (∀ node d1, parse (fuel + 2) .parse_string d = .ok (node, d1) ↔
      ∃ ps, spec_string_pieces
          (d.lexed_with .spaces_and_comments Prelexer.string_constant).lexed.end_ (fuel + 1)
          (d.lexed_with .spaces_and_comments Prelexer.string_constant)
          (d.lexed_with .spaces_and_comments Prelexer.string_constant).lexed.begin ps d1 ∧
        node = ⟨.string_schema, d.path,
          (d.lexed_with .spaces_and_comments Prelexer.string_constant).line, Token.make,
          false, true, ps.map (Schema_Piece.child d.path
            (d.lexed_with .spaces_and_comments Prelexer.string_constant).line)⟩) ∧
    (∀ ps d1, spec_string_pieces
        (d.lexed_with .spaces_and_comments Prelexer.string_constant).lexed.end_ (fuel + 1)
        (d.lexed_with .spaces_and_comments Prelexer.string_constant)
        (d.lexed_with .spaces_and_comments Prelexer.string_constant).lexed.begin ps d1 →
      (ps.map (Schema_Piece.text d.source)).flatten =
        Token.text d.source
          (d.lexed_with .spaces_and_comments Prelexer.string_constant).lexed) := by
  obtain ⟨q, hq1, hq2, hq3⟩ := hi
  generalize hd : d.lexed_with .spaces_and_comments Prelexer.string_constant = d' at *
  have hsrc : d'.source = d.source := by rw [← hd]; exact Document.lexed_with_source _ _ _
  have hpath : d'.path = d.path := by
    rw [← hd]
    unfold Document.lexed_with
    split <;> rfl
  have hfind : ∃ p, find_first_in_interval interpolant_start d'.source d'.lexed.begin
      d'.lexed.end_ = some p := by
    cases hf : find_first_in_interval interpolant_start d'.source d'.lexed.begin
        d'.lexed.end_ with
    | some p => exact ⟨p, rfl⟩
    | none =>
      have := (find_interpolant_none _ _ _).1 hf q hq1 hq2
      rw [hsrc, hq3] at this
      cases this
  obtain ⟨p, hp⟩ := hfind
  have hstep : parse (fuel + 2) .parse_string d =
      parse (fuel + 1) (.parse_string_loop d'.lexed d'.lexed.begin
        ⟨.string_schema, d'.path, d'.line, Token.make, false, false, []⟩) d' := by
    rw [parse_succ]
    show parse_string (parse (fuel + 1)) d = _
    unfold parse_string
    simp only [bind_apply, lex, lex_with_apply, hd, get_lexed, find_in_interval, hp, new_Node]
  constructor
  · intro node d1
    rw [hstep]
    constructor
    · intro h
      obtain ⟨ps, hr, hn⟩ := parse_string_loop_pieces _ _ _ _ _ _ _ h
      refine ⟨ps, hr, ?_⟩
      rw [hn, hpath]
      simp
    · rintro ⟨ps, hr, hn⟩
      rw [parse_string_loop_returns hr d'.lexed _ rfl, hn, hpath]
      simp
  · intro ps d1 hr
    have := spec_string_pieces_text hr (by omega)
    rw [hsrc] at this
    exact this

/-- C12, amended, at the string `"a#{b}c"`: its pieces are the literal run `"a`, the
interpolant `#{b}` with the subtree of `b`, and the literal run `c"`; `parse_string`
returns the schema of the three children, and the texts of the pieces make up the
token. -/
theorem parse_string_schema_witness :
    spec_string_pieces 8 31
      ((Document.of_string "\"a#{b}c\";").lexed_with .spaces_and_comments
        Prelexer.string_constant) 0
      [.literal 0 2, .interpolant 2 5 (leaf .identifier 4 5), .literal 6 8]
      ((Document.of_string "\"a#{b}c\";").lexed_with .spaces_and_comments
        Prelexer.string_constant) ∧
    parse 32 .parse_string (Document.of_string "\"a#{b}c\";") =
      .ok (⟨.string_schema, [], 1, Token.make, false, true,
        [leaf .identifier 0 2, (leaf .identifier 4 5).set_should_eval true,
         leaf .identifier 6 8]⟩,
        (Document.of_string "\"a#{b}c\";").lexed_with .spaces_and_comments
          Prelexer.string_constant) ∧
    "\"a".toList ++ ("#\x7b".toList ++ "b".toList ++ "\x7d".toList) ++ "c\"".toList =
      Token.text "\"a#{b}c\";".toList ⟨0, 8⟩ := by
  have hr : spec_string_pieces 8 31
      ((Document.of_string "\"a#{b}c\";").lexed_with .spaces_and_comments
        Prelexer.string_constant) 0
      [.literal 0 2, .interpolant 2 5 (leaf .identifier 4 5), .literal 6 8]
      ((Document.of_string "\"a#{b}c\";").lexed_with .spaces_and_comments
        Prelexer.string_constant) := by
    refine .interpolant 30 _ 0 2 5 (leaf .identifier 4 5)
      { Document.of_string "\"a#{b}c\";" with position := 5, end_ := 5, lexed := ⟨4, 5⟩ }
      [.literal 6 8] _ (by decide) (by decide) (by decide!) ?_ (by decide) (by decide)
      (by decide!) ?_ (by decide!) ?_
    · intro q _ h2
      interval_cases q <;> decide!
    · intro q h1 h2
      interval_cases q <;> decide!
    · refine .last 29 _ 6 (by decide) ?_
      intro q h1 h2
      interval_cases q <;> decide!
  have w := parse_string_schema 30 (Document.of_string "\"a#{b}c\";")
    ⟨2, by decide!, by decide!, by decide!⟩
  exact ⟨hr, (w.1 _ _).2 ⟨_, hr, by decide!⟩, (w.2 _ _ hr).symm.trans (by decide!)⟩

/-! ### The frame of a parse -/

theorem Document.frame_refl (sr : Option Node) (d : Document) : d.frame sr d :=
  ⟨rfl, rfl, rfl, [], by simp, by simp⟩

theorem Document.frame_trans {sr : Option Node} {d d1 d2 : Document}
    (h1 : d.frame sr d1) (h2 : d1.frame sr d2) : d.frame sr d2 := by
  obtain ⟨a1, a2, a3, n1, a4, a5⟩ := h1
  obtain ⟨b1, b2, b3, n2, b4, b5⟩ := h2
  refine ⟨b1.trans a1, b2.trans a2, b3.trans a3, n1 ++ n2, ?_, ?_⟩
  · rw [b4, a4, List.append_assoc]
  · intro pr hpr
    rcases List.mem_append.1 hpr with h | h
    · exact a5 pr h
    · exact b5 pr h

/-- A state that differs in the cursor, the line and the span matched last. -/
theorem Document.frame_of_eq {sr : Option Node} {d d1 : Document}
    (h1 : d1.source = d.source) (h2 : d1.end_ = d.end_) (h3 : d1.path = d.path)
    (h4 : d1.context = d.context) : d.frame sr d1 :=
  ⟨h1, h2, h3, [], by simp [h4], by simp⟩

theorem Document.frame_mono {sr sr1 : Option Node} {d d1 : Document}
    (hs : ∀ r, sr1 = some r → r.type = .ruleset ∨ sr1 = sr) (h : d.frame sr1 d1) :
    d.frame sr d1 := by
  obtain ⟨a1, a2, a3, n1, a4, a5⟩ := h
  refine ⟨a1, a2, a3, n1, a4, ?_⟩
  intro pr hpr
  rcases a5 pr hpr with h | h
  · exact Or.inl h
  · rcases hs pr.2 h.symm with h2 | h2
    · exact Or.inl h2
    · exact Or.inr (h.trans h2)

theorem keeps_pure {α : Type} (sr : Option Node) (a : α) : (pure a : Parser α).keeps sr :=
  fun d _ _ e => by cases e; exact d.frame_refl sr

theorem keeps_bind {α β : Type} {sr : Option Node} {x : Parser α} {f : α → Parser β}
    (hx : x.keeps sr) (hf : ∀ a, (f a).keeps sr) : (x >>= f).keeps sr := by
  intro d b d2 e
  rw [bind_apply] at e
  split at e
  · rename_i a d1 e1
    exact Document.frame_trans (hx d a d1 e1) (hf a d1 b d2 e)
  · cases e

theorem keeps_throw {α : Type} (sr : Option Node) (m : String) :
    (throw_syntax_error m : Parser α).keeps sr := fun _ _ _ e => by cases e

theorem keeps_undefined {α : Type} (sr : Option Node) :
    (undefined_behaviour : Parser α).keeps sr := fun _ _ _ e => by cases e

theorem keeps_ite {α : Type} {sr : Option Node} (c : Prop) [Decidable c] {x y : Parser α}
    (hx : x.keeps sr) (hy : y.keeps sr) : (if c then x else y).keeps sr := by
  by_cases h : c
  · rw [if_pos h]; exact hx
  · rw [if_neg h]; exact hy

theorem Document.lexed_with_frame (sr : Option Node) (d : Document) (k : Skip)
    (mx : Prelexer.prelexer) : d.frame sr (d.lexed_with k mx) := by
  unfold Document.lexed_with
  split
  · exact Document.frame_of_eq rfl rfl rfl rfl
  · exact d.frame_refl sr

theorem keeps_lex_with (sr : Option Node) (k : Skip) (mx : Prelexer.prelexer) :
    (lex_with k mx).keeps sr := by
  intro d a d1 e
  rw [lex_with_apply] at e
  cases e
  exact d.lexed_with_frame sr k mx

theorem keeps_lex (sr : Option Node) (mx : Prelexer.prelexer) : (lex mx).keeps sr :=
  keeps_lex_with sr _ mx

theorem keeps_lex_block_comment (sr : Option Node) : lex_block_comment.keeps sr :=
  keeps_lex_with sr _ _

theorem keeps_lex_optional_spaces (sr : Option Node) : lex_optional_spaces.keeps sr :=
  keeps_lex_with sr _ _

/-- A routine that returns the state it is given, or the state with another cursor. -/
theorem keeps_of_eq {α : Type} (sr : Option Node) {x : Parser α}
    (h : ∀ d a d1, x d = .ok (a, d1) → d1.source = d.source ∧ d1.end_ = d.end_ ∧
      d1.path = d.path ∧ d1.context = d.context) : x.keeps sr := by
  intro d a d1 e
  obtain ⟨h1, h2, h3, h4⟩ := h d a d1 e
  exact Document.frame_of_eq h1 h2 h3 h4

theorem keeps_peek (sr : Option Node) (mx : Prelexer.prelexer) : (peek mx).keeps sr :=
  keeps_of_eq sr (fun d a d1 e => by rw [peek_apply] at e; cases e; exact ⟨rfl, rfl, rfl, rfl⟩)

theorem keeps_peek_spaces (sr : Option Node) : peek_spaces.keeps sr :=
  keeps_of_eq sr (fun d a d1 e => by
    rw [peek_spaces_apply] at e; cases e; exact ⟨rfl, rfl, rfl, rfl⟩)

theorem keeps_new_Node (sr : Option Node) (t : NodeType) : (new_Node t).keeps sr :=
  keeps_of_eq sr (fun d a d1 e => by cases e; exact ⟨rfl, rfl, rfl, rfl⟩)

theorem keeps_new_Node_at (sr : Option Node) (t : NodeType) (l : Nat) :
    (new_Node_at t l).keeps sr :=
  keeps_of_eq sr (fun d a d1 e => by cases e; exact ⟨rfl, rfl, rfl, rfl⟩)

theorem keeps_new_Node_token (sr : Option Node) (t : NodeType) (k : Token) :
    (new_Node_token t k).keeps sr :=
  keeps_of_eq sr (fun d a d1 e => by cases e; exact ⟨rfl, rfl, rfl, rfl⟩)

theorem keeps_new_Node_lexed (sr : Option Node) (t : NodeType) :
    (new_Node_lexed t).keeps sr :=
  keeps_of_eq sr (fun d a d1 e => by cases e; exact ⟨rfl, rfl, rfl, rfl⟩)

theorem keeps_new_Node_boolean (sr : Option Node) (b : Bool) :
    (new_Node_boolean b).keeps sr :=
  keeps_of_eq sr (fun d a d1 e => by cases e; exact ⟨rfl, rfl, rfl, rfl⟩)

theorem keeps_get_position (sr : Option Node) : get_position.keeps sr :=
  keeps_of_eq sr (fun d a d1 e => by cases e; exact ⟨rfl, rfl, rfl, rfl⟩)

theorem keeps_set_position (sr : Option Node) (p : Nat) : (set_position p).keeps sr :=
  keeps_of_eq sr (fun d a d1 e => by cases e; exact ⟨rfl, rfl, rfl, rfl⟩)

theorem keeps_get_line (sr : Option Node) : get_line.keeps sr :=
  keeps_of_eq sr (fun d a d1 e => by cases e; exact ⟨rfl, rfl, rfl, rfl⟩)

theorem keeps_get_lexed (sr : Option Node) : get_lexed.keeps sr :=
  keeps_of_eq sr (fun d a d1 e => by cases e; exact ⟨rfl, rfl, rfl, rfl⟩)

theorem keeps_lexed_first (sr : Option Node) : lexed_first.keeps sr :=
  keeps_of_eq sr (fun d a d1 e => by cases e; exact ⟨rfl, rfl, rfl, rfl⟩)

theorem keeps_before_end (sr : Option Node) : before_end.keeps sr :=
  keeps_of_eq sr (fun d a d1 e => by cases e; exact ⟨rfl, rfl, rfl, rfl⟩)

theorem keeps_find_first_here (sr : Option Node) (c : Char) : (find_first_here c).keeps sr :=
  keeps_of_eq sr (fun d a d1 e => by cases e; exact ⟨rfl, rfl, rfl, rfl⟩)

theorem keeps_find_in_interval (sr : Option Node) (mx : Prelexer.prelexer) (b e : Nat) :
    (find_in_interval mx b e).keeps sr :=
  keeps_of_eq sr (fun d a d1 e => by cases e; exact ⟨rfl, rfl, rfl, rfl⟩)

theorem keeps_import_path (sr : Option Node) : import_path.keeps sr :=
  keeps_of_eq sr (fun d a d1 e => by cases e; exact ⟨rfl, rfl, rfl, rfl⟩)

theorem keeps_lookahead (sr : Option Node) : lookahead.keeps sr :=
  keeps_of_eq sr (fun d a d1 e => by cases e; exact ⟨rfl, rfl, rfl, rfl⟩)

theorem keeps_or_else {sr : Option Node} {a b : Parser Bool} (ha : a.keeps sr)
    (hb : b.keeps sr) : (or_else a b).keeps sr := by
  unfold or_else
  refine keeps_bind ha ?_
  intro r
  cases r
  · exact hb
  · exact keeps_pure sr _

/-- The registration of an extension with the surrounding ruleset. -/
theorem keeps_register_extension (e r : Node) : (register_extension e r).keeps (some r) := by
  intro d a d1 h
  cases h
  exact ⟨rfl, rfl, rfl, [(e, r)], rfl, by simp⟩

/-- A parse of a span of the buffer: the outer document takes the registry from it. -/
theorem keeps_in_token {sr : Option Node} (t : Token) {p : Parser Node} (hp : p.keeps sr) :
    (in_token t p).keeps sr := by
  intro d n d1 e
  unfold in_token at e
  split at e
  · rename_i n1 d2 e1
    cases e
    obtain ⟨_, _, _, new, h4, h5⟩ := hp _ _ _ e1
    exact ⟨rfl, rfl, rfl, new, h4, h5⟩
  · cases e

/-- A parse of another file: the document takes the registry from it. -/
theorem keeps_in_file {sr : Option Node} (path : List Char) {p : Parser Node}
    (hp : p.keeps sr) : (in_file path p).keeps sr := by
  intro d n d1 e
  unfold in_file at e
  split at e
  · split at e
    · rename_i n1 d2 e1
      cases e
      obtain ⟨_, _, _, new, h4, h5⟩ := hp _ _ _ e1
      exact ⟨rfl, rfl, rfl, new, h4, h5⟩
    · cases e
  · cases e

theorem keeps_mono {α : Type} {sr sr1 : Option Node} {x : Parser α}
    (hs : ∀ r, sr1 = some r → r.type = .ruleset ∨ sr1 = sr) (h : x.keeps sr1) :
    x.keeps sr := fun d a d1 e => Document.frame_mono hs (h d a d1 e)

/-- A call of a production whose surrounding ruleset is none, the surrounding ruleset of
the caller, or a ruleset node. -/
theorem keeps_rec (rec : Call → Parser Node)
    (ih : ∀ c, (rec c).keeps c.surrounding_ruleset) (sr : Option Node) (c : Call)
    (hs : ∀ r, c.surrounding_ruleset = some r →
      r.type = .ruleset ∨ c.surrounding_ruleset = sr) : (rec c).keeps sr :=
  keeps_mono hs (ih c)

theorem keeps_rec_none (rec : Call → Parser Node)
    (ih : ∀ c, (rec c).keeps c.surrounding_ruleset) (sr : Option Node) (c : Call)
    (hs : c.surrounding_ruleset = none) : (rec c).keeps sr :=
  keeps_rec rec ih sr c (fun r h => by rw [hs] at h; cases h)

theorem keeps_rec_same (rec : Call → Parser Node)
    (ih : ∀ c, (rec c).keeps c.surrounding_ruleset) (sr : Option Node) (c : Call)
    (hs : c.surrounding_ruleset = sr) : (rec c).keeps sr :=
  keeps_rec rec ih sr c (fun _ _ => Or.inr hs)

/-- A new node of the kind `t`, and what is done with it. -/
theorem keeps_bind_new_Node {β : Type} {sr : Option Node} (t : NodeType)
    {f : Node → Parser β} (hf : ∀ n, n.type = t → (f n).keeps sr) :
    (new_Node t >>= f).keeps sr := by
  intro d b d2 e
  rw [bind_apply] at e
  exact hf _ rfl d b d2 e

set_option maxRecDepth 8000 in
/-- A statement of a block keeps the frame when the productions it calls do. -/
theorem parse_block_statement_frame (rec : Call → Parser Node)
    (ih : ∀ c, (rec c).keeps c.surrounding_ruleset) (sr : Option Node) (io : NodeType)
    (block : Node) : (parse_block_statement rec sr io block).keeps sr := by
  unfold parse_block_statement
  cases sr
  all_goals
    repeat (first
      | (with_reducible first
        | exact keeps_pure _ _
        | exact keeps_throw _ _
        | exact keeps_undefined _
        | exact keeps_lex _ _
        | exact keeps_lex_with _ _ _
        | exact keeps_lex_block_comment _
        | exact keeps_lex_optional_spaces _
        | exact keeps_peek _ _
        | exact keeps_peek_spaces _
        | exact keeps_new_Node _ _
        | exact keeps_new_Node_at _ _ _
        | exact keeps_new_Node_token _ _ _
        | exact keeps_new_Node_lexed _ _
        | exact keeps_new_Node_boolean _ _
        | exact keeps_get_position _
        | exact keeps_set_position _ _
        | exact keeps_get_line _
        | exact keeps_get_lexed _
        | exact keeps_lexed_first _
        | exact keeps_before_end _
        | exact keeps_find_first_here _ _
        | exact keeps_find_in_interval _ _ _ _
        | exact keeps_import_path _
        | exact keeps_lookahead _
        | exact keeps_register_extension _ _
        | refine keeps_in_token _ ?_
        | refine keeps_in_file _ ?_
        | refine keeps_or_else ?_ ?_
        | refine keeps_bind_new_Node _ (fun _ _ => ?_)
        | refine keeps_bind ?_ (fun _ => ?_)
        | refine keeps_ite _ ?_ ?_)
      | exact keeps_rec_none rec ih _ _ rfl
      | exact keeps_rec_same rec ih _ _ rfl
      | split
      | unfold sequence_end
      | unfold space_list_end
      | unfold parse_relation_operator
      | unfold parse_media_property
      | dsimp only)

set_option maxRecDepth 8000 in
/-- One production keeps the frame when the productions it calls do. -/
theorem step_frame (rec : Call → Parser Node)
    (ih : ∀ c, (rec c).keeps c.surrounding_ruleset) (c : Call) :
    (step rec c).keeps c.surrounding_ruleset := by
  have hstmt := parse_block_statement_frame rec ih
  cases c <;> simp only [step, Call.surrounding_ruleset]
  all_goals first
    | unfold parse_scss
    | unfold parse_scss_loop
    | unfold parse_import
    | unfold parse_mixin_definition
    | unfold parse_function_definition
    | unfold parse_parameters_loop
    | unfold parse_parameters
    | unfold parse_parameter
    | unfold parse_mixin_call
    | unfold parse_arguments_loop
    | unfold parse_arguments
    | unfold parse_argument
    | unfold parse_assignment
    | unfold parse_propset_loop
    | unfold parse_propset
    | unfold parse_ruleset
    | unfold parse_selector_schema_loop
    | unfold parse_selector_schema
    | unfold parse_selector_group_loop
    | unfold parse_selector_group
    | unfold parse_selector_loop
    | unfold parse_selector
    | unfold parse_simple_selector_sequence_loop
    | unfold parse_simple_selector_sequence
    | unfold parse_simple_selector
    | unfold parse_pseudo
    | unfold parse_attribute_selector
    | unfold parse_block_comments
    | unfold parse_block_loop
    | unfold parse_block
    | unfold parse_rule
    | unfold parse_list
    | unfold parse_comma_list_loop
    | unfold parse_comma_list
    | unfold parse_space_list_loop
    | unfold parse_space_list
    | unfold parse_disjunction_loop
    | unfold parse_disjunction
    | unfold parse_conjunction_loop
    | unfold parse_conjunction
    | unfold parse_relation
    | unfold parse_expression_loop
    | unfold parse_expression
    | unfold parse_term_loop
    | unfold parse_term
    | unfold parse_factor
    | unfold parse_value
    | unfold parse_string_loop
    | unfold parse_string
    | unfold parse_value_schema_loop
    | unfold parse_value_schema
    | unfold parse_identifier_schema_loop
    | unfold parse_identifier_schema
    | unfold parse_function_call
    | unfold parse_if_directive_loop
    | unfold parse_if_directive
    | unfold parse_for_directive
    | unfold parse_each_directive
    | unfold parse_while_directive
    | unfold parse_directive
    | unfold parse_media_query_loop
    | unfold parse_media_query
    | unfold parse_media_expression_loop
    | unfold parse_media_expression
    | unfold parse_warning
  all_goals
    repeat (first
      | (with_reducible first
        | exact keeps_pure _ _
        | exact keeps_throw _ _
        | exact keeps_undefined _
        | exact keeps_lex _ _
        | exact keeps_lex_with _ _ _
        | exact keeps_lex_block_comment _
        | exact keeps_lex_optional_spaces _
        | exact keeps_peek _ _
        | exact keeps_peek_spaces _
        | exact keeps_new_Node _ _
        | exact keeps_new_Node_at _ _ _
        | exact keeps_new_Node_token _ _ _
        | exact keeps_new_Node_lexed _ _
        | exact keeps_new_Node_boolean _ _
        | exact keeps_get_position _
        | exact keeps_set_position _ _
        | exact keeps_get_line _
        | exact keeps_get_lexed _
        | exact keeps_lexed_first _
        | exact keeps_before_end _
        | exact keeps_find_first_here _ _
        | exact keeps_find_in_interval _ _ _ _
        | exact keeps_import_path _
        | exact keeps_lookahead _
        | exact keeps_register_extension _ _
        | exact hstmt _ _ _
        | refine keeps_in_token _ ?_
        | refine keeps_in_file _ ?_
        | refine keeps_or_else ?_ ?_
        | refine keeps_bind_new_Node _ (fun _ _ => ?_)
        | refine keeps_bind ?_ (fun _ => ?_)
        | refine keeps_ite _ ?_ ?_)
      | exact keeps_rec_none rec ih _ _ rfl
      | exact keeps_rec_same rec ih _ _ rfl
      | exact keeps_rec rec ih _ _ (fun _ h => Or.inl (by cases h; assumption))
      | split
      | unfold sequence_end
      | unfold space_list_end
      | unfold parse_relation_operator
      | unfold parse_media_property
      | dsimp only)

/-- Every production keeps the frame: the buffer, its end and the path stay, and the
registry of extensions grows by pairs whose second component is the surrounding ruleset
of the production or a node of kind `ruleset`. -/
theorem parse_frame (fuel : Nat) (c : Call) : (parse fuel c).keeps c.surrounding_ruleset := by
  induction fuel generalizing c with
  | zero => intro d n d1 e; rw [parse_zero] at e; cases e
  | succ n ih => rw [parse_succ]; exact step_frame _ (fun c => ih c) c

/-- The statement `@extend …` of a block outside a function body: the earlier alternatives
of `parse_block` miss, `@extend` is taken, and the rest of the statement depends on the
surrounding ruleset. -/
theorem parse_block_statement_extend (rec : Call → Parser Node) (sr : Option Node)
    (inside_of : NodeType) (block : Node) (d : Document) (rest : List Char)
    (hc : d.sees .before_block_comment Prelexer.block_comment = false)
    (h : d.ahead = '@' :: 'e' :: 'x' :: 't' :: 'e' :: 'n' :: 'd' :: rest)
    (hf : inside_of ≠ .function) :
    parse_block_statement rec sr inside_of block d =
      match sr with
      | none => .error (.syntax_error "@extend directive may only be used within rules"
          (d.lexed_with .spaces_and_comments Prelexer.extend).line)
      | some ruleset =>
        match rec .parse_simple_selector_sequence
            (d.lexed_with .spaces_and_comments Prelexer.extend) with
        | .ok (extendee, d2) =>
          .ok ((block, true), { d2 with context :=
            { d2.context with extensions := d2.context.extensions ++ [(extendee, ruleset)]
                              has_extensions := true } })
        | .error e => .error e := by
  have hcl : d.lexed_with .before_block_comment Prelexer.block_comment = d :=
    Document.lexed_with_of_not_sees hc
  have s1 : d.sees .spaces_and_comments Prelexer.import_ = false := by
    rw [d.sees_ahead, h]; rfl
  have s2 : d.sees .spaces_and_comments Prelexer.variable_ = false := by
    rw [d.sees_ahead, h]; rfl
  have s3 : d.sees .spaces_and_comments Prelexer.if_directive = false := by
    rw [d.sees_ahead, h]; rfl
  have s4 : d.sees .spaces_and_comments Prelexer.for_directive = false := by
    rw [d.sees_ahead, h]; rfl
  have s5 : d.sees .spaces_and_comments Prelexer.each_directive = false := by
    rw [d.sees_ahead, h]; rfl
  have s6 : d.sees .spaces_and_comments Prelexer.while_directive = false := by
    rw [d.sees_ahead, h]; rfl
  have s7 : d.sees .spaces_and_comments Prelexer.return_directive = false := by
    rw [d.sees_ahead, h]; rfl
  have s8 : d.sees .spaces_and_comments Prelexer.warn = false := by
    rw [d.sees_ahead, h]; rfl
  have s9 : d.sees .spaces_and_comments Prelexer.include_ = false := by
    rw [d.sees_ahead, h]; rfl
  have s10 : d.sees .spaces_and_comments propset_head = false := by
    rw [d.sees_ahead, h]; rfl
  have s11 : d.sees .spaces_and_comments (Prelexer.exactly '+') = false := by
    rw [d.sees_ahead, h]; rfl
  have s16 : d.sees .spaces_and_comments Prelexer.extend = true := by
    rw [d.sees_ahead, h]; rfl
  have hla := lookahead_at_directive d _ h
  unfold parse_block_statement
  simp only [bind_apply, lex_block_comment_apply, hc, hcl, Bool.false_eq_true, if_false,
    peek_apply, s1, lex, lex_with_apply, s2, Document.lexed_with_of_not_sees s2, s3,
    s4, s5, s6, s7, Document.lexed_with_of_not_sees s7, s8, hf, s9, s10, hla,
    Option.isSome_none, s11, s16, if_true]
  cases sr with
  | none => rfl
  | some ruleset =>
    simp only [bind_apply]
    cases rec .parse_simple_selector_sequence
        (d.lexed_with .spaces_and_comments Prelexer.extend) with
    | error e => rfl
    | ok r => rfl

/-- C21: every pair that a parse adds to the registry of extensions has, as its second
component, the surrounding ruleset that the production was called with (so there is one)
or a node of kind `ruleset` (the ruleset that `parse_ruleset` passed to the block of a
nested ruleset); and the statement `@extend …` of a block with the surrounding ruleset
`ruleset`, on whose selector `parse_simple_selector_sequence` returns `extendee`, adds
the pair of `extendee` and `ruleset` to the registry and leaves the block as it was. -/
theorem registry_surrounding_ruleset (rec : Call → Parser Node) (ruleset : Node)
    (inside_of : NodeType) (block extendee : Node) (d d2 : Document) (rest : List Char)
    (hc : d.sees .before_block_comment Prelexer.block_comment = false)
    (h : d.ahead = '@' :: 'e' :: 'x' :: 't' :: 'e' :: 'n' :: 'd' :: rest)
    (hf : inside_of ≠ .function)
    (hsel : rec .parse_simple_selector_sequence
      (d.lexed_with .spaces_and_comments Prelexer.extend) = .ok (extendee, d2)) :
    parse_block_statement rec (some ruleset) inside_of block d =
      .ok ((block, true), { d2 with context :=
        { d2.context with extensions := d2.context.extensions ++ [(extendee, ruleset)]
                          has_extensions := true } }) ∧
    ∀ (fuel : Nat) (c : Call) (d0 : Document) (n : Node) (d1 : Document),
      parse fuel c d0 = .ok (n, d1) →
      ∃ new, d1.context.extensions = d0.context.extensions ++ new ∧
        ∀ pr ∈ new, some pr.2 = c.surrounding_ruleset ∨ pr.2.type = .ruleset := by
  constructor
  · rw [parse_block_statement_extend rec _ inside_of block d rest hc h hf]
    simp only [hsel]
  · intro fuel c d0 n d1 e
    obtain ⟨_, _, _, new, h1, h2⟩ := parse_frame fuel c d0 n d1 e
    exact ⟨new, h1, fun pr hpr => (h2 pr hpr).symm⟩

/-- C21 at the statement `@extend .b;` of a block whose surrounding ruleset has the
selector `a`, and in the document `a { b { @extend .c; } @extend .d; }`, where each
`@extend` is registered with the ruleset around it. -/
theorem registry_surrounding_ruleset_witness :
    parse_block_statement (parse 30) (some (inner .ruleset [leaf .simple_selector 0 1]))
        .none (inner .block []) (Document.of_string "@extend .b; \x7d") =
      .ok ((inner .block [], true),
        { Document.of_string "@extend .b; \x7d" with
          position := 10, lexed := ⟨8, 10⟩,
          context := ⟨[], [(leaf .simple_selector 8 10,
            inner .ruleset [leaf .simple_selector 0 1])], true⟩ }) ∧
    (∀ d1 n, parse 100 .parse_scss
        (Document.of_string "a \x7b b \x7b @extend .c; \x7d @extend .d; \x7d") = .ok (n, d1) →
      ∃ new, d1.context.extensions =
          (Document.of_string
            "a \x7b b \x7b @extend .c; \x7d @extend .d; \x7d").context.extensions ++ new ∧
        ∀ pr ∈ new, some pr.2 = Call.surrounding_ruleset .parse_scss ∨
          pr.2.type = .ruleset) ∧
    run_registry 100 .parse_scss "a \x7b b \x7b @extend .c; \x7d @extend .d; \x7d" =
      .ok [(leaf .simple_selector 16 18, inner .ruleset [leaf .simple_selector 4 5]),
       (leaf .simple_selector 30 32, inner .ruleset [leaf .simple_selector 0 1])] :=
  ⟨((registry_surrounding_ruleset (parse 30) (inner .ruleset [leaf .simple_selector 0 1])
      .none (inner .block []) (leaf .simple_selector 8 10)
      (Document.of_string "@extend .b; \x7d")
      { Document.of_string "@extend .b; \x7d" with position := 10, lexed := ⟨8, 10⟩ }
      " .b; \x7d".toList (by decide!) (by decide!) (by decide) (by decide!)).1).trans
      (by decide!),
   fun d1 n e =>
    (registry_surrounding_ruleset (parse 30) (inner .ruleset [leaf .simple_selector 0 1])
      .none (inner .block []) (leaf .simple_selector 8 10)
      (Document.of_string "@extend .b; \x7d")
      { Document.of_string "@extend .b; \x7d" with position := 10, lexed := ⟨8, 10⟩ }
      " .b; \x7d".toList (by decide!) (by decide!) (by decide) (by decide!)).2
      100 .parse_scss _ n d1 e,
   by decide!⟩

/-! ### The end of the buffer -/

theorem Document.lexed_with_position_le (d : Document) (k : Skip) (mx : Prelexer.prelexer)
    (hs : d.sees k mx = true) : (d.lexed_with k mx).position ≤ d.source.length := by
  unfold Document.sees at hs
  unfold Document.lexed_with
  cases hm : mx (after_whitespace k (d.source.drop d.position)) with
  | none => rw [hm] at hs; cases hs
  | some t =>
    simp only [Document.offset]
    omega

theorem sees_optional_spaces (d : Document) :
    d.sees .optional_spaces Prelexer.optional_spaces = true := by
  unfold Document.sees Prelexer.optional_spaces Prelexer.optional
  split <;> rfl

theorem sees_spaces_and_comments (d : Document) :
    d.sees .spaces_and_comments Prelexer.spaces_and_comments = true := rfl

theorem reaches_end_throw {α : Type} (m : String) :
    (throw_syntax_error m : Parser α).reaches_end := fun _ _ _ _ e => by cases e

theorem reaches_end_ite {α : Type} (c : Prop) [Decidable c] {x y : Parser α}
    (hx : x.reaches_end) (hy : y.reaches_end) : (if c then x else y).reaches_end := by
  by_cases h : c
  · rw [if_pos h]; exact hx
  · rw [if_neg h]; exact hy

/-- A step that keeps the frame, and then a routine that ends at the end of the buffer. -/
theorem reaches_end_bind {α β : Type} (sr : Option Node) {x : Parser α} {f : α → Parser β}
    (hx : x.keeps sr) (hf : ∀ a, (f a).reaches_end) : (x >>= f).reaches_end := by
  intro d hw b d2 e
  rw [bind_apply] at e
  split at e
  · rename_i a d1 e1
    obtain ⟨h1, h2, _, _⟩ := hx d a d1 e1
    exact hf a d1 (by rw [h1, h2, hw]) b d2 e
  · cases e

/-- The end of a turn of the loop of `parse_scss`: the spaces are skipped and the loop
goes on from a cursor inside the buffer. -/
theorem reaches_end_next (rec : Call → Parser Node)
    (ih : ∀ root d, d.end_ = d.source.length → d.position ≤ d.source.length →
      (rec (.parse_scss_loop root)).post d (fun _ d1 => d1.position = d1.end_))
    (root : Node) :
    (lex_optional_spaces >>= fun _ => rec (.parse_scss_loop root)).reaches_end := by
  intro d hw
  simp only [post_bind, post_lex_optional_spaces]
  refine ih root _ ?_ ?_
  · rw [Document.lexed_with_source]
    exact ((d.lexed_with_frame none _ _).2.1).trans hw
  · rw [Document.lexed_with_source]
    exact d.lexed_with_position_le _ _ (sees_optional_spaces d)

/-- The last alternative of the loop of `parse_scss`: after the spaces and comments
the cursor is inside the buffer, and the loop returns only when it is not before the
end. -/
theorem reaches_end_last (root : Node) :
    (lex Prelexer.spaces_and_comments >>= fun _ => before_end >>= fun b =>
      if (!b) = true then pure root
      else throw_syntax_error "invalid top-level expression" : Parser Node).reaches_end := by
  intro d hw
  simp only [post_bind, post_lex, post_before_end, post_ite, post_pure, post_throw]
  constructor
  · intro hb
    have h1 := d.lexed_with_position_le .spaces_and_comments Prelexer.spaces_and_comments
      (sees_spaces_and_comments d)
    have h2 : (d.lexed_with .spaces_and_comments Prelexer.spaces_and_comments).end_ =
        d.source.length := ((d.lexed_with_frame none _ _).2.1).trans hw
    simp only [Bool.not_eq_true', decide_eq_false_iff_not] at hb
    omega
  · intro _
    trivial

/-- The test of the loop of `parse_scss`: before the end the body runs; at a cursor
inside a whole buffer that is not before the end, the cursor is at the end. -/
theorem reaches_end_loop (root : Node) (x : Parser Node) (hx : x.reaches_end)
    (d : Document) (hw : d.end_ = d.source.length) (hp : d.position ≤ d.source.length) :
    (before_end >>= fun b => if b = true then x else pure root).post d
      (fun _ d1 => d1.position = d1.end_) := by
  rw [post_bind, post_before_end]
  by_cases hb : d.position < d.end_
  · simp only [hb, decide_True, if_true]
    exact hx d hw
  · simp only [hb, decide_False, Bool.false_eq_true, if_false, post_pure]
    omega

set_option maxRecDepth 8000 in
/-- One turn of the loop of `parse_scss`, from a cursor inside a whole buffer, returns
only with the cursor at the end, when the next turns do and the productions keep the
frame. -/
theorem parse_scss_loop_reaches_end (rec : Call → Parser Node)
    (ihf : ∀ c, (rec c).keeps c.surrounding_ruleset)
    (ih : ∀ root d, d.end_ = d.source.length → d.position ≤ d.source.length →
      (rec (.parse_scss_loop root)).post d (fun _ d1 => d1.position = d1.end_))
    (root : Node) (d : Document) (hw : d.end_ = d.source.length)
    (hp : d.position ≤ d.source.length) :
    (parse_scss_loop rec root).post d (fun _ d1 => d1.position = d1.end_) := by
  have hnext := reaches_end_next rec ih
  unfold parse_scss_loop
  refine reaches_end_loop root _ ?_ d hw hp
  dsimp only
  repeat (first
    | (with_reducible first
      | exact reaches_end_throw _
      | exact hnext _
      | exact reaches_end_last _
      | refine reaches_end_ite _ ?_ ?_
      | refine reaches_end_bind none ?_ (fun _ => ?_)
      | exact keeps_lex _ _
      | exact keeps_lex_block_comment _
      | exact keeps_peek _ _
      | exact keeps_new_Node_lexed _ _
      | exact keeps_lookahead _)
    | exact keeps_rec_none rec ihf _ _ rfl
    | dsimp only)

/-- The loop of `parse_scss`, from a cursor inside a whole buffer, returns only with the
cursor at the end. -/
theorem parse_scss_loop_end (fuel : Nat) : ∀ (root : Node) (d : Document),
    d.end_ = d.source.length → d.position ≤ d.source.length →
    (parse fuel (.parse_scss_loop root)).post d (fun _ d1 => d1.position = d1.end_) := by
  induction fuel with
  | zero => intro root d _ _ n d1 e; rw [parse_zero] at e; cases e
  | succ n ih =>
    intro root d hw hp
    rw [parse_succ]
    exact parse_scss_loop_reaches_end (parse n) (parse_frame n) ih root d hw hp

/-- C23: whenever `parse_scss`, run on a document over a whole buffer (the end of the
document is the end of the buffer, as in every document made from a file or a string),
returns, the cursor is at the end: the whole buffer is consumed.  The buffer and its end
are those of the document it was run on. -/
theorem parse_scss_consumes (fuel : Nat) (d : Document) (n : Node) (d1 : Document)
    (hw : d.end_ = d.source.length) (h : parse fuel .parse_scss d = .ok (n, d1)) :
    d1.position = d1.end_ ∧ d1.end_ = d.end_ ∧ d1.source = d.source := by
  obtain ⟨h1, h2, _, _⟩ := parse_frame fuel .parse_scss d n d1 h
  refine ⟨?_, h2, h1⟩
  cases fuel with
  | zero => rw [parse_zero] at h; cases h
  | succ k =>
    rw [parse_succ] at h
    revert h
    suffices hp : (parse_scss (parse k)).post d (fun _ d1 => d1.position = d1.end_) from
      hp n d1
    unfold parse_scss
    simp only [post_bind, post_lex_optional_spaces, post_new_Node_at]
    refine parse_scss_loop_end k _ _ ?_ ?_
    · rw [Document.lexed_with_source]
      exact ((d.lexed_with_frame none _ _).2.1).trans hw
    · rw [Document.lexed_with_source]
      exact d.lexed_with_position_le _ _ (sees_optional_spaces d)

/-- C23 at the document `a { b: c; }` followed by spaces and two comments: the parse
returns at the cursor 25, the end of the buffer. -/
theorem parse_scss_consumes_witness :
    parse 100 .parse_scss (Document.of_string "a \x7b b: c; \x7d  /* d */ // e") =
      .ok (inner .root [inner .ruleset [leaf .simple_selector 0 1,
          inner .block [inner .rule [leaf .property 4 5, leaf .identifier 7 8]]],
          leaf .comment 13 20],
        (Document.of_string "a \x7b b: c; \x7d  /* d */ // e").moved 25 25) ∧
    ((Document.of_string "a \x7b b: c; \x7d  /* d */ // e").moved 25 25).position =
      ((Document.of_string "a \x7b b: c; \x7d  /* d */ // e").moved 25 25).end_ ∧
    ((Document.of_string "a \x7b b: c; \x7d  /* d */ // e").moved 25 25).end_ =
      (Document.of_string "a \x7b b: c; \x7d  /* d */ // e").end_ ∧
    ((Document.of_string "a \x7b b: c; \x7d  /* d */ // e").moved 25 25).source =
      (Document.of_string "a \x7b b: c; \x7d  /* d */ // e").source :=
  ⟨by decide!,
   parse_scss_consumes 100 (Document.of_string "a \x7b b: c; \x7d  /* d */ // e")
    (inner .root [inner .ruleset [leaf .simple_selector 0 1,
      inner .block [inner .rule [leaf .property 4 5, leaf .identifier 7 8]]],
      leaf .comment 13 20])
    ((Document.of_string "a \x7b b: c; \x7d  /* d */ // e").moved 25 25)
    (by decide!) (by decide!)⟩

/-! ### The semicolon after the last statement of a block -/

/-- The loop of `parse_block` after a statement that wants a `;`: when `}` comes next the
block is returned as it is; when `;` comes next it is taken, the comments after it are
added, and when `}` follows the block is returned; when neither `}` nor `;` comes next
the statement is not terminated. -/
theorem parse_block_loop_semicolon (rec : Call → Parser Node) (sr : Option Node)
    (io : NodeType) (block : Node) (d : Document) :
    (d.sees .spaces_and_comments (Prelexer.exactly '}') = true →
      parse_block_loop rec sr io true block d =
        .ok (block, d.lexed_with .spaces_and_comments (Prelexer.exactly '}'))) ∧
    (d.sees .spaces_and_comments (Prelexer.exactly '}') = false →
      d.sees .spaces_and_comments (Prelexer.exactly ';') = true →
      ∀ block1 d1, rec (.parse_block_comments block)
          (d.lexed_with .spaces_and_comments (Prelexer.exactly ';')) = .ok (block1, d1) →
        d1.sees .spaces_and_comments (Prelexer.exactly '}') = true →
        parse_block_loop rec sr io true block d =
          .ok (block1, d1.lexed_with .spaces_and_comments (Prelexer.exactly '}'))) ∧
    (d.sees .spaces_and_comments (Prelexer.exactly '}') = false →
      d.sees .spaces_and_comments (Prelexer.exactly ';') = false →
      parse_block_loop rec sr io true block d = .error (.syntax_error
        "non-terminal statement or declaration must end with ';'" d.line)) := by
  refine ⟨?_, ?_, ?_⟩
  · intro h1
    unfold parse_block_loop
    simp only [bind_apply, lex, lex_with_apply, h1, if_true, pure_apply]
  · intro h1 h2 block1 d1 h3 h4
    unfold parse_block_loop
    simp only [bind_apply, lex, lex_with_apply, h1, Document.lexed_with_of_not_sees h1,
      Bool.false_eq_true, if_false, if_true, h2, Bool.not_true, h3, h4, pure_apply]
  · intro h1 h2
    unfold parse_block_loop
    simp only [bind_apply, lex, lex_with_apply, h1, Document.lexed_with_of_not_sees h1,
      Bool.false_eq_true, if_false, if_true, h2, Document.lexed_with_of_not_sees h2,
      Bool.not_false]
    rfl

/-- C22 at `a {@extend .b}`: the last statement of the block is an `@extend`, and `}`
follows it.  With the `;` the block is parsed (and the extension registered); without it
`parse_simple_selector_sequence` does not stop at the `}` and the parse is a syntax
error.  With a space before the `}` the two forms agree, and so they do, with or
without the space, for a declaration, an assignment, `@include`, `@warn`, `@return` and
a blockless directive. -/
theorem extend_before_rbrace :
    run 100 .parse_scss "a \x7b@extend .b;\x7d" =
      .ok (inner .root [inner .ruleset [leaf .simple_selector 0 1, inner .block []]]) ∧
    run_registry 100 .parse_scss "a \x7b@extend .b;\x7d" =
      .ok [(leaf .simple_selector 11 13, inner .ruleset [leaf .simple_selector 0 1])] ∧
    run 100 .parse_scss "a \x7b@extend .b\x7d" = .error (.syntax_error "invalid selector" 1) ∧
    run 100 .parse_scss "a \x7b@extend .b \x7d" = run 100 .parse_scss "a \x7b@extend .b;\x7d" ∧
    run 100 .parse_scss "a \x7bb: c\x7d" = run 100 .parse_scss "a \x7bb: c;\x7d" ∧
    run 100 .parse_scss "a \x7b$x: 1\x7d" = run 100 .parse_scss "a \x7b$x: 1;\x7d" ∧
    run 100 .parse_scss "a \x7b@include m\x7d" = run 100 .parse_scss "a \x7b@include m;\x7d" ∧
    run 100 .parse_scss "a \x7b@warn b\x7d" = run 100 .parse_scss "a \x7b@warn b;\x7d" ∧
    run 100 .parse_scss "a \x7b@foo\x7d" = run 100 .parse_scss "a \x7b@foo;\x7d" ∧
    run 100 .parse_scss "@function f() \x7b@return 1\x7d" =
      run 100 .parse_scss "@function f() \x7b@return 1;\x7d" ∧
    run 100 .parse_scss "a \x7bb: c\x7d" =
      .ok (inner .root [inner .ruleset [leaf .simple_selector 0 1,
        inner .block [inner .rule [leaf .property 3 4, leaf .identifier 6 7]]]]) := by
  decide!

/-! ### Lines -/

/-- C24 at `a { b: #{\n c}; }`, a source with one newline, inside the interpolant of a
value: `lex` counts the newline when it matches the value schema, the document made from
that token starts at the line reached and counts it again when it matches the
interpolant, and the document made from the interior counts it a third time: the node
of `c` carries the line 4, more than the two lines of the source.  In the string
`"#{\n c}"` the newline is counted twice, and the node of `c` in it carries the line 3. -/
theorem interpolant_line_recounted :
    "a \x7b b: #\x7b\n c\x7d; \x7d".toList.count '\n' = 1 ∧
    run 100 .parse_scss "a \x7b b: #\x7b\n c\x7d; \x7d" =
      .ok (inner .root [inner .ruleset [leaf .simple_selector 0 1,
        inner .block [inner .rule [leaf .property 4 5,
          ⟨.value_schema, [], 2, Token.make, false, true,
            [⟨.identifier, [], 4, ⟨11, 12⟩, false, false, []⟩]⟩]]]]) ∧
    "a \x7b b: \"#\x7b\n c\x7d\"; \x7d".toList.count '\n' = 1 ∧
    run 100 .parse_scss "a \x7b b: \"#\x7b\n c\x7d\"; \x7d" =
      .ok (inner .root [inner .ruleset [leaf .simple_selector 0 1,
        inner .block [inner .rule [leaf .property 4 5,
          ⟨.string_schema, [], 2, Token.make, false, true,
            [⟨.identifier, [], 2, ⟨7, 8⟩, false, false, []⟩,
             ⟨.identifier, [], 3, ⟨12, 13⟩, false, true, []⟩,
             ⟨.identifier, [], 2, ⟨14, 15⟩, false, false, []⟩]⟩]]]]) := by
  decide!

/-- The node that `parse_mixin_definition` returns carries the line at which the body
ends: it is made after the body is parsed. -/
theorem parse_mixin_definition_line (rec : Call → Parser Node) (d : Document) :
    (parse_mixin_definition rec).post d (fun n d1 => n.line = d1.line) := by
  unfold parse_mixin_definition
  simp only [post_bind, post_or_else, post_lex, post_ite, post_throw, post_new_Node_lexed,
    post_peek, post_new_Node, post_pure]
  split <;>
  · refine ⟨fun _ => trivial, fun _ => ?_⟩
    refine post_of_forall (fun params d2 => ⟨fun _ => trivial, fun _ => ?_⟩)
    exact post_of_forall (fun body d3 => rfl)

/-- The node that `parse_function_definition` returns carries the line of the keyword
`@function`: the line is noted as soon as the keyword is matched. -/
theorem parse_function_definition_line (rec : Call → Parser Node) (d : Document) :
    (parse_function_definition rec).post d (fun n _ =>
      n.line = (d.lexed_with .spaces_and_comments Prelexer.function).line) := by
  unfold parse_function_definition
  simp only [post_bind, post_lex, post_get_line, post_ite, post_throw, post_new_Node_lexed,
    post_peek, post_new_Node_at, post_pure]
  refine ⟨fun _ => trivial, fun _ => ?_⟩
  refine post_of_forall (fun params d2 => ⟨fun _ => trivial, fun _ => ?_⟩)
  exact post_of_forall (fun body d3 => rfl)

/-- C25 at a mixin and at a function whose bodies span three lines: the `mixin` node
that `parse_mixin_definition` returns carries the line 3, the line of the closing `}`,
not the line 1 of its keyword `@mixin`; the `function` node that
`parse_function_definition` returns for the same layout carries the line 1 of its keyword
`@function`. -/
theorem mixin_definition_line :
    run 100 .parse_scss "@mixin m \x7b\n a: b;\n\x7d" =
      .ok (inner .root [⟨.mixin, [], 3, Token.make, false, false,
        [leaf .identifier 7 8, inner .parameters [],
         inner .block [inner .rule
           [⟨.property, [], 2, ⟨12, 13⟩, false, false, []⟩,
            ⟨.identifier, [], 2, ⟨15, 16⟩, false, false, []⟩]]]⟩]) ∧
    ("@mixin m \x7b\n a: b;\n\x7d".toList.take 6) = "@mixin".toList ∧
    run 100 .parse_scss "@function f() \x7b\n @return 1;\n\x7d" =
      .ok (inner .root [⟨.function, [], 1, Token.make, false, false,
        [leaf .identifier 10 11, inner .parameters [],
         inner .block [⟨.return_directive, [], 2, Token.make, false, false,
           [⟨.textual_number, [], 2, ⟨25, 26⟩, false, false, []⟩]⟩]]⟩]) := by
  decide!

/-! ### Statements that begin with a variable -/

/-- C30 at `$a $b: 1;`: at the top level, where `parse_scss` only peeks at the variable,
`parse_assignment` takes `$a` and raises the syntax error for the missing `:`; in a
block, where `parse_block` takes the variable with `lex` before it calls
`parse_assignment`, `parse_assignment` takes `$b` as well, and the statement is parsed as
the assignment `$b: 1`: the token `$a` is dropped without an error.  The statement
`$a: 1;` gives the same assignment at the top level and in a block. -/
theorem variable_dropped_in_block :
    run 100 .parse_scss "$a $b: 1;" =
      .error (.syntax_error "expected ':' in assignment statement" 1) ∧
    run 100 .parse_scss "x \x7b $a $b: 1; \x7d" =
      .ok (inner .root [inner .ruleset [leaf .simple_selector 0 1,
        inner .block [inner .assignment [leaf .variable_ 7 9, leaf .textual_number 11 12]]]]) ∧
    Token.text "x \x7b $a $b: 1; \x7d".toList ⟨7, 9⟩ = "$b".toList ∧
    run 100 .parse_scss "@mixin m \x7b $a $b: 1; \x7d" =
      .ok (inner .root [inner .mixin [leaf .identifier 7 8, inner .parameters [],
        inner .block [inner .assignment [leaf .variable_ 14 16,
          leaf .textual_number 18 19]]]]) ∧
    run 100 .parse_scss "$a: 1;" =
      .ok (inner .root [inner .assignment [leaf .variable_ 0 2, leaf .textual_number 4 5]]) ∧
    run 100 .parse_scss "x \x7b $a: 1; \x7d" =
      .ok (inner .root [inner .ruleset [leaf .simple_selector 0 1,
        inner .block [inner .assignment [leaf .variable_ 4 6, leaf .textual_number 8 9]]]]) := by
  decide!

/-! ### Declarations and namespaced properties -/

/-- The rule that `parse_rule` returns has two children, the property and the value. -/
theorem parse_rule_children (rec : Call → Parser Node) (d : Document) :
    (parse_rule rec).post d (fun n _ => n.type = .rule ∧ ∃ P V, n.children = [P, V]) := by
  unfold parse_rule
  simp only [post_bind, post_new_Node, post_peek, post_ite, post_pure, post_lex,
    post_new_Node_lexed, post_throw]
  refine ⟨fun _ => post_of_forall (fun p d1 => ⟨fun _ => trivial, fun _ =>
    post_of_forall (fun l d2 => ⟨rfl, p, l, rfl⟩)⟩), fun _ => ⟨fun _ => ⟨fun _ => trivial,
    fun _ => post_of_forall (fun l d2 => ⟨rfl, _, l, rfl⟩)⟩, fun _ => trivial⟩⟩

/-- The statement of a block at a declaration: the earlier alternatives of `parse_block`
miss and the statement is what the last alternative makes of the rule. -/
theorem parse_block_statement_declaration (rec : Call → Parser Node) (sr : Option Node)
    (io : NodeType) (block : Node) (d : Document) (h : d.at_declaration io = true) :
    parse_block_statement rec sr io block d =
      match rec .parse_rule d with
      | .ok (rule, d2) =>
        if d2.sees .spaces_and_comments (Prelexer.exactly '{') = true then
          match rec (.parse_block none .none) d2 with
          | .ok (inner, d3) =>
            .ok ((block.push_back ((⟨.propset, d3.path, d3.line, Token.make, false, false,
                []⟩ : Node).push_back (rule.children.headD
                  ⟨.none, [], 0, Token.make, false, false, []⟩) |>.push_back
                (inner.push_front { rule with children :=
                  ⟨.property, d3.path, d3.line, Token.make, false, false, []⟩ ::
                    rule.children.tail })), false), d3)
          | .error e => .error e
        else .ok ((block.push_back rule, true), d2)
      | .error e => .error e := by
  unfold Document.at_declaration at h
  simp only [Bool.and_eq_true, Bool.not_eq_true', decide_eq_false_iff_not] at h
  obtain ⟨⟨⟨⟨⟨⟨⟨⟨⟨⟨⟨⟨⟨⟨⟨⟨⟨h1, h2⟩, h3⟩, h4⟩, h5⟩, h6⟩, h7⟩, h8⟩, h9⟩, h10⟩, h11⟩, h12⟩, h13⟩,
    h14⟩, h15⟩, h16⟩, h17⟩, h18⟩ := h
  unfold parse_block_statement
  simp only [bind_apply, lex_block_comment_apply, h1, Document.lexed_with_of_not_sees h1,
    Bool.false_eq_true, if_false, peek_apply, h2, lex, lex_with_apply, h3,
    Document.lexed_with_of_not_sees h3, h4, h5, h6, h7, h8,
    Document.lexed_with_of_not_sees h8, h9, h10, h11, h12, lookahead, h13, h14, h15,
    Document.lexed_with_of_not_sees h15, h16, h17, h18, Bool.not_false, if_true]
  cases rec .parse_rule d with
  | error e => rfl
  | ok r =>
    obtain ⟨rule, d2⟩ := r
    simp only []
    by_cases hb : d2.sees .spaces_and_comments (Prelexer.exactly '{') = true
    · simp only [hb, if_true, bind_apply]
      cases rec (.parse_block none .none) d2 with
      | error e => rfl
      | ok r2 => rfl
    · simp only [hb, if_false]
      rfl

/-- C28: at a declaration of a block (the earlier alternatives of `parse_block` miss), when
`parse_rule` returns the rule of the declaration, `{` comes next and `parse_block`
returns the inner block, the statement appends to the block a `propset` node with
exactly two children: the property `P` of the rule, and the inner block with, in front
of its own children, the rule with an empty-token `property` node in the place of `P`
and the value `V` unchanged; and no `;` is pending after it. -/
theorem declaration_promoted (fuel : Nat) (sr : Option Node) (io : NodeType)
    (block rule inner : Node) (d d2 d3 : Document)
    (h : d.at_declaration io = true)
    (hrule : parse fuel .parse_rule d = .ok (rule, d2))
    (hb : d2.sees .spaces_and_comments (Prelexer.exactly '{') = true)
    (hinner : parse fuel (.parse_block none .none) d2 = .ok (inner, d3)) :
    ∃ P V, rule.children = [P, V] ∧
      parse_block_statement (parse fuel) sr io block d =
        .ok (({ block with children := block.children ++
          [⟨.propset, d3.path, d3.line, Token.make, false, false,
            [P, { inner with children :=
              { rule with children :=
                [⟨.property, d3.path, d3.line, Token.make, false, false, []⟩, V] } ::
              inner.children }]⟩] }, false), d3) := by
  have hc : ∃ P V, rule.children = [P, V] := by
    cases fuel with
    | zero => rw [parse_zero] at hrule; cases hrule
    | succ k => exact (parse_rule_children (parse k) d rule d2 hrule).2
  obtain ⟨P, V, hc⟩ := hc
  refine ⟨P, V, hc, ?_⟩
  rw [parse_block_statement_declaration (parse fuel) sr io block d h, hrule]
  simp only [hb, if_true, hinner, hc, Node.push_back, Node.push_front, List.headD_cons,
    List.tail_cons, List.nil_append, List.cons_append]

/-- C28 at the declaration `p: v` followed by the block `{ b: c; }`. -/
theorem declaration_promoted_witness :
    parse_block_statement (parse 100) none .none (inner .block [])
        (Document.of_string "p: v \x7b b: c; \x7d \x7d") =
      .ok ((inner .block [inner .propset [leaf .property 0 1,
        inner .block [inner .rule [inner .property [], leaf .identifier 3 4],
          inner .rule [leaf .property 7 8, leaf .identifier 10 11]]]], false),
        (Document.of_string "p: v \x7b b: c; \x7d \x7d").moved 13 14) := by
  obtain ⟨P, V, hc, hres⟩ := declaration_promoted 100 none .none (inner .block [])
    (inner .rule [leaf .property 0 1, leaf .identifier 3 4])
    (inner .block [inner .rule [leaf .property 7 8, leaf .identifier 10 11]])
    (Document.of_string "p: v \x7b b: c; \x7d \x7d")
    ((Document.of_string "p: v \x7b b: c; \x7d \x7d").moved 3 4)
    ((Document.of_string "p: v \x7b b: c; \x7d \x7d").moved 13 14)
    (by decide!) (by decide!) (by decide!) (by decide!)
  cases hc
  exact hres

/-! ### Imports -/

theorem returns_kind_throw (t : NodeType) (m : String) :
    (throw_syntax_error m : Parser Node).returns_kind t := fun _ _ _ e => by cases e

theorem returns_kind_pure (t : NodeType) (n : Node) (h : n.type = t) :
    (pure n : Parser Node).returns_kind t := fun _ _ _ e => by cases e; exact h

theorem returns_kind_ite {t : NodeType} (c : Prop) [Decidable c] {x y : Parser Node}
    (hx : x.returns_kind t) (hy : y.returns_kind t) : (if c then x else y).returns_kind t := by
  by_cases h : c
  · rw [if_pos h]; exact hx
  · rw [if_neg h]; exact hy

theorem returns_kind_bind {α : Type} {t : NodeType} {x : Parser α} {f : α → Parser Node}
    (hf : ∀ a, (f a).returns_kind t) : (x >>= f).returns_kind t := by
  intro d b d2 e
  rw [bind_apply] at e
  split at e
  · rename_i a d1 e1
    exact hf a d1 b d2 e
  · cases e

set_option maxRecDepth 8000 in
/-- The loop of `parse_scss` returns a node of the kind of the node it is given. -/
theorem parse_scss_loop_kind (rec : Call → Parser Node) (t : NodeType)
    (ih : ∀ root, root.type = t → (rec (.parse_scss_loop root)).returns_kind t)
    (root : Node) (hr : root.type = t) : (parse_scss_loop rec root).returns_kind t := by
  have h1 : ∀ c, (root.push_back c).type = t := fun c => hr
  have h2 : ∀ c, (root.append c).type = t := fun c => hr
  have h3 : ∀ (p : Prop) [Decidable p] (c : Node),
      (if p then root.push_back c else root.append c).type = t := by
    intro p _ c
    split
    · exact hr
    · exact hr
  unfold parse_scss_loop
  dsimp only
  repeat (first
    | (with_reducible first
      | exact returns_kind_throw _ _
      | exact returns_kind_pure _ _ hr
      | exact ih _ hr
      | exact ih _ (h1 _)
      | exact ih _ (h3 _ _)
      | refine returns_kind_ite _ ?_ ?_
      | refine returns_kind_bind (fun _ => ?_))
    | dsimp only)

/-- The node that `parse_scss` returns is of the kind `root`. -/
theorem parse_scss_kind (fuel : Nat) : (parse fuel .parse_scss).returns_kind .root := by
  have hl : ∀ (k : Nat) (root : Node), root.type = .root →
      (parse k (.parse_scss_loop root)).returns_kind .root := by
    intro k
    induction k with
    | zero => intro root _ d n d1 e; rw [parse_zero] at e; cases e
    | succ k ih =>
      intro root hr
      rw [parse_succ]
      exact parse_scss_loop_kind (parse k) .root ih root hr
  cases fuel with
  | zero => intro d n d1 e; rw [parse_zero] at e; cases e
  | succ k =>
    rw [parse_succ]
    show (parse_scss (parse k)).returns_kind .root
    unfold parse_scss
    intro d n d1 e
    simp only [bind_apply, lex_optional_spaces, lex_with_apply, new_Node_at] at e
    exact hl k _ rfl _ n d1 e

/-- The scan for the closing quote over a text without quotes and backslashes. -/
theorem delimited_scan_quote (rest : List Char) : ∀ (f : List Char) (prev : Char) (fuel : Nat),
    f.length < fuel → prev ≠ '\\' → '"' ∉ f → '\\' ∉ f →
    Prelexer.delimited_scan ['"'] true fuel prev (f ++ '"' :: rest) = some rest := by
  intro f
  induction f with
  | nil =>
    intro prev fuel hf hp _ _
    obtain ⟨k, rfl⟩ : ∃ k, fuel = k + 1 := ⟨fuel - 1, by omega⟩
    simp [Prelexer.delimited_scan, Prelexer.exactly_s, hp]
  | cons c f ih =>
    intro prev fuel hf hp hq hb
    obtain ⟨k, rfl⟩ : ∃ k, fuel = k + 1 := ⟨fuel - 1, by omega⟩
    have hc1 : c ≠ '"' := fun e => hq (by simp [e])
    have hc2 : c ≠ '\\' := fun e => hb (by simp [e])
    have hq1 : '"' ∉ f := fun e => hq (by simp [e])
    have hb1 : '\\' ∉ f := fun e => hb (by simp [e])
    have hk : f.length < k := by simp only [List.length_cons] at hf; omega
    simp only [List.cons_append, Prelexer.delimited_scan, Prelexer.exactly_s, hc1, if_false]
    exact ih c k hk hc2 hq1 hb1

/-- A quoted text without quotes and backslashes is a string constant. -/
theorem string_constant_quoted (f rest : List Char) (hq : '"' ∉ f) (hb : '\\' ∉ f) :
    Prelexer.string_constant ('"' :: (f ++ '"' :: rest)) = some rest := by
  have h := delimited_scan_quote rest f '"' ((f ++ '"' :: rest).length + 1)
    (by simp only [List.length_append]; omega) (by decide) hq hb
  simp only [Prelexer.string_constant, Prelexer.alternatives, Prelexer.double_quoted_string,
    Prelexer.delimited_by, Prelexer.exactly_s, if_true]
  show (match Prelexer.delimited_scan ['"'] true ((f ++ '"' :: rest).length + 1) '"'
    (f ++ '"' :: rest) with
    | some r => some r
    | none => _) = some rest
  rw [h]

/-- C26: a wrapper whose whole content is `@import "f";`, where the loader has the file
`fsrc` for the path of `f` next to the wrapper, and a file that `parse_scss` parses
without error: `parse_scss` returns on the wrapper too (with three more units of fuel),
and the children of the root of the wrapper are the children of the root of the file,
the same nodes in the same order. -/
theorem import_wrapper (fuel : Nat) (files : List (List Char × List Char))
    (wpath f fsrc : List Char) (n : Node) (d1 : Document)
    (hq : '"' ∉ f) (hb : '\\' ∉ f) (hn : '\n' ∉ f)
    (hload : files.lookup (current_path wpath ++ f) = some fsrc)
    (h : parse fuel .parse_scss (Document.make files (current_path wpath ++ f) fsrc) =
      .ok (n, d1)) :
    ∃ w dw, parse (fuel + 3) .parse_scss
        (Document.make files wpath ("@import \"".toList ++ (f ++ "\";".toList))) =
      .ok (w, dw) ∧ w.children = n.children := by
  generalize hd0 : Document.make files wpath ("@import \"".toList ++ (f ++ "\";".toList)) = d0
  have hsrc : d0.source = "@import \"".toList ++ (f ++ "\";".toList) := by rw [← hd0]; rfl
  have hpos : d0.position = 0 := by rw [← hd0]; rfl
  have hend : d0.end_ = d0.source.length := by rw [← hd0]; rfl
  have hctx : d0.context = ⟨files, [], false⟩ := by rw [← hd0]; rfl
  have hpath : d0.path = wpath := by rw [← hd0]; rfl
  have hlen : d0.source.length = f.length + 11 := by
    have a : "@import \"".toList.length = 9 := rfl
    have b : "\";".toList.length = 2 := rfl
    rw [hsrc]
    simp only [List.length_append, a, b]
    omega
  have hrest0 : d0.source.drop d0.position = "@import \"".toList ++ (f ++ "\";".toList) := by
    rw [hpos, hsrc]; rfl
  -- the spaces before the first statement: none
  have hos : d0.lexed_with .optional_spaces Prelexer.optional_spaces =
      { d0 with lexed := ⟨0, 0⟩ } := by
    unfold Document.lexed_with
    rw [hrest0]
    have e : Prelexer.optional_spaces (after_whitespace .optional_spaces
        ("@import \"".toList ++ (f ++ "\";".toList))) =
        some ("@import \"".toList ++ (f ++ "\";".toList)) := rfl
    rw [e]
    have e1 : after_whitespace .optional_spaces ("@import \"".toList ++ (f ++ "\";".toList)) =
        "@import \"".toList ++ (f ++ "\";".toList) := rfl
    rw [e1]
    have e2 : d0.offset ("@import \"".toList ++ (f ++ "\";".toList)) = 0 := by
      unfold Document.offset
      rw [← hsrc]
      omega
    simp only [e2, count_interval, hpos, Nat.sub_self, List.take_zero, List.count_nil,
      Nat.add_zero]
  have hos1 : d0.lexed_with .optional_spaces Prelexer.optional_spaces = d0 := by
    rw [hos, ← hd0]; rfl
  have hnt : n.type = .root := parse_scss_kind fuel _ n d1 h
  -- no comment, and `@import` comes next
  have hbc : d0.sees .before_block_comment Prelexer.block_comment = false := by
    unfold Document.sees
    rw [hrest0]
    rfl
  have hahead0 : d0.ahead = "@import \"".toList ++ (f ++ "\";".toList) := by
    unfold Document.ahead
    rw [hrest0]
    rfl
  have hsi : d0.sees .spaces_and_comments Prelexer.import_ = true := by
    rw [d0.sees_ahead, hahead0]
    rfl
  -- `@import` is taken
  have hli := lex_token d0 Prelexer.import_ [] "@import".toList
    (' ' :: '"' :: (f ++ "\";".toList)) hrest0 rfl rfl (by decide) (by decide)
  generalize hdA : d0.moved (d0.position + ([] : List Char).length)
    (d0.position + ([] : List Char).length + "@import".toList.length) = dA at hli
  have hrestA : dA.source.drop dA.position = [' '] ++ (('"' :: f ++ ['"']) ++ [';']) := by
    rw [← hdA]
    have := d0.moved_text (d0.position + ([] : List Char).length) [] "@import".toList
      (' ' :: '"' :: (f ++ "\";".toList)) hrest0
    rw [this]
    simp
  have hwsA : after_whitespace .spaces_and_comments ([' '] ++ (('"' :: f ++ ['"']) ++ [';'])) =
      ('"' :: f ++ ['"']) ++ [';'] :=
    after_whitespace_space '"' _ rfl (by decide)
  have haheadA : dA.ahead = ('"' :: f ++ ['"']) ++ [';'] :=
    dA.ahead_of_text _ _ hrestA hwsA
  have hlu : lex Prelexer.uri_prefix dA = .ok (false, dA) :=
    lex_miss dA _ (by rw [haheadA]; rfl)
  have hsc : Prelexer.string_constant (('"' :: f ++ ['"']) ++ [';']) = some [';'] := by
    have := string_constant_quoted f [';'] hq hb
    simpa using this
  have hls := lex_token dA Prelexer.string_constant [' '] ('"' :: f ++ ['"']) [';'] hrestA
    hwsA hsc (by
      simp only [List.cons_append, List.nil_append, List.count_cons, List.count_append,
        List.count_nil, List.count_eq_zero_of_not_mem hn]
      decide) (by simp)
  generalize hdB : dA.moved (dA.position + [' '].length)
    (dA.position + [' '].length + ('"' :: f ++ ['"']).length) = dB at hls
  have hrestB : dB.source.drop dB.position = [';'] := by
    rw [← hdB]
    exact dA.moved_text _ [' '] ('"' :: f ++ ['"']) [';'] hrestA
  have hpathB : dB.path = wpath := by rw [← hdB, ← hdA]; exact hpath
  have hctxB : dB.context = ⟨files, [], false⟩ := by rw [← hdB, ← hdA]; exact hctx
  have hsrcB : dB.source = d0.source := by rw [← hdB, ← hdA]; rfl
  have hendB : dB.end_ = d0.end_ := by rw [← hdB, ← hdA]; rfl
  have hunq : dB.lexed.unquote dB.source = f := by
    have ht := Token.text_of_drop dA.source dA.position [' '] ('"' :: f ++ ['"']) [';'] hrestA
    have e : dB.lexed = ⟨dA.position + [' '].length,
        dA.position + [' '].length + ('"' :: f ++ ['"']).length⟩ := by rw [← hdB]; rfl
    have e2 : dB.source = dA.source := by rw [← hdB]; rfl
    unfold Token.unquote
    rw [e, e2, ht]
    simp
  -- the file is parsed in place of the statement
  have hfile : in_file (current_path wpath ++ f) (parse fuel .parse_scss) dB =
      .ok (n, { dB with context := d1.context }) := by
    unfold in_file
    rw [hctxB]
    have e : (⟨files, [], false⟩ : Context).load (current_path wpath ++ f) = some fsrc := hload
    rw [e]
    have e2 : parse fuel .parse_scss
        { path := current_path wpath ++ f, source := fsrc, position := 0,
          end_ := fsrc.length, line := 1, lexed := Token.make,
          context := ⟨files, [], false⟩ } = .ok (n, d1) := h
    simp only [e2]
  have himp : parse (fuel + 1) .parse_import d0 =
      .ok (n, { dB with context := d1.context }) := by
    rw [parse_succ]
    show parse_import (parse fuel) d0 = _
    unfold parse_import
    simp only [bind_apply, hli, hlu, hls, if_true, Bool.false_eq_true, if_false,
      Bool.not_true, import_path, hpathB, hunq, hfile]
  -- the `;`, and the end of the buffer
  generalize hdC : ({ dB with context := d1.context } : Document) = dC at himp
  have hrestC : dC.source.drop dC.position = [] ++ ([';'] ++ []) := by
    rw [← hdC]; exact hrestB
  have hlsemi := lex_token dC (Prelexer.exactly ';') [] [';'] [] hrestC rfl rfl (by decide)
    (by decide)
  generalize hdD : dC.moved (dC.position + ([] : List Char).length)
    (dC.position + ([] : List Char).length + [';'].length) = dD at hlsemi
  have hrestD : dD.source.drop dD.position = [] := by
    rw [← hdD]
    exact dC.moved_text _ [] [';'] [] hrestC
  have hsrcD : dD.source = d0.source := by rw [← hdD, ← hdC]; exact hsrcB
  have hendD : dD.end_ = d0.end_ := by rw [← hdD, ← hdC]; exact hendB
  have hlast : ¬ (dD.lexed_with .optional_spaces Prelexer.optional_spaces).position <
      (dD.lexed_with .optional_spaces Prelexer.optional_spaces).end_ := by
    unfold Document.lexed_with
    rw [hrestD]
    have e : Prelexer.optional_spaces (after_whitespace .optional_spaces []) = some [] := rfl
    rw [e]
    simp only [Document.offset, List.length_nil, Nat.sub_zero, hendD, hend, hsrcD]
    omega
  have hloop2 : ∀ root, parse (fuel + 1) (.parse_scss_loop root)
      (dD.lexed_with .optional_spaces Prelexer.optional_spaces) =
      .ok (root, dD.lexed_with .optional_spaces Prelexer.optional_spaces) := by
    intro root
    rw [parse_succ]
    show parse_scss_loop (parse fuel) root _ = _
    unfold parse_scss_loop
    simp only [bind_apply, before_end, hlast, decide_False, Bool.false_eq_true, if_false,
      pure_apply]
  have hloop : parse (fuel + 2) (.parse_scss_loop ⟨.root, wpath, 1, Token.make, false, false, []⟩)
      d0 = .ok ((⟨.root, wpath, 1, Token.make, false, false, []⟩ : Node).append n,
        dD.lexed_with .optional_spaces Prelexer.optional_spaces) := by
    rw [parse_succ]
    show parse_scss_loop (parse (fuel + 1)) _ d0 = _
    unfold parse_scss_loop
    have hb0 : d0.position < d0.end_ := by rw [hpos, hend, hlen]; omega
    have hcss : ¬ n.type = .css_import := by rw [hnt]; decide
    simp only [bind_apply, before_end, hb0, decide_True, if_true, lex_block_comment_apply,
      hbc, Document.lexed_with_of_not_sees hbc, Bool.false_eq_true, if_false, peek_apply,
      hsi, himp, hcss, hlsemi, Bool.not_true, lex_optional_spaces, lex_with_apply, hloop2]
  refine ⟨(⟨.root, wpath, 1, Token.make, false, false, []⟩ : Node).append n,
    dD.lexed_with .optional_spaces Prelexer.optional_spaces, ?_, ?_⟩
  · rw [parse_succ]
    show parse_scss (parse (fuel + 2)) d0 = _
    unfold parse_scss
    simp only [bind_apply, lex_optional_spaces, lex_with_apply, hos1, new_Node_at, hpath,
      hloop]
  · simp [Node.append]

/-- C26 at the file `x` with the text `b { c: d; }` and the wrapper `@import "x";`: the
root of the wrapper has the one child that the root of the file has, the ruleset with
the path `x`. -/
theorem import_wrapper_witness :
    (∃ w dw, parse (100 + 3) .parse_scss
        (Document.make [("x".toList, "b { c: d; }".toList)] []
          ("@import \"".toList ++ ("x".toList ++ "\";".toList))) = .ok (w, dw) ∧
      w.children = (⟨.root, "x".toList, 1, Token.make, false, false,
        [⟨.ruleset, "x".toList, 1, Token.make, false, false,
          [⟨.simple_selector, "x".toList, 1, ⟨0, 1⟩, false, false, []⟩,
           ⟨.block, "x".toList, 1, Token.make, false, false,
             [⟨.rule, "x".toList, 1, Token.make, false, false,
               [⟨.property, "x".toList, 1, ⟨4, 5⟩, false, false, []⟩,
                ⟨.identifier, "x".toList, 1, ⟨7, 8⟩, false, false, []⟩]⟩]⟩]⟩]⟩ :
          Node).children) ∧
    parse 103 .parse_scss (Document.make [("x".toList, "b { c: d; }".toList)] []
        "@import \"x\";".toList) =
      .ok (inner .root
        [⟨.ruleset, "x".toList, 1, Token.make, false, false,
          [⟨.simple_selector, "x".toList, 1, ⟨0, 1⟩, false, false, []⟩,
           ⟨.block, "x".toList, 1, Token.make, false, false,
             [⟨.rule, "x".toList, 1, Token.make, false, false,
               [⟨.property, "x".toList, 1, ⟨4, 5⟩, false, false, []⟩,
                ⟨.identifier, "x".toList, 1, ⟨7, 8⟩, false, false, []⟩]⟩]⟩]⟩],
        { Document.make [("x".toList, "b { c: d; }".toList)] [] "@import \"x\";".toList with
          position := 12, lexed := ⟨12, 12⟩ }) :=
  ⟨import_wrapper 100 [("x".toList, "b { c: d; }".toList)] [] "x".toList
      "b { c: d; }".toList _
      { Document.make [("x".toList, "b { c: d; }".toList)] "x".toList
          "b { c: d; }".toList with position := 11, lexed := ⟨11, 11⟩ }
      (by decide) (by decide) (by decide) (by decide!) (by decide!),
   by decide!⟩

/-! ### Lexing of identifiers -/

theorem ne_of_name_start {c x : Char} (h : is_name_start c = true)
    (hx : is_name_start x = false) : c ≠ x := by
  rintro rfl
  rw [h] at hx
  cases hx

theorem ne_of_name_char {c x : Char} (h : is_name_char c = true)
    (hx : is_name_char x = false) : c ≠ x := by
  rintro rfl
  rw [h] at hx
  cases hx

theorem is_name_char_of_start {c : Char} (h : is_name_start c = true) :
    is_name_char c = true := by
  unfold is_name_start at h
  unfold is_name_char Prelexer.isalnum
  simp only [Bool.or_eq_true, beq_iff_eq] at h ⊢
  rcases h with h | h
  · exact Or.inl (Or.inl (Or.inl h))
  · exact Or.inr h

theorem name_char_not_space {c : Char} (h : is_name_char c = true) :
    Prelexer.isspace c = false := by
  have h32 : c ≠ ' ' := ne_of_name_char h (by decide)
  have h9 : c ≠ Char.ofNat 9 := ne_of_name_char h (by decide)
  have h10 : c ≠ Char.ofNat 10 := ne_of_name_char h (by decide)
  have h11 : c ≠ Char.ofNat 11 := ne_of_name_char h (by decide)
  have h12 : c ≠ Char.ofNat 12 := ne_of_name_char h (by decide)
  have h13 : c ≠ Char.ofNat 13 := ne_of_name_char h (by decide)
  unfold Prelexer.isspace
  simp only [Bool.or_eq_false_iff, decide_eq_false_iff_not, Bool.and_eq_false_imp,
    decide_eq_true_eq]
  refine ⟨h32, fun a b => ?_⟩
  have hc : Char.ofNat c.toNat = c := Char.ofNat_toNat c
  rw [← hc] at h9 h10 h11 h12 h13
  generalize c.toNat = n at a b h9 h10 h11 h12 h13
  interval_cases n <;> simp_all

theorem name_start_not_digit {c : Char} (h : is_name_start c = true) :
    Prelexer.isdigit c = false := by
  unfold is_name_start Prelexer.isalpha at h
  unfold Prelexer.isdigit
  simp only [Bool.or_eq_true, Bool.and_eq_true, decide_eq_true_eq, beq_iff_eq] at h
  simp only [Bool.and_eq_false_imp, decide_eq_true_eq, decide_eq_false_iff_not]
  intro a
  rcases h with (h | h) | h
  · omega
  · omega
  · subst h
    decide

namespace Prelexer

/-- One byte of a name is one turn of the loop of `identifier`. -/
theorem name_char_step (c : Char) (t : List Char) (h : is_name_char c = true) :
    alternatives [alnum, exactly '-', exactly '_', backslash_something] (c :: t) =
      some t := by
  unfold is_name_char at h
  simp only [Bool.or_eq_true, beq_iff_eq] at h
  by_cases h1 : isalnum c = true
  · simp [alternatives, alnum, satisfy, h1]
  · have h1f : isalnum c = false := by simpa using h1
    rcases h with (h | h) | h
    · exact absurd h h1
    · subst h
      rfl
    · subst h
      rfl

theorem name_run (cs t : List Char) (fuel : Nat) (hcs : ∀ c ∈ cs, is_name_char c = true)
    (ht : alternatives [alnum, exactly '-', exactly '_', backslash_something] t = none)
    (hf : cs.length < fuel) :
    star (alternatives [alnum, exactly '-', exactly '_', backslash_something]) fuel
      (cs ++ t) = t := by
  induction cs generalizing fuel with
  | nil => exact star_none _ _ _ ht
  | cons c cs ih =>
    cases fuel with
    | zero => simp at hf
    | succ k =>
      have hc : is_name_char c = true := hcs c (List.mem_cons_self _ _)
      simp only [List.cons_append, star, name_char_step c _ hc]
      exact ih k (fun x hx => hcs x (List.mem_cons_of_mem _ hx)) (by simpa using hf)

theorem name_start_step (c : Char) (t : List Char) (h : is_name_start c = true) :
    alternatives [alpha, exactly '_', backslash_something] (c :: t) = some t := by
  unfold is_name_start at h
  simp only [Bool.or_eq_true, beq_iff_eq] at h
  by_cases h1 : isalpha c = true
  · simp [alternatives, alpha, satisfy, h1]
  · rcases h with h | h
    · exact absurd h h1
    · subst h
      rfl

/-- The matcher `identifier` takes a name that a byte outside names follows. -/
theorem plain_identifier_run (s t : List Char) (hs : is_plain_identifier s = true)
    (ht : alternatives [alnum, exactly '-', exactly '_', backslash_something] t = none) :
    identifier (s ++ t) = some t := by
  cases s with
  | nil => cases hs
  | cons c cs =>
    simp only [is_plain_identifier, Bool.and_eq_true, List.all_eq_true] at hs
    obtain ⟨hc, hcs⟩ := hs
    have hd : c ≠ '-' := ne_of_name_start hc (by decide)
    simp only [identifier, sequence, optional, List.cons_append, exactly, hd, if_false,
      name_start_step c _ hc, zero_plus]
    rw [name_run cs t _ hcs ht (by simp; omega)]

/-- The matcher `identifier` takes an identifier that a byte outside names follows. -/
theorem identifier_run (s t : List Char) (hs : is_identifier s = true)
    (ht : alternatives [alnum, exactly '-', exactly '_', backslash_something] t = none) :
    identifier (s ++ t) = some t := by
  cases s with
  | nil => cases hs
  | cons c cs =>
    simp only [is_identifier, Bool.or_eq_true, Bool.and_eq_true, beq_iff_eq] at hs
    rcases hs with hs | ⟨rfl, hs⟩
    · exact plain_identifier_run _ t hs ht
    · cases cs with
      | nil => cases hs
      | cons c2 cs =>
        simp only [is_plain_identifier, Bool.and_eq_true, List.all_eq_true] at hs
        obtain ⟨hc, hcs⟩ := hs
        simp only [identifier, sequence, optional, List.cons_append, exactly, if_true,
          name_start_step c2 _ hc, zero_plus]
        rw [name_run cs t _ hcs ht (by simp; omega)]

end Prelexer

theorem is_plain_identifier_chars (s : List Char) (hs : is_plain_identifier s = true) :
    ∀ c ∈ s, is_name_char c = true := by
  cases s with
  | nil => cases hs
  | cons c cs =>
    simp only [is_plain_identifier, Bool.and_eq_true, List.all_eq_true] at hs
    intro x hx
    rcases List.mem_cons.1 hx with rfl | hx
    · exact is_name_char_of_start hs.1
    · exact hs.2 x hx

theorem is_identifier_chars (s : List Char) (hs : is_identifier s = true) :
    ∀ c ∈ s, is_name_char c = true := by
  cases s with
  | nil => cases hs
  | cons c cs =>
    simp only [is_identifier, Bool.or_eq_true, Bool.and_eq_true, beq_iff_eq] at hs
    rcases hs with hs | ⟨rfl, hs⟩
    · exact is_plain_identifier_chars _ hs
    · intro x hx
      rcases List.mem_cons.1 hx with rfl | hx
      · decide
      · exact is_plain_identifier_chars _ hs x hx

theorem is_identifier_newline (s : List Char) (hs : is_identifier s = true) :
    s.count '\n' = 0 := by
  rw [List.count_eq_zero]
  intro hmem
  exact absurd (is_identifier_chars s hs _ hmem) (by decide)

theorem is_identifier_ne_nil (s : List Char) (hs : is_identifier s = true) : s ≠ [] := by
  rintro rfl
  cases hs

/-- An identifier is a name, or `-` and a name. -/
theorem is_identifier_cases (s : List Char) (hs : is_identifier s = true) :
    is_plain_identifier s = true ∨ ∃ w, s = '-' :: w ∧ is_plain_identifier w = true := by
  cases s with
  | nil => cases hs
  | cons c cs =>
    simp only [is_identifier, Bool.or_eq_true, Bool.and_eq_true, beq_iff_eq] at hs
    rcases hs with hs | ⟨rfl, hs⟩
    · exact Or.inl hs
    · exact Or.inr ⟨cs, rfl, hs⟩

theorem is_plain_identifier_head (s : List Char) (hs : is_plain_identifier s = true) :
    ∃ c cs, s = c :: cs ∧ is_name_start c = true := by
  cases s with
  | nil => cases hs
  | cons c cs =>
    simp only [is_plain_identifier, Bool.and_eq_true] at hs
    exact ⟨c, cs, rfl, hs.1⟩

/-- The first byte of an identifier: a letter, `_` or `-`. -/
theorem is_identifier_head (s : List Char) (hs : is_identifier s = true) :
    ∃ c cs, s = c :: cs ∧ (is_name_start c = true ∨ c = '-') := by
  rcases is_identifier_cases s hs with h | ⟨w, rfl, -⟩
  · obtain ⟨c, cs, e, hc⟩ := is_plain_identifier_head s h
    exact ⟨c, cs, e, Or.inl hc⟩
  · exact ⟨'-', w, rfl, Or.inr rfl⟩

theorem ne_of_head {c x : Char} (h : is_name_start c = true ∨ c = '-')
    (hx : is_name_char x = false) : c ≠ x := by
  rcases h with h | rfl
  · exact ne_of_name_char (is_name_char_of_start h) hx
  · rintro rfl
    exact absurd hx (by decide)

/-! ### A statement that starts with an identifier -/

/-- What `at_text` says, with the skipped spaces named. -/
theorem Document.at_text_unpack (d : Document) (s : List Char) (hne : s ≠ [])
    (h : d.at_text s = true) :
    ∃ ws, d.source.drop d.position = ws ++ s ∧
      after_whitespace .spaces_and_comments (ws ++ s) = s ∧ ws.count '\n' = 0 ∧
      d.sees .before_block_comment Prelexer.block_comment = false := by
  unfold Document.at_text at h
  simp only [Bool.and_eq_true, beq_iff_eq, Bool.not_eq_true'] at h
  obtain ⟨⟨h1, h2⟩, h3⟩ := h
  obtain ⟨ws, hws⟩ := after_whitespace_suffix .spaces_and_comments (d.source.drop d.position)
  have ha : after_whitespace .spaces_and_comments (d.source.drop d.position) = s := h1
  rw [ha] at hws
  refine ⟨ws, hws.symm, ?_, ?_, h3⟩
  · rw [hws, ha]
  · have hlen : d.source.length - d.position = ws.length + s.length := by
      have := congrArg List.length hws
      simpa using this.symm
    have hpos : 0 < s.length := List.length_pos.2 hne
    unfold count_interval Document.offset at h2
    have e : d.source.length - s.length - d.position = ws.length := by omega
    rw [e, ← hws, List.take_left] at h2
    exact h2

theorem lookahead_loop_succ (d : Document) (fuel p : Nat) (s : Bool) :
    lookahead_loop d (fuel + 1) p s =
      match peek_at .spaces_and_comments selector_token d p with
      | some q =>
        lookahead_loop d fuel q
          (if (d.source.drop (q - 1)).head? = some '}' then true else s)
      | none => (p, s) := rfl

/-- The byte before the end of a token is a byte of the token. -/
theorem drop_pred_head (src : List Char) (q : Nat) (a s t : List Char)
    (h : src.drop q = a ++ (s ++ t)) (hs : s ≠ []) :
    ∃ x ∈ s, (src.drop (q + a.length + s.length - 1)).head? = some x := by
  obtain ⟨s1, x, rfl⟩ : ∃ s1 x, s = s1 ++ [x] :=
    ⟨s.dropLast, s.getLast hs, (List.dropLast_append_getLast hs).symm⟩
  refine ⟨x, by simp, ?_⟩
  have e : q + a.length + (s1 ++ [x]).length - 1 = q + (a ++ s1).length := by
    simp only [List.length_append, List.length_singleton]
    omega
  rw [e, ← List.drop_drop, h]
  have e2 : a ++ (s1 ++ [x] ++ t) = (a ++ s1) ++ (x :: t) := by simp
  rw [e2, List.drop_left]
  rfl

/-- The offset of what follows a token. -/
theorem Document.offset_of_drop (d : Document) (q : Nat) (a t : List Char)
    (h : d.source.drop q = a ++ t) (ha : a ≠ []) : d.offset t = q + a.length := by
  have hlen : d.source.length - q = a.length + t.length := by
    have := congrArg List.length h
    simpa using this
  have hpos : 0 < a.length := List.length_pos.2 ha
  unfold Document.offset
  omega

/-- One turn of the arbiter at an identifier: the cursor of the arbiter moves to its
end, and no interpolant is recorded. -/
theorem lookahead_turn_identifier (d : Document) (fuel q : Nat) (fl : Bool)
    (ws s t : List Char)
    (hq : d.source.drop q = ws ++ (s ++ t))
    (hws : after_whitespace .spaces_and_comments (ws ++ (s ++ t)) = s ++ t)
    (hs : is_identifier s = true)
    (ht : Prelexer.alternatives [Prelexer.alnum, Prelexer.exactly '-', Prelexer.exactly '_',
      Prelexer.backslash_something] t = none) :
    lookahead_loop d (fuel + 1) q fl =
      lookahead_loop d fuel (q + ws.length + s.length) fl := by
  have hne := is_identifier_ne_nil s hs
  have hm : selector_token (s ++ t) = some t := by
    unfold selector_token
    rw [Prelexer.alternatives, Prelexer.identifier_run s t hs ht]
  have ho : d.offset t = q + ws.length + s.length := by
    have := d.offset_of_drop q (ws ++ s) t (by rw [hq]; simp) (by simp [hne])
    rw [this, List.length_append]
    omega
  obtain ⟨x, hx, hh⟩ := drop_pred_head d.source q ws s t hq hne
  have hx2 : x ≠ '}' := ne_of_name_char (is_identifier_chars s hs x hx) (by decide)
  rw [lookahead_loop_succ]
  unfold peek_at
  rw [hq, hws, hm]
  simp only [ho, hh, Option.some.injEq, hx2, if_false]

/-- One turn of the arbiter at a `:` with an identifier right after it. -/
theorem lookahead_turn_pseudo (d : Document) (fuel q : Nat) (fl : Bool)
    (s t : List Char)
    (hq : d.source.drop q = ':' :: (s ++ t))
    (hs : is_identifier s = true)
    (ht : Prelexer.alternatives [Prelexer.alnum, Prelexer.exactly '-', Prelexer.exactly '_',
      Prelexer.backslash_something] t = none) :
    lookahead_loop d (fuel + 1) q fl =
      lookahead_loop d fuel (q + 1 + s.length) fl := by
  have hne := is_identifier_ne_nil s hs
  obtain ⟨c, cs, e, hc⟩ := is_identifier_head s hs
  have hcolon : c ≠ ':' := ne_of_head hc (by decide)
  have hpre : Prelexer.pseudo_prefix (':' :: (s ++ t)) = some (s ++ t) := by
    rw [e]
    simp [ Prelexer.pseudo_prefix, Prelexer.sequence, Prelexer.exactly, Prelexer.optional,
      hcolon]
  have hm : selector_token (':' :: (s ++ t)) = some t := by
    have i1 : Prelexer.identifier (':' :: (s ++ t)) = none := rfl
    have i2 : Prelexer.id_name (':' :: (s ++ t)) = none := rfl
    have i3 : Prelexer.class_name (':' :: (s ++ t)) = none := rfl
    have i4 : Prelexer.sequence [ Prelexer.pseudo_prefix, Prelexer.identifier]
        (':' :: (s ++ t)) = some t := by
      simp only [Prelexer.sequence, hpre, Prelexer.identifier_run s t hs ht]
    unfold selector_token
    rw [Prelexer.alternatives, i1]
    simp only []
    rw [Prelexer.alternatives, i2]
    simp only []
    rw [Prelexer.alternatives, i3]
    simp only []
    rw [Prelexer.alternatives, i4]
  have ho : d.offset t = q + 1 + s.length := by
    have := d.offset_of_drop q (':' :: s) t (by rw [hq]; simp) (by simp)
    rw [this, List.length_cons]
    omega
  obtain ⟨x, hx, hh⟩ := drop_pred_head d.source q [':'] s t (by rw [hq]; rfl) hne
  have hx2 : x ≠ '}' := ne_of_name_char (is_identifier_chars s hs x hx) (by decide)
  have hws : after_whitespace .spaces_and_comments (':' :: (s ++ t)) = ':' :: (s ++ t) :=
    after_whitespace_self ':' _ (by decide) (by decide)
  rw [lookahead_loop_succ]
  unfold peek_at
  rw [hq, hws, hm]
  simp only [List.length_singleton] at hh
  simp only [ho, hh, Option.some.injEq, hx2, if_false]

/-- The arbiter stops where no token of a selector stands. -/
theorem lookahead_turn_miss (d : Document) (fuel q : Nat) (fl : Bool)
    (h : selector_token (after_whitespace .spaces_and_comments (d.source.drop q)) = none) :
    lookahead_loop d (fuel + 1) q fl = (q, fl) := by
  rw [lookahead_loop_succ]
  unfold peek_at
  rw [h]

theorem drop_after (src : List Char) (q : Nat) (a t : List Char) (h : src.drop q = a ++ t) :
    src.drop (q + a.length) = t := by
  rw [← List.drop_drop, h, List.drop_left]

/-- The look-ahead at `p:v {`: a selector is found, and it ends right after `v`. -/
theorem lookahead_at_pseudo (d : Document) (ws p v rest : List Char)
    (hrest : d.source.drop d.position = ws ++ (p ++ ':' :: (v ++ ' ' :: '{' :: rest)))
    (hws : after_whitespace .spaces_and_comments (ws ++ (p ++ ':' :: (v ++ ' ' :: '{' :: rest)))
      = p ++ ':' :: (v ++ ' ' :: '{' :: rest))
    (hp : is_identifier p = true) (hv : is_identifier v = true) :
    lookahead_for_selector d d.position =
      ⟨some (d.position + ws.length + p.length + 1 + v.length), false⟩ := by
  have hlen : d.source.length - d.position =
      ws.length + (p.length + (v.length + rest.length + 2) + 1) := by
    have := congrArg List.length hrest
    simpa using this
  obtain ⟨n, hn⟩ : ∃ n, d.source.length + 1 = n + 3 := ⟨d.source.length - 2, by omega⟩
  have h1 : d.source.drop (d.position + ws.length + p.length) =
      ':' :: (v ++ ' ' :: '{' :: rest) := by
    have := drop_after d.source d.position (ws ++ p) (':' :: (v ++ ' ' :: '{' :: rest))
      (by rw [hrest]; simp)
    rw [← this, List.length_append, Nat.add_assoc]
  have h2 : d.source.drop (d.position + ws.length + p.length + 1 + v.length) =
      ' ' :: '{' :: rest := by
    have := drop_after d.source (d.position + ws.length + p.length) (':' :: v) _
      (by rw [h1]; rfl)
    rw [← this, List.length_cons]
    congr 1
    omega
  have hl : lookahead_loop d (d.source.length + 1) d.position false =
      (d.position + ws.length + p.length + 1 + v.length, false) := by
    rw [hn, lookahead_turn_identifier d (n + 2) d.position false ws p _ hrest hws hp rfl,
      lookahead_turn_pseudo d (n + 1) _ false v _ h1 hv rfl,
      lookahead_turn_miss d n _ false (by
        rw [h2, after_whitespace_space '{' rest (by decide) (by decide)]
        rfl)]
  unfold lookahead_for_selector
  simp only [hl]
  unfold peek_at
  rw [h2, after_whitespace_space '{' rest (by decide) (by decide)]
  rfl

/-- The look-ahead at `p: …`, a space after the colon: no selector is found. -/
theorem lookahead_at_colon_space (d : Document) (ws p rest : List Char)
    (hrest : d.source.drop d.position = ws ++ (p ++ ':' :: ' ' :: rest))
    (hws : after_whitespace .spaces_and_comments (ws ++ (p ++ ':' :: ' ' :: rest))
      = p ++ ':' :: ' ' :: rest)
    (hp : is_identifier p = true) :
    lookahead_for_selector d d.position = ⟨none, false⟩ := by
  have hlen : d.source.length - d.position = ws.length + (p.length + (rest.length + 2)) := by
    have := congrArg List.length hrest
    simpa using this
  obtain ⟨n, hn⟩ : ∃ n, d.source.length + 1 = n + 2 := ⟨d.source.length - 1, by omega⟩
  have h1 : d.source.drop (d.position + ws.length + p.length) = ':' :: ' ' :: rest := by
    have := drop_after d.source d.position (ws ++ p) (':' :: ' ' :: rest)
      (by rw [hrest]; simp)
    rw [← this, List.length_append, Nat.add_assoc]
  have hw : after_whitespace .spaces_and_comments (':' :: ' ' :: rest) = ':' :: ' ' :: rest :=
    after_whitespace_self ':' _ (by decide) (by decide)
  have hl : lookahead_loop d (d.source.length + 1) d.position false =
      (d.position + ws.length + p.length, false) := by
    rw [hn, lookahead_turn_identifier d (n + 1) d.position false ws p _ hrest hws hp rfl,
      lookahead_turn_miss d n _ false (by
        rw [h1, hw]
        rfl)]
  unfold lookahead_for_selector
  simp only [hl]
  unfold peek_at
  rw [h1, hw]
  rfl

/-- A name that a space follows does not start with a text that holds, before any space,
a byte outside names. -/
theorem name_text_ne (k : List Char) (x : Char) (hx : is_name_char x = false) (hx2 : x ≠ ' ')
    (hk : ∀ c ∈ k, c ≠ ' ') (v t r : List Char) (hv : ∀ c ∈ v, is_name_char c = true) :
    v ++ ' ' :: t ≠ k ++ x :: r := by
  induction k generalizing v with
  | nil =>
    cases v with
    | nil =>
      intro e
      simp only [List.nil_append, List.cons.injEq] at e
      exact hx2 e.1.symm
    | cons c v =>
      intro e
      simp only [List.nil_append, List.cons_append, List.cons.injEq] at e
      exact ne_of_name_char (hv c (List.mem_cons_self _ _)) hx e.1
  | cons a k ih =>
    cases v with
    | nil =>
      intro e
      simp only [List.nil_append, List.cons_append, List.cons.injEq] at e
      exact hk a (List.mem_cons_self _ _) e.1.symm
    | cons c v =>
      intro e
      simp only [List.cons_append, List.cons.injEq] at e
      exact ih (fun y hy => hk y (List.mem_cons_of_mem _ hy)) v
        (fun y hy => hv y (List.mem_cons_of_mem _ hy)) e.2

namespace Prelexer

/-- A `:` with an identifier and a space after it: what matches it, and what does
not. -/
theorem pseudo_text (v t : List Char) (hv : is_identifier v = true) :
    pseudo_not (':' :: (v ++ ' ' :: t)) = none ∧
    sequence [ pseudo_prefix, functional] (':' :: (v ++ ' ' :: t)) = none ∧
    sequence [ pseudo_prefix, identifier] (':' :: (v ++ ' ' :: t)) = some (' ' :: t) := by
  obtain ⟨c, cs, e, hc⟩ := is_identifier_head v hv
  have hcolon : c ≠ ':' := ne_of_head hc (by decide)
  have hpre : pseudo_prefix (':' :: (v ++ ' ' :: t)) = some (v ++ ' ' :: t) := by
    rw [e]
    simp [ pseudo_prefix, sequence, exactly, optional, hcolon]
  have hi : identifier (v ++ ' ' :: t) = some (' ' :: t) := identifier_run v _ hv rfl
  refine ⟨?_, ?_, ?_⟩
  · cases h : pseudo_not (':' :: (v ++ ' ' :: t)) with
    | none => rfl
    | some r =>
      have h2 := (exactly_s_eq_some _ _ _).1 h
      have e2 : ":not(".toList = ':' :: (['n', 'o', 't'] ++ '(' :: r.take 0) := rfl
      rw [e2] at h2
      simp only [List.cons_append, List.cons.injEq, true_and] at h2
      exact absurd h2 (name_text_ne ['n', 'o', 't'] '(' (by decide) (by decide) (by decide)
        v t _ (is_identifier_chars v hv))
  · simp only [sequence, hpre, functional, hi]
    rfl
  · simp only [sequence, hpre, hi]

/-- An identifier with a `:` after it is a type selector. -/
theorem type_selector_text (p t : List Char) (hp : is_identifier p = true) :
    alternatives [type_selector, universal] (p ++ ':' :: t) = some (':' :: t) := by
  have hi : identifier (p ++ ':' :: t) = some (':' :: t) := identifier_run p _ hp rfl
  have hn : namespace_prefix (p ++ ':' :: t) = none := by
    simp only [ namespace_prefix, sequence, optional, alternatives, hi]
    rfl
  simp only [alternatives, type_selector, sequence, optional, hn, hi]

end Prelexer

/-! ### The selector `p:v` -/

/-- The production `parse_pseudo` at a `:` with an identifier and a space after it: a
`pseudo` leaf over the colon and the identifier. -/
theorem parse_pseudo_identifier (rec : Call → Parser Node) (d : Document) (v t : List Char)
    (hd : d.source.drop d.position = ':' :: (v ++ ' ' :: t)) (hv : is_identifier v = true) :
    parse_pseudo rec d =
      .ok (⟨.pseudo, d.path, d.line, ⟨d.position, d.position + 1 + v.length⟩, false, false, []⟩,
        d.moved d.position (d.position + 1 + v.length)) := by
  have hw : after_whitespace .spaces_and_comments (':' :: (v ++ ' ' :: t)) =
      ':' :: (v ++ ' ' :: t) := after_whitespace_self ':' _ (by decide) (by decide)
  have ha : d.ahead = ':' :: (v ++ ' ' :: t) := d.ahead_of_text [] _ hd hw
  obtain ⟨h1, h2, h3⟩ := Prelexer.pseudo_text v t hv
  have hcount : ([] ++ ':' :: v).count '\n' = 0 := by
    rw [List.nil_append, List.count_cons, is_identifier_newline v hv]
    rfl
  have hlex := lex_token d (Prelexer.sequence [ Prelexer.pseudo_prefix, Prelexer.identifier])
    [] (':' :: v) (' ' :: t) hd hw h3 hcount (by simp)
  simp only [List.length_nil, Nat.add_zero, List.length_cons] at hlex
  rw [← ha] at h1 h2
  unfold parse_pseudo
  simp only [bind_apply, lex_miss d _ h1, lex_miss d _ h2, hlex, Bool.false_eq_true, if_false,
    if_true]
  have e : d.position + (v.length + 1) = d.position + 1 + v.length := by omega
  rw [e]
  rfl

/-- The production `parse_simple_selector` at a `:` goes on to `parse_pseudo`. -/
theorem parse_simple_selector_colon (rec : Call → Parser Node) (d : Document)
    (t : List Char) (ha : d.ahead = ':' :: t) :
    parse_simple_selector rec d = rec .parse_pseudo d := by
  have m : ∀ mx : Prelexer.prelexer, mx (':' :: t) = none → mx d.ahead = none := by
    intro mx h
    rw [ha]
    exact h
  have hc : (Prelexer.exactly ':') d.ahead = some t := by
    rw [ha]
    rfl
  unfold parse_simple_selector or_else
  simp only [bind_apply, lex_miss d _ (m Prelexer.id_name rfl),
    lex_miss d _ (m Prelexer.class_name rfl), peek_hit d _ t hc, Bool.false_eq_true, if_false,
    if_true]

/-- A simple selector sequence does not end at a `:`. -/
theorem sequence_end_colon (d : Document) (t : List Char)
    (hd : d.source.drop d.position = ':' :: t) : sequence_end d = .ok (false, d) := by
  have hw : after_whitespace .spaces_and_comments (':' :: t) = ':' :: t :=
    after_whitespace_self ':' _ (by decide) (by decide)
  have ha : d.ahead = ':' :: t := d.ahead_of_text [] _ hd hw
  have m : ∀ mx : Prelexer.prelexer, mx (':' :: t) = none → mx d.ahead = none := by
    intro mx h
    rw [ha]
    exact h
  have hs : d.sees .nothing Prelexer.spaces = false := by
    unfold Document.sees after_whitespace
    rw [hd]
    rfl
  unfold sequence_end
  simp only [bind_apply, peek_spaces_apply, hs, peek_miss d _ (m (Prelexer.exactly '>') rfl),
    peek_miss d _ (m (Prelexer.exactly '+') rfl), peek_miss d _ (m (Prelexer.exactly '~') rfl),
    peek_miss d _ (m (Prelexer.exactly ',') rfl), peek_miss d _ (m (Prelexer.exactly ')') rfl),
    peek_miss d _ (m (Prelexer.exactly '{') rfl), peek_miss d _ (m (Prelexer.exactly ';') rfl)]
  rfl

/-- A simple selector sequence ends at a space. -/
theorem sequence_end_space (d : Document) (t : List Char)
    (hd : d.source.drop d.position = ' ' :: t) : sequence_end d = .ok (true, d) := by
  have hs : d.sees .nothing Prelexer.spaces = true := by
    unfold Document.sees after_whitespace
    rw [hd]
    rfl
  unfold sequence_end
  simp only [bind_apply, peek_spaces_apply, hs, peek_apply, pure_apply, Bool.true_or]

/-- The selector of `p:v {`: `parse_selector_group` returns the simple selector sequence
of the type selector `p` and the pseudo-class `:v`, and stops before the space. -/
theorem parse_selector_group_pseudo (f : Nat) (d : Document) (ws p v rest : List Char)
    (hrest : d.source.drop d.position = ws ++ (p ++ ':' :: (v ++ ' ' :: '{' :: rest)))
    (hws : after_whitespace .spaces_and_comments (ws ++ (p ++ ':' :: (v ++ ' ' :: '{' :: rest)))
      = p ++ ':' :: (v ++ ' ' :: '{' :: rest))
    (hnl : ws.count '\n' = 0)
    (hp : is_identifier p = true) (hv : is_identifier v = true) :
    parse (f + 6) .parse_selector_group d =
      .ok (⟨.simple_selector_sequence, d.path, d.line, Token.make, false, false,
          [⟨.simple_selector, d.path, d.line,
              ⟨d.position + ws.length, d.position + ws.length + p.length⟩, false, false, []⟩,
           ⟨.pseudo, d.path, d.line,
              ⟨d.position + ws.length + p.length,
               d.position + ws.length + p.length + 1 + v.length⟩, false, false, []⟩]⟩,
        d.moved (d.position + ws.length + p.length)
          (d.position + ws.length + p.length + 1 + v.length)) := by
  have ha : d.ahead = p ++ ':' :: (v ++ ' ' :: '{' :: rest) := d.ahead_of_text ws _ hrest hws
  obtain ⟨c, cs, e, hc⟩ := is_identifier_head p hp
  have m : ∀ x : Char, is_name_char x = false → Prelexer.exactly x d.ahead = none := by
    intro x hx
    rw [ha, e]
    simp [Prelexer.exactly, ne_of_head hc hx]
  have hcount : (ws ++ p).count '\n' = 0 := by
    rw [List.count_append, hnl, is_identifier_newline p hp]
  have hlex := lex_token d (Prelexer.alternatives [Prelexer.type_selector, Prelexer.universal])
    ws p _ hrest hws (Prelexer.type_selector_text p _ hp) hcount (is_identifier_ne_nil p hp)
  -- the state after the type selector
  have h1 : (d.moved (d.position + ws.length) (d.position + ws.length + p.length)).source.drop
      (d.moved (d.position + ws.length) (d.position + ws.length + p.length)).position =
      ':' :: (v ++ ' ' :: '{' :: rest) := d.moved_text _ ws p _ hrest
  have hw1 : after_whitespace .spaces_and_comments (':' :: (v ++ ' ' :: '{' :: rest)) =
      ':' :: (v ++ ' ' :: '{' :: rest) := after_whitespace_self ':' _ (by decide) (by decide)
  have ha1 := (d.moved (d.position + ws.length) (d.position + ws.length + p.length)).ahead_of_text
    [] _ h1 hw1
  -- the state after the pseudo-class
  have h2 : (d.moved (d.position + ws.length + p.length)
      (d.position + ws.length + p.length + 1 + v.length)).source.drop
      (d.moved (d.position + ws.length + p.length)
        (d.position + ws.length + p.length + 1 + v.length)).position = ' ' :: '{' :: rest := by
    show d.source.drop (d.position + ws.length + p.length + 1 + v.length) = _
    have e1 := drop_after d.source d.position (ws ++ p ++ ':' :: v) (' ' :: '{' :: rest)
      (by rw [hrest]; simp)
    rw [← e1]
    congr 1
    simp only [List.length_append, List.length_cons]
    omega
  have ha2 : (d.moved (d.position + ws.length + p.length)
      (d.position + ws.length + p.length + 1 + v.length)).ahead = '{' :: rest :=
    Document.ahead_of_text _ [' '] _ h2 (after_whitespace_space '{' rest (by decide) (by decide))
  have hloop2 : ∀ acc, parse (f + 2) (.parse_simple_selector_sequence_loop acc)
      (d.moved (d.position + ws.length + p.length)
        (d.position + ws.length + p.length + 1 + v.length)) =
      .ok (acc, d.moved (d.position + ws.length + p.length)
        (d.position + ws.length + p.length + 1 + v.length)) := by
    intro acc
    have e0 : parse (f + 2) (.parse_simple_selector_sequence_loop acc) =
        parse_simple_selector_sequence_loop (parse (f + 1)) acc := rfl
    rw [e0]
    unfold parse_simple_selector_sequence_loop
    simp only [bind_apply, sequence_end_space _ _ h2, Bool.not_true, Bool.false_eq_true,
      if_false]
    rfl
  have hloop1 : ∀ acc, parse (f + 3) (.parse_simple_selector_sequence_loop acc)
      (d.moved (d.position + ws.length) (d.position + ws.length + p.length)) =
      .ok (acc.push_back ⟨.pseudo, d.path, d.line,
              ⟨d.position + ws.length + p.length,
               d.position + ws.length + p.length + 1 + v.length⟩, false, false, []⟩,
        d.moved (d.position + ws.length + p.length)
          (d.position + ws.length + p.length + 1 + v.length)) := by
    intro acc
    have e0 : parse (f + 3) (.parse_simple_selector_sequence_loop acc) =
        parse_simple_selector_sequence_loop (parse (f + 2)) acc := rfl
    have e1 : parse (f + 2) .parse_simple_selector
        (d.moved (d.position + ws.length) (d.position + ws.length + p.length)) = _ :=
      (parse_simple_selector_colon (parse (f + 1)) _ _ ha1).trans
        (parse_pseudo_identifier (parse f) _ v _ h1 hv)
    rw [e0]
    unfold parse_simple_selector_sequence_loop
    simp only [bind_apply, sequence_end_colon _ _ h1, Bool.not_false, if_true, e1]
    exact hloop2 _
  have hseq : parse (f + 4) .parse_simple_selector_sequence d = .ok
      (⟨.simple_selector_sequence, d.path, d.line, Token.make, false, false,
          [⟨.simple_selector, d.path, d.line,
              ⟨d.position + ws.length, d.position + ws.length + p.length⟩, false, false, []⟩,
           ⟨.pseudo, d.path, d.line,
              ⟨d.position + ws.length + p.length,
               d.position + ws.length + p.length + 1 + v.length⟩, false, false, []⟩]⟩,
        d.moved (d.position + ws.length + p.length)
          (d.position + ws.length + p.length + 1 + v.length)) := by
    have e0 : parse (f + 4) .parse_simple_selector_sequence =
        parse_simple_selector_sequence (parse (f + 3)) := rfl
    rw [e0]
    unfold parse_simple_selector_sequence or_else
    simp only [bind_apply, lex_miss d _ (m '+' (by decide)), lex_miss d _ (m '~' (by decide)),
      lex_miss d _ (m '>' (by decide)), lex_miss d _ (m '&' (by decide)), hlex,
      Bool.false_eq_true, if_false, if_true, new_Node_lexed, sequence_end_colon _ _ h1,
      new_Node]
    exact hloop1 _
  have k1 : Prelexer.exactly ',' (d.moved (d.position + ws.length + p.length)
    (d.position + ws.length + p.length + 1 + v.length)).ahead = none := by rw [ha2]; rfl
  have k2 : Prelexer.exactly ')' (d.moved (d.position + ws.length + p.length)
    (d.position + ws.length + p.length + 1 + v.length)).ahead = none := by rw [ha2]; rfl
  have k3 : Prelexer.exactly '{' (d.moved (d.position + ws.length + p.length)
    (d.position + ws.length + p.length + 1 + v.length)).ahead = some rest := by rw [ha2]; rfl
  have hsel : parse (f + 5) .parse_selector d = .ok
      (⟨.simple_selector_sequence, d.path, d.line, Token.make, false, false,
          [⟨.simple_selector, d.path, d.line,
              ⟨d.position + ws.length, d.position + ws.length + p.length⟩, false, false, []⟩,
           ⟨.pseudo, d.path, d.line,
              ⟨d.position + ws.length + p.length,
               d.position + ws.length + p.length + 1 + v.length⟩, false, false, []⟩]⟩,
        d.moved (d.position + ws.length + p.length)
          (d.position + ws.length + p.length + 1 + v.length)) := by
    have e0 : parse (f + 5) .parse_selector = parse_selector (parse (f + 4)) := rfl
    rw [e0]
    unfold parse_selector
    simp only [bind_apply, hseq, peek_miss _ _ k1, peek_miss _ _ k2, peek_hit _ _ _ k3,
      Bool.false_or, if_true]
    rfl
  have e0 : parse (f + 6) .parse_selector_group = parse_selector_group (parse (f + 5)) := rfl
  rw [e0]
  unfold parse_selector_group
  simp only [bind_apply, hsel, peek_miss _ _ k1, Bool.not_false, if_true]
  rfl

/-! ### An identifier as a value -/

namespace Prelexer

theorem exactly_s_head_ne (a : Char) (k : List Char) (c : Char) (t : List Char) (h : c ≠ a) :
    exactly_s (a :: k) (c :: t) = none := by
  simp [exactly_s, h]

theorem exactly_head_ne (a c : Char) (t : List Char) (h : c ≠ a) :
    exactly a (c :: t) = none := by
  simp [exactly, h]

/-- What does not match at the first byte of an identifier: the keywords of the
statements of a block, a variable, `+` and `;`. -/
theorem identifier_head_misses (c : Char) (t : List Char)
    (hc : is_name_start c = true ∨ c = '-') :
    import_ (c :: t) = none ∧ variable_ (c :: t) = none ∧ if_directive (c :: t) = none ∧
    for_directive (c :: t) = none ∧ each_directive (c :: t) = none ∧
    while_directive (c :: t) = none ∧ return_directive (c :: t) = none ∧
    warn (c :: t) = none ∧ include_ (c :: t) = none ∧ exactly '+' (c :: t) = none ∧
    extend (c :: t) = none ∧ media (c :: t) = none ∧ directive (c :: t) = none ∧
    exactly ';' (c :: t) = none := by
  have h1 : c ≠ '@' := ne_of_head hc (by decide)
  have h2 : c ≠ '$' := ne_of_head hc (by decide)
  have h3 : c ≠ '+' := ne_of_head hc (by decide)
  have h4 : c ≠ ';' := ne_of_head hc (by decide)
  refine ⟨exactly_s_head_ne '@' _ c t h1, ?_, exactly_s_head_ne '@' _ c t h1,
    exactly_s_head_ne '@' _ c t h1, exactly_s_head_ne '@' _ c t h1,
    exactly_s_head_ne '@' _ c t h1, exactly_s_head_ne '@' _ c t h1,
    exactly_s_head_ne '@' _ c t h1, exactly_s_head_ne '@' _ c t h1,
    exactly_head_ne '+' c t h3, exactly_s_head_ne '@' _ c t h1,
    exactly_s_head_ne '@' _ c t h1, ?_, exactly_head_ne ';' c t h4⟩
  · simp [variable_, sequence, exactly, h2]
  · simp [directive, sequence, exactly, h1]

theorem spaces_none_of_head (c : Char) (t : List Char) (h : isspace c = false) :
    spaces (c :: t) = none := by
  simp [spaces, one_plus, space, satisfy, h]

theorem optional_spaces_none_of_head (c : Char) (t : List Char) (h : isspace c = false) :
    optional_spaces (c :: t) = some (c :: t) := by
  simp [optional_spaces, optional, spaces_none_of_head c t h]

theorem optional_spaces_one (c : Char) (t : List Char) (h : isspace c = false) :
    optional_spaces (' ' :: c :: t) = some (c :: t) := by
  have h3 : space (c :: t) = none := by
    simp [space, satisfy, h]
  have h4 : space (' ' :: c :: t) = some (c :: t) := rfl
  simp only [optional_spaces, optional, spaces, one_plus, h4]
  rw [star_none _ _ _ h3]

/-- The test for a namespaced property `p: {` misses at `p:v` and at `p: v`. -/
theorem propset_head_text (p v t : List Char) (hp : is_identifier p = true)
    (hv : is_identifier v = true) :
    propset_head (p ++ ':' :: (v ++ t)) = none ∧
    propset_head (p ++ ':' :: ' ' :: (v ++ t)) = none := by
  obtain ⟨c, cs, e, hc⟩ := is_identifier_head v hv
  have hsp : isspace c = false := by
    rcases hc with hc | rfl
    · exact name_char_not_space (is_name_char_of_start hc)
    · decide
  have hb : c ≠ '{' := ne_of_head hc (by decide)
  have h1 : ∀ s, identifier (p ++ ':' :: s) = some (':' :: s) := fun s =>
    identifier_run p _ hp rfl
  have o1 : ∀ s, optional_spaces (':' :: s) = some (':' :: s) := fun s =>
    optional_spaces_none_of_head ':' s (by decide)
  have ec : ∀ s, exactly ':' (':' :: s) = some s := fun s => rfl
  subst e
  constructor
  · simp only [propset_head, sequence, List.cons_append, h1, o1, ec,
      optional_spaces_none_of_head c _ hsp, exactly_head_ne '{' c _ hb]
  · simp only [propset_head, sequence, List.cons_append, h1, o1, ec,
      optional_spaces_one c _ hsp, exactly_head_ne '{' c _ hb]

/-- A text that starts with a name and a space, and with the literal `k` that holds no
space, starts with a name of which `k` is a prefix. -/
theorem prefix_of_name_text (k w t r : List Char) (hk : ' ' ∉ k)
    (h : w ++ ' ' :: t = k ++ r) : k <+: w := by
  rcases List.append_eq_append_iff.1 h with ⟨a, e1, e2⟩ | ⟨b, e1, e2⟩
  · cases a with
    | nil =>
      rw [List.append_nil] at e1
      rw [e1]
    | cons x a =>
      simp only [List.cons_append, List.cons.injEq] at e2
      rw [e1, ← e2.1] at hk
      exact absurd (by simp) hk
  · exact ⟨b, e1.symm⟩

/-- The guard of a keyword of `parse_value`, `sequence< k, negate< identifier > >`, at a
name that a space follows: it takes the name when the name is `k`, and misses when `k` is
not a prefix of the name or is continued by an identifier. -/
theorem keyword_guard (k : List Char) (hk : ' ' ∉ k) (w t : List Char)
    (hw : (!k.isPrefixOf w || (w.drop k.length).isEmpty ||
      is_identifier (w.drop k.length)) = true) :
    (w = k ∧ sequence [exactly_s k, negate identifier] (w ++ ' ' :: t) = some (' ' :: t)) ∨
    sequence [exactly_s k, negate identifier] (w ++ ' ' :: t) = none := by
  by_cases hp : k <+: w
  · obtain ⟨u, rfl⟩ := hp
    have hm : exactly_s k (k ++ u ++ ' ' :: t) = some (u ++ ' ' :: t) :=
      (exactly_s_eq_some _ _ _).2 (by simp)
    have hpre : k.isPrefixOf (k ++ u) = true := by simp
    simp only [hpre, Bool.not_true, Bool.false_or, List.drop_left, Bool.or_eq_true,
      List.isEmpty_iff] at hw
    rcases hw with rfl | hu
    · left
      refine ⟨by simp, ?_⟩
      simp only [sequence, hm]
      rfl
    · right
      simp only [sequence, hm, negate, identifier_run u (' ' :: t) hu rfl]
  · right
    have hm : exactly_s k (w ++ ' ' :: t) = none := by
      cases h : exactly_s k (w ++ ' ' :: t) with
      | none => rfl
      | some r => exact absurd (prefix_of_name_text k w t r hk ((exactly_s_eq_some _ _ _).1 h)) hp
    simp only [sequence, hm]

/-- A name that a space follows, as a value: what does not match it. -/
theorem name_value_misses (w t : List Char) (hw : is_plain_identifier w = true) :
    exactly '(' (w ++ ' ' :: t) = none ∧
    sequence [exactly '+', negate number] (w ++ ' ' :: t) = none ∧
    sequence [exactly '-', negate number] (w ++ ' ' :: t) = none ∧
    uri_prefix (w ++ ' ' :: t) = none ∧ functional (w ++ ' ' :: t) = none ∧
    value_schema (w ++ ' ' :: t) = none ∧ important (w ++ ' ' :: t) = none ∧
    number (w ++ ' ' :: t) = none ∧
    identifier (w ++ ' ' :: t) = some (' ' :: t) := by
  have hid : is_identifier w = true := by
    cases w with
    | nil => cases hw
    | cons c cs => simp [is_identifier, hw]
  have hi : identifier (w ++ ' ' :: t) = some (' ' :: t) := identifier_run w _ hid rfl
  obtain ⟨c, cs, e, hc⟩ := is_plain_identifier_head w hw
  have hcc := is_name_char_of_start hc
  have n1 : c ≠ '(' := ne_of_name_char hcc (by decide)
  have n2 : c ≠ '+' := ne_of_name_start hc (by decide)
  have n3 : c ≠ '-' := ne_of_name_start hc (by decide)
  have n4 : c ≠ '!' := ne_of_name_char hcc (by decide)
  have n5 : c ≠ '.' := ne_of_name_char hcc (by decide)
  have hdg : isdigit c = false := name_start_not_digit hc
  have hnum : number (w ++ ' ' :: t) = none := by
    have hd : digits (c :: (cs ++ ' ' :: t)) = none := by
      simp [digits, one_plus, digit, satisfy, hdg]
    have hsg : sign (c :: (cs ++ ' ' :: t)) = none := by
      simp [sign, class_char, n2, n3]
    rw [e]
    simp only [number, sequence, optional, List.cons_append, hsg, unsigned_number,
      alternatives, zero_plus]
    rw [star_none _ _ _ hd]
    simp only [exactly_head_ne '.' c _ n5, hd]
  have huri : uri_prefix (w ++ ' ' :: t) = none := by
    cases h : uri_prefix (w ++ ' ' :: t) with
    | none => rfl
    | some r =>
      have h2 := (exactly_s_eq_some _ _ _).1 h
      have e2 : "url(".toList = ['u', 'r', 'l'] ++ '(' :: r.take 0 := rfl
      rw [e2] at h2
      simp only [List.append_assoc, List.cons_append, List.nil_append] at h2
      exact absurd h2 (name_text_ne ['u', 'r', 'l'] '(' (by decide) (by decide) (by decide)
        w t _ (is_identifier_chars w hid))
  have hfun : functional (w ++ ' ' :: t) = none := by
    simp only [functional, sequence, hi]
    rfl
  have hvs : value_schema (w ++ ' ' :: t) = none := by
    have ha : alternatives [identifier, percentage, dimension, hex, number, string_constant]
        (w ++ ' ' :: t) = some (' ' :: t) := by
      simp only [alternatives, hi]
    have hb : alternatives [identifier, percentage, dimension, hex, number, string_constant]
        (' ' :: t) = none := rfl
    simp only [value_schema, one_plus, sequence, zero_plus]
    rw [star_once _ _ _ _ ha hb]
    rfl
  refine ⟨?_, ?_, ?_, huri, hfun, hvs, ?_, hnum, hi⟩
  · rw [e]
    exact exactly_head_ne '(' c _ n1
  · rw [e]
    simp [sequence, exactly, n2]
  · rw [e]
    simp [sequence, exactly, n3]
  · rw [e]
    simp [important, sequence, exactly, n4]

end Prelexer

theorem Document.moved_moved (d : Document) (a b x y : Nat) :
    (d.moved a b).moved x y = d.moved x y := rfl

/-- The production `parse_value` at a name that is one value, before a space: the name is
taken whole, as an `identifier` leaf, or as a `boolean` node when it is `true` or
`false`. -/
theorem parse_value_name (rec : Call → Parser Node) (d : Document) (ws w t : List Char)
    (hrest : d.source.drop d.position = ws ++ (w ++ ' ' :: t))
    (hws : after_whitespace .spaces_and_comments (ws ++ (w ++ ' ' :: t)) = w ++ ' ' :: t)
    (hnl : ws.count '\n' = 0) (hw : is_plain_identifier w = true)
    (hkw : is_plain_value w = true) :
    ∃ V, parse_value rec d =
      .ok (V, d.moved (d.position + ws.length) (d.position + ws.length + w.length)) := by
  have ha : d.ahead = w ++ ' ' :: t := d.ahead_of_text ws _ hrest hws
  have hid : is_identifier w = true := by
    cases w with
    | nil => cases hw
    | cons c cs => simp [is_identifier, hw]
  obtain ⟨-, -, -, k1, k2, k3, k4, -, k5⟩ := Prelexer.name_value_misses w t hw
  have hcount : (ws ++ w).count '\n' = 0 := by
    rw [List.count_append, hnl, is_identifier_newline w hid]
  have hne : w ≠ [] := is_identifier_ne_nil w hid
  unfold is_plain_value at hkw
  simp only [List.all_cons, List.all_nil, Bool.and_true, Bool.and_eq_true] at hkw
  obtain ⟨hk1, hk2⟩ := hkw
  have g1 : (w = "true".toList ∧ Prelexer.sequence [Prelexer.true_kwd,
      Prelexer.negate Prelexer.identifier] (w ++ ' ' :: t) = some (' ' :: t)) ∨
      Prelexer.sequence [Prelexer.true_kwd, Prelexer.negate Prelexer.identifier]
        (w ++ ' ' :: t) = none :=
    Prelexer.keyword_guard "true".toList (by decide) w t hk1
  have g2 : (w = "false".toList ∧ Prelexer.sequence [Prelexer.false_kwd,
      Prelexer.negate Prelexer.identifier] (w ++ ' ' :: t) = some (' ' :: t)) ∨
      Prelexer.sequence [Prelexer.false_kwd, Prelexer.negate Prelexer.identifier]
        (w ++ ' ' :: t) = none :=
    Prelexer.keyword_guard "false".toList (by decide) w t hk2
  rw [← ha] at k1 k2 k3 k4
  rcases g1 with ⟨-, g1⟩ | g1
  · have hlex := lex_token d _ ws w (' ' :: t) hrest hws g1 hcount hne
    refine ⟨⟨.boolean, d.path, d.line, Token.make, true, false, []⟩, ?_⟩
    unfold parse_value
    simp only [bind_apply, peek_apply, Document.sees_ahead, k1, k2, Option.isSome_none,
      lex_miss d _ k3, hlex, Bool.false_and, Bool.false_eq_true, if_false, if_true]
    rfl
  · rw [← ha] at g1
    rcases g2 with ⟨-, g2⟩ | g2
    · have hlex := lex_token d _ ws w (' ' :: t) hrest hws g2 hcount hne
      refine ⟨⟨.boolean, d.path, d.line, Token.make, false, false, []⟩, ?_⟩
      unfold parse_value
      simp only [bind_apply, peek_apply, Document.sees_ahead, k1, k2, Option.isSome_none,
        lex_miss d _ k3, lex_miss d _ g1, hlex, Bool.false_and, Bool.false_eq_true, if_false,
        if_true]
      rfl
    · rw [← ha] at g2
      have hlex := lex_token d _ ws w (' ' :: t) hrest hws k5 hcount hne
      refine ⟨⟨.identifier, d.path, d.line,
        ⟨d.position + ws.length, d.position + ws.length + w.length⟩, false, false, []⟩, ?_⟩
      unfold parse_value
      simp only [bind_apply, peek_apply, Document.sees_ahead, k1, k2, Option.isSome_none,
        lex_miss d _ k3, lex_miss d _ g1, lex_miss d _ g2, lex_miss d _ k4, hlex,
        Bool.false_and, Bool.false_eq_true, if_false, if_true]
      rfl

/-- The production `parse_factor` at a name goes on to `parse_value`. -/
theorem parse_factor_name (rec : Call → Parser Node) (d : Document) (ws w t : List Char)
    (hrest : d.source.drop d.position = ws ++ (w ++ ' ' :: t))
    (hws : after_whitespace .spaces_and_comments (ws ++ (w ++ ' ' :: t)) = w ++ ' ' :: t)
    (hw : is_plain_identifier w = true) :
    parse_factor rec d = rec .parse_value d := by
  have ha : d.ahead = w ++ ' ' :: t := d.ahead_of_text ws _ hrest hws
  obtain ⟨k1, k2, k3, -⟩ := Prelexer.name_value_misses w t hw
  rw [← ha] at k1 k2 k3
  unfold parse_factor
  simp only [bind_apply, lex_miss d _ k1, lex_miss d _ k2, lex_miss d _ k3,
    Bool.false_eq_true, if_false]

/-- The production `parse_factor` at an identifier that is one value, before a space: the
identifier is taken whole, and the cursor stops right after it. -/
theorem parse_factor_identifier (f : Nat) (d : Document) (ws v t : List Char)
    (hrest : d.source.drop d.position = ws ++ (v ++ ' ' :: t))
    (hws : after_whitespace .spaces_and_comments (ws ++ (v ++ ' ' :: t)) = v ++ ' ' :: t)
    (hnl : ws.count '\n' = 0) (hv : is_identifier v = true)
    (hkw : is_single_value v = true) :
    ∃ V k, parse (f + 3) .parse_factor d =
      .ok (V, d.moved k (d.position + ws.length + v.length)) := by
  rcases is_identifier_cases v hv with hp | ⟨w, rfl, hw⟩
  · obtain ⟨c, cs, rfl, hc⟩ := is_plain_identifier_head v hp
    have hd : c ≠ '-' := ne_of_name_start hc (by decide)
    simp only [is_single_value, hd, if_false] at hkw
    obtain ⟨V, hV⟩ := parse_value_name (parse (f + 1)) d ws _ t hrest hws hnl hp hkw
    refine ⟨V, d.position + ws.length, ?_⟩
    have e0 : parse (f + 3) .parse_factor d = parse_factor (parse (f + 2)) d := rfl
    rw [e0, parse_factor_name (parse (f + 2)) d ws _ t hrest hws hp]
    exact hV
  · simp only [is_single_value, if_true] at hkw
    have ha : d.ahead = '-' :: (w ++ ' ' :: t) := d.ahead_of_text ws _ hrest hws
    obtain ⟨-, -, -, -, -, -, -, hnum, -⟩ := Prelexer.name_value_misses w t hw
    have hm : Prelexer.sequence [Prelexer.exactly '-', Prelexer.negate Prelexer.number]
        (['-'] ++ (w ++ ' ' :: t)) = some (w ++ ' ' :: t) := by
      simp [Prelexer.sequence, Prelexer.exactly, Prelexer.negate, hnum]
    have hcount : (ws ++ ['-']).count '\n' = 0 := by
      rw [List.count_append, hnl]
      rfl
    have hlex := lex_token d _ ws ['-'] (w ++ ' ' :: t) hrest hws hm hcount (by simp)
    have h1 := d.moved_text (d.position + ws.length) ws ['-'] (w ++ ' ' :: t) hrest
    obtain ⟨c, cs, e, hc⟩ := is_plain_identifier_head w hw
    have hsp : Prelexer.isspace c = false := name_char_not_space (is_name_char_of_start hc)
    have hsl : c ≠ '/' := ne_of_name_start hc (by decide)
    have hw1 : after_whitespace .spaces_and_comments ([] ++ (w ++ ' ' :: t)) = w ++ ' ' :: t := by
      rw [e]
      exact after_whitespace_self c _ hsp hsl
    obtain ⟨V, hV⟩ := parse_value_name (parse f)
      (d.moved (d.position + ws.length) (d.position + ws.length + ['-'].length)) [] w t h1 hw1
      rfl hw hkw
    have hf2 : parse (f + 2) .parse_factor
        (d.moved (d.position + ws.length) (d.position + ws.length + ['-'].length)) = _ :=
      (parse_factor_name (parse (f + 1)) _ [] w t h1 hw1 hw).trans hV
    have m : ∀ mx : Prelexer.prelexer, mx ('-' :: (w ++ ' ' :: t)) = none →
        mx d.ahead = none := by
      intro mx h
      rw [ha]
      exact h
    refine ⟨((⟨.unary_minus, d.path, d.line, Token.make, false, false, []⟩ : Node).push_back
      V).set_should_eval true, d.position + ws.length + 1 + 0, ?_⟩
    have e0 : parse (f + 3) .parse_factor d = parse_factor (parse (f + 2)) d := rfl
    rw [e0]
    unfold parse_factor
    simp only [bind_apply, lex_miss d _ (m (Prelexer.exactly '(') rfl),
      lex_miss d _ (m (Prelexer.sequence [Prelexer.exactly '+',
        Prelexer.negate Prelexer.number]) rfl), hlex, Bool.false_eq_true, if_false, if_true,
      new_Node, hf2]
    simp only [Document.moved_moved, pure_apply, List.length_singleton, List.length_nil,
      List.length_cons]
    have e1 : (d.moved (d.position + ws.length) (d.position + ws.length + 1)).position =
        d.position + ws.length + 1 := rfl
    rw [e1]
    have e2 : d.position + ws.length + 1 + 0 + w.length =
        d.position + ws.length + (w.length + 1) := by omega
    rw [e2]
    rfl

/-! ### The declaration `p: v` -/

namespace Prelexer

/-- An identifier with a `:` after it is a property name, and holds no interpolant. -/
theorem property_text (p t : List Char) (hp : is_identifier p = true) :
    sequence [optional (exactly '*'), identifier_schema] (p ++ ':' :: t) = none ∧
    sequence [optional (exactly '*'), identifier] (p ++ ':' :: t) = some (':' :: t) := by
  obtain ⟨c, cs, e, hc⟩ := is_identifier_head p hp
  have hs : c ≠ '*' := ne_of_head hc (by decide)
  have hi : identifier (p ++ ':' :: t) = some (':' :: t) := identifier_run p _ hp rfl
  have ho : optional (exactly '*') (p ++ ':' :: t) = some (p ++ ':' :: t) := by
    rw [e]
    simp [optional, exactly, hs]
  have hn : identifier (':' :: t) = none := rfl
  constructor
  · simp only [sequence, ho, identifier_schema, one_plus, zero_plus]
    rw [star_once _ _ _ _ hi hn]
    rfl
  · simp only [sequence, ho, hi]

end Prelexer

/-- The production `parse_rule` at `p: v {`: a rule of the property `p` and the value of
`v`, with the cursor right after `v`. -/
theorem parse_rule_identifier (f : Nat) (d : Document) (ws p v rest : List Char)
    (hrest : d.source.drop d.position = ws ++ (p ++ ':' :: ' ' :: (v ++ ' ' :: '{' :: rest)))
    (hws : after_whitespace .spaces_and_comments
      (ws ++ (p ++ ':' :: ' ' :: (v ++ ' ' :: '{' :: rest))) =
        p ++ ':' :: ' ' :: (v ++ ' ' :: '{' :: rest))
    (hnl : ws.count '\n' = 0) (hp : is_identifier p = true) (hv : is_identifier v = true)
    (hkw : is_single_value v = true) :
    ∃ V k, parse (f + 12) .parse_rule d =
      .ok (⟨.rule, d.path, d.line, Token.make, false, false,
          [⟨.property, d.path, d.line,
            ⟨d.position + ws.length, d.position + ws.length + p.length⟩, false, false, []⟩, V]⟩,
        d.moved k (d.position + ws.length + p.length + 2 + v.length)) := by
  have ha : d.ahead = p ++ ':' :: ' ' :: (v ++ ' ' :: '{' :: rest) :=
    d.ahead_of_text ws _ hrest hws
  obtain ⟨k1, k2⟩ := Prelexer.property_text p (' ' :: (v ++ ' ' :: '{' :: rest)) hp
  have hcount : (ws ++ p).count '\n' = 0 := by
    rw [List.count_append, hnl, is_identifier_newline p hp]
  have hlex := lex_token d _ ws p _ hrest hws k2 hcount (is_identifier_ne_nil p hp)
  rw [← ha] at k1
  -- the state after the property
  obtain ⟨d1, hd1⟩ : ∃ d1, d1 = d.moved (d.position + ws.length)
    (d.position + ws.length + p.length) := ⟨_, rfl⟩
  have h1 : d1.source.drop d1.position = [] ++ ([':'] ++ ' ' :: (v ++ ' ' :: '{' :: rest)) := by
    rw [hd1]
    exact d.moved_text _ ws p _ hrest
  have hw1 : after_whitespace .spaces_and_comments
      ([] ++ ([':'] ++ ' ' :: (v ++ ' ' :: '{' :: rest))) =
      [':'] ++ ' ' :: (v ++ ' ' :: '{' :: rest) :=
    after_whitespace_self ':' _ (by decide) (by decide)
  have hlex1 := lex_token d1 (Prelexer.exactly ':') [] [':'] _ h1 hw1 rfl rfl (by simp)
  -- the state after the colon
  obtain ⟨d2, hd2⟩ : ∃ d2, d2 = d1.moved (d1.position + ([] : List Char).length)
    (d1.position + ([] : List Char).length + [':'].length) := ⟨_, rfl⟩
  have h2 : d2.source.drop d2.position = [' '] ++ (v ++ ' ' :: '{' :: rest) := by
    rw [hd2]
    exact d1.moved_text _ [] [':'] _ h1
  obtain ⟨c, cs, e, hc⟩ := is_identifier_head v hv
  have hsp : Prelexer.isspace c = false := by
    rcases hc with hc | rfl
    · exact name_char_not_space (is_name_char_of_start hc)
    · decide
  have hsl : c ≠ '/' := ne_of_head hc (by decide)
  have hw2 : after_whitespace .spaces_and_comments ([' '] ++ (v ++ ' ' :: '{' :: rest)) =
      v ++ ' ' :: '{' :: rest := by
    rw [e]
    exact after_whitespace_space c _ hsp hsl
  have ha2 : d2.ahead = v ++ ' ' :: '{' :: rest := d2.ahead_of_text _ _ h2 hw2
  obtain ⟨V, k, hV⟩ := parse_factor_identifier f d2 [' '] v ('{' :: rest) h2 hw2 rfl hv hkw
  -- the state after the value
  obtain ⟨d3, hd3⟩ : ∃ d3, d3 = d2.moved k (d2.position + [' '].length + v.length) := ⟨_, rfl⟩
  rw [← hd3] at hV
  have h3 : d3.source.drop d3.position = [' '] ++ '{' :: rest := by
    rw [hd3]
    show d2.source.drop (d2.position + [' '].length + v.length) = ' ' :: '{' :: rest
    have := drop_after d2.source d2.position ([' '] ++ v) (' ' :: '{' :: rest)
      (by rw [h2]; simp)
    rw [← this, List.length_append, Nat.add_assoc]
  have ha3 : d3.ahead = '{' :: rest :=
    d3.ahead_of_text _ _ h3 (after_whitespace_space '{' rest (by decide) (by decide))
  obtain ⟨hq, he⟩ := d3.list_end_ahead '{' rest ha3 (Or.inr (Or.inr (Or.inl rfl)))
  have hdisj := (parse_disjunction_of_factor (f + 2) d2 d3 V hV hq).2.2.2.2
  have hsl2 : parse (f + 9) .parse_space_list d2 = .ok (V, d3) :=
    parse_space_list_collapse (parse (f + 8)) d2 d3 V hdisj he
  have hce : d2.at_comma_list_end = false := by
    unfold Document.at_comma_list_end
    simp only [Document.sees_ahead, ha2, e, List.cons_append,
      Prelexer.exactly_head_ne ';' c _ (ne_of_head hc (by decide)),
      Prelexer.exactly_head_ne '}' c _ (ne_of_head hc (by decide)),
      Prelexer.exactly_head_ne '{' c _ (ne_of_head hc (by decide)),
      Prelexer.exactly_head_ne ')' c _ (ne_of_head hc (by decide))]
    rfl
  have hcm : d3.sees .spaces_and_comments (Prelexer.exactly ',') = false := by
    rw [d3.sees_ahead, ha3]
    rfl
  have hcl : parse (f + 10) .parse_comma_list d2 = .ok (V, d3) :=
    parse_comma_list_collapse (parse (f + 9)) d2 d3 V hce hsl2 hcm
  have hlist : parse (f + 11) .parse_list d2 = .ok (V, d3) := by
    have e1 : parse (f + 11) .parse_list d2 = parse_list (parse (f + 10)) d2 := rfl
    rw [e1]
    unfold parse_list
    exact hcl
  refine ⟨V, k, ?_⟩
  have e0 : parse (f + 12) .parse_rule d = parse_rule (parse (f + 11)) d := rfl
  rw [e0]
  unfold parse_rule
  rw [← hd1] at hlex
  rw [← hd2] at hlex1
  simp only [bind_apply, new_Node, peek_miss d _ k1, hlex, Bool.false_eq_true, if_false,
    if_true, new_Node_lexed, pure_apply, hlex1, Bool.not_true, hlist]
  subst hd3 hd2 hd1
  have e1 : (d.moved (d.position + ws.length) (d.position + ws.length + p.length)).position
      + ([] : List Char).length + [':'].length + [' '].length + v.length =
      d.position + ws.length + p.length + 2 + v.length := by
    show d.position + ws.length + p.length + 0 + 1 + 1 + v.length = _
    omega
  simp only [Node.push_back, List.nil_append, Document.moved_moved]
  rw [← e1]
  rfl

/-! ### Ruleset or namespaced property -/

/-- The statement of a block at a selector: the earlier alternatives of `parse_block` miss
and the statement is the nested ruleset. -/
theorem parse_block_statement_ruleset (rec : Call → Parser Node) (sr : Option Node)
    (io : NodeType) (block : Node) (d : Document) (h : d.at_ruleset io = true) :
    parse_block_statement rec sr io block d =
      match rec (.parse_ruleset (lookahead_for_selector d d.position) io) d with
      | .ok (n, d1) => .ok ((block.push_back n, false), d1)
      | .error e => .error e := by
  unfold Document.at_ruleset at h
  simp only [Bool.and_eq_true, Bool.not_eq_true', decide_eq_false_iff_not] at h
  obtain ⟨⟨⟨⟨⟨⟨⟨⟨⟨⟨⟨⟨h1, h2⟩, h3⟩, h4⟩, h5⟩, h6⟩, h7⟩, h8⟩, h9⟩, h10⟩, h11⟩, h12⟩, h13⟩ := h
  unfold parse_block_statement
  simp only [bind_apply, lex_block_comment_apply, h1, Document.lexed_with_of_not_sees h1,
    Bool.false_eq_true, if_false, peek_apply, h2, lex, lex_with_apply, h3,
    Document.lexed_with_of_not_sees h3, h4, h5, h6, h7, h8,
    Document.lexed_with_of_not_sees h8, h9, h10, h11, h12, lookahead, h13, if_true]
  cases rec (.parse_ruleset (lookahead_for_selector d d.position) io) d with
  | error e => rfl
  | ok r => rfl

/-- What the first twelve alternatives of `parse_block` see at an identifier: nothing. -/
theorem Document.misses_at_identifier (d : Document) (c : Char) (t : List Char)
    (ha : d.ahead = c :: t) (hc : is_name_start c = true ∨ c = '-') :
    d.sees .spaces_and_comments Prelexer.import_ = false ∧
    d.sees .spaces_and_comments Prelexer.variable_ = false ∧
    d.sees .spaces_and_comments Prelexer.if_directive = false ∧
    d.sees .spaces_and_comments Prelexer.for_directive = false ∧
    d.sees .spaces_and_comments Prelexer.each_directive = false ∧
    d.sees .spaces_and_comments Prelexer.while_directive = false ∧
    d.sees .spaces_and_comments Prelexer.return_directive = false ∧
    d.sees .spaces_and_comments Prelexer.warn = false ∧
    d.sees .spaces_and_comments Prelexer.include_ = false ∧
    d.sees .spaces_and_comments (Prelexer.exactly '+') = false ∧
    d.sees .spaces_and_comments Prelexer.extend = false ∧
    d.sees .spaces_and_comments Prelexer.media = false ∧
    d.sees .spaces_and_comments Prelexer.directive = false ∧
    d.sees .spaces_and_comments (Prelexer.exactly ';') = false := by
  obtain ⟨m1, m2, m3, m4, m5, m6, m7, m8, m9, m10, m11, m12, m13, m14⟩ :=
    Prelexer.identifier_head_misses c t hc
  simp only [Document.sees_ahead, ha, m1, m2, m3, m4, m5, m6, m7, m8, m9, m10, m11, m12, m13,
    m14, Option.isSome_none, and_self]

/-- The statement `p:v {` is taken as a nested ruleset. -/
theorem Document.at_ruleset_of_text (d : Document) (io : NodeType) (ws p v rest : List Char)
    (hrest : d.source.drop d.position = ws ++ (p ++ ':' :: (v ++ ' ' :: '{' :: rest)))
    (hws : after_whitespace .spaces_and_comments (ws ++ (p ++ ':' :: (v ++ ' ' :: '{' :: rest)))
      = p ++ ':' :: (v ++ ' ' :: '{' :: rest))
    (hcb : d.sees .before_block_comment Prelexer.block_comment = false)
    (hio : io ≠ .function) (hp : is_identifier p = true) (hv : is_identifier v = true) :
    d.at_ruleset io = true := by
  have ha : d.ahead = p ++ ':' :: (v ++ ' ' :: '{' :: rest) := d.ahead_of_text ws _ hrest hws
  obtain ⟨c, cs, e, hc⟩ := is_identifier_head p hp
  obtain ⟨m1, m2, m3, m4, m5, m6, m7, m8, m9, -⟩ :=
    d.misses_at_identifier c (cs ++ ':' :: (v ++ ' ' :: '{' :: rest)) (by rw [ha, e]; rfl) hc
  have hph : d.sees .spaces_and_comments propset_head = false := by
    rw [d.sees_ahead, ha, (Prelexer.propset_head_text p v (' ' :: '{' :: rest) hp hv).1]
    rfl
  have hla := lookahead_at_pseudo d ws p v rest hrest hws hp hv
  unfold Document.at_ruleset
  simp only [hcb, m1, m2, m3, m4, m5, m6, m7, m8, m9, hph, hla, hio, decide_False,
    Bool.not_false, Option.isSome_some, Bool.and_self]

/-- The statement `p: v {` reaches the last alternative of `parse_block`, the
declaration. -/
theorem Document.at_declaration_of_text (d : Document) (io : NodeType)
    (ws p v rest : List Char)
    (hrest : d.source.drop d.position = ws ++ (p ++ ':' :: ' ' :: (v ++ ' ' :: '{' :: rest)))
    (hws : after_whitespace .spaces_and_comments
      (ws ++ (p ++ ':' :: ' ' :: (v ++ ' ' :: '{' :: rest))) =
        p ++ ':' :: ' ' :: (v ++ ' ' :: '{' :: rest))
    (hcb : d.sees .before_block_comment Prelexer.block_comment = false)
    (hio : io ≠ .function) (hp : is_identifier p = true) (hv : is_identifier v = true) :
    d.at_declaration io = true := by
  have ha : d.ahead = p ++ ':' :: ' ' :: (v ++ ' ' :: '{' :: rest) :=
    d.ahead_of_text ws _ hrest hws
  obtain ⟨c, cs, e, hc⟩ := is_identifier_head p hp
  obtain ⟨m1, m2, m3, m4, m5, m6, m7, m8, m9, m10, m11, m12, m13, m14⟩ :=
    d.misses_at_identifier c (cs ++ ':' :: ' ' :: (v ++ ' ' :: '{' :: rest))
      (by rw [ha, e]; rfl) hc
  have hph : d.sees .spaces_and_comments propset_head = false := by
    rw [d.sees_ahead, ha, (Prelexer.propset_head_text p v (' ' :: '{' :: rest) hp hv).2]
    rfl
  have hla := lookahead_at_colon_space d ws p _ hrest hws hp
  unfold Document.at_declaration
  simp only [hcb, m1, m2, m3, m4, m5, m6, m7, m8, m9, m10, m11, m12, m13, m14, hph, hla, hio,
    decide_False, Bool.not_false, Option.isSome_none, Bool.and_self]

/-- The production `parse_ruleset` at `p:v {`, called with the result of the look-ahead:
the ruleset of the selector `p:v` and of the block that `parse_block` returns. -/
theorem parse_ruleset_pseudo (f : Nat) (io : NodeType) (d : Document) (q : Option Nat)
    (ws p v rest : List Char)
    (hrest : d.source.drop d.position = ws ++ (p ++ ':' :: (v ++ ' ' :: '{' :: rest)))
    (hws : after_whitespace .spaces_and_comments (ws ++ (p ++ ':' :: (v ++ ' ' :: '{' :: rest)))
      = p ++ ':' :: (v ++ ' ' :: '{' :: rest))
    (hnl : ws.count '\n' = 0)
    (hp : is_identifier p = true) (hv : is_identifier v = true) :
    parse (f + 7) (.parse_ruleset ⟨q, false⟩ io) d =
      match parse (f + 6) (.parse_block (some (d.inner .ruleset
          [d.inner .simple_selector_sequence
            [d.leaf .simple_selector (d.position + ws.length) (d.position + ws.length + p.length),
             d.leaf .pseudo (d.position + ws.length + p.length)
               (d.position + ws.length + p.length + 1 + v.length)]])) io)
          (d.moved (d.position + ws.length + p.length)
            (d.position + ws.length + p.length + 1 + v.length)) with
      | .ok (body, d3) => .ok (d.inner .ruleset
          [d.inner .simple_selector_sequence
            [d.leaf .simple_selector (d.position + ws.length) (d.position + ws.length + p.length),
             d.leaf .pseudo (d.position + ws.length + p.length)
               (d.position + ws.length + p.length + 1 + v.length)], body], d3)
      | .error e => .error e := by
  have hsel := parse_selector_group_pseudo f d ws p v rest hrest hws hnl hp hv
  have h2 : (d.moved (d.position + ws.length + p.length)
      (d.position + ws.length + p.length + 1 + v.length)).source.drop
      (d.moved (d.position + ws.length + p.length)
        (d.position + ws.length + p.length + 1 + v.length)).position = ' ' :: '{' :: rest := by
    show d.source.drop (d.position + ws.length + p.length + 1 + v.length) = _
    have e1 := drop_after d.source d.position (ws ++ p ++ ':' :: v) (' ' :: '{' :: rest)
      (by rw [hrest]; simp)
    rw [← e1]
    congr 1
    simp only [List.length_append, List.length_cons]
    omega
  have ha2 : (d.moved (d.position + ws.length + p.length)
      (d.position + ws.length + p.length + 1 + v.length)).ahead = '{' :: rest :=
    Document.ahead_of_text _ [' '] _ h2 (after_whitespace_space '{' rest (by decide) (by decide))
  have k3 : Prelexer.exactly '{' (d.moved (d.position + ws.length + p.length)
    (d.position + ws.length + p.length + 1 + v.length)).ahead = some rest := by rw [ha2]; rfl
  have e0 : parse (f + 7) (.parse_ruleset ⟨q, false⟩ io) d =
      parse_ruleset (parse (f + 6)) ⟨q, false⟩ io d := rfl
  rw [e0]
  unfold parse_ruleset
  simp only [bind_apply, new_Node, Bool.false_eq_true, if_false, hsel, peek_hit _ _ _ k3,
    Bool.not_true]
  simp only [Node.push_back, List.nil_append, List.cons_append, Document.inner, Document.leaf]
  generalize parse (f + 6) _ _ = r
  cases r with
  | error e => rfl
  | ok x => rfl

/-- C29, as written, fails in three places.  For the identifier `v` = `true-` the
declaration `p: true- { … }` is a syntax error, not a propset: `parse_value` takes the
keyword `true` (its guard `negate< identifier >` passes, as `-` alone starts no
identifier) and the `-` left over is read as a subtraction without a right operand; with
no space after the colon, `p:true- { … }` is the ruleset of the selector `p:true-`.  In
the body of a function, a block as well, both `p:v { … }` and `p: v { … }` are the
error of the function context.  And for an identifier that ends in an escaped `}`, such
as `v\}`, the look-ahead records an interpolant, and the selector of `p:v\} { … }` is a
selector schema, not the sequence of `p` and `:v\}`. -/
theorem colon_space_counterexample :
    is_identifier "p".toList = true ∧ is_identifier "true-".toList = true ∧
    Prelexer.identifier "true- \x7b".toList = some " \x7b".toList ∧
    run 100 .parse_scss "a \x7b p: true- \x7b b: c; \x7d \x7d" =
      .error (.syntax_error "error reading values" 1) ∧
    run 100 .parse_scss "a \x7b p:true- \x7b b: c; \x7d \x7d" =
      .ok (inner .root [inner .ruleset [leaf .simple_selector 0 1,
        inner .block [inner .ruleset
          [inner .simple_selector_sequence [leaf .simple_selector 4 5, leaf .pseudo 5 11],
           inner .block [inner .rule [leaf .property 14 15, leaf .identifier 17 18]]]]]]) ∧
    run 100 .parse_scss "@function f() \x7b p:v \x7b b: c; \x7d \x7d" =
      .error (.syntax_error
        "only variable declarations and control directives are allowed inside functions" 1) ∧
    run 100 .parse_scss "@function f() \x7b p: v \x7b b: c; \x7d \x7d" =
      .error (.syntax_error
        "only variable declarations and control directives are allowed inside functions" 1) ∧
    Prelexer.identifier "v\\\x7d \x7b".toList = some " \x7b".toList ∧
    run 100 .parse_scss "a \x7b p:v\\\x7d \x7b b: c; \x7d \x7d" =
      .ok (inner .root [inner .ruleset [leaf .simple_selector 0 1,
        inner .block [inner .ruleset
          [inner .selector_schema [leaf .identifier 3 9],
           inner .block [inner .rule [leaf .property 12 13, leaf .identifier 15 16]]]]]]) := by
  decide!

/-- C29, amended: in a block other than the body of a function, for identifiers `p` and
`v` (without escapes), the statement `p:v {`, no space after the colon, is found by the
look-ahead to be a selector that ends right after `v`, `parse_selector_group` returns for
it the simple selector sequence of the type selector `p` and the pseudo-class `:v`, and
the statement is the nested ruleset of that selector and of the block that follows;
whereas for `p: v {`, one space after the colon and nothing else changed, the look-ahead
finds no selector and, when `v` is one value for `parse_value` (`true` or `false` at its
start, after the sign, is the whole name or is continued by an identifier), `parse_rule`
returns the rule of the property `p` and the value of `v`, and the statement is the
propset of `p` and of the block that follows, with the rule, its property emptied, in
front. -/
theorem colon_space_decides (fuel : Nat) (sr : Option Node) (io : NodeType) (block : Node)
    (d e : Document) (p v rest : List Char)
    (hio : io ≠ .function) (hp : is_identifier p = true) (hv : is_identifier v = true)
    (hd : d.at_text (p ++ ':' :: (v ++ ' ' :: '{' :: rest)) = true)
    (he : e.at_text (p ++ ':' :: ' ' :: (v ++ ' ' :: '{' :: rest)) = true) :
    (∃ b : Nat,
      Token.text d.source ⟨b, b + p.length⟩ = p ∧
      Token.text d.source ⟨b + p.length, b + p.length + 1 + v.length⟩ = ':' :: v ∧
      lookahead_for_selector d d.position = ⟨some (b + p.length + 1 + v.length), false⟩ ∧
      parse (fuel + 11) .parse_selector_group d =
        .ok (d.inner .simple_selector_sequence
            [d.leaf .simple_selector b (b + p.length),
             d.leaf .pseudo (b + p.length) (b + p.length + 1 + v.length)],
          d.moved (b + p.length) (b + p.length + 1 + v.length)) ∧
      ∀ body d3,
        parse (fuel + 11) (.parse_block (some (d.inner .ruleset
            [d.inner .simple_selector_sequence
              [d.leaf .simple_selector b (b + p.length),
               d.leaf .pseudo (b + p.length) (b + p.length + 1 + v.length)]])) io)
          (d.moved (b + p.length) (b + p.length + 1 + v.length)) = .ok (body, d3) →
        parse_block_statement (parse (fuel + 12)) sr io block d =
          .ok ((block.push_back (d.inner .ruleset
            [d.inner .simple_selector_sequence
              [d.leaf .simple_selector b (b + p.length),
               d.leaf .pseudo (b + p.length) (b + p.length + 1 + v.length)], body]),
            false), d3)) ∧
    (is_single_value v = true → ∃ (b k : Nat) (V : Node),
      Token.text e.source ⟨b, b + p.length⟩ = p ∧
      (lookahead_for_selector e e.position).found = none ∧
      parse (fuel + 12) .parse_rule e =
        .ok (e.inner .rule [e.leaf .property b (b + p.length), V],
          e.moved k (b + p.length + 2 + v.length)) ∧
      ∀ inner d3,
        parse (fuel + 12) (.parse_block none .none)
          (e.moved k (b + p.length + 2 + v.length)) = .ok (inner, d3) →
        parse_block_statement (parse (fuel + 12)) sr io block e =
          .ok ((block.push_back (d3.inner .propset
            [e.leaf .property b (b + p.length),
             { inner with children :=
               (e.inner .rule [d3.inner .property [], V]) :: inner.children }]),
            false), d3)) := by
  constructor
  · obtain ⟨ws, hrest, hws, hnl, hcb⟩ := d.at_text_unpack _ (by simp) hd
    have hla := lookahead_at_pseudo d ws p v rest hrest hws hp hv
    refine ⟨d.position + ws.length, Token.text_of_drop d.source d.position ws p _ hrest, ?_,
      hla, parse_selector_group_pseudo (fuel + 5) d ws p v rest hrest hws hnl hp hv, ?_⟩
    · have h := Token.text_of_drop d.source d.position (ws ++ p) (':' :: v)
        (' ' :: '{' :: rest) (by rw [hrest]; simp)
      have e1 : d.position + (ws ++ p).length = d.position + ws.length + p.length := by
        rw [List.length_append]
        omega
      have e2 : d.position + ws.length + p.length + (':' :: v).length =
          d.position + ws.length + p.length + 1 + v.length := by
        rw [List.length_cons]
        omega
      rw [e1, e2] at h
      exact h
    · intro body d3 hbody
      rw [parse_block_statement_ruleset (parse (fuel + 12)) sr io block d
        (d.at_ruleset_of_text io ws p v rest hrest hws hcb hio hp hv), hla,
        parse_ruleset_pseudo (fuel + 5) io d _ ws p v rest hrest hws hnl hp hv, hbody]
  · intro hkw
    obtain ⟨ws, hrest, hws, hnl, hcb⟩ := e.at_text_unpack _ (by simp) he
    have hla := lookahead_at_colon_space e ws p _ hrest hws hp
    obtain ⟨V, k, hrule⟩ := parse_rule_identifier fuel e ws p v rest hrest hws hnl hp hv hkw
    refine ⟨e.position + ws.length, k, V,
      Token.text_of_drop e.source e.position ws p _ hrest, by rw [hla], hrule, ?_⟩
    intro inner d3 hinner
    have hb : (e.moved k (e.position + ws.length + p.length + 2 + v.length)).sees
        .spaces_and_comments (Prelexer.exactly '{') = true := by
      have h3 : (e.moved k (e.position + ws.length + p.length + 2 + v.length)).source.drop
          (e.moved k (e.position + ws.length + p.length + 2 + v.length)).position =
          [' '] ++ '{' :: rest := by
        show e.source.drop (e.position + ws.length + p.length + 2 + v.length) =
          ' ' :: '{' :: rest
        have e1 := drop_after e.source e.position (ws ++ p ++ ':' :: ' ' :: v)
          (' ' :: '{' :: rest) (by rw [hrest]; simp)
        rw [← e1]
        congr 1
        simp only [List.length_append, List.length_cons]
        omega
      rw [Document.sees_ahead, Document.ahead_of_text _ _ _ h3
        (after_whitespace_space '{' rest (by decide) (by decide))]
      rfl
    rw [parse_block_statement_declaration (parse (fuel + 12)) sr io block e
      (e.at_declaration_of_text io ws p v rest hrest hws hcb hio hp hv), hrule]
    simp only [hb, if_true, hinner]
    rfl

/-- C29, amended, at `p:v { b: c; }` and at `p: v { b: c; }`, each after one space: the
first is the nested ruleset of the selector `p:v`, the second the propset of `p`. -/
theorem colon_space_decides_witness :
    parse_block_statement (parse 100) none .none (inner .block [])
        (Document.of_string " p:v \x7b b: c; \x7d \x7d") =
      .ok ((inner .block [inner .ruleset
          [inner .simple_selector_sequence [leaf .simple_selector 1 2, leaf .pseudo 2 4],
           inner .block [inner .rule [leaf .property 7 8, leaf .identifier 10 11]]]], false),
        (Document.of_string " p:v \x7b b: c; \x7d \x7d").moved 13 14) ∧
    parse_block_statement (parse 100) none .none (inner .block [])
        (Document.of_string " p: v \x7b b: c; \x7d \x7d") =
      .ok ((inner .block [inner .propset [leaf .property 1 2,
          inner .block [inner .rule [inner .property [], leaf .identifier 4 5],
            inner .rule [leaf .property 8 9, leaf .identifier 11 12]]]], false),
        (Document.of_string " p: v \x7b b: c; \x7d \x7d").moved 14 15) := by
  obtain ⟨⟨b, -, -, hla, -, hstmt⟩, hprop⟩ := colon_space_decides 88 none .none
    (inner .block []) (Document.of_string " p:v \x7b b: c; \x7d \x7d")
    (Document.of_string " p: v \x7b b: c; \x7d \x7d") "p".toList "v".toList
    " b: c; \x7d \x7d".toList (by decide) (by decide) (by decide) (by decide!) (by decide!)
  obtain ⟨b2, k, V, -, -, hrule, hstmt2⟩ := hprop (by decide)
  have hb : b = 1 := by
    have h2 : lookahead_for_selector (Document.of_string " p:v \x7b b: c; \x7d \x7d")
        (Document.of_string " p:v \x7b b: c; \x7d \x7d").position = ⟨some 4, false⟩ := by
      decide!
    rw [hla] at h2
    have h3 := congrArg Selector_Lookahead.found h2
    simp only [Option.some.injEq] at h3
    have l1 : "p".toList.length = 1 := rfl
    have l2 : "v".toList.length = 1 := rfl
    omega
  subst hb
  have hr : parse (88 + 12) .parse_rule (Document.of_string " p: v \x7b b: c; \x7d \x7d") =
      .ok (inner .rule [leaf .property 1 2, leaf .identifier 4 5],
        (Document.of_string " p: v \x7b b: c; \x7d \x7d").moved 4 5) := by
    decide!
  rw [hr] at hrule
  simp only [Except.ok.injEq, Prod.mk.injEq] at hrule
  obtain ⟨hn, hd⟩ := hrule
  have hk : k = 4 := (congrArg (fun x : Document => x.lexed.begin) hd).symm
  have hc := congrArg Node.children hn
  simp only [inner, Document.inner, List.cons.injEq, and_true] at hc
  obtain ⟨hc1, hV⟩ := hc
  have hb2 : b2 = 1 := (congrArg (fun x : Node => x.token.begin) hc1).symm
  subst hk hb2 hV
  exact ⟨(hstmt (inner .block [inner .rule [leaf .property 7 8, leaf .identifier 10 11]])
      ((Document.of_string " p:v \x7b b: c; \x7d \x7d").moved 13 14) (by decide!)).trans
      (by decide!),
    (hstmt2 (inner .block [inner .rule [leaf .property 8 9, leaf .identifier 11 12]])
      ((Document.of_string " p: v \x7b b: c; \x7d \x7d").moved 14 15) (by decide!)).trans
      (by decide!)⟩

/-! ### The body of a control directive -/

/-- C31 at `@while $i > 0; a: b; }`: `parse_while_directive` calls `parse_block` right
after the predicate, without the test for `{` that `parse_if_directive` (for `@if`,
`@else if` and `@else`), `parse_for_directive` and `parse_each_directive` make, and
`parse_block` does not test what its own `lex< exactly<'{'> >` returns; so the text
`; a: b; }` is parsed as the body, and the tree is the one of `@while $i > 0 { a: b; }`
(up to the positions), at the top level and inside a block.  The same text after `@if`,
`@for` and `@each` is the syntax error that asks for the `{`. -/
theorem while_body_without_lbrace :
    run 100 .parse_scss "@while $i > 0; a: b; \x7d" =
      .ok (inner .root [inner .while_directive
        [⟨.relation, [], 1, Token.make, false, true,
          [⟨.variable_, [], 1, ⟨7, 9⟩, false, true, []⟩, leaf .gt 10 11,
           ⟨.textual_number, [], 1, ⟨12, 13⟩, false, true, []⟩]⟩,
         inner .block [inner .rule [leaf .property 15 16, leaf .identifier 18 19]]]]) ∧
    run 100 .parse_scss "@while $i > 0 \x7b a: b; \x7d" =
      .ok (inner .root [inner .while_directive
        [⟨.relation, [], 1, Token.make, false, true,
          [⟨.variable_, [], 1, ⟨7, 9⟩, false, true, []⟩, leaf .gt 10 11,
           ⟨.textual_number, [], 1, ⟨12, 13⟩, false, true, []⟩]⟩,
         inner .block [inner .rule [leaf .property 16 17, leaf .identifier 19 20]]]]) ∧
    run 100 .parse_scss "x \x7b @while $i > 0; a: b; \x7d \x7d" =
      .ok (inner .root [inner .ruleset [leaf .simple_selector 0 1,
        inner .block [inner .while_directive
          [⟨.relation, [], 1, Token.make, false, true,
            [⟨.variable_, [], 1, ⟨11, 13⟩, false, true, []⟩, leaf .gt 14 15,
             ⟨.textual_number, [], 1, ⟨16, 17⟩, false, true, []⟩]⟩,
           inner .block [inner .rule [leaf .property 19 20, leaf .identifier 22 23]]]]]]) ∧
    run 100 .parse_scss "@if $i > 0; a: b; \x7d" =
      .error (.syntax_error "expected '\x7b' after the predicate for @if" 1) ∧
    run 100 .parse_scss "@if $i > 0 \x7b a: b; \x7d @else if $i; a: b; \x7d" =
      .error (.syntax_error "expected '\x7b' after the predicate for @else if" 1) ∧
    run 100 .parse_scss "@if $i > 0 \x7b a: b; \x7d @else; a: b; \x7d" =
      .error (.syntax_error "expected '\x7b' after @else" 1) ∧
    run 100 .parse_scss "@for $i from 1 to 2; a: b; \x7d" =
      .error (.syntax_error "expected '\x7b' after the upper bound in @for directive" 1) ∧
    run 100 .parse_scss "@each $i in 1 2; a: b; \x7d" =
      .error (.syntax_error "expected '\x7b' after the upper bound in @each directive" 1) := by
  decide!

/-! ### The closing brace of an interpolant in a selector -/

/-- C32 at the header `#{a} [b="#{"]` and at `#{a} [b="#{x;"]`: the look-ahead succeeds
on `[0, 13)` (on `[0, 15)`) and records an interpolant, `parse_selector_schema` finds
the second `#{` at 9, inside the quoted string, and the search for `}` from there to
the end of the header misses.  The source does not test the result, as `parse_string`
and `parse_identifier_schema` do: it makes the token `[11, null)`, parses a list from
11 (a syntax error for the first text, where a string without its end comes next) and
then reads through the null pointer (the second text, where the list `x` ends at the
`;`).  With the `}` inside the string, `#{a} [b="#{x}"]`, the header is a schema of
four pieces. -/
theorem selector_schema_brace_missing :
    lookahead_for_selector (Document.of_string "#\x7ba\x7d [b=\"#\x7b\"] \x7b c: d; \x7d") 0 =
      ⟨some 13, true⟩ ∧
    find_first_in_interval (Prelexer.exactly_s Prelexer.hash_lbrace)
      "#\x7ba\x7d [b=\"#\x7b\"] \x7b c: d; \x7d".toList 4 13 = some 9 ∧
    find_first_in_interval (Prelexer.exactly_s Prelexer.rbrace)
      "#\x7ba\x7d [b=\"#\x7b\"] \x7b c: d; \x7d".toList 9 13 = none ∧
    run 100 .parse_scss "#\x7ba\x7d [b=\"#\x7b\"] \x7b c: d; \x7d" =
      .error (.syntax_error "error reading values" 1) ∧
    lookahead_for_selector (Document.of_string "#\x7ba\x7d [b=\"#\x7bx;\"] \x7b c: d; \x7d") 0 =
      ⟨some 15, true⟩ ∧
    find_first_in_interval (Prelexer.exactly_s Prelexer.hash_lbrace)
      "#\x7ba\x7d [b=\"#\x7bx;\"] \x7b c: d; \x7d".toList 4 15 = some 9 ∧
    find_first_in_interval (Prelexer.exactly_s Prelexer.rbrace)
      "#\x7ba\x7d [b=\"#\x7bx;\"] \x7b c: d; \x7d".toList 9 15 = none ∧
    run 100 .parse_scss "#\x7ba\x7d [b=\"#\x7bx;\"] \x7b c: d; \x7d" = .error .undefined ∧
    run 100 .parse_scss "#\x7ba\x7d [b=\"#\x7bx\x7d\"] \x7b c: d; \x7d" =
      .ok (inner .root [inner .ruleset
        [inner .selector_schema [⟨.identifier, [], 1, ⟨2, 3⟩, false, true, []⟩,
          leaf .identifier 4 9, ⟨.identifier, [], 1, ⟨11, 12⟩, false, true, []⟩,
          leaf .identifier 13 15],
         inner .block [inner .rule [leaf .property 18 19, leaf .identifier 21 22]]]]) := by
  decide!

/-! ### Matchers that take a byte -/

namespace Prelexer

@[instance] theorem forward_exactly (c : Char) : Forward (exactly c) := ⟨suffixing_exactly c⟩

@[instance] theorem forward_satisfy (p : Char → Bool) : Forward (satisfy p) :=
  ⟨suffixing_satisfy p⟩

@[instance] theorem forward_class_char (cs : List Char) : Forward (class_char cs) :=
  ⟨suffixing_class_char cs⟩

@[instance] theorem forward_any_char : Forward any_char := ⟨suffixing_any_char⟩

@[instance] theorem forward_any_char_except (c : Char) : Forward (any_char_except c) :=
  ⟨suffixing_any_char_except c⟩

@[instance] theorem forward_exactly_s (pre : List Char) : Forward (exactly_s pre) :=
  ⟨suffixing_exactly_s pre⟩

@[instance] theorem forward_negate (mx : prelexer) : Forward (negate mx) :=
  ⟨suffixing_negate mx⟩

@[instance] theorem forward_optional (mx : prelexer) [h : Forward mx] : Forward (optional mx) :=
  ⟨suffixing_optional mx h.suffix⟩

@[instance] theorem forward_zero_plus (mx : prelexer) [h : Forward mx] :
    Forward (zero_plus mx) :=
  ⟨suffixing_zero_plus mx h.suffix⟩

@[instance] theorem forward_one_plus (mx : prelexer) [h : Forward mx] : Forward (one_plus mx) :=
  ⟨suffixing_one_plus mx h.suffix⟩

@[instance] theorem forward_delimited_by (beg stop : List Char) (esc : Bool) :
    Forward (delimited_by beg stop esc) :=
  ⟨suffixing_delimited_by beg stop esc⟩

@[instance] theorem forward_to_endl (pre : List Char) : Forward (to_endl pre) :=
  ⟨suffixing_to_endl pre⟩

@[instance] theorem forward_sequence_nil : Forward (sequence []) :=
  ⟨suffixing_sequence _ (fun _ h => by cases h)⟩

@[instance] theorem forward_sequence_cons (mx : prelexer) (mxs : List prelexer)
    [h : Forward mx] [hs : Forward (sequence mxs)] : Forward (sequence (mx :: mxs)) := by
  constructor
  intro s r e
  simp only [sequence] at e
  split at e
  · rename_i rest hm
    exact (hs.suffix rest r e).trans (h.suffix s rest hm)
  · cases e

@[instance] theorem forward_alternatives_nil : Forward (alternatives []) :=
  ⟨suffixing_alternatives _ (fun _ h => by cases h)⟩

@[instance] theorem forward_alternatives_cons (mx : prelexer) (mxs : List prelexer)
    [h : Forward mx] [hs : Forward (alternatives mxs)] : Forward (alternatives (mx :: mxs)) := by
  constructor
  intro s r e
  simp only [alternatives] at e
  split at e
  · rename_i rest hm
    cases e
    exact h.suffix s _ hm
  · exact hs.suffix s r e

@[instance] theorem consuming_exactly (c : Char) : Consuming (exactly c) := by
  constructor
  intro s r h
  cases s with
  | nil => simp [exactly] at h
  | cons x xs =>
    simp only [exactly] at h
    split at h
    · cases h
      simp
    · cases h

@[instance] theorem consuming_satisfy (p : Char → Bool) : Consuming (satisfy p) := by
  constructor
  intro s r h
  cases s with
  | nil => simp [satisfy] at h
  | cons x xs =>
    simp only [satisfy] at h
    split at h
    · cases h
      simp
    · cases h

@[instance] theorem consuming_class_char (cs : List Char) : Consuming (class_char cs) := by
  constructor
  intro s r h
  cases s with
  | nil => simp [class_char] at h
  | cons x xs =>
    simp only [class_char] at h
    split at h
    · cases h
      simp
    · cases h

@[instance] theorem consuming_any_char : Consuming any_char := by
  constructor
  intro s r h
  cases s with
  | nil => simp [any_char] at h
  | cons x xs =>
    simp only [any_char] at h
    cases h
    simp

theorem consuming_exactly_s (pre : List Char) (hp : pre.length ≠ 0) :
    Consuming (exactly_s pre) := by
  constructor
  intro s r h
  rw [exactly_s_eq_some] at h
  rw [h]
  simp
  omega

@[instance] theorem consuming_exactly_s_cons (p : Char) (pre : List Char) :
    Consuming (exactly_s (p :: pre)) :=
  consuming_exactly_s _ (by simp)

theorem consuming_two_exactly_s (pre : List Char) (hp : 2 ≤ pre.length) :
    Consuming_two (exactly_s pre) := by
  intro s r h
  rw [exactly_s_eq_some] at h
  rw [h]
  simp
  omega

/-- A sequence takes a byte when its first matcher does. -/
@[instance] theorem consuming_sequence_head (mx : prelexer) (mxs : List prelexer)
    [h : Consuming mx] [hs : Forward (sequence mxs)] : Consuming (sequence (mx :: mxs)) := by
  constructor
  intro s r e
  simp only [sequence] at e
  split at e
  · rename_i rest hm
    have h1 := (hs.suffix rest r e).length_le
    have h2 := h.shorter s rest hm
    omega
  · cases e

/-- A sequence takes a byte when the matchers after the first one do. -/
@[instance] theorem consuming_sequence_tail (mx : prelexer) (mxs : List prelexer)
    [h : Forward mx] [hs : Consuming (sequence mxs)] : Consuming (sequence (mx :: mxs)) := by
  constructor
  intro s r e
  simp only [sequence] at e
  split at e
  · rename_i rest hm
    have h1 := (h.suffix s rest hm).length_le
    have h2 := hs.shorter rest r e
    omega
  · cases e

@[instance] theorem consuming_alternatives_nil : Consuming (alternatives []) := by
  constructor
  intro s r e
  simp [alternatives] at e

@[instance] theorem consuming_alternatives_cons (mx : prelexer) (mxs : List prelexer)
    [h : Consuming mx] [hs : Consuming (alternatives mxs)] :
    Consuming (alternatives (mx :: mxs)) := by
  constructor
  intro s r e
  simp only [alternatives] at e
  split at e
  · rename_i rest hm
    cases e
    exact h.shorter s _ hm
  · exact hs.shorter s r e

@[instance] theorem consuming_one_plus (mx : prelexer) [h : Consuming mx] [hs : Forward mx] :
    Consuming (one_plus mx) := by
  constructor
  intro s r e
  simp only [one_plus] at e
  split at e
  · rename_i rest hm
    cases e
    have h1 := (star_suffix mx hs.suffix (rest.length + 1) rest).length_le
    have h2 := h.shorter s rest hm
    omega
  · cases e

theorem consuming_delimited_by (beg stop : List Char) (esc : Bool) (hb : beg.length ≠ 0) :
    Consuming (delimited_by beg stop esc) := by
  constructor
  intro s r e
  simp only [delimited_by] at e
  split at e
  · rename_i rest hm
    have h1 := (delimited_scan_suffix _ _ _ _ _ _ e).length_le
    have h2 := (consuming_exactly_s beg hb).shorter s rest hm
    omega
  · cases e

@[instance] theorem consuming_delimited_by_cons (p : Char) (beg stop : List Char)
    (esc : Bool) : Consuming (delimited_by (p :: beg) stop esc) :=
  consuming_delimited_by _ _ _ (by simp)

theorem consuming_two_delimited_by (beg stop : List Char) (esc : Bool)
    (hb : 2 ≤ beg.length) : Consuming_two (delimited_by beg stop esc) := by
  intro s r e
  simp only [delimited_by] at e
  split at e
  · rename_i rest hm
    have h1 := (delimited_scan_suffix _ _ _ _ _ _ e).length_le
    have h2 := consuming_two_exactly_s beg hb s rest hm
    omega
  · cases e

theorem consuming_two_interpolant : Consuming_two interpolant :=
  consuming_two_delimited_by _ _ _ (by decide)

theorem consuming_two_hash_lbrace : Consuming_two (exactly_s hash_lbrace) :=
  consuming_two_exactly_s _ (by decide)

end Prelexer

namespace Prelexer

@[instance] theorem forward_space : Forward space := by
  unfold space
  infer_instance

@[instance] theorem consuming_space : Consuming space := by
  unfold space
  infer_instance

@[instance] theorem forward_alpha : Forward alpha := by
  unfold alpha
  infer_instance

@[instance] theorem consuming_alpha : Consuming alpha := by
  unfold alpha
  infer_instance

@[instance] theorem forward_digit : Forward digit := by
  unfold digit
  infer_instance

@[instance] theorem consuming_digit : Consuming digit := by
  unfold digit
  infer_instance

@[instance] theorem forward_xdigit : Forward xdigit := by
  unfold xdigit
  infer_instance

@[instance] theorem consuming_xdigit : Consuming xdigit := by
  unfold xdigit
  infer_instance

@[instance] theorem forward_alnum : Forward alnum := by
  unfold alnum
  infer_instance

@[instance] theorem consuming_alnum : Consuming alnum := by
  unfold alnum
  infer_instance

@[instance] theorem forward_spaces : Forward spaces := by
  unfold spaces
  infer_instance

@[instance] theorem consuming_spaces : Consuming spaces := by
  unfold spaces
  infer_instance

@[instance] theorem forward_digits : Forward digits := by
  unfold digits
  infer_instance

@[instance] theorem consuming_digits : Consuming digits := by
  unfold digits
  infer_instance

@[instance] theorem forward_optional_spaces : Forward optional_spaces := by
  unfold optional_spaces
  infer_instance

@[instance] theorem forward_line_comment : Forward line_comment := by
  unfold line_comment
  infer_instance

@[instance] theorem forward_block_comment : Forward block_comment := by
  unfold block_comment
  infer_instance

@[instance] theorem forward_comment : Forward comment := by
  unfold comment
  infer_instance

@[instance] theorem forward_spaces_and_comments : Forward spaces_and_comments := by
  unfold spaces_and_comments
  infer_instance

@[instance] theorem forward_no_spaces : Forward no_spaces := by
  unfold no_spaces
  infer_instance

@[instance] theorem forward_double_quoted_string : Forward double_quoted_string := by
  unfold double_quoted_string
  infer_instance

@[instance] theorem consuming_double_quoted_string : Consuming double_quoted_string := by
  unfold double_quoted_string
  infer_instance

@[instance] theorem forward_single_quoted_string : Forward single_quoted_string := by
  unfold single_quoted_string
  infer_instance

@[instance] theorem consuming_single_quoted_string : Consuming single_quoted_string := by
  unfold single_quoted_string
  infer_instance

@[instance] theorem forward_string_constant : Forward string_constant := by
  unfold string_constant
  infer_instance

@[instance] theorem consuming_string_constant : Consuming string_constant := by
  unfold string_constant
  infer_instance

@[instance] theorem forward_interpolant : Forward interpolant := forward_delimited_by _ _ _

@[instance] theorem consuming_interpolant : Consuming interpolant :=
  consuming_delimited_by _ _ _ (by decide)

@[instance] theorem forward_backslash_something : Forward backslash_something := by
  unfold backslash_something
  infer_instance

@[instance] theorem consuming_backslash_something : Consuming backslash_something := by
  unfold backslash_something
  infer_instance

@[instance] theorem forward_identifier : Forward identifier := by
  unfold identifier
  infer_instance

@[instance] theorem consuming_identifier : Consuming identifier := by
  unfold identifier
  infer_instance

@[instance] theorem forward_name : Forward name := by
  unfold name
  infer_instance

@[instance] theorem consuming_name : Consuming name := by
  unfold name
  infer_instance

@[instance] theorem forward_sign : Forward sign := by
  unfold sign
  infer_instance

@[instance] theorem consuming_sign : Consuming sign := by
  unfold sign
  infer_instance

@[instance] theorem forward_unsigned_number : Forward unsigned_number := by
  unfold unsigned_number
  infer_instance

@[instance] theorem consuming_unsigned_number : Consuming unsigned_number := by
  unfold unsigned_number
  infer_instance

@[instance] theorem forward_number : Forward number := by
  unfold number
  infer_instance

@[instance] theorem consuming_number : Consuming number := by
  unfold number
  infer_instance

@[instance] theorem forward_coefficient : Forward coefficient := by
  unfold coefficient
  infer_instance

@[instance] theorem consuming_coefficient : Consuming coefficient := by
  unfold coefficient
  infer_instance

@[instance] theorem forward_binomial : Forward binomial := by
  unfold binomial
  infer_instance

@[instance] theorem consuming_binomial : Consuming binomial := by
  unfold binomial
  infer_instance

@[instance] theorem forward_percentage : Forward percentage := by
  unfold percentage
  infer_instance

@[instance] theorem consuming_percentage : Consuming percentage := by
  unfold percentage
  infer_instance

@[instance] theorem forward_dimension : Forward dimension := by
  unfold dimension
  infer_instance

@[instance] theorem consuming_dimension : Consuming dimension := by
  unfold dimension
  infer_instance

@[instance] theorem forward_hex : Forward hex := by
  constructor
  intro s r e
  simp only [hex] at e
  split at e
  · rename_i rest hm
    split at e
    · cases e
      exact (inferInstance : Forward (sequence [exactly '#', one_plus xdigit])).suffix s _ hm
    · cases e
  · cases e

@[instance] theorem consuming_hex : Consuming hex := by
  constructor
  intro s r e
  simp only [hex] at e
  split at e
  · rename_i rest hm
    split at e
    · cases e
      rename_i hl
      simp at hl
      omega
    · cases e
  · cases e


@[instance] theorem forward_variable_ : Forward variable_ := by
  unfold variable_
  infer_instance

@[instance] theorem consuming_variable_ : Consuming variable_ := by
  unfold variable_
  infer_instance

@[instance] theorem forward_identifier_schema : Forward identifier_schema := by
  unfold identifier_schema
  infer_instance

@[instance] theorem consuming_identifier_schema : Consuming identifier_schema := by
  unfold identifier_schema
  infer_instance

@[instance] theorem forward_value_schema : Forward value_schema := by
  unfold value_schema
  infer_instance

@[instance] theorem consuming_value_schema : Consuming value_schema := by
  unfold value_schema
  infer_instance

@[instance] theorem forward_directive : Forward directive := by
  unfold directive
  infer_instance

@[instance] theorem consuming_directive : Consuming directive := by
  unfold directive
  infer_instance

@[instance] theorem forward_import_ : Forward import_ := forward_exactly_s _

@[instance] theorem consuming_import_ : Consuming import_ :=
  consuming_exactly_s _ (by decide)

@[instance] theorem forward_media : Forward media := forward_exactly_s _

@[instance] theorem consuming_media : Consuming media :=
  consuming_exactly_s _ (by decide)

@[instance] theorem forward_mixin : Forward mixin := forward_exactly_s _

@[instance] theorem consuming_mixin : Consuming mixin :=
  consuming_exactly_s _ (by decide)

@[instance] theorem forward_function : Forward function := forward_exactly_s _

@[instance] theorem consuming_function : Consuming function :=
  consuming_exactly_s _ (by decide)

@[instance] theorem forward_return_directive : Forward return_directive := forward_exactly_s _

@[instance] theorem consuming_return_directive : Consuming return_directive :=
  consuming_exactly_s _ (by decide)

@[instance] theorem forward_include_ : Forward include_ := forward_exactly_s _

@[instance] theorem consuming_include_ : Consuming include_ :=
  consuming_exactly_s _ (by decide)

@[instance] theorem forward_extend : Forward extend := forward_exactly_s _

@[instance] theorem consuming_extend : Consuming extend :=
  consuming_exactly_s _ (by decide)

@[instance] theorem forward_if_directive : Forward if_directive := forward_exactly_s _

@[instance] theorem consuming_if_directive : Consuming if_directive :=
  consuming_exactly_s _ (by decide)

@[instance] theorem forward_else_directive : Forward else_directive := forward_exactly_s _

@[instance] theorem consuming_else_directive : Consuming else_directive :=
  consuming_exactly_s _ (by decide)

@[instance] theorem forward_elseif_directive : Forward elseif_directive := by
  unfold elseif_directive
  infer_instance

@[instance] theorem consuming_elseif_directive : Consuming elseif_directive := by
  unfold elseif_directive
  infer_instance

@[instance] theorem forward_for_directive : Forward for_directive := forward_exactly_s _

@[instance] theorem consuming_for_directive : Consuming for_directive :=
  consuming_exactly_s _ (by decide)

@[instance] theorem forward_from_ : Forward from_ := forward_exactly_s _

@[instance] theorem consuming_from_ : Consuming from_ :=
  consuming_exactly_s _ (by decide)

@[instance] theorem forward_to_ : Forward to_ := forward_exactly_s _

@[instance] theorem consuming_to_ : Consuming to_ :=
  consuming_exactly_s _ (by decide)

@[instance] theorem forward_through : Forward through := forward_exactly_s _

@[instance] theorem consuming_through : Consuming through :=
  consuming_exactly_s _ (by decide)

@[instance] theorem forward_each_directive : Forward each_directive := forward_exactly_s _

@[instance] theorem consuming_each_directive : Consuming each_directive :=
  consuming_exactly_s _ (by decide)

@[instance] theorem forward_in_ : Forward in_ := forward_exactly_s _

@[instance] theorem consuming_in_ : Consuming in_ :=
  consuming_exactly_s _ (by decide)

@[instance] theorem forward_while_directive : Forward while_directive := forward_exactly_s _

@[instance] theorem consuming_while_directive : Consuming while_directive :=
  consuming_exactly_s _ (by decide)

@[instance] theorem forward_warn : Forward warn := forward_exactly_s _

@[instance] theorem consuming_warn : Consuming warn :=
  consuming_exactly_s _ (by decide)

@[instance] theorem forward_namespace_prefix : Forward  namespace_prefix := by
  unfold  namespace_prefix
  infer_instance

@[instance] theorem consuming_namespace_prefix : Consuming  namespace_prefix := by
  unfold  namespace_prefix
  infer_instance

@[instance] theorem forward_type_selector : Forward type_selector := by
  unfold type_selector
  infer_instance

@[instance] theorem consuming_type_selector : Consuming type_selector := by
  unfold type_selector
  infer_instance

@[instance] theorem forward_universal : Forward universal := by
  unfold universal
  infer_instance

@[instance] theorem consuming_universal : Consuming universal := by
  unfold universal
  infer_instance

@[instance] theorem forward_id_name : Forward id_name := by
  unfold id_name
  infer_instance

@[instance] theorem consuming_id_name : Consuming id_name := by
  unfold id_name
  infer_instance

@[instance] theorem forward_class_name : Forward class_name := by
  unfold class_name
  infer_instance

@[instance] theorem consuming_class_name : Consuming class_name := by
  unfold class_name
  infer_instance

@[instance] theorem forward_uri_prefix : Forward  uri_prefix := forward_exactly_s _

@[instance] theorem consuming_uri_prefix : Consuming  uri_prefix :=
  consuming_exactly_s _ (by decide)

@[instance] theorem forward_important : Forward important := by
  unfold important
  infer_instance

@[instance] theorem consuming_important : Consuming important := by
  unfold important
  infer_instance

@[instance] theorem forward_default_flag : Forward default_flag := by
  unfold default_flag
  infer_instance

@[instance] theorem consuming_default_flag : Consuming default_flag := by
  unfold default_flag
  infer_instance

@[instance] theorem forward_pseudo_prefix : Forward  pseudo_prefix := by
  unfold  pseudo_prefix
  infer_instance

@[instance] theorem consuming_pseudo_prefix : Consuming  pseudo_prefix := by
  unfold  pseudo_prefix
  infer_instance

@[instance] theorem forward_functional : Forward functional := by
  unfold functional
  infer_instance

@[instance] theorem consuming_functional : Consuming functional := by
  unfold functional
  infer_instance

@[instance] theorem forward_pseudo_not : Forward pseudo_not := forward_exactly_s _

@[instance] theorem consuming_pseudo_not : Consuming pseudo_not :=
  consuming_exactly_s _ (by decide)

@[instance] theorem forward_even : Forward even := forward_exactly_s _

@[instance] theorem consuming_even : Consuming even :=
  consuming_exactly_s _ (by decide)

@[instance] theorem forward_odd : Forward odd := forward_exactly_s _

@[instance] theorem consuming_odd : Consuming odd :=
  consuming_exactly_s _ (by decide)

@[instance] theorem forward_exact_match : Forward exact_match := by
  unfold exact_match
  infer_instance

@[instance] theorem consuming_exact_match : Consuming exact_match := by
  unfold exact_match
  infer_instance

@[instance] theorem forward_class_match : Forward class_match := forward_exactly_s _

@[instance] theorem consuming_class_match : Consuming class_match :=
  consuming_exactly_s _ (by decide)

@[instance] theorem forward_dash_match : Forward dash_match := forward_exactly_s _

@[instance] theorem consuming_dash_match : Consuming dash_match :=
  consuming_exactly_s _ (by decide)

@[instance] theorem forward_prefix_match : Forward prefix_match := forward_exactly_s _

@[instance] theorem consuming_prefix_match : Consuming prefix_match :=
  consuming_exactly_s _ (by decide)

@[instance] theorem forward_suffix_match : Forward suffix_match := forward_exactly_s _

@[instance] theorem consuming_suffix_match : Consuming suffix_match :=
  consuming_exactly_s _ (by decide)

@[instance] theorem forward_substring_match : Forward substring_match := forward_exactly_s _

@[instance] theorem consuming_substring_match : Consuming substring_match :=
  consuming_exactly_s _ (by decide)

@[instance] theorem forward_and_kwd : Forward and_kwd := forward_exactly_s _

@[instance] theorem consuming_and_kwd : Consuming and_kwd :=
  consuming_exactly_s _ (by decide)

@[instance] theorem forward_or_kwd : Forward or_kwd := forward_exactly_s _

@[instance] theorem consuming_or_kwd : Consuming or_kwd :=
  consuming_exactly_s _ (by decide)

@[instance] theorem forward_not_kwd : Forward not_kwd := forward_exactly_s _

@[instance] theorem consuming_not_kwd : Consuming not_kwd :=
  consuming_exactly_s _ (by decide)

@[instance] theorem forward_only_kwd : Forward only_kwd := forward_exactly_s _

@[instance] theorem consuming_only_kwd : Consuming only_kwd :=
  consuming_exactly_s _ (by decide)

@[instance] theorem forward_true_kwd : Forward true_kwd := forward_exactly_s _

@[instance] theorem consuming_true_kwd : Consuming true_kwd :=
  consuming_exactly_s _ (by decide)

@[instance] theorem forward_false_kwd : Forward false_kwd := forward_exactly_s _

@[instance] theorem consuming_false_kwd : Consuming false_kwd :=
  consuming_exactly_s _ (by decide)

@[instance] theorem forward_eq_op : Forward eq_op := forward_exactly_s _

@[instance] theorem consuming_eq_op : Consuming eq_op :=
  consuming_exactly_s _ (by decide)

@[instance] theorem forward_neq_op : Forward neq_op := forward_exactly_s _

@[instance] theorem consuming_neq_op : Consuming neq_op :=
  consuming_exactly_s _ (by decide)

@[instance] theorem forward_gt_op : Forward gt_op := by
  unfold gt_op
  infer_instance

@[instance] theorem consuming_gt_op : Consuming gt_op := by
  unfold gt_op
  infer_instance

@[instance] theorem forward_gte_op : Forward gte_op := forward_exactly_s _

@[instance] theorem consuming_gte_op : Consuming gte_op :=
  consuming_exactly_s _ (by decide)

@[instance] theorem forward_lt_op : Forward lt_op := by
  unfold lt_op
  infer_instance

@[instance] theorem consuming_lt_op : Consuming lt_op := by
  unfold lt_op
  infer_instance

@[instance] theorem forward_lte_op : Forward lte_op := forward_exactly_s _

@[instance] theorem consuming_lte_op : Consuming lte_op :=
  consuming_exactly_s _ (by decide)

@[instance] theorem forward_folder : Forward folder := by
  unfold folder
  infer_instance

@[instance] theorem forward_folders : Forward folders := by
  unfold folders
  infer_instance

end Prelexer

/-! ### Runs that return or raise -/

@[instance] theorem Prelexer.consuming_block_comment : Prelexer.Consuming Prelexer.block_comment := by
  unfold Prelexer.block_comment
  have h : Prelexer.Consuming
      (Prelexer.delimited_by Prelexer.slash_star Prelexer.star_slash false) :=
    Prelexer.consuming_delimited_by _ _ _ (by decide)
  have h1 : Prelexer.Consuming (Prelexer.sequence
      [Prelexer.delimited_by Prelexer.slash_star Prelexer.star_slash false]) :=
    Prelexer.consuming_sequence_head _ _
  exact Prelexer.consuming_sequence_tail _ _

/-- The state after a match of a matcher that takes a byte: the span starts at or after
the old cursor, and the cursor is after the start of the span, within the buffer. -/
theorem Document.lexed_with_hit (d : Document) (k : Skip) (mx : Prelexer.prelexer)
    [hc : Prelexer.Consuming mx] (h : d.sees k mx = true) :
    (d.lexed_with k mx).source = d.source ∧ (d.lexed_with k mx).context = d.context ∧
    d.position ≤ (d.lexed_with k mx).lexed.begin ∧
    (d.lexed_with k mx).lexed.begin < (d.lexed_with k mx).position ∧
    (d.lexed_with k mx).position ≤ d.source.length := by
  unfold Document.sees at h
  unfold Document.lexed_with
  cases hm : mx (after_whitespace k (d.source.drop d.position)) with
  | none => rw [hm] at h; cases h
  | some r =>
    have h1 := (after_whitespace_suffix k (d.source.drop d.position)).length_le
    have h2 := hc.shorter _ _ hm
    rw [List.length_drop] at h1
    simp only [Document.offset, true_and]
    omega

/-- The same for a matcher that takes two bytes. -/
theorem Document.lexed_with_hit_two (d : Document) (k : Skip) (mx : Prelexer.prelexer)
    (hc : Prelexer.Consuming_two mx) (h : d.sees k mx = true) :
    (d.lexed_with k mx).source = d.source ∧ (d.lexed_with k mx).context = d.context ∧
    d.position ≤ (d.lexed_with k mx).lexed.begin ∧
    (d.lexed_with k mx).lexed.begin + 2 ≤ (d.lexed_with k mx).position ∧
    (d.lexed_with k mx).position ≤ d.source.length := by
  unfold Document.sees at h
  unfold Document.lexed_with
  cases hm : mx (after_whitespace k (d.source.drop d.position)) with
  | none => rw [hm] at h; cases h
  | some r =>
    have h1 := (after_whitespace_suffix k (d.source.drop d.position)).length_le
    have h2 := hc _ _ hm
    rw [List.length_drop] at h1
    simp only [Document.offset, true_and]
    omega

/-- The state after `lex` with a matcher that moves forward: the cursor is not before the
old one. -/
theorem Document.lexed_with_forward (d : Document) (k : Skip) (mx : Prelexer.prelexer)
    [hc : Prelexer.Forward mx] (hp : d.position ≤ d.source.length) :
    (d.lexed_with k mx).source = d.source ∧ (d.lexed_with k mx).context = d.context ∧
    d.position ≤ (d.lexed_with k mx).position ∧
    (d.lexed_with k mx).position ≤ d.source.length := by
  unfold Document.lexed_with
  cases hm : mx (after_whitespace k (d.source.drop d.position)) with
  | none => exact ⟨rfl, rfl, Nat.le_refl _, hp⟩
  | some r =>
    have h1 := (after_whitespace_suffix k (d.source.drop d.position)).length_le
    have h2 := (hc.suffix _ _ hm).length_le
    rw [List.length_drop] at h1
    simp only [Document.offset, true_and]
    omega

theorem total_of_eq {α : Type} {x : Parser α} {d : Document} {Q : α → Document → Prop}
    {a : α} {d1 : Document} (h : x d = .ok (a, d1)) (hQ : Q a d1) : x.total d Q := by
  unfold Parser.total
  rw [h]
  exact hQ

theorem total_pure {α : Type} {a : α} {d : Document} {Q : α → Document → Prop}
    (h : Q a d) : (pure a : Parser α).total d Q := h

theorem total_bind {α β : Type} {x : Parser α} {f : α → Parser β} {d : Document}
    {Q : β → Document → Prop} (h : x.total d (fun a d1 => (f a).total d1 Q)) :
    (x >>= f).total d Q := by
  unfold Parser.total at h ⊢
  rw [bind_apply]
  cases hx : x d with
  | error e => rw [hx] at h; exact h
  | ok r =>
    obtain ⟨a, d1⟩ := r
    rw [hx] at h
    exact h

theorem total_mono {α : Type} {x : Parser α} {d : Document} {P Q : α → Document → Prop}
    (h : x.total d P) (hPQ : ∀ a d1, P a d1 → Q a d1) : x.total d Q := by
  unfold Parser.total at h ⊢
  cases hx : x d with
  | error e => rw [hx] at h; exact h
  | ok r =>
    obtain ⟨a, d1⟩ := r
    rw [hx] at h
    exact hPQ a d1 h

theorem total_throw {α : Type} (m : String) (d : Document) (Q : α → Document → Prop) :
    (throw_syntax_error m : Parser α).total d Q := by
  unfold Parser.total throw_syntax_error
  intro h
  cases h

theorem total_undefined {α : Type} (d : Document) (Q : α → Document → Prop) :
    (undefined_behaviour : Parser α).total d Q := by
  unfold Parser.total undefined_behaviour
  intro h
  cases h

/-- Without files a quoted import raises the read error. -/
theorem total_in_file (path : List Char) (p : Parser Node) {d : Document}
    {Q : Node → Document → Prop} (hf : d.context.files = []) :
    (in_file path p).total d Q := by
  unfold Parser.total in_file Context.load
  rw [hf]
  intro h
  cases h

/-- A match with a matcher that takes a byte: on a hit the cursor is ahead. -/
theorem total_lex_with {k : Skip} {mx : Prelexer.prelexer} [Prelexer.Consuming mx]
    {d : Document} {Q : Bool → Document → Prop} (hf : d.context.files = [])
    (hit : ∀ d1 : Document, d1.source.length = d.source.length → d1.context.files = [] →
      d1.position ≤ d1.source.length → d.position ≤ d1.lexed.begin →
      d1.lexed.begin < d1.position → Q true d1)
    (miss : ¬ d.sees k mx = true → Q false d) : (lex_with k mx).total d Q := by
  refine total_of_eq (lex_with_apply k mx d) ?_
  cases h : d.sees k mx with
  | false =>
    rw [Document.lexed_with_of_not_sees h]
    exact miss (by rw [h]; decide)
  | true =>
    obtain ⟨h1, h2, h3, h4, h5⟩ := d.lexed_with_hit k mx h
    exact hit _ (by rw [h1]) (by rw [h2]; exact hf) (by rw [h1]; exact h5) h3 h4

theorem total_lex {mx : Prelexer.prelexer} [Prelexer.Consuming mx]
    {d : Document} {Q : Bool → Document → Prop} (hf : d.context.files = [])
    (hit : ∀ d1 : Document, d1.source.length = d.source.length → d1.context.files = [] →
      d1.position ≤ d1.source.length → d.position ≤ d1.lexed.begin →
      d1.lexed.begin < d1.position → Q true d1)
    (miss : ¬ d.sees .spaces_and_comments mx = true → Q false d) : (lex mx).total d Q :=
  total_lex_with hf hit miss

theorem total_lex_block_comment {d : Document} {Q : Bool → Document → Prop}
    (hf : d.context.files = [])
    (hit : ∀ d1 : Document, d1.source.length = d.source.length → d1.context.files = [] →
      d1.position ≤ d1.source.length → d.position ≤ d1.lexed.begin →
      d1.lexed.begin < d1.position → Q true d1)
    (miss : ¬ d.sees .before_block_comment Prelexer.block_comment = true → Q false d) :
    lex_block_comment.total d Q :=
  total_lex_with hf hit miss

/-- A match of an interpolant: the span has two bytes at least. -/
theorem total_lex_interpolant {d : Document} {Q : Bool → Document → Prop}
    (hf : d.context.files = [])
    (hit : ∀ d1 : Document, d1.source.length = d.source.length → d1.context.files = [] →
      d1.position ≤ d1.source.length → d.position ≤ d1.lexed.begin →
      d1.lexed.begin + 2 ≤ d1.position → Q true d1)
    (miss : ¬ d.sees .spaces_and_comments Prelexer.interpolant = true → Q false d) :
    (lex Prelexer.interpolant).total d Q := by
  refine total_of_eq (lex_with_apply _ _ d) ?_
  cases h : d.sees .spaces_and_comments Prelexer.interpolant with
  | false =>
    rw [Document.lexed_with_of_not_sees h]
    exact miss (by rw [h]; decide)
  | true =>
    obtain ⟨h1, h2, h3, h4, h5⟩ :=
      d.lexed_with_hit_two _ _ Prelexer.consuming_two_interpolant h
    exact hit _ (by rw [h1]) (by rw [h2]; exact hf) (by rw [h1]; exact h5) h3 h4

/-- A match with a matcher that moves forward: the cursor is not before the old one. -/
theorem total_lex_with_forward {k : Skip} {mx : Prelexer.prelexer} [Prelexer.Forward mx]
    {d : Document} {Q : Bool → Document → Prop} (hf : d.context.files = [])
    (hp : d.position ≤ d.source.length)
    (h : ∀ (b : Bool) (d1 : Document), d1.source.length = d.source.length →
      d1.context.files = [] → d1.position ≤ d1.source.length → d.position ≤ d1.position →
      Q b d1) : (lex_with k mx).total d Q := by
  refine total_of_eq (lex_with_apply k mx d) ?_
  obtain ⟨h1, h2, h3, h4⟩ := d.lexed_with_forward k mx hp
  exact h _ _ (by rw [h1]) (by rw [h2]; exact hf) (by rw [h1]; exact h4) h3

theorem total_lex_forward {mx : Prelexer.prelexer} [Prelexer.Forward mx]
    {d : Document} {Q : Bool → Document → Prop} (hf : d.context.files = [])
    (hp : d.position ≤ d.source.length)
    (h : ∀ (b : Bool) (d1 : Document), d1.source.length = d.source.length →
      d1.context.files = [] → d1.position ≤ d1.source.length → d.position ≤ d1.position →
      Q b d1) : (lex mx).total d Q :=
  total_lex_with_forward hf hp h

theorem total_lex_optional_spaces {d : Document} {Q : Bool → Document → Prop}
    (hf : d.context.files = []) (hp : d.position ≤ d.source.length)
    (h : ∀ (b : Bool) (d1 : Document), d1.source.length = d.source.length →
      d1.context.files = [] → d1.position ≤ d1.source.length → d.position ≤ d1.position →
      Q b d1) : lex_optional_spaces.total d Q :=
  total_lex_with_forward hf hp h

theorem total_peek {mx : Prelexer.prelexer} {d : Document} {Q : Bool → Document → Prop}
    (ht : d.sees .spaces_and_comments mx = true → Q true d)
    (hn : d.sees .spaces_and_comments mx = false → Q false d) : (peek mx).total d Q := by
  refine total_of_eq (peek_apply mx d) ?_
  cases h : d.sees .spaces_and_comments mx with
  | false => exact hn h
  | true => exact ht h

theorem total_peek_any {mx : Prelexer.prelexer} {d : Document} {Q : Bool → Document → Prop}
    (h : ∀ b, Q b d) : (peek mx).total d Q :=
  total_of_eq (peek_apply mx d) (h _)

theorem total_peek_spaces {d : Document} {Q : Bool → Document → Prop}
    (h : ∀ b, Q b d) : peek_spaces.total d Q :=
  total_of_eq (peek_spaces_apply d) (h _)

theorem total_new_Node {t : NodeType} {d : Document} {Q : Node → Document → Prop}
    (h : Q ⟨t, d.path, d.line, Token.make, false, false, []⟩ d) : (new_Node t).total d Q := h

theorem total_new_Node_at {t : NodeType} {l : Nat} {d : Document}
    {Q : Node → Document → Prop}
    (h : Q ⟨t, d.path, l, Token.make, false, false, []⟩ d) : (new_Node_at t l).total d Q := h

theorem total_new_Node_token {t : NodeType} {tok : Token} {d : Document}
    {Q : Node → Document → Prop}
    (h : Q ⟨t, d.path, d.line, tok, false, false, []⟩ d) :
    (new_Node_token t tok).total d Q := h

theorem total_new_Node_lexed {t : NodeType} {d : Document} {Q : Node → Document → Prop}
    (h : Q ⟨t, d.path, d.line, d.lexed, false, false, []⟩ d) :
    (new_Node_lexed t).total d Q := h

theorem total_new_Node_boolean {b : Bool} {d : Document} {Q : Node → Document → Prop}
    (h : Q ⟨.boolean, d.path, d.line, Token.make, b, false, []⟩ d) :
    (new_Node_boolean b).total d Q := h

theorem total_get_position {d : Document} {Q : Nat → Document → Prop}
    (h : Q d.position d) : get_position.total d Q := h

theorem total_get_line {d : Document} {Q : Nat → Document → Prop}
    (h : Q d.line d) : get_line.total d Q := h

theorem total_get_lexed {d : Document} {Q : Token → Document → Prop}
    (h : Q d.lexed d) : get_lexed.total d Q := h

theorem total_lexed_first {d : Document} {Q : Option Char → Document → Prop}
    (h : ∀ c, Q c d) : lexed_first.total d Q := h _

theorem total_before_end {d : Document} {Q : Bool → Document → Prop}
    (h : ∀ b, Q b d) : before_end.total d Q := h _

theorem total_import_path {d : Document} {Q : List Char → Document → Prop}
    (h : ∀ p, Q p d) : import_path.total d Q := h _

theorem total_lookahead {d : Document} {Q : Selector_Lookahead → Document → Prop}
    (h : Q (lookahead_for_selector d d.position) d) : lookahead.total d Q := h

theorem total_set_position {p : Nat} {d : Document} {Q : Unit → Document → Prop}
    (hf : d.context.files = [])
    (h : ∀ d1 : Document, d1.source.length = d.source.length →
      d1.context.files = [] → d1.position = p → Q () d1) :
    (set_position p).total d Q :=
  h _ rfl hf rfl

theorem total_register_extension {a b : Node} {d : Document} {Q : Unit → Document → Prop}
    (hf : d.context.files = [])
    (h : ∀ d1 : Document, d1.source.length = d.source.length →
      d1.context.files = [] → d1.position = d.position → Q () d1) :
    (register_extension a b).total d Q :=
  h _ rfl hf rfl

/-! ### Calls, searches and the arbiter -/

theorem advances_of_lt {c : Call} {d d1 : Document}
    (h1 : d1.source.length = d.source.length) (h2 : d1.context.files = [])
    (h3 : d1.position ≤ d1.source.length) (h4 : d.position < d1.position) :
    c.advances d d1 :=
  ⟨h1, h2, h3, Nat.le_of_lt h4, fun _ => h4⟩

theorem advances_of_le {c : Call} {d d1 : Document} (hs : c.strict = false)
    (h1 : d1.source.length = d.source.length) (h2 : d1.context.files = [])
    (h3 : d1.position ≤ d1.source.length) (h4 : d.position ≤ d1.position) :
    c.advances d d1 :=
  ⟨h1, h2, h3, h4, fun h => by rw [hs] at h; cases h⟩

/-- A call of a production below the measure: it returns with the cursor not before the
one of the call, or raises. -/
theorem total_rec {rec : Call → Parser Node} {m : Nat} (hrec : Terminates rec m)
    {c : Call} {d : Document} {Q : Node → Document → Prop}
    (hf : d.context.files = []) (hp : d.position ≤ d.source.length) (ha : c.admits d)
    (hm : c.measure d < m)
    (k : ∀ (a : Node) (d1 : Document), d1.source.length = d.source.length →
      d1.context.files = [] → d1.position ≤ d1.source.length → d.position ≤ d1.position →
      Q a d1) : (rec c).total d Q :=
  total_mono (hrec c d hf hp ha hm) (fun a d1 h => k a d1 h.1 h.2.1 h.2.2.1 h.2.2.2.1)

/-- A call of a strict production below the measure: it returns with the cursor after
the one of the call, or raises. -/
theorem total_rec_strict {rec : Call → Parser Node} {m : Nat} (hrec : Terminates rec m)
    {c : Call} {d : Document} {Q : Node → Document → Prop} (hs : c.strict = true)
    (hf : d.context.files = []) (hp : d.position ≤ d.source.length) (ha : c.admits d)
    (hm : c.measure d < m)
    (k : ∀ (a : Node) (d1 : Document), d1.source.length = d.source.length →
      d1.context.files = [] → d1.position ≤ d1.source.length → d.position < d1.position →
      Q a d1) : (rec c).total d Q :=
  total_mono (hrec c d hf hp ha hm) (fun a d1 h => k a d1 h.1 h.2.1 h.2.2.1 (h.2.2.2.2 hs))

/-- A call of a production on a span of the buffer: the outer document keeps its
cursor. -/
theorem total_in_token {rec : Call → Parser Node} {m : Nat} (hrec : Terminates rec m)
    {t : Token} {c : Call} {d : Document} {Q : Node → Document → Prop}
    (hf : d.context.files = []) (hp : t.begin ≤ d.source.length)
    (ha : c.admits { d with position := t.begin, end_ := t.end_, lexed := Token.make })
    (hm : c.measure { d with position := t.begin, end_ := t.end_, lexed := Token.make } < m)
    (k : ∀ (a : Node) (d1 : Document), d1.source.length = d.source.length →
      d1.context.files = [] → d1.position = d.position → d1.lexed = d.lexed → Q a d1) :
    (in_token t (rec c)).total d Q := by
  have h := hrec c { d with position := t.begin, end_ := t.end_, lexed := Token.make }
    hf hp ha hm
  unfold Parser.total at h ⊢
  unfold in_token
  cases hx : rec c { d with position := t.begin, end_ := t.end_, lexed := Token.make } with
  | error e => rw [hx] at h; exact h
  | ok r =>
    obtain ⟨a, d1⟩ := r
    rw [hx] at h
    exact k a _ rfl h.2.1 rfl rfl

theorem indexOf?_lt (c : Char) (l : List Char) (i : Nat) (h : l.indexOf? c = some i) :
    i < l.length := by
  induction l generalizing i with
  | nil => simp at h
  | cons x xs ih =>
    rw [List.indexOf?_cons] at h
    split at h
    · cases h
      simp
    · cases hx : xs.indexOf? c with
      | none => rw [hx] at h; cases h
      | some j =>
        rw [hx] at h
        cases h
        have := ih j hx
        simp
        omega

theorem find_first_bounds (c : Char) (src : List Char) (p q : Nat)
    (h : find_first c src p = some q) : p ≤ q ∧ q < src.length := by
  unfold find_first at h
  split at h
  · rename_i i hi
    cases h
    have h1 := indexOf?_lt _ _ _ hi
    rw [List.length_drop] at h1
    omega
  · cases h

theorem total_find_first_here {c : Char} {d : Document} {Q : Option Nat → Document → Prop}
    (hn : Q none d)
    (hs : ∀ q, d.position ≤ q → q < d.source.length → Q (some q) d) :
    (find_first_here c).total d Q := by
  show Q (find_first c d.source d.position) d
  cases h : find_first c d.source d.position with
  | none => exact hn
  | some q =>
    obtain ⟨h1, h2⟩ := find_first_bounds _ _ _ _ h
    exact hs q h1 h2

@[instance] theorem Prelexer.consuming_rbrace :
    Prelexer.Consuming (Prelexer.exactly_s Prelexer.rbrace) :=
  Prelexer.consuming_exactly_s _ (by decide)

theorem consuming_two_interpolant_start : Prelexer.Consuming_two interpolant_start := by
  intro s r h
  simp only [interpolant_start, Prelexer.sequence, Prelexer.negate] at h
  split at h
  · rename_i rest hm
    split at hm
    · cases hm
    · cases hm
      split at h
      · rename_i r2 h2
        cases h
        exact Prelexer.consuming_two_hash_lbrace _ _ h2
      · cases h
  · cases h

/-- A search for the start of an interpolant: two bytes of the buffer follow the
position found. -/
theorem total_find_two {mx : Prelexer.prelexer} (hc : Prelexer.Consuming_two mx)
    {b e : Nat} {d : Document} {Q : Option Nat → Document → Prop} (hn : Q none d)
    (hs : ∀ p, b ≤ p → p + 2 ≤ d.source.length → Q (some p) d) :
    (find_in_interval mx b e).total d Q := by
  show Q (find_first_in_interval mx d.source b e) d
  cases h : find_first_in_interval mx d.source b e with
  | none => exact hn
  | some p =>
    obtain ⟨h1, h2, _, h3, _⟩ := find_first_in_interval_some _ _ _ _ _ h
    cases hm : mx (d.source.drop p) with
    | none => rw [hm] at h3; cases h3
    | some r =>
      have h4 := hc _ _ hm
      rw [List.length_drop] at h4
      exact hs p h1 (by omega)

theorem total_find_interpolant_start {b e : Nat} {d : Document}
    {Q : Option Nat → Document → Prop} (hn : Q none d)
    (hs : ∀ p, b ≤ p → p + 2 ≤ d.source.length → Q (some p) d) :
    (find_in_interval interpolant_start b e).total d Q :=
  total_find_two consuming_two_interpolant_start hn hs

theorem total_find_hash_lbrace {b e : Nat} {d : Document}
    {Q : Option Nat → Document → Prop} (hn : Q none d)
    (hs : ∀ p, b ≤ p → p + 2 ≤ d.source.length → Q (some p) d) :
    (find_in_interval (Prelexer.exactly_s Prelexer.hash_lbrace) b e).total d Q :=
  total_find_two Prelexer.consuming_two_hash_lbrace hn hs

/-- A search for a matcher that takes a byte: the position found is within the
buffer. -/
theorem total_find_in_interval {mx : Prelexer.prelexer} [hc : Prelexer.Consuming mx]
    {b e : Nat} {d : Document} {Q : Option Nat → Document → Prop} (hn : Q none d)
    (hs : ∀ p, b ≤ p → p < d.source.length → Q (some p) d) :
    (find_in_interval mx b e).total d Q := by
  show Q (find_first_in_interval mx d.source b e) d
  cases h : find_first_in_interval mx d.source b e with
  | none => exact hn
  | some p =>
    obtain ⟨h1, h2, _, h3, _⟩ := find_first_in_interval_some _ _ _ _ _ h
    cases hm : mx (d.source.drop p) with
    | none => rw [hm] at h3; cases h3
    | some r =>
      have h4 := hc.shorter _ _ hm
      rw [List.length_drop] at h4
      exact hs p h1 (by omega)
theorem total_sequence_end {d : Document} {Q : Bool → Document → Prop}
    (h : ∀ b, Q b d) : sequence_end.total d Q := by
  unfold sequence_end
  repeat (first
    | refine total_bind ?_
    | refine total_peek_spaces ?_
    | refine total_peek_any ?_
    | intro _
    | exact h _)

theorem total_space_list_end {d : Document} {Q : Bool → Document → Prop}
    (h : ∀ b, Q b d) : space_list_end.total d Q := by
  unfold space_list_end
  repeat (first
    | refine total_bind ?_
    | refine total_peek_any ?_
    | intro _
    | exact h _)

theorem total_ite {α : Type} {c : Prop} [Decidable c] {x y : Parser α} {d : Document}
    {Q : α → Document → Prop} (hx : c → x.total d Q) (hy : ¬c → y.total d Q) :
    (if c then x else y).total d Q := by
  by_cases h : c
  · rw [if_pos h]
    exact hx h
  · rw [if_neg h]
    exact hy h

theorem total_ite_pos {α : Type} {c : Prop} [Decidable c] {x y : Parser α} {d : Document}
    {Q : α → Document → Prop} (h : c) (hx : x.total d Q) :
    (if c then x else y).total d Q := by
  rw [if_pos h]
  exact hx

theorem total_ite_neg {α : Type} {c : Prop} [Decidable c] {x y : Parser α} {d : Document}
    {Q : α → Document → Prop} (h : ¬c) (hy : y.total d Q) :
    (if c then x else y).total d Q := by
  rw [if_neg h]
  exact hy

/-! ### The arbiter moves forward -/

theorem peek_at_bounds (k : Skip) (mx : Prelexer.prelexer) [hc : Prelexer.Consuming mx]
    (d : Document) (p q : Nat) (h : peek_at k mx d p = some q) :
    p < q ∧ q ≤ d.source.length := by
  unfold peek_at at h
  split at h
  · rename_i r hm
    cases h
    have h1 := (after_whitespace_suffix k (d.source.drop p)).length_le
    have h2 := hc.shorter _ _ hm
    rw [List.length_drop] at h1
    simp only [Document.offset]
    omega
  · cases h

theorem lookahead_loop_bounds (d : Document) (fuel p : Nat) (flag : Bool) :
    p ≤ (lookahead_loop d fuel p flag).1 ∧
    ((lookahead_loop d fuel p flag).1 ≤ d.source.length ∨
      (lookahead_loop d fuel p flag).1 = p) ∧
    ((lookahead_loop d fuel p flag).2 = true →
      flag = true ∨ p < (lookahead_loop d fuel p flag).1) := by
  induction fuel generalizing p flag with
  | zero => simp [lookahead_loop]
  | succ n ih =>
    unfold lookahead_loop
    split
    · rename_i q hq
      obtain ⟨h1, h2⟩ := peek_at_bounds _ _ d p q hq
      obtain ⟨i1, i2, i3⟩ := ih q
        (if (d.source.drop (q - 1)).head? = some '}' then true else flag)
      refine ⟨by omega, ?_, ?_⟩
      · left
        omega
      · intro _
        right
        omega
    · simp

/-- The end of the selector that the arbiter finds is not before the cursor, it is within
the buffer, and it is after the cursor when the arbiter has seen an interpolant. -/
theorem lookahead_bounds (d : Document) (hp : d.position ≤ d.source.length) (e : Nat)
    (h : (lookahead_for_selector d d.position).found = some e) :
    d.position ≤ e ∧ e ≤ d.source.length ∧
    ((lookahead_for_selector d d.position).has_interpolants = true → d.position < e) := by
  unfold lookahead_for_selector at h ⊢
  dsimp only at h ⊢
  obtain ⟨h1, h2, h3⟩ := lookahead_loop_bounds d (d.source.length + 1) d.position false
  split at h
  · cases h
    refine ⟨h1, by omega, ?_⟩
    intro hi
    rcases h3 hi with h4 | h4
    · cases h4
    · exact h4
  · cases h

/-- A sequence is seen only where its first matcher is seen. -/
theorem Document.sees_head (d : Document) (k : Skip) (mx : Prelexer.prelexer)
    (mxs : List Prelexer.prelexer) (h : d.sees k (Prelexer.sequence (mx :: mxs)) = true) :
    d.sees k mx = true := by
  unfold Document.sees at h ⊢
  simp only [Prelexer.sequence] at h
  split at h
  · rename_i r hm
    rw [hm]
    rfl
  · cases h

/-! ### Rules that carry the state of the call -/

theorem Document.past_refl (d : Document) (hf : d.context.files = [])
    (hp : d.position ≤ d.source.length) : d.past d false :=
  ⟨rfl, hf, hp, Nat.le_refl _, fun h => by cases h⟩

theorem Document.past_weaken {d d0 : Document} {s t : Bool} (h : d.past d0 s)
    (hs : (s || !t) = true) : d.past d0 t := by
  refine ⟨h.1, h.2.1, h.2.2.1, h.2.2.2.1, ?_⟩
  intro ht
  subst ht
  exact h.2.2.2.2 (by simpa using hs)

theorem Document.past_trans {d d1 d0 : Document} {s t : Bool} (h : d.past d0 s)
    (h1 : d1.past d t) : d1.past d0 (s || t) := by
  obtain ⟨a1, a2, a3, a4, a5⟩ := h
  obtain ⟨b1, b2, b3, b4, b5⟩ := h1
  refine ⟨by omega, b2, b3, by omega, ?_⟩
  intro hst
  cases s with
  | true => have := a5 rfl; omega
  | false =>
    cases t with
    | true => have := b5 rfl; omega
    | false => cases hst

/-- The measure of a call in a later state is below the bound of the calling production
when the cursor has moved or the rank goes down. -/
theorem measure_lt {d d0 : Document} {s : Bool} {c : Call} {r0 m : Nat}
    (hm : (d0.source.length - d0.position) * 100 + r0 ≤ m) (h : d.past d0 s)
    (hb : c.base d = d.position) (hr : (s || decide (c.rank < r0)) = true)
    (h100 : c.rank < 100) : c.measure d < m := by
  obtain ⟨a1, a2, a3, a4, a5⟩ := h
  unfold Call.measure
  rw [hb]
  cases s with
  | true => have := a5 rfl; omega
  | false =>
    simp only [Bool.false_or, decide_eq_true_eq] at hr
    omega

theorem Call.rank_lt (c : Call) : c.rank < 100 := by
  cases c
  case parse_block_loop sr io s b => cases s <;> (simp only [Call.rank]; omega)
  all_goals (simp only [Call.rank]; omega)

/-- A call of a production from a later state of the calling production. -/
theorem total_call {rec : Call → Parser Node} {m : Nat} (hrec : Terminates rec m)
    {d0 : Document} {r0 : Nat} (hm : (d0.source.length - d0.position) * 100 + r0 ≤ m)
    {d : Document} {s : Bool} {c : Call} {Q : Node → Document → Prop}
    (h : d.past d0 s) (ha : c.admits d) (hb : c.base d = d.position)
    (hr : (s || decide (c.rank < r0)) = true)
    (k : ∀ (a : Node) (d1 : Document), d1.past d0 (s || c.strict) → Q a d1) :
    (rec c).total d Q := by
  refine total_mono (hrec c d h.2.1 h.2.2.1 ha (measure_lt hm h hb hr c.rank_lt)) ?_
  intro a d1 h1
  exact k a d1 (Document.past_trans h ⟨h1.1, h1.2.1, h1.2.2.1, h1.2.2.2.1, h1.2.2.2.2⟩)

/-- A call of a production on a span that starts at or after the cursor of the calling
production. -/
theorem total_span {rec : Call → Parser Node} {m : Nat} (hrec : Terminates rec m)
    {d0 : Document} {r0 : Nat} (hm : (d0.source.length - d0.position) * 100 + r0 ≤ m)
    {d : Document} {s : Bool} {t : Token} {c : Call} {Q : Node → Document → Prop}
    (h : d.past d0 s) (hspan : d0.position ≤ t.begin ∧ t.begin ≤ d.source.length)
    (ha : c.admits { d with position := t.begin, end_ := t.end_, lexed := Token.make })
    (hb : c.base { d with position := t.begin, end_ := t.end_, lexed := Token.make } =
      t.begin)
    (hr : decide (c.rank < r0) = true)
    (k : ∀ (a : Node) (d1 : Document), d1.past d0 s → Q a d1) :
    (in_token t (rec c)).total d Q := by
  obtain ⟨a1, a2, a3, a4, a5⟩ := h
  refine total_in_token hrec a2 hspan.2 ha ?_ ?_
  · unfold Call.measure
    rw [hb]
    dsimp only
    have := hspan.1
    simp only [decide_eq_true_eq] at hr
    omega
  · intro a d1 b1 b2 b3 _
    exact k a d1 ⟨by omega, b2, by omega, by omega, fun hs => by have := a5 hs; omega⟩

theorem total_hit {k : Skip} {mx : Prelexer.prelexer} [Prelexer.Consuming mx]
    {d0 d : Document} {s : Bool} {Q : Bool → Document → Prop} (h : d.past d0 s)
    (hit : ∀ d1 : Document, d1.past d0 true →
      d0.position ≤ d1.lexed.begin ∧ d1.lexed.begin ≤ d1.source.length → Q true d1)
    (miss : ¬ d.sees k mx = true → Q false d) : (lex_with k mx).total d Q := by
  obtain ⟨a1, a2, a3, a4, a5⟩ := h
  refine total_lex_with a2 ?_ miss
  intro d1 b1 b2 b3 b4 b5
  exact hit d1 ⟨by omega, b2, b3, by omega, fun _ => by omega⟩ ⟨by omega, by omega⟩

/-- A match with a matcher that takes a byte, from a later state of the calling
production: on a hit the cursor is after the one of the call. -/
theorem total_lex_hit {mx : Prelexer.prelexer} [Prelexer.Consuming mx]
    {d0 d : Document} {s : Bool} {Q : Bool → Document → Prop} (h : d.past d0 s)
    (hit : ∀ d1 : Document, d1.past d0 true →
      d0.position ≤ d1.lexed.begin ∧ d1.lexed.begin ≤ d1.source.length → Q true d1)
    (miss : ¬ d.sees .spaces_and_comments mx = true → Q false d) : (lex mx).total d Q :=
  total_hit h hit miss

theorem total_block_comment_hit {d0 d : Document} {s : Bool} {Q : Bool → Document → Prop}
    (h : d.past d0 s)
    (hit : ∀ d1 : Document, d1.past d0 true →
      d0.position ≤ d1.lexed.begin ∧ d1.lexed.begin ≤ d1.source.length → Q true d1)
    (miss : ¬ d.sees .before_block_comment Prelexer.block_comment = true → Q false d) :
    lex_block_comment.total d Q :=
  total_hit h hit miss

theorem total_forward {k : Skip} {mx : Prelexer.prelexer} [Prelexer.Forward mx]
    {d0 d : Document} {s : Bool} {Q : Bool → Document → Prop} (h : d.past d0 s)
    (hk : ∀ (b : Bool) (d1 : Document), d1.past d0 s → Q b d1) :
    (lex_with k mx).total d Q := by
  obtain ⟨a1, a2, a3, a4, a5⟩ := h
  refine total_lex_with_forward a2 a3 ?_
  intro b d1 b1 b2 b3 b4
  exact hk b d1 ⟨by omega, b2, b3, by omega, fun hs => by have := a5 hs; omega⟩

theorem total_lex_move {mx : Prelexer.prelexer} [Prelexer.Forward mx]
    {d0 d : Document} {s : Bool} {Q : Bool → Document → Prop} (h : d.past d0 s)
    (hk : ∀ (b : Bool) (d1 : Document), d1.past d0 s → Q b d1) : (lex mx).total d Q :=
  total_forward h hk

theorem total_optional_spaces_move {d0 d : Document} {s : Bool}
    {Q : Bool → Document → Prop} (h : d.past d0 s)
    (hk : ∀ (b : Bool) (d1 : Document), d1.past d0 s → Q b d1) :
    lex_optional_spaces.total d Q :=
  total_forward h hk

/-- A search for a byte from the cursor: the position found is in the buffer, at or
after the cursor. -/
theorem total_find_here {c : Char} {d : Document} {Q : Option Nat → Document → Prop}
    (hn : Q none d)
    (hs : ∀ q, d.position ≤ q ∧ q < d.source.length → Q (some q) d) :
    (find_first_here c).total d Q :=
  total_find_first_here hn (fun q h1 h2 => hs q ⟨h1, h2⟩)

theorem total_move_to {p : Nat} {d0 d : Document} {s : Bool} {Q : Unit → Document → Prop}
    (h : d.past d0 s) (hq : d.position ≤ p ∧ p < d.source.length)
    (hk : ∀ d1 : Document, d1.past d0 s → Q () d1) : (set_position p).total d Q := by
  obtain ⟨a1, a2, a3, a4, a5⟩ := h
  refine total_set_position a2 ?_
  intro d1 b1 b2 b3
  exact hk d1 ⟨by omega, b2, by omega, by omega, fun hs => by have := a5 hs; omega⟩

theorem total_extension {a b : Node} {d0 d : Document} {s : Bool}
    {Q : Unit → Document → Prop} (h : d.past d0 s)
    (hk : ∀ d1 : Document, d1.past d0 s → Q () d1) :
    (register_extension a b).total d Q := by
  obtain ⟨a1, a2, a3, a4, a5⟩ := h
  refine total_register_extension a2 ?_
  intro d1 b1 b2 b3
  exact hk d1 ⟨by omega, b2, by omega, by omega, fun hs => by have := a5 hs; omega⟩

theorem total_no_file (path : List Char) (p : Parser Node) {d0 d : Document} {s : Bool}
    {Q : Node → Document → Prop} (h : d.past d0 s) : (in_file path p).total d Q :=
  total_in_file path p h.2.1

/-- The end of a production: the state set against the state of the call. -/
theorem advances_of_past {c : Call} {d0 d : Document} {s : Bool} (h : d.past d0 s)
    (hs : (s || !c.strict) = true) : c.advances d0 d := by
  have h1 := Document.past_weaken h hs
  exact ⟨h1.1, h1.2.1, h1.2.2.1, h1.2.2.2.1, h1.2.2.2.2⟩

/-! ### Every production returns or raises -/

set_option maxRecDepth 8000 in
set_option maxHeartbeats 40000000 in
/-- The production `parse_scss` returns or raises, and advances, when the productions it
calls do so below the measure. -/
theorem parse_scss_total (rec : Call → Parser Node) (m : Nat) (hrec : Terminates rec m)
    (d : Document) (hf : d.context.files = []) (hp : d.position ≤ d.source.length)
    (ha : Call.parse_scss.admits d) (hm : Call.parse_scss.measure d ≤ m) :
    (parse_scss rec).total d (fun _ d1 => Call.parse_scss.advances d d1) := by
  simp only [Call.measure, Call.base, Call.rank] at hm
  try simp only [Call.admits] at ha
  have h0 := d.past_refl hf hp
  unfold parse_scss
  iterate 24 (iterate 24 (all_goals (first
    | with_reducible contradiction
    | (with_reducible first
      | exact total_throw _ _ _
      | exact total_undefined _ _
      | refine total_pure ?_
      | refine total_ite_pos (by with_unfolding_all decide) ?_
      | refine total_ite_neg (by with_unfolding_all decide) ?_
      | refine total_ite ?_ ?_
      | refine total_bind ?_
      | refine total_new_Node ?_
      | refine total_new_Node_at ?_
      | refine total_new_Node_token ?_
      | refine total_new_Node_lexed ?_
      | refine total_new_Node_boolean ?_
      | refine total_get_position ?_
      | refine total_get_line ?_
      | refine total_get_lexed ?_
      | refine total_peek ?_ ?_
      | refine total_peek_spaces ?_
      | refine total_sequence_end ?_
      | refine total_space_list_end ?_
      | refine total_lexed_first ?_
      | refine total_before_end ?_
      | refine total_import_path ?_
      | refine total_lookahead ?_
      | refine total_find_here ?_ ?_
      | exact total_no_file _ _ (by assumption)
      | refine total_move_to (by assumption) (by assumption) ?_
      | refine total_extension (by assumption) ?_
      | refine total_lex_hit (by assumption) ?_ ?_
      | refine total_block_comment_hit (by assumption) ?_ ?_
      | refine total_lex_move (by assumption) ?_
      | refine total_optional_spaces_move (by assumption) ?_
      | refine total_call hrec hm (by assumption)
          (by with_unfolding_all first | exact trivial | assumption | rfl)
          (by with_unfolding_all rfl) (by with_unfolding_all rfl) ?_
      | refine total_span hrec hm (by assumption) (by assumption)
          (by with_unfolding_all exact trivial) (by with_unfolding_all rfl)
          (by with_unfolding_all rfl) ?_
      | exact advances_of_past (by assumption) (by with_unfolding_all rfl))
    | intro _
    | split
    | unfold or_else
    | unfold parse_relation_operator
    | unfold parse_media_property
    | skip)))

set_option maxRecDepth 8000 in
set_option maxHeartbeats 40000000 in
/-- The production `parse_scss_loop` returns or raises, and advances, when the productions it
calls do so below the measure. -/
theorem parse_scss_loop_total (rec : Call → Parser Node) (m : Nat)
    (hrec : Terminates rec m) (root : Node)
    (d : Document) (hf : d.context.files = []) (hp : d.position ≤ d.source.length)
    (ha : (Call.parse_scss_loop root).admits d) (hm : (Call.parse_scss_loop root).measure d ≤ m) :
    (parse_scss_loop rec root).total d (fun _ d1 => (Call.parse_scss_loop root).advances d d1) := by
  simp only [Call.measure, Call.base, Call.rank] at hm
  try simp only [Call.admits] at ha
  have h0 := d.past_refl hf hp
  unfold parse_scss_loop
  iterate 24 (iterate 24 (all_goals (first
    | with_reducible contradiction
    | (with_reducible first
      | exact total_throw _ _ _
      | exact total_undefined _ _
      | refine total_pure ?_
      | refine total_ite_pos (by with_unfolding_all decide) ?_
      | refine total_ite_neg (by with_unfolding_all decide) ?_
      | refine total_ite ?_ ?_
      | refine total_bind ?_
      | refine total_new_Node ?_
      | refine total_new_Node_at ?_
      | refine total_new_Node_token ?_
      | refine total_new_Node_lexed ?_
      | refine total_new_Node_boolean ?_
      | refine total_get_position ?_
      | refine total_get_line ?_
      | refine total_get_lexed ?_
      | refine total_peek ?_ ?_
      | refine total_peek_spaces ?_
      | refine total_sequence_end ?_
      | refine total_space_list_end ?_
      | refine total_lexed_first ?_
      | refine total_before_end ?_
      | refine total_import_path ?_
      | refine total_lookahead ?_
      | refine total_find_here ?_ ?_
      | exact total_no_file _ _ (by assumption)
      | refine total_move_to (by assumption) (by assumption) ?_
      | refine total_extension (by assumption) ?_
      | refine total_lex_hit (by assumption) ?_ ?_
      | refine total_block_comment_hit (by assumption) ?_ ?_
      | refine total_lex_move (by assumption) ?_
      | refine total_optional_spaces_move (by assumption) ?_
      | refine total_call hrec hm (by assumption)
          (by with_unfolding_all first | exact trivial | assumption | rfl)
          (by with_unfolding_all rfl) (by with_unfolding_all rfl) ?_
      | refine total_span hrec hm (by assumption) (by assumption)
          (by with_unfolding_all exact trivial) (by with_unfolding_all rfl)
          (by with_unfolding_all rfl) ?_
      | exact advances_of_past (by assumption) (by with_unfolding_all rfl))
    | intro _
    | split
    | unfold or_else
    | unfold parse_relation_operator
    | unfold parse_media_property
    | skip)))

set_option maxRecDepth 8000 in
set_option maxHeartbeats 40000000 in
/-- The production `parse_import` returns or raises, and advances, when the productions it
calls do so below the measure. -/
theorem parse_import_total (rec : Call → Parser Node) (m : Nat) (hrec : Terminates rec m)
    (d : Document) (hf : d.context.files = []) (hp : d.position ≤ d.source.length)
    (ha : Call.parse_import.admits d) (hm : Call.parse_import.measure d ≤ m) :
    (parse_import rec).total d (fun _ d1 => Call.parse_import.advances d d1) := by
  simp only [Call.measure, Call.base, Call.rank] at hm
  try simp only [Call.admits] at ha
  have h0 := d.past_refl hf hp
  unfold parse_import
  iterate 24 (iterate 24 (all_goals (first
    | with_reducible contradiction
    | (with_reducible first
      | exact total_throw _ _ _
      | exact total_undefined _ _
      | refine total_pure ?_
      | refine total_ite_pos (by with_unfolding_all decide) ?_
      | refine total_ite_neg (by with_unfolding_all decide) ?_
      | refine total_ite ?_ ?_
      | refine total_bind ?_
      | refine total_new_Node ?_
      | refine total_new_Node_at ?_
      | refine total_new_Node_token ?_
      | refine total_new_Node_lexed ?_
      | refine total_new_Node_boolean ?_
      | refine total_get_position ?_
      | refine total_get_line ?_
      | refine total_get_lexed ?_
      | refine total_peek ?_ ?_
      | refine total_peek_spaces ?_
      | refine total_sequence_end ?_
      | refine total_space_list_end ?_
      | refine total_lexed_first ?_
      | refine total_before_end ?_
      | refine total_import_path ?_
      | refine total_lookahead ?_
      | refine total_find_here ?_ ?_
      | exact total_no_file _ _ (by assumption)
      | refine total_move_to (by assumption) (by assumption) ?_
      | refine total_extension (by assumption) ?_
      | refine total_lex_hit (by assumption) ?_ ?_
      | refine total_block_comment_hit (by assumption) ?_ ?_
      | refine total_lex_move (by assumption) ?_
      | refine total_optional_spaces_move (by assumption) ?_
      | refine total_call hrec hm (by assumption)
          (by with_unfolding_all first | exact trivial | assumption | rfl)
          (by with_unfolding_all rfl) (by with_unfolding_all rfl) ?_
      | refine total_span hrec hm (by assumption) (by assumption)
          (by with_unfolding_all exact trivial) (by with_unfolding_all rfl)
          (by with_unfolding_all rfl) ?_
      | exact advances_of_past (by assumption) (by with_unfolding_all rfl))
    | intro _
    | split
    | unfold or_else
    | unfold parse_relation_operator
    | unfold parse_media_property
    | skip)))

set_option maxRecDepth 8000 in
set_option maxHeartbeats 40000000 in
/-- The production `parse_mixin_definition` returns or raises, and advances, when the productions it
calls do so below the measure. -/
theorem parse_mixin_definition_total (rec : Call → Parser Node) (m : Nat) (hrec : Terminates rec m)
    (d : Document) (hf : d.context.files = []) (hp : d.position ≤ d.source.length)
    (ha : Call.parse_mixin_definition.admits d) (hm : Call.parse_mixin_definition.measure d ≤ m) :
    (parse_mixin_definition rec).total d
      (fun _ d1 => Call.parse_mixin_definition.advances d d1) := by
  simp only [Call.measure, Call.base, Call.rank] at hm
  try simp only [Call.admits] at ha
  have h0 := d.past_refl hf hp
  unfold parse_mixin_definition
  iterate 24 (iterate 24 (all_goals (first
    | with_reducible contradiction
    | (with_reducible first
      | exact total_throw _ _ _
      | exact total_undefined _ _
      | refine total_pure ?_
      | refine total_ite_pos (by with_unfolding_all decide) ?_
      | refine total_ite_neg (by with_unfolding_all decide) ?_
      | refine total_ite ?_ ?_
      | refine total_bind ?_
      | refine total_new_Node ?_
      | refine total_new_Node_at ?_
      | refine total_new_Node_token ?_
      | refine total_new_Node_lexed ?_
      | refine total_new_Node_boolean ?_
      | refine total_get_position ?_
      | refine total_get_line ?_
      | refine total_get_lexed ?_
      | refine total_peek ?_ ?_
      | refine total_peek_spaces ?_
      | refine total_sequence_end ?_
      | refine total_space_list_end ?_
      | refine total_lexed_first ?_
      | refine total_before_end ?_
      | refine total_import_path ?_
      | refine total_lookahead ?_
      | refine total_find_here ?_ ?_
      | exact total_no_file _ _ (by assumption)
      | refine total_move_to (by assumption) (by assumption) ?_
      | refine total_extension (by assumption) ?_
      | refine total_lex_hit (by assumption) ?_ ?_
      | refine total_block_comment_hit (by assumption) ?_ ?_
      | refine total_lex_move (by assumption) ?_
      | refine total_optional_spaces_move (by assumption) ?_
      | refine total_call hrec hm (by assumption)
          (by with_unfolding_all first | exact trivial | assumption | rfl)
          (by with_unfolding_all rfl) (by with_unfolding_all rfl) ?_
      | refine total_span hrec hm (by assumption) (by assumption)
          (by with_unfolding_all exact trivial) (by with_unfolding_all rfl)
          (by with_unfolding_all rfl) ?_
      | exact advances_of_past (by assumption) (by with_unfolding_all rfl))
    | intro _
    | split
    | unfold or_else
    | unfold parse_relation_operator
    | unfold parse_media_property
    | skip)))

set_option maxRecDepth 8000 in
set_option maxHeartbeats 40000000 in
/-- The production `parse_function_definition` returns or raises, and advances, when the productions it
calls do so below the measure. -/
theorem parse_function_definition_total (rec : Call → Parser Node) (m : Nat)
    (hrec : Terminates rec m)
    (d : Document) (hf : d.context.files = []) (hp : d.position ≤ d.source.length)
    (ha : Call.parse_function_definition.admits d)
    (hm : Call.parse_function_definition.measure d ≤ m) :
    (parse_function_definition rec).total d
      (fun _ d1 => Call.parse_function_definition.advances d d1) := by
  simp only [Call.measure, Call.base, Call.rank] at hm
  try simp only [Call.admits] at ha
  have h0 := d.past_refl hf hp
  unfold parse_function_definition
  iterate 24 (iterate 24 (all_goals (first
    | with_reducible contradiction
    | (with_reducible first
      | exact total_throw _ _ _
      | exact total_undefined _ _
      | refine total_pure ?_
      | refine total_ite_pos (by with_unfolding_all decide) ?_
      | refine total_ite_neg (by with_unfolding_all decide) ?_
      | refine total_ite ?_ ?_
      | refine total_bind ?_
      | refine total_new_Node ?_
      | refine total_new_Node_at ?_
      | refine total_new_Node_token ?_
      | refine total_new_Node_lexed ?_
      | refine total_new_Node_boolean ?_
      | refine total_get_position ?_
      | refine total_get_line ?_
      | refine total_get_lexed ?_
      | refine total_peek ?_ ?_
      | refine total_peek_spaces ?_
      | refine total_sequence_end ?_
      | refine total_space_list_end ?_
      | refine total_lexed_first ?_
      | refine total_before_end ?_
      | refine total_import_path ?_
      | refine total_lookahead ?_
      | refine total_find_here ?_ ?_
      | exact total_no_file _ _ (by assumption)
      | refine total_move_to (by assumption) (by assumption) ?_
      | refine total_extension (by assumption) ?_
      | refine total_lex_hit (by assumption) ?_ ?_
      | refine total_block_comment_hit (by assumption) ?_ ?_
      | refine total_lex_move (by assumption) ?_
      | refine total_optional_spaces_move (by assumption) ?_
      | refine total_call hrec hm (by assumption)
          (by with_unfolding_all first | exact trivial | assumption | rfl)
          (by with_unfolding_all rfl) (by with_unfolding_all rfl) ?_
      | refine total_span hrec hm (by assumption) (by assumption)
          (by with_unfolding_all exact trivial) (by with_unfolding_all rfl)
          (by with_unfolding_all rfl) ?_
      | exact advances_of_past (by assumption) (by with_unfolding_all rfl))
    | intro _
    | split
    | unfold or_else
    | unfold parse_relation_operator
    | unfold parse_media_property
    | skip)))

set_option maxRecDepth 8000 in
set_option maxHeartbeats 40000000 in
/-- The production `parse_parameters` returns or raises, and advances, when the productions it
calls do so below the measure. -/
theorem parse_parameters_total (rec : Call → Parser Node) (m : Nat) (hrec : Terminates rec m)
    (d : Document) (hf : d.context.files = []) (hp : d.position ≤ d.source.length)
    (ha : Call.parse_parameters.admits d) (hm : Call.parse_parameters.measure d ≤ m) :
    (parse_parameters rec).total d (fun _ d1 => Call.parse_parameters.advances d d1) := by
  simp only [Call.measure, Call.base, Call.rank] at hm
  try simp only [Call.admits] at ha
  have h0 := d.past_refl hf hp
  unfold parse_parameters
  iterate 24 (iterate 24 (all_goals (first
    | with_reducible contradiction
    | (with_reducible first
      | exact total_throw _ _ _
      | exact total_undefined _ _
      | refine total_pure ?_
      | refine total_ite_pos (by with_unfolding_all decide) ?_
      | refine total_ite_neg (by with_unfolding_all decide) ?_
      | refine total_ite ?_ ?_
      | refine total_bind ?_
      | refine total_new_Node ?_
      | refine total_new_Node_at ?_
      | refine total_new_Node_token ?_
      | refine total_new_Node_lexed ?_
      | refine total_new_Node_boolean ?_
      | refine total_get_position ?_
      | refine total_get_line ?_
      | refine total_get_lexed ?_
      | refine total_peek ?_ ?_
      | refine total_peek_spaces ?_
      | refine total_sequence_end ?_
      | refine total_space_list_end ?_
      | refine total_lexed_first ?_
      | refine total_before_end ?_
      | refine total_import_path ?_
      | refine total_lookahead ?_
      | refine total_find_here ?_ ?_
      | exact total_no_file _ _ (by assumption)
      | refine total_move_to (by assumption) (by assumption) ?_
      | refine total_extension (by assumption) ?_
      | refine total_lex_hit (by assumption) ?_ ?_
      | refine total_block_comment_hit (by assumption) ?_ ?_
      | refine total_lex_move (by assumption) ?_
      | refine total_optional_spaces_move (by assumption) ?_
      | refine total_call hrec hm (by assumption)
          (by with_unfolding_all first | exact trivial | assumption | rfl)
          (by with_unfolding_all rfl) (by with_unfolding_all rfl) ?_
      | refine total_span hrec hm (by assumption) (by assumption)
          (by with_unfolding_all exact trivial) (by with_unfolding_all rfl)
          (by with_unfolding_all rfl) ?_
      | exact advances_of_past (by assumption) (by with_unfolding_all rfl))
    | intro _
    | split
    | unfold or_else
    | unfold parse_relation_operator
    | unfold parse_media_property
    | skip)))

set_option maxRecDepth 8000 in
set_option maxHeartbeats 40000000 in
/-- The production `parse_parameters_loop` returns or raises, and advances, when the productions it
calls do so below the measure. -/
theorem parse_parameters_loop_total (rec : Call → Parser Node) (m : Nat)
    (hrec : Terminates rec m) (params : Node)
    (d : Document) (hf : d.context.files = []) (hp : d.position ≤ d.source.length)
    (ha : (Call.parse_parameters_loop params).admits d)
    (hm : (Call.parse_parameters_loop params).measure d ≤ m) :
    (parse_parameters_loop rec params).total d
      (fun _ d1 => (Call.parse_parameters_loop params).advances d d1) := by
  simp only [Call.measure, Call.base, Call.rank] at hm
  try simp only [Call.admits] at ha
  have h0 := d.past_refl hf hp
  unfold parse_parameters_loop
  iterate 24 (iterate 24 (all_goals (first
    | with_reducible contradiction
    | (with_reducible first
      | exact total_throw _ _ _
      | exact total_undefined _ _
      | refine total_pure ?_
      | refine total_ite_pos (by with_unfolding_all decide) ?_
      | refine total_ite_neg (by with_unfolding_all decide) ?_
      | refine total_ite ?_ ?_
      | refine total_bind ?_
      | refine total_new_Node ?_
      | refine total_new_Node_at ?_
      | refine total_new_Node_token ?_
      | refine total_new_Node_lexed ?_
      | refine total_new_Node_boolean ?_
      | refine total_get_position ?_
      | refine total_get_line ?_
      | refine total_get_lexed ?_
      | refine total_peek ?_ ?_
      | refine total_peek_spaces ?_
      | refine total_sequence_end ?_
      | refine total_space_list_end ?_
      | refine total_lexed_first ?_
      | refine total_before_end ?_
      | refine total_import_path ?_
      | refine total_lookahead ?_
      | refine total_find_here ?_ ?_
      | exact total_no_file _ _ (by assumption)
      | refine total_move_to (by assumption) (by assumption) ?_
      | refine total_extension (by assumption) ?_
      | refine total_lex_hit (by assumption) ?_ ?_
      | refine total_block_comment_hit (by assumption) ?_ ?_
      | refine total_lex_move (by assumption) ?_
      | refine total_optional_spaces_move (by assumption) ?_
      | refine total_call hrec hm (by assumption)
          (by with_unfolding_all first | exact trivial | assumption | rfl)
          (by with_unfolding_all rfl) (by with_unfolding_all rfl) ?_
      | refine total_span hrec hm (by assumption) (by assumption)
          (by with_unfolding_all exact trivial) (by with_unfolding_all rfl)
          (by with_unfolding_all rfl) ?_
      | exact advances_of_past (by assumption) (by with_unfolding_all rfl))
    | intro _
    | split
    | unfold or_else
    | unfold parse_relation_operator
    | unfold parse_media_property
    | skip)))

set_option maxRecDepth 8000 in
set_option maxHeartbeats 40000000 in
/-- The production `parse_parameter` returns or raises, and advances, when the productions it
calls do so below the measure. -/
theorem parse_parameter_total (rec : Call → Parser Node) (m : Nat) (hrec : Terminates rec m)
    (d : Document) (hf : d.context.files = []) (hp : d.position ≤ d.source.length)
    (ha : Call.parse_parameter.admits d) (hm : Call.parse_parameter.measure d ≤ m) :
    (parse_parameter rec).total d (fun _ d1 => Call.parse_parameter.advances d d1) := by
  simp only [Call.measure, Call.base, Call.rank] at hm
  try simp only [Call.admits] at ha
  have h0 := d.past_refl hf hp
  unfold parse_parameter
  iterate 24 (iterate 24 (all_goals (first
    | with_reducible contradiction
    | (with_reducible first
      | exact total_throw _ _ _
      | exact total_undefined _ _
      | refine total_pure ?_
      | refine total_ite_pos (by with_unfolding_all decide) ?_
      | refine total_ite_neg (by with_unfolding_all decide) ?_
      | refine total_ite ?_ ?_
      | refine total_bind ?_
      | refine total_new_Node ?_
      | refine total_new_Node_at ?_
      | refine total_new_Node_token ?_
      | refine total_new_Node_lexed ?_
      | refine total_new_Node_boolean ?_
      | refine total_get_position ?_
      | refine total_get_line ?_
      | refine total_get_lexed ?_
      | refine total_peek ?_ ?_
      | refine total_peek_spaces ?_
      | refine total_sequence_end ?_
      | refine total_space_list_end ?_
      | refine total_lexed_first ?_
      | refine total_before_end ?_
      | refine total_import_path ?_
      | refine total_lookahead ?_
      | refine total_find_here ?_ ?_
      | exact total_no_file _ _ (by assumption)
      | refine total_move_to (by assumption) (by assumption) ?_
      | refine total_extension (by assumption) ?_
      | refine total_lex_hit (by assumption) ?_ ?_
      | refine total_block_comment_hit (by assumption) ?_ ?_
      | refine total_lex_move (by assumption) ?_
      | refine total_optional_spaces_move (by assumption) ?_
      | refine total_call hrec hm (by assumption)
          (by with_unfolding_all first | exact trivial | assumption | rfl)
          (by with_unfolding_all rfl) (by with_unfolding_all rfl) ?_
      | refine total_span hrec hm (by assumption) (by assumption)
          (by with_unfolding_all exact trivial) (by with_unfolding_all rfl)
          (by with_unfolding_all rfl) ?_
      | exact advances_of_past (by assumption) (by with_unfolding_all rfl))
    | intro _
    | split
    | unfold or_else
    | unfold parse_relation_operator
    | unfold parse_media_property
    | skip)))

set_option maxRecDepth 8000 in
set_option maxHeartbeats 40000000 in
/-- The production `parse_mixin_call` returns or raises, and advances, when the productions it
calls do so below the measure. -/
theorem parse_mixin_call_total (rec : Call → Parser Node) (m : Nat) (hrec : Terminates rec m)
    (d : Document) (hf : d.context.files = []) (hp : d.position ≤ d.source.length)
    (ha : Call.parse_mixin_call.admits d) (hm : Call.parse_mixin_call.measure d ≤ m) :
    (parse_mixin_call rec).total d (fun _ d1 => Call.parse_mixin_call.advances d d1) := by
  simp only [Call.measure, Call.base, Call.rank] at hm
  try simp only [Call.admits] at ha
  have h0 := d.past_refl hf hp
  unfold parse_mixin_call
  iterate 24 (iterate 24 (all_goals (first
    | with_reducible contradiction
    | (with_reducible first
      | exact total_throw _ _ _
      | exact total_undefined _ _
      | refine total_pure ?_
      | refine total_ite_pos (by with_unfolding_all decide) ?_
      | refine total_ite_neg (by with_unfolding_all decide) ?_
      | refine total_ite ?_ ?_
      | refine total_bind ?_
      | refine total_new_Node ?_
      | refine total_new_Node_at ?_
      | refine total_new_Node_token ?_
      | refine total_new_Node_lexed ?_
      | refine total_new_Node_boolean ?_
      | refine total_get_position ?_
      | refine total_get_line ?_
      | refine total_get_lexed ?_
      | refine total_peek ?_ ?_
      | refine total_peek_spaces ?_
      | refine total_sequence_end ?_
      | refine total_space_list_end ?_
      | refine total_lexed_first ?_
      | refine total_before_end ?_
      | refine total_import_path ?_
      | refine total_lookahead ?_
      | refine total_find_here ?_ ?_
      | exact total_no_file _ _ (by assumption)
      | refine total_move_to (by assumption) (by assumption) ?_
      | refine total_extension (by assumption) ?_
      | refine total_lex_hit (by assumption) ?_ ?_
      | refine total_block_comment_hit (by assumption) ?_ ?_
      | refine total_lex_move (by assumption) ?_
      | refine total_optional_spaces_move (by assumption) ?_
      | refine total_call hrec hm (by assumption)
          (by with_unfolding_all first | exact trivial | assumption | rfl)
          (by with_unfolding_all rfl) (by with_unfolding_all rfl) ?_
      | refine total_span hrec hm (by assumption) (by assumption)
          (by with_unfolding_all exact trivial) (by with_unfolding_all rfl)
          (by with_unfolding_all rfl) ?_
      | exact advances_of_past (by assumption) (by with_unfolding_all rfl))
    | intro _
    | split
    | unfold or_else
    | unfold parse_relation_operator
    | unfold parse_media_property
    | skip)))

set_option maxRecDepth 8000 in
set_option maxHeartbeats 40000000 in
/-- The production `parse_arguments` returns or raises, and advances, when the productions it
calls do so below the measure. -/
theorem parse_arguments_total (rec : Call → Parser Node) (m : Nat) (hrec : Terminates rec m)
    (d : Document) (hf : d.context.files = []) (hp : d.position ≤ d.source.length)
    (ha : Call.parse_arguments.admits d) (hm : Call.parse_arguments.measure d ≤ m) :
    (parse_arguments rec).total d (fun _ d1 => Call.parse_arguments.advances d d1) := by
  simp only [Call.measure, Call.base, Call.rank] at hm
  try simp only [Call.admits] at ha
  have h0 := d.past_refl hf hp
  unfold parse_arguments
  iterate 24 (iterate 24 (all_goals (first
    | with_reducible contradiction
    | (with_reducible first
      | exact total_throw _ _ _
      | exact total_undefined _ _
      | refine total_pure ?_
      | refine total_ite_pos (by with_unfolding_all decide) ?_
      | refine total_ite_neg (by with_unfolding_all decide) ?_
      | refine total_ite ?_ ?_
      | refine total_bind ?_
      | refine total_new_Node ?_
      | refine total_new_Node_at ?_
      | refine total_new_Node_token ?_
      | refine total_new_Node_lexed ?_
      | refine total_new_Node_boolean ?_
      | refine total_get_position ?_
      | refine total_get_line ?_
      | refine total_get_lexed ?_
      | refine total_peek ?_ ?_
      | refine total_peek_spaces ?_
      | refine total_sequence_end ?_
      | refine total_space_list_end ?_
      | refine total_lexed_first ?_
      | refine total_before_end ?_
      | refine total_import_path ?_
      | refine total_lookahead ?_
      | refine total_find_here ?_ ?_
      | exact total_no_file _ _ (by assumption)
      | refine total_move_to (by assumption) (by assumption) ?_
      | refine total_extension (by assumption) ?_
      | refine total_lex_hit (by assumption) ?_ ?_
      | refine total_block_comment_hit (by assumption) ?_ ?_
      | refine total_lex_move (by assumption) ?_
      | refine total_optional_spaces_move (by assumption) ?_
      | refine total_call hrec hm (by assumption)
          (by with_unfolding_all first | exact trivial | assumption | rfl)
          (by with_unfolding_all rfl) (by with_unfolding_all rfl) ?_
      | refine total_span hrec hm (by assumption) (by assumption)
          (by with_unfolding_all exact trivial) (by with_unfolding_all rfl)
          (by with_unfolding_all rfl) ?_
      | exact advances_of_past (by assumption) (by with_unfolding_all rfl))
    | intro _
    | split
    | unfold or_else
    | unfold parse_relation_operator
    | unfold parse_media_property
    | skip)))

set_option maxRecDepth 8000 in
set_option maxHeartbeats 40000000 in
/-- The production `parse_arguments_loop` returns or raises, and advances, when the productions it
calls do so below the measure. -/
theorem parse_arguments_loop_total (rec : Call → Parser Node) (m : Nat)
    (hrec : Terminates rec m) (args : Node)
    (d : Document) (hf : d.context.files = []) (hp : d.position ≤ d.source.length)
    (ha : (Call.parse_arguments_loop args).admits d)
    (hm : (Call.parse_arguments_loop args).measure d ≤ m) :
    (parse_arguments_loop rec args).total d
      (fun _ d1 => (Call.parse_arguments_loop args).advances d d1) := by
  simp only [Call.measure, Call.base, Call.rank] at hm
  try simp only [Call.admits] at ha
  have h0 := d.past_refl hf hp
  unfold parse_arguments_loop
  iterate 24 (iterate 24 (all_goals (first
    | with_reducible contradiction
    | (with_reducible first
      | exact total_throw _ _ _
      | exact total_undefined _ _
      | refine total_pure ?_
      | refine total_ite_pos (by with_unfolding_all decide) ?_
      | refine total_ite_neg (by with_unfolding_all decide) ?_
      | refine total_ite ?_ ?_
      | refine total_bind ?_
      | refine total_new_Node ?_
      | refine total_new_Node_at ?_
      | refine total_new_Node_token ?_
      | refine total_new_Node_lexed ?_
      | refine total_new_Node_boolean ?_
      | refine total_get_position ?_
      | refine total_get_line ?_
      | refine total_get_lexed ?_
      | refine total_peek ?_ ?_
      | refine total_peek_spaces ?_
      | refine total_sequence_end ?_
      | refine total_space_list_end ?_
      | refine total_lexed_first ?_
      | refine total_before_end ?_
      | refine total_import_path ?_
      | refine total_lookahead ?_
      | refine total_find_here ?_ ?_
      | exact total_no_file _ _ (by assumption)
      | refine total_move_to (by assumption) (by assumption) ?_
      | refine total_extension (by assumption) ?_
      | refine total_lex_hit (by assumption) ?_ ?_
      | refine total_block_comment_hit (by assumption) ?_ ?_
      | refine total_lex_move (by assumption) ?_
      | refine total_optional_spaces_move (by assumption) ?_
      | refine total_call hrec hm (by assumption)
          (by with_unfolding_all first | exact trivial | assumption | rfl)
          (by with_unfolding_all rfl) (by with_unfolding_all rfl) ?_
      | refine total_span hrec hm (by assumption) (by assumption)
          (by with_unfolding_all exact trivial) (by with_unfolding_all rfl)
          (by with_unfolding_all rfl) ?_
      | exact advances_of_past (by assumption) (by with_unfolding_all rfl))
    | intro _
    | split
    | unfold or_else
    | unfold parse_relation_operator
    | unfold parse_media_property
    | skip)))

set_option maxRecDepth 8000 in
set_option maxHeartbeats 40000000 in
/-- The production `parse_argument` returns or raises, and advances, when the productions it
calls do so below the measure. -/
theorem parse_argument_total (rec : Call → Parser Node) (m : Nat) (hrec : Terminates rec m)
    (d : Document) (hf : d.context.files = []) (hp : d.position ≤ d.source.length)
    (ha : Call.parse_argument.admits d) (hm : Call.parse_argument.measure d ≤ m) :
    (parse_argument rec).total d (fun _ d1 => Call.parse_argument.advances d d1) := by
  simp only [Call.measure, Call.base, Call.rank] at hm
  try simp only [Call.admits] at ha
  have h0 := d.past_refl hf hp
  unfold parse_argument
  iterate 24 (iterate 24 (all_goals (first
    | with_reducible contradiction
    | (with_reducible first
      | exact total_throw _ _ _
      | exact total_undefined _ _
      | refine total_pure ?_
      | refine total_ite_pos (by with_unfolding_all decide) ?_
      | refine total_ite_neg (by with_unfolding_all decide) ?_
      | refine total_ite ?_ ?_
      | refine total_bind ?_
      | refine total_new_Node ?_
      | refine total_new_Node_at ?_
      | refine total_new_Node_token ?_
      | refine total_new_Node_lexed ?_
      | refine total_new_Node_boolean ?_
      | refine total_get_position ?_
      | refine total_get_line ?_
      | refine total_get_lexed ?_
      | refine total_peek ?_ ?_
      | refine total_peek_spaces ?_
      | refine total_sequence_end ?_
      | refine total_space_list_end ?_
      | refine total_lexed_first ?_
      | refine total_before_end ?_
      | refine total_import_path ?_
      | refine total_lookahead ?_
      | refine total_find_here ?_ ?_
      | exact total_no_file _ _ (by assumption)
      | refine total_move_to (by assumption) (by assumption) ?_
      | refine total_extension (by assumption) ?_
      | refine total_lex_hit (by assumption) ?_ ?_
      | refine total_block_comment_hit (by assumption) ?_ ?_
      | refine total_lex_move (by assumption) ?_
      | refine total_optional_spaces_move (by assumption) ?_
      | refine total_call hrec hm (by assumption)
          (by with_unfolding_all first | exact trivial | assumption | rfl)
          (by with_unfolding_all rfl) (by with_unfolding_all rfl) ?_
      | refine total_span hrec hm (by assumption) (by assumption)
          (by with_unfolding_all exact trivial) (by with_unfolding_all rfl)
          (by with_unfolding_all rfl) ?_
      | exact advances_of_past (by assumption) (by with_unfolding_all rfl))
    | intro _
    | split
    | unfold or_else
    | unfold parse_relation_operator
    | unfold parse_media_property
    | skip)))

set_option maxRecDepth 8000 in
set_option maxHeartbeats 40000000 in
/-- The production `parse_assignment` returns or raises, and advances, when the productions it
calls do so below the measure. -/
theorem parse_assignment_total (rec : Call → Parser Node) (m : Nat) (hrec : Terminates rec m)
    (d : Document) (hf : d.context.files = []) (hp : d.position ≤ d.source.length)
    (ha : Call.parse_assignment.admits d) (hm : Call.parse_assignment.measure d ≤ m) :
    (parse_assignment rec).total d (fun _ d1 => Call.parse_assignment.advances d d1) := by
  simp only [Call.measure, Call.base, Call.rank] at hm
  try simp only [Call.admits] at ha
  have h0 := d.past_refl hf hp
  unfold parse_assignment
  iterate 24 (iterate 24 (all_goals (first
    | with_reducible contradiction
    | (with_reducible first
      | exact total_throw _ _ _
      | exact total_undefined _ _
      | refine total_pure ?_
      | refine total_ite_pos (by with_unfolding_all decide) ?_
      | refine total_ite_neg (by with_unfolding_all decide) ?_
      | refine total_ite ?_ ?_
      | refine total_bind ?_
      | refine total_new_Node ?_
      | refine total_new_Node_at ?_
      | refine total_new_Node_token ?_
      | refine total_new_Node_lexed ?_
      | refine total_new_Node_boolean ?_
      | refine total_get_position ?_
      | refine total_get_line ?_
      | refine total_get_lexed ?_
      | refine total_peek ?_ ?_
      | refine total_peek_spaces ?_
      | refine total_sequence_end ?_
      | refine total_space_list_end ?_
      | refine total_lexed_first ?_
      | refine total_before_end ?_
      | refine total_import_path ?_
      | refine total_lookahead ?_
      | refine total_find_here ?_ ?_
      | exact total_no_file _ _ (by assumption)
      | refine total_move_to (by assumption) (by assumption) ?_
      | refine total_extension (by assumption) ?_
      | refine total_lex_hit (by assumption) ?_ ?_
      | refine total_block_comment_hit (by assumption) ?_ ?_
      | refine total_lex_move (by assumption) ?_
      | refine total_optional_spaces_move (by assumption) ?_
      | refine total_call hrec hm (by assumption)
          (by with_unfolding_all first | exact trivial | assumption | rfl)
          (by with_unfolding_all rfl) (by with_unfolding_all rfl) ?_
      | refine total_span hrec hm (by assumption) (by assumption)
          (by with_unfolding_all exact trivial) (by with_unfolding_all rfl)
          (by with_unfolding_all rfl) ?_
      | exact advances_of_past (by assumption) (by with_unfolding_all rfl))
    | intro _
    | split
    | unfold or_else
    | unfold parse_relation_operator
    | unfold parse_media_property
    | skip)))

set_option maxRecDepth 8000 in
set_option maxHeartbeats 40000000 in
/-- The production `parse_propset` returns or raises, and advances, when the productions it
calls do so below the measure. -/
theorem parse_propset_total (rec : Call → Parser Node) (m : Nat) (hrec : Terminates rec m)
    (d : Document) (hf : d.context.files = []) (hp : d.position ≤ d.source.length)
    (ha : Call.parse_propset.admits d) (hm : Call.parse_propset.measure d ≤ m) :
    (parse_propset rec).total d (fun _ d1 => Call.parse_propset.advances d d1) := by
  simp only [Call.measure, Call.base, Call.rank] at hm
  try simp only [Call.admits] at ha
  have h0 := d.past_refl hf hp
  have hid := d.sees_head _ _ _ ha
  unfold parse_propset
  iterate 24 (iterate 24 (all_goals (first
    | with_reducible contradiction
    | (with_reducible first
      | exact total_throw _ _ _
      | exact total_undefined _ _
      | refine total_pure ?_
      | refine total_ite_pos (by with_unfolding_all decide) ?_
      | refine total_ite_neg (by with_unfolding_all decide) ?_
      | refine total_ite ?_ ?_
      | refine total_bind ?_
      | refine total_new_Node ?_
      | refine total_new_Node_at ?_
      | refine total_new_Node_token ?_
      | refine total_new_Node_lexed ?_
      | refine total_new_Node_boolean ?_
      | refine total_get_position ?_
      | refine total_get_line ?_
      | refine total_get_lexed ?_
      | refine total_peek ?_ ?_
      | refine total_peek_spaces ?_
      | refine total_sequence_end ?_
      | refine total_space_list_end ?_
      | refine total_lexed_first ?_
      | refine total_before_end ?_
      | refine total_import_path ?_
      | refine total_lookahead ?_
      | refine total_find_here ?_ ?_
      | exact total_no_file _ _ (by assumption)
      | refine total_move_to (by assumption) (by assumption) ?_
      | refine total_extension (by assumption) ?_
      | refine total_lex_hit (by assumption) ?_ ?_
      | refine total_block_comment_hit (by assumption) ?_ ?_
      | refine total_lex_move (by assumption) ?_
      | refine total_optional_spaces_move (by assumption) ?_
      | refine total_call hrec hm (by assumption)
          (by with_unfolding_all first | exact trivial | assumption | rfl)
          (by with_unfolding_all rfl) (by with_unfolding_all rfl) ?_
      | refine total_span hrec hm (by assumption) (by assumption)
          (by with_unfolding_all exact trivial) (by with_unfolding_all rfl)
          (by with_unfolding_all rfl) ?_
      | exact advances_of_past (by assumption) (by with_unfolding_all rfl))
    | intro _
    | split
    | unfold or_else
    | unfold parse_relation_operator
    | unfold parse_media_property
    | skip)))

set_option maxRecDepth 8000 in
set_option maxHeartbeats 40000000 in
/-- The production `parse_propset_loop` returns or raises, and advances, when the productions it
calls do so below the measure. -/
theorem parse_propset_loop_total (rec : Call → Parser Node) (m : Nat)
    (hrec : Terminates rec m) (block : Node)
    (d : Document) (hf : d.context.files = []) (hp : d.position ≤ d.source.length)
    (ha : (Call.parse_propset_loop block).admits d)
    (hm : (Call.parse_propset_loop block).measure d ≤ m) :
    (parse_propset_loop rec block).total d
      (fun _ d1 => (Call.parse_propset_loop block).advances d d1) := by
  simp only [Call.measure, Call.base, Call.rank] at hm
  try simp only [Call.admits] at ha
  have h0 := d.past_refl hf hp
  unfold parse_propset_loop
  iterate 24 (iterate 24 (all_goals (first
    | with_reducible contradiction
    | (with_reducible first
      | exact total_throw _ _ _
      | exact total_undefined _ _
      | refine total_pure ?_
      | refine total_ite_pos (by with_unfolding_all decide) ?_
      | refine total_ite_neg (by with_unfolding_all decide) ?_
      | refine total_ite ?_ ?_
      | refine total_bind ?_
      | refine total_new_Node ?_
      | refine total_new_Node_at ?_
      | refine total_new_Node_token ?_
      | refine total_new_Node_lexed ?_
      | refine total_new_Node_boolean ?_
      | refine total_get_position ?_
      | refine total_get_line ?_
      | refine total_get_lexed ?_
      | refine total_peek ?_ ?_
      | refine total_peek_spaces ?_
      | refine total_sequence_end ?_
      | refine total_space_list_end ?_
      | refine total_lexed_first ?_
      | refine total_before_end ?_
      | refine total_import_path ?_
      | refine total_lookahead ?_
      | refine total_find_here ?_ ?_
      | exact total_no_file _ _ (by assumption)
      | refine total_move_to (by assumption) (by assumption) ?_
      | refine total_extension (by assumption) ?_
      | refine total_lex_hit (by assumption) ?_ ?_
      | refine total_block_comment_hit (by assumption) ?_ ?_
      | refine total_lex_move (by assumption) ?_
      | refine total_optional_spaces_move (by assumption) ?_
      | refine total_call hrec hm (by assumption)
          (by with_unfolding_all first | exact trivial | assumption | rfl)
          (by with_unfolding_all rfl) (by with_unfolding_all rfl) ?_
      | refine total_span hrec hm (by assumption) (by assumption)
          (by with_unfolding_all exact trivial) (by with_unfolding_all rfl)
          (by with_unfolding_all rfl) ?_
      | exact advances_of_past (by assumption) (by with_unfolding_all rfl))
    | intro _
    | split
    | unfold or_else
    | unfold parse_relation_operator
    | unfold parse_media_property
    | skip)))

set_option maxRecDepth 8000 in
set_option maxHeartbeats 40000000 in
/-- The production `parse_ruleset` returns or raises, and advances, when the productions it
calls do so below the measure. -/
theorem parse_ruleset_total (rec : Call → Parser Node) (m : Nat)
    (hrec : Terminates rec m) (lookahead : Selector_Lookahead) (inside_of : NodeType)
    (d : Document) (hf : d.context.files = []) (hp : d.position ≤ d.source.length)
    (ha : (Call.parse_ruleset lookahead inside_of).admits d)
    (hm : (Call.parse_ruleset lookahead inside_of).measure d ≤ m) :
    (parse_ruleset rec lookahead inside_of).total d
      (fun _ d1 => (Call.parse_ruleset lookahead inside_of).advances d d1) := by
  simp only [Call.measure, Call.base, Call.rank] at hm
  try simp only [Call.admits] at ha
  have h0 := d.past_refl hf hp
  have hla := lookahead_bounds d hp
  rw [← ha] at hla
  unfold parse_ruleset
  iterate 24 (iterate 24 (all_goals (first
    | with_reducible contradiction
    | (with_reducible first
      | exact total_throw _ _ _
      | exact total_undefined _ _
      | refine total_pure ?_
      | refine total_ite_pos (by with_unfolding_all decide) ?_
      | refine total_ite_neg (by with_unfolding_all decide) ?_
      | refine total_ite ?_ ?_
      | refine total_bind ?_
      | refine total_new_Node ?_
      | refine total_new_Node_at ?_
      | refine total_new_Node_token ?_
      | refine total_new_Node_lexed ?_
      | refine total_new_Node_boolean ?_
      | refine total_get_position ?_
      | refine total_get_line ?_
      | refine total_get_lexed ?_
      | refine total_peek ?_ ?_
      | refine total_peek_spaces ?_
      | refine total_sequence_end ?_
      | refine total_space_list_end ?_
      | refine total_lexed_first ?_
      | refine total_before_end ?_
      | refine total_import_path ?_
      | refine total_lookahead ?_
      | refine total_find_here ?_ ?_
      | exact total_no_file _ _ (by assumption)
      | refine total_move_to (by assumption) (by assumption) ?_
      | refine total_extension (by assumption) ?_
      | refine total_lex_hit (by assumption) ?_ ?_
      | refine total_block_comment_hit (by assumption) ?_ ?_
      | refine total_lex_move (by assumption) ?_
      | refine total_optional_spaces_move (by assumption) ?_
      | refine total_call hrec hm (by assumption)
          (by
            have hb := hla _ (by assumption)
            simp only [Call.admits]
            exact ⟨hb.2.2 (by assumption), hb.2.1⟩)
          (by with_unfolding_all rfl) (by with_unfolding_all rfl) ?_
      | refine total_call hrec hm (by assumption)
          (by with_unfolding_all first | exact trivial | assumption | rfl)
          (by with_unfolding_all rfl) (by with_unfolding_all rfl) ?_
      | refine total_span hrec hm (by assumption) (by assumption)
          (by with_unfolding_all exact trivial) (by with_unfolding_all rfl)
          (by with_unfolding_all rfl) ?_
      | exact advances_of_past (by assumption) (by with_unfolding_all rfl))
    | intro _
    | split
    | unfold or_else
    | unfold parse_relation_operator
    | unfold parse_media_property
    | skip)))

set_option maxRecDepth 8000 in
set_option maxHeartbeats 40000000 in
/-- The production `parse_selector_schema` returns or raises, and advances, when the productions it
calls do so below the measure. -/
theorem parse_selector_schema_total (rec : Call → Parser Node) (m : Nat)
    (hrec : Terminates rec m) (e : Nat)
    (d : Document) (hf : d.context.files = []) (hp : d.position ≤ d.source.length)
    (ha : (Call.parse_selector_schema e).admits d)
    (hm : (Call.parse_selector_schema e).measure d ≤ m) :
    (parse_selector_schema rec e).total d
      (fun _ d1 => (Call.parse_selector_schema e).advances d d1) := by
  simp only [Call.measure, Call.base, Call.rank] at hm
  try simp only [Call.admits] at ha
  unfold parse_selector_schema
  iterate 24 (iterate 24 (all_goals (first
    | with_reducible contradiction
    | (with_reducible first
      | exact total_throw _ _ _
      | exact total_undefined _ _
      | refine total_pure ?_
      | refine total_ite_pos (by with_unfolding_all decide) ?_
      | refine total_ite_neg (by with_unfolding_all decide) ?_
      | refine total_ite ?_ ?_
      | refine total_bind ?_
      | refine total_new_Node ?_
      | refine total_new_Node_at ?_
      | refine total_new_Node_token ?_
      | refine total_new_Node_lexed ?_
      | refine total_new_Node_boolean ?_
      | refine total_get_position ?_
      | refine total_get_line ?_
      | refine total_get_lexed ?_
      | refine total_peek ?_ ?_
      | refine total_peek_spaces ?_
      | refine total_sequence_end ?_
      | refine total_space_list_end ?_
      | refine total_lexed_first ?_
      | refine total_before_end ?_
      | refine total_import_path ?_
      | refine total_lookahead ?_
      | refine total_find_first_here ?_ ?_
      | refine total_find_interpolant_start ?_ ?_
      | refine total_find_hash_lbrace ?_ ?_
      | refine total_find_in_interval ?_ ?_
      | exact total_in_file _ _ (by assumption)
      | refine total_set_position (by assumption) ?_
      | refine total_register_extension (by assumption) ?_
      | refine total_lex_interpolant (by assumption) ?_ ?_
      | refine total_lex (by assumption) ?_ ?_
      | refine total_lex_block_comment (by assumption) ?_ ?_
      | refine total_lex_forward (by assumption) (by omega) ?_
      | refine total_lex_optional_spaces (by assumption) (by omega) ?_
      | refine total_rec_strict hrec (by with_unfolding_all rfl) (by assumption) (by omega)
          (by
            with_unfolding_all first
              | exact trivial | assumption | rfl | (simp only [Call.admits]; omega))
          (by simp only [Call.measure, Call.base, Call.rank]; omega) ?_
      | refine total_rec hrec (by assumption) (by omega)
          (by
            with_unfolding_all first
              | exact trivial | assumption | rfl | (simp only [Call.admits]; omega))
          (by
            simp only [Call.measure, Call.base, Call.rank]
            first
              | omega | (split <;> first | omega | contradiction)) ?_
      | refine total_in_token hrec (by assumption) (by first | omega | (dsimp only; omega))
          (by with_unfolding_all exact trivial)
          (by simp only [Call.measure, Call.base, Call.rank]; omega) ?_
      | exact advances_of_lt (by omega) (by assumption) (by omega) (by omega)
      | exact advances_of_le (by with_unfolding_all rfl) (by omega) (by assumption) (by omega)
          (by omega))
    | intro _
    | simp only [↓reduceIte, Bool.not_true, Bool.not_false, Bool.or_true, Bool.true_or,
        Bool.or_false, Bool.false_or, Bool.and_true, Bool.true_and, Bool.and_false,
        Bool.false_and, Bool.false_eq_true]
    | split
    | unfold or_else
    | unfold parse_relation_operator
    | unfold parse_media_property
    | skip)))

set_option maxRecDepth 8000 in
set_option maxHeartbeats 40000000 in
/-- The production `parse_selector_schema_loop` returns or raises, and advances, when the productions it
calls do so below the measure. -/
theorem parse_selector_schema_loop_total (rec : Call → Parser Node) (m : Nat)
    (hrec : Terminates rec m) (e : Nat) (i : Nat) (schema : Node)
    (d : Document) (hf : d.context.files = []) (hp : d.position ≤ d.source.length)
    (ha : (Call.parse_selector_schema_loop e i schema).admits d)
    (hm : (Call.parse_selector_schema_loop e i schema).measure d ≤ m) :
    (parse_selector_schema_loop rec e i schema).total d
      (fun _ d1 => (Call.parse_selector_schema_loop e i schema).advances d d1) := by
  simp only [Call.measure, Call.base, Call.rank] at hm
  try simp only [Call.admits] at ha
  unfold parse_selector_schema_loop
  iterate 24 (iterate 24 (all_goals (first
    | with_reducible contradiction
    | (with_reducible first
      | exact total_throw _ _ _
      | exact total_undefined _ _
      | refine total_pure ?_
      | refine total_ite_pos (by with_unfolding_all decide) ?_
      | refine total_ite_neg (by with_unfolding_all decide) ?_
      | refine total_ite ?_ ?_
      | refine total_bind ?_
      | refine total_new_Node ?_
      | refine total_new_Node_at ?_
      | refine total_new_Node_token ?_
      | refine total_new_Node_lexed ?_
      | refine total_new_Node_boolean ?_
      | refine total_get_position ?_
      | refine total_get_line ?_
      | refine total_get_lexed ?_
      | refine total_peek ?_ ?_
      | refine total_peek_spaces ?_
      | refine total_sequence_end ?_
      | refine total_space_list_end ?_
      | refine total_lexed_first ?_
      | refine total_before_end ?_
      | refine total_import_path ?_
      | refine total_lookahead ?_
      | refine total_find_first_here ?_ ?_
      | refine total_find_interpolant_start ?_ ?_
      | refine total_find_hash_lbrace ?_ ?_
      | refine total_find_in_interval ?_ ?_
      | exact total_in_file _ _ (by assumption)
      | refine total_set_position (by assumption) ?_
      | refine total_register_extension (by assumption) ?_
      | refine total_lex_interpolant (by assumption) ?_ ?_
      | refine total_lex (by assumption) ?_ ?_
      | refine total_lex_block_comment (by assumption) ?_ ?_
      | refine total_lex_forward (by assumption) (by omega) ?_
      | refine total_lex_optional_spaces (by assumption) (by omega) ?_
      | refine total_rec_strict hrec (by with_unfolding_all rfl) (by assumption) (by omega)
          (by
            with_unfolding_all first
              | exact trivial | assumption | rfl | (simp only [Call.admits]; omega))
          (by simp only [Call.measure, Call.base, Call.rank]; omega) ?_
      | refine total_rec hrec (by assumption) (by omega)
          (by
            with_unfolding_all first
              | exact trivial | assumption | rfl | (simp only [Call.admits]; omega))
          (by
            simp only [Call.measure, Call.base, Call.rank]
            first
              | omega | (split <;> first | omega | contradiction)) ?_
      | refine total_in_token hrec (by assumption) (by first | omega | (dsimp only; omega))
          (by with_unfolding_all exact trivial)
          (by simp only [Call.measure, Call.base, Call.rank]; omega) ?_
      | exact advances_of_lt (by omega) (by assumption) (by omega) (by omega)
      | exact advances_of_le (by with_unfolding_all rfl) (by omega) (by assumption) (by omega)
          (by omega))
    | intro _
    | simp only [↓reduceIte, Bool.not_true, Bool.not_false, Bool.or_true, Bool.true_or,
        Bool.or_false, Bool.false_or, Bool.and_true, Bool.true_and, Bool.and_false,
        Bool.false_and, Bool.false_eq_true]
    | split
    | unfold or_else
    | unfold parse_relation_operator
    | unfold parse_media_property
    | skip)))

set_option maxRecDepth 8000 in
set_option maxHeartbeats 40000000 in
/-- The production `parse_selector_group` returns or raises, and advances, when the productions it
calls do so below the measure. -/
theorem parse_selector_group_total (rec : Call → Parser Node) (m : Nat) (hrec : Terminates rec m)
    (d : Document) (hf : d.context.files = []) (hp : d.position ≤ d.source.length)
    (ha : Call.parse_selector_group.admits d) (hm : Call.parse_selector_group.measure d ≤ m) :
    (parse_selector_group rec).total d (fun _ d1 => Call.parse_selector_group.advances d d1) := by
  simp only [Call.measure, Call.base, Call.rank] at hm
  try simp only [Call.admits] at ha
  have h0 := d.past_refl hf hp
  unfold parse_selector_group
  iterate 24 (iterate 24 (all_goals (first
    | with_reducible contradiction
    | (with_reducible first
      | exact total_throw _ _ _
      | exact total_undefined _ _
      | refine total_pure ?_
      | refine total_ite_pos (by with_unfolding_all decide) ?_
      | refine total_ite_neg (by with_unfolding_all decide) ?_
      | refine total_ite ?_ ?_
      | refine total_bind ?_
      | refine total_new_Node ?_
      | refine total_new_Node_at ?_
      | refine total_new_Node_token ?_
      | refine total_new_Node_lexed ?_
      | refine total_new_Node_boolean ?_
      | refine total_get_position ?_
      | refine total_get_line ?_
      | refine total_get_lexed ?_
      | refine total_peek ?_ ?_
      | refine total_peek_spaces ?_
      | refine total_sequence_end ?_
      | refine total_space_list_end ?_
      | refine total_lexed_first ?_
      | refine total_before_end ?_
      | refine total_import_path ?_
      | refine total_lookahead ?_
      | refine total_find_here ?_ ?_
      | exact total_no_file _ _ (by assumption)
      | refine total_move_to (by assumption) (by assumption) ?_
      | refine total_extension (by assumption) ?_
      | refine total_lex_hit (by assumption) ?_ ?_
      | refine total_block_comment_hit (by assumption) ?_ ?_
      | refine total_lex_move (by assumption) ?_
      | refine total_optional_spaces_move (by assumption) ?_
      | refine total_call hrec hm (by assumption)
          (by with_unfolding_all first | exact trivial | assumption | rfl)
          (by with_unfolding_all rfl) (by with_unfolding_all rfl) ?_
      | refine total_span hrec hm (by assumption) (by assumption)
          (by with_unfolding_all exact trivial) (by with_unfolding_all rfl)
          (by with_unfolding_all rfl) ?_
      | exact advances_of_past (by assumption) (by with_unfolding_all rfl))
    | intro _
    | split
    | unfold or_else
    | unfold parse_relation_operator
    | unfold parse_media_property
    | skip)))

set_option maxRecDepth 8000 in
set_option maxHeartbeats 40000000 in
/-- The production `parse_selector_group_loop` returns or raises, and advances, when the productions it
calls do so below the measure. -/
theorem parse_selector_group_loop_total (rec : Call → Parser Node) (m : Nat)
    (hrec : Terminates rec m) (group : Node)
    (d : Document) (hf : d.context.files = []) (hp : d.position ≤ d.source.length)
    (ha : (Call.parse_selector_group_loop group).admits d)
    (hm : (Call.parse_selector_group_loop group).measure d ≤ m) :
    (parse_selector_group_loop rec group).total d
      (fun _ d1 => (Call.parse_selector_group_loop group).advances d d1) := by
  simp only [Call.measure, Call.base, Call.rank] at hm
  try simp only [Call.admits] at ha
  have h0 := d.past_refl hf hp
  unfold parse_selector_group_loop
  iterate 24 (iterate 24 (all_goals (first
    | with_reducible contradiction
    | (with_reducible first
      | exact total_throw _ _ _
      | exact total_undefined _ _
      | refine total_pure ?_
      | refine total_ite_pos (by with_unfolding_all decide) ?_
      | refine total_ite_neg (by with_unfolding_all decide) ?_
      | refine total_ite ?_ ?_
      | refine total_bind ?_
      | refine total_new_Node ?_
      | refine total_new_Node_at ?_
      | refine total_new_Node_token ?_
      | refine total_new_Node_lexed ?_
      | refine total_new_Node_boolean ?_
      | refine total_get_position ?_
      | refine total_get_line ?_
      | refine total_get_lexed ?_
      | refine total_peek ?_ ?_
      | refine total_peek_spaces ?_
      | refine total_sequence_end ?_
      | refine total_space_list_end ?_
      | refine total_lexed_first ?_
      | refine total_before_end ?_
      | refine total_import_path ?_
      | refine total_lookahead ?_
      | refine total_find_here ?_ ?_
      | exact total_no_file _ _ (by assumption)
      | refine total_move_to (by assumption) (by assumption) ?_
      | refine total_extension (by assumption) ?_
      | refine total_lex_hit (by assumption) ?_ ?_
      | refine total_block_comment_hit (by assumption) ?_ ?_
      | refine total_lex_move (by assumption) ?_
      | refine total_optional_spaces_move (by assumption) ?_
      | refine total_call hrec hm (by assumption)
          (by with_unfolding_all first | exact trivial | assumption | rfl)
          (by with_unfolding_all rfl) (by with_unfolding_all rfl) ?_
      | refine total_span hrec hm (by assumption) (by assumption)
          (by with_unfolding_all exact trivial) (by with_unfolding_all rfl)
          (by with_unfolding_all rfl) ?_
      | exact advances_of_past (by assumption) (by with_unfolding_all rfl))
    | intro _
    | split
    | unfold or_else
    | unfold parse_relation_operator
    | unfold parse_media_property
    | skip)))

set_option maxRecDepth 8000 in
set_option maxHeartbeats 40000000 in
/-- The production `parse_selector` returns or raises, and advances, when the productions it
calls do so below the measure. -/
theorem parse_selector_total (rec : Call → Parser Node) (m : Nat) (hrec : Terminates rec m)
    (d : Document) (hf : d.context.files = []) (hp : d.position ≤ d.source.length)
    (ha : Call.parse_selector.admits d) (hm : Call.parse_selector.measure d ≤ m) :
    (parse_selector rec).total d (fun _ d1 => Call.parse_selector.advances d d1) := by
  simp only [Call.measure, Call.base, Call.rank] at hm
  try simp only [Call.admits] at ha
  have h0 := d.past_refl hf hp
  unfold parse_selector
  iterate 24 (iterate 24 (all_goals (first
    | with_reducible contradiction
    | (with_reducible first
      | exact total_throw _ _ _
      | exact total_undefined _ _
      | refine total_pure ?_
      | refine total_ite_pos (by with_unfolding_all decide) ?_
      | refine total_ite_neg (by with_unfolding_all decide) ?_
      | refine total_ite ?_ ?_
      | refine total_bind ?_
      | refine total_new_Node ?_
      | refine total_new_Node_at ?_
      | refine total_new_Node_token ?_
      | refine total_new_Node_lexed ?_
      | refine total_new_Node_boolean ?_
      | refine total_get_position ?_
      | refine total_get_line ?_
      | refine total_get_lexed ?_
      | refine total_peek ?_ ?_
      | refine total_peek_spaces ?_
      | refine total_sequence_end ?_
      | refine total_space_list_end ?_
      | refine total_lexed_first ?_
      | refine total_before_end ?_
      | refine total_import_path ?_
      | refine total_lookahead ?_
      | refine total_find_here ?_ ?_
      | exact total_no_file _ _ (by assumption)
      | refine total_move_to (by assumption) (by assumption) ?_
      | refine total_extension (by assumption) ?_
      | refine total_lex_hit (by assumption) ?_ ?_
      | refine total_block_comment_hit (by assumption) ?_ ?_
      | refine total_lex_move (by assumption) ?_
      | refine total_optional_spaces_move (by assumption) ?_
      | refine total_call hrec hm (by assumption)
          (by with_unfolding_all first | exact trivial | assumption | rfl)
          (by with_unfolding_all rfl) (by with_unfolding_all rfl) ?_
      | refine total_span hrec hm (by assumption) (by assumption)
          (by with_unfolding_all exact trivial) (by with_unfolding_all rfl)
          (by with_unfolding_all rfl) ?_
      | exact advances_of_past (by assumption) (by with_unfolding_all rfl))
    | intro _
    | split
    | unfold or_else
    | unfold parse_relation_operator
    | unfold parse_media_property
    | skip)))

set_option maxRecDepth 8000 in
set_option maxHeartbeats 40000000 in
/-- The production `parse_selector_loop` returns or raises, and advances, when the productions it
calls do so below the measure. -/
theorem parse_selector_loop_total (rec : Call → Parser Node) (m : Nat)
    (hrec : Terminates rec m) (selector : Node)
    (d : Document) (hf : d.context.files = []) (hp : d.position ≤ d.source.length)
    (ha : (Call.parse_selector_loop selector).admits d)
    (hm : (Call.parse_selector_loop selector).measure d ≤ m) :
    (parse_selector_loop rec selector).total d
      (fun _ d1 => (Call.parse_selector_loop selector).advances d d1) := by
  simp only [Call.measure, Call.base, Call.rank] at hm
  try simp only [Call.admits] at ha
  have h0 := d.past_refl hf hp
  unfold parse_selector_loop
  iterate 24 (iterate 24 (all_goals (first
    | with_reducible contradiction
    | (with_reducible first
      | exact total_throw _ _ _
      | exact total_undefined _ _
      | refine total_pure ?_
      | refine total_ite_pos (by with_unfolding_all decide) ?_
      | refine total_ite_neg (by with_unfolding_all decide) ?_
      | refine total_ite ?_ ?_
      | refine total_bind ?_
      | refine total_new_Node ?_
      | refine total_new_Node_at ?_
      | refine total_new_Node_token ?_
      | refine total_new_Node_lexed ?_
      | refine total_new_Node_boolean ?_
      | refine total_get_position ?_
      | refine total_get_line ?_
      | refine total_get_lexed ?_
      | refine total_peek ?_ ?_
      | refine total_peek_spaces ?_
      | refine total_sequence_end ?_
      | refine total_space_list_end ?_
      | refine total_lexed_first ?_
      | refine total_before_end ?_
      | refine total_import_path ?_
      | refine total_lookahead ?_
      | refine total_find_here ?_ ?_
      | exact total_no_file _ _ (by assumption)
      | refine total_move_to (by assumption) (by assumption) ?_
      | refine total_extension (by assumption) ?_
      | refine total_lex_hit (by assumption) ?_ ?_
      | refine total_block_comment_hit (by assumption) ?_ ?_
      | refine total_lex_move (by assumption) ?_
      | refine total_optional_spaces_move (by assumption) ?_
      | refine total_call hrec hm (by assumption)
          (by with_unfolding_all first | exact trivial | assumption | rfl)
          (by with_unfolding_all rfl) (by with_unfolding_all rfl) ?_
      | refine total_span hrec hm (by assumption) (by assumption)
          (by with_unfolding_all exact trivial) (by with_unfolding_all rfl)
          (by with_unfolding_all rfl) ?_
      | exact advances_of_past (by assumption) (by with_unfolding_all rfl))
    | intro _
    | split
    | unfold or_else
    | unfold parse_relation_operator
    | unfold parse_media_property
    | skip)))

set_option maxRecDepth 8000 in
set_option maxHeartbeats 40000000 in
/-- The production `parse_simple_selector_sequence` returns or raises, and advances, when the productions it
calls do so below the measure. -/
theorem parse_simple_selector_sequence_total (rec : Call → Parser Node) (m : Nat)
    (hrec : Terminates rec m)
    (d : Document) (hf : d.context.files = []) (hp : d.position ≤ d.source.length)
    (ha : Call.parse_simple_selector_sequence.admits d)
    (hm : Call.parse_simple_selector_sequence.measure d ≤ m) :
    (parse_simple_selector_sequence rec).total d
      (fun _ d1 => Call.parse_simple_selector_sequence.advances d d1) := by
  simp only [Call.measure, Call.base, Call.rank] at hm
  try simp only [Call.admits] at ha
  have h0 := d.past_refl hf hp
  unfold parse_simple_selector_sequence
  iterate 24 (iterate 24 (all_goals (first
    | with_reducible contradiction
    | (with_reducible first
      | exact total_throw _ _ _
      | exact total_undefined _ _
      | refine total_pure ?_
      | refine total_ite_pos (by with_unfolding_all decide) ?_
      | refine total_ite_neg (by with_unfolding_all decide) ?_
      | refine total_ite ?_ ?_
      | refine total_bind ?_
      | refine total_new_Node ?_
      | refine total_new_Node_at ?_
      | refine total_new_Node_token ?_
      | refine total_new_Node_lexed ?_
      | refine total_new_Node_boolean ?_
      | refine total_get_position ?_
      | refine total_get_line ?_
      | refine total_get_lexed ?_
      | refine total_peek ?_ ?_
      | refine total_peek_spaces ?_
      | refine total_sequence_end ?_
      | refine total_space_list_end ?_
      | refine total_lexed_first ?_
      | refine total_before_end ?_
      | refine total_import_path ?_
      | refine total_lookahead ?_
      | refine total_find_here ?_ ?_
      | exact total_no_file _ _ (by assumption)
      | refine total_move_to (by assumption) (by assumption) ?_
      | refine total_extension (by assumption) ?_
      | refine total_lex_hit (by assumption) ?_ ?_
      | refine total_block_comment_hit (by assumption) ?_ ?_
      | refine total_lex_move (by assumption) ?_
      | refine total_optional_spaces_move (by assumption) ?_
      | refine total_call hrec hm (by assumption)
          (by with_unfolding_all first | exact trivial | assumption | rfl)
          (by with_unfolding_all rfl) (by with_unfolding_all rfl) ?_
      | refine total_span hrec hm (by assumption) (by assumption)
          (by with_unfolding_all exact trivial) (by with_unfolding_all rfl)
          (by with_unfolding_all rfl) ?_
      | exact advances_of_past (by assumption) (by with_unfolding_all rfl))
    | intro _
    | split
    | unfold or_else
    | unfold parse_relation_operator
    | unfold parse_media_property
    | skip)))

set_option maxRecDepth 8000 in
set_option maxHeartbeats 40000000 in
/-- The production `parse_simple_selector_sequence_loop` returns or raises, and advances, when the productions it
calls do so below the measure. -/
theorem parse_simple_selector_sequence_loop_total (rec : Call → Parser Node) (m : Nat)
    (hrec : Terminates rec m) (seq : Node)
    (d : Document) (hf : d.context.files = []) (hp : d.position ≤ d.source.length)
    (ha : (Call.parse_simple_selector_sequence_loop seq).admits d)
    (hm : (Call.parse_simple_selector_sequence_loop seq).measure d ≤ m) :
    (parse_simple_selector_sequence_loop rec seq).total d
      (fun _ d1 => (Call.parse_simple_selector_sequence_loop seq).advances d d1) := by
  simp only [Call.measure, Call.base, Call.rank] at hm
  try simp only [Call.admits] at ha
  have h0 := d.past_refl hf hp
  unfold parse_simple_selector_sequence_loop
  iterate 24 (iterate 24 (all_goals (first
    | with_reducible contradiction
    | (with_reducible first
      | exact total_throw _ _ _
      | exact total_undefined _ _
      | refine total_pure ?_
      | refine total_ite_pos (by with_unfolding_all decide) ?_
      | refine total_ite_neg (by with_unfolding_all decide) ?_
      | refine total_ite ?_ ?_
      | refine total_bind ?_
      | refine total_new_Node ?_
      | refine total_new_Node_at ?_
      | refine total_new_Node_token ?_
      | refine total_new_Node_lexed ?_
      | refine total_new_Node_boolean ?_
      | refine total_get_position ?_
      | refine total_get_line ?_
      | refine total_get_lexed ?_
      | refine total_peek ?_ ?_
      | refine total_peek_spaces ?_
      | refine total_sequence_end ?_
      | refine total_space_list_end ?_
      | refine total_lexed_first ?_
      | refine total_before_end ?_
      | refine total_import_path ?_
      | refine total_lookahead ?_
      | refine total_find_here ?_ ?_
      | exact total_no_file _ _ (by assumption)
      | refine total_move_to (by assumption) (by assumption) ?_
      | refine total_extension (by assumption) ?_
      | refine total_lex_hit (by assumption) ?_ ?_
      | refine total_block_comment_hit (by assumption) ?_ ?_
      | refine total_lex_move (by assumption) ?_
      | refine total_optional_spaces_move (by assumption) ?_
      | refine total_call hrec hm (by assumption)
          (by with_unfolding_all first | exact trivial | assumption | rfl)
          (by with_unfolding_all rfl) (by with_unfolding_all rfl) ?_
      | refine total_span hrec hm (by assumption) (by assumption)
          (by with_unfolding_all exact trivial) (by with_unfolding_all rfl)
          (by with_unfolding_all rfl) ?_
      | exact advances_of_past (by assumption) (by with_unfolding_all rfl))
    | intro _
    | split
    | unfold or_else
    | unfold parse_relation_operator
    | unfold parse_media_property
    | skip)))

set_option maxRecDepth 8000 in
set_option maxHeartbeats 40000000 in
/-- The production `parse_simple_selector` returns or raises, and advances, when the productions it
calls do so below the measure. -/
theorem parse_simple_selector_total (rec : Call → Parser Node) (m : Nat) (hrec : Terminates rec m)
    (d : Document) (hf : d.context.files = []) (hp : d.position ≤ d.source.length)
    (ha : Call.parse_simple_selector.admits d) (hm : Call.parse_simple_selector.measure d ≤ m) :
    (parse_simple_selector rec).total d (fun _ d1 => Call.parse_simple_selector.advances d d1) := by
  simp only [Call.measure, Call.base, Call.rank] at hm
  try simp only [Call.admits] at ha
  have h0 := d.past_refl hf hp
  unfold parse_simple_selector
  iterate 24 (iterate 24 (all_goals (first
    | with_reducible contradiction
    | (with_reducible first
      | exact total_throw _ _ _
      | exact total_undefined _ _
      | refine total_pure ?_
      | refine total_ite_pos (by with_unfolding_all decide) ?_
      | refine total_ite_neg (by with_unfolding_all decide) ?_
      | refine total_ite ?_ ?_
      | refine total_bind ?_
      | refine total_new_Node ?_
      | refine total_new_Node_at ?_
      | refine total_new_Node_token ?_
      | refine total_new_Node_lexed ?_
      | refine total_new_Node_boolean ?_
      | refine total_get_position ?_
      | refine total_get_line ?_
      | refine total_get_lexed ?_
      | refine total_peek ?_ ?_
      | refine total_peek_spaces ?_
      | refine total_sequence_end ?_
      | refine total_space_list_end ?_
      | refine total_lexed_first ?_
      | refine total_before_end ?_
      | refine total_import_path ?_
      | refine total_lookahead ?_
      | refine total_find_here ?_ ?_
      | exact total_no_file _ _ (by assumption)
      | refine total_move_to (by assumption) (by assumption) ?_
      | refine total_extension (by assumption) ?_
      | refine total_lex_hit (by assumption) ?_ ?_
      | refine total_block_comment_hit (by assumption) ?_ ?_
      | refine total_lex_move (by assumption) ?_
      | refine total_optional_spaces_move (by assumption) ?_
      | refine total_call hrec hm (by assumption)
          (by with_unfolding_all first | exact trivial | assumption | rfl)
          (by with_unfolding_all rfl) (by with_unfolding_all rfl) ?_
      | refine total_span hrec hm (by assumption) (by assumption)
          (by with_unfolding_all exact trivial) (by with_unfolding_all rfl)
          (by with_unfolding_all rfl) ?_
      | exact advances_of_past (by assumption) (by with_unfolding_all rfl))
    | intro _
    | split
    | unfold or_else
    | unfold parse_relation_operator
    | unfold parse_media_property
    | skip)))

set_option maxRecDepth 8000 in
set_option maxHeartbeats 40000000 in
/-- The production `parse_pseudo` returns or raises, and advances, when the productions it
calls do so below the measure. -/
theorem parse_pseudo_total (rec : Call → Parser Node) (m : Nat) (hrec : Terminates rec m)
    (d : Document) (hf : d.context.files = []) (hp : d.position ≤ d.source.length)
    (ha : Call.parse_pseudo.admits d) (hm : Call.parse_pseudo.measure d ≤ m) :
    (parse_pseudo rec).total d (fun _ d1 => Call.parse_pseudo.advances d d1) := by
  simp only [Call.measure, Call.base, Call.rank] at hm
  try simp only [Call.admits] at ha
  have h0 := d.past_refl hf hp
  unfold parse_pseudo
  iterate 24 (iterate 24 (all_goals (first
    | with_reducible contradiction
    | (with_reducible first
      | exact total_throw _ _ _
      | exact total_undefined _ _
      | refine total_pure ?_
      | refine total_ite_pos (by with_unfolding_all decide) ?_
      | refine total_ite_neg (by with_unfolding_all decide) ?_
      | refine total_ite ?_ ?_
      | refine total_bind ?_
      | refine total_new_Node ?_
      | refine total_new_Node_at ?_
      | refine total_new_Node_token ?_
      | refine total_new_Node_lexed ?_
      | refine total_new_Node_boolean ?_
      | refine total_get_position ?_
      | refine total_get_line ?_
      | refine total_get_lexed ?_
      | refine total_peek ?_ ?_
      | refine total_peek_spaces ?_
      | refine total_sequence_end ?_
      | refine total_space_list_end ?_
      | refine total_lexed_first ?_
      | refine total_before_end ?_
      | refine total_import_path ?_
      | refine total_lookahead ?_
      | refine total_find_here ?_ ?_
      | exact total_no_file _ _ (by assumption)
      | refine total_move_to (by assumption) (by assumption) ?_
      | refine total_extension (by assumption) ?_
      | refine total_lex_hit (by assumption) ?_ ?_
      | refine total_block_comment_hit (by assumption) ?_ ?_
      | refine total_lex_move (by assumption) ?_
      | refine total_optional_spaces_move (by assumption) ?_
      | refine total_call hrec hm (by assumption)
          (by with_unfolding_all first | exact trivial | assumption | rfl)
          (by with_unfolding_all rfl) (by with_unfolding_all rfl) ?_
      | refine total_span hrec hm (by assumption) (by assumption)
          (by with_unfolding_all exact trivial) (by with_unfolding_all rfl)
          (by with_unfolding_all rfl) ?_
      | exact advances_of_past (by assumption) (by with_unfolding_all rfl))
    | intro _
    | split
    | unfold or_else
    | unfold parse_relation_operator
    | unfold parse_media_property
    | skip)))

set_option maxRecDepth 8000 in
set_option maxHeartbeats 40000000 in
/-- The production `parse_attribute_selector` returns or raises, and advances, when the productions it
calls do so below the measure. -/
theorem parse_attribute_selector_total (rec : Call → Parser Node) (m : Nat)
    (hrec : Terminates rec m)
    (d : Document) (hf : d.context.files = []) (hp : d.position ≤ d.source.length)
    (ha : Call.parse_attribute_selector.admits d)
    (hm : Call.parse_attribute_selector.measure d ≤ m) :
    (parse_attribute_selector).total d
      (fun _ d1 => Call.parse_attribute_selector.advances d d1) := by
  simp only [Call.measure, Call.base, Call.rank] at hm
  try simp only [Call.admits] at ha
  have h0 := d.past_refl hf hp
  unfold parse_attribute_selector
  iterate 24 (iterate 24 (all_goals (first
    | with_reducible contradiction
    | (with_reducible first
      | exact total_throw _ _ _
      | exact total_undefined _ _
      | refine total_pure ?_
      | refine total_ite_pos (by with_unfolding_all decide) ?_
      | refine total_ite_neg (by with_unfolding_all decide) ?_
      | refine total_ite ?_ ?_
      | refine total_bind ?_
      | refine total_new_Node ?_
      | refine total_new_Node_at ?_
      | refine total_new_Node_token ?_
      | refine total_new_Node_lexed ?_
      | refine total_new_Node_boolean ?_
      | refine total_get_position ?_
      | refine total_get_line ?_
      | refine total_get_lexed ?_
      | refine total_peek ?_ ?_
      | refine total_peek_spaces ?_
      | refine total_sequence_end ?_
      | refine total_space_list_end ?_
      | refine total_lexed_first ?_
      | refine total_before_end ?_
      | refine total_import_path ?_
      | refine total_lookahead ?_
      | refine total_find_here ?_ ?_
      | exact total_no_file _ _ (by assumption)
      | refine total_move_to (by assumption) (by assumption) ?_
      | refine total_extension (by assumption) ?_
      | refine total_lex_hit (by assumption) ?_ ?_
      | refine total_block_comment_hit (by assumption) ?_ ?_
      | refine total_lex_move (by assumption) ?_
      | refine total_optional_spaces_move (by assumption) ?_
      | refine total_call hrec hm (by assumption)
          (by with_unfolding_all first | exact trivial | assumption | rfl)
          (by with_unfolding_all rfl) (by with_unfolding_all rfl) ?_
      | refine total_span hrec hm (by assumption) (by assumption)
          (by with_unfolding_all exact trivial) (by with_unfolding_all rfl)
          (by with_unfolding_all rfl) ?_
      | exact advances_of_past (by assumption) (by with_unfolding_all rfl))
    | intro _
    | split
    | unfold or_else
    | unfold parse_relation_operator
    | unfold parse_media_property
    | skip)))

set_option maxRecDepth 8000 in
set_option maxHeartbeats 40000000 in
/-- The production `parse_block` returns or raises, and advances, when the productions it
calls do so below the measure. -/
theorem parse_block_total (rec : Call → Parser Node) (m : Nat)
    (hrec : Terminates rec m) (sr : Option Node) (io : NodeType)
    (d : Document) (hf : d.context.files = []) (hp : d.position ≤ d.source.length)
    (ha : (Call.parse_block sr io).admits d) (hm : (Call.parse_block sr io).measure d ≤ m) :
    (parse_block rec sr io).total d (fun _ d1 => (Call.parse_block sr io).advances d d1) := by
  simp only [Call.measure, Call.base, Call.rank] at hm
  try simp only [Call.admits] at ha
  have h0 := d.past_refl hf hp
  unfold parse_block
  iterate 24 (iterate 24 (all_goals (first
    | with_reducible contradiction
    | (with_reducible first
      | exact total_throw _ _ _
      | exact total_undefined _ _
      | refine total_pure ?_
      | refine total_ite_pos (by with_unfolding_all decide) ?_
      | refine total_ite_neg (by with_unfolding_all decide) ?_
      | refine total_ite ?_ ?_
      | refine total_bind ?_
      | refine total_new_Node ?_
      | refine total_new_Node_at ?_
      | refine total_new_Node_token ?_
      | refine total_new_Node_lexed ?_
      | refine total_new_Node_boolean ?_
      | refine total_get_position ?_
      | refine total_get_line ?_
      | refine total_get_lexed ?_
      | refine total_peek ?_ ?_
      | refine total_peek_spaces ?_
      | refine total_sequence_end ?_
      | refine total_space_list_end ?_
      | refine total_lexed_first ?_
      | refine total_before_end ?_
      | refine total_import_path ?_
      | refine total_lookahead ?_
      | refine total_find_here ?_ ?_
      | exact total_no_file _ _ (by assumption)
      | refine total_move_to (by assumption) (by assumption) ?_
      | refine total_extension (by assumption) ?_
      | refine total_lex_hit (by assumption) ?_ ?_
      | refine total_block_comment_hit (by assumption) ?_ ?_
      | refine total_lex_move (by assumption) ?_
      | refine total_optional_spaces_move (by assumption) ?_
      | refine total_call hrec hm (by assumption)
          (by with_unfolding_all first | exact trivial | assumption | rfl)
          (by with_unfolding_all rfl) (by with_unfolding_all rfl) ?_
      | refine total_span hrec hm (by assumption) (by assumption)
          (by with_unfolding_all exact trivial) (by with_unfolding_all rfl)
          (by with_unfolding_all rfl) ?_
      | exact advances_of_past (by assumption) (by with_unfolding_all rfl))
    | intro _
    | split
    | unfold or_else
    | unfold parse_relation_operator
    | unfold parse_media_property
    | skip)))

set_option maxRecDepth 8000 in
set_option maxHeartbeats 40000000 in
/-- One statement of a block returns or raises when the productions it calls do so below
the measure; when it returns without asking for a `;` the cursor has moved. -/
theorem parse_block_statement_total (rec : Call → Parser Node) (m : Nat)
    (hrec : Terminates rec m) (sr : Option Node) (io : NodeType) (block : Node)
    (d : Document) (hf : d.context.files = []) (hp : d.position ≤ d.source.length)
    (hm : (d.source.length - d.position) * 100 + 62 ≤ m) :
    (parse_block_statement rec sr io block).total d (fun r d1 => d1.past d (!r.2)) := by
  have h0 := d.past_refl hf hp
  unfold parse_block_statement
  iterate 24 (iterate 24 (all_goals (first
    | with_reducible contradiction
    | (with_reducible first
      | exact total_throw _ _ _
      | exact total_undefined _ _
      | refine total_pure ?_
      | refine total_ite_pos (by with_unfolding_all decide) ?_
      | refine total_ite_neg (by with_unfolding_all decide) ?_
      | refine total_ite ?_ ?_
      | refine total_bind ?_
      | refine total_new_Node ?_
      | refine total_new_Node_at ?_
      | refine total_new_Node_token ?_
      | refine total_new_Node_lexed ?_
      | refine total_new_Node_boolean ?_
      | refine total_get_position ?_
      | refine total_get_line ?_
      | refine total_get_lexed ?_
      | refine total_peek ?_ ?_
      | refine total_peek_spaces ?_
      | refine total_sequence_end ?_
      | refine total_space_list_end ?_
      | refine total_lexed_first ?_
      | refine total_before_end ?_
      | refine total_import_path ?_
      | refine total_lookahead ?_
      | refine total_find_here ?_ ?_
      | exact total_no_file _ _ (by assumption)
      | refine total_move_to (by assumption) (by assumption) ?_
      | refine total_extension (by assumption) ?_
      | refine total_lex_hit (by assumption) ?_ ?_
      | refine total_block_comment_hit (by assumption) ?_ ?_
      | refine total_lex_move (by assumption) ?_
      | refine total_optional_spaces_move (by assumption) ?_
      | refine total_call hrec hm (by assumption)
          (by with_unfolding_all first | exact trivial | assumption | rfl)
          (by with_unfolding_all rfl) (by with_unfolding_all rfl) ?_
      | refine total_span hrec hm (by assumption) (by assumption)
          (by with_unfolding_all exact trivial) (by with_unfolding_all rfl)
          (by with_unfolding_all rfl) ?_
      | exact Document.past_weaken (by assumption) (by with_unfolding_all rfl)
      | exact advances_of_past (by assumption) (by with_unfolding_all rfl))
    | intro _
    | split
    | unfold or_else
    | unfold parse_relation_operator
    | unfold parse_media_property
    | skip)))

/-- A statement of a block from a later state of the loop of `parse_block`: it returns
without asking for a `;` after it has moved the cursor, or asks for one. -/
theorem total_statement {rec : Call → Parser Node} {m : Nat} (hrec : Terminates rec m)
    {d0 : Document} {r0 : Nat} (hm : (d0.source.length - d0.position) * 100 + r0 ≤ m)
    {sr : Option Node} {io : NodeType} {block : Node} {d : Document} {s : Bool}
    {Q : Node × Bool → Document → Prop} (h : d.past d0 s)
    (hr : (s || decide (62 ≤ r0)) = true)
    (k1 : ∀ (b : Node) (d1 : Document), d1.past d0 true → Q (b, false) d1)
    (k2 : ∀ (b : Node) (d1 : Document), d1.past d0 s → Q (b, true) d1) :
    (parse_block_statement rec sr io block).total d Q := by
  have hm1 : (d.source.length - d.position) * 100 + 62 ≤ m := by
    obtain ⟨a1, a2, a3, a4, a5⟩ := h
    cases s with
    | true => have := a5 rfl; omega
    | false =>
      simp only [Bool.false_or, decide_eq_true_eq] at hr
      omega
  refine total_mono (parse_block_statement_total rec m hrec sr io block d h.2.1 h.2.2.1 hm1) ?_
  intro r d1 h1
  obtain ⟨b, t⟩ := r
  cases t
  · exact k1 b d1 (Document.past_weaken (Document.past_trans h h1) (by cases s <;> rfl))
  · exact k2 b d1 (Document.past_weaken (Document.past_trans h h1) (by cases s <;> rfl))

set_option maxRecDepth 8000 in
set_option maxHeartbeats 40000000 in
/-- The production `parse_block_loop` returns or raises, and advances, when the productions it
calls do so below the measure. -/
theorem parse_block_loop_total (rec : Call → Parser Node) (m : Nat)
    (hrec : Terminates rec m) (sr : Option Node) (io : NodeType) (semicolon : Bool) (block : Node)
    (d : Document) (hf : d.context.files = []) (hp : d.position ≤ d.source.length)
    (ha : (Call.parse_block_loop sr io semicolon block).admits d)
    (hm : (Call.parse_block_loop sr io semicolon block).measure d ≤ m) :
    (parse_block_loop rec sr io semicolon block).total d
      (fun _ d1 => (Call.parse_block_loop sr io semicolon block).advances d d1) := by
  have h0 := d.past_refl hf hp
  cases semicolon
  all_goals simp only [Call.measure, Call.base, Call.rank] at hm
  all_goals unfold parse_block_loop
  iterate 24 (iterate 24 (all_goals (first
    | with_reducible contradiction
    | (with_reducible first
      | exact total_throw _ _ _
      | exact total_undefined _ _
      | refine total_pure ?_
      | refine total_ite_pos (by with_unfolding_all decide) ?_
      | refine total_ite_neg (by with_unfolding_all decide) ?_
      | refine total_ite ?_ ?_
      | refine total_bind ?_
      | refine total_new_Node ?_
      | refine total_new_Node_at ?_
      | refine total_new_Node_token ?_
      | refine total_new_Node_lexed ?_
      | refine total_new_Node_boolean ?_
      | refine total_get_position ?_
      | refine total_get_line ?_
      | refine total_get_lexed ?_
      | refine total_peek ?_ ?_
      | refine total_peek_spaces ?_
      | refine total_sequence_end ?_
      | refine total_space_list_end ?_
      | refine total_lexed_first ?_
      | refine total_before_end ?_
      | refine total_import_path ?_
      | refine total_lookahead ?_
      | refine total_find_here ?_ ?_
      | exact total_no_file _ _ (by assumption)
      | refine total_move_to (by assumption) (by assumption) ?_
      | refine total_extension (by assumption) ?_
      | refine total_lex_hit (by assumption) ?_ ?_
      | refine total_block_comment_hit (by assumption) ?_ ?_
      | refine total_lex_move (by assumption) ?_
      | refine total_optional_spaces_move (by assumption) ?_
      | refine total_statement hrec hm (by assumption) (by with_unfolding_all rfl) ?_ ?_
      | refine total_call hrec hm (by assumption)
          (by with_unfolding_all first | exact trivial | assumption | rfl)
          (by with_unfolding_all rfl) (by with_unfolding_all rfl) ?_
      | refine total_span hrec hm (by assumption) (by assumption)
          (by with_unfolding_all exact trivial) (by with_unfolding_all rfl)
          (by with_unfolding_all rfl) ?_
      | exact advances_of_past (by assumption) (by with_unfolding_all rfl))
    | intro _
    | split
    | unfold or_else
    | unfold parse_relation_operator
    | unfold parse_media_property
    | skip)))

set_option maxRecDepth 8000 in
set_option maxHeartbeats 40000000 in
/-- The production `parse_block_comments` returns or raises, and advances, when the productions it
calls do so below the measure. -/
theorem parse_block_comments_total (rec : Call → Parser Node) (m : Nat)
    (hrec : Terminates rec m) (block : Node)
    (d : Document) (hf : d.context.files = []) (hp : d.position ≤ d.source.length)
    (ha : (Call.parse_block_comments block).admits d)
    (hm : (Call.parse_block_comments block).measure d ≤ m) :
    (parse_block_comments rec block).total d
      (fun _ d1 => (Call.parse_block_comments block).advances d d1) := by
  simp only [Call.measure, Call.base, Call.rank] at hm
  try simp only [Call.admits] at ha
  have h0 := d.past_refl hf hp
  unfold parse_block_comments
  iterate 24 (iterate 24 (all_goals (first
    | with_reducible contradiction
    | (with_reducible first
      | exact total_throw _ _ _
      | exact total_undefined _ _
      | refine total_pure ?_
      | refine total_ite_pos (by with_unfolding_all decide) ?_
      | refine total_ite_neg (by with_unfolding_all decide) ?_
      | refine total_ite ?_ ?_
      | refine total_bind ?_
      | refine total_new_Node ?_
      | refine total_new_Node_at ?_
      | refine total_new_Node_token ?_
      | refine total_new_Node_lexed ?_
      | refine total_new_Node_boolean ?_
      | refine total_get_position ?_
      | refine total_get_line ?_
      | refine total_get_lexed ?_
      | refine total_peek ?_ ?_
      | refine total_peek_spaces ?_
      | refine total_sequence_end ?_
      | refine total_space_list_end ?_
      | refine total_lexed_first ?_
      | refine total_before_end ?_
      | refine total_import_path ?_
      | refine total_lookahead ?_
      | refine total_find_here ?_ ?_
      | exact total_no_file _ _ (by assumption)
      | refine total_move_to (by assumption) (by assumption) ?_
      | refine total_extension (by assumption) ?_
      | refine total_lex_hit (by assumption) ?_ ?_
      | refine total_block_comment_hit (by assumption) ?_ ?_
      | refine total_lex_move (by assumption) ?_
      | refine total_optional_spaces_move (by assumption) ?_
      | refine total_call hrec hm (by assumption)
          (by with_unfolding_all first | exact trivial | assumption | rfl)
          (by with_unfolding_all rfl) (by with_unfolding_all rfl) ?_
      | refine total_span hrec hm (by assumption) (by assumption)
          (by with_unfolding_all exact trivial) (by with_unfolding_all rfl)
          (by with_unfolding_all rfl) ?_
      | exact advances_of_past (by assumption) (by with_unfolding_all rfl))
    | intro _
    | split
    | unfold or_else
    | unfold parse_relation_operator
    | unfold parse_media_property
    | skip)))

set_option maxRecDepth 8000 in
set_option maxHeartbeats 40000000 in
/-- The production `parse_rule` returns or raises, and advances, when the productions it
calls do so below the measure. -/
theorem parse_rule_total (rec : Call → Parser Node) (m : Nat) (hrec : Terminates rec m)
    (d : Document) (hf : d.context.files = []) (hp : d.position ≤ d.source.length)
    (ha : Call.parse_rule.admits d) (hm : Call.parse_rule.measure d ≤ m) :
    (parse_rule rec).total d (fun _ d1 => Call.parse_rule.advances d d1) := by
  simp only [Call.measure, Call.base, Call.rank] at hm
  try simp only [Call.admits] at ha
  have h0 := d.past_refl hf hp
  unfold parse_rule
  iterate 24 (iterate 24 (all_goals (first
    | with_reducible contradiction
    | (with_reducible first
      | exact total_throw _ _ _
      | exact total_undefined _ _
      | refine total_pure ?_
      | refine total_ite_pos (by with_unfolding_all decide) ?_
      | refine total_ite_neg (by with_unfolding_all decide) ?_
      | refine total_ite ?_ ?_
      | refine total_bind ?_
      | refine total_new_Node ?_
      | refine total_new_Node_at ?_
      | refine total_new_Node_token ?_
      | refine total_new_Node_lexed ?_
      | refine total_new_Node_boolean ?_
      | refine total_get_position ?_
      | refine total_get_line ?_
      | refine total_get_lexed ?_
      | refine total_peek ?_ ?_
      | refine total_peek_spaces ?_
      | refine total_sequence_end ?_
      | refine total_space_list_end ?_
      | refine total_lexed_first ?_
      | refine total_before_end ?_
      | refine total_import_path ?_
      | refine total_lookahead ?_
      | refine total_find_here ?_ ?_
      | exact total_no_file _ _ (by assumption)
      | refine total_move_to (by assumption) (by assumption) ?_
      | refine total_extension (by assumption) ?_
      | refine total_lex_hit (by assumption) ?_ ?_
      | refine total_block_comment_hit (by assumption) ?_ ?_
      | refine total_lex_move (by assumption) ?_
      | refine total_optional_spaces_move (by assumption) ?_
      | refine total_call hrec hm (by assumption) (by with_unfolding_all exact trivial)
          (by with_unfolding_all exact if_pos (by assumption)) (by with_unfolding_all rfl) ?_
      | refine total_call hrec hm (by assumption)
          (by with_unfolding_all first | exact trivial | assumption | rfl)
          (by with_unfolding_all rfl) (by with_unfolding_all rfl) ?_
      | refine total_span hrec hm (by assumption) (by assumption)
          (by with_unfolding_all exact trivial) (by with_unfolding_all rfl)
          (by with_unfolding_all rfl) ?_
      | exact advances_of_past (by assumption) (by with_unfolding_all rfl))
    | intro _
    | split
    | unfold or_else
    | unfold parse_relation_operator
    | unfold parse_media_property
    | skip)))

set_option maxRecDepth 8000 in
set_option maxHeartbeats 40000000 in
/-- The production `parse_list` returns or raises, and advances, when the productions it
calls do so below the measure. -/
theorem parse_list_total (rec : Call → Parser Node) (m : Nat) (hrec : Terminates rec m)
    (d : Document) (hf : d.context.files = []) (hp : d.position ≤ d.source.length)
    (ha : Call.parse_list.admits d) (hm : Call.parse_list.measure d ≤ m) :
    (parse_list rec).total d (fun _ d1 => Call.parse_list.advances d d1) := by
  simp only [Call.measure, Call.base, Call.rank] at hm
  try simp only [Call.admits] at ha
  have h0 := d.past_refl hf hp
  unfold parse_list
  iterate 24 (iterate 24 (all_goals (first
    | with_reducible contradiction
    | (with_reducible first
      | exact total_throw _ _ _
      | exact total_undefined _ _
      | refine total_pure ?_
      | refine total_ite_pos (by with_unfolding_all decide) ?_
      | refine total_ite_neg (by with_unfolding_all decide) ?_
      | refine total_ite ?_ ?_
      | refine total_bind ?_
      | refine total_new_Node ?_
      | refine total_new_Node_at ?_
      | refine total_new_Node_token ?_
      | refine total_new_Node_lexed ?_
      | refine total_new_Node_boolean ?_
      | refine total_get_position ?_
      | refine total_get_line ?_
      | refine total_get_lexed ?_
      | refine total_peek ?_ ?_
      | refine total_peek_spaces ?_
      | refine total_sequence_end ?_
      | refine total_space_list_end ?_
      | refine total_lexed_first ?_
      | refine total_before_end ?_
      | refine total_import_path ?_
      | refine total_lookahead ?_
      | refine total_find_here ?_ ?_
      | exact total_no_file _ _ (by assumption)
      | refine total_move_to (by assumption) (by assumption) ?_
      | refine total_extension (by assumption) ?_
      | refine total_lex_hit (by assumption) ?_ ?_
      | refine total_block_comment_hit (by assumption) ?_ ?_
      | refine total_lex_move (by assumption) ?_
      | refine total_optional_spaces_move (by assumption) ?_
      | refine total_call hrec hm (by assumption)
          (by with_unfolding_all first | exact trivial | assumption | rfl)
          (by with_unfolding_all rfl) (by with_unfolding_all rfl) ?_
      | refine total_span hrec hm (by assumption) (by assumption)
          (by with_unfolding_all exact trivial) (by with_unfolding_all rfl)
          (by with_unfolding_all rfl) ?_
      | exact advances_of_past (by assumption) (by with_unfolding_all rfl))
    | intro _
    | split
    | unfold or_else
    | unfold parse_relation_operator
    | unfold parse_media_property
    | skip)))

set_option maxRecDepth 8000 in
set_option maxHeartbeats 40000000 in
/-- The production `parse_comma_list` returns or raises, and advances, when the productions it
calls do so below the measure. -/
theorem parse_comma_list_total (rec : Call → Parser Node) (m : Nat) (hrec : Terminates rec m)
    (d : Document) (hf : d.context.files = []) (hp : d.position ≤ d.source.length)
    (ha : Call.parse_comma_list.admits d) (hm : Call.parse_comma_list.measure d ≤ m) :
    (parse_comma_list rec).total d (fun _ d1 => Call.parse_comma_list.advances d d1) := by
  simp only [Call.measure, Call.base, Call.rank] at hm
  try simp only [Call.admits] at ha
  have h0 := d.past_refl hf hp
  unfold parse_comma_list
  iterate 24 (iterate 24 (all_goals (first
    | with_reducible contradiction
    | (with_reducible first
      | exact total_throw _ _ _
      | exact total_undefined _ _
      | refine total_pure ?_
      | refine total_ite_pos (by with_unfolding_all decide) ?_
      | refine total_ite_neg (by with_unfolding_all decide) ?_
      | refine total_ite ?_ ?_
      | refine total_bind ?_
      | refine total_new_Node ?_
      | refine total_new_Node_at ?_
      | refine total_new_Node_token ?_
      | refine total_new_Node_lexed ?_
      | refine total_new_Node_boolean ?_
      | refine total_get_position ?_
      | refine total_get_line ?_
      | refine total_get_lexed ?_
      | refine total_peek ?_ ?_
      | refine total_peek_spaces ?_
      | refine total_sequence_end ?_
      | refine total_space_list_end ?_
      | refine total_lexed_first ?_
      | refine total_before_end ?_
      | refine total_import_path ?_
      | refine total_lookahead ?_
      | refine total_find_here ?_ ?_
      | exact total_no_file _ _ (by assumption)
      | refine total_move_to (by assumption) (by assumption) ?_
      | refine total_extension (by assumption) ?_
      | refine total_lex_hit (by assumption) ?_ ?_
      | refine total_block_comment_hit (by assumption) ?_ ?_
      | refine total_lex_move (by assumption) ?_
      | refine total_optional_spaces_move (by assumption) ?_
      | refine total_call hrec hm (by assumption)
          (by with_unfolding_all first | exact trivial | assumption | rfl)
          (by with_unfolding_all rfl) (by with_unfolding_all rfl) ?_
      | refine total_span hrec hm (by assumption) (by assumption)
          (by with_unfolding_all exact trivial) (by with_unfolding_all rfl)
          (by with_unfolding_all rfl) ?_
      | exact advances_of_past (by assumption) (by with_unfolding_all rfl))
    | intro _
    | split
    | unfold or_else
    | unfold parse_relation_operator
    | unfold parse_media_property
    | skip)))

set_option maxRecDepth 8000 in
set_option maxHeartbeats 40000000 in
/-- The production `parse_comma_list_loop` returns or raises, and advances, when the productions it
calls do so below the measure. -/
theorem parse_comma_list_loop_total (rec : Call → Parser Node) (m : Nat)
    (hrec : Terminates rec m) (l : Node)
    (d : Document) (hf : d.context.files = []) (hp : d.position ≤ d.source.length)
    (ha : (Call.parse_comma_list_loop l).admits d)
    (hm : (Call.parse_comma_list_loop l).measure d ≤ m) :
    (parse_comma_list_loop rec l).total d
      (fun _ d1 => (Call.parse_comma_list_loop l).advances d d1) := by
  simp only [Call.measure, Call.base, Call.rank] at hm
  try simp only [Call.admits] at ha
  have h0 := d.past_refl hf hp
  unfold parse_comma_list_loop
  iterate 24 (iterate 24 (all_goals (first
    | with_reducible contradiction
    | (with_reducible first
      | exact total_throw _ _ _
      | exact total_undefined _ _
      | refine total_pure ?_
      | refine total_ite_pos (by with_unfolding_all decide) ?_
      | refine total_ite_neg (by with_unfolding_all decide) ?_
      | refine total_ite ?_ ?_
      | refine total_bind ?_
      | refine total_new_Node ?_
      | refine total_new_Node_at ?_
      | refine total_new_Node_token ?_
      | refine total_new_Node_lexed ?_
      | refine total_new_Node_boolean ?_
      | refine total_get_position ?_
      | refine total_get_line ?_
      | refine total_get_lexed ?_
      | refine total_peek ?_ ?_
      | refine total_peek_spaces ?_
      | refine total_sequence_end ?_
      | refine total_space_list_end ?_
      | refine total_lexed_first ?_
      | refine total_before_end ?_
      | refine total_import_path ?_
      | refine total_lookahead ?_
      | refine total_find_here ?_ ?_
      | exact total_no_file _ _ (by assumption)
      | refine total_move_to (by assumption) (by assumption) ?_
      | refine total_extension (by assumption) ?_
      | refine total_lex_hit (by assumption) ?_ ?_
      | refine total_block_comment_hit (by assumption) ?_ ?_
      | refine total_lex_move (by assumption) ?_
      | refine total_optional_spaces_move (by assumption) ?_
      | refine total_call hrec hm (by assumption)
          (by with_unfolding_all first | exact trivial | assumption | rfl)
          (by with_unfolding_all rfl) (by with_unfolding_all rfl) ?_
      | refine total_span hrec hm (by assumption) (by assumption)
          (by with_unfolding_all exact trivial) (by with_unfolding_all rfl)
          (by with_unfolding_all rfl) ?_
      | exact advances_of_past (by assumption) (by with_unfolding_all rfl))
    | intro _
    | split
    | unfold or_else
    | unfold parse_relation_operator
    | unfold parse_media_property
    | skip)))

set_option maxRecDepth 8000 in
set_option maxHeartbeats 40000000 in
/-- The production `parse_space_list` returns or raises, and advances, when the productions it
calls do so below the measure. -/
theorem parse_space_list_total (rec : Call → Parser Node) (m : Nat) (hrec : Terminates rec m)
    (d : Document) (hf : d.context.files = []) (hp : d.position ≤ d.source.length)
    (ha : Call.parse_space_list.admits d) (hm : Call.parse_space_list.measure d ≤ m) :
    (parse_space_list rec).total d (fun _ d1 => Call.parse_space_list.advances d d1) := by
  simp only [Call.measure, Call.base, Call.rank] at hm
  try simp only [Call.admits] at ha
  have h0 := d.past_refl hf hp
  unfold parse_space_list
  iterate 24 (iterate 24 (all_goals (first
    | with_reducible contradiction
    | (with_reducible first
      | exact total_throw _ _ _
      | exact total_undefined _ _
      | refine total_pure ?_
      | refine total_ite_pos (by with_unfolding_all decide) ?_
      | refine total_ite_neg (by with_unfolding_all decide) ?_
      | refine total_ite ?_ ?_
      | refine total_bind ?_
      | refine total_new_Node ?_
      | refine total_new_Node_at ?_
      | refine total_new_Node_token ?_
      | refine total_new_Node_lexed ?_
      | refine total_new_Node_boolean ?_
      | refine total_get_position ?_
      | refine total_get_line ?_
      | refine total_get_lexed ?_
      | refine total_peek ?_ ?_
      | refine total_peek_spaces ?_
      | refine total_sequence_end ?_
      | refine total_space_list_end ?_
      | refine total_lexed_first ?_
      | refine total_before_end ?_
      | refine total_import_path ?_
      | refine total_lookahead ?_
      | refine total_find_here ?_ ?_
      | exact total_no_file _ _ (by assumption)
      | refine total_move_to (by assumption) (by assumption) ?_
      | refine total_extension (by assumption) ?_
      | refine total_lex_hit (by assumption) ?_ ?_
      | refine total_block_comment_hit (by assumption) ?_ ?_
      | refine total_lex_move (by assumption) ?_
      | refine total_optional_spaces_move (by assumption) ?_
      | refine total_call hrec hm (by assumption)
          (by with_unfolding_all first | exact trivial | assumption | rfl)
          (by with_unfolding_all rfl) (by with_unfolding_all rfl) ?_
      | refine total_span hrec hm (by assumption) (by assumption)
          (by with_unfolding_all exact trivial) (by with_unfolding_all rfl)
          (by with_unfolding_all rfl) ?_
      | exact advances_of_past (by assumption) (by with_unfolding_all rfl))
    | intro _
    | split
    | unfold or_else
    | unfold parse_relation_operator
    | unfold parse_media_property
    | skip)))

set_option maxRecDepth 8000 in
set_option maxHeartbeats 40000000 in
/-- The production `parse_space_list_loop` returns or raises, and advances, when the productions it
calls do so below the measure. -/
theorem parse_space_list_loop_total (rec : Call → Parser Node) (m : Nat)
    (hrec : Terminates rec m) (l : Node)
    (d : Document) (hf : d.context.files = []) (hp : d.position ≤ d.source.length)
    (ha : (Call.parse_space_list_loop l).admits d)
    (hm : (Call.parse_space_list_loop l).measure d ≤ m) :
    (parse_space_list_loop rec l).total d
      (fun _ d1 => (Call.parse_space_list_loop l).advances d d1) := by
  simp only [Call.measure, Call.base, Call.rank] at hm
  try simp only [Call.admits] at ha
  have h0 := d.past_refl hf hp
  unfold parse_space_list_loop
  iterate 24 (iterate 24 (all_goals (first
    | with_reducible contradiction
    | (with_reducible first
      | exact total_throw _ _ _
      | exact total_undefined _ _
      | refine total_pure ?_
      | refine total_ite_pos (by with_unfolding_all decide) ?_
      | refine total_ite_neg (by with_unfolding_all decide) ?_
      | refine total_ite ?_ ?_
      | refine total_bind ?_
      | refine total_new_Node ?_
      | refine total_new_Node_at ?_
      | refine total_new_Node_token ?_
      | refine total_new_Node_lexed ?_
      | refine total_new_Node_boolean ?_
      | refine total_get_position ?_
      | refine total_get_line ?_
      | refine total_get_lexed ?_
      | refine total_peek ?_ ?_
      | refine total_peek_spaces ?_
      | refine total_sequence_end ?_
      | refine total_space_list_end ?_
      | refine total_lexed_first ?_
      | refine total_before_end ?_
      | refine total_import_path ?_
      | refine total_lookahead ?_
      | refine total_find_here ?_ ?_
      | exact total_no_file _ _ (by assumption)
      | refine total_move_to (by assumption) (by assumption) ?_
      | refine total_extension (by assumption) ?_
      | refine total_lex_hit (by assumption) ?_ ?_
      | refine total_block_comment_hit (by assumption) ?_ ?_
      | refine total_lex_move (by assumption) ?_
      | refine total_optional_spaces_move (by assumption) ?_
      | refine total_call hrec hm (by assumption)
          (by with_unfolding_all first | exact trivial | assumption | rfl)
          (by with_unfolding_all rfl) (by with_unfolding_all rfl) ?_
      | refine total_span hrec hm (by assumption) (by assumption)
          (by with_unfolding_all exact trivial) (by with_unfolding_all rfl)
          (by with_unfolding_all rfl) ?_
      | exact advances_of_past (by assumption) (by with_unfolding_all rfl))
    | intro _
    | split
    | unfold or_else
    | unfold parse_relation_operator
    | unfold parse_media_property
    | skip)))

set_option maxRecDepth 8000 in
set_option maxHeartbeats 40000000 in
/-- The production `parse_disjunction` returns or raises, and advances, when the productions it
calls do so below the measure. -/
theorem parse_disjunction_total (rec : Call → Parser Node) (m : Nat) (hrec : Terminates rec m)
    (d : Document) (hf : d.context.files = []) (hp : d.position ≤ d.source.length)
    (ha : Call.parse_disjunction.admits d) (hm : Call.parse_disjunction.measure d ≤ m) :
    (parse_disjunction rec).total d (fun _ d1 => Call.parse_disjunction.advances d d1) := by
  simp only [Call.measure, Call.base, Call.rank] at hm
  try simp only [Call.admits] at ha
  have h0 := d.past_refl hf hp
  unfold parse_disjunction
  iterate 24 (iterate 24 (all_goals (first
    | with_reducible contradiction
    | (with_reducible first
      | exact total_throw _ _ _
      | exact total_undefined _ _
      | refine total_pure ?_
      | refine total_ite_pos (by with_unfolding_all decide) ?_
      | refine total_ite_neg (by with_unfolding_all decide) ?_
      | refine total_ite ?_ ?_
      | refine total_bind ?_
      | refine total_new_Node ?_
      | refine total_new_Node_at ?_
      | refine total_new_Node_token ?_
      | refine total_new_Node_lexed ?_
      | refine total_new_Node_boolean ?_
      | refine total_get_position ?_
      | refine total_get_line ?_
      | refine total_get_lexed ?_
      | refine total_peek ?_ ?_
      | refine total_peek_spaces ?_
      | refine total_sequence_end ?_
      | refine total_space_list_end ?_
      | refine total_lexed_first ?_
      | refine total_before_end ?_
      | refine total_import_path ?_
      | refine total_lookahead ?_
      | refine total_find_here ?_ ?_
      | exact total_no_file _ _ (by assumption)
      | refine total_move_to (by assumption) (by assumption) ?_
      | refine total_extension (by assumption) ?_
      | refine total_lex_hit (by assumption) ?_ ?_
      | refine total_block_comment_hit (by assumption) ?_ ?_
      | refine total_lex_move (by assumption) ?_
      | refine total_optional_spaces_move (by assumption) ?_
      | refine total_call hrec hm (by assumption)
          (by with_unfolding_all first | exact trivial | assumption | rfl)
          (by with_unfolding_all rfl) (by with_unfolding_all rfl) ?_
      | refine total_span hrec hm (by assumption) (by assumption)
          (by with_unfolding_all exact trivial) (by with_unfolding_all rfl)
          (by with_unfolding_all rfl) ?_
      | exact advances_of_past (by assumption) (by with_unfolding_all rfl))
    | intro _
    | split
    | unfold or_else
    | unfold parse_relation_operator
    | unfold parse_media_property
    | skip)))

set_option maxRecDepth 8000 in
set_option maxHeartbeats 40000000 in
/-- The production `parse_disjunction_loop` returns or raises, and advances, when the productions it
calls do so below the measure. -/
theorem parse_disjunction_loop_total (rec : Call → Parser Node) (m : Nat)
    (hrec : Terminates rec m) (l : Node)
    (d : Document) (hf : d.context.files = []) (hp : d.position ≤ d.source.length)
    (ha : (Call.parse_disjunction_loop l).admits d)
    (hm : (Call.parse_disjunction_loop l).measure d ≤ m) :
    (parse_disjunction_loop rec l).total d
      (fun _ d1 => (Call.parse_disjunction_loop l).advances d d1) := by
  simp only [Call.measure, Call.base, Call.rank] at hm
  try simp only [Call.admits] at ha
  have h0 := d.past_refl hf hp
  unfold parse_disjunction_loop
  iterate 24 (iterate 24 (all_goals (first
    | with_reducible contradiction
    | (with_reducible first
      | exact total_throw _ _ _
      | exact total_undefined _ _
      | refine total_pure ?_
      | refine total_ite_pos (by with_unfolding_all decide) ?_
      | refine total_ite_neg (by with_unfolding_all decide) ?_
      | refine total_ite ?_ ?_
      | refine total_bind ?_
      | refine total_new_Node ?_
      | refine total_new_Node_at ?_
      | refine total_new_Node_token ?_
      | refine total_new_Node_lexed ?_
      | refine total_new_Node_boolean ?_
      | refine total_get_position ?_
      | refine total_get_line ?_
      | refine total_get_lexed ?_
      | refine total_peek ?_ ?_
      | refine total_peek_spaces ?_
      | refine total_sequence_end ?_
      | refine total_space_list_end ?_
      | refine total_lexed_first ?_
      | refine total_before_end ?_
      | refine total_import_path ?_
      | refine total_lookahead ?_
      | refine total_find_here ?_ ?_
      | exact total_no_file _ _ (by assumption)
      | refine total_move_to (by assumption) (by assumption) ?_
      | refine total_extension (by assumption) ?_
      | refine total_lex_hit (by assumption) ?_ ?_
      | refine total_block_comment_hit (by assumption) ?_ ?_
      | refine total_lex_move (by assumption) ?_
      | refine total_optional_spaces_move (by assumption) ?_
      | refine total_call hrec hm (by assumption)
          (by with_unfolding_all first | exact trivial | assumption | rfl)
          (by with_unfolding_all rfl) (by with_unfolding_all rfl) ?_
      | refine total_span hrec hm (by assumption) (by assumption)
          (by with_unfolding_all exact trivial) (by with_unfolding_all rfl)
          (by with_unfolding_all rfl) ?_
      | exact advances_of_past (by assumption) (by with_unfolding_all rfl))
    | intro _
    | split
    | unfold or_else
    | unfold parse_relation_operator
    | unfold parse_media_property
    | skip)))

set_option maxRecDepth 8000 in
set_option maxHeartbeats 40000000 in
/-- The production `parse_conjunction` returns or raises, and advances, when the productions it
calls do so below the measure. -/
theorem parse_conjunction_total (rec : Call → Parser Node) (m : Nat) (hrec : Terminates rec m)
    (d : Document) (hf : d.context.files = []) (hp : d.position ≤ d.source.length)
    (ha : Call.parse_conjunction.admits d) (hm : Call.parse_conjunction.measure d ≤ m) :
    (parse_conjunction rec).total d (fun _ d1 => Call.parse_conjunction.advances d d1) := by
  simp only [Call.measure, Call.base, Call.rank] at hm
  try simp only [Call.admits] at ha
  have h0 := d.past_refl hf hp
  unfold parse_conjunction
  iterate 24 (iterate 24 (all_goals (first
    | with_reducible contradiction
    | (with_reducible first
      | exact total_throw _ _ _
      | exact total_undefined _ _
      | refine total_pure ?_
      | refine total_ite_pos (by with_unfolding_all decide) ?_
      | refine total_ite_neg (by with_unfolding_all decide) ?_
      | refine total_ite ?_ ?_
      | refine total_bind ?_
      | refine total_new_Node ?_
      | refine total_new_Node_at ?_
      | refine total_new_Node_token ?_
      | refine total_new_Node_lexed ?_
      | refine total_new_Node_boolean ?_
      | refine total_get_position ?_
      | refine total_get_line ?_
      | refine total_get_lexed ?_
      | refine total_peek ?_ ?_
      | refine total_peek_spaces ?_
      | refine total_sequence_end ?_
      | refine total_space_list_end ?_
      | refine total_lexed_first ?_
      | refine total_before_end ?_
      | refine total_import_path ?_
      | refine total_lookahead ?_
      | refine total_find_here ?_ ?_
      | exact total_no_file _ _ (by assumption)
      | refine total_move_to (by assumption) (by assumption) ?_
      | refine total_extension (by assumption) ?_
      | refine total_lex_hit (by assumption) ?_ ?_
      | refine total_block_comment_hit (by assumption) ?_ ?_
      | refine total_lex_move (by assumption) ?_
      | refine total_optional_spaces_move (by assumption) ?_
      | refine total_call hrec hm (by assumption)
          (by with_unfolding_all first | exact trivial | assumption | rfl)
          (by with_unfolding_all rfl) (by with_unfolding_all rfl) ?_
      | refine total_span hrec hm (by assumption) (by assumption)
          (by with_unfolding_all exact trivial) (by with_unfolding_all rfl)
          (by with_unfolding_all rfl) ?_
      | exact advances_of_past (by assumption) (by with_unfolding_all rfl))
    | intro _
    | split
    | unfold or_else
    | unfold parse_relation_operator
    | unfold parse_media_property
    | skip)))

set_option maxRecDepth 8000 in
set_option maxHeartbeats 40000000 in
/-- The production `parse_conjunction_loop` returns or raises, and advances, when the productions it
calls do so below the measure. -/
theorem parse_conjunction_loop_total (rec : Call → Parser Node) (m : Nat)
    (hrec : Terminates rec m) (l : Node)
    (d : Document) (hf : d.context.files = []) (hp : d.position ≤ d.source.length)
    (ha : (Call.parse_conjunction_loop l).admits d)
    (hm : (Call.parse_conjunction_loop l).measure d ≤ m) :
    (parse_conjunction_loop rec l).total d
      (fun _ d1 => (Call.parse_conjunction_loop l).advances d d1) := by
  simp only [Call.measure, Call.base, Call.rank] at hm
  try simp only [Call.admits] at ha
  have h0 := d.past_refl hf hp
  unfold parse_conjunction_loop
  iterate 24 (iterate 24 (all_goals (first
    | with_reducible contradiction
    | (with_reducible first
      | exact total_throw _ _ _
      | exact total_undefined _ _
      | refine total_pure ?_
      | refine total_ite_pos (by with_unfolding_all decide) ?_
      | refine total_ite_neg (by with_unfolding_all decide) ?_
      | refine total_ite ?_ ?_
      | refine total_bind ?_
      | refine total_new_Node ?_
      | refine total_new_Node_at ?_
      | refine total_new_Node_token ?_
      | refine total_new_Node_lexed ?_
      | refine total_new_Node_boolean ?_
      | refine total_get_position ?_
      | refine total_get_line ?_
      | refine total_get_lexed ?_
      | refine total_peek ?_ ?_
      | refine total_peek_spaces ?_
      | refine total_sequence_end ?_
      | refine total_space_list_end ?_
      | refine total_lexed_first ?_
      | refine total_before_end ?_
      | refine total_import_path ?_
      | refine total_lookahead ?_
      | refine total_find_here ?_ ?_
      | exact total_no_file _ _ (by assumption)
      | refine total_move_to (by assumption) (by assumption) ?_
      | refine total_extension (by assumption) ?_
      | refine total_lex_hit (by assumption) ?_ ?_
      | refine total_block_comment_hit (by assumption) ?_ ?_
      | refine total_lex_move (by assumption) ?_
      | refine total_optional_spaces_move (by assumption) ?_
      | refine total_call hrec hm (by assumption)
          (by with_unfolding_all first | exact trivial | assumption | rfl)
          (by with_unfolding_all rfl) (by with_unfolding_all rfl) ?_
      | refine total_span hrec hm (by assumption) (by assumption)
          (by with_unfolding_all exact trivial) (by with_unfolding_all rfl)
          (by with_unfolding_all rfl) ?_
      | exact advances_of_past (by assumption) (by with_unfolding_all rfl))
    | intro _
    | split
    | unfold or_else
    | unfold parse_relation_operator
    | unfold parse_media_property
    | skip)))

set_option maxRecDepth 8000 in
set_option maxHeartbeats 40000000 in
/-- The production `parse_relation` returns or raises, and advances, when the productions it
calls do so below the measure. -/
theorem parse_relation_total (rec : Call → Parser Node) (m : Nat) (hrec : Terminates rec m)
    (d : Document) (hf : d.context.files = []) (hp : d.position ≤ d.source.length)
    (ha : Call.parse_relation.admits d) (hm : Call.parse_relation.measure d ≤ m) :
    (parse_relation rec).total d (fun _ d1 => Call.parse_relation.advances d d1) := by
  simp only [Call.measure, Call.base, Call.rank] at hm
  try simp only [Call.admits] at ha
  have h0 := d.past_refl hf hp
  unfold parse_relation
  iterate 24 (iterate 24 (all_goals (first
    | with_reducible contradiction
    | (with_reducible first
      | exact total_throw _ _ _
      | exact total_undefined _ _
      | refine total_pure ?_
      | refine total_ite_pos (by with_unfolding_all decide) ?_
      | refine total_ite_neg (by with_unfolding_all decide) ?_
      | refine total_ite ?_ ?_
      | refine total_bind ?_
      | refine total_new_Node ?_
      | refine total_new_Node_at ?_
      | refine total_new_Node_token ?_
      | refine total_new_Node_lexed ?_
      | refine total_new_Node_boolean ?_
      | refine total_get_position ?_
      | refine total_get_line ?_
      | refine total_get_lexed ?_
      | refine total_peek_any ?_
      | refine total_peek_spaces ?_
      | refine total_sequence_end ?_
      | refine total_space_list_end ?_
      | refine total_lexed_first ?_
      | refine total_before_end ?_
      | refine total_import_path ?_
      | refine total_lookahead ?_
      | refine total_find_here ?_ ?_
      | exact total_no_file _ _ (by assumption)
      | refine total_move_to (by assumption) (by assumption) ?_
      | refine total_extension (by assumption) ?_
      | refine total_lex_hit (by assumption) ?_ ?_
      | refine total_block_comment_hit (by assumption) ?_ ?_
      | refine total_lex_move (by assumption) ?_
      | refine total_optional_spaces_move (by assumption) ?_
      | refine total_call hrec hm (by assumption)
          (by with_unfolding_all first | exact trivial | assumption | rfl)
          (by with_unfolding_all rfl) (by with_unfolding_all rfl) ?_
      | refine total_span hrec hm (by assumption) (by assumption)
          (by with_unfolding_all exact trivial) (by with_unfolding_all rfl)
          (by with_unfolding_all rfl) ?_
      | exact advances_of_past (by assumption) (by with_unfolding_all rfl))
    | intro _
    | split
    | unfold or_else
    | unfold parse_relation_operator
    | unfold parse_media_property
    | skip)))

set_option maxRecDepth 8000 in
set_option maxHeartbeats 40000000 in
/-- The production `parse_expression` returns or raises, and advances, when the productions it
calls do so below the measure. -/
theorem parse_expression_total (rec : Call → Parser Node) (m : Nat) (hrec : Terminates rec m)
    (d : Document) (hf : d.context.files = []) (hp : d.position ≤ d.source.length)
    (ha : Call.parse_expression.admits d) (hm : Call.parse_expression.measure d ≤ m) :
    (parse_expression rec).total d (fun _ d1 => Call.parse_expression.advances d d1) := by
  simp only [Call.measure, Call.base, Call.rank] at hm
  try simp only [Call.admits] at ha
  have h0 := d.past_refl hf hp
  unfold parse_expression
  iterate 24 (iterate 24 (all_goals (first
    | with_reducible contradiction
    | (with_reducible first
      | exact total_throw _ _ _
      | exact total_undefined _ _
      | refine total_pure ?_
      | refine total_ite_pos (by with_unfolding_all decide) ?_
      | refine total_ite_neg (by with_unfolding_all decide) ?_
      | refine total_ite ?_ ?_
      | refine total_bind ?_
      | refine total_new_Node ?_
      | refine total_new_Node_at ?_
      | refine total_new_Node_token ?_
      | refine total_new_Node_lexed ?_
      | refine total_new_Node_boolean ?_
      | refine total_get_position ?_
      | refine total_get_line ?_
      | refine total_get_lexed ?_
      | refine total_peek ?_ ?_
      | refine total_peek_spaces ?_
      | refine total_sequence_end ?_
      | refine total_space_list_end ?_
      | refine total_lexed_first ?_
      | refine total_before_end ?_
      | refine total_import_path ?_
      | refine total_lookahead ?_
      | refine total_find_here ?_ ?_
      | exact total_no_file _ _ (by assumption)
      | refine total_move_to (by assumption) (by assumption) ?_
      | refine total_extension (by assumption) ?_
      | refine total_lex_hit (by assumption) ?_ ?_
      | refine total_block_comment_hit (by assumption) ?_ ?_
      | refine total_lex_move (by assumption) ?_
      | refine total_optional_spaces_move (by assumption) ?_
      | refine total_call hrec hm (by assumption)
          (by with_unfolding_all first | exact trivial | assumption | rfl)
          (by with_unfolding_all rfl) (by with_unfolding_all rfl) ?_
      | refine total_span hrec hm (by assumption) (by assumption)
          (by with_unfolding_all exact trivial) (by with_unfolding_all rfl)
          (by with_unfolding_all rfl) ?_
      | exact advances_of_past (by assumption) (by with_unfolding_all rfl))
    | intro _
    | split
    | unfold or_else
    | unfold parse_relation_operator
    | unfold parse_media_property
    | skip)))

set_option maxRecDepth 8000 in
set_option maxHeartbeats 40000000 in
/-- The production `parse_expression_loop` returns or raises, and advances, when the productions it
calls do so below the measure. -/
theorem parse_expression_loop_total (rec : Call → Parser Node) (m : Nat)
    (hrec : Terminates rec m) (e : Node)
    (d : Document) (hf : d.context.files = []) (hp : d.position ≤ d.source.length)
    (ha : (Call.parse_expression_loop e).admits d)
    (hm : (Call.parse_expression_loop e).measure d ≤ m) :
    (parse_expression_loop rec e).total d
      (fun _ d1 => (Call.parse_expression_loop e).advances d d1) := by
  simp only [Call.measure, Call.base, Call.rank] at hm
  try simp only [Call.admits] at ha
  have h0 := d.past_refl hf hp
  unfold parse_expression_loop
  iterate 24 (iterate 24 (all_goals (first
    | with_reducible contradiction
    | (with_reducible first
      | exact total_throw _ _ _
      | exact total_undefined _ _
      | refine total_pure ?_
      | refine total_ite_pos (by with_unfolding_all decide) ?_
      | refine total_ite_neg (by with_unfolding_all decide) ?_
      | refine total_ite ?_ ?_
      | refine total_bind ?_
      | refine total_new_Node ?_
      | refine total_new_Node_at ?_
      | refine total_new_Node_token ?_
      | refine total_new_Node_lexed ?_
      | refine total_new_Node_boolean ?_
      | refine total_get_position ?_
      | refine total_get_line ?_
      | refine total_get_lexed ?_
      | refine total_peek ?_ ?_
      | refine total_peek_spaces ?_
      | refine total_sequence_end ?_
      | refine total_space_list_end ?_
      | refine total_lexed_first ?_
      | refine total_before_end ?_
      | refine total_import_path ?_
      | refine total_lookahead ?_
      | refine total_find_here ?_ ?_
      | exact total_no_file _ _ (by assumption)
      | refine total_move_to (by assumption) (by assumption) ?_
      | refine total_extension (by assumption) ?_
      | refine total_lex_hit (by assumption) ?_ ?_
      | refine total_block_comment_hit (by assumption) ?_ ?_
      | refine total_lex_move (by assumption) ?_
      | refine total_optional_spaces_move (by assumption) ?_
      | refine total_call hrec hm (by assumption)
          (by with_unfolding_all first | exact trivial | assumption | rfl)
          (by with_unfolding_all rfl) (by with_unfolding_all rfl) ?_
      | refine total_span hrec hm (by assumption) (by assumption)
          (by with_unfolding_all exact trivial) (by with_unfolding_all rfl)
          (by with_unfolding_all rfl) ?_
      | exact advances_of_past (by assumption) (by with_unfolding_all rfl))
    | intro _
    | split
    | unfold or_else
    | unfold parse_relation_operator
    | unfold parse_media_property
    | skip)))

set_option maxRecDepth 8000 in
set_option maxHeartbeats 40000000 in
/-- The production `parse_term` returns or raises, and advances, when the productions it
calls do so below the measure. -/
theorem parse_term_total (rec : Call → Parser Node) (m : Nat) (hrec : Terminates rec m)
    (d : Document) (hf : d.context.files = []) (hp : d.position ≤ d.source.length)
    (ha : Call.parse_term.admits d) (hm : Call.parse_term.measure d ≤ m) :
    (parse_term rec).total d (fun _ d1 => Call.parse_term.advances d d1) := by
  simp only [Call.measure, Call.base, Call.rank] at hm
  try simp only [Call.admits] at ha
  have h0 := d.past_refl hf hp
  unfold parse_term
  iterate 24 (iterate 24 (all_goals (first
    | with_reducible contradiction
    | (with_reducible first
      | exact total_throw _ _ _
      | exact total_undefined _ _
      | refine total_pure ?_
      | refine total_ite_pos (by with_unfolding_all decide) ?_
      | refine total_ite_neg (by with_unfolding_all decide) ?_
      | refine total_ite ?_ ?_
      | refine total_bind ?_
      | refine total_new_Node ?_
      | refine total_new_Node_at ?_
      | refine total_new_Node_token ?_
      | refine total_new_Node_lexed ?_
      | refine total_new_Node_boolean ?_
      | refine total_get_position ?_
      | refine total_get_line ?_
      | refine total_get_lexed ?_
      | refine total_peek ?_ ?_
      | refine total_peek_spaces ?_
      | refine total_sequence_end ?_
      | refine total_space_list_end ?_
      | refine total_lexed_first ?_
      | refine total_before_end ?_
      | refine total_import_path ?_
      | refine total_lookahead ?_
      | refine total_find_here ?_ ?_
      | exact total_no_file _ _ (by assumption)
      | refine total_move_to (by assumption) (by assumption) ?_
      | refine total_extension (by assumption) ?_
      | refine total_lex_hit (by assumption) ?_ ?_
      | refine total_block_comment_hit (by assumption) ?_ ?_
      | refine total_lex_move (by assumption) ?_
      | refine total_optional_spaces_move (by assumption) ?_
      | refine total_call hrec hm (by assumption)
          (by with_unfolding_all first | exact trivial | assumption | rfl)
          (by with_unfolding_all rfl) (by with_unfolding_all rfl) ?_
      | refine total_span hrec hm (by assumption) (by assumption)
          (by with_unfolding_all exact trivial) (by with_unfolding_all rfl)
          (by with_unfolding_all rfl) ?_
      | exact advances_of_past (by assumption) (by with_unfolding_all rfl))
    | intro _
    | split
    | unfold or_else
    | unfold parse_relation_operator
    | unfold parse_media_property
    | skip)))

set_option maxRecDepth 8000 in
set_option maxHeartbeats 40000000 in
/-- The production `parse_term_loop` returns or raises, and advances, when the productions it
calls do so below the measure. -/
theorem parse_term_loop_total (rec : Call → Parser Node) (m : Nat)
    (hrec : Terminates rec m) (t : Node)
    (d : Document) (hf : d.context.files = []) (hp : d.position ≤ d.source.length)
    (ha : (Call.parse_term_loop t).admits d) (hm : (Call.parse_term_loop t).measure d ≤ m) :
    (parse_term_loop rec t).total d (fun _ d1 => (Call.parse_term_loop t).advances d d1) := by
  simp only [Call.measure, Call.base, Call.rank] at hm
  try simp only [Call.admits] at ha
  have h0 := d.past_refl hf hp
  unfold parse_term_loop
  iterate 24 (iterate 24 (all_goals (first
    | with_reducible contradiction
    | (with_reducible first
      | exact total_throw _ _ _
      | exact total_undefined _ _
      | refine total_pure ?_
      | refine total_ite_pos (by with_unfolding_all decide) ?_
      | refine total_ite_neg (by with_unfolding_all decide) ?_
      | refine total_ite ?_ ?_
      | refine total_bind ?_
      | refine total_new_Node ?_
      | refine total_new_Node_at ?_
      | refine total_new_Node_token ?_
      | refine total_new_Node_lexed ?_
      | refine total_new_Node_boolean ?_
      | refine total_get_position ?_
      | refine total_get_line ?_
      | refine total_get_lexed ?_
      | refine total_peek ?_ ?_
      | refine total_peek_spaces ?_
      | refine total_sequence_end ?_
      | refine total_space_list_end ?_
      | refine total_lexed_first ?_
      | refine total_before_end ?_
      | refine total_import_path ?_
      | refine total_lookahead ?_
      | refine total_find_here ?_ ?_
      | exact total_no_file _ _ (by assumption)
      | refine total_move_to (by assumption) (by assumption) ?_
      | refine total_extension (by assumption) ?_
      | refine total_lex_hit (by assumption) ?_ ?_
      | refine total_block_comment_hit (by assumption) ?_ ?_
      | refine total_lex_move (by assumption) ?_
      | refine total_optional_spaces_move (by assumption) ?_
      | refine total_call hrec hm (by assumption)
          (by with_unfolding_all first | exact trivial | assumption | rfl)
          (by with_unfolding_all rfl) (by with_unfolding_all rfl) ?_
      | refine total_span hrec hm (by assumption) (by assumption)
          (by with_unfolding_all exact trivial) (by with_unfolding_all rfl)
          (by with_unfolding_all rfl) ?_
      | exact advances_of_past (by assumption) (by with_unfolding_all rfl))
    | intro _
    | split
    | unfold or_else
    | unfold parse_relation_operator
    | unfold parse_media_property
    | skip)))

set_option maxRecDepth 8000 in
set_option maxHeartbeats 40000000 in
/-- The production `parse_factor` returns or raises, and advances, when the productions it
calls do so below the measure. -/
theorem parse_factor_total (rec : Call → Parser Node) (m : Nat) (hrec : Terminates rec m)
    (d : Document) (hf : d.context.files = []) (hp : d.position ≤ d.source.length)
    (ha : Call.parse_factor.admits d) (hm : Call.parse_factor.measure d ≤ m) :
    (parse_factor rec).total d (fun _ d1 => Call.parse_factor.advances d d1) := by
  simp only [Call.measure, Call.base, Call.rank] at hm
  try simp only [Call.admits] at ha
  have h0 := d.past_refl hf hp
  unfold parse_factor
  iterate 24 (iterate 24 (all_goals (first
    | with_reducible contradiction
    | (with_reducible first
      | exact total_throw _ _ _
      | exact total_undefined _ _
      | refine total_pure ?_
      | refine total_ite_pos (by with_unfolding_all decide) ?_
      | refine total_ite_neg (by with_unfolding_all decide) ?_
      | refine total_ite ?_ ?_
      | refine total_bind ?_
      | refine total_new_Node ?_
      | refine total_new_Node_at ?_
      | refine total_new_Node_token ?_
      | refine total_new_Node_lexed ?_
      | refine total_new_Node_boolean ?_
      | refine total_get_position ?_
      | refine total_get_line ?_
      | refine total_get_lexed ?_
      | refine total_peek ?_ ?_
      | refine total_peek_spaces ?_
      | refine total_sequence_end ?_
      | refine total_space_list_end ?_
      | refine total_lexed_first ?_
      | refine total_before_end ?_
      | refine total_import_path ?_
      | refine total_lookahead ?_
      | refine total_find_here ?_ ?_
      | exact total_no_file _ _ (by assumption)
      | refine total_move_to (by assumption) (by assumption) ?_
      | refine total_extension (by assumption) ?_
      | refine total_lex_hit (by assumption) ?_ ?_
      | refine total_block_comment_hit (by assumption) ?_ ?_
      | refine total_lex_move (by assumption) ?_
      | refine total_optional_spaces_move (by assumption) ?_
      | refine total_call hrec hm (by assumption)
          (by with_unfolding_all first | exact trivial | assumption | rfl)
          (by with_unfolding_all rfl) (by with_unfolding_all rfl) ?_
      | refine total_span hrec hm (by assumption) (by assumption)
          (by with_unfolding_all exact trivial) (by with_unfolding_all rfl)
          (by with_unfolding_all rfl) ?_
      | exact advances_of_past (by assumption) (by with_unfolding_all rfl))
    | intro _
    | split
    | unfold or_else
    | unfold parse_relation_operator
    | unfold parse_media_property
    | skip)))

set_option maxRecDepth 8000 in
set_option maxHeartbeats 40000000 in
/-- The production `parse_value` returns or raises, and advances, when the productions it
calls do so below the measure. -/
theorem parse_value_total (rec : Call → Parser Node) (m : Nat) (hrec : Terminates rec m)
    (d : Document) (hf : d.context.files = []) (hp : d.position ≤ d.source.length)
    (ha : Call.parse_value.admits d) (hm : Call.parse_value.measure d ≤ m) :
    (parse_value rec).total d (fun _ d1 => Call.parse_value.advances d d1) := by
  simp only [Call.measure, Call.base, Call.rank] at hm
  try simp only [Call.admits] at ha
  have h0 := d.past_refl hf hp
  unfold parse_value
  iterate 24 (iterate 24 (all_goals (first
    | with_reducible contradiction
    | (with_reducible first
      | exact total_throw _ _ _
      | exact total_undefined _ _
      | refine total_pure ?_
      | refine total_ite_pos (by with_unfolding_all decide) ?_
      | refine total_ite_neg (by with_unfolding_all decide) ?_
      | refine total_ite ?_ ?_
      | refine total_bind ?_
      | refine total_new_Node ?_
      | refine total_new_Node_at ?_
      | refine total_new_Node_token ?_
      | refine total_new_Node_lexed ?_
      | refine total_new_Node_boolean ?_
      | refine total_get_position ?_
      | refine total_get_line ?_
      | refine total_get_lexed ?_
      | refine total_peek ?_ ?_
      | refine total_peek_spaces ?_
      | refine total_sequence_end ?_
      | refine total_space_list_end ?_
      | refine total_lexed_first ?_
      | refine total_before_end ?_
      | refine total_import_path ?_
      | refine total_lookahead ?_
      | refine total_find_here ?_ ?_
      | exact total_no_file _ _ (by assumption)
      | refine total_move_to (by assumption) (by assumption) ?_
      | refine total_extension (by assumption) ?_
      | refine total_lex_hit (by assumption) ?_ ?_
      | refine total_block_comment_hit (by assumption) ?_ ?_
      | refine total_lex_move (by assumption) ?_
      | refine total_optional_spaces_move (by assumption) ?_
      | refine total_call hrec hm (by assumption)
          (by with_unfolding_all first | exact trivial | assumption | rfl)
          (by with_unfolding_all rfl) (by with_unfolding_all rfl) ?_
      | refine total_span hrec hm (by assumption) (by assumption)
          (by with_unfolding_all exact trivial) (by with_unfolding_all rfl)
          (by with_unfolding_all rfl) ?_
      | exact advances_of_past (by assumption) (by with_unfolding_all rfl))
    | intro _
    | split
    | unfold or_else
    | unfold parse_relation_operator
    | unfold parse_media_property
    | skip)))

set_option maxRecDepth 8000 in
set_option maxHeartbeats 40000000 in
/-- The production `parse_string` returns or raises, and advances, when the productions it
calls do so below the measure. -/
theorem parse_string_total (rec : Call → Parser Node) (m : Nat) (hrec : Terminates rec m)
    (d : Document) (hf : d.context.files = []) (hp : d.position ≤ d.source.length)
    (ha : Call.parse_string.admits d) (hm : Call.parse_string.measure d ≤ m) :
    (parse_string rec).total d (fun _ d1 => Call.parse_string.advances d d1) := by
  simp only [Call.measure, Call.base, Call.rank] at hm
  try simp only [Call.admits] at ha
  unfold parse_string
  iterate 24 (iterate 24 (all_goals (first
    | with_reducible contradiction
    | (with_reducible first
      | exact total_throw _ _ _
      | exact total_undefined _ _
      | refine total_pure ?_
      | refine total_ite_pos (by with_unfolding_all decide) ?_
      | refine total_ite_neg (by with_unfolding_all decide) ?_
      | refine total_ite ?_ ?_
      | refine total_bind ?_
      | refine total_new_Node ?_
      | refine total_new_Node_at ?_
      | refine total_new_Node_token ?_
      | refine total_new_Node_lexed ?_
      | refine total_new_Node_boolean ?_
      | refine total_get_position ?_
      | refine total_get_line ?_
      | refine total_get_lexed ?_
      | refine total_peek ?_ ?_
      | refine total_peek_spaces ?_
      | refine total_sequence_end ?_
      | refine total_space_list_end ?_
      | refine total_lexed_first ?_
      | refine total_before_end ?_
      | refine total_import_path ?_
      | refine total_lookahead ?_
      | refine total_find_first_here ?_ ?_
      | refine total_find_interpolant_start ?_ ?_
      | refine total_find_hash_lbrace ?_ ?_
      | refine total_find_in_interval ?_ ?_
      | exact total_in_file _ _ (by assumption)
      | refine total_set_position (by assumption) ?_
      | refine total_register_extension (by assumption) ?_
      | refine total_lex_interpolant (by assumption) ?_ ?_
      | refine total_lex (by assumption) ?_ ?_
      | refine total_lex_block_comment (by assumption) ?_ ?_
      | refine total_lex_forward (by assumption) (by omega) ?_
      | refine total_lex_optional_spaces (by assumption) (by omega) ?_
      | refine total_rec_strict hrec (by with_unfolding_all rfl) (by assumption) (by omega)
          (by
            with_unfolding_all first
              | exact trivial | assumption | rfl | (simp only [Call.admits]; omega))
          (by simp only [Call.measure, Call.base, Call.rank]; omega) ?_
      | refine total_rec hrec (by assumption) (by omega)
          (by
            with_unfolding_all first
              | exact trivial | assumption | rfl | (simp only [Call.admits]; omega))
          (by
            simp only [Call.measure, Call.base, Call.rank]
            first
              | omega | (split <;> first | omega | contradiction)) ?_
      | refine total_in_token hrec (by assumption) (by first | omega | (dsimp only; omega))
          (by with_unfolding_all exact trivial)
          (by simp only [Call.measure, Call.base, Call.rank]; omega) ?_
      | exact advances_of_lt (by omega) (by assumption) (by omega) (by omega)
      | exact advances_of_le (by with_unfolding_all rfl) (by omega) (by assumption) (by omega)
          (by omega))
    | intro _
    | simp only [↓reduceIte, Bool.not_true, Bool.not_false, Bool.or_true, Bool.true_or,
        Bool.or_false, Bool.false_or, Bool.and_true, Bool.true_and, Bool.and_false,
        Bool.false_and, Bool.false_eq_true]
    | split
    | unfold or_else
    | unfold parse_relation_operator
    | unfold parse_media_property
    | skip)))

set_option maxRecDepth 8000 in
set_option maxHeartbeats 40000000 in
/-- The production `parse_string_loop` returns or raises, and advances, when the productions it
calls do so below the measure. -/
theorem parse_string_loop_total (rec : Call → Parser Node) (m : Nat)
    (hrec : Terminates rec m) (str : Token) (i : Nat) (schema : Node)
    (d : Document) (hf : d.context.files = []) (hp : d.position ≤ d.source.length)
    (ha : (Call.parse_string_loop str i schema).admits d)
    (hm : (Call.parse_string_loop str i schema).measure d ≤ m) :
    (parse_string_loop rec str i schema).total d
      (fun _ d1 => (Call.parse_string_loop str i schema).advances d d1) := by
  simp only [Call.measure, Call.base, Call.rank] at hm
  try simp only [Call.admits] at ha
  unfold parse_string_loop
  iterate 24 (iterate 24 (all_goals (first
    | with_reducible contradiction
    | (with_reducible first
      | exact total_throw _ _ _
      | exact total_undefined _ _
      | refine total_pure ?_
      | refine total_ite_pos (by with_unfolding_all decide) ?_
      | refine total_ite_neg (by with_unfolding_all decide) ?_
      | refine total_ite ?_ ?_
      | refine total_bind ?_
      | refine total_new_Node ?_
      | refine total_new_Node_at ?_
      | refine total_new_Node_token ?_
      | refine total_new_Node_lexed ?_
      | refine total_new_Node_boolean ?_
      | refine total_get_position ?_
      | refine total_get_line ?_
      | refine total_get_lexed ?_
      | refine total_peek ?_ ?_
      | refine total_peek_spaces ?_
      | refine total_sequence_end ?_
      | refine total_space_list_end ?_
      | refine total_lexed_first ?_
      | refine total_before_end ?_
      | refine total_import_path ?_
      | refine total_lookahead ?_
      | refine total_find_first_here ?_ ?_
      | refine total_find_interpolant_start ?_ ?_
      | refine total_find_hash_lbrace ?_ ?_
      | refine total_find_in_interval ?_ ?_
      | exact total_in_file _ _ (by assumption)
      | refine total_set_position (by assumption) ?_
      | refine total_register_extension (by assumption) ?_
      | refine total_lex_interpolant (by assumption) ?_ ?_
      | refine total_lex (by assumption) ?_ ?_
      | refine total_lex_block_comment (by assumption) ?_ ?_
      | refine total_lex_forward (by assumption) (by omega) ?_
      | refine total_lex_optional_spaces (by assumption) (by omega) ?_
      | refine total_rec_strict hrec (by with_unfolding_all rfl) (by assumption) (by omega)
          (by
            with_unfolding_all first
              | exact trivial | assumption | rfl | (simp only [Call.admits]; omega))
          (by simp only [Call.measure, Call.base, Call.rank]; omega) ?_
      | refine total_rec hrec (by assumption) (by omega)
          (by
            with_unfolding_all first
              | exact trivial | assumption | rfl | (simp only [Call.admits]; omega))
          (by
            simp only [Call.measure, Call.base, Call.rank]
            first
              | omega | (split <;> first | omega | contradiction)) ?_
      | refine total_in_token hrec (by assumption) (by first | omega | (dsimp only; omega))
          (by with_unfolding_all exact trivial)
          (by simp only [Call.measure, Call.base, Call.rank]; omega) ?_
      | exact advances_of_lt (by omega) (by assumption) (by omega) (by omega)
      | exact advances_of_le (by with_unfolding_all rfl) (by omega) (by assumption) (by omega)
          (by omega))
    | intro _
    | simp only [↓reduceIte, Bool.not_true, Bool.not_false, Bool.or_true, Bool.true_or,
        Bool.or_false, Bool.false_or, Bool.and_true, Bool.true_and, Bool.and_false,
        Bool.false_and, Bool.false_eq_true]
    | split
    | unfold or_else
    | unfold parse_relation_operator
    | unfold parse_media_property
    | skip)))

set_option maxRecDepth 8000 in
set_option maxHeartbeats 40000000 in
/-- The production `parse_value_schema` returns or raises, and advances, when the productions it
calls do so below the measure. -/
theorem parse_value_schema_total (rec : Call → Parser Node) (m : Nat) (hrec : Terminates rec m)
    (d : Document) (hf : d.context.files = []) (hp : d.position ≤ d.source.length)
    (ha : Call.parse_value_schema.admits d) (hm : Call.parse_value_schema.measure d ≤ m) :
    (parse_value_schema rec).total d (fun _ d1 => Call.parse_value_schema.advances d d1) := by
  simp only [Call.measure, Call.base, Call.rank] at hm
  try simp only [Call.admits] at ha
  have h0 := d.past_refl hf hp
  unfold parse_value_schema
  iterate 24 (iterate 24 (all_goals (first
    | with_reducible contradiction
    | (with_reducible first
      | exact total_throw _ _ _
      | exact total_undefined _ _
      | refine total_pure ?_
      | refine total_ite_pos (by with_unfolding_all decide) ?_
      | refine total_ite_neg (by with_unfolding_all decide) ?_
      | refine total_ite ?_ ?_
      | refine total_bind ?_
      | refine total_new_Node ?_
      | refine total_new_Node_at ?_
      | refine total_new_Node_token ?_
      | refine total_new_Node_lexed ?_
      | refine total_new_Node_boolean ?_
      | refine total_get_position ?_
      | refine total_get_line ?_
      | refine total_get_lexed ?_
      | refine total_peek ?_ ?_
      | refine total_peek_spaces ?_
      | refine total_sequence_end ?_
      | refine total_space_list_end ?_
      | refine total_lexed_first ?_
      | refine total_before_end ?_
      | refine total_import_path ?_
      | refine total_lookahead ?_
      | refine total_find_here ?_ ?_
      | exact total_no_file _ _ (by assumption)
      | refine total_move_to (by assumption) (by assumption) ?_
      | refine total_extension (by assumption) ?_
      | refine total_lex_hit (by assumption) ?_ ?_
      | refine total_block_comment_hit (by assumption) ?_ ?_
      | refine total_lex_move (by assumption) ?_
      | refine total_optional_spaces_move (by assumption) ?_
      | refine total_call hrec hm (by assumption)
          (by with_unfolding_all first | exact trivial | assumption | rfl)
          (by with_unfolding_all rfl) (by with_unfolding_all rfl) ?_
      | refine total_span hrec hm (by assumption) (by assumption)
          (by with_unfolding_all exact trivial) (by with_unfolding_all rfl)
          (by with_unfolding_all rfl) ?_
      | exact advances_of_past (by assumption) (by with_unfolding_all rfl))
    | intro _
    | split
    | unfold or_else
    | unfold parse_relation_operator
    | unfold parse_media_property
    | skip)))

set_option maxRecDepth 8000 in
set_option maxHeartbeats 40000000 in
/-- The production `parse_value_schema_loop` returns or raises, and advances, when the productions it
calls do so below the measure. -/
theorem parse_value_schema_loop_total (rec : Call → Parser Node) (m : Nat)
    (hrec : Terminates rec m) (schema : Node)
    (d : Document) (hf : d.context.files = []) (hp : d.position ≤ d.source.length)
    (ha : (Call.parse_value_schema_loop schema).admits d)
    (hm : (Call.parse_value_schema_loop schema).measure d ≤ m) :
    (parse_value_schema_loop rec schema).total d
      (fun _ d1 => (Call.parse_value_schema_loop schema).advances d d1) := by
  simp only [Call.measure, Call.base, Call.rank] at hm
  try simp only [Call.admits] at ha
  unfold parse_value_schema_loop
  iterate 24 (iterate 24 (all_goals (first
    | with_reducible contradiction
    | (with_reducible first
      | exact total_throw _ _ _
      | exact total_undefined _ _
      | refine total_pure ?_
      | refine total_ite_pos (by with_unfolding_all decide) ?_
      | refine total_ite_neg (by with_unfolding_all decide) ?_
      | refine total_ite ?_ ?_
      | refine total_bind ?_
      | refine total_new_Node ?_
      | refine total_new_Node_at ?_
      | refine total_new_Node_token ?_
      | refine total_new_Node_lexed ?_
      | refine total_new_Node_boolean ?_
      | refine total_get_position ?_
      | refine total_get_line ?_
      | refine total_get_lexed ?_
      | refine total_peek ?_ ?_
      | refine total_peek_spaces ?_
      | refine total_sequence_end ?_
      | refine total_space_list_end ?_
      | refine total_lexed_first ?_
      | refine total_before_end ?_
      | refine total_import_path ?_
      | refine total_lookahead ?_
      | refine total_find_first_here ?_ ?_
      | refine total_find_interpolant_start ?_ ?_
      | refine total_find_hash_lbrace ?_ ?_
      | refine total_find_in_interval ?_ ?_
      | exact total_in_file _ _ (by assumption)
      | refine total_set_position (by assumption) ?_
      | refine total_register_extension (by assumption) ?_
      | refine total_lex_interpolant (by assumption) ?_ ?_
      | refine total_lex (by assumption) ?_ ?_
      | refine total_lex_block_comment (by assumption) ?_ ?_
      | refine total_lex_forward (by assumption) (by omega) ?_
      | refine total_lex_optional_spaces (by assumption) (by omega) ?_
      | refine total_rec_strict hrec (by with_unfolding_all rfl) (by assumption) (by omega)
          (by
            with_unfolding_all first
              | exact trivial | assumption | rfl | (simp only [Call.admits]; omega))
          (by simp only [Call.measure, Call.base, Call.rank]; omega) ?_
      | refine total_rec hrec (by assumption) (by omega)
          (by
            with_unfolding_all first
              | exact trivial | assumption | rfl | (simp only [Call.admits]; omega))
          (by
            simp only [Call.measure, Call.base, Call.rank]
            first
              | omega | (split <;> first | omega | contradiction)) ?_
      | refine total_in_token hrec (by assumption) (by first | omega | (dsimp only; omega))
          (by with_unfolding_all exact trivial)
          (by simp only [Call.measure, Call.base, Call.rank]; omega) ?_
      | exact advances_of_lt (by omega) (by assumption) (by omega) (by omega)
      | exact advances_of_le (by with_unfolding_all rfl) (by omega) (by assumption) (by omega)
          (by omega))
    | intro _
    | simp only [↓reduceIte, Bool.not_true, Bool.not_false, Bool.or_true, Bool.true_or,
        Bool.or_false, Bool.false_or, Bool.and_true, Bool.true_and, Bool.and_false,
        Bool.false_and, Bool.false_eq_true]
    | split
    | unfold or_else
    | unfold parse_relation_operator
    | unfold parse_media_property
    | skip)))

set_option maxRecDepth 8000 in
set_option maxHeartbeats 40000000 in
/-- The production `parse_identifier_schema` returns or raises, and advances, when the productions it
calls do so below the measure. -/
theorem parse_identifier_schema_total (rec : Call → Parser Node) (m : Nat) (hrec : Terminates rec m)
    (d : Document) (hf : d.context.files = []) (hp : d.position ≤ d.source.length)
    (ha : Call.parse_identifier_schema.admits d) (hm : Call.parse_identifier_schema.measure d ≤ m) :
    (parse_identifier_schema rec).total d
      (fun _ d1 => Call.parse_identifier_schema.advances d d1) := by
  simp only [Call.measure, Call.base, Call.rank] at hm
  try simp only [Call.admits] at ha
  unfold parse_identifier_schema
  split at hm
  iterate 24 (iterate 24 (all_goals (first
    | with_reducible contradiction
    | (with_reducible first
      | exact total_throw _ _ _
      | exact total_undefined _ _
      | refine total_pure ?_
      | refine total_ite_pos (by with_unfolding_all decide) ?_
      | refine total_ite_neg (by with_unfolding_all decide) ?_
      | refine total_ite ?_ ?_
      | refine total_bind ?_
      | refine total_new_Node ?_
      | refine total_new_Node_at ?_
      | refine total_new_Node_token ?_
      | refine total_new_Node_lexed ?_
      | refine total_new_Node_boolean ?_
      | refine total_get_position ?_
      | refine total_get_line ?_
      | refine total_get_lexed ?_
      | refine total_peek ?_ ?_
      | refine total_peek_spaces ?_
      | refine total_sequence_end ?_
      | refine total_space_list_end ?_
      | refine total_lexed_first ?_
      | refine total_before_end ?_
      | refine total_import_path ?_
      | refine total_lookahead ?_
      | refine total_find_first_here ?_ ?_
      | refine total_find_interpolant_start ?_ ?_
      | refine total_find_hash_lbrace ?_ ?_
      | refine total_find_in_interval ?_ ?_
      | exact total_in_file _ _ (by assumption)
      | refine total_set_position (by assumption) ?_
      | refine total_register_extension (by assumption) ?_
      | refine total_lex_interpolant (by assumption) ?_ ?_
      | refine total_lex (by assumption) ?_ ?_
      | refine total_lex_block_comment (by assumption) ?_ ?_
      | refine total_lex_forward (by assumption) (by omega) ?_
      | refine total_lex_optional_spaces (by assumption) (by omega) ?_
      | refine total_rec_strict hrec (by with_unfolding_all rfl) (by assumption) (by omega)
          (by
            with_unfolding_all first
              | exact trivial | assumption | rfl | (simp only [Call.admits]; omega))
          (by simp only [Call.measure, Call.base, Call.rank]; omega) ?_
      | refine total_rec hrec (by assumption) (by omega)
          (by
            with_unfolding_all first
              | exact trivial | assumption | rfl | (simp only [Call.admits]; omega))
          (by
            simp only [Call.measure, Call.base, Call.rank]
            first
              | omega | (split <;> first | omega | contradiction)) ?_
      | refine total_in_token hrec (by assumption) (by first | omega | (dsimp only; omega))
          (by with_unfolding_all exact trivial)
          (by simp only [Call.measure, Call.base, Call.rank]; omega) ?_
      | exact advances_of_lt (by omega) (by assumption) (by omega) (by omega)
      | exact advances_of_le (by with_unfolding_all rfl) (by omega) (by assumption) (by omega)
          (by omega))
    | intro _
    | simp only [↓reduceIte, Bool.not_true, Bool.not_false, Bool.or_true, Bool.true_or,
        Bool.or_false, Bool.false_or, Bool.and_true, Bool.true_and, Bool.and_false,
        Bool.false_and, Bool.false_eq_true]
    | split
    | unfold or_else
    | unfold parse_relation_operator
    | unfold parse_media_property
    | skip)))

set_option maxRecDepth 8000 in
set_option maxHeartbeats 40000000 in
/-- The production `parse_identifier_schema_loop` returns or raises, and advances, when the productions it
calls do so below the measure. -/
theorem parse_identifier_schema_loop_total (rec : Call → Parser Node) (m : Nat)
    (hrec : Terminates rec m) (id : Token) (i : Nat) (schema : Node)
    (d : Document) (hf : d.context.files = []) (hp : d.position ≤ d.source.length)
    (ha : (Call.parse_identifier_schema_loop id i schema).admits d)
    (hm : (Call.parse_identifier_schema_loop id i schema).measure d ≤ m) :
    (parse_identifier_schema_loop rec id i schema).total d
      (fun _ d1 => (Call.parse_identifier_schema_loop id i schema).advances d d1) := by
  simp only [Call.measure, Call.base, Call.rank] at hm
  try simp only [Call.admits] at ha
  unfold parse_identifier_schema_loop
  iterate 24 (iterate 24 (all_goals (first
    | with_reducible contradiction
    | (with_reducible first
      | exact total_throw _ _ _
      | exact total_undefined _ _
      | refine total_pure ?_
      | refine total_ite_pos (by with_unfolding_all decide) ?_
      | refine total_ite_neg (by with_unfolding_all decide) ?_
      | refine total_ite ?_ ?_
      | refine total_bind ?_
      | refine total_new_Node ?_
      | refine total_new_Node_at ?_
      | refine total_new_Node_token ?_
      | refine total_new_Node_lexed ?_
      | refine total_new_Node_boolean ?_
      | refine total_get_position ?_
      | refine total_get_line ?_
      | refine total_get_lexed ?_
      | refine total_peek ?_ ?_
      | refine total_peek_spaces ?_
      | refine total_sequence_end ?_
      | refine total_space_list_end ?_
      | refine total_lexed_first ?_
      | refine total_before_end ?_
      | refine total_import_path ?_
      | refine total_lookahead ?_
      | refine total_find_first_here ?_ ?_
      | refine total_find_interpolant_start ?_ ?_
      | refine total_find_hash_lbrace ?_ ?_
      | refine total_find_in_interval ?_ ?_
      | exact total_in_file _ _ (by assumption)
      | refine total_set_position (by assumption) ?_
      | refine total_register_extension (by assumption) ?_
      | refine total_lex_interpolant (by assumption) ?_ ?_
      | refine total_lex (by assumption) ?_ ?_
      | refine total_lex_block_comment (by assumption) ?_ ?_
      | refine total_lex_forward (by assumption) (by omega) ?_
      | refine total_lex_optional_spaces (by assumption) (by omega) ?_
      | refine total_rec_strict hrec (by with_unfolding_all rfl) (by assumption) (by omega)
          (by
            with_unfolding_all first
              | exact trivial | assumption | rfl | (simp only [Call.admits]; omega))
          (by simp only [Call.measure, Call.base, Call.rank]; omega) ?_
      | refine total_rec hrec (by assumption) (by omega)
          (by
            with_unfolding_all first
              | exact trivial | assumption | rfl | (simp only [Call.admits]; omega))
          (by
            simp only [Call.measure, Call.base, Call.rank]
            first
              | omega | (split <;> first | omega | contradiction)) ?_
      | refine total_in_token hrec (by assumption) (by first | omega | (dsimp only; omega))
          (by with_unfolding_all exact trivial)
          (by simp only [Call.measure, Call.base, Call.rank]; omega) ?_
      | exact advances_of_lt (by omega) (by assumption) (by omega) (by omega)
      | exact advances_of_le (by with_unfolding_all rfl) (by omega) (by assumption) (by omega)
          (by omega))
    | intro _
    | simp only [↓reduceIte, Bool.not_true, Bool.not_false, Bool.or_true, Bool.true_or,
        Bool.or_false, Bool.false_or, Bool.and_true, Bool.true_and, Bool.and_false,
        Bool.false_and, Bool.false_eq_true]
    | split
    | unfold or_else
    | unfold parse_relation_operator
    | unfold parse_media_property
    | skip)))

set_option maxRecDepth 8000 in
set_option maxHeartbeats 40000000 in
/-- The production `parse_function_call` returns or raises, and advances, when the productions it
calls do so below the measure. -/
theorem parse_function_call_total (rec : Call → Parser Node) (m : Nat) (hrec : Terminates rec m)
    (d : Document) (hf : d.context.files = []) (hp : d.position ≤ d.source.length)
    (ha : Call.parse_function_call.admits d) (hm : Call.parse_function_call.measure d ≤ m) :
    (parse_function_call rec).total d (fun _ d1 => Call.parse_function_call.advances d d1) := by
  simp only [Call.measure, Call.base, Call.rank] at hm
  try simp only [Call.admits] at ha
  have hid := d.sees_head _ _ _ ha
  unfold parse_function_call
  iterate 24 (iterate 24 (all_goals (first
    | with_reducible contradiction
    | (with_reducible first
      | exact total_throw _ _ _
      | exact total_undefined _ _
      | refine total_pure ?_
      | refine total_ite_pos (by with_unfolding_all decide) ?_
      | refine total_ite_neg (by with_unfolding_all decide) ?_
      | refine total_ite ?_ ?_
      | refine total_bind ?_
      | refine total_new_Node ?_
      | refine total_new_Node_at ?_
      | refine total_new_Node_token ?_
      | refine total_new_Node_lexed ?_
      | refine total_new_Node_boolean ?_
      | refine total_get_position ?_
      | refine total_get_line ?_
      | refine total_get_lexed ?_
      | refine total_peek ?_ ?_
      | refine total_peek_spaces ?_
      | refine total_sequence_end ?_
      | refine total_space_list_end ?_
      | refine total_lexed_first ?_
      | refine total_before_end ?_
      | refine total_import_path ?_
      | refine total_lookahead ?_
      | refine total_find_first_here ?_ ?_
      | refine total_find_interpolant_start ?_ ?_
      | refine total_find_hash_lbrace ?_ ?_
      | refine total_find_in_interval ?_ ?_
      | exact total_in_file _ _ (by assumption)
      | refine total_set_position (by assumption) ?_
      | refine total_register_extension (by assumption) ?_
      | refine total_lex_interpolant (by assumption) ?_ ?_
      | refine total_lex (by assumption) ?_ ?_
      | refine total_lex_block_comment (by assumption) ?_ ?_
      | refine total_lex_forward (by assumption) (by omega) ?_
      | refine total_lex_optional_spaces (by assumption) (by omega) ?_
      | refine total_rec_strict hrec (by with_unfolding_all rfl) (by assumption) (by omega)
          (by
            with_unfolding_all first
              | exact trivial | assumption | rfl | (simp only [Call.admits]; omega))
          (by simp only [Call.measure, Call.base, Call.rank]; omega) ?_
      | refine total_rec hrec (by assumption) (by omega)
          (by
            with_unfolding_all first
              | exact trivial | assumption | rfl | (simp only [Call.admits]; omega))
          (by
            simp only [Call.measure, Call.base, Call.rank]
            first
              | omega | (split <;> first | omega | contradiction)) ?_
      | refine total_in_token hrec (by assumption) (by first | omega | (dsimp only; omega))
          (by with_unfolding_all exact trivial)
          (by simp only [Call.measure, Call.base, Call.rank]; omega) ?_
      | exact advances_of_lt (by omega) (by assumption) (by omega) (by omega)
      | exact advances_of_le (by with_unfolding_all rfl) (by omega) (by assumption) (by omega)
          (by omega))
    | intro _
    | simp only [↓reduceIte, Bool.not_true, Bool.not_false, Bool.or_true, Bool.true_or,
        Bool.or_false, Bool.false_or, Bool.and_true, Bool.true_and, Bool.and_false,
        Bool.false_and, Bool.false_eq_true]
    | split
    | unfold or_else
    | unfold parse_relation_operator
    | unfold parse_media_property
    | skip)))

set_option maxRecDepth 8000 in
set_option maxHeartbeats 40000000 in
/-- The production `parse_if_directive` returns or raises, and advances, when the productions it
calls do so below the measure. -/
theorem parse_if_directive_total (rec : Call → Parser Node) (m : Nat)
    (hrec : Terminates rec m) (sr : Option Node) (io : NodeType)
    (d : Document) (hf : d.context.files = []) (hp : d.position ≤ d.source.length)
    (ha : (Call.parse_if_directive sr io).admits d)
    (hm : (Call.parse_if_directive sr io).measure d ≤ m) :
    (parse_if_directive rec sr io).total d
      (fun _ d1 => (Call.parse_if_directive sr io).advances d d1) := by
  simp only [Call.measure, Call.base, Call.rank] at hm
  try simp only [Call.admits] at ha
  have h0 := d.past_refl hf hp
  unfold parse_if_directive
  iterate 24 (iterate 24 (all_goals (first
    | with_reducible contradiction
    | (with_reducible first
      | exact total_throw _ _ _
      | exact total_undefined _ _
      | refine total_pure ?_
      | refine total_ite_pos (by with_unfolding_all decide) ?_
      | refine total_ite_neg (by with_unfolding_all decide) ?_
      | refine total_ite ?_ ?_
      | refine total_bind ?_
      | refine total_new_Node ?_
      | refine total_new_Node_at ?_
      | refine total_new_Node_token ?_
      | refine total_new_Node_lexed ?_
      | refine total_new_Node_boolean ?_
      | refine total_get_position ?_
      | refine total_get_line ?_
      | refine total_get_lexed ?_
      | refine total_peek ?_ ?_
      | refine total_peek_spaces ?_
      | refine total_sequence_end ?_
      | refine total_space_list_end ?_
      | refine total_lexed_first ?_
      | refine total_before_end ?_
      | refine total_import_path ?_
      | refine total_lookahead ?_
      | refine total_find_here ?_ ?_
      | exact total_no_file _ _ (by assumption)
      | refine total_move_to (by assumption) (by assumption) ?_
      | refine total_extension (by assumption) ?_
      | refine total_lex_hit (by assumption) ?_ ?_
      | refine total_block_comment_hit (by assumption) ?_ ?_
      | refine total_lex_move (by assumption) ?_
      | refine total_optional_spaces_move (by assumption) ?_
      | refine total_call hrec hm (by assumption)
          (by with_unfolding_all first | exact trivial | assumption | rfl)
          (by with_unfolding_all rfl) (by with_unfolding_all rfl) ?_
      | refine total_span hrec hm (by assumption) (by assumption)
          (by with_unfolding_all exact trivial) (by with_unfolding_all rfl)
          (by with_unfolding_all rfl) ?_
      | exact advances_of_past (by assumption) (by with_unfolding_all rfl))
    | intro _
    | split
    | unfold or_else
    | unfold parse_relation_operator
    | unfold parse_media_property
    | skip)))

set_option maxRecDepth 8000 in
set_option maxHeartbeats 40000000 in
/-- The production `parse_if_directive_loop` returns or raises, and advances, when the productions it
calls do so below the measure. -/
theorem parse_if_directive_loop_total (rec : Call → Parser Node) (m : Nat)
    (hrec : Terminates rec m) (sr : Option Node) (io : NodeType) (c : Node)
    (d : Document) (hf : d.context.files = []) (hp : d.position ≤ d.source.length)
    (ha : (Call.parse_if_directive_loop sr io c).admits d)
    (hm : (Call.parse_if_directive_loop sr io c).measure d ≤ m) :
    (parse_if_directive_loop rec sr io c).total d
      (fun _ d1 => (Call.parse_if_directive_loop sr io c).advances d d1) := by
  simp only [Call.measure, Call.base, Call.rank] at hm
  try simp only [Call.admits] at ha
  have h0 := d.past_refl hf hp
  unfold parse_if_directive_loop
  iterate 24 (iterate 24 (all_goals (first
    | with_reducible contradiction
    | (with_reducible first
      | exact total_throw _ _ _
      | exact total_undefined _ _
      | refine total_pure ?_
      | refine total_ite_pos (by with_unfolding_all decide) ?_
      | refine total_ite_neg (by with_unfolding_all decide) ?_
      | refine total_ite ?_ ?_
      | refine total_bind ?_
      | refine total_new_Node ?_
      | refine total_new_Node_at ?_
      | refine total_new_Node_token ?_
      | refine total_new_Node_lexed ?_
      | refine total_new_Node_boolean ?_
      | refine total_get_position ?_
      | refine total_get_line ?_
      | refine total_get_lexed ?_
      | refine total_peek ?_ ?_
      | refine total_peek_spaces ?_
      | refine total_sequence_end ?_
      | refine total_space_list_end ?_
      | refine total_lexed_first ?_
      | refine total_before_end ?_
      | refine total_import_path ?_
      | refine total_lookahead ?_
      | refine total_find_here ?_ ?_
      | exact total_no_file _ _ (by assumption)
      | refine total_move_to (by assumption) (by assumption) ?_
      | refine total_extension (by assumption) ?_
      | refine total_lex_hit (by assumption) ?_ ?_
      | refine total_block_comment_hit (by assumption) ?_ ?_
      | refine total_lex_move (by assumption) ?_
      | refine total_optional_spaces_move (by assumption) ?_
      | refine total_call hrec hm (by assumption)
          (by with_unfolding_all first | exact trivial | assumption | rfl)
          (by with_unfolding_all rfl) (by with_unfolding_all rfl) ?_
      | refine total_span hrec hm (by assumption) (by assumption)
          (by with_unfolding_all exact trivial) (by with_unfolding_all rfl)
          (by with_unfolding_all rfl) ?_
      | exact advances_of_past (by assumption) (by with_unfolding_all rfl))
    | intro _
    | split
    | unfold or_else
    | unfold parse_relation_operator
    | unfold parse_media_property
    | skip)))

set_option maxRecDepth 8000 in
set_option maxHeartbeats 40000000 in
/-- The production `parse_for_directive` returns or raises, and advances, when the productions it
calls do so below the measure. -/
theorem parse_for_directive_total (rec : Call → Parser Node) (m : Nat)
    (hrec : Terminates rec m) (sr : Option Node) (io : NodeType)
    (d : Document) (hf : d.context.files = []) (hp : d.position ≤ d.source.length)
    (ha : (Call.parse_for_directive sr io).admits d)
    (hm : (Call.parse_for_directive sr io).measure d ≤ m) :
    (parse_for_directive rec sr io).total d
      (fun _ d1 => (Call.parse_for_directive sr io).advances d d1) := by
  simp only [Call.measure, Call.base, Call.rank] at hm
  try simp only [Call.admits] at ha
  have h0 := d.past_refl hf hp
  unfold parse_for_directive
  iterate 24 (iterate 24 (all_goals (first
    | with_reducible contradiction
    | (with_reducible first
      | exact total_throw _ _ _
      | exact total_undefined _ _
      | refine total_pure ?_
      | refine total_ite_pos (by with_unfolding_all decide) ?_
      | refine total_ite_neg (by with_unfolding_all decide) ?_
      | refine total_ite ?_ ?_
      | refine total_bind ?_
      | refine total_new_Node ?_
      | refine total_new_Node_at ?_
      | refine total_new_Node_token ?_
      | refine total_new_Node_lexed ?_
      | refine total_new_Node_boolean ?_
      | refine total_get_position ?_
      | refine total_get_line ?_
      | refine total_get_lexed ?_
      | refine total_peek ?_ ?_
      | refine total_peek_spaces ?_
      | refine total_sequence_end ?_
      | refine total_space_list_end ?_
      | refine total_lexed_first ?_
      | refine total_before_end ?_
      | refine total_import_path ?_
      | refine total_lookahead ?_
      | refine total_find_here ?_ ?_
      | exact total_no_file _ _ (by assumption)
      | refine total_move_to (by assumption) (by assumption) ?_
      | refine total_extension (by assumption) ?_
      | refine total_lex_hit (by assumption) ?_ ?_
      | refine total_block_comment_hit (by assumption) ?_ ?_
      | refine total_lex_move (by assumption) ?_
      | refine total_optional_spaces_move (by assumption) ?_
      | refine total_call hrec hm (by assumption)
          (by with_unfolding_all first | exact trivial | assumption | rfl)
          (by with_unfolding_all rfl) (by with_unfolding_all rfl) ?_
      | refine total_span hrec hm (by assumption) (by assumption)
          (by with_unfolding_all exact trivial) (by with_unfolding_all rfl)
          (by with_unfolding_all rfl) ?_
      | exact advances_of_past (by assumption) (by with_unfolding_all rfl))
    | intro _
    | split
    | unfold or_else
    | unfold parse_relation_operator
    | unfold parse_media_property
    | skip)))

set_option maxRecDepth 8000 in
set_option maxHeartbeats 40000000 in
/-- The production `parse_each_directive` returns or raises, and advances, when the productions it
calls do so below the measure. -/
theorem parse_each_directive_total (rec : Call → Parser Node) (m : Nat)
    (hrec : Terminates rec m) (sr : Option Node) (io : NodeType)
    (d : Document) (hf : d.context.files = []) (hp : d.position ≤ d.source.length)
    (ha : (Call.parse_each_directive sr io).admits d)
    (hm : (Call.parse_each_directive sr io).measure d ≤ m) :
    (parse_each_directive rec sr io).total d
      (fun _ d1 => (Call.parse_each_directive sr io).advances d d1) := by
  simp only [Call.measure, Call.base, Call.rank] at hm
  try simp only [Call.admits] at ha
  have h0 := d.past_refl hf hp
  unfold parse_each_directive
  iterate 24 (iterate 24 (all_goals (first
    | with_reducible contradiction
    | (with_reducible first
      | exact total_throw _ _ _
      | exact total_undefined _ _
      | refine total_pure ?_
      | refine total_ite_pos (by with_unfolding_all decide) ?_
      | refine total_ite_neg (by with_unfolding_all decide) ?_
      | refine total_ite ?_ ?_
      | refine total_bind ?_
      | refine total_new_Node ?_
      | refine total_new_Node_at ?_
      | refine total_new_Node_token ?_
      | refine total_new_Node_lexed ?_
      | refine total_new_Node_boolean ?_
      | refine total_get_position ?_
      | refine total_get_line ?_
      | refine total_get_lexed ?_
      | refine total_peek ?_ ?_
      | refine total_peek_spaces ?_
      | refine total_sequence_end ?_
      | refine total_space_list_end ?_
      | refine total_lexed_first ?_
      | refine total_before_end ?_
      | refine total_import_path ?_
      | refine total_lookahead ?_
      | refine total_find_here ?_ ?_
      | exact total_no_file _ _ (by assumption)
      | refine total_move_to (by assumption) (by assumption) ?_
      | refine total_extension (by assumption) ?_
      | refine total_lex_hit (by assumption) ?_ ?_
      | refine total_block_comment_hit (by assumption) ?_ ?_
      | refine total_lex_move (by assumption) ?_
      | refine total_optional_spaces_move (by assumption) ?_
      | refine total_call hrec hm (by assumption)
          (by with_unfolding_all first | exact trivial | assumption | rfl)
          (by with_unfolding_all rfl) (by with_unfolding_all rfl) ?_
      | refine total_span hrec hm (by assumption) (by assumption)
          (by with_unfolding_all exact trivial) (by with_unfolding_all rfl)
          (by with_unfolding_all rfl) ?_
      | exact advances_of_past (by assumption) (by with_unfolding_all rfl))
    | intro _
    | split
    | unfold or_else
    | unfold parse_relation_operator
    | unfold parse_media_property
    | skip)))

set_option maxRecDepth 8000 in
set_option maxHeartbeats 40000000 in
/-- The production `parse_while_directive` returns or raises, and advances, when the productions it
calls do so below the measure. -/
theorem parse_while_directive_total (rec : Call → Parser Node) (m : Nat)
    (hrec : Terminates rec m) (sr : Option Node) (io : NodeType)
    (d : Document) (hf : d.context.files = []) (hp : d.position ≤ d.source.length)
    (ha : (Call.parse_while_directive sr io).admits d)
    (hm : (Call.parse_while_directive sr io).measure d ≤ m) :
    (parse_while_directive rec sr io).total d
      (fun _ d1 => (Call.parse_while_directive sr io).advances d d1) := by
  simp only [Call.measure, Call.base, Call.rank] at hm
  try simp only [Call.admits] at ha
  have h0 := d.past_refl hf hp
  unfold parse_while_directive
  iterate 24 (iterate 24 (all_goals (first
    | with_reducible contradiction
    | (with_reducible first
      | exact total_throw _ _ _
      | exact total_undefined _ _
      | refine total_pure ?_
      | refine total_ite_pos (by with_unfolding_all decide) ?_
      | refine total_ite_neg (by with_unfolding_all decide) ?_
      | refine total_ite ?_ ?_
      | refine total_bind ?_
      | refine total_new_Node ?_
      | refine total_new_Node_at ?_
      | refine total_new_Node_token ?_
      | refine total_new_Node_lexed ?_
      | refine total_new_Node_boolean ?_
      | refine total_get_position ?_
      | refine total_get_line ?_
      | refine total_get_lexed ?_
      | refine total_peek ?_ ?_
      | refine total_peek_spaces ?_
      | refine total_sequence_end ?_
      | refine total_space_list_end ?_
      | refine total_lexed_first ?_
      | refine total_before_end ?_
      | refine total_import_path ?_
      | refine total_lookahead ?_
      | refine total_find_here ?_ ?_
      | exact total_no_file _ _ (by assumption)
      | refine total_move_to (by assumption) (by assumption) ?_
      | refine total_extension (by assumption) ?_
      | refine total_lex_hit (by assumption) ?_ ?_
      | refine total_block_comment_hit (by assumption) ?_ ?_
      | refine total_lex_move (by assumption) ?_
      | refine total_optional_spaces_move (by assumption) ?_
      | refine total_call hrec hm (by assumption)
          (by with_unfolding_all first | exact trivial | assumption | rfl)
          (by with_unfolding_all rfl) (by with_unfolding_all rfl) ?_
      | refine total_span hrec hm (by assumption) (by assumption)
          (by with_unfolding_all exact trivial) (by with_unfolding_all rfl)
          (by with_unfolding_all rfl) ?_
      | exact advances_of_past (by assumption) (by with_unfolding_all rfl))
    | intro _
    | split
    | unfold or_else
    | unfold parse_relation_operator
    | unfold parse_media_property
    | skip)))

set_option maxRecDepth 8000 in
set_option maxHeartbeats 40000000 in
/-- The production `parse_directive` returns or raises, and advances, when the productions it
calls do so below the measure. -/
theorem parse_directive_total (rec : Call → Parser Node) (m : Nat)
    (hrec : Terminates rec m) (sr : Option Node) (io : NodeType)
    (d : Document) (hf : d.context.files = []) (hp : d.position ≤ d.source.length)
    (ha : (Call.parse_directive sr io).admits d) (hm : (Call.parse_directive sr io).measure d ≤ m) :
    (parse_directive rec sr io).total d
      (fun _ d1 => (Call.parse_directive sr io).advances d d1) := by
  simp only [Call.measure, Call.base, Call.rank] at hm
  try simp only [Call.admits] at ha
  have h0 := d.past_refl hf hp
  unfold parse_directive
  iterate 24 (iterate 24 (all_goals (first
    | with_reducible contradiction
    | (with_reducible first
      | exact total_throw _ _ _
      | exact total_undefined _ _
      | refine total_pure ?_
      | refine total_ite_pos (by with_unfolding_all decide) ?_
      | refine total_ite_neg (by with_unfolding_all decide) ?_
      | refine total_ite ?_ ?_
      | refine total_bind ?_
      | refine total_new_Node ?_
      | refine total_new_Node_at ?_
      | refine total_new_Node_token ?_
      | refine total_new_Node_lexed ?_
      | refine total_new_Node_boolean ?_
      | refine total_get_position ?_
      | refine total_get_line ?_
      | refine total_get_lexed ?_
      | refine total_peek ?_ ?_
      | refine total_peek_spaces ?_
      | refine total_sequence_end ?_
      | refine total_space_list_end ?_
      | refine total_lexed_first ?_
      | refine total_before_end ?_
      | refine total_import_path ?_
      | refine total_lookahead ?_
      | refine total_find_here ?_ ?_
      | exact total_no_file _ _ (by assumption)
      | refine total_move_to (by assumption) (by assumption) ?_
      | refine total_extension (by assumption) ?_
      | refine total_lex_hit (by assumption) ?_ ?_
      | refine total_block_comment_hit (by assumption) ?_ ?_
      | refine total_lex_move (by assumption) ?_
      | refine total_optional_spaces_move (by assumption) ?_
      | refine total_call hrec hm (by assumption)
          (by with_unfolding_all first | exact trivial | assumption | rfl)
          (by with_unfolding_all rfl) (by with_unfolding_all rfl) ?_
      | refine total_span hrec hm (by assumption) (by assumption)
          (by with_unfolding_all exact trivial) (by with_unfolding_all rfl)
          (by with_unfolding_all rfl) ?_
      | exact advances_of_past (by assumption) (by with_unfolding_all rfl))
    | intro _
    | split
    | unfold or_else
    | unfold parse_relation_operator
    | unfold parse_media_property
    | skip)))

set_option maxRecDepth 8000 in
set_option maxHeartbeats 40000000 in
/-- The production `parse_media_query` returns or raises, and advances, when the productions it
calls do so below the measure. -/
theorem parse_media_query_total (rec : Call → Parser Node) (m : Nat)
    (hrec : Terminates rec m) (io : NodeType)
    (d : Document) (hf : d.context.files = []) (hp : d.position ≤ d.source.length)
    (ha : (Call.parse_media_query io).admits d) (hm : (Call.parse_media_query io).measure d ≤ m) :
    (parse_media_query rec io).total d (fun _ d1 => (Call.parse_media_query io).advances d d1) := by
  simp only [Call.measure, Call.base, Call.rank] at hm
  try simp only [Call.admits] at ha
  have h0 := d.past_refl hf hp
  unfold parse_media_query
  iterate 24 (iterate 24 (all_goals (first
    | with_reducible contradiction
    | (with_reducible first
      | exact total_throw _ _ _
      | exact total_undefined _ _
      | refine total_pure ?_
      | refine total_ite_pos (by with_unfolding_all decide) ?_
      | refine total_ite_neg (by with_unfolding_all decide) ?_
      | refine total_ite ?_ ?_
      | refine total_bind ?_
      | refine total_new_Node ?_
      | refine total_new_Node_at ?_
      | refine total_new_Node_token ?_
      | refine total_new_Node_lexed ?_
      | refine total_new_Node_boolean ?_
      | refine total_get_position ?_
      | refine total_get_line ?_
      | refine total_get_lexed ?_
      | refine total_peek ?_ ?_
      | refine total_peek_spaces ?_
      | refine total_sequence_end ?_
      | refine total_space_list_end ?_
      | refine total_lexed_first ?_
      | refine total_before_end ?_
      | refine total_import_path ?_
      | refine total_lookahead ?_
      | refine total_find_here ?_ ?_
      | exact total_no_file _ _ (by assumption)
      | refine total_move_to (by assumption) (by assumption) ?_
      | refine total_extension (by assumption) ?_
      | refine total_lex_hit (by assumption) ?_ ?_
      | refine total_block_comment_hit (by assumption) ?_ ?_
      | refine total_lex_move (by assumption) ?_
      | refine total_optional_spaces_move (by assumption) ?_
      | refine total_call hrec hm (by assumption)
          (by with_unfolding_all first | exact trivial | assumption | rfl)
          (by with_unfolding_all rfl) (by with_unfolding_all rfl) ?_
      | refine total_span hrec hm (by assumption) (by assumption)
          (by with_unfolding_all exact trivial) (by with_unfolding_all rfl)
          (by with_unfolding_all rfl) ?_
      | exact advances_of_past (by assumption) (by with_unfolding_all rfl))
    | intro _
    | split
    | unfold or_else
    | unfold parse_relation_operator
    | unfold parse_media_property
    | skip)))

set_option maxRecDepth 8000 in
set_option maxHeartbeats 40000000 in
/-- The production `parse_media_query_loop` returns or raises, and advances, when the productions it
calls do so below the measure. -/
theorem parse_media_query_loop_total (rec : Call → Parser Node) (m : Nat)
    (hrec : Terminates rec m) (g : Node)
    (d : Document) (hf : d.context.files = []) (hp : d.position ≤ d.source.length)
    (ha : (Call.parse_media_query_loop g).admits d)
    (hm : (Call.parse_media_query_loop g).measure d ≤ m) :
    (parse_media_query_loop rec g).total d
      (fun _ d1 => (Call.parse_media_query_loop g).advances d d1) := by
  simp only [Call.measure, Call.base, Call.rank] at hm
  try simp only [Call.admits] at ha
  have h0 := d.past_refl hf hp
  unfold parse_media_query_loop
  iterate 24 (iterate 24 (all_goals (first
    | with_reducible contradiction
    | (with_reducible first
      | exact total_throw _ _ _
      | exact total_undefined _ _
      | refine total_pure ?_
      | refine total_ite_pos (by with_unfolding_all decide) ?_
      | refine total_ite_neg (by with_unfolding_all decide) ?_
      | refine total_ite ?_ ?_
      | refine total_bind ?_
      | refine total_new_Node ?_
      | refine total_new_Node_at ?_
      | refine total_new_Node_token ?_
      | refine total_new_Node_lexed ?_
      | refine total_new_Node_boolean ?_
      | refine total_get_position ?_
      | refine total_get_line ?_
      | refine total_get_lexed ?_
      | refine total_peek ?_ ?_
      | refine total_peek_spaces ?_
      | refine total_sequence_end ?_
      | refine total_space_list_end ?_
      | refine total_lexed_first ?_
      | refine total_before_end ?_
      | refine total_import_path ?_
      | refine total_lookahead ?_
      | refine total_find_here ?_ ?_
      | exact total_no_file _ _ (by assumption)
      | refine total_move_to (by assumption) (by assumption) ?_
      | refine total_extension (by assumption) ?_
      | refine total_lex_hit (by assumption) ?_ ?_
      | refine total_block_comment_hit (by assumption) ?_ ?_
      | refine total_lex_move (by assumption) ?_
      | refine total_optional_spaces_move (by assumption) ?_
      | refine total_call hrec hm (by assumption)
          (by with_unfolding_all first | exact trivial | assumption | rfl)
          (by with_unfolding_all rfl) (by with_unfolding_all rfl) ?_
      | refine total_span hrec hm (by assumption) (by assumption)
          (by with_unfolding_all exact trivial) (by with_unfolding_all rfl)
          (by with_unfolding_all rfl) ?_
      | exact advances_of_past (by assumption) (by with_unfolding_all rfl))
    | intro _
    | split
    | unfold or_else
    | unfold parse_relation_operator
    | unfold parse_media_property
    | skip)))

set_option maxRecDepth 8000 in
set_option maxHeartbeats 40000000 in
/-- The production `parse_media_expression` returns or raises, and advances, when the productions it
calls do so below the measure. -/
theorem parse_media_expression_total (rec : Call → Parser Node) (m : Nat) (hrec : Terminates rec m)
    (d : Document) (hf : d.context.files = []) (hp : d.position ≤ d.source.length)
    (ha : Call.parse_media_expression.admits d) (hm : Call.parse_media_expression.measure d ≤ m) :
    (parse_media_expression rec).total d
      (fun _ d1 => Call.parse_media_expression.advances d d1) := by
  simp only [Call.measure, Call.base, Call.rank] at hm
  try simp only [Call.admits] at ha
  have h0 := d.past_refl hf hp
  unfold parse_media_expression
  iterate 24 (iterate 24 (all_goals (first
    | with_reducible contradiction
    | (with_reducible first
      | exact total_throw _ _ _
      | exact total_undefined _ _
      | refine total_pure ?_
      | refine total_ite_pos (by with_unfolding_all decide) ?_
      | refine total_ite_neg (by with_unfolding_all decide) ?_
      | refine total_ite ?_ ?_
      | refine total_bind ?_
      | refine total_new_Node ?_
      | refine total_new_Node_at ?_
      | refine total_new_Node_token ?_
      | refine total_new_Node_lexed ?_
      | refine total_new_Node_boolean ?_
      | refine total_get_position ?_
      | refine total_get_line ?_
      | refine total_get_lexed ?_
      | refine total_peek ?_ ?_
      | refine total_peek_spaces ?_
      | refine total_sequence_end ?_
      | refine total_space_list_end ?_
      | refine total_lexed_first ?_
      | refine total_before_end ?_
      | refine total_import_path ?_
      | refine total_lookahead ?_
      | refine total_find_here ?_ ?_
      | exact total_no_file _ _ (by assumption)
      | refine total_move_to (by assumption) (by assumption) ?_
      | refine total_extension (by assumption) ?_
      | refine total_lex_hit (by assumption) ?_ ?_
      | refine total_block_comment_hit (by assumption) ?_ ?_
      | refine total_lex_move (by assumption) ?_
      | refine total_optional_spaces_move (by assumption) ?_
      | refine total_call hrec hm (by assumption)
          (by with_unfolding_all first | exact trivial | assumption | rfl)
          (by with_unfolding_all rfl) (by with_unfolding_all rfl) ?_
      | refine total_span hrec hm (by assumption) (by assumption)
          (by with_unfolding_all exact trivial) (by with_unfolding_all rfl)
          (by with_unfolding_all rfl) ?_
      | exact advances_of_past (by assumption) (by with_unfolding_all rfl))
    | intro _
    | split
    | unfold or_else
    | unfold parse_relation_operator
    | unfold parse_media_property
    | skip)))

set_option maxRecDepth 8000 in
set_option maxHeartbeats 40000000 in
/-- The production `parse_media_expression_loop` returns or raises, and advances, when the productions it
calls do so below the measure. -/
theorem parse_media_expression_loop_total (rec : Call → Parser Node) (m : Nat)
    (hrec : Terminates rec m) (e : Node)
    (d : Document) (hf : d.context.files = []) (hp : d.position ≤ d.source.length)
    (ha : (Call.parse_media_expression_loop e).admits d)
    (hm : (Call.parse_media_expression_loop e).measure d ≤ m) :
    (parse_media_expression_loop rec e).total d
      (fun _ d1 => (Call.parse_media_expression_loop e).advances d d1) := by
  simp only [Call.measure, Call.base, Call.rank] at hm
  try simp only [Call.admits] at ha
  have h0 := d.past_refl hf hp
  unfold parse_media_expression_loop
  iterate 24 (iterate 24 (all_goals (first
    | with_reducible contradiction
    | (with_reducible first
      | exact total_throw _ _ _
      | exact total_undefined _ _
      | refine total_pure ?_
      | refine total_ite_pos (by with_unfolding_all decide) ?_
      | refine total_ite_neg (by with_unfolding_all decide) ?_
      | refine total_ite ?_ ?_
      | refine total_bind ?_
      | refine total_new_Node ?_
      | refine total_new_Node_at ?_
      | refine total_new_Node_token ?_
      | refine total_new_Node_lexed ?_
      | refine total_new_Node_boolean ?_
      | refine total_get_position ?_
      | refine total_get_line ?_
      | refine total_get_lexed ?_
      | refine total_peek ?_ ?_
      | refine total_peek_spaces ?_
      | refine total_sequence_end ?_
      | refine total_space_list_end ?_
      | refine total_lexed_first ?_
      | refine total_before_end ?_
      | refine total_import_path ?_
      | refine total_lookahead ?_
      | refine total_find_here ?_ ?_
      | exact total_no_file _ _ (by assumption)
      | refine total_move_to (by assumption) (by assumption) ?_
      | refine total_extension (by assumption) ?_
      | refine total_lex_hit (by assumption) ?_ ?_
      | refine total_block_comment_hit (by assumption) ?_ ?_
      | refine total_lex_move (by assumption) ?_
      | refine total_optional_spaces_move (by assumption) ?_
      | refine total_call hrec hm (by assumption)
          (by with_unfolding_all first | exact trivial | assumption | rfl)
          (by with_unfolding_all rfl) (by with_unfolding_all rfl) ?_
      | refine total_span hrec hm (by assumption) (by assumption)
          (by with_unfolding_all exact trivial) (by with_unfolding_all rfl)
          (by with_unfolding_all rfl) ?_
      | exact advances_of_past (by assumption) (by with_unfolding_all rfl))
    | intro _
    | split
    | unfold or_else
    | unfold parse_relation_operator
    | unfold parse_media_property
    | skip)))

set_option maxRecDepth 8000 in
set_option maxHeartbeats 40000000 in
/-- The production `parse_warning` returns or raises, and advances, when the productions it
calls do so below the measure. -/
theorem parse_warning_total (rec : Call → Parser Node) (m : Nat) (hrec : Terminates rec m)
    (d : Document) (hf : d.context.files = []) (hp : d.position ≤ d.source.length)
    (ha : Call.parse_warning.admits d) (hm : Call.parse_warning.measure d ≤ m) :
    (parse_warning rec).total d (fun _ d1 => Call.parse_warning.advances d d1) := by
  simp only [Call.measure, Call.base, Call.rank] at hm
  try simp only [Call.admits] at ha
  have h0 := d.past_refl hf hp
  unfold parse_warning
  iterate 24 (iterate 24 (all_goals (first
    | with_reducible contradiction
    | (with_reducible first
      | exact total_throw _ _ _
      | exact total_undefined _ _
      | refine total_pure ?_
      | refine total_ite_pos (by with_unfolding_all decide) ?_
      | refine total_ite_neg (by with_unfolding_all decide) ?_
      | refine total_ite ?_ ?_
      | refine total_bind ?_
      | refine total_new_Node ?_
      | refine total_new_Node_at ?_
      | refine total_new_Node_token ?_
      | refine total_new_Node_lexed ?_
      | refine total_new_Node_boolean ?_
      | refine total_get_position ?_
      | refine total_get_line ?_
      | refine total_get_lexed ?_
      | refine total_peek ?_ ?_
      | refine total_peek_spaces ?_
      | refine total_sequence_end ?_
      | refine total_space_list_end ?_
      | refine total_lexed_first ?_
      | refine total_before_end ?_
      | refine total_import_path ?_
      | refine total_lookahead ?_
      | refine total_find_here ?_ ?_
      | exact total_no_file _ _ (by assumption)
      | refine total_move_to (by assumption) (by assumption) ?_
      | refine total_extension (by assumption) ?_
      | refine total_lex_hit (by assumption) ?_ ?_
      | refine total_block_comment_hit (by assumption) ?_ ?_
      | refine total_lex_move (by assumption) ?_
      | refine total_optional_spaces_move (by assumption) ?_
      | refine total_call hrec hm (by assumption)
          (by with_unfolding_all first | exact trivial | assumption | rfl)
          (by with_unfolding_all rfl) (by with_unfolding_all rfl) ?_
      | refine total_span hrec hm (by assumption) (by assumption)
          (by with_unfolding_all exact trivial) (by with_unfolding_all rfl)
          (by with_unfolding_all rfl) ?_
      | exact advances_of_past (by assumption) (by with_unfolding_all rfl))
    | intro _
    | split
    | unfold or_else
    | unfold parse_relation_operator
    | unfold parse_media_property
    | skip)))

/-! ### The parser returns or raises -/

/-- One more unit of fuel carries the property one step up the measure. -/
theorem step_terminates (rec : Call → Parser Node) (m : Nat) (hrec : Terminates rec m) :
    Terminates (step rec) (m + 1) := by
  intro c d hf hp ha hm
  have hm1 : c.measure d ≤ m := by omega
  cases c with
  | parse_scss => exact parse_scss_total rec m hrec d hf hp ha hm1
  | parse_scss_loop root => exact parse_scss_loop_total rec m hrec root d hf hp ha hm1
  | parse_import => exact parse_import_total rec m hrec d hf hp ha hm1
  | parse_mixin_definition => exact parse_mixin_definition_total rec m hrec d hf hp ha hm1
  | parse_function_definition => exact parse_function_definition_total rec m hrec d hf hp ha hm1
  | parse_parameters => exact parse_parameters_total rec m hrec d hf hp ha hm1
  | parse_parameters_loop params => exact parse_parameters_loop_total rec m hrec params d hf hp ha hm1
  | parse_parameter => exact parse_parameter_total rec m hrec d hf hp ha hm1
  | parse_mixin_call => exact parse_mixin_call_total rec m hrec d hf hp ha hm1
  | parse_arguments => exact parse_arguments_total rec m hrec d hf hp ha hm1
  | parse_arguments_loop args => exact parse_arguments_loop_total rec m hrec args d hf hp ha hm1
  | parse_argument => exact parse_argument_total rec m hrec d hf hp ha hm1
  | parse_assignment => exact parse_assignment_total rec m hrec d hf hp ha hm1
  | parse_propset => exact parse_propset_total rec m hrec d hf hp ha hm1
  | parse_propset_loop block => exact parse_propset_loop_total rec m hrec block d hf hp ha hm1
  | parse_ruleset lookahead inside_of => exact parse_ruleset_total rec m hrec lookahead inside_of d hf hp ha hm1
  | parse_selector_schema e => exact parse_selector_schema_total rec m hrec e d hf hp ha hm1
  | parse_selector_schema_loop e i schema => exact parse_selector_schema_loop_total rec m hrec e i schema d hf hp ha hm1
  | parse_selector_group => exact parse_selector_group_total rec m hrec d hf hp ha hm1
  | parse_selector_group_loop group => exact parse_selector_group_loop_total rec m hrec group d hf hp ha hm1
  | parse_selector => exact parse_selector_total rec m hrec d hf hp ha hm1
  | parse_selector_loop selector => exact parse_selector_loop_total rec m hrec selector d hf hp ha hm1
  | parse_simple_selector_sequence => exact parse_simple_selector_sequence_total rec m hrec d hf hp ha hm1
  | parse_simple_selector_sequence_loop seq => exact parse_simple_selector_sequence_loop_total rec m hrec seq d hf hp ha hm1
  | parse_simple_selector => exact parse_simple_selector_total rec m hrec d hf hp ha hm1
  | parse_pseudo => exact parse_pseudo_total rec m hrec d hf hp ha hm1
  | parse_attribute_selector => exact parse_attribute_selector_total rec m hrec d hf hp ha hm1
  | parse_block sr io => exact parse_block_total rec m hrec sr io d hf hp ha hm1
  | parse_block_loop sr io semicolon block => exact parse_block_loop_total rec m hrec sr io semicolon block d hf hp ha hm1
  | parse_block_comments block => exact parse_block_comments_total rec m hrec block d hf hp ha hm1
  | parse_rule => exact parse_rule_total rec m hrec d hf hp ha hm1
  | parse_list => exact parse_list_total rec m hrec d hf hp ha hm1
  | parse_comma_list => exact parse_comma_list_total rec m hrec d hf hp ha hm1
  | parse_comma_list_loop l => exact parse_comma_list_loop_total rec m hrec l d hf hp ha hm1
  | parse_space_list => exact parse_space_list_total rec m hrec d hf hp ha hm1
  | parse_space_list_loop l => exact parse_space_list_loop_total rec m hrec l d hf hp ha hm1
  | parse_disjunction => exact parse_disjunction_total rec m hrec d hf hp ha hm1
  | parse_disjunction_loop l => exact parse_disjunction_loop_total rec m hrec l d hf hp ha hm1
  | parse_conjunction => exact parse_conjunction_total rec m hrec d hf hp ha hm1
  | parse_conjunction_loop l => exact parse_conjunction_loop_total rec m hrec l d hf hp ha hm1
  | parse_relation => exact parse_relation_total rec m hrec d hf hp ha hm1
  | parse_expression => exact parse_expression_total rec m hrec d hf hp ha hm1
  | parse_expression_loop e => exact parse_expression_loop_total rec m hrec e d hf hp ha hm1
  | parse_term => exact parse_term_total rec m hrec d hf hp ha hm1
  | parse_term_loop t => exact parse_term_loop_total rec m hrec t d hf hp ha hm1
  | parse_factor => exact parse_factor_total rec m hrec d hf hp ha hm1
  | parse_value => exact parse_value_total rec m hrec d hf hp ha hm1
  | parse_string => exact parse_string_total rec m hrec d hf hp ha hm1
  | parse_string_loop str i schema => exact parse_string_loop_total rec m hrec str i schema d hf hp ha hm1
  | parse_value_schema => exact parse_value_schema_total rec m hrec d hf hp ha hm1
  | parse_value_schema_loop schema => exact parse_value_schema_loop_total rec m hrec schema d hf hp ha hm1
  | parse_identifier_schema => exact parse_identifier_schema_total rec m hrec d hf hp ha hm1
  | parse_identifier_schema_loop id i schema => exact parse_identifier_schema_loop_total rec m hrec id i schema d hf hp ha hm1
  | parse_function_call => exact parse_function_call_total rec m hrec d hf hp ha hm1
  | parse_if_directive sr io => exact parse_if_directive_total rec m hrec sr io d hf hp ha hm1
  | parse_if_directive_loop sr io c => exact parse_if_directive_loop_total rec m hrec sr io c d hf hp ha hm1
  | parse_for_directive sr io => exact parse_for_directive_total rec m hrec sr io d hf hp ha hm1
  | parse_each_directive sr io => exact parse_each_directive_total rec m hrec sr io d hf hp ha hm1
  | parse_while_directive sr io => exact parse_while_directive_total rec m hrec sr io d hf hp ha hm1
  | parse_directive sr io => exact parse_directive_total rec m hrec sr io d hf hp ha hm1
  | parse_media_query io => exact parse_media_query_total rec m hrec io d hf hp ha hm1
  | parse_media_query_loop g => exact parse_media_query_loop_total rec m hrec g d hf hp ha hm1
  | parse_media_expression => exact parse_media_expression_total rec m hrec d hf hp ha hm1
  | parse_media_expression_loop e => exact parse_media_expression_loop_total rec m hrec e d hf hp ha hm1
  | parse_warning => exact parse_warning_total rec m hrec d hf hp ha hm1

/-- With fuel above the measure of a call the parser returns or raises, and advances. -/
theorem parse_total (fuel : Nat) : Terminates (parse fuel) fuel := by
  induction fuel with
  | zero =>
    intro c d _ _ _ hm
    omega
  | succ n ih =>
    intro c d hf hp ha hm
    rw [parse_succ]
    exact step_terminates (parse n) n ih c d hf hp ha hm

/-! ### Termination of the parser -/

/-- C33 fails in two ways.  A descent into a nested production can return without
moving the cursor and without raising: `parse_list` at `;` returns the `nil` node with
the cursor where it was, `parse_parameters` and `parse_arguments` return an empty node
where no `(` follows, and the run of `parse_scss` on `a { b: ; }` goes through such a
descent and returns a root.  And a run can end in neither a root nor a syntax error:
on `#{a} "#{b;" { c: d; }` the scanner of `parse_selector_schema` finds no `}` for the
second `#{`, and the source reads through the null pointer. -/
theorem descent_without_advance :
    run_cursor 10 .parse_list "; x" = .ok (inner .nil [], 0) ∧
    run_cursor 10 .parse_parameters " \x7b \x7d" = .ok (inner .parameters [], 0) ∧
    run_cursor 10 .parse_arguments "; x" = .ok (inner .arguments [], 0) ∧
    run 100 .parse_scss "a \x7b b: ; \x7d" = .ok (inner .root [inner .ruleset
      [leaf .simple_selector 0 1,
       inner .block [inner .rule [leaf .property 4 5, inner .nil []]]]]) ∧
    lookahead_for_selector (Document.of_string "#\x7ba\x7d \"#\x7bb;\" \x7b c: d; \x7d") 0 =
      ⟨some 11, true⟩ ∧
    run 100 .parse_scss "#\x7ba\x7d \"#\x7bb;\" \x7b c: d; \x7d" = .error .undefined := by
  decide!

/-- C33 (amended): in a state without files to load (a quoted-path `@import` then raises
the read error) and with the cursor within the buffer, every production that is called
as its callers call it (`Call.admits`) with fuel above its measure (one hundred for each
byte after the position it works from, plus its rank) returns or raises: the fuel does
not run out.  When it returns, the cursor is within the buffer and not before the cursor
of the call, and after it when the production is strict (`Call.strict`: the bodies of
the loops without a match of their own are strict); `parse_scss` returns a root.  What it
raises is a syntax error, the read error, or the read through the null pointer of
`parse_selector_schema`. -/
theorem parse_terminates (fuel : Nat) (c : Call) (d : Document)
    (hf : d.context.files = []) (hp : d.position ≤ d.source.length) (ha : c.admits d)
    (hm : c.measure d < fuel) :
    (∃ n d1, parse fuel c d = .ok (n, d1) ∧ d1.past d c.strict ∧
      (c = .parse_scss → n.type = .root)) ∨
    (∃ message line, parse fuel c d = .error (.syntax_error message line)) ∨
    (∃ path, parse fuel c d = .error (.read_error path)) ∨
    parse fuel c d = .error .undefined := by
  have h := parse_total fuel c d hf hp ha hm
  unfold Parser.total at h
  cases hx : parse fuel c d with
  | ok r =>
    obtain ⟨n, d1⟩ := r
    rw [hx] at h
    refine Or.inl ⟨n, d1, rfl, ⟨h.1, h.2.1, h.2.2.1, h.2.2.2.1, h.2.2.2.2⟩, ?_⟩
    intro hc
    subst hc
    exact parse_scss_kind fuel d n d1 hx
  | error e =>
    rw [hx] at h
    cases e with
    | syntax_error message line => exact Or.inr (Or.inl ⟨message, line, rfl⟩)
    | read_error path => exact Or.inr (Or.inr (Or.inl ⟨path, rfl⟩))
    | out_of_fuel => exact absurd rfl h
    | undefined => exact Or.inr (Or.inr (Or.inr rfl))

/-- C33 (amended) at `a { b: c; }`: the measure of `parse_scss` at the start of the
eleven bytes is 1165, and with 1166 units of fuel the run returns a root, or raises. -/
theorem parse_terminates_witness :
    (Document.of_string "a \x7b b: c; \x7d").context.files = [] ∧
    (Document.of_string "a \x7b b: c; \x7d").position ≤
      (Document.of_string "a \x7b b: c; \x7d").source.length ∧
    Call.parse_scss.measure (Document.of_string "a \x7b b: c; \x7d") = 1165 ∧
    ((∃ n d1, parse 1166 .parse_scss (Document.of_string "a \x7b b: c; \x7d") = .ok (n, d1) ∧
        d1.past (Document.of_string "a \x7b b: c; \x7d") Call.parse_scss.strict ∧
        (Call.parse_scss = .parse_scss → n.type = .root)) ∨
      (∃ message line, parse 1166 .parse_scss (Document.of_string "a \x7b b: c; \x7d") =
        .error (.syntax_error message line)) ∨
      (∃ path, parse 1166 .parse_scss (Document.of_string "a \x7b b: c; \x7d") =
        .error (.read_error path)) ∨
      parse 1166 .parse_scss (Document.of_string "a \x7b b: c; \x7d") = .error .undefined) :=
  ⟨rfl, by decide, by decide,
    parse_terminates 1166 .parse_scss (Document.of_string "a \x7b b: c; \x7d") rfl
      (by decide) trivial (by decide)⟩

/-! ### The look-ahead walks the selector tokens -/

theorem selector_step_bounds (d : Document) (p q : Nat) (h : selector_step d p = some q) :
    p < q ∧ q ≤ d.source.length := by
  have hc : Prelexer.Consuming selector_token := by
    unfold selector_token
    infer_instance
  exact peek_at_bounds _ selector_token d p q h

/-- With fuel for every byte left, the loop of the look-ahead ends where no selector token
stands, and it comes there from its start by matching one selector token after another. -/
theorem lookahead_loop_reach (d : Document) (fuel p : Nat) (flag : Bool)
    (hf : d.source.length - p < fuel) :
    Relation.ReflTransGen (fun a b => selector_step d a = some b) p
      (lookahead_loop d fuel p flag).1 ∧
    selector_step d (lookahead_loop d fuel p flag).1 = none := by
  induction fuel generalizing p flag with
  | zero => omega
  | succ n ih =>
    rw [lookahead_loop_succ]
    cases hq : peek_at .spaces_and_comments selector_token d p with
    | none => exact ⟨.refl, hq⟩
    | some q =>
      obtain ⟨h1, h2⟩ := selector_step_bounds d p q hq
      obtain ⟨i1, i2⟩ := ih q
        (if (d.source.drop (q - 1)).head? = some '}' then true else flag) (by omega)
      exact ⟨Relation.ReflTransGen.head hq i1, i2⟩

theorem peek_at_lbrace (d : Document) (q : Nat) :
    (peek_at .spaces_and_comments (Prelexer.exactly '{') d q).isSome =
      decide ((after_whitespace .spaces_and_comments (d.source.drop q)).head? = some '{') := by
  unfold peek_at
  cases after_whitespace .spaces_and_comments (d.source.drop q) with
  | nil => rfl
  | cons c rest =>
    by_cases hc : c = '{'
    · subst hc
      rfl
    · simp [Prelexer.exactly, hc]

/-- C27, as written, fails when a space or a comment stands between the last selector
token and the `{`: for `a {` and for `a /* c */ {` the look-ahead returns the position 1,
right after `a`, where a space stands; the `{` stands at 2 and at 10. -/
theorem lookahead_found_counterexample :
    lookahead_for_selector (Document.of_string "a \x7b") 0 = ⟨some 1, false⟩ ∧
    ("a \x7b".toList.drop 1).head? = some ' ' ∧
    ("a \x7b".toList.drop 2).head? = some '{' ∧
    lookahead_for_selector (Document.of_string "a /* c */ \x7b") 0 = ⟨some 1, false⟩ ∧
    ("a /* c */ \x7b".toList.drop 10).head? = some '{' ∧
    lookahead_for_selector (Document.of_string "a\x7b") 0 = ⟨some 1, false⟩ ∧
    lookahead_for_selector (Document.of_string "a: b;") 0 = ⟨none, false⟩ := by
  decide!

/-- C27, amended: the look-ahead matches one selector token after another from its start
(each after the spaces and comments before it) until it comes to a position `q` where no
selector token stands; when the first byte after the spaces and comments that follow `q`
is `{`, it returns `q`, the position right after the last selector token matched, and
otherwise it returns no position.  The byte at the returned position is the `{` itself
when no space or comment stands there. -/
theorem lookahead_found (d : Document) (start : Nat) :
    ∃ q, Relation.ReflTransGen (fun a b => selector_step d a = some b) start q ∧
      selector_step d q = none ∧
      (lookahead_for_selector d start).found =
        (if (after_whitespace .spaces_and_comments (d.source.drop q)).head? = some '{'
          then some q else none) ∧
      (after_whitespace .spaces_and_comments (d.source.drop q) = d.source.drop q →
        ((lookahead_for_selector d start).found = some q ↔
          (d.source.drop q).head? = some '{')) := by
  obtain ⟨h1, h2⟩ := lookahead_loop_reach d (d.source.length + 1) start false (by omega)
  have hfound : (lookahead_for_selector d start).found =
      (if (after_whitespace .spaces_and_comments (d.source.drop
          (lookahead_loop d (d.source.length + 1) start false).1)).head? = some '{'
        then some (lookahead_loop d (d.source.length + 1) start false).1 else none) := by
    unfold lookahead_for_selector
    simp only [peek_at_lbrace, decide_eq_true_eq]
  refine ⟨_, h1, h2, hfound, fun e => ?_⟩
  rw [hfound, e]
  by_cases hb : (d.source.drop (lookahead_loop d (d.source.length + 1) start false).1).head?
      = some '{'
  · simp [hb]
  · simp [hb]

/-- C27, amended, at the selector `a b` between spaces and a `{`: the look-ahead comes
from 0 over `a` and `b` to the position 5, right after `b`, where a space stands; no
selector token stands there, and the `{` follows the spaces. -/
theorem lookahead_found_witness :
    ∃ q, Relation.ReflTransGen
        (fun a b => selector_step (Document.of_string "  a b  \x7b") a = some b) 0 q ∧
      selector_step (Document.of_string "  a b  \x7b") q = none ∧
      (lookahead_for_selector (Document.of_string "  a b  \x7b") 0).found =
        (if (after_whitespace .spaces_and_comments
            ((Document.of_string "  a b  \x7b").source.drop q)).head? = some '{'
          then some q else none) ∧
      (after_whitespace .spaces_and_comments
          ((Document.of_string "  a b  \x7b").source.drop q) =
          (Document.of_string "  a b  \x7b").source.drop q →
        ((lookahead_for_selector (Document.of_string "  a b  \x7b") 0).found = some q ↔
          ((Document.of_string "  a b  \x7b").source.drop q).head? = some '{')) :=
  lookahead_found (Document.of_string "  a b  \x7b") 0

/-! ### The look-ahead at an interpolant -/

theorem lookahead_loop_flag (d : Document) (fuel p : Nat) :
    (lookahead_loop d fuel p true).2 = true := by
  induction fuel generalizing p with
  | zero => rfl
  | succ n ih =>
    rw [lookahead_loop_succ]
    cases peek_at .spaces_and_comments selector_token d p with
    | none => rfl
    | some q =>
      simp only [ite_self]
      exact ih q

/-- The loop of the look-ahead comes through every position that the selector tokens
lead to, with fuel left for every byte after it. -/
theorem lookahead_loop_through (d : Document) (start p : Nat)
    (hreach : Relation.ReflTransGen (fun a b => selector_step d a = some b) start p) :
    ∀ fuel flag, d.source.length - start < fuel →
      ∃ fuel1 flag1, d.source.length - p < fuel1 ∧
        lookahead_loop d fuel start flag = lookahead_loop d fuel1 p flag1 := by
  induction hreach using Relation.ReflTransGen.head_induction_on with
  | refl =>
    intro fuel flag hf
    exact ⟨fuel, flag, hf, rfl⟩
  | head hab _ ih =>
    intro fuel flag hf
    obtain ⟨n, rfl⟩ : ∃ n, fuel = n + 1 := ⟨fuel - 1, by omega⟩
    obtain ⟨h1, h2⟩ := selector_step_bounds d _ _ hab
    have hab2 : peek_at .spaces_and_comments selector_token d _ = some _ := hab
    rw [lookahead_loop_succ, hab2]
    exact ih n _ (by omega)

theorem delimited_scan_rbrace (tail : List Char) (h : '}' ∈ tail) (fuel : Nat) (prev : Char)
    (hf : tail.length < fuel) :
    ∃ pre post, tail = pre ++ '}' :: post ∧
      Prelexer.delimited_scan ['}'] false fuel prev tail = some post := by
  induction tail generalizing fuel prev with
  | nil => cases h
  | cons c rest ih =>
    simp only [List.length_cons] at hf
    obtain ⟨n, rfl⟩ : ∃ n, fuel = n + 1 := ⟨fuel - 1, by omega⟩
    by_cases hc : c = '}'
    · subst hc
      exact ⟨[], rest, rfl, rfl⟩
    · have hm : '}' ∈ rest := by
        rcases List.mem_cons.1 h with e | e
        · exact absurd e.symm hc
        · exact e
      obtain ⟨pre, post, e, hs⟩ := ih hm n c (by omega)
      refine ⟨c :: pre, post, by rw [e]; rfl, ?_⟩
      simp only [Prelexer.delimited_scan, Prelexer.exactly_s, hc, if_false]
      exact hs

/-- An interpolant ends at the first `}` after its `#{`. -/
theorem interpolant_closed (tail : List Char) (h : '}' ∈ tail) :
    ∃ pre post, tail = pre ++ '}' :: post ∧
      Prelexer.interpolant ('#' :: '{' :: tail) = some post := by
  obtain ⟨pre, post, e, hs⟩ := delimited_scan_rbrace tail h (tail.length + 1) '{' (by omega)
  exact ⟨pre, post, e, hs⟩

theorem Prelexer.alternatives_skip (mx : Prelexer.prelexer) (mxs : List Prelexer.prelexer)
    (s : List Char) (h : mx s = none) :
    Prelexer.alternatives (mx :: mxs) s = Prelexer.alternatives mxs s := by
  simp only [Prelexer.alternatives, h]

theorem Prelexer.alternatives_hit (mx : Prelexer.prelexer) (mxs : List Prelexer.prelexer)
    (s r : List Char) (h : mx s = some r) :
    Prelexer.alternatives (mx :: mxs) s = some r := by
  simp only [Prelexer.alternatives, h]

theorem Prelexer.sequence_single (mx : Prelexer.prelexer) (s : List Char) :
    Prelexer.sequence [mx] s = mx s := by
  simp only [Prelexer.sequence]
  cases mx s <;> rfl

/-- The selector token at an interpolant, alone or right after `.`, `#`, `-`, `:` or
`::`, is the span that ends with the interpolant. -/
theorem selector_token_interpolant (lead tail post : List Char)
    (hlead : lead ∈ [[], ['.'], ['#'], ['-'], [':'], [':', ':']])
    (hi : Prelexer.interpolant ('#' :: '{' :: tail) = some post) :
    selector_token (lead ++ '#' :: '{' :: tail) = some post := by
  simp only [List.mem_cons, List.mem_singleton, List.not_mem_nil, or_false] at hlead
  rcases hlead with rfl | rfl | rfl | rfl | rfl | rfl
  · unfold selector_token
    iterate 24 refine (Prelexer.alternatives_skip _ _ _ rfl).trans ?_
    exact Prelexer.alternatives_hit _ _ _ _ hi
  · unfold selector_token
    iterate 20 refine (Prelexer.alternatives_skip _ _ _ rfl).trans ?_
    refine Prelexer.alternatives_hit _ _ _ _ ?_
    show Prelexer.sequence [Prelexer.interpolant] ('#' :: '{' :: tail) = some post
    rw [Prelexer.sequence_single, hi]
  · unfold selector_token
    iterate 21 refine (Prelexer.alternatives_skip _ _ _ rfl).trans ?_
    refine Prelexer.alternatives_hit _ _ _ _ ?_
    show Prelexer.sequence [Prelexer.interpolant] ('#' :: '{' :: tail) = some post
    rw [Prelexer.sequence_single, hi]
  · unfold selector_token
    iterate 22 refine (Prelexer.alternatives_skip _ _ _ rfl).trans ?_
    refine Prelexer.alternatives_hit _ _ _ _ ?_
    show Prelexer.sequence [Prelexer.interpolant] ('#' :: '{' :: tail) = some post
    rw [Prelexer.sequence_single, hi]
  · unfold selector_token
    iterate 23 refine (Prelexer.alternatives_skip _ _ _ rfl).trans ?_
    refine Prelexer.alternatives_hit _ _ _ _ ?_
    show Prelexer.sequence [Prelexer.interpolant] ('#' :: '{' :: tail) = some post
    rw [Prelexer.sequence_single, hi]
  · unfold selector_token
    iterate 23 refine (Prelexer.alternatives_skip _ _ _ rfl).trans ?_
    refine Prelexer.alternatives_hit _ _ _ _ ?_
    show Prelexer.sequence [Prelexer.interpolant] ('#' :: '{' :: tail) = some post
    rw [Prelexer.sequence_single, hi]

/-- One turn of the look-ahead at an interpolant: the token ends with the `}` of the
interpolant. -/
theorem selector_step_interpolant (d : Document) (p : Nat) (lead tail : List Char)
    (hlead : lead ∈ [[], ['.'], ['#'], ['-'], [':'], [':', ':']])
    (htext : after_whitespace .spaces_and_comments (d.source.drop p) =
      lead ++ '#' :: '{' :: tail)
    (hclose : '}' ∈ tail) :
    ∃ q, selector_step d p = some q ∧ (d.source.drop (q - 1)).head? = some '}' := by
  obtain ⟨pre, post, e, hi⟩ := interpolant_closed tail hclose
  have hm := selector_token_interpolant lead tail post hlead hi
  refine ⟨d.offset post, ?_, ?_⟩
  · unfold selector_step peek_at
    rw [htext, hm]
  · obtain ⟨x, hx⟩ := after_whitespace_suffix .spaces_and_comments (d.source.drop p)
    obtain ⟨a, ha⟩ : ∃ a, d.source = a ++ '}' :: post := by
      refine ⟨d.source.take p ++ x ++ lead ++ '#' :: '{' :: pre, ?_⟩
      conv_lhs => rw [← List.take_append_drop p d.source, ← hx, htext, e]
      simp
    have hl : d.offset post - 1 = a.length := by
      simp only [Document.offset, ha, List.length_append, List.length_cons]
      omega
    rw [hl, ha, List.drop_left]
    rfl

/-- C4, amended: when the look-ahead of a ruleset header, matching one selector token
after another from the cursor, comes to a position where an interpolant `#{…}` stands as a
token, alone or right after `.`, `#`, `-`, `:` or `::` (so not inside a quoted string or a
comment), it reports `has_interpolants`, and the first child of the ruleset that
`parse_ruleset` returns for the header is a `selector_schema` node. -/
theorem parse_ruleset_schema (fuel : Nat) (inside_of : NodeType) (d d1 : Document) (n : Node)
    (p : Nat) (lead tail : List Char)
    (hreach : Relation.ReflTransGen (fun a b => selector_step d a = some b) d.position p)
    (hlead : lead ∈ [[], ['.'], ['#'], ['-'], [':'], [':', ':']])
    (htext : after_whitespace .spaces_and_comments (d.source.drop p) =
      lead ++ '#' :: '{' :: tail)
    (hclose : '}' ∈ tail)
    (h : parse (fuel + 1) (.parse_ruleset (lookahead_for_selector d d.position) inside_of) d
      = .ok (n, d1)) :
    (lookahead_for_selector d d.position).has_interpolants = true ∧
    ∃ sel block, n.children = [sel, block] ∧ sel.type = .selector_schema := by
  have hi : (lookahead_for_selector d d.position).has_interpolants = true := by
    obtain ⟨fuel1, flag1, hf, e⟩ := lookahead_loop_through d d.position p hreach
      (d.source.length + 1) false (by omega)
    obtain ⟨q, hq, hb⟩ := selector_step_interpolant d p lead tail hlead htext hclose
    obtain ⟨m, rfl⟩ : ∃ m, fuel1 = m + 1 := ⟨fuel1 - 1, by omega⟩
    have hq2 : peek_at .spaces_and_comments selector_token d p = some q := hq
    unfold lookahead_for_selector
    simp only [e]
    rw [lookahead_loop_succ, hq2]
    simp only [hb, if_true]
    exact lookahead_loop_flag d m q
  obtain ⟨_, sel, block, hc, _, hs, _⟩ := parse_ruleset_shape fuel _ inside_of d n d1 h
  exact ⟨hi, sel, block, hc, hs hi⟩

/-- C4, amended, at `a#{b} { x: 1 }`: the look-ahead comes from 0 over `a` to the position
1, where the interpolant `#{b}` stands; it reports interpolants, and the first child of
the ruleset is the schema with the fragments `a` and `b`. -/
theorem parse_ruleset_schema_witness :
    (lookahead_for_selector (Document.of_string "a#{b} { x: 1 }") 0).has_interpolants = true ∧
    ∃ sel block,
      (inner .ruleset
        [inner .selector_schema [leaf .identifier 0 1, (leaf .identifier 3 4).set_should_eval true],
         inner .block [inner .rule [leaf .property 8 9, leaf .textual_number 11 12]]]).children
        = [sel, block] ∧ sel.type = .selector_schema :=
  parse_ruleset_schema 99 .none (Document.of_string "a#{b} { x: 1 }")
    { Document.of_string "a#{b} { x: 1 }" with position := 14, lexed := ⟨13, 14⟩ } _
    1 [] "b\x7d \x7b x: 1 \x7d".toList
    (Relation.ReflTransGen.single (by decide!)) (by decide) (by decide!) (by decide)
    (by decide!)

/-! ### The `should_eval` flag -/

theorem Node.asks_eq (n : Node) :
    n.asks = (n.type.computes || n.should_eval || Node.asks_any n.children) := by
  cases n
  simp [Node.asks]

theorem Node.marked_eq (n : Node) :
    n.marked = Node.marked_all (decide (n.type = .assignment)) n.children := by
  cases n
  simp [Node.marked]

@[simp] theorem Node.asks_any_nil : Node.asks_any [] = false := by
  simp [Node.asks_any]

@[simp] theorem Node.marked_all_nil (name : Bool) : Node.marked_all name [] = true := by
  simp [Node.marked_all]

@[simp] theorem Node.asks_any_cons (c : Node) (cs : List Node) :
    Node.asks_any (c :: cs) = (c.asks || Node.asks_any cs) := by
  simp [Node.asks_any]

@[simp] theorem Node.marked_all_cons (name : Bool) (c : Node) (cs : List Node) :
    Node.marked_all name (c :: cs) =
      ((Node.exempt name c || c.settled) && c.marked && Node.marked_all false cs) := by
  simp [Node.marked_all]

@[simp] theorem Node.asks_any_append (cs ds : List Node) :
    Node.asks_any (cs ++ ds) = (Node.asks_any cs || Node.asks_any ds) := by
  induction cs with
  | nil => simp
  | cons c cs ih => simp [ih, Bool.or_assoc]

@[simp] theorem Node.marked_all_append (cs ds : List Node) :
    Node.marked_all false (cs ++ ds) = (Node.marked_all false cs && Node.marked_all false ds) := by
  induction cs with
  | nil => simp
  | cons c cs ih => simp [ih, Bool.and_assoc]

theorem Node.exempt_mono (name : Bool) (c : Node) (h : Node.exempt false c = true) :
    Node.exempt name c = true := by
  simp only [Node.exempt, Bool.false_and, Bool.or_false, decide_eq_true_eq] at h
  simp [Node.exempt, h]

/-- Children that are `marked` and `settled` under a list are so under every node. -/
theorem Node.marked_all_mono (name : Bool) (cs : List Node)
    (h : Node.marked_all false cs = true) : Node.marked_all name cs = true := by
  cases cs with
  | nil => simp
  | cons c cs =>
    simp only [Node.marked_all_cons, Bool.and_eq_true, Bool.or_eq_true] at h ⊢
    refine ⟨⟨?_, h.1.2⟩, h.2⟩
    rcases h.1.1 with h1 | h1
    · exact Or.inl (Node.exempt_mono name c h1)
    · exact Or.inr h1

theorem Node.marked_of_children {n : Node} (h : Node.marked_all false n.children = true) :
    n.marked = true := by
  rw [Node.marked_eq]
  exact Node.marked_all_mono _ _ h

@[simp] theorem Node.marked_set_should_eval (n : Node) (b : Bool) :
    (n.set_should_eval b).marked = n.marked := by
  rw [Node.marked_eq, Node.marked_eq]
  rfl

theorem Node.settled_of_should_eval {n : Node} (h : n.should_eval = true) :
    n.settled = true := by
  simp [Node.settled, h]

@[simp] theorem Node.settled_set_should_eval (n : Node) :
    (n.set_should_eval true).settled = true :=
  Node.settled_of_should_eval rfl

theorem NodeType.computes_of_evaluated {t : NodeType} (h : t.evaluated = true) :
    t.computes = true := by
  cases t <;> first | rfl | cases h

theorem Node.settled_of_top {n : Node} (h : n.top) : n.settled = true := by
  simp only [Node.settled, Bool.or_eq_true, Bool.not_eq_true']
  by_cases hs : n.should_eval = true
  · exact Or.inr hs
  · left
    by_contra hc
    apply hs
    apply h
    simp only [Bool.not_eq_false, Bool.or_eq_true, decide_eq_true_eq] at hc
    rcases hc with (hc | hc) | hc
    · exact Or.inl (NodeType.computes_of_evaluated hc)
    · exact Or.inl (by rw [hc]; rfl)
    · exact Or.inr hc

/-- A node with the property `top` that calls for evaluation is marked. -/
theorem Node.should_eval_of_asks {n : Node} (h : n.top) (ha : n.asks = true) :
    n.should_eval = true := by
  rw [Node.asks_eq] at ha
  simp only [Bool.or_eq_true] at ha
  rcases ha with (ha | ha) | ha
  · exact h (Or.inl ha)
  · exact ha
  · exact h (Or.inr ha)

theorem Node.top_of_should_eval {n : Node} (h : n.should_eval = true) : n.top :=
  fun _ => h

/-- A child to push: a `marked` tree whose root has the property `top`. -/
theorem Node.marked_all_push {acc c : Node} (h : Node.marked_all false acc.children = true)
    (hc : c.marked = true) (ht : c.settled = true) :
    Node.marked_all false (acc.push_back c).children = true := by
  simp [h, hc, ht]

theorem Node.partly_marked_push {acc c : Node} (h : acc.partly_marked)
    (hc : c.marked = true) (ht : c.top) :
    ((acc.push_back c).set_should_eval ((acc.push_back c).should_eval || c.should_eval)).partly_marked
    := by
  obtain ⟨h1, h2⟩ := h
  constructor
  · exact Node.marked_all_push h1 hc (Node.settled_of_top ht)
  · simp only [Node.set_should_eval_children, Node.push_back_children, Node.asks_any_append,
      Node.asks_any_cons, Node.asks_any_nil, Bool.or_false, Bool.or_eq_true]
    intro h
    simp only [Node.set_should_eval, Node.push_back, Bool.or_eq_true]
    rcases h with h | h
    · exact Or.inl (h2 h)
    · exact Or.inr (Node.should_eval_of_asks ht h)

theorem Node.top_of_partly_marked {n : Node} (h : n.partly_marked)
    (ht : n.type.computes = false) : n.marked = true ∧ n.top := by
  obtain ⟨h1, h2⟩ := h
  refine ⟨Node.marked_of_children h1, ?_⟩
  intro hc
  rcases hc with hc | hc
  · rw [ht] at hc
    cases hc
  · exact h2 hc

@[simp] theorem Node.marked_leaf (t : NodeType) (p : List Char) (l : Nat) (k : Token)
    (b s : Bool) : Node.marked ⟨t, p, l, k, b, s, []⟩ = true := by
  simp [Node.marked]

@[simp] theorem Node.settled_leaf (t : NodeType) (p : List Char) (l : Nat) (k : Token)
    (b s : Bool) : Node.settled ⟨t, p, l, k, b, s, []⟩ =
      (!(t.evaluated || decide (t = .variable_)) || s) := by
  simp [Node.settled]

@[simp] theorem Node.asks_leaf (t : NodeType) (p : List Char) (l : Nat) (k : Token)
    (b s : Bool) : Node.asks ⟨t, p, l, k, b, s, []⟩ = (t.computes || s) := by
  simp [Node.asks]

theorem Node.top_leaf (t : NodeType) (p : List Char) (l : Nat) (k : Token) (b : Bool)
    (h : t.computes = false) : Node.top ⟨t, p, l, k, b, false, []⟩ := by
  intro hc
  simp [h] at hc

@[simp] theorem Node.set_should_eval_mk (t : NodeType) (p : List Char) (l : Nat) (k : Token)
    (b s : Bool) (cs : List Node) (v : Bool) :
    Node.set_should_eval ⟨t, p, l, k, b, s, cs⟩ v = ⟨t, p, l, k, b, v, cs⟩ := rfl

theorem Node.set_first_should_eval_should_eval (n : Node) :
    n.set_first_should_eval.should_eval = n.should_eval := by
  unfold Node.set_first_should_eval
  split <;> rfl

theorem Node.marked_all_set_first {n : Node} (h : Node.marked_all false n.children = true) :
    Node.marked_all false n.set_first_should_eval.children = true := by
  unfold Node.set_first_should_eval
  split
  · rename_i c cs hc
    rw [hc] at h
    simp only [Node.marked_all_cons, Bool.and_eq_true] at h ⊢
    have hs : (c.set_should_eval true).settled = true := Node.settled_of_should_eval rfl
    exact ⟨⟨by simp [hs], by simpa using h.1.2⟩, h.2⟩
  · exact h

/-- A marked node over `marked` and `settled` children is a value as the productions
return it. -/
theorem Node.sound_of_should_eval {n : Node} (h : Node.marked_all false n.children = true)
    (hs : n.should_eval = true) : n.marked = true ∧ n.top :=
  ⟨Node.marked_of_children h, Node.top_of_should_eval hs⟩

/-- The children of a value as the productions return it are `marked` and `settled`,
unless the value is an `assignment`. -/
theorem Node.children_of_marked {n : Node} (h : n.marked = true)
    (ht : n.type ≠ .assignment) : Node.marked_all false n.children = true := by
  rw [Node.marked_eq] at h
  simpa [ht] using h

/-! ### The tokens of a value schema -/

theorem schema_tokens_trans {s r t : List Char} (h1 : schema_tokens s r)
    (h2 : schema_tokens r t) : schema_tokens s t := by
  induction h1 with
  | done s => exact h2
  | token s r1 _ hm _ ih => exact .token s r1 t hm (ih h2)

theorem Prelexer.isspace_cases (c : Char) (h : Prelexer.isspace c = true) :
    c = ' ' ∨ c = Char.ofNat 9 ∨ c = Char.ofNat 10 ∨ c = Char.ofNat 11 ∨ c = Char.ofNat 12 ∨
      c = Char.ofNat 13 := by
  simp only [Prelexer.isspace, Bool.or_eq_true, decide_eq_true_eq, Bool.and_eq_true] at h
  rcases h with h | ⟨h9, h13⟩
  · exact Or.inl h
  · right
    have hc : Char.ofNat c.toNat = c := Char.ofNat_toNat c
    rw [← hc]
    generalize c.toNat = n at h9 h13
    interval_cases n <;> decide

/-- A token of a value schema does not start with a space or with `/`: `lex` skips
nothing before it. -/
theorem schema_token_head (s r : List Char) (h : schema_token s = some r) :
    after_whitespace .spaces_and_comments s = s := by
  cases s with
  | nil => cases h
  | cons c rest =>
    by_cases h1 : Prelexer.isspace c = true
    · exfalso
      have hn : schema_token (c :: rest) = none := by
        rcases Prelexer.isspace_cases c h1 with rfl | rfl | rfl | rfl | rfl | rfl <;> rfl
      rw [hn] at h
      cases h
    · by_cases h2 : c = '/'
      · subst h2
        cases h
      · exact after_whitespace_self c rest (by simpa using h1) h2

theorem Prelexer.interpolant_head (s r : List Char) (h : Prelexer.interpolant s = some r) :
    ∃ rest, s = '#' :: '{' :: rest := by
  unfold Prelexer.interpolant Prelexer.delimited_by at h
  split at h
  · rename_i rest hm
    exact ⟨rest, (Prelexer.exactly_s_eq_some _ _ _).1 hm⟩
  · cases h

theorem Prelexer.hex_head (s r : List Char) (h : Prelexer.hex s = some r) :
    ∃ rest, s = '#' :: rest := by
  cases s with
  | nil => cases h
  | cons c rest =>
    by_cases hc : c = '#'
    · exact ⟨rest, by rw [hc]⟩
    · simp [Prelexer.hex, Prelexer.sequence, Prelexer.exactly, hc] at h

/-- A literal token that the matcher `value_schema` takes is taken whole by the loop of
`parse_value_schema`. -/
theorem schema_token_of_literal (s r : List Char)
    (h : Prelexer.alternatives [Prelexer.identifier, Prelexer.percentage, Prelexer.dimension,
      Prelexer.hex, Prelexer.number, Prelexer.string_constant] s = some r) :
    schema_token s = some r := by
  have hi : Prelexer.interpolant s = none := by
    cases hs : Prelexer.interpolant s with
    | none => rfl
    | some x =>
      obtain ⟨rest, rfl⟩ := Prelexer.interpolant_head s x hs
      cases h
  unfold schema_token
  rw [Prelexer.alternatives_skip _ _ _ hi]
  cases h1 : Prelexer.identifier s with
  | some a =>
    rw [Prelexer.alternatives_hit _ _ _ _ h1] at h ⊢
    exact h
  | none =>
    rw [Prelexer.alternatives_skip _ _ _ h1] at h ⊢
    cases h2 : Prelexer.percentage s with
    | some a =>
      rw [Prelexer.alternatives_hit _ _ _ _ h2] at h ⊢
      exact h
    | none =>
      rw [Prelexer.alternatives_skip _ _ _ h2] at h ⊢
      cases h3 : Prelexer.dimension s with
      | some a =>
        rw [Prelexer.alternatives_hit _ _ _ _ h3] at h ⊢
        exact h
      | none =>
        rw [Prelexer.alternatives_skip _ _ _ h3] at h ⊢
        cases h4 : Prelexer.hex s with
        | some a =>
          obtain ⟨rest, rfl⟩ := Prelexer.hex_head s a h4
          have h5 : Prelexer.number ('#' :: rest) = none := rfl
          rw [Prelexer.alternatives_hit _ _ _ _ h4] at h
          rw [Prelexer.alternatives_skip _ _ _ h5, Prelexer.alternatives_hit _ _ _ _ h4]
          exact h
        | none =>
          rw [Prelexer.alternatives_skip _ _ _ h4] at h
          cases h5 : Prelexer.number s with
          | some a =>
            rw [Prelexer.alternatives_hit _ _ _ _ h5] at h ⊢
            exact h
          | none =>
            rw [Prelexer.alternatives_skip _ _ _ h5] at h ⊢
            rw [Prelexer.alternatives_skip _ _ _ h4]
            exact h

theorem star_literal_tokens (fuel : Nat) (s : List Char) :
    schema_tokens s (Prelexer.star (Prelexer.alternatives [Prelexer.identifier,
      Prelexer.percentage, Prelexer.dimension, Prelexer.hex, Prelexer.number,
      Prelexer.string_constant]) fuel s) := by
  induction fuel generalizing s with
  | zero => exact .done s
  | succ n ih =>
    unfold Prelexer.star
    split
    · rename_i rest hm
      have hs := schema_token_of_literal s rest hm
      exact .token s rest _ (by rw [schema_token_head s rest hs]; exact hs) (ih rest)
    · exact .done s

/-- One part of a value schema, literal tokens around an interpolant, is made of tokens of
a value schema. -/
theorem schema_part_tokens (s r : List Char)
    (h : Prelexer.sequence
      [Prelexer.zero_plus (Prelexer.alternatives [Prelexer.identifier, Prelexer.percentage,
         Prelexer.dimension, Prelexer.hex, Prelexer.number, Prelexer.string_constant]),
       Prelexer.interpolant,
       Prelexer.zero_plus (Prelexer.alternatives [Prelexer.identifier, Prelexer.percentage,
         Prelexer.dimension, Prelexer.hex, Prelexer.number, Prelexer.string_constant])] s
      = some r) : schema_tokens s r := by
  simp only [Prelexer.sequence, Prelexer.zero_plus] at h
  split at h
  · rename_i s2 hi
    cases h
    have hs : schema_token _ = some s2 := Prelexer.alternatives_hit _ _ _ _ hi
    exact schema_tokens_trans (star_literal_tokens _ s)
      (.token _ s2 _ (by rw [schema_token_head _ s2 hs]; exact hs) (star_literal_tokens _ s2))
  · cases h

theorem star_schema_tokens (fuel : Nat) (s : List Char) :
    schema_tokens s (Prelexer.star (Prelexer.sequence
      [Prelexer.zero_plus (Prelexer.alternatives [Prelexer.identifier, Prelexer.percentage,
         Prelexer.dimension, Prelexer.hex, Prelexer.number, Prelexer.string_constant]),
       Prelexer.interpolant,
       Prelexer.zero_plus (Prelexer.alternatives [Prelexer.identifier, Prelexer.percentage,
         Prelexer.dimension, Prelexer.hex, Prelexer.number, Prelexer.string_constant])])
      fuel s) := by
  induction fuel generalizing s with
  | zero => exact .done s
  | succ n ih =>
    unfold Prelexer.star
    split
    · rename_i rest hm
      exact schema_tokens_trans (schema_part_tokens s rest hm) (ih rest)
    · exact .done s

/-- The text that the matcher `value_schema` takes is made of tokens of a value schema. -/
theorem value_schema_tokens (s r : List Char) (h : Prelexer.value_schema s = some r) :
    schema_tokens s r := by
  unfold Prelexer.value_schema Prelexer.one_plus at h
  split at h
  · rename_i rest hm
    cases h
    exact schema_tokens_trans (schema_part_tokens s rest hm) (star_schema_tokens _ rest)
  · cases h

theorem schema_token_suffix (s r : List Char) (h : schema_token s = some r) : r <:+ s := by
  have hf : Prelexer.Forward schema_token := by
    unfold schema_token
    infer_instance
  exact hf.suffix s r h

/-- The state in which `parse_value` starts the parser of a value schema. -/
theorem Document.in_schema_of_lex (d : Document)
    (h : d.sees .spaces_and_comments Prelexer.value_schema = true) (c : Context) :
    Document.in_schema
      { d.lexed_with .spaces_and_comments Prelexer.value_schema with
        position := (d.lexed_with .spaces_and_comments Prelexer.value_schema).lexed.begin
        end_ := (d.lexed_with .spaces_and_comments Prelexer.value_schema).lexed.end_
        lexed := Token.make
        context := c } := by
  unfold Document.sees at h
  cases hm : Prelexer.value_schema (after_whitespace .spaces_and_comments
      (d.source.drop d.position)) with
  | none =>
    rw [hm] at h
    cases h
  | some r =>
    have hsuf := d.skipped_suffix .spaces_and_comments
    have hr : r <:+ d.source := (Prelexer.forward_value_schema.suffix _ _ hm).trans hsuf
    unfold Document.lexed_with
    simp only [hm]
    refine ⟨?_, r, hr, rfl, ?_⟩
    · show d.offset _ ≤ d.source.length
      unfold Document.offset
      omega
    · show schema_tokens (d.source.drop (d.offset _)) r
      rw [d.drop_offset _ hsuf]
      exact value_schema_tokens _ r hm

/-- One turn of the loop of `parse_value_schema` in a value schema, before its end: a
token of a value schema stands at the cursor, and the state after it is in the value
schema. -/
theorem Document.in_schema_step (d : Document) (h : d.in_schema) (hb : d.position < d.end_) :
    ∃ r, schema_token d.ahead = some r ∧
      ∀ (c : Context) (l : Nat) (k : Token),
        Document.in_schema { d with position := d.offset r, line := l, lexed := k, context := c }
    := by
  obtain ⟨hp, t, ht, he, hs⟩ := h
  cases hs with
  | done =>
    exfalso
    rw [he] at hb
    unfold Document.offset at hb
    rw [List.length_drop] at hb
    omega
  | token _ r _ hm hrest =>
    have hr : r <:+ d.source :=
      (schema_token_suffix _ r hm).trans (d.skipped_suffix .spaces_and_comments)
    refine ⟨r, hm, fun c l k => ⟨?_, t, ht, he, ?_⟩⟩
    · show d.offset r ≤ d.source.length
      unfold Document.offset
      omega
    · show schema_tokens (d.source.drop (d.offset r)) t
      rw [d.drop_offset r hr]
      exact hrest

theorem step_eval_lists (rec : Call → Parser Node)
    (ih : ∀ c d, eval_pre c d → (rec c).post d (fun n _ => eval_post c n)) (d : Document) :
    (parse_comma_list rec).post d (fun n _ => eval_post .parse_comma_list n) ∧
    (parse_space_list rec).post d (fun n _ => eval_post .parse_space_list n) ∧
    (∀ acc, eval_pre (.parse_comma_list_loop acc) d →
      (parse_comma_list_loop rec acc).post d (fun n _ => eval_post (.parse_comma_list_loop acc) n)) ∧
    (∀ acc, eval_pre (.parse_space_list_loop acc) d →
      (parse_space_list_loop rec acc).post d (fun n _ => eval_post (.parse_space_list_loop acc) n))
    := by
  refine ⟨?_, ?_, ?_, ?_⟩
  · unfold parse_comma_list
    simp only [eval_post]
    simp [post_ite]
    constructor
    · intro _
      exact Node.top_leaf _ _ _ _ _ rfl
    · intro _ _ _ _
      refine post_mono (ih _ _ trivial) ?_
      intro l1 d1 h1
      simp only [eval_post] at h1
      constructor
      · intro _
        exact h1
      · intro _
        refine post_mono (ih _ _ ?_) ?_
        · simp only [eval_pre]
          have h0 : Node.partly_marked
              ⟨.comma_list, d1.path, d1.line, Token.make, false, false, []⟩ := by
            simp [Node.partly_marked]
          exact Node.partly_marked_push h0 h1.1 h1.2
        · intro n d2 h2
          simp only [eval_post] at h2
          exact Node.top_of_partly_marked h2.2 (by rw [h2.1]; rfl)
  · unfold parse_space_list
    simp only [eval_post]
    simp [post_ite]
    refine post_mono (ih _ _ trivial) ?_
    intro l1 d1 h1
    simp only [eval_post] at h1
    constructor
    · intro _
      exact h1
    · intro _
      refine post_mono (ih _ _ ?_) ?_
      · simp only [eval_pre]
        have h0 : Node.partly_marked
            ⟨.space_list, d1.path, d1.line, Token.make, false, false, []⟩ := by
          simp [Node.partly_marked]
        exact Node.partly_marked_push h0 h1.1 h1.2
      · intro n d2 h2
        simp only [eval_post] at h2
        exact Node.top_of_partly_marked h2.2 (by rw [h2.1]; rfl)
  · intro acc hpre
    unfold parse_comma_list_loop
    simp only [eval_post, eval_pre] at hpre ⊢
    simp [post_ite]
    constructor
    · intro _
      refine post_mono (ih _ _ trivial) ?_
      intro l1 d1 h1
      simp only [eval_post] at h1
      refine post_mono (ih _ _ ?_) ?_
      · simp only [eval_pre]
        exact Node.partly_marked_push hpre h1.1 h1.2
      · intro n d2 h2
        simp only [eval_post, Node.set_should_eval_type, Node.push_back_type] at h2
        exact h2
    · intro _
      exact hpre
  · intro acc hpre
    unfold parse_space_list_loop
    simp only [eval_post, eval_pre] at hpre ⊢
    simp [post_ite]
    constructor
    · intro _
      refine post_mono (ih _ _ trivial) ?_
      intro l1 d1 h1
      simp only [eval_post] at h1
      refine post_mono (ih _ _ ?_) ?_
      · simp only [eval_pre]
        exact Node.partly_marked_push hpre h1.1 h1.2
      · intro n d2 h2
        simp only [eval_post, Node.set_should_eval_type, Node.push_back_type] at h2
        exact h2
    · intro _
      exact hpre

theorem step_eval_connectives (rec : Call → Parser Node)
    (ih : ∀ c d, eval_pre c d → (rec c).post d (fun n _ => eval_post c n)) (d : Document) :
    (parse_disjunction rec).post d (fun n _ => eval_post .parse_disjunction n) ∧
    (parse_conjunction rec).post d (fun n _ => eval_post .parse_conjunction n) ∧
    (∀ acc, eval_pre (.parse_disjunction_loop acc) d →
      (parse_disjunction_loop rec acc).post d
        (fun n _ => eval_post (.parse_disjunction_loop acc) n)) ∧
    (∀ acc, eval_pre (.parse_conjunction_loop acc) d →
      (parse_conjunction_loop rec acc).post d
        (fun n _ => eval_post (.parse_conjunction_loop acc) n)) := by
  refine ⟨?_, ?_, ?_, ?_⟩
  · unfold parse_disjunction
    simp only [eval_post]
    simp [post_ite]
    refine post_mono (ih _ _ trivial) ?_
    intro l1 d1 h1
    simp only [eval_post] at h1
    constructor
    · intro _
      exact h1
    · intro _
      refine post_mono (ih _ _ ?_) ?_
      · simp only [eval_pre]
        simp [h1.1, Node.settled_of_top h1.2]
      · intro n d2 h2
        simp only [eval_post] at h2
        exact Node.sound_of_should_eval h2.2.1 h2.2.2
  · unfold parse_conjunction
    simp only [eval_post]
    simp [post_ite]
    refine post_mono (ih _ _ trivial) ?_
    intro l1 d1 h1
    simp only [eval_post] at h1
    constructor
    · intro _
      exact h1
    · intro _
      refine post_mono (ih _ _ ?_) ?_
      · simp only [eval_pre]
        simp [h1.1, Node.settled_of_top h1.2]
      · intro n d2 h2
        simp only [eval_post] at h2
        exact Node.sound_of_should_eval h2.2.1 h2.2.2
  · intro acc hpre
    unfold parse_disjunction_loop
    simp only [eval_post, eval_pre] at hpre ⊢
    simp [post_ite]
    constructor
    · intro _
      refine post_mono (ih _ _ trivial) ?_
      intro l1 d1 h1
      simp only [eval_post] at h1
      refine post_mono (ih _ _ ?_) ?_
      · simp only [eval_pre]
        simp [hpre, h1.1, Node.settled_of_top h1.2]
      · intro n d2 h2
        simp only [eval_post, Node.push_back_type] at h2
        exact h2
    · intro _
      exact ⟨hpre, rfl⟩
  · intro acc hpre
    unfold parse_conjunction_loop
    simp only [eval_post, eval_pre] at hpre ⊢
    simp [post_ite]
    constructor
    · intro _
      refine post_mono (ih _ _ trivial) ?_
      intro l1 d1 h1
      simp only [eval_post] at h1
      refine post_mono (ih _ _ ?_) ?_
      · simp only [eval_pre]
        simp [hpre, h1.1, Node.settled_of_top h1.2]
      · intro n d2 h2
        simp only [eval_post, Node.push_back_type] at h2
        exact h2
    · intro _
      exact ⟨hpre, rfl⟩

theorem parse_relation_operator_marked (relation : Node) (d : Document) :
    (parse_relation_operator relation).post d (fun r _ =>
      Node.marked_all false r.children = Node.marked_all false relation.children) := by
  unfold parse_relation_operator
  simp [post_ite, NodeType.evaluated]

theorem Node.marked_push_set {acc c : Node} (h : Node.marked_all false acc.children = true)
    (hc : c.marked = true) :
    Node.marked_all false (acc.push_back (c.set_should_eval true)).children = true :=
  Node.marked_all_push h (by simpa using hc) (Node.settled_of_should_eval rfl)

theorem step_eval_algebra (rec : Call → Parser Node)
    (ih : ∀ c d, eval_pre c d → (rec c).post d (fun n _ => eval_post c n)) (d : Document) :
    (parse_relation rec).post d (fun n _ => eval_post .parse_relation n) ∧
    (parse_expression rec).post d (fun n _ => eval_post .parse_expression n) ∧
    (parse_term rec).post d (fun n _ => eval_post .parse_term n) ∧
    (parse_factor rec).post d (fun n _ => eval_post .parse_factor n) ∧
    (∀ acc, eval_pre (.parse_expression_loop acc) d →
      (parse_expression_loop rec acc).post d
        (fun n _ => eval_post (.parse_expression_loop acc) n)) ∧
    (∀ acc, eval_pre (.parse_term_loop acc) d →
      (parse_term_loop rec acc).post d (fun n _ => eval_post (.parse_term_loop acc) n)) := by
  refine ⟨?_, ?_, ?_, ?_, ?_, ?_⟩
  · unfold parse_relation
    simp only [eval_post]
    simp [post_ite]
    refine post_mono (ih _ _ trivial) ?_
    intro e1 d1 h1
    simp only [eval_post] at h1
    constructor
    · intros
      exact h1
    · intro _
      refine post_mono (parse_relation_operator_marked _ d1) ?_
      intro r d2 hr
      refine post_mono (ih _ _ trivial) ?_
      intro e2 d3 h2
      simp only [eval_post] at h2
      have hm : Node.marked_all false r.children = true := by
        rw [hr]
        simp [h1.1, Node.settled_of_should_eval]
      exact ⟨Node.marked_of_children (Node.marked_push_set hm h2.1),
        Node.top_of_should_eval rfl⟩
  · unfold parse_expression
    simp only [eval_post]
    simp [post_ite]
    refine post_mono (ih _ _ trivial) ?_
    intro e1 d1 h1
    simp only [eval_post] at h1
    constructor
    · intros
      exact h1
    · intro _
      refine post_mono (ih _ _ ?_) ?_
      · simp only [eval_pre]
        simp [h1.1, Node.settled_of_should_eval]
      · intro n d2 h2
        simp only [eval_post] at h2
        exact Node.sound_of_should_eval h2.2.1 h2.2.2
  · unfold parse_term
    simp only [eval_post]
    simp [post_ite]
    refine post_mono (ih _ _ trivial) ?_
    intro f1 d1 h1
    simp only [eval_post] at h1
    constructor
    · intros
      exact h1
    · intro _
      refine post_mono (ih _ _ ?_) ?_
      · simp only [eval_pre, Node.partly_marked]
        by_cases hf : f1.should_eval = true
        · simp [hf, h1.1, Node.settled_of_top h1.2]
          intro _
          rfl
        · simp only [hf]
          simp [h1.1, Node.settled_of_top h1.2]
          intro hc
          exact absurd (Node.should_eval_of_asks h1.2 hc) hf
      · intro n d2 h2
        simp only [eval_post] at h2
        refine Node.top_of_partly_marked h2.2 ?_
        rw [h2.1]
        split <;> rfl
  · unfold parse_factor
    simp only [eval_post]
    simp only [post_bind, post_lex, post_ite, post_pure, post_throw, post_new_Node]
    refine ⟨?_, ?_⟩
    · intro _
      refine post_mono (ih _ _ trivial) ?_
      intro v d1 h1
      simp only [eval_post] at h1
      simp only [Bool.not_eq_true', implies_true, true_and]
      intro _
      split
      · rename_i hc
        have ht : v.type ≠ .assignment := by
          intro e
          simp [e] at hc
        have hv : Node.marked_all false (v.set_should_eval true).children = true :=
          Node.children_of_marked (by simpa using h1.1) ht
        refine Node.sound_of_should_eval (Node.marked_all_set_first hv) ?_
        rw [Node.set_first_should_eval_should_eval]
        rfl
      · exact ⟨by simpa using h1.1, Node.top_of_should_eval rfl⟩
    · intro _
      refine ⟨?_, ?_⟩
      · intro _
        refine post_mono (ih _ _ trivial) ?_
        intro f d1 h1
        simp only [eval_post] at h1
        refine Node.sound_of_should_eval ?_ rfl
        simp [h1.1, Node.settled_of_top h1.2]
      · intro _
        refine ⟨?_, ?_⟩
        · intro _
          refine post_mono (ih _ _ trivial) ?_
          intro f d1 h1
          simp only [eval_post] at h1
          refine Node.sound_of_should_eval ?_ rfl
          simp [h1.1, Node.settled_of_top h1.2]
        · intro _
          exact ih _ _ trivial
  · intro acc hpre
    unfold parse_expression_loop
    simp only [eval_post, eval_pre] at hpre ⊢
    have key : ∀ (t : NodeType) (p : List Char) (l : Nat) (k : Token) (d1 : Document),
        t.evaluated = false → t ≠ .variable_ →
        (rec .parse_term).post d1 (fun a d2 =>
          (rec (.parse_expression_loop
            ((acc.push_back ⟨t, p, l, k, false, false, []⟩).push_back
              (a.set_should_eval true)))).post d2
            (fun n _ => n.type = acc.type ∧ Node.marked_all false n.children = true ∧
              n.should_eval = true)) := by
      intro t p l k d1 ht hv
      refine post_mono (ih _ _ trivial) ?_
      intro a d2 h1
      simp only [eval_post] at h1
      refine post_mono (ih _ _ ?_) ?_
      · simp only [eval_pre]
        simp [hpre, h1.1, ht, hv, Node.settled_of_should_eval]
      · intro n d3 h2
        simp only [eval_post, Node.push_back_type] at h2
        exact h2
    simp [post_ite]
    split
    · exact ⟨fun _ => key _ _ _ _ _ (by rfl) (by decide), fun _ => key _ _ _ _ _ (by rfl) (by decide)⟩
    · exact ⟨fun _ => ⟨fun _ => key _ _ _ _ _ (by rfl) (by decide), fun _ => key _ _ _ _ _ (by rfl) (by decide)⟩,
        fun _ => ⟨hpre, rfl⟩⟩
  · intro acc hpre
    unfold parse_term_loop
    simp only [eval_post, eval_pre] at hpre ⊢
    have key_mul : ∀ (p : List Char) (l : Nat) (k : Token) (d1 : Document),
        (rec .parse_factor).post d1 (fun a d2 =>
          (rec (.parse_term_loop
            ((((acc.push_back ⟨.mul, p, l, k, false, false, []⟩).set_should_eval
                  true).set_should_eval
                (((acc.push_back ⟨.mul, p, l, k, false, false, []⟩).set_should_eval
                  true).should_eval || a.should_eval)).push_back a))).post d2
            (fun n _ => n.type = acc.type ∧ n.partly_marked)) := by
      intro p l k d1
      refine post_mono (ih _ _ trivial) ?_
      intro a d2 h1
      simp only [eval_post] at h1
      refine post_mono (ih _ _ ?_) ?_
      · simp only [eval_pre, Node.partly_marked]
        simp [hpre.1, h1.1, Node.settled_of_top h1.2, NodeType.evaluated]
        intro _
        rfl
      · intro n d3 h2
        simp only [eval_post, Node.push_back_type, Node.set_should_eval_type] at h2
        exact h2
    have key_div : ∀ (p : List Char) (l : Nat) (k : Token) (d1 : Document),
        (rec .parse_factor).post d1 (fun a d2 =>
          (rec (.parse_term_loop
            (((acc.push_back ⟨.div, p, l, k, false, false, []⟩).set_should_eval
                ((acc.push_back ⟨.div, p, l, k, false, false, []⟩).should_eval ||
                  a.should_eval)).push_back a))).post d2
            (fun n _ => n.type = acc.type ∧ n.partly_marked)) := by
      intro p l k d1
      refine post_mono (ih _ _ trivial) ?_
      intro a d2 h1
      simp only [eval_post] at h1
      refine post_mono (ih _ _ ?_) ?_
      · simp only [eval_pre, Node.partly_marked]
        simp [hpre.1, h1.1, Node.settled_of_top h1.2, NodeType.evaluated, NodeType.computes]
        intro hc
        simp only [Node.set_should_eval, Node.push_back, Bool.or_eq_true]
        rcases hc with hc | hc
        · exact Or.inl (hpre.2 hc)
        · exact Or.inr (Node.should_eval_of_asks h1.2 hc)
      · intro n d3 h2
        simp only [eval_post, Node.push_back_type, Node.set_should_eval_type] at h2
        exact h2
    simp [post_ite]
    split
    · exact ⟨fun _ => key_mul _ _ _ _, fun _ => key_div _ _ _ _⟩
    · exact ⟨fun _ => ⟨fun _ => key_mul _ _ _ _, fun _ => key_div _ _ _ _⟩, fun _ => hpre⟩

theorem step_eval_values (rec : Call → Parser Node)
    (ih : ∀ c d, eval_pre c d → (rec c).post d (fun n _ => eval_post c n)) (d : Document) :
    (parse_value rec).post d (fun n _ => eval_post .parse_value n) ∧
    (parse_function_call rec).post d (fun n _ => eval_post .parse_function_call n) ∧
    (parse_arguments rec).post d (fun n _ => eval_post .parse_arguments n) ∧
    (parse_argument rec).post d (fun n _ => eval_post .parse_argument n) ∧
    (∀ acc, eval_pre (.parse_arguments_loop acc) d →
      (parse_arguments_loop rec acc).post d
        (fun n _ => eval_post (.parse_arguments_loop acc) n)) := by
  refine ⟨?_, ?_, ?_, ?_, ?_⟩
  · unfold parse_value
    simp only [eval_post]
    simp only [post_bind, post_ite, post_peek, post_lex, post_pure, post_throw,
      post_new_Node_lexed, post_new_Node_token, post_new_Node_boolean, post_get_lexed,
      post_get_position, post_find_first_here, post_set_position, post_in_token]
    refine ⟨?_, ?_⟩
    · intro _
      split
      · simp only [post_throw]
      · simp only [post_bind, post_new_Node_token, post_set_position, post_lex, post_pure]
        exact ⟨Node.marked_leaf _ _ _ _ _ _, Node.top_leaf _ _ _ _ _ rfl⟩
    · intro _
      refine ⟨fun _ => ih _ _ trivial, fun _ =>
        ⟨fun hv => ih _ _ (Document.in_schema_of_lex d hv _), fun _ => ?_⟩⟩
      iterate 12
        all_goals
          first
          | exact ⟨Node.marked_leaf _ _ _ _ _ _, Node.top_leaf _ _ _ _ _ rfl⟩
          | exact ⟨Node.marked_leaf _ _ _ _ _ _, Node.top_of_should_eval rfl⟩
          | exact ih _ _ trivial
          | exact trivial
          | refine ⟨fun _ => ?_, fun _ => ?_⟩
          | skip
  · unfold parse_function_call
    simp only [eval_post]
    have key : ∀ (name : Node) (d1 : Document), name.marked = true → name.settled = true →
        (rec .parse_arguments).post d1 (fun a d2 =>
          (new_Node .function_call).post d2 (fun call _ =>
            (((call.push_back name).push_back a).set_should_eval true).marked = true ∧
            (((call.push_back name).push_back a).set_should_eval true).top)) := by
      intro name d1 hn hs
      refine post_mono (ih _ _ trivial) ?_
      intro a d2 ha
      simp only [eval_post] at ha
      simp only [post_new_Node]
      refine Node.sound_of_should_eval ?_ rfl
      simp [hn, hs, Node.exempt, ha.1, Node.marked_of_children ha.2]
    simp only [post_bind, post_lex, post_ite, post_pure]
    constructor
    · intro _
      refine post_mono (ih _ _ trivial) ?_
      intro name d1 hn
      simp only [eval_post] at hn
      exact key name d1 hn.1 (Node.settled_of_top hn.2)
    · intro _
      simp only [post_new_Node_lexed]
      exact key _ _ (Node.marked_leaf _ _ _ _ _ _) (by simp [NodeType.evaluated])
  · unfold parse_arguments
    simp only [eval_post]
    simp [post_ite]
    intro _ _
    refine post_mono (ih _ _ trivial) ?_
    intro a d1 ha
    simp only [eval_post] at ha
    refine post_mono (ih _ _ ?_) ?_
    · simp only [eval_pre]
      simp [ha]
    · intro n d2 hn
      exact hn
  · unfold parse_argument
    simp only [eval_post]
    simp [post_ite]
    refine ⟨?_, ?_⟩
    · intro _
      refine post_mono (ih _ _ trivial) ?_
      intro v d1 hv
      simp only [eval_post] at hv
      simp [Node.marked_eq, Node.push_back, Node.exempt, Node.settled_of_top hv.2]
      rw [← Node.marked_eq]
      exact hv.1
    · intro _
      refine post_mono (ih _ _ trivial) ?_
      intro v d1 hv
      simp only [eval_post] at hv
      exact hv.1
  · intro acc hpre
    unfold parse_arguments_loop
    simp only [eval_post, eval_pre] at hpre ⊢
    simp [post_ite]
    refine ⟨?_, ?_⟩
    · intro _
      refine post_mono (ih _ _ trivial) ?_
      intro a d1 ha
      simp only [eval_post] at ha
      refine post_mono (ih _ _ ?_) ?_
      · simp only [eval_pre]
        simp [hpre.1, hpre.2, ha]
      · intro n d2 hn
        exact hn
    · intro _ _
      exact ⟨hpre.2, hpre.1⟩

theorem post_lex_ahead (mx : Prelexer.prelexer) (d : Document) (Q : Bool → Document → Prop) :
    (lex mx).post d Q ↔
      ((∀ r, mx d.ahead = some r → Q true (d.lexed_with .spaces_and_comments mx)) ∧
       (mx d.ahead = none → Q false d)) := by
  rw [post_lex, Document.sees_ahead]
  cases h : mx d.ahead with
  | none =>
    have hs : d.sees .spaces_and_comments mx = false := by
      rw [Document.sees_ahead, h]
      rfl
    rw [Document.lexed_with_of_not_sees hs]
    simp
  | some r => simp

theorem Document.in_schema_lex (d : Document) (r : List Char)
    (hnext : ∀ (c : Context) (l : Nat) (k : Token),
      Document.in_schema { d with position := d.offset r, line := l, lexed := k, context := c })
    (mx : Prelexer.prelexer) (hmx : mx d.ahead = some r) (c : Context) :
    Document.in_schema { d.lexed_with .spaces_and_comments mx with context := c } := by
  unfold Document.ahead at hmx
  unfold Document.lexed_with
  rw [hmx]
  exact hnext c _ _

theorem step_eval_schemas (rec : Call → Parser Node)
    (ih : ∀ c d, eval_pre c d → (rec c).post d (fun n _ => eval_post c n)) (d : Document) :
    (parse_string rec).post d (fun n _ => eval_post .parse_string n) ∧
    (eval_pre .parse_value_schema d →
      (parse_value_schema rec).post d (fun n _ => eval_post .parse_value_schema n)) ∧
    (parse_identifier_schema rec).post d (fun n _ => eval_post .parse_identifier_schema n) ∧
    (∀ str i acc, eval_pre (.parse_string_loop str i acc) d →
      (parse_string_loop rec str i acc).post d
        (fun n _ => eval_post (.parse_string_loop str i acc) n)) ∧
    (∀ acc, eval_pre (.parse_value_schema_loop acc) d →
      (parse_value_schema_loop rec acc).post d
        (fun n _ => eval_post (.parse_value_schema_loop acc) n)) ∧
    (∀ id i acc, eval_pre (.parse_identifier_schema_loop id i acc) d →
      (parse_identifier_schema_loop rec id i acc).post d
        (fun n _ => eval_post (.parse_identifier_schema_loop id i acc) n)) := by
  refine ⟨?_, ?_, ?_, ?_, ?_, ?_⟩
  · unfold parse_string
    simp only [eval_post]
    simp [post_ite]
    split
    · simp only [post_new_Node_token]
      exact ⟨Node.marked_leaf _ _ _ _ _ _, Node.top_leaf _ _ _ _ _ (by rfl)⟩
    · simp
      refine post_mono (ih _ _ ?_) ?_
      · simp [eval_pre]
      · intro n d2 hn
        simp only [eval_post] at hn
        exact Node.sound_of_should_eval hn.2.1 hn.2.2
  · intro hpre
    unfold parse_value_schema
    simp only [eval_post, eval_pre] at hpre ⊢
    simp [post_ite]
    refine post_mono (ih _ _ ?_) ?_
    · simp only [eval_pre]
      exact ⟨by simp, hpre⟩
    · intro n d2 hn
      simp only [eval_post] at hn
      exact Node.sound_of_should_eval hn.2.1 hn.2.2
  · unfold parse_identifier_schema
    simp only [eval_post]
    simp [post_ite]
    split
    · simp only [post_new_Node_token]
      exact ⟨Node.marked_leaf _ _ _ _ _ _, Node.top_leaf _ _ _ _ _ (by rfl)⟩
    · simp
      refine post_mono (ih _ _ ?_) ?_
      · simp [eval_pre]
      · intro n d2 hn
        simp only [eval_post] at hn
        exact Node.sound_of_should_eval hn.2.1 hn.2.2
  · intro str i acc hpre
    unfold parse_string_loop
    simp only [eval_post, eval_pre] at hpre ⊢
    have key : ∀ (schema : Node) (t : Token) (j : Nat) (d1 : Document),
        Node.marked_all false schema.children = true → schema.type = acc.type →
        (in_token t (rec .parse_list)).post d1 (fun a d2 =>
          (rec (.parse_string_loop str j (schema.push_back (a.set_should_eval true)))).post d2
            (fun n _ => n.type = acc.type ∧ Node.marked_all false n.children = true ∧
              n.should_eval = true)) := by
      intro schema t j d1 hs ht
      rw [post_in_token]
      refine post_mono (ih _ _ trivial) ?_
      intro a d2 ha
      simp only [eval_post] at ha
      refine post_mono (ih _ _ ?_) ?_
      · simp only [eval_pre]
        exact Node.marked_push_set hs ha.1
      · intro n d3 hn
        simp only [eval_post, Node.push_back_type] at hn
        exact ⟨hn.1.trans ht, hn.2⟩
    simp only [post_bind, post_ite, post_find_in_interval, post_pure]
    refine ⟨?_, ?_⟩
    · intro _
      split
      · simp only [post_bind, post_ite, post_pure, post_new_Node_token, post_find_in_interval]
        refine ⟨?_, ?_⟩
        · intro _
          split
          · rw [post_bind]
            exact key _ _ _ _ (by simp [hpre, NodeType.evaluated]) rfl
          · simp
        · intro _
          split
          · rw [post_bind]
            exact key _ _ _ _ hpre rfl
          · simp
      · simp [post_ite, hpre, NodeType.evaluated]
        exact ⟨fun _ => rfl, fun _ => rfl⟩
    · intro _
      exact ⟨rfl, hpre, rfl⟩
  · intro acc hpre
    simp only [eval_pre] at hpre
    obtain ⟨hm, hs⟩ := hpre
    unfold parse_value_schema_loop
    simp only [eval_post]
    simp only [post_bind, post_before_end, post_ite, post_pure, decide_eq_true_eq,
      post_lex_ahead, post_get_lexed, post_new_Node_lexed, post_throw, true_implies,
      not_true_eq_false, false_implies, and_true, Bool.false_eq_true, not_false_eq_true,
      implies_true]
    refine ⟨fun hb => ?_, fun _ => ⟨rfl, hm, rfl⟩⟩
    obtain ⟨r, hr, hnext⟩ := d.in_schema_step hs hb
    have key : ∀ (c : Node) (mx : Prelexer.prelexer) (ctx : Context), mx d.ahead = some r →
        c.marked = true → c.settled = true →
        (rec (.parse_value_schema_loop (acc.push_back c))).post
          { d.lexed_with .spaces_and_comments mx with context := ctx }
          (fun n _ => n.type = acc.type ∧ Node.marked_all false n.children = true ∧
            n.should_eval = true) := by
      intro c mx ctx hmx hc hst
      refine post_mono (ih _ _ ⟨Node.marked_all_push hm hc hst,
        d.in_schema_lex r hnext mx hmx ctx⟩) ?_
      intro n d3 hn
      simp only [eval_post, Node.push_back_type] at hn
      exact hn
    unfold schema_token at hr
    refine ⟨fun r1 h1 => ?_, fun h1 => ?_⟩
    · have e : r1 = r := by
        rw [Prelexer.alternatives_hit _ _ _ _ h1] at hr
        exact Option.some.inj hr
      subst e
      rw [post_in_token]
      refine post_mono (ih _ _ trivial) ?_
      intro a d2 ha
      simp only [eval_post] at ha
      exact key a _ d2.context h1 ha.1 (Node.settled_of_top ha.2)
    rw [Prelexer.alternatives_skip _ _ _ h1] at hr
    iterate 6
      refine ⟨trivial, fun r2 h2 => ?_, fun h2 => ?_⟩
      · have e : r2 = r := by
          rw [Prelexer.alternatives_hit _ _ _ _ h2] at hr
          exact Option.some.inj hr
        subst e
        exact key _ _ _ h2 (Node.marked_leaf _ _ _ _ _ _) (by simp [NodeType.evaluated])
      rw [Prelexer.alternatives_skip _ _ _ h2] at hr
      clear h2
    exact absurd hr (by simp [Prelexer.alternatives])
  · intro id i acc hpre
    unfold parse_identifier_schema_loop
    simp only [eval_post, eval_pre] at hpre ⊢
    have key : ∀ (schema : Node) (t : Token) (j : Nat) (d1 : Document),
        Node.marked_all false schema.children = true → schema.type = acc.type →
        (in_token t (rec .parse_list)).post d1 (fun a d2 =>
          (rec (.parse_identifier_schema_loop id j (schema.push_back (a.set_should_eval true)))).post d2
            (fun n _ => n.type = acc.type ∧ Node.marked_all false n.children = true ∧
              n.should_eval = true)) := by
      intro schema t j d1 hs ht
      rw [post_in_token]
      refine post_mono (ih _ _ trivial) ?_
      intro a d2 ha
      simp only [eval_post] at ha
      refine post_mono (ih _ _ ?_) ?_
      · simp only [eval_pre]
        exact Node.marked_push_set hs ha.1
      · intro n d3 hn
        simp only [eval_post, Node.push_back_type] at hn
        exact ⟨hn.1.trans ht, hn.2⟩
    simp only [post_bind, post_ite, post_find_in_interval, post_pure]
    refine ⟨?_, ?_⟩
    · intro _
      split
      · simp only [post_bind, post_ite, post_pure, post_new_Node_token, post_find_in_interval]
        refine ⟨?_, ?_⟩
        · intro _
          split
          · rw [post_bind]
            exact key _ _ _ _ (by simp [hpre, NodeType.evaluated]) rfl
          · simp
        · intro _
          split
          · rw [post_bind]
            exact key _ _ _ _ hpre rfl
          · simp
      · simp [post_ite, hpre, NodeType.evaluated]
        exact ⟨fun _ => rfl, fun _ => rfl⟩
    · intro _
      exact ⟨rfl, hpre, rfl⟩

theorem step_eval (rec : Call → Parser Node)
    (ih : ∀ c d, eval_pre c d → (rec c).post d (fun n _ => eval_post c n))
    (c : Call) (d : Document) (hpre : eval_pre c d) :
    (step rec c).post d (fun n _ => eval_post c n) := by
  cases c
  case parse_list => exact ih .parse_comma_list d trivial
  case parse_comma_list => exact (step_eval_lists rec ih d).1
  case parse_space_list => exact (step_eval_lists rec ih d).2.1
  case parse_comma_list_loop acc => exact (step_eval_lists rec ih d).2.2.1 acc hpre
  case parse_space_list_loop acc => exact (step_eval_lists rec ih d).2.2.2 acc hpre
  case parse_disjunction => exact (step_eval_connectives rec ih d).1
  case parse_conjunction => exact (step_eval_connectives rec ih d).2.1
  case parse_disjunction_loop acc => exact (step_eval_connectives rec ih d).2.2.1 acc hpre
  case parse_conjunction_loop acc => exact (step_eval_connectives rec ih d).2.2.2 acc hpre
  case parse_relation => exact (step_eval_algebra rec ih d).1
  case parse_expression => exact (step_eval_algebra rec ih d).2.1
  case parse_term => exact (step_eval_algebra rec ih d).2.2.1
  case parse_factor => exact (step_eval_algebra rec ih d).2.2.2.1
  case parse_expression_loop acc => exact (step_eval_algebra rec ih d).2.2.2.2.1 acc hpre
  case parse_term_loop acc => exact (step_eval_algebra rec ih d).2.2.2.2.2 acc hpre
  case parse_value => exact (step_eval_values rec ih d).1
  case parse_function_call => exact (step_eval_values rec ih d).2.1
  case parse_arguments => exact (step_eval_values rec ih d).2.2.1
  case parse_argument => exact (step_eval_values rec ih d).2.2.2.1
  case parse_arguments_loop acc => exact (step_eval_values rec ih d).2.2.2.2 acc hpre
  case parse_string => exact (step_eval_schemas rec ih d).1
  case parse_value_schema => exact (step_eval_schemas rec ih d).2.1 hpre
  case parse_identifier_schema => exact (step_eval_schemas rec ih d).2.2.1
  case parse_string_loop str i acc => exact (step_eval_schemas rec ih d).2.2.2.1 str i acc hpre
  case parse_value_schema_loop acc => exact (step_eval_schemas rec ih d).2.2.2.2.1 acc hpre
  case parse_identifier_schema_loop id i acc =>
    exact (step_eval_schemas rec ih d).2.2.2.2.2 id i acc hpre
  all_goals exact post_of_forall (fun _ _ => trivial)

/-- The value productions return marked trees: `eval_post`, for every production called
as `eval_pre` asks. -/
theorem parse_eval (fuel : Nat) (c : Call) (d : Document) (hpre : eval_pre c d) :
    (parse fuel c).post d (fun n _ => eval_post c n) := by
  induction fuel generalizing c d with
  | zero =>
    intro a d1 e
    cases e
  | succ n ih => exact step_eval (parse n) (fun c d h => ih c d h) c d hpre

mutual

/-- A node calls for evaluation when a node of its tree stands for computation or is
marked. -/
theorem Node.asks_iff : (n : Node) →
    (n.asks = true ↔ ∃ x ∈ n.nodes, x.type.computes = true ∨ x.should_eval = true)
  | ⟨t, p, l, k, b, s, cs⟩ => by
    simp only [Node.asks, Node.nodes, Bool.or_eq_true, List.mem_cons, exists_eq_or_imp]
    rw [Node.asks_any_iff cs]

theorem Node.asks_any_iff : (cs : List Node) →
    (Node.asks_any cs = true ↔
      ∃ x ∈ Node.nodes_all cs, x.type.computes = true ∨ x.should_eval = true)
  | [] => by simp [Node.asks_any, Node.nodes_all]
  | c :: cs => by
    simp only [Node.asks_any, Node.nodes_all, Bool.or_eq_true, List.mem_append]
    rw [Node.asks_iff c, Node.asks_any_iff cs]
    constructor
    · rintro (⟨x, hx, h⟩ | ⟨x, hx, h⟩)
      · exact ⟨x, Or.inl hx, h⟩
      · exact ⟨x, Or.inr hx, h⟩
    · rintro ⟨x, hx | hx, h⟩
      · exact Or.inl ⟨x, hx, h⟩
      · exact Or.inr ⟨x, hx, h⟩
end

theorem Node.flagged_of_settled {c : Node} (name : Bool)
    (h : (Node.exempt name c || c.settled) = true) : c.flagged := by
  simp only [Node.exempt, Node.settled, Bool.or_eq_true, Bool.and_eq_true, decide_eq_true_eq,
    Bool.not_eq_true', Bool.or_eq_false_iff, decide_eq_false_iff_not,
    List.isEmpty_iff] at h
  constructor
  · intro ht ha
    rcases h with (h | h) | h | h
    · exact absurd h ht
    · rw [h.2] at ha
      simp at ha
    · rw [h.2] at ha
      cases ha
    · exact h
  · intro he
    rcases h with (h | h) | h | h
    · rw [h] at he
      cases he
    · rw [h.1.2] at he
      cases he
    · rw [h.1.1] at he
      cases he
    · exact h

theorem Node.variable_of_settled {c : Node}
    (h : (Node.exempt false c || c.settled) = true) (hv : c.type = .variable_) :
    c.should_eval = true := by
  simp only [Node.exempt, Node.settled, Bool.or_eq_true, Bool.and_eq_true, decide_eq_true_eq,
    Bool.not_eq_true', Bool.or_eq_false_iff, decide_eq_false_iff_not, Bool.false_and,
    Bool.false_eq_true, or_false] at h
  rcases h with h | h | h
  · rw [hv] at h
    cases h
  · exact absurd hv h.1.2
  · exact h

mutual

theorem Node.marked_below : (n : Node) → n.marked = true →
    (∀ m ∈ Node.nodes_all n.children, m.flagged) ∧ (∀ m ∈ n.nodes, m.names)
  | ⟨t, p, l, k, b, s, cs⟩, h => by
    simp only [Node.marked] at h
    obtain ⟨h1, h2, h3⟩ := Node.marked_all_below (decide (t = .assignment)) cs h
    refine ⟨h1, ?_⟩
    intro m hm
    simp only [Node.nodes, List.mem_cons] at hm
    rcases hm with rfl | hm
    · intro c hc
      apply h3
      by_cases ht : t = .assignment
      · simpa [ht] using hc
      · simpa [ht] using hc
    · exact h2 m hm

theorem Node.marked_all_below : (name : Bool) → (cs : List Node) →
    Node.marked_all name cs = true →
    (∀ m ∈ Node.nodes_all cs, m.flagged) ∧ (∀ m ∈ Node.nodes_all cs, m.names) ∧
    (∀ c ∈ (if name = true then cs.tail else cs), c.type = .variable_ → c.should_eval = true)
  | _, [], _ => by
    simp [Node.nodes_all]
  | name, c :: cs, h => by
    simp only [Node.marked_all, Bool.and_eq_true] at h
    obtain ⟨⟨hc, hm⟩, hr⟩ := h
    obtain ⟨c1, c2⟩ := Node.marked_below c hm
    obtain ⟨r1, r2, r3⟩ := Node.marked_all_below false cs hr
    simp only [Bool.false_eq_true, if_false] at r3
    refine ⟨?_, ?_, ?_⟩
    · intro m hmem
      simp only [Node.nodes_all, List.mem_append] at hmem
      rcases hmem with hmem | hmem
      · have hn : m ∈ c :: Node.nodes_all c.children := by
          cases c
          simpa [Node.nodes] using hmem
        rcases List.mem_cons.1 hn with rfl | hn
        · exact Node.flagged_of_settled name hc
        · exact c1 m hn
      · exact r1 m hmem
    · intro m hmem
      simp only [Node.nodes_all, List.mem_append] at hmem
      rcases hmem with hmem | hmem
      · exact c2 m hmem
      · exact r2 m hmem
    · intro x hx hv
      cases name with
      | true =>
        simp only [if_true, List.tail_cons] at hx
        exact r3 x hx hv
      | false =>
        simp only [Bool.false_eq_true, if_false, List.mem_cons] at hx
        rcases hx with rfl | hx
        · exact Node.variable_of_settled hc hv
        · exact r3 x hx hv
end

theorem Node.nodes_eq (n : Node) : n.nodes = n :: Node.nodes_all n.children := by
  cases n
  simp [Node.nodes]

/-- C6, amended: in every value tree that `parse_list` returns, every node other than an
`arguments` node that has below it a node that stands for computation (a variable, an
interpolation schema, one of the operators `+`, `-`, `*` or a unary sign, a comparison, a
boolean connective, a function call) or a node with `should_eval = true` (as the value of
a parenthesised sub-expression is) has `should_eval = true`; every function call,
schema, comparison, expression, connective and unary node has it; and every variable has
it, the name of a keyword argument (the first child of an `assignment`) apart.  The node
that `parse_factor` returns for a parenthesised sub-expression has `should_eval = true`.
The operator `/` is not among the kinds that stand for computation: the term `1/2` has
`should_eval = false`. -/
theorem should_eval_marked (fuel : Nat) (d d1 : Document) (n : Node) :
    (parse fuel .parse_list d = .ok (n, d1) →
      (∀ m ∈ n.nodes, m.type ≠ .arguments →
        (∃ x ∈ Node.nodes_all m.children, x.type.computes = true ∨ x.should_eval = true) →
        m.should_eval = true) ∧
      (∀ m ∈ n.nodes, m.type.evaluated = true → m.should_eval = true) ∧
      (∀ m ∈ n.nodes, ∀ c ∈ (if m.type = .assignment then m.children.tail else m.children),
        c.type = .variable_ → c.should_eval = true) ∧
      (n.type = .variable_ → n.should_eval = true)) ∧
    (parse fuel .parse_factor d = .ok (n, d1) →
      d.sees .spaces_and_comments (Prelexer.exactly '(') = true → n.should_eval = true) := by
  constructor
  · intro h
    have hp := parse_eval fuel .parse_list d trivial n d1 h
    simp only [eval_post] at hp
    obtain ⟨hm, ht⟩ := hp
    obtain ⟨h1, h2⟩ := Node.marked_below n hm
    refine ⟨?_, ?_, h2, fun hv => ht (Or.inl (by rw [hv]; rfl))⟩
    · intro m hmem _ hx
      rw [Node.nodes_eq] at hmem
      rcases List.mem_cons.1 hmem with rfl | hmem
      · exact ht (Or.inr ((Node.asks_any_iff _).2 hx))
      · exact (h1 m hmem).1 (by assumption) ((Node.asks_any_iff _).2 hx)
    · intro m hmem he
      rw [Node.nodes_eq] at hmem
      rcases List.mem_cons.1 hmem with rfl | hmem
      · exact ht (Or.inl (NodeType.computes_of_evaluated he))
      · exact (h1 m hmem).2 he
  · intro h hs
    cases fuel with
    | zero => cases h
    | succ fuel =>
      revert h
      suffices hp : (parse_factor (parse fuel)).post d (fun n _ => n.should_eval = true) from
        hp n d1
      unfold parse_factor
      simp [post_ite, hs]
      refine post_of_forall ?_
      intro a d2 _
      split
      · rw [Node.set_first_should_eval_should_eval]
        rfl
      · rfl

/-- C6, amended, at `f($x: $y, 1/2) + a#{$b};` and at `(1/2);`: the expression, the call,
the assignment, the schema and the variables `$y` and `$b` are marked; the `arguments`
node, the name `$x`, the term `1/2` in the call and the leaves are not; the term `1/2` in
parentheses is marked. -/
theorem should_eval_marked_witness :
    ((∀ m ∈ (⟨.expression, [], 1, Token.make, false, true,
        [⟨.function_call, [], 1, Token.make, false, true,
          [leaf .identifier 0 1,
           inner .arguments
            [⟨.assignment, [], 1, Token.make, false, true,
              [leaf .variable_ 2 4, ⟨.variable_, [], 1, ⟨6, 8⟩, false, true, []⟩]⟩,
             ⟨.term, [], 1, Token.make, false, true,
              [leaf .textual_number 10 11, leaf .div 11 12, leaf .textual_number 12 13]⟩]]⟩,
         leaf .add 15 16,
         ⟨.value_schema, [], 1, Token.make, false, true,
          [leaf .identifier 17 18, ⟨.variable_, [], 1, ⟨20, 22⟩, false, true, []⟩]⟩]⟩ :
          Node).nodes, m.type ≠ .arguments →
        (∃ x ∈ Node.nodes_all m.children, x.type.computes = true ∨ x.should_eval = true) →
        m.should_eval = true) ∧
      (∀ m ∈ (⟨.expression, [], 1, Token.make, false, true,
        [⟨.function_call, [], 1, Token.make, false, true,
          [leaf .identifier 0 1,
           inner .arguments
            [⟨.assignment, [], 1, Token.make, false, true,
              [leaf .variable_ 2 4, ⟨.variable_, [], 1, ⟨6, 8⟩, false, true, []⟩]⟩,
             ⟨.term, [], 1, Token.make, false, true,
              [leaf .textual_number 10 11, leaf .div 11 12, leaf .textual_number 12 13]⟩]]⟩,
         leaf .add 15 16,
         ⟨.value_schema, [], 1, Token.make, false, true,
          [leaf .identifier 17 18, ⟨.variable_, [], 1, ⟨20, 22⟩, false, true, []⟩]⟩]⟩ :
          Node).nodes, m.type.evaluated = true → m.should_eval = true) ∧
      (∀ m ∈ (⟨.expression, [], 1, Token.make, false, true,
        [⟨.function_call, [], 1, Token.make, false, true,
          [leaf .identifier 0 1,
           inner .arguments
            [⟨.assignment, [], 1, Token.make, false, true,
              [leaf .variable_ 2 4, ⟨.variable_, [], 1, ⟨6, 8⟩, false, true, []⟩]⟩,
             ⟨.term, [], 1, Token.make, false, true,
              [leaf .textual_number 10 11, leaf .div 11 12, leaf .textual_number 12 13]⟩]]⟩,
         leaf .add 15 16,
         ⟨.value_schema, [], 1, Token.make, false, true,
          [leaf .identifier 17 18, ⟨.variable_, [], 1, ⟨20, 22⟩, false, true, []⟩]⟩]⟩ :
          Node).nodes,
        ∀ c ∈ (if m.type = .assignment then m.children.tail else m.children),
          c.type = .variable_ → c.should_eval = true) ∧
      ((⟨.expression, [], 1, Token.make, false, true,
        [⟨.function_call, [], 1, Token.make, false, true,
          [leaf .identifier 0 1,
           inner .arguments
            [⟨.assignment, [], 1, Token.make, false, true,
              [leaf .variable_ 2 4, ⟨.variable_, [], 1, ⟨6, 8⟩, false, true, []⟩]⟩,
             ⟨.term, [], 1, Token.make, false, true,
              [leaf .textual_number 10 11, leaf .div 11 12, leaf .textual_number 12 13]⟩]]⟩,
         leaf .add 15 16,
         ⟨.value_schema, [], 1, Token.make, false, true,
          [leaf .identifier 17 18, ⟨.variable_, [], 1, ⟨20, 22⟩, false, true, []⟩]⟩]⟩ :
          Node).type = .variable_ →
        (⟨.expression, [], 1, Token.make, false, true,
        [⟨.function_call, [], 1, Token.make, false, true,
          [leaf .identifier 0 1,
           inner .arguments
            [⟨.assignment, [], 1, Token.make, false, true,
              [leaf .variable_ 2 4, ⟨.variable_, [], 1, ⟨6, 8⟩, false, true, []⟩]⟩,
             ⟨.term, [], 1, Token.make, false, true,
              [leaf .textual_number 10 11, leaf .div 11 12, leaf .textual_number 12 13]⟩]]⟩,
         leaf .add 15 16,
         ⟨.value_schema, [], 1, Token.make, false, true,
          [leaf .identifier 17 18, ⟨.variable_, [], 1, ⟨20, 22⟩, false, true, []⟩]⟩]⟩ :
          Node).should_eval = true)) ∧
    (⟨.term, [], 1, Token.make, false, true,
      [leaf .textual_number 1 2, leaf .div 2 3, leaf .textual_number 3 4]⟩ :
        Node).should_eval = true :=
  ⟨(should_eval_marked 100 (Document.of_string "f($x: $y, 1/2) + a#\x7b$b\x7d;")
      { Document.of_string "f($x: $y, 1/2) + a#\x7b$b\x7d;" with
        position := 23, lexed := ⟨17, 23⟩ } _).1 (by decide!),
   (should_eval_marked 100 (Document.of_string "(1/2);")
      { Document.of_string "(1/2);" with position := 5, lexed := ⟨4, 5⟩ } _).2
      (by decide!) (by decide!)⟩

/-! ### Literal tokens -/

theorem is_token_end_cases (c : Char) (h : is_token_end c) :
    c = ' ' ∨ c = Char.ofNat 9 ∨ c = Char.ofNat 10 ∨ c = Char.ofNat 11 ∨ c = Char.ofNat 12 ∨
      c = Char.ofNat 13 ∨ c = ';' ∨ c = '}' ∨ c = '{' ∨ c = ')' ∨ c = ',' := by
  rcases h with h | h
  · rcases Prelexer.isspace_cases c h with h | h | h | h | h | h <;> simp [h]
  · rcases h with h | h | h | h | h <;> simp [h]

/-- What does not match at a byte that may follow a literal token. -/
theorem token_end_misses (c : Char) (rest : List Char) (hc : is_token_end c) :
    Prelexer.exactly '%' (c :: rest) = none ∧ Prelexer.exactly '(' (c :: rest) = none ∧
    Prelexer.identifier (c :: rest) = none ∧ schema_literal (c :: rest) = none ∧
    Prelexer.interpolant (c :: rest) = none := by
  rcases is_token_end_cases c hc with
    rfl | rfl | rfl | rfl | rfl | rfl | rfl | rfl | rfl | rfl | rfl <;>
  exact ⟨rfl, rfl, rfl, rfl, rfl⟩

namespace Prelexer

theorem identifier_head (a t : List Char) (h : identifier a = some t) :
    ∃ c r, a = c :: r ∧ (c = '-' ∨ is_name_start c = true ∨ c = '\\') := by
  cases a with
  | nil => cases h
  | cons c r =>
    refine ⟨c, r, rfl, ?_⟩
    by_contra hn
    simp only [not_or] at hn
    obtain ⟨h1, h2, h3⟩ := hn
    have h4 : isalpha c = false ∧ c ≠ '_' := by
      unfold is_name_start at h2
      simpa using h2
    simp [identifier, sequence, optional, exactly, h1, alternatives, alpha, satisfy, h4.1, h4.2,
      backslash_something, h3] at h

theorem unsigned_number_head (a t : List Char) (h : unsigned_number a = some t) :
    ∃ c r, a = c :: r ∧ (isdigit c = true ∨ c = '.') := by
  cases a with
  | nil => cases h
  | cons c r =>
    refine ⟨c, r, rfl, ?_⟩
    by_contra hn
    simp only [not_or] at hn
    obtain ⟨h1, h2⟩ := hn
    have hd : digits (c :: r) = none := by
      simp [digits, one_plus, digit, satisfy, h1]
    simp only [unsigned_number, alternatives, sequence, zero_plus] at h
    rw [star_none _ _ _ hd] at h
    simp [exactly, h2, hd] at h

theorem number_some_start (a t : List Char) (h : number a = some t) : number_start a = true := by
  cases a with
  | nil => cases h
  | cons c r =>
    by_cases hs : c = '+' ∨ c = '-'
    · have e : number (c :: r) = unsigned_number r := by
        rcases hs with rfl | rfl <;> exact sequence_single _ _
      rw [e] at h
      obtain ⟨c2, r2, rfl, h2⟩ := unsigned_number_head r t h
      rcases hs with rfl | rfl <;> rcases h2 with h2 | rfl <;>
        first | simp [number_start, h2] | simp [number_start]
    · simp only [not_or] at hs
      have e : number (c :: r) = unsigned_number (c :: r) := by
        simp [number, sequence, optional, sign, class_char, hs.1, hs.2]
        cases unsigned_number (c :: r) <;> rfl
      rw [e] at h
      obtain ⟨c2, r2, e2, h2⟩ := unsigned_number_head _ t h
      cases e2
      rcases h2 with h2 | rfl <;> first | simp [number_start, h2] | simp [number_start]

/-- The matcher `number` matches after the sign of a number. -/
theorem number_after_sign (s : Char) (u t : List Char) (hs : s = '+' ∨ s = '-')
    (h : number (s :: u) = some t) : number u = some t := by
  have e : number (s :: u) = unsigned_number u := by
    rcases hs with rfl | rfl <;> exact sequence_single _ _
  rw [e] at h
  obtain ⟨c2, r2, rfl, h2⟩ := unsigned_number_head u t h
  have h3 : c2 ≠ '+' ∧ c2 ≠ '-' := by
    rcases h2 with h2 | rfl
    · constructor <;> (rintro rfl; exact absurd h2 (by decide))
    · exact ⟨by decide, by decide⟩
  simp only [number, sequence, optional, sign, class_char, List.contains_cons, List.contains_nil,
    beq_iff_eq, h3.1, h3.2, Bool.or_self, Bool.false_eq_true, if_false, h]
  simp [h3.1, h3.2, h]

theorem percentage_number (a t : List Char) (h : percentage a = some t) :
    ∃ r, number a = some r ∧ exactly '%' r = some t := by
  simp only [percentage, sequence] at h
  cases hn : number a with
  | none => rw [hn] at h; cases h
  | some r =>
    rw [hn] at h
    refine ⟨r, rfl, ?_⟩
    cases he : exactly '%' r with
    | none => simp [he] at h
    | some x => simpa [he] using h

theorem dimension_number (a t : List Char) (h : dimension a = some t) :
    ∃ r, number a = some r ∧ identifier r = some t := by
  simp only [dimension, sequence] at h
  cases hn : number a with
  | none => rw [hn] at h; cases h
  | some r =>
    rw [hn] at h
    refine ⟨r, rfl, ?_⟩
    cases he : identifier r with
    | none => simp [he] at h
    | some x => simpa [he] using h

theorem string_constant_head (a t : List Char) (h : string_constant a = some t) :
    ∃ r, a = '"' :: r ∨ a = '\'' :: r := by
  cases a with
  | nil => cases h
  | cons c r =>
    by_cases h1 : c = '"'
    · exact ⟨r, Or.inl (by rw [h1])⟩
    · by_cases h2 : c = '\''
      · exact ⟨r, Or.inr (by rw [h2])⟩
      · simp [string_constant, alternatives, double_quoted_string, single_quoted_string,
          delimited_by, exactly_s, h1, h2] at h

/-- A token that the loops of `value_schema` take, before a byte that ends a token, is
not a value schema. -/
theorem value_schema_once (a t : List Char) (ha : schema_literal a = some t)
    (hb : schema_literal t = none) (hi : interpolant t = none) : value_schema a = none := by
  unfold schema_literal at ha hb
  simp only [value_schema, one_plus, sequence, zero_plus]
  rw [star_once _ _ _ _ ha hb]
  simp [hi]

end Prelexer

theorem ne_of_literal_head {c x : Char} (h : is_literal_head c = true)
    (hx : is_literal_head x = false) : c ≠ x := by
  rintro rfl
  rw [h] at hx
  cases hx

theorem literal_head_not_space {c : Char} (h : is_literal_head c = true) :
    Prelexer.isspace c = false := by
  cases hs : Prelexer.isspace c with
  | false => rfl
  | true =>
    rcases Prelexer.isspace_cases c hs with rfl | rfl | rfl | rfl | rfl | rfl <;>
      exact absurd h (by decide)

namespace Prelexer

/-- A sign at which a number starts is not a unary operator. -/
theorem number_not_unary (a t : List Char) (hn : number a = some t) :
    sequence [exactly '+', negate number] a = none ∧
    sequence [exactly '-', negate number] a = none := by
  cases a with
  | nil => exact ⟨rfl, rfl⟩
  | cons x u =>
    constructor
    · by_cases hx : x = '+'
      · subst hx
        have h1 := number_after_sign '+' u t (Or.inl rfl) hn
        simp [sequence, exactly, negate, h1]
      · simp [sequence, exactly, hx]
    · by_cases hx : x = '-'
      · subst hx
        have h1 := number_after_sign '-' u t (Or.inr rfl) hn
        simp [sequence, exactly, negate, h1]
      · simp [sequence, exactly, hx]

end Prelexer

/-- The first byte of a literal token. -/
theorem literal_token_head (a t : List Char) (h : literal_token a t) :
    ∃ c r, a = c :: r ∧ is_literal_head c = true := by
  have hnum : ∀ r, Prelexer.number a = some r → ∃ c r, a = c :: r ∧ is_literal_head c = true := by
    intro r hn
    obtain ⟨c, rest, rfl, hc | ⟨hs, -⟩⟩ :=
      number_start_cases a (Prelexer.number_some_start a r hn)
    · refine ⟨c, rest, rfl, ?_⟩
      rcases hc with hc | rfl
      · simp [is_literal_head, hc]
      · decide
    · refine ⟨c, rest, rfl, ?_⟩
      rcases hs with rfl | rfl <;> decide
  cases h with
  | true_word h =>
    rw [(Prelexer.exactly_s_eq_some _ _ _).1 h]
    exact ⟨'t', _, rfl, by decide⟩
  | false_word h =>
    rw [(Prelexer.exactly_s_eq_some _ _ _).1 h]
    exact ⟨'f', _, rfl, by decide⟩
  | identifier hi hd _ _ =>
    obtain ⟨c, r, rfl, hc⟩ := Prelexer.identifier_head a t hi
    refine ⟨c, r, rfl, ?_⟩
    rcases hc with rfl | hc | rfl
    · exact absurd rfl hd
    · simp [is_literal_head, hc]
    · decide
  | number hn => exact hnum _ hn
  | percentage hp =>
    obtain ⟨r, hn, -⟩ := Prelexer.percentage_number a t hp
    exact hnum _ hn
  | dimension hd =>
    obtain ⟨r, hn, -⟩ := Prelexer.dimension_number a t hd
    exact hnum _ hn
  | hex hh =>
    obtain ⟨r, rfl⟩ := Prelexer.hex_head a t hh
    exact ⟨'#', r, rfl, by decide⟩
  | string hs _ =>
    obtain ⟨r, rfl | rfl⟩ := Prelexer.string_constant_head a t hs
    · exact ⟨'"', r, rfl, by decide⟩
    · exact ⟨'\'', r, rfl, by decide⟩

/-- A `-` at the head of a literal token is the sign of a number: the subtraction
operator does not match there. -/
theorem literal_token_minus (a t : List Char) (h : literal_token a t) :
    Prelexer.sequence [Prelexer.negate Prelexer.number, Prelexer.exactly '-'] a = none := by
  cases hn : Prelexer.number a with
  | some r => simp [Prelexer.sequence, Prelexer.negate, hn]
  | none =>
    have key : ∀ c r, a = c :: r → c ≠ '-' →
        Prelexer.sequence [Prelexer.negate Prelexer.number, Prelexer.exactly '-'] a = none := by
      intro c r e hc
      subst e
      simp [Prelexer.sequence, Prelexer.negate, hn, Prelexer.exactly, hc]
    cases h with
    | true_word h => exact key 't' _ ((Prelexer.exactly_s_eq_some _ _ _).1 h) (by decide)
    | false_word h => exact key 'f' _ ((Prelexer.exactly_s_eq_some _ _ _).1 h) (by decide)
    | identifier hi hd _ _ =>
      obtain ⟨c, r, rfl, -⟩ := Prelexer.identifier_head a t hi
      exact key c r rfl (fun e => hd (by rw [e]; rfl))
    | number h => rw [hn] at h; cases h
    | percentage hp =>
      obtain ⟨r, h, -⟩ := Prelexer.percentage_number a t hp
      rw [hn] at h
      cases h
    | dimension hd =>
      obtain ⟨r, h, -⟩ := Prelexer.dimension_number a t hd
      rw [hn] at h
      cases h
    | hex hh =>
      obtain ⟨r, rfl⟩ := Prelexer.hex_head a t hh
      exact key '#' r rfl (by decide)
    | string hs _ =>
      obtain ⟨r, rfl | rfl⟩ := Prelexer.string_constant_head a t hs
      · exact key '"' r rfl (by decide)
      · exact key '\'' r rfl (by decide)

/-- At a literal token that may go on a space-separated list no operator is seen, and
the list does not end. -/
theorem Document.literal_item_ahead (d : Document) (s t : List Char) (ha : d.ahead = s)
    (htok : literal_token s t) (hitem : is_list_item s) :
    d.sees_operator = false ∧ d.at_space_list_end = false := by
  obtain ⟨c, r, rfl, hc⟩ := literal_token_head s t htok
  obtain ⟨hplus, hand, hor⟩ := hitem
  have hminus := literal_token_minus _ t htok
  have n0 : c ≠ '+' := fun e => hplus (by rw [e]; rfl)
  have n1 : c ≠ '*' := ne_of_literal_head hc (by decide)
  have n2 : c ≠ '/' := ne_of_literal_head hc (by decide)
  have n3 : c ≠ '=' := ne_of_literal_head hc (by decide)
  have n4 : c ≠ '!' := ne_of_literal_head hc (by decide)
  have n5 : c ≠ '>' := ne_of_literal_head hc (by decide)
  have n6 : c ≠ '<' := ne_of_literal_head hc (by decide)
  have n7 : c ≠ ';' := ne_of_literal_head hc (by decide)
  have n8 : c ≠ '}' := ne_of_literal_head hc (by decide)
  have n9 : c ≠ '{' := ne_of_literal_head hc (by decide)
  have n10 : c ≠ ')' := ne_of_literal_head hc (by decide)
  have n11 : c ≠ ',' := ne_of_literal_head hc (by decide)
  have m1 : Prelexer.eq_op (c :: r) = none := Prelexer.exactly_s_head_ne '=' _ c r n3
  have m2 : Prelexer.neq_op (c :: r) = none := Prelexer.exactly_s_head_ne '!' _ c r n4
  have m3 : Prelexer.gte_op (c :: r) = none := Prelexer.exactly_s_head_ne '>' _ c r n5
  have m4 : Prelexer.lte_op (c :: r) = none := Prelexer.exactly_s_head_ne '<' _ c r n6
  have m5 : Prelexer.gt_op (c :: r) = none := Prelexer.exactly_head_ne '>' c r n5
  have m6 : Prelexer.lt_op (c :: r) = none := Prelexer.exactly_head_ne '<' c r n6
  have m7 : Prelexer.default_flag (c :: r) = none := by
    simp [Prelexer.default_flag, Prelexer.sequence, Prelexer.exactly, n4]
  unfold Document.sees_operator Document.at_space_list_end Document.sees_comparison
  simp only [Document.sees_ahead, ha, hminus, hand, hor, m1, m2, m3, m4, m5, m6, m7,
    Prelexer.exactly_head_ne _ c r n0, Prelexer.exactly_head_ne _ c r n1,
    Prelexer.exactly_head_ne _ c r n2, Prelexer.exactly_head_ne _ c r n7,
    Prelexer.exactly_head_ne _ c r n8, Prelexer.exactly_head_ne _ c r n9,
    Prelexer.exactly_head_ne _ c r n10, Prelexer.exactly_head_ne _ c r n11]
  exact ⟨rfl, rfl⟩

/-- At a literal token a comma-separated list is not empty. -/
theorem Document.literal_ahead (d : Document) (s t : List Char) (ha : d.ahead = s)
    (htok : literal_token s t) : d.at_comma_list_end = false := by
  obtain ⟨c, r, rfl, hc⟩ := literal_token_head s t htok
  have n7 : c ≠ ';' := ne_of_literal_head hc (by decide)
  have n8 : c ≠ '}' := ne_of_literal_head hc (by decide)
  have n9 : c ≠ '{' := ne_of_literal_head hc (by decide)
  have n10 : c ≠ ')' := ne_of_literal_head hc (by decide)
  unfold Document.at_comma_list_end
  simp only [Document.sees_ahead, ha, Prelexer.exactly_head_ne _ c r n7,
    Prelexer.exactly_head_ne _ c r n8, Prelexer.exactly_head_ne _ c r n9,
    Prelexer.exactly_head_ne _ c r n10]
  rfl

/-- Whitespace before a byte that is neither whitespace nor `/` is skipped whole. -/
theorem after_whitespace_run (ws : List Char) (c : Char) (rest : List Char)
    (hws : ∀ x ∈ ws, Prelexer.isspace x = true) (h1 : Prelexer.isspace c = false)
    (h2 : c ≠ '/') :
    after_whitespace .spaces_and_comments (ws ++ c :: rest) = c :: rest := by
  cases ws with
  | nil => exact after_whitespace_self c rest h1 h2
  | cons w ws =>
    have hm : Prelexer.alternatives [Prelexer.spaces, Prelexer.comment] (c :: rest) = none := by
      simp [Prelexer.alternatives, Prelexer.spaces, Prelexer.one_plus, Prelexer.space,
        Prelexer.satisfy, h1, Prelexer.comment, Prelexer.block_comment, Prelexer.sequence,
        Prelexer.optional_spaces, Prelexer.optional, Prelexer.delimited_by, Prelexer.slash_star,
        Prelexer.exactly_s, h2, Prelexer.line_comment, Prelexer.to_endl, Prelexer.slash_slash]
    have h3 : Prelexer.satisfy Prelexer.isspace (c :: rest) = none := by
      simp [Prelexer.satisfy, h1]
    have hw : Prelexer.isspace w = true := hws w (List.mem_cons_self _ _)
    have hs : Prelexer.alternatives [Prelexer.spaces, Prelexer.comment]
        (w :: ws ++ c :: rest) = some (c :: rest) := by
      simp only [Prelexer.alternatives, Prelexer.spaces, Prelexer.one_plus, Prelexer.space,
        List.cons_append, Prelexer.satisfy, hw, if_true]
      rw [Prelexer.star_run Prelexer.isspace ws (c :: rest) _
        (fun x hx => hws x (List.mem_cons_of_mem _ hx)) h3 (by simp; omega)]
    simp only [after_whitespace, Prelexer.spaces_and_comments, Prelexer.zero_plus]
    rw [Prelexer.star_once _ _ _ _ hs hm]
    rfl

/-- A literal token before a byte that ends a token: `parse_factor` sees neither a
parenthesis nor a unary sign, `parse_value` sees neither a URL nor a function call nor a
value schema, and the first matcher of `parse_value` that matches takes the token. -/
theorem literal_token_facts (a : List Char) (c : Char) (rest : List Char)
    (h : literal_token a (c :: rest)) (hc : is_token_end c) :
    Prelexer.exactly '(' a = none ∧
    Prelexer.sequence [Prelexer.exactly '+', Prelexer.negate Prelexer.number] a = none ∧
    Prelexer.sequence [Prelexer.exactly '-', Prelexer.negate Prelexer.number] a = none ∧
    Prelexer.uri_prefix a = none ∧ Prelexer.functional a = none ∧
    Prelexer.value_schema a = none ∧
    (value_token a = some (c :: rest) ∨
      (value_token a = none ∧ Prelexer.string_constant a = some (c :: rest))) := by
  obtain ⟨e1, e2, e3, e4, e5⟩ := token_end_misses c rest hc
  have hnum : ∀ r, Prelexer.number a = some r → schema_literal a = some (c :: rest) →
      ((Prelexer.percentage a = some (c :: rest)) ∨
        (Prelexer.percentage a = none ∧ Prelexer.dimension a = some (c :: rest)) ∨
        (Prelexer.percentage a = none ∧ Prelexer.dimension a = none ∧
          Prelexer.number a = some (c :: rest))) →
      Prelexer.exactly '(' a = none ∧
      Prelexer.sequence [Prelexer.exactly '+', Prelexer.negate Prelexer.number] a = none ∧
      Prelexer.sequence [Prelexer.exactly '-', Prelexer.negate Prelexer.number] a = none ∧
      Prelexer.uri_prefix a = none ∧ Prelexer.functional a = none ∧
      Prelexer.value_schema a = none ∧
      (value_token a = some (c :: rest) ∨
        (value_token a = none ∧ Prelexer.string_constant a = some (c :: rest))) := by
    intro r hn hs hv
    obtain ⟨k1, k2, k3, k4, k5, k6, k7, k8, k9, k10⟩ :=
      number_start_misses a (Prelexer.number_some_start a r hn)
    obtain ⟨u1, u2⟩ := Prelexer.number_not_unary a r hn
    refine ⟨k1, u1, u2, k2, k4, Prelexer.value_schema_once a _ hs e4 e5, Or.inl ?_⟩
    unfold value_token
    rcases hv with hp | ⟨hp, hd⟩ | ⟨hp, hd, hm⟩
    · simp only [Prelexer.alternatives, k5, k6, k7, k3, hp]
    · simp only [Prelexer.alternatives, k5, k6, k7, k3, hp, hd]
    · simp only [Prelexer.alternatives, k5, k6, k7, k3, hp, hd, hm]
  cases h with
  | true_word h =>
    have e := (Prelexer.exactly_s_eq_some _ _ _).1 h
    subst e
    rcases is_token_end_cases c hc with
      rfl | rfl | rfl | rfl | rfl | rfl | rfl | rfl | rfl | rfl | rfl <;>
    exact ⟨rfl, rfl, rfl, rfl, rfl, rfl, Or.inl rfl⟩
  | false_word h =>
    have e := (Prelexer.exactly_s_eq_some _ _ _).1 h
    subst e
    rcases is_token_end_cases c hc with
      rfl | rfl | rfl | rfl | rfl | rfl | rfl | rfl | rfl | rfl | rfl <;>
    exact ⟨rfl, rfl, rfl, rfl, rfl, rfl, Or.inl rfl⟩
  | identifier hi hd g1 g2 =>
    obtain ⟨x, r, rfl, hx⟩ := Prelexer.identifier_head a _ hi
    have n3 : x ≠ '-' := fun e => hd (by rw [e]; rfl)
    have hh : is_literal_head x = true := by
      rcases hx with rfl | hx | rfl
      · exact absurd rfl n3
      · simp [is_literal_head, hx]
      · decide
    have n1 : x ≠ '(' := ne_of_literal_head hh (by decide)
    have n4 : x ≠ '!' := ne_of_literal_head hh (by decide)
    have n2 : x ≠ '+' := by
      rcases hx with rfl | hx | rfl
      · exact absurd rfl n3
      · exact ne_of_name_start hx (by decide)
      · decide
    have himp : Prelexer.important (x :: r) = none := by
      simp [Prelexer.important, Prelexer.sequence, Prelexer.exactly, n4]
    have huri : Prelexer.uri_prefix (x :: r) = none := by
      cases hu : Prelexer.uri_prefix (x :: r) with
      | none => rfl
      | some r2 =>
        have h2 := (Prelexer.exactly_s_eq_some _ _ _).1 hu
        rw [h2] at hi
        have h3 : Prelexer.identifier ("url(".toList ++ r2) = some ('(' :: r2) := rfl
        rw [h3] at hi
        have h4 : c = '(' := by
          have := Option.some.inj hi
          exact (List.cons.inj this).1.symm
        subst h4
        rcases is_token_end_cases _ hc with
          h | h | h | h | h | h | h | h | h | h | h <;> exact absurd h (by decide)
    refine ⟨Prelexer.exactly_head_ne '(' x r n1, ?_, ?_, huri, ?_,
      Prelexer.value_schema_once _ _ ?_ e4 e5, Or.inl ?_⟩
    · simp [Prelexer.sequence, Prelexer.exactly, n2]
    · simp [Prelexer.sequence, Prelexer.exactly, n3]
    · simp [Prelexer.functional, Prelexer.sequence, hi, e2]
    · simp only [schema_literal, Prelexer.alternatives, hi]
    · simp only [value_token, Prelexer.alternatives, g1, g2, himp, hi]
  | number hn =>
    have hp : Prelexer.percentage a = none := by
      simp [Prelexer.percentage, Prelexer.sequence, hn, e1]
    have hd : Prelexer.dimension a = none := by
      simp [Prelexer.dimension, Prelexer.sequence, hn, e3]
    obtain ⟨-, -, k3, -, -, -, -, k8, -, -⟩ :=
      number_start_misses a (Prelexer.number_some_start a _ hn)
    exact hnum _ hn (by simp only [schema_literal, Prelexer.alternatives, k3, hp, hd, k8, hn])
      (Or.inr (Or.inr ⟨hp, hd, hn⟩))
  | percentage hp =>
    obtain ⟨r, hn, -⟩ := Prelexer.percentage_number a _ hp
    obtain ⟨-, -, k3, -⟩ := number_start_misses a (Prelexer.number_some_start a _ hn)
    exact hnum _ hn (by simp only [schema_literal, Prelexer.alternatives, k3, hp]) (Or.inl hp)
  | dimension hd =>
    obtain ⟨r, hn, hi⟩ := Prelexer.dimension_number a _ hd
    obtain ⟨-, -, k3, -⟩ := number_start_misses a (Prelexer.number_some_start a _ hn)
    obtain ⟨y, r2, rfl, hy⟩ := Prelexer.identifier_head r _ hi
    have ny : y ≠ '%' := by
      rcases hy with rfl | hy | rfl
      · decide
      · exact ne_of_name_start hy (by decide)
      · decide
    have hp : Prelexer.percentage a = none := by
      simp [Prelexer.percentage, Prelexer.sequence, hn, Prelexer.exactly, ny]
    exact hnum _ hn (by simp only [schema_literal, Prelexer.alternatives, k3, hp, hd])
      (Or.inr (Or.inl ⟨hp, hd⟩))
  | hex hh =>
    obtain ⟨r, rfl⟩ := Prelexer.hex_head a _ hh
    have i1 : Prelexer.identifier ('#' :: r) = none := rfl
    have i2 : Prelexer.percentage ('#' :: r) = none := rfl
    have i3 : Prelexer.dimension ('#' :: r) = none := rfl
    have i4 : Prelexer.number ('#' :: r) = none := rfl
    have i5 : Prelexer.important ('#' :: r) = none := rfl
    have i6 : Prelexer.sequence [Prelexer.true_kwd, Prelexer.negate Prelexer.identifier]
      ('#' :: r) = none := rfl
    have i7 : Prelexer.sequence [Prelexer.false_kwd, Prelexer.negate Prelexer.identifier]
      ('#' :: r) = none := rfl
    refine ⟨rfl, rfl, rfl, rfl, rfl, Prelexer.value_schema_once _ _ ?_ e4 e5, Or.inl ?_⟩
    · simp only [schema_literal, Prelexer.alternatives, i1, i2, i3, hh]
    · simp only [value_token, Prelexer.alternatives, i1, i2, i3, i4, i5, i6, i7, hh]
  | string hs _ =>
    obtain ⟨r, rfl | rfl⟩ := Prelexer.string_constant_head a _ hs
    · have i1 : Prelexer.identifier ('"' :: r) = none := rfl
      have i2 : Prelexer.percentage ('"' :: r) = none := rfl
      have i3 : Prelexer.dimension ('"' :: r) = none := rfl
      have i4 : Prelexer.number ('"' :: r) = none := rfl
      have i5 : Prelexer.hex ('"' :: r) = none := rfl
      have i6 : value_token ('"' :: r) = none := rfl
      refine ⟨rfl, rfl, rfl, rfl, rfl, Prelexer.value_schema_once _ _ ?_ e4 e5, Or.inr ⟨i6, hs⟩⟩
      simp only [schema_literal, Prelexer.alternatives, i1, i2, i3, i4, i5, hs]
    · have i1 : Prelexer.identifier ('\'' :: r) = none := rfl
      have i2 : Prelexer.percentage ('\'' :: r) = none := rfl
      have i3 : Prelexer.dimension ('\'' :: r) = none := rfl
      have i4 : Prelexer.number ('\'' :: r) = none := rfl
      have i5 : Prelexer.hex ('\'' :: r) = none := rfl
      have i6 : value_token ('\'' :: r) = none := rfl
      refine ⟨rfl, rfl, rfl, rfl, rfl, Prelexer.value_schema_once _ _ ?_ e4 e5, Or.inr ⟨i6, hs⟩⟩
      simp only [schema_literal, Prelexer.alternatives, i1, i2, i3, i4, i5, hs]

/-! ### The productions at literal tokens -/

theorem lex_hit (d : Document) (mx : Prelexer.prelexer) (r : List Char)
    (h : mx d.ahead = some r) : lex mx d = .ok (true, d.lexed_to r) := by
  unfold Document.ahead at h
  unfold lex lex_with Document.lexed_to Document.ahead
  simp only [h]

theorem Document.lexed_to_text (d : Document) (r : List Char) (h : r <:+ d.ahead) :
    (d.lexed_to r).source = d.source ∧
    (d.lexed_to r).source.drop (d.lexed_to r).position = r :=
  ⟨rfl, d.drop_offset r (h.trans (d.skipped_suffix .spaces_and_comments))⟩

theorem Prelexer.alternatives_none (mx : Prelexer.prelexer) (mxs : List Prelexer.prelexer)
    (s : List Char) (h : Prelexer.alternatives (mx :: mxs) s = none) :
    mx s = none ∧ Prelexer.alternatives mxs s = none := by
  cases hm : mx s with
  | none => exact ⟨rfl, by simpa [Prelexer.alternatives, hm] using h⟩
  | some r => simp [Prelexer.alternatives, hm] at h

/-- The span of a literal token is shorter than the text and a suffix of it. -/
theorem literal_token_suffix (a t : List Char) (h : literal_token a t) :
    t <:+ a ∧ t.length < a.length := by
  have key : ∀ (mx : Prelexer.prelexer) [Prelexer.Forward mx] [Prelexer.Consuming mx],
      mx a = some t → t <:+ a ∧ t.length < a.length := fun mx hf hc hm =>
    ⟨hf.suffix a t hm, hc.shorter a t hm⟩
  cases h with
  | true_word h => exact key Prelexer.true_kwd h
  | false_word h => exact key Prelexer.false_kwd h
  | identifier h _ _ _ => exact key Prelexer.identifier h
  | number h => exact key Prelexer.number h
  | percentage h => exact key Prelexer.percentage h
  | dimension h => exact key Prelexer.dimension h
  | hex h => exact key Prelexer.hex h
  | string h _ => exact key Prelexer.string_constant h

/-- No `#{` is found in the span of a string constant in which none stands. -/
theorem find_interpolant_token (d : Document) (t : List Char) (ht : t <:+ d.ahead)
    (h : ∀ i, i < d.ahead.length - t.length → opens_interpolant d.ahead i = false) :
    find_first_in_interval interpolant_start d.source (d.offset d.ahead) (d.offset t) = none := by
  rw [find_interpolant_none]
  intro q hq1 hq2
  have hsuf : d.ahead <:+ d.source := d.skipped_suffix .spaces_and_comments
  have hdrop : d.source.drop (d.offset d.ahead) = d.ahead := d.drop_offset _ hsuf
  have hl1 := hsuf.length_le
  have hl2 := ht.length_le
  have hb : d.offset d.ahead = d.source.length - d.ahead.length := rfl
  have he : d.offset t = d.source.length - t.length := rfl
  have hi := h (q - d.offset d.ahead) (by omega)
  have e : d.source.drop q = d.ahead.drop (q - d.offset d.ahead) := by
    have e1 := List.drop_drop (q - d.offset d.ahead) (d.offset d.ahead) d.source
    rw [hdrop] at e1
    rw [e1]
    congr 1
    omega
  unfold opens_interpolant at hi ⊢
  rw [e]
  exact hi

/-- The production `parse_factor` at a literal token, before a byte that ends a token:
the token is taken whole, and the node has no flag set. -/
theorem parse_factor_literal (f : Nat) (d : Document) (c : Char) (rest : List Char)
    (h : literal_token d.ahead (c :: rest)) (hc : is_token_end c) :
    ∃ n, parse (f + 3) .parse_factor d = .ok (n, d.lexed_to (c :: rest)) ∧
      n.unmarked = true := by
  obtain ⟨f1, f2, f3, f4, f5, f6, hv⟩ := literal_token_facts _ c rest h hc
  have e0 : parse (f + 3) .parse_factor d = parse_factor (parse (f + 2)) d := rfl
  have e1 : parse (f + 2) .parse_value d = parse_value (parse (f + 1)) d := rfl
  have e2 : parse (f + 1) .parse_string d = parse_string (parse f) d := rfl
  rw [e0]
  unfold parse_factor
  simp only [bind_apply, lex_miss d _ f1, lex_miss d _ f2, lex_miss d _ f3,
    Bool.false_eq_true, if_false, e1]
  unfold parse_value
  simp only [bind_apply, peek_apply, Document.sees_ahead, f4, f5, Option.isSome_none,
    lex_miss d _ f6, Bool.false_and, Bool.false_eq_true, if_false]
  rcases hv with hv | ⟨hv, hs⟩
  · unfold value_token at hv
    obtain g | ⟨r, g⟩ := Option.eq_none_or_eq_some
      (Prelexer.sequence [Prelexer.true_kwd, Prelexer.negate Prelexer.identifier] d.ahead)
    swap
    · rw [Prelexer.alternatives_hit _ _ _ _ g] at hv
      cases hv
      simp only [bind_apply, lex_hit d _ _ g, if_true]
      exact ⟨_, rfl, rfl⟩
    rw [Prelexer.alternatives_skip _ _ _ g] at hv
    simp only [bind_apply, lex_miss d _ g, Bool.false_eq_true, if_false]
    obtain g | ⟨r, g⟩ := Option.eq_none_or_eq_some
      (Prelexer.sequence [Prelexer.false_kwd, Prelexer.negate Prelexer.identifier] d.ahead)
    swap
    · rw [Prelexer.alternatives_hit _ _ _ _ g] at hv
      cases hv
      simp only [bind_apply, lex_hit d _ _ g, if_true]
      exact ⟨_, rfl, rfl⟩
    rw [Prelexer.alternatives_skip _ _ _ g] at hv
    simp only [bind_apply, lex_miss d _ g, Bool.false_eq_true, if_false]
    obtain g | ⟨r, g⟩ := Option.eq_none_or_eq_some (Prelexer.important d.ahead)
    swap
    · rw [Prelexer.alternatives_hit _ _ _ _ g] at hv
      cases hv
      simp only [bind_apply, lex_hit d _ _ g, if_true]
      exact ⟨_, rfl, rfl⟩
    rw [Prelexer.alternatives_skip _ _ _ g] at hv
    simp only [bind_apply, lex_miss d _ g, Bool.false_eq_true, if_false]
    obtain g | ⟨r, g⟩ := Option.eq_none_or_eq_some (Prelexer.identifier d.ahead)
    swap
    · rw [Prelexer.alternatives_hit _ _ _ _ g] at hv
      cases hv
      simp only [bind_apply, lex_hit d _ _ g, if_true]
      exact ⟨_, rfl, rfl⟩
    rw [Prelexer.alternatives_skip _ _ _ g] at hv
    simp only [bind_apply, lex_miss d _ g, Bool.false_eq_true, if_false]
    obtain g | ⟨r, g⟩ := Option.eq_none_or_eq_some (Prelexer.percentage d.ahead)
    swap
    · rw [Prelexer.alternatives_hit _ _ _ _ g] at hv
      cases hv
      simp only [bind_apply, lex_hit d _ _ g, if_true]
      exact ⟨_, rfl, rfl⟩
    rw [Prelexer.alternatives_skip _ _ _ g] at hv
    simp only [bind_apply, lex_miss d _ g, Bool.false_eq_true, if_false]
    obtain g | ⟨r, g⟩ := Option.eq_none_or_eq_some (Prelexer.dimension d.ahead)
    swap
    · rw [Prelexer.alternatives_hit _ _ _ _ g] at hv
      cases hv
      simp only [bind_apply, lex_hit d _ _ g, if_true]
      exact ⟨_, rfl, rfl⟩
    rw [Prelexer.alternatives_skip _ _ _ g] at hv
    simp only [bind_apply, lex_miss d _ g, Bool.false_eq_true, if_false]
    obtain g | ⟨r, g⟩ := Option.eq_none_or_eq_some (Prelexer.number d.ahead)
    swap
    · rw [Prelexer.alternatives_hit _ _ _ _ g] at hv
      cases hv
      simp only [bind_apply, lex_hit d _ _ g, if_true]
      exact ⟨_, rfl, rfl⟩
    rw [Prelexer.alternatives_skip _ _ _ g] at hv
    simp only [bind_apply, lex_miss d _ g, Bool.false_eq_true, if_false]
    obtain g | ⟨r, g⟩ := Option.eq_none_or_eq_some (Prelexer.hex d.ahead)
    swap
    · rw [Prelexer.alternatives_hit _ _ _ _ g] at hv
      cases hv
      simp only [bind_apply, lex_hit d _ _ g, if_true]
      exact ⟨_, rfl, rfl⟩
    rw [Prelexer.alternatives_skip _ _ _ g] at hv
    cases hv
  · unfold value_token at hv
    obtain ⟨g1, hv⟩ := Prelexer.alternatives_none _ _ _ hv
    obtain ⟨g2, hv⟩ := Prelexer.alternatives_none _ _ _ hv
    obtain ⟨g3, hv⟩ := Prelexer.alternatives_none _ _ _ hv
    obtain ⟨g4, hv⟩ := Prelexer.alternatives_none _ _ _ hv
    obtain ⟨g5, hv⟩ := Prelexer.alternatives_none _ _ _ hv
    obtain ⟨g6, hv⟩ := Prelexer.alternatives_none _ _ _ hv
    obtain ⟨g7, hv⟩ := Prelexer.alternatives_none _ _ _ hv
    obtain ⟨g8, -⟩ := Prelexer.alternatives_none _ _ _ hv
    have hno : ∀ i, i < d.ahead.length - (c :: rest).length →
        opens_interpolant d.ahead i = false := by
      cases h with
      | string _ hno => exact hno
      | true_word h =>
        exact absurd ((Prelexer.exactly_s_eq_some _ _ _).1 h) (by
          obtain ⟨r, e | e⟩ := Prelexer.string_constant_head _ _ hs <;> rw [e] <;> simp)
      | false_word h =>
        exact absurd ((Prelexer.exactly_s_eq_some _ _ _).1 h) (by
          obtain ⟨r, e | e⟩ := Prelexer.string_constant_head _ _ hs <;> rw [e] <;> simp)
      | identifier h _ _ _ => rw [g4] at h; cases h
      | number h => rw [g7] at h; cases h
      | percentage h => rw [g5] at h; cases h
      | dimension h => rw [g6] at h; cases h
      | hex h => rw [g8] at h; cases h
    have hfind := find_interpolant_token d (c :: rest) (literal_token_suffix _ _ h).1 hno
    simp only [bind_apply, peek_apply, Document.sees_ahead, lex_miss d _ g1, lex_miss d _ g2, lex_miss d _ g3, lex_miss d _ g4,
      lex_miss d _ g5, lex_miss d _ g6, lex_miss d _ g7, lex_miss d _ g8, hs,
      Option.isSome_some, Bool.false_eq_true, if_false, if_true, e2]
    unfold parse_string
    simp only [bind_apply, lex_hit d _ _ hs, get_lexed, find_in_interval]
    have hfind2 : find_first_in_interval interpolant_start (d.lexed_to (c :: rest)).source
        (d.lexed_to (c :: rest)).lexed.begin (d.lexed_to (c :: rest)).lexed.end_ = none := hfind
    simp only [hfind2]
    exact ⟨_, rfl, rfl⟩

theorem Node.unmarked_push (acc c : Node) (ha : acc.unmarked = true) (hc : c.unmarked = true) :
    ((acc.push_back c).set_should_eval
      ((acc.push_back c).should_eval || c.should_eval)).unmarked = true := by
  have hc2 := hc
  rw [Node.unmarked_eq] at ha hc2
  simp only [Bool.and_eq_true, Bool.not_eq_true'] at ha hc2
  rw [Node.unmarked_eq]
  simp [Node.set_should_eval, Node.push_back, ha.1, ha.2, hc, hc2.1]

theorem is_token_end_of_run (ws : List Char) (c : Char) (rest : List Char)
    (hws : ∀ x ∈ ws, Prelexer.isspace x = true) (hc : is_token_end c) :
    ∃ c1 rest1, ws ++ c :: rest = c1 :: rest1 ∧ is_token_end c1 := by
  cases ws with
  | nil => exact ⟨c, rest, rfl, hc⟩
  | cons w ws => exact ⟨w, ws ++ c :: rest, rfl, Or.inl (hws w (List.mem_cons_self _ _))⟩

theorem is_token_end_of_spaces (ws s : List Char) (hne : ws ≠ [])
    (hws : ∀ x ∈ ws, Prelexer.isspace x = true) :
    ∃ c1 rest1, ws ++ s = c1 :: rest1 ∧ is_token_end c1 := by
  cases ws with
  | nil => exact absurd rfl hne
  | cons w ws => exact ⟨w, ws ++ s, rfl, Or.inl (hws w (List.mem_cons_self _ _))⟩

/-- The text at the cursor when whitespace and a byte that ends a list come next. -/
theorem Document.ahead_end (d : Document) (ws : List Char) (c : Char) (rest : List Char)
    (hws : ∀ x ∈ ws, Prelexer.isspace x = true) (hc : is_list_end c)
    (h : d.source.drop d.position = ws ++ c :: rest) : d.ahead = c :: rest := by
  unfold Document.ahead
  rw [h]
  exact after_whitespace_run ws c rest hws hc.not_space.1 hc.not_space.2

/-- The text at the cursor when whitespace and a literal token come next. -/
theorem Document.ahead_item (d : Document) (ws s t : List Char)
    (hws : ∀ x ∈ ws, Prelexer.isspace x = true) (htok : literal_token s t)
    (h : d.source.drop d.position = ws ++ s) : d.ahead = s := by
  obtain ⟨c, r, rfl, hc⟩ := literal_token_head s t htok
  unfold Document.ahead
  rw [h]
  exact after_whitespace_run ws c r hws (literal_head_not_space hc)
    (ne_of_literal_head hc (by decide))

theorem space_literals_head (s t : List Char) (h : space_literals s t) :
    ∃ t1, literal_token s t1 := by
  cases h with
  | last _ ws c rest htok _ _ => exact ⟨_, htok⟩
  | next _ ws s1 _ htok _ _ _ _ => exact ⟨_, htok⟩

theorem space_literals_shorter (s t : List Char) (h : space_literals s t) :
    t.length < s.length := by
  induction h with
  | last a ws c rest htok _ _ => exact (literal_token_suffix _ _ htok).2
  | next a ws s t htok _ _ _ _ ih =>
    have := (literal_token_suffix _ _ htok).2
    simp only [List.length_append] at this
    omega

theorem comma_literals_head (s t : List Char) (h : comma_literals s t) :
    ∃ t1, literal_token s t1 := by
  cases h with
  | last _ ws c rest hs _ _ => exact space_literals_head _ _ hs
  | next _ ws ws2 s2 _ hs _ _ _ => exact space_literals_head _ _ hs

/-- The production `parse_disjunction` at a literal token that no operator follows: the
token is taken whole, and the node has no flag set. -/
theorem parse_disjunction_literal (F : Nat) (hF : 8 ≤ F) (d : Document) (t : List Char)
    (h : literal_token d.ahead t) (hend : ∃ c rest, t = c :: rest ∧ is_token_end c)
    (hop : ∀ d1 : Document, d1.source.drop d1.position = t → d1.sees_operator = false) :
    ∃ n d1, parse F .parse_disjunction d = .ok (n, d1) ∧ n.unmarked = true ∧
      d1.source = d.source ∧ d1.source.drop d1.position = t := by
  obtain ⟨f, rfl⟩ : ∃ f, F = f + 8 := ⟨F - 8, by omega⟩
  obtain ⟨c, rest, rfl, hc⟩ := hend
  obtain ⟨n, hp, hn⟩ := parse_factor_literal f d c rest h hc
  obtain ⟨hs1, ht1⟩ := d.lexed_to_text (c :: rest) (literal_token_suffix _ _ h).1
  exact ⟨n, _, (parse_disjunction_of_factor (f + 2) d _ n hp (hop _ ht1)).2.2.2.2, hn, hs1, ht1⟩

/-- The loop of `parse_space_list` at literal tokens: every token is pushed to the list,
and no flag is set. -/
theorem parse_space_list_loop_literals (s t : List Char) (h : space_literals s t) :
    ∀ (F : Nat) (d : Document) (acc : Node), d.ahead = s → is_list_item s →
      s.length + 9 ≤ F → acc.unmarked = true →
      ∃ n d1, parse F (.parse_space_list_loop acc) d = .ok (n, d1) ∧ n.unmarked = true ∧
        d1.source = d.source ∧ d1.source.drop d1.position = t := by
  induction h with
  | last a ws c rest htok hws hc =>
    intro F d acc ha hitem hF hacc
    subst ha
    obtain ⟨F1, rfl⟩ : ∃ F1, F = F1 + 2 := ⟨F - 2, by omega⟩
    obtain ⟨-, hend0⟩ := d.literal_item_ahead _ _ rfl htok hitem
    obtain ⟨n1, d1, hp, hn1, hs1, ht1⟩ := parse_disjunction_literal (F1 + 1) (by omega) d _ htok
      (is_token_end_of_run ws c rest hws (Or.inr hc))
      (fun d1 h1 => (d1.list_end_ahead c rest (d1.ahead_end ws c rest hws hc h1) hc).1)
    obtain ⟨-, hend1⟩ := d1.list_end_ahead c rest (d1.ahead_end ws c rest hws hc ht1) hc
    have e0 : parse (F1 + 2) (.parse_space_list_loop acc) d =
        parse_space_list_loop (parse (F1 + 1)) acc d := rfl
    have e1 : ∀ acc1, parse (F1 + 1) (.parse_space_list_loop acc1) d1 =
        parse_space_list_loop (parse F1) acc1 d1 := fun _ => rfl
    rw [e0]
    unfold parse_space_list_loop
    simp only [bind_apply, space_list_end_apply, hend0, Bool.not_false, if_true, hp, e1]
    unfold parse_space_list_loop
    simp only [bind_apply, space_list_end_apply, hend1, Bool.not_true, Bool.false_eq_true,
      if_false, pure_apply]
    exact ⟨_, _, rfl, Node.unmarked_push acc n1 hacc hn1, hs1, ht1⟩
  | next a ws s t htok hne hws hitem1 hrest ih =>
    intro F d acc ha hitem hF hacc
    subst ha
    obtain ⟨F1, rfl⟩ : ∃ F1, F = F1 + 1 := ⟨F - 1, by omega⟩
    obtain ⟨t1, htok1⟩ := space_literals_head _ _ hrest
    have hlen := (literal_token_suffix _ _ htok).2
    simp only [List.length_append] at hlen
    have hwl : 0 < ws.length := List.length_pos.2 hne
    obtain ⟨-, hend0⟩ := d.literal_item_ahead _ _ rfl htok hitem
    obtain ⟨n1, d1, hp, hn1, hs1, ht1⟩ := parse_disjunction_literal F1 (by omega) d _ htok
      (is_token_end_of_spaces ws s hne hws)
      (fun d1 h1 => (d1.literal_item_ahead s t1 (d1.ahead_item ws s t1 hws htok1 h1) htok1
        hitem1).1)
    obtain ⟨n, d2, hq, hn, hs2, ht2⟩ := ih F1 d1 _ (d1.ahead_item ws s t1 hws htok1 ht1) hitem1
      (by omega) (Node.unmarked_push acc n1 hacc hn1)
    have e0 : parse (F1 + 1) (.parse_space_list_loop acc) d =
        parse_space_list_loop (parse F1) acc d := rfl
    rw [e0]
    unfold parse_space_list_loop
    simp only [bind_apply, space_list_end_apply, hend0, Bool.not_false, if_true, hp]
    exact ⟨n, d2, hq, hn, hs2.trans hs1, ht2⟩

/-- The production `parse_space_list` at literal tokens with whitespace between them:
the tokens are taken up to the end of the list, and no node of the result has a flag
set. -/
theorem parse_space_list_literals (s t : List Char) (h : space_literals s t) (F : Nat)
    (d : Document) (ha : d.ahead = s) (hF : s.length + 10 ≤ F) :
    ∃ n d1, parse F .parse_space_list d = .ok (n, d1) ∧ n.unmarked = true ∧
      d1.source = d.source ∧ d1.source.drop d1.position = t := by
  subst ha
  obtain ⟨F1, rfl⟩ : ∃ F1, F = F1 + 1 := ⟨F - 1, by omega⟩
  have e0 : parse (F1 + 1) .parse_space_list d = parse_space_list (parse F1) d := rfl
  rw [e0]
  unfold parse_space_list
  cases h with
  | last _ ws c rest htok hws hc =>
    obtain ⟨n1, d1, hp, hn1, hs1, ht1⟩ := parse_disjunction_literal F1 (by omega) d _ htok
      (is_token_end_of_run ws c rest hws (Or.inr hc))
      (fun d1 h1 => (d1.list_end_ahead c rest (d1.ahead_end ws c rest hws hc h1) hc).1)
    obtain ⟨-, hend1⟩ := d1.list_end_ahead c rest (d1.ahead_end ws c rest hws hc ht1) hc
    simp only [bind_apply, hp, space_list_end_apply, hend1, if_true, pure_apply]
    exact ⟨_, _, rfl, hn1, hs1, ht1⟩
  | next _ ws s1 _ htok hne hws hitem1 hrest =>
    obtain ⟨t1, htok1⟩ := space_literals_head _ _ hrest
    have hlen := (literal_token_suffix _ _ htok).2
    simp only [List.length_append] at hlen
    have hwl : 0 < ws.length := List.length_pos.2 hne
    obtain ⟨n1, d1, hp, hn1, hs1, ht1⟩ := parse_disjunction_literal F1 (by omega) d _ htok
      (is_token_end_of_spaces ws s1 hne hws)
      (fun d1 h1 => (d1.literal_item_ahead s1 t1 (d1.ahead_item ws s1 t1 hws htok1 h1) htok1
        hitem1).1)
    have ha1 := d1.ahead_item ws s1 t1 hws htok1 ht1
    obtain ⟨-, hend1⟩ := d1.literal_item_ahead s1 t1 ha1 htok1 hitem1
    obtain ⟨n, d2, hq, hn, hs2, ht2⟩ := parse_space_list_loop_literals s1 t hrest F1 d1
      (((⟨.space_list, d1.path, d1.line, Token.make, false, false, []⟩ : Node).push_back
        n1).set_should_eval
        (((⟨.space_list, d1.path, d1.line, Token.make, false, false, []⟩ : Node).push_back
          n1).should_eval || n1.should_eval))
      ha1 hitem1 (by omega) (Node.unmarked_push _ n1 rfl hn1)
    simp only [bind_apply, hp, space_list_end_apply, hend1, Bool.false_eq_true, if_false,
      new_Node]
    exact ⟨n, d2, hq, hn, hs2.trans hs1, ht2⟩

/-- The loop of `parse_comma_list` at a comma before literal tokens. -/
theorem parse_comma_list_loop_literals (s t : List Char) (h : comma_literals s t) :
    ∀ (F : Nat) (d : Document) (acc : Node) (ws2 : List Char),
      (∀ x ∈ ws2, Prelexer.isspace x = true) → d.ahead = ',' :: (ws2 ++ s) →
      s.length + 12 ≤ F → acc.unmarked = true →
      ∃ n d1, parse F (.parse_comma_list_loop acc) d = .ok (n, d1) ∧ n.unmarked = true ∧
        d1.source = d.source ∧ d1.source.drop d1.position = t := by
  induction h with
  | last s ws c rest hsp hws hc =>
    intro F d acc ws2 hws2 ha hF hacc
    obtain ⟨F1, rfl⟩ : ∃ F1, F = F1 + 2 := ⟨F - 2, by omega⟩
    obtain ⟨t1, htok1⟩ := space_literals_head _ _ hsp
    have hm : Prelexer.exactly ',' d.ahead = some (ws2 ++ s) := by rw [ha]; rfl
    have hsuf : ws2 ++ s <:+ d.ahead := by rw [ha]; exact List.suffix_cons _ _
    obtain ⟨hs0, ht0⟩ := d.lexed_to_text _ hsuf
    have ha0 := (d.lexed_to (ws2 ++ s)).ahead_item ws2 s t1 hws2 htok1 ht0
    obtain ⟨n1, d1, hp, hn1, hs1, ht1⟩ := parse_space_list_literals s _ hsp (F1 + 1) _ ha0
      (by omega)
    have hle : is_list_end c := by
      rcases hc with rfl | rfl | rfl | rfl <;> simp [is_list_end]
    have ha1 := d1.ahead_end ws c rest hws hle ht1
    have hc1 : c ≠ ',' := by
      rcases hc with rfl | rfl | rfl | rfl <;> decide
    have hm1 : Prelexer.exactly ',' d1.ahead = none := by
      rw [ha1]
      exact Prelexer.exactly_head_ne ',' c rest hc1
    have e0 : parse (F1 + 2) (.parse_comma_list_loop acc) d =
        parse_comma_list_loop (parse (F1 + 1)) acc d := rfl
    have e1 : ∀ acc1, parse (F1 + 1) (.parse_comma_list_loop acc1) d1 =
        parse_comma_list_loop (parse F1) acc1 d1 := fun _ => rfl
    rw [e0]
    unfold parse_comma_list_loop
    simp only [bind_apply, lex_hit d _ _ hm, if_true, hp, e1]
    unfold parse_comma_list_loop
    simp only [bind_apply, lex_miss d1 _ hm1, Bool.false_eq_true, if_false, pure_apply]
    exact ⟨_, _, rfl, Node.unmarked_push acc n1 hacc hn1, hs1.trans hs0, ht1⟩
  | next s ws ws3 s2 t hsp hws hws3 hrest ih =>
    intro F d acc ws2 hws2 ha hF hacc
    obtain ⟨F1, rfl⟩ : ∃ F1, F = F1 + 1 := ⟨F - 1, by omega⟩
    obtain ⟨t1, htok1⟩ := space_literals_head _ _ hsp
    have hlen := space_literals_shorter _ _ hsp
    simp only [List.length_append, List.length_cons] at hlen
    have hm : Prelexer.exactly ',' d.ahead = some (ws2 ++ s) := by rw [ha]; rfl
    have hsuf : ws2 ++ s <:+ d.ahead := by rw [ha]; exact List.suffix_cons _ _
    obtain ⟨hs0, ht0⟩ := d.lexed_to_text _ hsuf
    have ha0 := (d.lexed_to (ws2 ++ s)).ahead_item ws2 s t1 hws2 htok1 ht0
    obtain ⟨n1, d1, hp, hn1, hs1, ht1⟩ := parse_space_list_literals s _ hsp F1 _ ha0
      (by omega)
    have ha1 := d1.ahead_end ws ',' (ws3 ++ s2) hws (by simp [is_list_end]) ht1
    obtain ⟨n, d2, hq, hn, hs2, ht2⟩ := ih F1 d1 _ ws3 hws3 ha1 (by omega)
      (Node.unmarked_push acc n1 hacc hn1)
    have e0 : parse (F1 + 1) (.parse_comma_list_loop acc) d =
        parse_comma_list_loop (parse F1) acc d := rfl
    rw [e0]
    unfold parse_comma_list_loop
    simp only [bind_apply, lex_hit d _ _ hm, if_true, hp]
    exact ⟨n, d2, hq, hn, (hs2.trans hs1).trans hs0, ht2⟩

/-- The production `parse_comma_list` at literal tokens with whitespace and commas
between them. -/
theorem parse_comma_list_literals (s t : List Char) (h : comma_literals s t) (F : Nat)
    (d : Document) (ha : d.ahead = s) (hF : s.length + 12 ≤ F) :
    ∃ n d1, parse F .parse_comma_list d = .ok (n, d1) ∧ n.unmarked = true ∧
      d1.source = d.source ∧ d1.source.drop d1.position = t := by
  obtain ⟨F1, rfl⟩ : ∃ F1, F = F1 + 1 := ⟨F - 1, by omega⟩
  obtain ⟨t0, htok0⟩ := comma_literals_head _ _ h
  have hfirst := d.literal_ahead s t0 ha htok0
  unfold Document.at_comma_list_end at hfirst
  simp only [Bool.or_eq_false_iff] at hfirst
  obtain ⟨⟨⟨p1, p2⟩, p3⟩, p4⟩ := hfirst
  have e0 : parse (F1 + 1) .parse_comma_list d = parse_comma_list (parse F1) d := rfl
  rw [e0]
  unfold parse_comma_list
  simp only [bind_apply, peek_apply, p1, p2, p3, p4, Bool.or_self, Bool.false_eq_true, if_false]
  cases h with
  | last _ ws c rest hsp hws hc =>
    obtain ⟨n1, d1, hp, hn1, hs1, ht1⟩ := parse_space_list_literals s _ hsp F1 d ha (by omega)
    have hle : is_list_end c := by
      rcases hc with rfl | rfl | rfl | rfl <;> simp [is_list_end]
    have ha1 := d1.ahead_end ws c rest hws hle ht1
    have hc1 : c ≠ ',' := by
      rcases hc with rfl | rfl | rfl | rfl <;> decide
    have hm1 : d1.sees .spaces_and_comments (Prelexer.exactly ',') = false := by
      rw [Document.sees_ahead, ha1, Prelexer.exactly_head_ne ',' c rest hc1]
      rfl
    simp only [hp, hm1, Bool.not_false, if_true, pure_apply]
    exact ⟨_, _, rfl, hn1, hs1, ht1⟩
  | next _ ws ws3 s2 _ hsp hws hws3 hrest =>
    have hlen := space_literals_shorter _ _ hsp
    simp only [List.length_append, List.length_cons] at hlen
    obtain ⟨n1, d1, hp, hn1, hs1, ht1⟩ := parse_space_list_literals s _ hsp F1 d ha (by omega)
    have ha1 := d1.ahead_end ws ',' (ws3 ++ s2) hws (by simp [is_list_end]) ht1
    have hm1 : d1.sees .spaces_and_comments (Prelexer.exactly ',') = true := by
      rw [Document.sees_ahead, ha1]
      rfl
    obtain ⟨n, d2, hq, hn, hs2, ht2⟩ := parse_comma_list_loop_literals s2 t hrest F1 d1
      (((⟨.comma_list, d1.path, d1.line, Token.make, false, false, []⟩ : Node).push_back
        n1).set_should_eval
        (((⟨.comma_list, d1.path, d1.line, Token.make, false, false, []⟩ : Node).push_back
          n1).should_eval || n1.should_eval))
      ws3 hws3 ha1 (by omega) (Node.unmarked_push _ n1 rfl hn1)
    simp only [hp, hm1, Bool.not_true, Bool.false_eq_true, if_false, new_Node, bind_apply]
    exact ⟨n, d2, hq, hn, hs2.trans hs1, ht2⟩

/-- C7, amended: let the text at the cursor be, after optional whitespace, one or more
literal tokens (the word `true` or `false`; an identifier that does not start with `-` and
is not `true` or `false` continued by something other than an identifier; a number, a
percentage, a dimension, a hex colour; a string constant in which no `#{` stands), with
whitespace between the tokens of a run and a comma, with optional whitespace around it,
between the runs, where no token after the first of a run starts with `+` or with the
connective `and` or `or`, and let optional whitespace and one of `;` `}` `{` `)` come
after the last token.  Then `parse_list`, with fuel for the length of the buffer, returns
a node, every node of the result has `should_eval = false`, and the cursor is right
after the last token. -/
theorem literal_tokens_unmarked (fuel : Nat) (d : Document) (ws s t : List Char)
    (htext : d.source.drop d.position = ws ++ s)
    (hws : ∀ x ∈ ws, Prelexer.isspace x = true) (hs : comma_literals s t)
    (hfuel : d.source.length + 13 ≤ fuel) :
    ∃ n d1, parse fuel .parse_list d = .ok (n, d1) ∧
      (∀ m ∈ n.nodes, m.should_eval = false) ∧
      d1.source = d.source ∧ d1.source.drop d1.position = t := by
  obtain ⟨t0, htok0⟩ := comma_literals_head _ _ hs
  have ha : d.ahead = s := d.ahead_item ws s t0 hws htok0 htext
  have hlen : s.length ≤ d.source.length := by
    have h1 := congrArg List.length htext
    simp only [List.length_drop, List.length_append] at h1
    omega
  obtain ⟨F1, rfl⟩ : ∃ F1, fuel = F1 + 1 := ⟨fuel - 1, by omega⟩
  obtain ⟨n, d1, hp, hn, hs1, ht1⟩ := parse_comma_list_literals s t hs F1 d ha (by omega)
  exact ⟨n, d1, hp, Node.unmarked_nodes n hn, hs1, ht1⟩

/-- C7, amended, at `a 1px, "s" #fff true 50% -2;`: the two runs `a 1px` and
`"s" #fff true 50% -2`, up to the `;`. -/
theorem literal_tokens_unmarked_witness :
    comma_literals "a 1px, \"s\" #fff true 50% -2;".toList ";".toList ∧
    ∃ n d1, parse 100 .parse_list (Document.of_string "a 1px, \"s\" #fff true 50% -2;") =
        .ok (n, d1) ∧
      (∀ m ∈ n.nodes, m.should_eval = false) ∧
      d1.source = (Document.of_string "a 1px, \"s\" #fff true 50% -2;").source ∧
      d1.source.drop d1.position = ";".toList :=
  have h : comma_literals "a 1px, \"s\" #fff true 50% -2;".toList ";".toList :=
    comma_literals.next _ [] [' '] "\"s\" #fff true 50% -2;".toList _
      (space_literals.next _ [' '] "1px, \"s\" #fff true 50% -2;".toList _
        (literal_token.identifier (by decide) (by decide) (by decide) (by decide))
        (by decide) (by decide) (by unfold is_list_item; decide)
        (space_literals.last _ [] ',' " \"s\" #fff true 50% -2;".toList
          (literal_token.dimension (by decide)) (by decide) (by unfold is_list_end; decide)))
      (by decide) (by decide)
      (comma_literals.last _ [] ';' []
        (space_literals.next _ [' '] "#fff true 50% -2;".toList _
          (literal_token.string (by decide) (by decide))
          (by decide) (by decide) (by unfold is_list_item; decide)
          (space_literals.next _ [' '] "true 50% -2;".toList _
            (literal_token.hex (by decide))
            (by decide) (by decide) (by unfold is_list_item; decide)
            (space_literals.next _ [' '] "50% -2;".toList _
              (literal_token.true_word (by decide))
              (by decide) (by decide) (by unfold is_list_item; decide)
              (space_literals.next _ [' '] "-2;".toList _
                (literal_token.percentage (by decide))
                (by decide) (by decide) (by unfold is_list_item; decide)
                (space_literals.last _ [] ';' []
                  (literal_token.number (by decide)) (by decide)
                  (by unfold is_list_end; decide))))))
        (by decide) (by decide))
  ⟨h, literal_tokens_unmarked 100 (Document.of_string "a 1px, \"s\" #fff true 50% -2;") []
    "a 1px, \"s\" #fff true 50% -2;".toList ";".toList (by decide) (by decide) h (by decide)⟩

end Sass
